import Mathlib

/-!
# libtcptools: session manager, flow index, queue and reordering classifier

A shallow embedding of `src/lib/sessionmanager.c`, `src/lib/hashtable.c`,
`src/lib/tcpsession.c`, `src/lib/queue.c`, `src/lib/reordering.c` and
`src/lib/rtthandshake.c`.

Conventions of the embedding.

* A `tcp_session_t *` is a natural number (an address); the process memory that
  holds the session records is the field `heap` of the manager state, a freed
  or never allocated address maps to `none`, and `malloc` hands out the fresh
  address `brk`.
* Code that dereferences a dead pointer or indexes outside an array has no
  defined behaviour in C; such a run ends in `fault.undefined_behaviour`.
* The recursion of `session_manager_update` and the iterator loop of
  `session_manager_cleanup` take a fuel argument; `fault.out_of_fuel` is the
  outcome of a run that needs more of it.
* Machine integers are natural numbers, reduced modulo `2^32` (or `2^8`) where
  the C arithmetic can wrap.
* The calls made through the function pointers of a `session_module_t` are
  recorded, in order, in the field `calls`.
-/

namespace TcpTools

/-! ## Constants -/

/-- Constant `SM_TIMER_QUEUE_LENGTH` of sessionmanager.c. -/
def SM_TIMER_QUEUE_LENGTH : Nat := 100000

/-- Constant `SM_MODULE_ARRAY_LENGTH` of sessionmanager.c. -/
def SM_MODULE_ARRAY_LENGTH : Nat := 5

/-- Constant `SM_OUTBOUND` of sessionmanager.c. -/
def SM_OUTBOUND : Int := 0

/-- Constant `SM_INBOUND` of sessionmanager.c. -/
def SM_INBOUND : Int := 1

/-- Constant `SM_TCP_SYN_TIMEOUT` of sessionmanager.c. -/
def SM_TCP_SYN_TIMEOUT : Nat := 60

/-- Constant `SM_TIME_WAIT_TIMEOUT` of sessionmanager.c. -/
def SM_TIME_WAIT_TIMEOUT : Nat := 60

/-- Constant `ARRAY_SIZE` of hashtable.c, the number of buckets. -/
def ARRAY_SIZE : Nat := 2000003

/-! ## Outcomes -/

/-- Ways in which a run of the embedded code ends without a result. -/
inductive fault where
  | undefined_behaviour
  | out_of_fuel
  | assertion_failure
  deriving DecidableEq, Repr

/-! ## Data model (sessionmanager.h) -/

/-- Enumeration `tcp_conn_state_t`, in the order of sessionmanager.h. -/
inductive tcp_conn_state_t where
  | SYN_RCVD | SYN_SENT | ESTABLISHED | FIN_WAIT_1 | FIN_WAIT_2
  | CLOSING | TIME_WAIT | CLOSE_WAIT | LAST_ACK | CLOSED | RESET
  deriving DecidableEq, Repr

/-- Struct `tcp_session_id_t`. -/
structure tcp_session_id_t where
  ip_a : Nat
  ip_b : Nat
  port_a : Nat
  port_b : Nat
  deriving DecidableEq, Repr

/-- The opaque `void *` that the `create` callback of a module returns for a
session: it is named by the call that produced it, the position of the module
in the registry and the address of the session. -/
structure module_data where
  module : Nat
  session : Nat
  deriving DecidableEq, Repr

/-- Struct `tcp_session_t`. -/
structure tcp_session_t where
  id : tcp_session_id_t
  state : tcp_conn_state_t
  expected_ack : Nat
  waiting : Nat
  last_access : Nat
  data : List module_data
  deriving DecidableEq, Repr

/-- Struct `session_module_t`: a descriptor of three function pointers. The
functions themselves are outside the library; a descriptor is identified by
its address. -/
structure session_module_t where
  addr : Nat
  deriving DecidableEq, Repr

/-! ## Packets (the libtrace accessors) -/

/-- The fields of `struct libtrace_ip` that the library reads, as they lie in
the packet (network byte order for `ip_len`, `ip_src`, `ip_dst`, `ip_id`). -/
structure libtrace_ip where
  ip_hl : Nat
  ip_len : Nat
  ip_src : Nat
  ip_dst : Nat
  ip_id : Nat := 0
  deriving DecidableEq, Repr

/-- The fields of `struct libtrace_tcp` that the library reads, as they lie in
the packet (network byte order for ports and sequence numbers). -/
structure libtrace_tcp where
  source : Nat
  dest : Nat
  seq : Nat
  ack_seq : Nat
  doff : Nat
  fin : Bool
  syn : Bool
  rst : Bool
  ack : Bool
  deriving DecidableEq, Repr

/-- A `libtrace_packet_t` as seen through the accessors that
`session_manager_update` calls: `trace_get_erf_timestamp`, `trace_get_ip`,
`trace_get_tcp` (absent is `NULL`) and `trace_get_direction`. -/
structure libtrace_packet_t where
  erf_timestamp : Nat
  ip : Option libtrace_ip
  tcp : Option libtrace_tcp
  direction : Int
  deriving DecidableEq, Repr

/-- Libc `ntohs` on a little-endian host: the two bytes exchanged. -/
def ntohs (x : Nat) : Nat := (x % 256) * 256 + (x / 256) % 256

/-- Libc `htons`, the same byte exchange as `ntohs`. -/
def htons (x : Nat) : Nat := ntohs x

/-- Libc `ntohl` on a little-endian host: the four bytes reversed. -/
def ntohl (x : Nat) : Nat :=
  (x % 256) * 16777216 + (x / 256 % 256) * 65536 + (x / 65536 % 256) * 256 + (x / 16777216) % 256

/-- Libc `htonl`, the same byte reversal as `ntohl`. -/
def htonl (x : Nat) : Nat := ntohl x

/-- A call made through a function pointer of a registered module. -/
inductive module_call where
  | create (module : Nat) (descriptor : session_module_t) (session : Nat)
  | update (module : Nat) (descriptor : session_module_t) (data : module_data)
      (packet : libtrace_packet_t)
  | destroy (module : Nat) (descriptor : session_module_t) (data : module_data)
  deriving DecidableEq, Repr

/-! ## tcpsession.c -/

/-- Function `tcp_session_id_equals` of tcpsession.c (the C `int` result 1/0 is
a `Bool`). -/
def tcp_session_id_equals (id1 id2 : tcp_session_id_t) : Bool :=
  if id1.ip_a ≠ id2.ip_a then false
  else if id1.ip_b ≠ id2.ip_b then false
  else if id1.port_a ≠ id2.port_a then false
  else if id1.port_b ≠ id2.port_b then false
  else true

/-! ## hashtable.c -/

/-- Struct `hashtable_t`: the array of buckets. The chain of `hash_entry` nodes
hanging off bucket `i` is the list `arr i` of the session pointers the nodes
hold, the head of the chain first; `NULL` is the empty list. -/
structure hashtable_t where
  arr : Nat → List Nat

/-- Struct `hashtable_iterator_t`. The pointer `entry_ptr` addresses either a
slot of the array or the `next` field of a node: it is the pair of the bucket
`entry_bucket` and the number `entry_link` of nodes of that chain that lie
before the addressed link. The C field `list_position` is never read or
written. -/
structure hashtable_iterator_t where
  array_position : Nat
  entry_bucket : Nat
  entry_link : Nat
  deriving DecidableEq, Repr

/-- Read of a session record through a pointer. -/
def deref (heap : Nat → Option tcp_session_t) (p : Nat) : Except fault tcp_session_t :=
  match heap p with
  | some s => .ok s
  | none => .error fault.undefined_behaviour

/-- Function `hashtable_create`. -/
def hashtable_create : hashtable_t := { arr := fun _ => [] }

/-- Function `hashtable_compute_hash`: the sums with a 32-bit operand wrap,
the exclusive or is taken on 32 bits, the remainder modulo `ARRAY_SIZE`. -/
def hashtable_compute_hash (id : tcp_session_id_t) : Nat :=
  ((((1 + id.ip_a) % 4294967296) ^^^ ((2 + id.ip_b) % 4294967296)
    ^^^ (4 + id.port_a) ^^^ (8 + id.port_b)) % 4294967296) % ARRAY_SIZE

/-- Function `hashtable_insert`: the new node goes to the front of its chain. -/
def hashtable_insert (heap : Nat → Option tcp_session_t) (hashtable : hashtable_t)
    (session : Nat) : Except fault hashtable_t :=
  match heap session with
  | none => .error fault.undefined_behaviour
  | some s =>
    let hash := hashtable_compute_hash s.id
    .ok { arr := fun i => if i = hash then session :: hashtable.arr hash else hashtable.arr i }

/-- The chain walk of `hashtable_retrieve`. -/
def hashtable_retrieve_chain (heap : Nat → Option tcp_session_t) (id : tcp_session_id_t) :
    List Nat → Except fault (Option Nat)
  | [] => .ok none
  | entry :: next =>
    match heap entry with
    | none => .error fault.undefined_behaviour
    | some s =>
      if tcp_session_id_equals id s.id then .ok (some entry)
      else hashtable_retrieve_chain heap id next

/-- Function `hashtable_retrieve`. -/
def hashtable_retrieve (heap : Nat → Option tcp_session_t) (hashtable : hashtable_t)
    (id : tcp_session_id_t) : Except fault (Option Nat) :=
  hashtable_retrieve_chain heap id (hashtable.arr (hashtable_compute_hash id))

/-- The chain walk of `hashtable_remove`: the chain without the first node
whose session has the ID, and that session. -/
def hashtable_remove_chain (heap : Nat → Option tcp_session_t) (id : tcp_session_id_t) :
    List Nat → Except fault (List Nat × Option Nat)
  | [] => .ok ([], none)
  | entry :: next =>
    match heap entry with
    | none => .error fault.undefined_behaviour
    | some s =>
      if tcp_session_id_equals id s.id then .ok (next, some entry)
      else
        match hashtable_remove_chain heap id next with
        | .error e => .error e
        | .ok (rest, found) => .ok (entry :: rest, found)

/-- Function `hashtable_remove`. -/
def hashtable_remove (heap : Nat → Option tcp_session_t) (hashtable : hashtable_t)
    (id : tcp_session_id_t) : Except fault (hashtable_t × Option Nat) :=
  let hash := hashtable_compute_hash id
  match hashtable_remove_chain heap id (hashtable.arr hash) with
  | .error e => .error e
  | .ok (chain, found) =>
    .ok ({ arr := fun i => if i = hash then chain else hashtable.arr i }, found)

/-- Function `hashtable_iterator_create`. -/
def hashtable_iterator_create : hashtable_iterator_t :=
  { array_position := 0, entry_bucket := 0, entry_link := 0 }

/-- The `do ... while` of `hashtable_iterator_next` that scans the array
upwards: the position of the next bucket that is not `NULL`, or `none` when
`ARRAY_SIZE` is reached. The first argument counts the positions left below
`ARRAY_SIZE`; a scan that starts at or above `ARRAY_SIZE` runs off the array. -/
def hashtable_iterator_scan (hashtable : hashtable_t) : Nat → Nat → Except fault (Option Nat)
  | 0, _ => .error fault.undefined_behaviour
  | left + 1, array_position =>
    if array_position + 1 = ARRAY_SIZE then .ok none
    else if hashtable.arr (array_position + 1) = [] then
      hashtable_iterator_scan hashtable left (array_position + 1)
    else .ok (some (array_position + 1))

/-- Function `hashtable_iterator_next`. -/
def hashtable_iterator_next (hashtable : hashtable_t) (iterator : hashtable_iterator_t) :
    Except fault (hashtable_iterator_t × Option Nat) :=
  let scan : Except fault (hashtable_iterator_t × Option Nat) :=
    match hashtable_iterator_scan hashtable (ARRAY_SIZE - iterator.array_position)
        iterator.array_position with
    | .error e => .error e
    | .ok none => .ok ({ iterator with array_position := ARRAY_SIZE }, none)
    | .ok (some pos) =>
      .ok ({ array_position := pos, entry_bucket := pos, entry_link := 0 },
        (hashtable.arr pos).head?)
  match (hashtable.arr iterator.entry_bucket).drop iterator.entry_link with
  | [] => scan
  | _ :: [] => scan
  | _ :: session :: _ =>
    .ok ({ iterator with entry_link := iterator.entry_link + 1 }, some session)

/-- Function `hashtable_iterator_remove`: unlinks the node that `entry_ptr`
addresses. -/
def hashtable_iterator_remove (hashtable : hashtable_t) (iterator : hashtable_iterator_t) :
    Except fault (hashtable_t × Nat) :=
  match (hashtable.arr iterator.entry_bucket).drop iterator.entry_link with
  | [] => .error fault.undefined_behaviour
  | session :: _ =>
    .ok ({ arr := fun i =>
            if i = iterator.entry_bucket then
              (hashtable.arr iterator.entry_bucket).eraseIdx iterator.entry_link
            else hashtable.arr i }, session)

/-! ## sessionmanager.c: state -/

/-- Struct `timer_queue_t`, the circular list of sessions in TIME_WAIT. -/
structure timer_queue_t where
  sessions : Nat → Option Nat
  times : Nat → Nat
  lower_idx : Nat
  length : Nat

/-- Struct `session_manager_t`, followed by the parts of the process state that
the functions of the manager act on: `modules_size` is the number of slots of
the `modules` array as last allocated, `heap` the memory holding the session
records, `brk` the address the next `malloc` of a session returns, `calls` the
calls made so far through module function pointers, oldest first, and
`warnings` the number of overflow messages written to `stderr`. -/
structure session_manager_t where
  hashtable : hashtable_t
  modules : Nat → Option session_module_t
  module_count : Nat
  waiting_sessions : timer_queue_t
  last_access : Nat
  last_clean : Nat
  closed_session : Option Nat
  modules_size : Nat
  heap : Nat → Option tcp_session_t
  brk : Nat
  calls : List module_call
  warnings : Nat

/-- Write of a session record through a pointer. -/
def store (manager : session_manager_t) (p : Nat) (s : tcp_session_t) : session_manager_t :=
  { manager with heap := fun q => if q = p then some s else manager.heap q }

/-- Libc `free` of a session record. -/
def free (manager : session_manager_t) (p : Nat) : Except fault session_manager_t :=
  match manager.heap p with
  | none => .error fault.undefined_behaviour
  | some _ => .ok { manager with heap := fun q => if q = p then none else manager.heap q }

/-- Function `session_manager_create`. -/
def session_manager_create : session_manager_t :=
  { hashtable := hashtable_create
    modules := fun _ => none
    module_count := 0
    waiting_sessions :=
      { sessions := fun _ => none, times := fun _ => 0, lower_idx := 0, length := 0 }
    last_access := 0
    last_clean := 0
    closed_session := none
    modules_size := SM_MODULE_ARRAY_LENGTH
    heap := fun _ => none
    brk := 0
    calls := []
    warnings := 0 }

/-- Function `session_manager_register_module`. The counter `module_count` is
a `uint8_t`; `realloc` keeps the slots below the new size. -/
def session_manager_register_module (manager : session_manager_t) (module : session_module_t) :
    Except fault (session_manager_t × Int) :=
  let count := manager.module_count
  if manager.modules_size ≤ count then .error fault.undefined_behaviour
  else
    let modules := fun i => if i = count then some module else manager.modules i
    let module_count := (manager.module_count + 1) % 256
    let count := count + 1
    let manager :=
      if count % SM_MODULE_ARRAY_LENGTH = 0 then
        let count := count + SM_MODULE_ARRAY_LENGTH
        { manager with
            modules := fun i => if i < count then modules i else none
            modules_size := count
            module_count := module_count }
      else { manager with modules := modules, module_count := module_count }
    .ok (manager, (module_count : Int) - 1)

/-! ## sessionmanager.c: the loops over the registered modules -/

/-- The loop `for (i = 0; i < module_count; i++) data[i] = modules[i]->create (session)`
run up to the bound given: the data array and the calls made. -/
def modules_create (modules : Nat → Option session_module_t) (session : Nat) :
    Nat → Except fault (List module_data × List module_call)
  | 0 => .ok ([], [])
  | i + 1 =>
    match modules_create modules session i with
    | .error e => .error e
    | .ok (data, calls) =>
      match modules i with
      | none => .error fault.undefined_behaviour
      | some d => .ok (data ++ [{ module := i, session := session }],
          calls ++ [module_call.create i d session])

/-- The loop `for (i = 0; i < module_count; i++) modules[i]->update (data[i], packet)`
run up to the bound given: the calls made. -/
def modules_update (modules : Nat → Option session_module_t) (data : List module_data)
    (packet : libtrace_packet_t) : Nat → Except fault (List module_call)
  | 0 => .ok []
  | i + 1 =>
    match modules_update modules data packet i with
    | .error e => .error e
    | .ok calls =>
      match modules i, data.get? i with
      | some d, some x => .ok (calls ++ [module_call.update i d x packet])
      | _, _ => .error fault.undefined_behaviour

/-- The loop `for (i = 0; i < module_count; i++) modules[i]->destroy (data[i])`
run up to the bound given: the calls made. -/
def modules_destroy (modules : Nat → Option session_module_t) (data : List module_data) :
    Nat → Except fault (List module_call)
  | 0 => .ok []
  | i + 1 =>
    match modules_destroy modules data i with
    | .error e => .error e
    | .ok calls =>
      match modules i, data.get? i with
      | some d, some x => .ok (calls ++ [module_call.destroy i d x])
      | _, _ => .error fault.undefined_behaviour

/-! ## sessionmanager.c: freeing sessions -/

/-- Function `session_manager_free_session`. -/
def session_manager_free_session (manager : session_manager_t) (session : Nat) :
    Except fault session_manager_t :=
  match manager.heap session with
  | none => .error fault.undefined_behaviour
  | some s =>
    match modules_destroy manager.modules s.data manager.module_count with
    | .error e => .error e
    | .ok calls =>
      match hashtable_remove manager.heap manager.hashtable s.id with
      | .error e => .error e
      | .ok (hashtable, _) =>
        free { manager with hashtable := hashtable, calls := manager.calls ++ calls } session

/-- Function `session_manager_free_module_data`. -/
def session_manager_free_module_data (manager : session_manager_t) (session : Nat) :
    Except fault session_manager_t :=
  match manager.heap session with
  | none => .error fault.undefined_behaviour
  | some s =>
    if s.waiting = 1 then .ok manager
    else
      match modules_destroy manager.modules s.data manager.module_count with
      | .error e => .error e
      | .ok calls =>
        .ok (store { manager with calls := manager.calls ++ calls } session { s with data := [] })

/-- The `while` loop of `session_manager_cleanup`; the first argument bounds
the number of calls of `hashtable_iterator_next`. -/
def session_manager_cleanup_loop (last_access : Nat) :
    Nat → session_manager_t → hashtable_iterator_t → Except fault session_manager_t
  | 0, _, _ => .error fault.out_of_fuel
  | fuel + 1, manager, itr =>
    match hashtable_iterator_next manager.hashtable itr with
    | .error e => .error e
    | .ok (_, none) => .ok manager
    | .ok (itr, some session) =>
      match manager.heap session with
      | none => .error fault.undefined_behaviour
      | some s =>
        if s.state = tcp_conn_state_t.SYN_RCVD ∨ s.state = tcp_conn_state_t.SYN_SENT then
          let difference := (last_access + 256 - s.last_access % 256) % 256
          if difference > SM_TCP_SYN_TIMEOUT then
            match hashtable_iterator_remove manager.hashtable itr with
            | .error e => .error e
            | .ok (hashtable, _) =>
              match session_manager_free_module_data
                  { manager with hashtable := hashtable } session with
              | .error e => .error e
              | .ok manager =>
                match free manager session with
                | .error e => .error e
                | .ok manager => session_manager_cleanup_loop last_access fuel manager itr
          else session_manager_cleanup_loop last_access fuel manager itr
        else session_manager_cleanup_loop last_access fuel manager itr

/-- Function `session_manager_cleanup`. -/
def session_manager_cleanup (fuel : Nat) (manager : session_manager_t) :
    Except fault session_manager_t :=
  session_manager_cleanup_loop (manager.last_access % 256) fuel manager hashtable_iterator_create

/-! ## sessionmanager.c: the TIME_WAIT queue -/

/-- Function `timer_queue_add`. The sum of the two `unsigned int` fields wraps
at `2^32` and is stored in the `int pos`, which is negative for the values from
`2^31` on; a negative `pos` and a `pos` that is still not below
`SM_TIMER_QUEUE_LENGTH` after the subtraction index outside the arrays. -/
def timer_queue_add (manager : session_manager_t) (session : Nat) (time : Nat) :
    Except fault session_manager_t :=
  let queue := manager.waiting_sessions
  let pos := (queue.lower_idx + queue.length) % 4294967296
  if pos ≥ 2147483648 then .error fault.undefined_behaviour
  else
    let pos := if pos ≥ SM_TIMER_QUEUE_LENGTH then pos - SM_TIMER_QUEUE_LENGTH else pos
    if pos ≥ SM_TIMER_QUEUE_LENGTH then .error fault.undefined_behaviour
    else
      let length := (queue.length + 1) % 4294967296
      .ok { manager with
        waiting_sessions :=
          { sessions := fun i => if i = pos then some session else queue.sessions i
            times := fun i => if i = pos then time else queue.times i
            lower_idx := queue.lower_idx
            length := length }
        warnings := if length > SM_TIMER_QUEUE_LENGTH then manager.warnings + 1
          else manager.warnings }

/-- The `while` loop of `timer_queue_free`; `current_time` is the time below
which sessions are freed. The test of the loop reads `times[lower_idx]`, which
lies outside the array when `lower_idx` is not below `SM_TIMER_QUEUE_LENGTH`.
Every round takes one off `queue->length`, so the first argument, which starts
as that length, is 0 only when the loop is over. -/
def timer_queue_free_loop (current_time : Nat) :
    Nat → session_manager_t → Except fault session_manager_t
  | 0, manager =>
    let queue := manager.waiting_sessions
    if queue.lower_idx ≥ SM_TIMER_QUEUE_LENGTH then .error fault.undefined_behaviour
    else if queue.times queue.lower_idx < current_time ∧ queue.length ≠ 0 then
      .error fault.out_of_fuel
    else .ok manager
  | rounds + 1, manager =>
    let queue := manager.waiting_sessions
    if queue.lower_idx ≥ SM_TIMER_QUEUE_LENGTH then .error fault.undefined_behaviour
    else if queue.times queue.lower_idx < current_time ∧ queue.length ≠ 0 then
      let freed : Except fault session_manager_t :=
        match queue.sessions queue.lower_idx with
        | some session => session_manager_free_session manager session
        | none => .ok manager
      match freed with
      | .error e => .error e
      | .ok manager =>
        let lower_idx := queue.lower_idx + 1
        timer_queue_free_loop current_time rounds
          { manager with
            waiting_sessions :=
              { sessions := fun i => if i = queue.lower_idx then none else queue.sessions i
                times := queue.times
                lower_idx := if lower_idx = SM_TIMER_QUEUE_LENGTH then 0 else lower_idx
                length := queue.length - 1 } }
    else .ok manager

/-- Function `timer_queue_free`. -/
def timer_queue_free (manager : session_manager_t) (current_time : Nat) :
    Except fault session_manager_t :=
  timer_queue_free_loop ((current_time + 4294967296 - SM_TIME_WAIT_TIMEOUT) % 4294967296)
    manager.waiting_sessions.length manager

/-- The `for` loop of `timer_queue_free_early`, from index `i` on with the
number of rounds left as first argument; `pos` is an `unsigned int`. -/
def timer_queue_free_early_loop (session : Nat) :
    Nat → Nat → session_manager_t → Except fault session_manager_t
  | 0, _, manager => .ok manager
  | rounds + 1, i, manager =>
    let queue := manager.waiting_sessions
    let pos := (queue.lower_idx + i) % 4294967296
    let pos := if pos ≥ SM_TIMER_QUEUE_LENGTH then pos - SM_TIMER_QUEUE_LENGTH else pos
    if pos ≥ SM_TIMER_QUEUE_LENGTH then .error fault.undefined_behaviour
    else
      match queue.sessions pos with
      | none => timer_queue_free_early_loop session rounds (i + 1) manager
      | some queued =>
        match manager.heap queued, manager.heap session with
        | some q, some s =>
          if tcp_session_id_equals q.id s.id then
            session_manager_free_session
              { manager with
                waiting_sessions :=
                  { queue with sessions := fun j => if j = pos then none else queue.sessions j } }
              session
          else timer_queue_free_early_loop session rounds (i + 1) manager
        | _, _ => .error fault.undefined_behaviour

/-- The queue `after` is the queue `before` with the session appended: the
session and the time are in the slot behind the last one in use, and the
length is one more. -/
def timer_queue_appended (before after : timer_queue_t) (session time : Nat) : Prop :=
  after.sessions ((before.lower_idx + before.length) % SM_TIMER_QUEUE_LENGTH) = some session ∧
  after.times ((before.lower_idx + before.length) % SM_TIMER_QUEUE_LENGTH) = time ∧
  after.lower_idx = before.lower_idx ∧
  after.length = before.length + 1

/-- Function `timer_queue_free_early`. -/
def timer_queue_free_early (manager : session_manager_t) (session : Nat) :
    Except fault session_manager_t :=
  timer_queue_free_early_loop session manager.waiting_sessions.length 0 manager

/-! ## sessionmanager.c: session_manager_update -/

/-- The whole second of the capture time,
`(uint32_t) (trace_get_erf_timestamp (packet) >> 32)`. -/
def packet_seconds (packet : libtrace_packet_t) : Nat :=
  (packet.erf_timestamp / 4294967296) % 4294967296

/-- Lines 228-250 of `session_manager_update`: the sweep of the TIME_WAIT
queue when the second has changed, the release of the session closed by the
previous call, and the cleanup of half-open sessions. -/
def session_manager_update_sweeps (fuel : Nat) (manager : session_manager_t)
    (current_time : Nat) : Except fault session_manager_t :=
  let swept : Except fault session_manager_t :=
    if current_time ≠ manager.last_access then
      timer_queue_free { manager with last_access := current_time } current_time
    else .ok manager
  match swept with
  | .error e => .error e
  | .ok manager =>
    let released : Except fault session_manager_t :=
      match manager.closed_session with
      | none => .ok manager
      | some closed =>
        match manager.heap closed with
        | none => .error fault.undefined_behaviour
        | some c =>
          if c.waiting = 0 then
            match session_manager_free_session manager closed with
            | .error e => .error e
            | .ok manager => .ok { manager with closed_session := none }
          else .ok { manager with closed_session := none }
    match released with
    | .error e => .error e
    | .ok manager =>
      if (current_time + 4294967296 - manager.last_clean) % 4294967296 > SM_TCP_SYN_TIMEOUT then
        session_manager_cleanup fuel { manager with last_clean := current_time }
      else .ok manager

/-- Lines 264-274 of `session_manager_update`: the ID under which the packet
is looked up. -/
def session_id_of (ip : libtrace_ip) (tcp : libtrace_tcp) : tcp_session_id_t :=
  if ip.ip_src < ip.ip_dst then
    { ip_a := ip.ip_src, ip_b := ip.ip_dst, port_a := ntohs tcp.source, port_b := ntohs tcp.dest }
  else
    { ip_a := ip.ip_dst, ip_b := ip.ip_src, port_a := htons tcp.dest, port_b := htons tcp.source }

/-- The expression `ntohl (tcp->seq) + ntohs (ip->ip_len) - ((ip->ip_hl + tcp->doff) << 2)`
of lines 309, 335, 365 and 417, evaluated on 32 bits. -/
def seq_plus_payload (ip : libtrace_ip) (tcp : libtrace_tcp) : Nat :=
  Int.toNat (((ntohl tcp.seq : Int) + (ntohs ip.ip_len : Int)
    - (((ip.ip_hl + tcp.doff) * 4 : Nat) : Int)) % 4294967296)

/-- Lines 283-314 of `session_manager_update`, the packet of an unknown flow.
The fields `state` and `expected_ack`, which the C code assigns after the
insertion and before any read, are set when the record is allocated;
`last_access` is assigned at line 443. -/
def session_manager_update_new (manager : session_manager_t) (ip : libtrace_ip)
    (tcp : libtrace_tcp) (id : tcp_session_id_t) (direction : Int) :
    Except fault (session_manager_t × Option Nat) :=
  if tcp.syn && !tcp.ack then
    let session := manager.brk
    match modules_create manager.modules session manager.module_count with
    | .error e => .error e
    | .ok (data, calls) =>
      let s : tcp_session_t :=
        { id := id
          state := if direction = SM_OUTBOUND then tcp_conn_state_t.SYN_SENT
            else tcp_conn_state_t.SYN_RCVD
          expected_ack := if direction = SM_OUTBOUND then seq_plus_payload ip tcp
            else 4294967295
          waiting := 0
          last_access := 0
          data := data }
      let manager :=
        store { manager with brk := manager.brk + 1, calls := manager.calls ++ calls } session s
      match hashtable_insert manager.heap manager.hashtable session with
      | .error e => .error e
      | .ok hashtable => .ok ({ manager with hashtable := hashtable }, some session)
  else .ok (manager, none)

/-- Lines 317-438 of `session_manager_update`, the packet of a known flow: the
RST test and the `switch` over the state. The Boolean is true when the
TIME_WAIT case has freed the session and calls `session_manager_update` again. -/
def session_manager_update_state (manager : session_manager_t) (current_time : Nat)
    (direction : Int) (ip : libtrace_ip) (tcp : libtrace_tcp) (session : Nat) :
    Except fault (session_manager_t × Bool) :=
  match manager.heap session with
  | none => .error fault.undefined_behaviour
  | some s0 =>
    let s : tcp_session_t := if tcp.rst then { s0 with state := tcp_conn_state_t.RESET } else s0
    let manager : session_manager_t :=
      if tcp.rst then { store manager session s with closed_session := some session }
      else manager
    match s.state with
    | tcp_conn_state_t.SYN_RCVD =>
      if direction = SM_OUTBOUND then
        if tcp.syn && tcp.ack then
          .ok (store manager session { s with expected_ack := seq_plus_payload ip tcp }, false)
        else .ok (manager, false)
      else
        if tcp.ack && decide (ntohl tcp.ack_seq ≥ s.expected_ack) then
          .ok (store manager session { s with state := tcp_conn_state_t.ESTABLISHED }, false)
        else .ok (manager, false)
    | tcp_conn_state_t.SYN_SENT =>
      if direction = SM_INBOUND then
        if tcp.syn then
          if tcp.ack then
            if ntohl tcp.ack_seq ≥ s.expected_ack then
              .ok (store manager session { s with state := tcp_conn_state_t.ESTABLISHED }, false)
            else .ok (manager, false)
          else .ok (store manager session { s with state := tcp_conn_state_t.SYN_RCVD }, false)
        else .ok (manager, false)
      else .ok (manager, false)
    | tcp_conn_state_t.ESTABLISHED =>
      if direction = SM_OUTBOUND ∧ tcp.fin = true then
        .ok (store manager session
          { s with state := tcp_conn_state_t.FIN_WAIT_1
                   expected_ack := seq_plus_payload ip tcp }, false)
      else if direction = SM_INBOUND ∧ tcp.fin = true then
        .ok (store manager session { s with state := tcp_conn_state_t.CLOSE_WAIT }, false)
      else .ok (manager, false)
    | tcp_conn_state_t.FIN_WAIT_1 =>
      if direction = SM_INBOUND then
        if tcp.ack && decide (ntohl tcp.ack_seq ≥ s.expected_ack) then
          if tcp.fin then
            match timer_queue_add
                (store manager session { s with state := tcp_conn_state_t.TIME_WAIT, waiting := 1 })
                session current_time with
            | .error e => .error e
            | .ok manager => .ok (manager, false)
          else .ok (store manager session { s with state := tcp_conn_state_t.FIN_WAIT_2 }, false)
        else
          if tcp.fin then
            .ok (store manager session { s with state := tcp_conn_state_t.CLOSING }, false)
          else .ok (manager, false)
      else .ok (manager, false)
    | tcp_conn_state_t.FIN_WAIT_2 =>
      if direction = SM_INBOUND ∧ tcp.fin = true then
        match timer_queue_add
            (store manager session { s with state := tcp_conn_state_t.TIME_WAIT, waiting := 1 })
            session current_time with
        | .error e => .error e
        | .ok manager => .ok (manager, false)
      else .ok (manager, false)
    | tcp_conn_state_t.CLOSING =>
      if direction = SM_INBOUND ∧ tcp.ack = true ∧ ntohl tcp.ack_seq ≥ s.expected_ack then
        match timer_queue_add
            (store manager session { s with state := tcp_conn_state_t.TIME_WAIT, waiting := 1 })
            session current_time with
        | .error e => .error e
        | .ok manager => .ok (manager, false)
      else .ok (manager, false)
    | tcp_conn_state_t.TIME_WAIT =>
      if tcp.syn then
        match timer_queue_free_early manager session with
        | .error e => .error e
        | .ok manager => .ok (manager, true)
      else .ok (manager, false)
    | tcp_conn_state_t.CLOSE_WAIT =>
      if direction = SM_OUTBOUND ∧ tcp.fin = true then
        .ok (store manager session
          { s with expected_ack := seq_plus_payload ip tcp
                   state := tcp_conn_state_t.LAST_ACK }, false)
      else .ok (manager, false)
    | tcp_conn_state_t.LAST_ACK =>
      if direction = SM_INBOUND ∧ tcp.ack = true ∧ ntohl tcp.ack_seq ≥ s.expected_ack then
        .ok ({ store manager session { s with state := tcp_conn_state_t.CLOSED } with
                closed_session := some session }, false)
      else .ok (manager, false)
    | tcp_conn_state_t.CLOSED => .ok (manager, false)
    | tcp_conn_state_t.RESET => .ok (manager, false)

/-- Lines 442-449 of `session_manager_update`: the time stamp of the access,
the delivery of the packet to the modules, the result. -/
def session_manager_update_deliver (manager : session_manager_t) (packet : libtrace_packet_t)
    (current_time : Nat) (session : Option Nat) :
    Except fault (session_manager_t × Option Nat) :=
  match session with
  | none => .ok (manager, none)
  | some p =>
    match manager.heap p with
    | none => .error fault.undefined_behaviour
    | some s =>
      match modules_update manager.modules s.data packet manager.module_count with
      | .error e => .error e
      | .ok calls =>
        .ok ({ store manager p { s with last_access := current_time % 256 } with
                calls := manager.calls ++ calls }, some p)

/-- Function `session_manager_update`. The first argument bounds the depth of
the recursive call of the TIME_WAIT case and the rounds of the cleanup. -/
def session_manager_update :
    Nat → session_manager_t → libtrace_packet_t → Except fault (session_manager_t × Option Nat)
  | 0, _, _ => .error fault.out_of_fuel
  | fuel + 1, manager, packet =>
    let current_time := packet_seconds packet
    match session_manager_update_sweeps fuel manager current_time with
    | .error e => .error e
    | .ok manager =>
      match packet.ip with
      | none => .ok (manager, none)
      | some ip =>
        match packet.tcp with
        | none => .ok (manager, none)
        | some tcp =>
          let direction := packet.direction
          let id := session_id_of ip tcp
          match hashtable_retrieve manager.heap manager.hashtable id with
          | .error e => .error e
          | .ok none =>
            match session_manager_update_new manager ip tcp id direction with
            | .error e => .error e
            | .ok (manager, session) =>
              session_manager_update_deliver manager packet current_time session
          | .ok (some session) =>
            match session_manager_update_state manager current_time direction ip tcp session with
            | .error e => .error e
            | .ok (manager, true) => session_manager_update fuel manager packet
            | .ok (manager, false) =>
              session_manager_update_deliver manager packet current_time (some session)

/-! ## Traces -/

/-- The manager states that the API reaches: `session_manager_create`, then
any calls of `session_manager_register_module` and `session_manager_update`
that return. -/
inductive Reachable : session_manager_t → Prop where
  | create : Reachable session_manager_create
  | register (m : session_manager_t) (module : session_module_t) (m2 : session_manager_t)
      (index : Int) : Reachable m → session_manager_register_module m module = .ok (m2, index) →
      Reachable m2
  | update (fuel : Nat) (m : session_manager_t) (packet : libtrace_packet_t)
      (m2 : session_manager_t) (session : Option Nat) : Reachable m →
      session_manager_update fuel m packet = .ok (m2, session) → Reachable m2

/-- Calls `session_manager_update` on the packets in order: the manager after
the last call and, for every call, the state of the flow it returned (absent
when it returned `NULL`). -/
def session_manager_run (fuel : Nat) :
    session_manager_t → List libtrace_packet_t →
      Except fault (session_manager_t × List (Option tcp_conn_state_t))
  | manager, [] => .ok (manager, [])
  | manager, packet :: rest =>
    match session_manager_update fuel manager packet with
    | .error e => .error e
    | .ok (manager, session) =>
      match session_manager_run fuel manager rest with
      | .error e => .error e
      | .ok (final, states) =>
        .ok (final, (session.bind (fun p => (manager.heap p).map (fun s => s.state))) :: states)

/-- The manager that a run ends with (the fresh manager when the run faults). -/
def manager_after (fuel : Nat) (manager : session_manager_t) (packets : List libtrace_packet_t) :
    session_manager_t :=
  match session_manager_run fuel manager packets with
  | .ok (final, _) => final
  | .error _ => session_manager_create

/-- A TCP/IPv4 packet without options as a test supplies it: the capture time
as ERF time stamp, the direction, addresses as they lie in the header, ports,
sequence numbers and payload length as host-order numbers, the flags. -/
def tcp_packet (erf_timestamp : Nat) (direction : Int) (ip_src ip_dst sport dport : Nat)
    (seq ack_seq payload : Nat) (fin syn rst ack : Bool) : libtrace_packet_t :=
  { erf_timestamp := erf_timestamp
    direction := direction
    ip := some { ip_hl := 5, ip_len := htons (40 + payload), ip_src := ip_src, ip_dst := ip_dst }
    tcp := some { source := htons sport, dest := htons dport, seq := htonl seq,
                  ack_seq := htonl ack_seq, doff := 5, fin := fin, syn := syn, rst := rst,
                  ack := ack } }

/-- The trace of scenario 1 between `a:pa` (direction 0) and `b:pb`
(direction 1): SYN with sequence number `s`, SYN+ACK with sequence number `r`,
ACK, a segment of `n` bytes, its ACK, FIN, FIN+ACK, ACK, a tenth of a second
apart from the whole second `T` on. -/
def scenario1_trace (a b pa pb s r n T : Nat) : List libtrace_packet_t :=
  [ tcp_packet (T * 4294967296) 0 a b pa pb s 0 0 false true false false,
    tcp_packet (T * 4294967296 + 429496729) 1 b a pb pa r (s + 1) 0 false true false true,
    tcp_packet (T * 4294967296 + 858993459) 0 a b pa pb (s + 1) (r + 1) 0 false false false true,
    tcp_packet (T * 4294967296 + 1288490188) 0 a b pa pb (s + 1) (r + 1) n false false false true,
    tcp_packet (T * 4294967296 + 1717986918) 1 b a pb pa (r + 1) (s + 1 + n) 0
      false false false true,
    tcp_packet (T * 4294967296 + 2147483648) 0 a b pa pb (s + 1 + n) (r + 1) 0
      true false false false,
    tcp_packet (T * 4294967296 + 2576980377) 1 b a pb pa (r + 1) (s + 1 + n + 1) 0
      true false false true,
    tcp_packet (T * 4294967296 + 3006477107) 0 a b pa pb (s + 1 + n + 1) (r + 2) 0
      false false false true ]

/-- Scenario 1 of the specification: sequence numbers 1000 and 5000, one
segment of 100 bytes, from time 0 on. -/
def scenario1 : List libtrace_packet_t := scenario1_trace 1 2 10 20 1000 5000 100 0

/-- The states of the flows that the calls of a run returned (absent when the
run faults). -/
def session_manager_states (fuel : Nat) (manager : session_manager_t)
    (packets : List libtrace_packet_t) : Option (List (Option tcp_conn_state_t)) :=
  match session_manager_run fuel manager packets with
  | .ok (_, states) => some states
  | .error _ => none

/-- The fresh manager after the registration of the modules given, in order. -/
def manager_with_modules (modules : List session_module_t) : session_manager_t :=
  modules.foldl
    (fun manager module =>
      match session_manager_register_module manager module with
      | .ok (manager, _) => manager
      | .error _ => manager)
    session_manager_create

/-- The calls made to the modules between the manager states `before` and
`after` are calls of `destroy` only. -/
def destroys_only (before after : session_manager_t) : Prop :=
  ∃ extra, after.calls = before.calls ++ extra ∧
    ∀ c, c ∈ extra → ∃ i d x, c = module_call.destroy i d x

/-- A record without module data, last accessed in second `T`. -/
def flow_record (id : tcp_session_id_t) (state : tcp_conn_state_t) (expected_ack waiting T : Nat) :
    tcp_session_t :=
  { id := id, state := state, expected_ack := expected_ack, waiting := waiting,
    last_access := T % 256, data := [] }

/-- The manager tracks one flow, whose record `s` lies at address 0, no module
is registered, the TIME_WAIT queue holds at most this flow, and the sweeps of a
call at second `T` have nothing to do. -/
structure single_flow (m : session_manager_t) (T : Nat) (s : tcp_session_t) : Prop where
  last_access : m.last_access = T
  closed : m.closed_session = none
  clean : (T + 4294967296 - m.last_clean) % 4294967296 ≤ 60
  chain : m.hashtable.arr (hashtable_compute_hash s.id) = [0]
  record : m.heap 0 = some s
  data : s.data = []
  modules : m.module_count = 0
  queue : m.waiting_sessions.lower_idx = 0 ∧ m.waiting_sessions.length ≤ s.waiting

/-! ## Well-formed manager states -/

/-- The properties of a manager state that every call of the API keeps: the
nodes of the index point to live records that hash to their bucket, no two
nodes of a chain have records with the same ID, no record lies at or above
`brk`, a record in a slot of the TIME_WAIT queue has `waiting` set and is in
state TIME_WAIT or RESET, a record in state TIME_WAIT has `waiting` set, and
the pointers in the queue lie below `brk`. -/
structure manager_wf (m : session_manager_t) : Prop where
  alive : ∀ b p, p ∈ m.hashtable.arr b →
    ∃ s, m.heap p = some s ∧ hashtable_compute_hash s.id = b
  unique : ∀ b, (m.hashtable.arr b).Pairwise
    (fun p q => ∀ s t, m.heap p = some s → m.heap q = some t → s.id ≠ t.id)
  fresh : ∀ p, m.brk ≤ p → m.heap p = none
  queued : ∀ i p s, m.waiting_sessions.sessions i = some p → m.heap p = some s →
    s.waiting = 1 ∧ (s.state = tcp_conn_state_t.TIME_WAIT ∨ s.state = tcp_conn_state_t.RESET)
  time_wait : ∀ p s, m.heap p = some s → s.state = tcp_conn_state_t.TIME_WAIT → s.waiting = 1
  slots : ∀ i p, m.waiting_sessions.sessions i = some p → p < m.brk

/-- A record may go on after an operation: same ID, `waiting` set if it is in
TIME_WAIT, and still fit for the TIME_WAIT queue if it was. -/
def record_kept (s s2 : tcp_session_t) : Prop :=
  s2.id = s.id ∧ (s2.state = tcp_conn_state_t.TIME_WAIT → s2.waiting = 1) ∧
  ((s.waiting = 1 ∧ (s.state = tcp_conn_state_t.TIME_WAIT ∨ s.state = tcp_conn_state_t.RESET)) →
    (s2.waiting = 1 ∧ (s2.state = tcp_conn_state_t.TIME_WAIT ∨ s2.state = tcp_conn_state_t.RESET)))

/-- The TIME_WAIT queue has not overflowed: the window of the circular list
lies within the array, every slot in use lies within the window, every record
with `waiting` set is in a slot, and every live record is in its bucket of the
index. -/
structure queue_exact (m : session_manager_t) : Prop where
  bounds : m.waiting_sessions.lower_idx < SM_TIMER_QUEUE_LENGTH ∧
    m.waiting_sessions.length ≤ SM_TIMER_QUEUE_LENGTH
  window : ∀ i p, m.waiting_sessions.sessions i = some p →
    ∃ k, k < m.waiting_sessions.length ∧
      i = (m.waiting_sessions.lower_idx + k) % SM_TIMER_QUEUE_LENGTH
  waiting : ∀ p s, m.heap p = some s → s.waiting = 1 →
    ∃ i, m.waiting_sessions.sessions i = some p
  indexed : ∀ p s, m.heap p = some s → p ∈ m.hashtable.arr (hashtable_compute_hash s.id)

/-- The manager states that the API reaches while the TIME_WAIT queue never
holds more than `SM_TIMER_QUEUE_LENGTH` sessions at the return of a call of
`session_manager_update`. -/
inductive ReachableNoOverflow : session_manager_t → Prop where
  | create : ReachableNoOverflow session_manager_create
  | register (m : session_manager_t) (module : session_module_t) (m2 : session_manager_t)
      (index : Int) : ReachableNoOverflow m →
      session_manager_register_module m module = .ok (m2, index) → ReachableNoOverflow m2
  | update (fuel : Nat) (m : session_manager_t) (packet : libtrace_packet_t)
      (m2 : session_manager_t) (session : Option Nat) : ReachableNoOverflow m →
      session_manager_update fuel m packet = .ok (m2, session) →
      m2.waiting_sessions.length ≤ SM_TIMER_QUEUE_LENGTH → ReachableNoOverflow m2

/-- The calls of `session_manager_update` on the packets in order all return,
each with at most `SM_TIMER_QUEUE_LENGTH` sessions in the TIME_WAIT queue. -/
def run_within (fuel : Nat) : session_manager_t → List libtrace_packet_t → Bool
  | _, [] => true
  | manager, packet :: rest =>
    match session_manager_update fuel manager packet with
    | .error _ => false
    | .ok (manager, _) =>
      decide (manager.waiting_sessions.length ≤ SM_TIMER_QUEUE_LENGTH) &&
        run_within fuel manager rest

/-! ## Callers of the flow index -/

/-- Calls `hashtable_iterator_next` until it returns `NULL`, the way the loops
of `session_manager_cleanup` and `session_manager_destroy` do, with a call of
`hashtable_iterator_remove` after every call that returned a session for which
`remove` holds: the table left, the sessions that `hashtable_iterator_next`
returned and the sessions that `hashtable_iterator_remove` returned, in order.
The first argument bounds the number of calls of `hashtable_iterator_next`. -/
def hashtable_iterate (remove : Nat → Bool) :
    Nat → hashtable_t → hashtable_iterator_t →
      Except fault (hashtable_t × List Nat × List Nat)
  | 0, _, _ => .error fault.out_of_fuel
  | fuel + 1, hashtable, itr =>
    match hashtable_iterator_next hashtable itr with
    | .error e => .error e
    | .ok (_, none) => .ok (hashtable, [], [])
    | .ok (itr, some session) =>
      if remove session then
        match hashtable_iterator_remove hashtable itr with
        | .error e => .error e
        | .ok (hashtable, removed) =>
          match hashtable_iterate remove fuel hashtable itr with
          | .error e => .error e
          | .ok (final, returned, unlinked) =>
            .ok (final, session :: returned, removed :: unlinked)
      else
        match hashtable_iterate remove fuel hashtable itr with
        | .error e => .error e
        | .ok (final, returned, unlinked) => .ok (final, session :: returned, unlinked)

/-- The ID of the flow between 1:10 and 2:20, which hashes to bucket 20. -/
def flow_a : tcp_session_id_t := { ip_a := 1, ip_b := 2, port_a := 10, port_b := 20 }

/-- The ID of the flow between 1:1 and 2:15, which hashes to bucket 20 too. -/
def flow_b : tcp_session_id_t := { ip_a := 1, ip_b := 2, port_a := 1, port_b := 15 }

/-- The ID of the flow between 1:6 and 2:4, which hashes to bucket 0. -/
def flow_z : tcp_session_id_t := { ip_a := 1, ip_b := 2, port_a := 6, port_b := 4 }

/-- A memory with the records of `flow_a` at address 0 and of `flow_b` at
address 1. -/
def heap_ab : Nat → Option tcp_session_t := fun p =>
  if p = 0 then some (flow_record flow_a tcp_conn_state_t.ESTABLISHED 0 0 0)
  else if p = 1 then some (flow_record flow_b tcp_conn_state_t.ESTABLISHED 0 0 0)
  else none

/-- A memory with the record of `flow_z` at address 0. -/
def heap_z : Nat → Option tcp_session_t := fun p =>
  if p = 0 then some (flow_record flow_z tcp_conn_state_t.ESTABLISHED 0 0 0) else none

/-- The table with the records of `heap_ab`, inserted in the order of their
addresses. -/
def table_ab : hashtable_t :=
  match hashtable_insert heap_ab hashtable_create 0 with
  | .ok t =>
    match hashtable_insert heap_ab t 1 with
    | .ok t => t
    | .error _ => hashtable_create
  | .error _ => hashtable_create

/-- The table with the record of `heap_z`. -/
def table_z : hashtable_t :=
  match hashtable_insert heap_z hashtable_create 0 with
  | .ok t => t
  | .error _ => hashtable_create

/-! ## Relations between manager states -/

/-- The step from `before` to `after` has only freed records: every record
live afterwards is as it was, and the registered modules and `brk` are the
same. -/
structure only_frees (before after : session_manager_t) : Prop where
  heap : ∀ p s, after.heap p = some s → before.heap p = some s
  modules : after.modules = before.modules
  module_count : after.module_count = before.module_count
  modules_size : after.modules_size = before.modules_size
  brk : after.brk = before.brk

/-! ## Further traces -/

/-- A packet with only ACK set between 3:30 and 4:40, a flow that no trace
here opens, captured at the start of the second given. -/
def stray_ack (second : Nat) : libtrace_packet_t :=
  tcp_packet (second * 4294967296) 0 3 4 30 40 7000 0 0 false false false true

/-- After a call that returned `r`: every live record has `waiting` 0 or 1, and
a record in state CLOSED or RESET has `waiting` set or is the session that the
call closed, which is `closed_session` and what the call returned. -/
def grace_after (m : session_manager_t) (r : Option Nat) : Prop :=
  ∀ p s, m.heap p = some s → s.waiting ≤ 1 ∧
    ((s.state = tcp_conn_state_t.CLOSED ∨ s.state = tcp_conn_state_t.RESET) →
      s.waiting = 1 ∨ (m.closed_session = some p ∧ r = some p))

/-- Between calls: every live record has `waiting` 0 or 1, and a record in
state CLOSED or RESET has `waiting` set or is `closed_session`. -/
def closed_grace (m : session_manager_t) : Prop :=
  ∀ p s, m.heap p = some s → s.waiting ≤ 1 ∧
    ((s.state = tcp_conn_state_t.CLOSED ∨ s.state = tcp_conn_state_t.RESET) →
      s.waiting = 1 ∨ m.closed_session = some p)

/-- Scenario 1, then in the same second an RST from 2:20 on the flow, which is
in TIME_WAIT, and then a packet of another flow. -/
def scenario1_reset : List libtrace_packet_t :=
  scenario1 ++
    [tcp_packet 3435973836 1 2 1 20 10 5002 0 0 false false true false,
     tcp_packet 3865470566 0 3 4 30 40 7000 0 0 false false false true]

/-- An RST from 2:20 on the flow of scenario 1 right after its handshake. -/
def handshake_reset : libtrace_packet_t :=
  tcp_packet 858993459 1 2 1 20 10 5001 0 0 false false true false

/-! ## Registration and delivery -/

/-- The step from `before` to `after` has kept the registered modules, and
every record live afterwards has the ID and the data array it had, or a data
array that the `create` functions have just filled. -/
structure data_kept (before after : session_manager_t) : Prop where
  modules : after.modules = before.modules
  module_count : after.module_count = before.module_count
  heap : ∀ p s2, after.heap p = some s2 →
    (∃ s, before.heap p = some s ∧ s2.data = s.data ∧ s2.id = s.id) ∨
    (∃ calls, modules_create before.modules p before.module_count = .ok (s2.data, calls))

/-! ## queue.c -/

/-- Struct `queue_vars_t`: two `int` fields and the `unsigned int item_size`. -/
structure queue_vars_t where
  buffer_size : Int
  buffer_increment : Int
  item_size : Nat

/-- Struct `queue_t`. The buffer `ptr` is given by the item that starts at each
byte offset (absent where no whole item has been written) and by `allocated`,
the number of bytes that `malloc` has been asked for. -/
structure queue_t (α : Type) where
  ptr : Nat → Option α
  allocated : Nat
  length : Nat
  lower_idx : Nat
  buffer_size : Nat

/-- Conversion of an `int` to `uint32_t`. -/
def int_to_uint32 (x : Int) : Nat := Int.toNat (x % 4294967296)

/-- Conversion of an `unsigned int` to `int`: the values from `2^31` on become
negative. -/
def uint32_to_int (x : Nat) : Int :=
  if x % 4294967296 < 2147483648 then ((x % 4294967296 : Nat) : Int)
  else ((x % 4294967296 : Nat) : Int) - 4294967296

/-- Function `queue_create`. -/
def queue_create {α : Type} : queue_t α :=
  { ptr := fun _ => none, allocated := 0, length := 0, lower_idx := 0, buffer_size := 0 }

/-- The call `memcpy (&(array->ptr[idx]), item, item_size)` of `queue_add`: the
bytes written must lie within the buffer; an item that the write overlaps is no
longer whole. -/
def queue_write {α : Type} (array : queue_t α) (item_size : Nat) (idx : Int) (item : α) :
    Except fault (queue_t α) :=
  if idx < 0 ∨ idx.toNat + item_size > array.allocated then .error fault.undefined_behaviour
  else
    .ok { array with
      ptr := fun j =>
        if j = idx.toNat then some item
        else if j < idx.toNat + item_size ∧ idx.toNat < j + item_size then none
        else array.ptr j }

/-- Lines 100-137 of `queue_add`: the buffer in which the item is to be put,
absent when the function returns `NULL` at line 135. The two calls of `memcpy`
of the growth take their lengths from the `int` variables `bytes1` and
`bytes2`. -/
def queue_add_space {α : Type} (array : queue_t α) (vars : queue_vars_t) :
    Except fault (Option (queue_t α)) :=
  let item_size := vars.item_size % 4294967296
  if array.buffer_size = 0 then
    let buffer_size :=
      int_to_uint32 (if vars.buffer_size = -1 then vars.buffer_increment else vars.buffer_size)
    .ok (some { array with
      buffer_size := buffer_size
      ptr := fun _ => none
      allocated := (buffer_size * item_size) % 4294967296 })
  else if vars.buffer_size = -1 then
    if array.length = array.buffer_size then
      let buffer_size := (array.buffer_size + int_to_uint32 vars.buffer_increment) % 4294967296
      let allocated := (buffer_size * item_size) % 4294967296
      if ¬ (array.lower_idx ≤ array.length ∧ array.length ≤ buffer_size) then
        .error fault.assertion_failure
      else
        let bytes1 := uint32_to_int
          (item_size * ((array.length + 4294967296 - array.lower_idx) % 4294967296))
        let bytes2 := uint32_to_int (item_size * array.lower_idx)
        if bytes1 < 0 ∨ bytes2 < 0 then .error fault.undefined_behaviour
        else if bytes2.toNat + bytes1.toNat > array.allocated
            ∨ bytes1.toNat + bytes2.toNat > allocated then
          .error fault.undefined_behaviour
        else
          .ok (some
            { ptr := fun j =>
                if j + item_size ≤ bytes1.toNat then array.ptr (bytes2.toNat + j)
                else if bytes1.toNat ≤ j ∧ j + item_size ≤ bytes1.toNat + bytes2.toNat then
                  array.ptr (j - bytes1.toNat)
                else none
              allocated := allocated
              length := array.length
              lower_idx := 0
              buffer_size := buffer_size })
    else .ok (some array)
  else if array.length = array.buffer_size then .ok none
  else .ok (some array)

/-- Function `queue_add`: the queue and the pointer returned, as a byte offset
into the buffer (absent for `NULL`). -/
def queue_add {α : Type} (array : queue_t α) (vars : queue_vars_t) (item : α) :
    Except fault (queue_t α × Option Int) :=
  match queue_add_space array vars with
  | .error e => .error e
  | .ok none => .ok (array, none)
  | .ok (some array) =>
    if array.buffer_size = 0 then .error fault.undefined_behaviour
    else
      let idx := uint32_to_int (((array.lower_idx + array.length) % 4294967296) % array.buffer_size)
      let idx := uint32_to_int (int_to_uint32 idx * (vars.item_size % 4294967296))
      match queue_write array (vars.item_size % 4294967296) idx item with
      | .error e => .error e
      | .ok array => .ok ({ array with length := (array.length + 1) % 4294967296 }, some idx)

/-- Function `queue_remove`. -/
def queue_remove {α : Type} (array : queue_t α) (vars : queue_vars_t) :
    queue_t α × Option Int :=
  if array.length = 0 then (array, none)
  else
    let idx := uint32_to_int (array.lower_idx * (vars.item_size % 4294967296))
    let lower_idx := (array.lower_idx + 1) % 4294967296
    let lower_idx := if lower_idx = array.buffer_size then 0 else lower_idx
    ({ array with lower_idx := lower_idx, length := array.length - 1 }, some idx)

/-- Function `queue_clear`. -/
def queue_clear {α : Type} (array : queue_t α) : queue_t α :=
  { array with length := 0, lower_idx := 0 }

/-- Function `queue_bottom`. -/
def queue_bottom {α : Type} (array : queue_t α) (vars : queue_vars_t) : Option Int :=
  if array.length = 0 then none
  else some (uint32_to_int (array.lower_idx * (vars.item_size % 4294967296)))

/-- Function `queue_top`. -/
def queue_top {α : Type} (array : queue_t α) (vars : queue_vars_t) :
    Except fault (Option Int) :=
  if array.length = 0 then .ok none
  else if array.buffer_size = 0 then .error fault.undefined_behaviour
  else
    let idx := uint32_to_int
      (((array.lower_idx + array.length + 4294967295) % 4294967296) % array.buffer_size)
    .ok (some (uint32_to_int (int_to_uint32 idx * (vars.item_size % 4294967296))))

/-- The item that a pointer returned by the queue functions points to. -/
def queue_item {α : Type} (array : queue_t α) (p : Option Int) : Option α :=
  match p with
  | none => none
  | some idx => if idx < 0 then none else array.ptr idx.toNat

/-- A call of one of the functions that change a queue. -/
inductive queue_op (α : Type) where
  | add (item : α)
  | remove
  | clear

/-- Runs the calls on the queue in order: the queue left and, for every call,
the item that the pointer it returned points to right after the call (absent
for `NULL` and for `queue_clear`). -/
def queue_run {α : Type} (vars : queue_vars_t) :
    queue_t α → List (queue_op α) → Except fault (queue_t α × List (Option α))
  | array, [] => .ok (array, [])
  | array, queue_op.add item :: rest =>
    match queue_add array vars item with
    | .error e => .error e
    | .ok (array, p) =>
      match queue_run vars array rest with
      | .error e => .error e
      | .ok (final, items) => .ok (final, queue_item array p :: items)
  | array, queue_op.remove :: rest =>
    match queue_remove array vars with
    | (array, p) =>
      match queue_run vars array rest with
      | .error e => .error e
      | .ok (final, items) => .ok (final, queue_item array p :: items)
  | array, queue_op.clear :: rest =>
    match queue_run vars (queue_clear array) rest with
    | .error e => .error e
    | .ok (final, items) => .ok (final, none :: items)

/-- The items of the queue from the bottom to the top, as the buffer holds
them. -/
def queue_items {α : Type} (array : queue_t α) (vars : queue_vars_t) : List (Option α) :=
  (List.range array.length).map
    (fun i => array.ptr (((array.lower_idx + i) % array.buffer_size) * vars.item_size))

/-! ### The FIFO list of the specification -/

/-- Specification: `add` appends the item at the top. -/
def fifo_add {α : Type} (items : List α) (item : α) : List α := items ++ [item]

/-- Specification: `remove` takes the oldest item, absent when there is none. -/
def fifo_remove {α : Type} (items : List α) : List α × Option α := (items.tail, items.head?)

/-- Specification: `clear` removes all items. -/
def fifo_clear {α : Type} (_ : List α) : List α := []

/-- Specification: the oldest item. -/
def fifo_bottom {α : Type} (items : List α) : Option α := items.head?

/-- Specification: the newest item. -/
def fifo_top {α : Type} (items : List α) : Option α := items.getLast?

/-- Specification: the calls run on a FIFO list, with the item that each call
yields (`add` the item added, `remove` the item removed). -/
def fifo_run {α : Type} : List α → List (queue_op α) → List α × List (Option α)
  | items, [] => (items, [])
  | items, queue_op.add item :: rest =>
    ((fifo_run (fifo_add items item) rest).1, some item :: (fifo_run (fifo_add items item) rest).2)
  | items, queue_op.remove :: rest =>
    ((fifo_run (fifo_remove items).1 rest).1,
      (fifo_remove items).2 :: (fifo_run (fifo_remove items).1 rest).2)
  | items, queue_op.clear :: rest =>
    ((fifo_run (fifo_clear items) rest).1, none :: (fifo_run (fifo_clear items) rest).2)

/-- The queue is in the range in which the byte offsets fit an `int`: the
buffer of `buffer_size` items of `item_size` bytes has less than `2^31` bytes,
all of them allocated, and the window of the queue lies within it. -/
structure queue_inv {α : Type} (array : queue_t α) (item_size : Nat) : Prop where
  size : array.buffer_size * item_size < 2147483648
  allocated : array.allocated = array.buffer_size * item_size
  lower : array.lower_idx < array.buffer_size ∨ (array.buffer_size = 0 ∧ array.lower_idx = 0)
  length : array.length ≤ array.buffer_size

/-- The calls keep the buffer below `2^31` bytes: whenever `queue_add` finds
the buffer full (or not yet created), the buffer grown by the increment `k` has
less than `2^31` bytes. -/
def queue_within {α : Type} (k : Nat) (vars : queue_vars_t) :
    queue_t α → List (queue_op α) → Bool
  | _, [] => true
  | array, queue_op.add item :: rest =>
    (decide (array.length = array.buffer_size →
      (array.buffer_size + k) * vars.item_size < 2147483648)) &&
    (match queue_add array vars item with
     | .ok (array, _) => queue_within k vars array rest
     | .error _ => false)
  | array, queue_op.remove :: rest => queue_within k vars (queue_remove array vars).1 rest
  | array, queue_op.clear :: rest => queue_within k vars (queue_clear array) rest

/-- Two unanswered SYNs in second 0, from 1:10 to 2:20 and from 1:1 to 2:15:
the flows `flow_a` and `flow_b`, which share bucket 20. -/
def unanswered_syns : List libtrace_packet_t :=
  [tcp_packet 0 0 1 2 10 20 1000 0 0 false true false false,
   tcp_packet 0 0 1 2 1 15 3000 0 0 false true false false]

/-! ## sessionmanager.c: session_manager_destroy -/

/-- The `while` loop of `session_manager_destroy`; the first argument bounds
the number of calls of `hashtable_iterator_next`. -/
def session_manager_destroy_loop :
    Nat → session_manager_t → hashtable_iterator_t → Except fault session_manager_t
  | 0, _, _ => .error fault.out_of_fuel
  | fuel + 1, manager, itr =>
    match hashtable_iterator_next manager.hashtable itr with
    | .error e => .error e
    | .ok (_, none) => .ok manager
    | .ok (itr, some session) =>
      match hashtable_iterator_remove manager.hashtable itr with
      | .error e => .error e
      | .ok (hashtable, _) =>
        match session_manager_free_module_data { manager with hashtable := hashtable } session with
        | .error e => .error e
        | .ok manager =>
          match free manager session with
          | .error e => .error e
          | .ok manager => session_manager_destroy_loop fuel manager itr

/-- Function `session_manager_destroy`. -/
def session_manager_destroy (fuel : Nat) (manager : session_manager_t) :
    Except fault session_manager_t :=
  session_manager_destroy_loop fuel manager hashtable_iterator_create

/-- The number of nodes in the buckets of the table. -/
def index_size (hashtable : hashtable_t) : Nat :=
  ((List.range ARRAY_SIZE).map (fun b => (hashtable.arr b).length)).sum

/-- The calls of `destroy` for the record at `p`: none when `waiting` is set,
else one for every registered module, in the order of the modules, on the slot
of the module in the data array of the record. -/
def destroy_calls (manager : session_manager_t) (p : Nat) : List module_call :=
  match manager.heap p with
  | none => []
  | some s =>
    if s.waiting = 1 then []
    else
      (List.range manager.module_count).filterMap
        (fun i =>
          match manager.modules i, s.data.get? i with
          | some d, some x => some (module_call.destroy i d x)
          | _, _ => none)

/-- Properties of the records and the TIME_WAIT queue that every call of the
API keeps: every live record is in its bucket of the index, the session in a
slot of the queue is live, no session is in two slots, and `lower_idx` lies
within the array. -/
structure manager_live (m : session_manager_t) : Prop where
  indexed : ∀ p s, m.heap p = some s → p ∈ m.hashtable.arr (hashtable_compute_hash s.id)
  slots_live : ∀ i p, m.waiting_sessions.sessions i = some p → m.heap p ≠ none
  slots_inj : ∀ i j p, m.waiting_sessions.sessions i = some p →
    m.waiting_sessions.sessions j = some p → i = j
  lower : m.waiting_sessions.lower_idx < SM_TIMER_QUEUE_LENGTH

/-- A bare SYN from 1:10 to 2:20 in second 0, after the packets of
scenario 1. -/
def reuse_syn : libtrace_packet_t :=
  tcp_packet 3435973836 0 1 2 10 20 9000 0 0 false true false false

/-! ## reordering.c and rtthandshake.c

Conventions of this part of the embedding.

* A `double` is a rational number and its arithmetic is exact; the capture
  time `trace_get_seconds` is the ERF time stamp divided by `2^32`.
* An element of the array of a sender record is kept together with the records
  that hang off it through `missing_link`: the chain is a list, nearest record
  first, and the empty list is `NULL`. Every chain record is allocated by
  `reordering_update` for the one place where it is spliced in, so no record
  belongs to two chains. A `struct packet_record_t *` obtained from the array
  is the index of the array element with the number of `missing_link` steps
  taken from it.
* The fields that `malloc` leaves indeterminate hold 0 in the model.
* The RTT module behind the pointer `rtt_module` is a parameter.
-/

/-- Constant `REORDERING_ARRAY_INCREMENT` of reordering.c. -/
def REORDERING_ARRAY_INCREMENT : Nat := 20

/-- Constant `RTT_FACTOR` of reordering.c, 0.9. -/
def RTT_FACTOR : ℚ := 9 / 10

/-- Constant `RTO_FACTOR` of reordering.c, 2.0. -/
def RTO_FACTOR : ℚ := 2

/-- Enumeration `reordering_type_t` of reordering.h. -/
inductive reordering_type_t where
  | INORDER | HIGH | RETRANSMISSION | NETWORK_REORDERING | NETWORK_DUPLICATE | UNKNOWN
  | LAST_REORDERING
  deriving DecidableEq, Repr

/-- Table `reordering_messages` of reordering.c. -/
def reordering_messages : List String :=
  [ "packet in order",
    "sequence number higher than expected",
    "unneeded retransmission (packet record not found)",
    "unneeded retransmission (already acked)",
    "retransmission (cannot find dup acks)",
    "retransmission (IP ID different)",
    "retransmission (time_lag > rto)",
    "retransmission (duplicate acks >= 3)",
    "retransmission (in recovery)",
    "network duplicate",
    "unknown",
    "network reordering" ]

/-- Struct `rtt_module_t` of rttmodule.h over the session data `σ` of the
module: the `create` and `update` functions of its `session_module` and the
two RTT queries (`destroy` only releases memory). A negative RTT stands for
an absent one. -/
structure rtt_module_t (σ : Type) where
  create : σ
  update : σ → libtrace_packet_t → Except fault σ
  inside_rtt : σ → ℚ
  outside_rtt : σ → ℚ

/-- Libtrace accessor `trace_get_seconds`: the capture time in seconds. -/
def trace_get_seconds (packet : libtrace_packet_t) : ℚ :=
  (packet.erf_timestamp : ℚ) / 4294967296

/-- The scalar fields of `struct packet_record_t`; `seq` is a `uint32_t`,
`ip_id` a `uint16_t`, `num_acks` a `uint8_t`. -/
structure packet_record_t where
  seq : Nat
  time : ℚ
  ip_id : Nat
  num_acks : Nat
  is_missing : Bool
  is_misaligned : Bool
  deriving DecidableEq, Repr

/-- An element of the array of a sender record: the `struct packet_record_t`
that lies in the array and the records of its `missing_link` chain. -/
structure packet_slot_t where
  packet : packet_record_t
  missing_link : List packet_record_t
  deriving DecidableEq, Repr

/-- A `struct packet_record_t *` into a sender record: the array index and the
number of `missing_link` steps from the array element. -/
structure packet_ref_t where
  idx : Nat
  link : Nat
  deriving DecidableEq, Repr

/-- Struct `sender_record_t`; `lower_idx`, `length` and `array_size` are
`uint16_t`, `expected_seq` is a `uint32_t`, `in_recovery` a `uint8_t`. The
list `array` is the allocated block (empty for `NULL`). -/
structure sender_record_t where
  array : List packet_slot_t
  lower_idx : Nat
  length : Nat
  array_size : Nat
  expected_seq : Nat
  in_recovery : Nat
  deriving DecidableEq, Repr

/-- Struct `reordering_t` over the session data `σ` of the RTT module;
`record_0` and `record_1` are the two elements of the array `record`. -/
structure reordering_t (σ : Type) where
  record_0 : sender_record_t
  record_1 : sender_record_t
  rtt_data : σ
  min_rtt : ℚ
  last_packet : reordering_type_t
  last_packet_message : Nat
  time_lag : ℚ
  deriving DecidableEq, Repr

/-- The element `reordering->record[direction]` for a direction 0 or 1. -/
def reordering_t.record {σ : Type} (reordering : reordering_t σ) (direction : Int) :
    sender_record_t :=
  if direction = 0 then reordering.record_0 else reordering.record_1

/-- The state after an assignment to `reordering->record[direction]` for a
direction 0 or 1. -/
def reordering_t.set_record {σ : Type} (reordering : reordering_t σ) (direction : Int)
    (record : sender_record_t) : reordering_t σ :=
  if direction = 0 then { reordering with record_0 := record }
  else { reordering with record_1 := record }

/-- The record that a `struct packet_record_t *` of an array element points
to, after `link` steps along the chain. -/
def packet_slot_t.get (slot : packet_slot_t) : Nat → Option packet_record_t
  | 0 => some slot.packet
  | link + 1 => slot.missing_link[link]?

/-- An assignment to scalar fields of the record `link` steps along the chain
of an array element. -/
def packet_slot_t.modify (slot : packet_slot_t) (f : packet_record_t → packet_record_t) :
    Nat → Option packet_slot_t
  | 0 => some { slot with packet := f slot.packet }
  | link + 1 =>
    match slot.missing_link[link]? with
    | none => none
    | some p => some { slot with missing_link := slot.missing_link.set link (f p) }

/-- Reading through a `struct packet_record_t *`. -/
def packet_deref (record : sender_record_t) (ref : packet_ref_t) :
    Except fault packet_record_t :=
  match record.array[ref.idx]? with
  | none => .error fault.undefined_behaviour
  | some slot =>
    match slot.get ref.link with
    | none => .error fault.undefined_behaviour
    | some p => .ok p

/-- Writing scalar fields through a `struct packet_record_t *`. -/
def packet_assign (record : sender_record_t) (ref : packet_ref_t)
    (f : packet_record_t → packet_record_t) : Except fault sender_record_t :=
  match record.array[ref.idx]? with
  | none => .error fault.undefined_behaviour
  | some slot =>
    match slot.modify f ref.link with
    | none => .error fault.undefined_behaviour
    | some slot => .ok { record with array := record.array.set ref.idx slot }

/-- The assignment `packet->missing_link = link` for a freshly allocated
`link` whose own `missing_link` is the old value of `packet->missing_link`
(lines 583-595 of reordering.c). -/
def packet_splice (record : sender_record_t) (ref : packet_ref_t) (link : packet_record_t) :
    Except fault sender_record_t :=
  match record.array[ref.idx]? with
  | none => .error fault.undefined_behaviour
  | some slot =>
    if ref.link ≤ slot.missing_link.length then
      .ok { record with
            array := record.array.set ref.idx
              { slot with
                missing_link :=
                  slot.missing_link.take ref.link ++ link :: slot.missing_link.drop ref.link } }
    else .error fault.undefined_behaviour

/-- Function `packet_record_free_missing_links` on a chain: the records handed
to `free`, in the order of the calls. -/
def packet_record_free_missing_links : List packet_record_t → List packet_record_t
  | [] => []
  | link :: rest => packet_record_free_missing_links rest ++ [link]

/-- An array element as the initialisation loop of `sender_record_add` leaves
it (`missing_link = NULL`, `seq = 0`). -/
def packet_slot_initial : packet_slot_t :=
  { packet := { seq := 0, time := 0, ip_id := 0, num_acks := 0, is_missing := false,
                is_misaligned := false }
    missing_link := [] }

/-- The copy loop of `sender_record_add` (lines 198-211): the elements written
to `new_array[0]`, `new_array[1]`, ... for the remaining `count` rounds, read
from index `idx` on. -/
def sender_record_add_copy (record : sender_record_t) :
    Nat → Nat → Except fault (List packet_slot_t)
  | 0, _ => .ok []
  | count + 1, idx =>
    match record.array[idx]? with
    | none => .error fault.undefined_behaviour
    | some slot =>
      match sender_record_add_copy record count ((idx + 1) % record.length) with
      | .error e => .error e
      | .ok rest => .ok (slot :: rest)

/-- Lines 187-222 of `sender_record_add`: a block with room for one more
record. A copy loop that writes beyond the new block has no defined
behaviour. -/
def sender_record_add_grow (record : sender_record_t) : Except fault sender_record_t :=
  if record.length = record.array_size then
    let array_size := (record.array_size + REORDERING_ARRAY_INCREMENT) % 65536
    match sender_record_add_copy record record.length record.lower_idx with
    | .error e => .error e
    | .ok copied =>
      if array_size < record.length then .error fault.undefined_behaviour
      else
        .ok { record with
              array := copied ++ List.replicate (array_size - record.length) packet_slot_initial
              array_size := array_size
              lower_idx := 0 }
  else .ok record

/-- Function `sender_record_add`: the record afterwards and the index of the
array element whose address it returns. -/
def sender_record_add (record : sender_record_t) (seq : Nat) (time : ℚ) (ip_id : Nat) :
    Except fault (sender_record_t × Nat) :=
  match sender_record_add_grow record with
  | .error e => .error e
  | .ok record =>
    let idx :=
      if record.lower_idx + record.length ≥ record.array_size then
        record.lower_idx + record.length - record.array_size
      else record.lower_idx + record.length
    match record.array[idx]? with
    | none => .error fault.undefined_behaviour
    | some slot =>
      .ok ({ record with
             array := record.array.set idx
               { packet := { seq := seq, time := time, ip_id := ip_id, num_acks := 0,
                             is_missing := false, is_misaligned := slot.packet.is_misaligned }
                 missing_link := [] }
             length := (record.length + 1) % 65536 }, idx)

/-- The first loop of `sender_record_ack` (lines 263-274), with fuel. -/
def sender_record_ack_advance (ack : Nat) : Nat → sender_record_t → Except fault sender_record_t
  | 0, _ => .error fault.out_of_fuel
  | fuel + 1, record =>
    if record.length > 1 ∧ record.array_size > 0 then
      match record.array[(record.lower_idx + 1) % record.array_size]? with
      | none => .error fault.undefined_behaviour
      | some next =>
        if ack ≤ next.packet.seq then .ok record
        else
          sender_record_ack_advance ack fuel
            { record with
              length := record.length - 1
              lower_idx :=
                if (record.lower_idx + 1) % 65536 = record.array_size then 0
                else (record.lower_idx + 1) % 65536 }
    else .ok record

/-- The second loop of `sender_record_ack` (lines 279-286): the number of
steps along the chain. -/
def sender_record_ack_link (ack : Nat) : List packet_record_t → Nat
  | [] => 0
  | link :: rest => if ack ≤ link.seq then 0 else sender_record_ack_link ack rest + 1

/-- The last loop of `sender_record_ack` (lines 292-301), with fuel: the
record afterwards and the chain records handed to `free`. -/
def sender_record_ack_cleanup :
    Nat → Nat → sender_record_t → List packet_record_t →
      Except fault (sender_record_t × List packet_record_t)
  | 0, old_lower_idx, record, freed =>
    if old_lower_idx ≠ record.lower_idx then .error fault.out_of_fuel else .ok (record, freed)
  | fuel + 1, old_lower_idx, record, freed =>
    if old_lower_idx ≠ record.lower_idx then
      match record.array[old_lower_idx]? with
      | none => .error fault.undefined_behaviour
      | some slot =>
        sender_record_ack_cleanup fuel
          (if (old_lower_idx + 1) % 65536 = record.array_size then 0
           else (old_lower_idx + 1) % 65536)
          { record with array := record.array.set old_lower_idx { slot with missing_link := [] } }
          (freed ++ packet_record_free_missing_links slot.missing_link)
    else .ok (record, freed)

/-- Function `sender_record_ack`: the record afterwards and the chain records
handed to `free`. -/
def sender_record_ack (record : sender_record_t) (ack : Nat) :
    Except fault (sender_record_t × List packet_record_t) :=
  if record.length = 0 then .ok (record, [])
  else
    match record.array[record.lower_idx]? with
    | none => .error fault.undefined_behaviour
    | some bottom =>
      if ack ≤ bottom.packet.seq then .ok (record, [])
      else
        let old_lower_idx := record.lower_idx
        match sender_record_ack_advance ack record.length record with
        | .error e => .error e
        | .ok record =>
          match record.array[record.lower_idx]? with
          | none => .error fault.undefined_behaviour
          | some slot =>
            match packet_assign record
                { idx := record.lower_idx, link := sender_record_ack_link ack slot.missing_link }
                (fun p => { p with num_acks := (p.num_acks + 1) % 256 }) with
            | .error e => .error e
            | .ok record => sender_record_ack_cleanup record.array_size old_lower_idx record []

/-- The first loop of `sender_record_find` (lines 323-333): the index of the
array element that `packet` points to, for the remaining `counter` rounds. -/
def sender_record_find_array (record : sender_record_t) (seq : Nat) :
    Nat → Nat → Option Nat → Except fault (Option Nat)
  | 0, _, packet => .ok packet
  | counter + 1, idx, packet =>
    match record.array[idx]? with
    | none => .error fault.undefined_behaviour
    | some slot =>
      if slot.packet.seq > seq then .ok packet
      else
        sender_record_find_array record seq counter
          (if idx + 1 = record.array_size then 0 else idx + 1) (some idx)

/-- The second loop of `sender_record_find` (lines 342-349): the number of
steps along the chain. -/
def sender_record_find_link (seq : Nat) : List packet_record_t → Nat
  | [] => 0
  | link :: rest => if link.seq > seq then 0 else sender_record_find_link seq rest + 1

/-- Function `sender_record_find` (`none` is `NULL`). -/
def sender_record_find (record : sender_record_t) (seq : Nat) :
    Except fault (Option packet_ref_t) :=
  match sender_record_find_array record seq record.length record.lower_idx none with
  | .error e => .error e
  | .ok none => .ok none
  | .ok (some idx) =>
    match record.array[idx]? with
    | none => .error fault.undefined_behaviour
    | some slot =>
      if slot.packet.seq = seq then .ok (some { idx := idx, link := 0 })
      else .ok (some { idx := idx, link := sender_record_find_link seq slot.missing_link })

/-- Function `reordering_create`; the three fields of the last classification,
which `malloc` leaves indeterminate, hold the values of a packet in order. -/
def reordering_create {σ : Type} (rtt_module : rtt_module_t σ) : reordering_t σ :=
  { record_0 := { array := [], lower_idx := 0, length := 0, array_size := 0, expected_seq := 0,
                  in_recovery := 0 }
    record_1 := { array := [], lower_idx := 0, length := 0, array_size := 0, expected_seq := 0,
                  in_recovery := 0 }
    rtt_data := rtt_module.create
    min_rtt := -1
    last_packet := reordering_type_t.INORDER
    last_packet_message := 0
    time_lag := 0 }

/-- Lines 435-447 of `reordering_update`: the values of `rtt`, `rto` and
`reordering->min_rtt` after them. -/
def reordering_update_rtt (min_rtt inside_rtt outside_rtt : ℚ) : ℚ × ℚ × ℚ :=
  if inside_rtt ≥ 0 ∧ outside_rtt ≥ 0 then
    let rtt := inside_rtt + outside_rtt
    let rto := RTO_FACTOR * rtt
    let min_rtt := if min_rtt < rtt ∨ min_rtt < 0 then rtt else min_rtt
    (RTT_FACTOR * min_rtt, rto, min_rtt)
  else (-1, -1, min_rtt)

/-- The value of `seq + payload` as a `uint32_t`. -/
def uint32_add (seq : Nat) (payload : Int) : Nat :=
  Int.toNat (((seq : Int) + payload) % 4294967296)

/-- The payload length `ntohs (ip->ip_len) - ((ip->ip_hl + tcp->doff) << 2)`,
an `int`. -/
def payload_length (ip : libtrace_ip) (tcp : libtrace_tcp) : Int :=
  (ntohs ip.ip_len : Int) - (((ip.ip_hl + tcp.doff) * 4 : Nat) : Int)

/-- Lines 545-572 of `reordering_update`, the decision for a segment seen
before: the type, the message and the value of `record->in_recovery`. -/
def reordering_update_seen (ip_id : Nat) (packet_record : packet_record_t) (rtt rto time_lag : ℚ)
    (dup_acks in_recovery : Nat) : reordering_type_t × Nat × Nat :=
  if ip_id ≠ packet_record.ip_id then (reordering_type_t.RETRANSMISSION, 5, 1)
  else if rto ≥ 0 ∧ time_lag > rto then (reordering_type_t.RETRANSMISSION, 6, 1)
  else if dup_acks ≥ 3 then (reordering_type_t.RETRANSMISSION, 7, 1)
  else if in_recovery ≠ 0 then (reordering_type_t.RETRANSMISSION, 8, in_recovery)
  else if rtt ≥ 0 ∧ time_lag < rtt then (reordering_type_t.NETWORK_DUPLICATE, 9, in_recovery)
  else (reordering_type_t.UNKNOWN, 10, in_recovery)

/-- Lines 602-623 of `reordering_update`, the decision for a segment that
fills a gap: the type, the message and the value of `record->in_recovery`. -/
def reordering_update_missing (rtt rto time_lag : ℚ) (dup_acks in_recovery : Nat) :
    reordering_type_t × Nat × Nat :=
  if dup_acks ≥ 3 then (reordering_type_t.RETRANSMISSION, 7, 1)
  else if rto ≥ 0 ∧ time_lag > rto then (reordering_type_t.RETRANSMISSION, 6, 1)
  else if in_recovery ≠ 0 then (reordering_type_t.RETRANSMISSION, 8, in_recovery)
  else if rtt ≥ 0 ∧ time_lag < rtt then (reordering_type_t.NETWORK_REORDERING, 11, in_recovery)
  else (reordering_type_t.UNKNOWN, 10, in_recovery)

/-- Lines 535-543 of `reordering_update`: the misalignment marks. -/
def reordering_update_mark (record : sender_record_t) (seq : Nat) (payload : Int)
    (packet_record : packet_ref_t) (found : packet_record_t) : Except fault sender_record_t :=
  match sender_record_find record (uint32_add seq payload) with
  | .error e => .error e
  | .ok none => .ok record
  | .ok (some next_packet_record) =>
    match packet_deref record next_packet_record with
    | .error e => .error e
    | .ok next =>
      if found.seq ≠ seq ∨ next.seq ≠ uint32_add seq payload then
        match packet_assign record packet_record (fun p => { p with is_misaligned := true }) with
        | .error e => .error e
        | .ok record =>
          packet_assign record next_packet_record (fun p => { p with is_misaligned := true })
      else .ok record

/-- Lines 578-600 of `reordering_update`: the new record of the chain. -/
def reordering_update_splice (record : sender_record_t) (seq : Nat) (payload : Int)
    (packet_record : packet_ref_t) (found : packet_record_t) : Except fault sender_record_t :=
  match sender_record_find record (uint32_add seq payload) with
  | .error e => .error e
  | .ok none => .ok record
  | .ok (some next_packet_record) =>
    match packet_deref record next_packet_record with
    | .error e => .error e
    | .ok next =>
      if next.seq = seq then
        packet_splice record packet_record
          { seq := uint32_add seq payload, time := found.time, ip_id := 0, num_acks := 0,
            is_missing := true, is_misaligned := false }
      else .ok record

/-- Lines 501-627 of `reordering_update`, a data packet below the expected
sequence number: the sender record, the type, the message and the time lag
afterwards. -/
def reordering_update_low (record : sender_record_t) (seq : Nat) (payload : Int) (time : ℚ)
    (ip_id : Nat) (rtt rto : ℚ) : Except fault (sender_record_t × reordering_type_t × Nat × ℚ) :=
  match sender_record_find record seq with
  | .error e => .error e
  | .ok none => .ok (record, reordering_type_t.RETRANSMISSION, 2, 0)
  | .ok (some packet_record) =>
    match packet_deref record packet_record with
    | .error e => .error e
    | .ok found =>
      let time_lag := time - found.time
      if found.num_acks > 0 ∧ found.seq = seq then
        .ok (record, reordering_type_t.RETRANSMISSION, 3, time_lag)
      else
        match sender_record_find record ((seq + 4294967295) % 4294967296) with
        | .error e => .error e
        | .ok none => .ok (record, reordering_type_t.RETRANSMISSION, 4, time_lag)
        | .ok (some prev_packet_record) =>
          match packet_deref record prev_packet_record with
          | .error e => .error e
          | .ok prev =>
            let dup_acks := prev.num_acks
            if found.is_missing = false then
              match reordering_update_mark record seq payload packet_record found with
              | .error e => .error e
              | .ok record =>
                match packet_deref record packet_record with
                | .error e => .error e
                | .ok found =>
                  let decision :=
                    reordering_update_seen ip_id found rtt rto time_lag dup_acks record.in_recovery
                  .ok ({ record with in_recovery := decision.2.2 }, decision.1, decision.2.1,
                    time_lag)
            else
              match reordering_update_splice record seq payload packet_record found with
              | .error e => .error e
              | .ok record =>
                let decision :=
                  reordering_update_missing rtt rto time_lag dup_acks record.in_recovery
                .ok ({ record with in_recovery := decision.2.2 }, decision.1, decision.2.1,
                  time_lag)

/-- Lines 460-630 of `reordering_update`, a packet with payload: the sender
record, the type, the message and the time lag afterwards. -/
def reordering_update_data (record : sender_record_t) (seq : Nat) (payload : Int) (time : ℚ)
    (ip_id : Nat) (rtt rto : ℚ) : Except fault (sender_record_t × reordering_type_t × Nat × ℚ) :=
  if seq > record.expected_seq then
    match sender_record_add record record.expected_seq time 0 with
    | .error e => .error e
    | .ok (record, packet_record) =>
      match packet_assign record { idx := packet_record, link := 0 }
          (fun p => { p with is_missing := true }) with
      | .error e => .error e
      | .ok record =>
        match sender_record_add record seq time ip_id with
        | .error e => .error e
        | .ok (record, _) =>
          .ok ({ record with expected_seq := uint32_add seq payload, in_recovery := 0 },
            reordering_type_t.HIGH, 1, 0)
  else if seq = record.expected_seq then
    match sender_record_add { record with in_recovery := 0 } seq time ip_id with
    | .error e => .error e
    | .ok (record, _) =>
      .ok ({ record with expected_seq := uint32_add record.expected_seq payload },
        reordering_type_t.INORDER, 0, 0)
  else reordering_update_low record seq payload time ip_id rtt rto

/-- Function `reordering_update`. A packet without IP or TCP header makes the
code read through a null pointer. -/
def reordering_update {σ : Type} (rtt_module : rtt_module_t σ) (reordering : reordering_t σ)
    (packet : libtrace_packet_t) : Except fault (reordering_t σ) :=
  match packet.ip, packet.tcp with
  | some ip, some tcp =>
    let direction := packet.direction
    let time := trace_get_seconds packet
    let payload := payload_length ip tcp
    let seq := ntohl tcp.seq
    let ip_id := ntohs ip.ip_id
    if direction < 0 ∨ direction > 1 then .ok reordering
    else
      match rtt_module.update reordering.rtt_data packet with
      | .error e => .error e
      | .ok rtt_data =>
        let values :=
          reordering_update_rtt reordering.min_rtt (rtt_module.inside_rtt rtt_data)
            (rtt_module.outside_rtt rtt_data)
        let reordering : reordering_t σ :=
          { reordering with
            rtt_data := rtt_data
            min_rtt := values.2.2
            last_packet := reordering_type_t.INORDER
            last_packet_message := 0
            time_lag := 0 }
        if tcp.syn = true then
          .ok (reordering.set_record direction
            { reordering.record direction with expected_seq := (seq + 1) % 4294967296 })
        else
          let classified : Except fault (reordering_t σ) :=
            if payload > 0 then
              match reordering_update_data (reordering.record direction) seq payload time ip_id
                  values.1 values.2.1 with
              | .error e => .error e
              | .ok (record, last_packet, last_packet_message, time_lag) =>
                .ok { reordering.set_record direction record with
                      last_packet := last_packet
                      last_packet_message := last_packet_message
                      time_lag := time_lag }
            else .ok reordering
          match classified with
          | .error e => .error e
          | .ok reordering =>
            match sender_record_ack (reordering.record (1 - direction)) (ntohl tcp.ack_seq) with
            | .error e => .error e
            | .ok (record, _) => .ok (reordering.set_record (1 - direction) record)
  | _, _ => .error fault.undefined_behaviour

/-- Function `reordering_get_type`. -/
def reordering_get_type {σ : Type} (reordering : reordering_t σ) : reordering_type_t :=
  reordering.last_packet

/-- Function `reordering_get_message` (`none` for an index outside the table). -/
def reordering_get_message {σ : Type} (reordering : reordering_t σ) : Option String :=
  reordering_messages[reordering.last_packet_message]?

/-- Function `reordering_get_time_lag`. -/
def reordering_get_time_lag {σ : Type} (reordering : reordering_t σ) : ℚ :=
  reordering.time_lag

/-- A run of `reordering_update` over the packets of a flow, in order. -/
def reordering_run {σ : Type} (rtt_module : rtt_module_t σ) :
    reordering_t σ → List libtrace_packet_t → Except fault (reordering_t σ)
  | reordering, [] => .ok reordering
  | reordering, packet :: rest =>
    match reordering_update rtt_module reordering packet with
    | .error e => .error e
    | .ok reordering => reordering_run rtt_module reordering rest

/-! ### rtthandshake.c -/

/-- Struct `rtt_handshake_record_t`. -/
structure rtt_handshake_record_t where
  rtt_in : ℚ
  rtt_out : ℚ
  established : Nat
  deriving DecidableEq, Repr

/-- Function `rtt_handshake_create`. -/
def rtt_handshake_create : rtt_handshake_record_t :=
  { rtt_in := -1, rtt_out := -1, established := 0 }

/-- Function `rtt_handshake_update`. -/
def rtt_handshake_update (record : rtt_handshake_record_t) (packet : libtrace_packet_t) :
    rtt_handshake_record_t :=
  if record.established = 0 then
    match packet.tcp with
    | none => record
    | some tcp =>
      let time := trace_get_seconds packet
      let direction := packet.direction
      if ¬ (direction = 0 ∨ direction = 1) then record
      else if tcp.syn = true then
        if tcp.ack = true then
          if direction = 0 then
            { rtt_in := if record.rtt_in < 0 then record.rtt_in + time else record.rtt_in
              rtt_out := -time
              established := record.established }
          else
            { rtt_in := -time
              rtt_out := if record.rtt_out < 0 then record.rtt_out + time else record.rtt_out
              established := record.established }
        else if direction = 0 then { record with rtt_out := -time }
        else { record with rtt_in := -time }
      else if tcp.ack = true then
        if direction = 0 then { record with rtt_in := record.rtt_in + time, established := 1 }
        else { record with rtt_out := record.rtt_out + time, established := 1 }
      else record
  else record

/-- Function `rtt_handshake_inside`. -/
def rtt_handshake_inside (record : rtt_handshake_record_t) : ℚ :=
  if record.rtt_in > 0 then record.rtt_in else -1

/-- Function `rtt_handshake_outside`. -/
def rtt_handshake_outside (record : rtt_handshake_record_t) : ℚ :=
  if record.rtt_out > 0 then record.rtt_out else -1

/-- Function `rtt_handshake_rtt_module`. -/
def rtt_handshake_rtt_module : rtt_module_t rtt_handshake_record_t :=
  { create := rtt_handshake_create
    update := fun record packet => .ok (rtt_handshake_update record packet)
    inside_rtt := rtt_handshake_inside
    outside_rtt := rtt_handshake_outside }

/-- A TCP/IPv4 segment without options as a test supplies it: the capture
time as ERF time stamp, the direction, the IP identification, sequence
numbers and payload length as host-order numbers, the SYN and ACK flags. -/
def tcp_segment (erf_timestamp : Nat) (direction : Int) (ip_id seq ack_seq payload : Nat)
    (syn ack : Bool) : libtrace_packet_t :=
  { erf_timestamp := erf_timestamp
    direction := direction
    ip := some { ip_hl := 5, ip_len := htons (40 + payload), ip_src := 0, ip_dst := 0,
                 ip_id := htons ip_id }
    tcp := some { source := 0, dest := 0, seq := htonl seq, ack_seq := htonl ack_seq, doff := 5,
                  fin := false, syn := syn, rst := false, ack := ack } }

/-! ### The queue of a sender record -/

/-- The shape of a sender record as `sender_record_add` and `sender_record_ack`
keep it: the block has `array_size` elements, a multiple of the increment that
fits the `uint16_t`, and the queue lies inside it. -/
structure sender_wf (record : sender_record_t) : Prop where
  block : record.array.length = record.array_size
  multiple : record.array_size % 20 = 0
  bound : record.array_size ≤ 65520
  length : record.length ≤ record.array_size
  lower : record.lower_idx < record.array_size ∨ record.lower_idx = 0

/-- The queue of a sender record from bottom to top: the `length` array
elements from `lower_idx` on, around the end of the block. -/
def sender_items (record : sender_record_t) : List packet_slot_t :=
  (List.range record.length).map
    (fun i => record.array.getD ((record.lower_idx + i) % record.array_size) packet_slot_initial)

/-- The records of a queue in the order of the search: every array element
followed by its chain. -/
def sender_flat (items : List packet_slot_t) : List packet_record_t :=
  items.flatMap (fun slot => slot.packet :: slot.missing_link)

/-- The sequence number and the placeholder flag of a record. -/
def packet_key (p : packet_record_t) : Nat × Bool := (p.seq, p.is_missing)

/-- The keys of an array element and of the records of its chain. -/
def slot_keys (slot : packet_slot_t) : List (Nat × Bool) :=
  (slot.packet :: slot.missing_link).map packet_key

/-- The keys of the queue of a sender record, element by element. -/
def sender_keys (record : sender_record_t) : List (List (Nat × Bool)) :=
  (sender_items record).map slot_keys

/-- A pointer that `sender_record_find` can return: it points to an element of
the queue or into its chain. -/
def ref_valid (record : sender_record_t) (ref : packet_ref_t) : Prop :=
  ∃ (i : Nat) (slot : packet_slot_t),
    (sender_items record)[i]? = some slot
      ∧ ref.idx = (record.lower_idx + i) % record.array_size
      ∧ ref.link ≤ slot.missing_link.length

/-- Both sender records of a classifier state have the shape that the module
keeps. -/
structure reordering_wf {σ : Type} (reordering : reordering_t σ) : Prop where
  record_0 : sender_wf reordering.record_0
  record_1 : sender_wf reordering.record_1

/-- The value of `rtt` after line 447 of `reordering_update`, for the field
`min_rtt` before the call and the session data of the RTT module after its
update. -/
def reordering_rtt {σ : Type} (rtt_module : rtt_module_t σ) (min_rtt : ℚ) (rtt_data : σ) : ℚ :=
  (reordering_update_rtt min_rtt (rtt_module.inside_rtt rtt_data)
    (rtt_module.outside_rtt rtt_data)).1

/-- The value of `rto` after line 447 of `reordering_update`. -/
def reordering_rto {σ : Type} (rtt_module : rtt_module_t σ) (min_rtt : ℚ) (rtt_data : σ) : ℚ :=
  (reordering_update_rtt min_rtt (rtt_module.inside_rtt rtt_data)
    (rtt_module.outside_rtt rtt_data)).2.1

/-! ### Test inputs for the classifier -/

/-- Equality of the outcomes of the embedded code is decidable. -/
instance instDecidableEqExcept {ε α : Type} [DecidableEq ε] [DecidableEq α] :
    DecidableEq (Except ε α) := fun a b =>
  match a, b with
  | .ok x, .ok y => if h : x = y then isTrue (by rw [h]) else isFalse (fun e => h (by cases e; rfl))
  | .error x, .error y =>
    if h : x = y then isTrue (by rw [h]) else isFalse (fun e => h (by cases e; rfl))
  | .ok _, .error _ => isFalse (fun e => by cases e)
  | .error _, .ok _ => isFalse (fun e => by cases e)

/-- The classifier state after the packets of a flow (the fresh state when
the run has no result). -/
def classifier_after {σ : Type} (rtt_module : rtt_module_t σ) (trace : List libtrace_packet_t) :
    reordering_t σ :=
  match reordering_run rtt_module (reordering_create rtt_module) trace with
  | .ok reordering => reordering
  | .error _ => reordering_create rtt_module

/-- The ERF time stamp of `n` eighths of a second. -/
def eighths (n : Nat) : Nat := n * 536870912

/-- A handshake between A (direction 0, first sequence number 0) and B
(direction 1, first sequence number 5000) at 1, 1.125 and 1.25 s, then two
segments of 100 bytes from A at 1.375 and 1.5 s. -/
def two_segments : List libtrace_packet_t :=
  [ tcp_segment (eighths 8) 0 1 0 0 0 true false,
    tcp_segment (eighths 9) 1 1 5000 1 0 true true,
    tcp_segment (eighths 10) 0 2 1 5001 0 false true,
    tcp_segment (eighths 11) 0 3 1 5001 100 false true,
    tcp_segment (eighths 12) 0 4 101 5001 100 false true ]

/-- The handshake of `two_segments`, then a segment of 100 bytes from A at
sequence number 1 and one at sequence number 201: the segment at 101 is
missing. -/
def segment_missing : List libtrace_packet_t :=
  [ tcp_segment (eighths 8) 0 1 0 0 0 true false,
    tcp_segment (eighths 9) 1 1 5000 1 0 true true,
    tcp_segment (eighths 10) 0 2 1 5001 0 false true,
    tcp_segment (eighths 11) 0 3 1 5001 100 false true,
    tcp_segment (eighths 12) 0 5 201 5001 100 false true ]

/-- The packets of `two_segments`, then an ACK from B for both segments. -/
def two_segments_acked : List libtrace_packet_t :=
  two_segments ++ [tcp_segment (eighths 13) 1 2 5001 201 0 false true]

/-- A SYN from A (direction 0, sequence number 0) at 1 s and a segment of 100
bytes from A at 1.125 s, before any packet of B. -/
def early_segment : List libtrace_packet_t :=
  [ tcp_segment (eighths 8) 0 1 0 0 0 true false,
    tcp_segment (eighths 9) 0 2 1 0 100 false false ]

/-- The packets of `early_segment`, then `n` ACKs of B that acknowledge the
first byte of the segment. -/
def first_byte_acked (n : Nat) : List libtrace_packet_t :=
  early_segment ++ List.replicate n (tcp_segment (eighths 10) 1 2 1 2 0 false true)

/-! ### Order of the queue of a sender record -/

/-- The order that the records of a queue keep, on their keys: every element
has its own record; in the order of the search the sequence numbers ascend
strictly; all lie below the expected sequence number; the records of the
chains are placeholders; a chain hangs off a placeholder only; the top record
is no placeholder. -/
structure keys_ordered (keys : List (List (Nat × Bool))) (expected_seq : Nat) : Prop where
  nonempty : ∀ c ∈ keys, c ≠ []
  sorted : (keys.flatten.map Prod.fst).Pairwise (fun a b => a < b)
  below : ∀ k ∈ keys.flatten, k.1 < expected_seq
  links : ∀ c ∈ keys, ∀ k ∈ c.tail, k.2 = true
  owner : ∀ c ∈ keys, ∀ k, c.head? = some k → k.2 = false → c.tail = []
  top : ∀ c, keys.getLast? = some c → ∀ k, c.head? = some k → k.2 = false

/-- The queue of a sender record is in order. -/
def sender_ordered (record : sender_record_t) : Prop :=
  keys_ordered (sender_keys record) record.expected_seq

/-- Both queues of a classifier state are in order. -/
structure reordering_ordered {σ : Type} (reordering : reordering_t σ) : Prop where
  record_0 : sender_ordered reordering.record_0
  record_1 : sender_ordered reordering.record_1

/-- The packets that keep the queues in order. A SYN of direction 0 or 1
arrives when every record queued in its direction has a sequence number below
the one that the SYN sets as the expected one; a packet with payload and
without SYN at or above the expected sequence number has `seq + payload` at
most `2^32 - 1`. -/
def packet_regular {σ : Type} (reordering : reordering_t σ) (packet : libtrace_packet_t) : Prop :=
  ∀ (ip : libtrace_ip) (tcp : libtrace_tcp), packet.ip = some ip → packet.tcp = some tcp →
    (packet.direction = 0 ∨ packet.direction = 1) →
      (tcp.syn = true →
        ∀ k ∈ (sender_keys (reordering.record packet.direction)).flatten,
          k.1 < (ntohl tcp.seq + 1) % 4294967296)
      ∧ (tcp.syn = false → payload_length ip tcp > 0 →
          ntohl tcp.seq ≥ (reordering.record packet.direction).expected_seq →
          (ntohl tcp.seq : Int) + payload_length ip tcp ≤ 4294967295)

/-- The classifier states that `reordering_create` and calls of
`reordering_update` with regular packets reach. -/
inductive reordering_regular {σ : Type} (rtt_module : rtt_module_t σ) : reordering_t σ → Prop
  | create : reordering_regular rtt_module (reordering_create rtt_module)
  | update (reordering after : reordering_t σ) (packet : libtrace_packet_t) :
      reordering_regular rtt_module reordering → packet_regular reordering packet →
      reordering_update rtt_module reordering packet = .ok after →
      reordering_regular rtt_module after

/-- A SYN of direction `d`. -/
def is_syn (d : Int) (packet : libtrace_packet_t) : Bool :=
  match packet.tcp with
  | some tcp => decide (packet.direction = d) && tcp.syn
  | none => false

/-- A data packet of direction `d`: a packet with payload that
`reordering_update` does not take for a SYN. -/
def is_data (d : Int) (packet : libtrace_packet_t) : Bool :=
  match packet.ip, packet.tcp with
  | some ip, some tcp =>
    decide (packet.direction = d) && !tcp.syn && decide (payload_length ip tcp > 0)
  | _, _ => false

/-- No SYN of direction `d` arrives after the first data packet of direction
`d`. -/
def no_syn_after_data (d : Int) : List libtrace_packet_t → Bool
  | [] => true
  | packet :: rest =>
    (!is_data d packet || rest.all (fun q => !is_syn d q)) && no_syn_after_data d rest

/-- No packet of the trace has `seq + payload` above `2^32 - 1`. -/
def no_wrap (trace : List libtrace_packet_t) : Bool :=
  trace.all (fun packet =>
    match packet.ip, packet.tcp with
    | some ip, some tcp => decide ((ntohl tcp.seq : Int) + payload_length ip tcp ≤ 4294967295)
    | _, _ => true)

/-- The handshake of `two_segments`, then segments of 100 bytes from A at
sequence numbers 1 and 301 and, after them, the segment at 101: the bytes from
201 on are still missing. -/
def gap_partly_filled : List libtrace_packet_t :=
  [ tcp_segment (eighths 8) 0 1 0 0 0 true false,
    tcp_segment (eighths 9) 1 1 5000 1 0 true true,
    tcp_segment (eighths 10) 0 2 1 5001 0 false true,
    tcp_segment (eighths 11) 0 3 1 5001 100 false true,
    tcp_segment (eighths 12) 0 5 301 5001 100 false true,
    tcp_segment (eighths 13) 0 4 101 5001 100 false true ]

/-- A segment of 100 bytes from A at sequence number 100, then a SYN from A
with sequence number 49 and a segment of 10 bytes at sequence number 50. -/
def syn_after_data : List libtrace_packet_t :=
  [ tcp_segment (eighths 8) 0 1 100 0 100 false false,
    tcp_segment (eighths 9) 0 2 49 0 0 true false,
    tcp_segment (eighths 10) 0 3 50 0 10 false false ]

/-- A segment of 200 bytes from A at sequence number `2^32 - 100`, then a
segment of 10 bytes at sequence number 100. -/
def sequence_wraps : List libtrace_packet_t :=
  [ tcp_segment (eighths 8) 0 1 4294967196 0 200 false false,
    tcp_segment (eighths 9) 0 2 100 0 10 false false ]

/-- The array element of the placeholder for the bytes from 101 on after
`gap_partly_filled`, with the placeholder for the bytes from 201 on in its
chain. -/
def gap_placeholder : packet_slot_t :=
  { packet := { seq := 101, time := 3 / 2, ip_id := 0, num_acks := 0, is_missing := true,
                is_misaligned := false }
    missing_link := [{ seq := 201, time := 3 / 2, ip_id := 0, num_acks := 0, is_missing := true,
                       is_misaligned := false }] }

/-- A data packet of direction `d` arrives in order: its sequence number is
the expected one of its direction (`true` for any other packet). -/
def arrives_in_order {σ : Type} (d : Int) (reordering : reordering_t σ)
    (packet : libtrace_packet_t) : Bool :=
  !is_data d packet
    || match packet.tcp with
       | some tcp => decide (ntohl tcp.seq = (reordering.record d).expected_seq)
       | none => true

/-- Every data packet of direction `d` in the trace arrives in order, from the
state `reordering` on (up to the packet for which `reordering_update` has no
result, when there is one). -/
def in_order_arrivals {σ : Type} (rtt_module : rtt_module_t σ) (d : Int) :
    reordering_t σ → List libtrace_packet_t → Bool
  | _, [] => true
  | reordering, packet :: rest =>
    arrives_in_order d reordering packet
      && match reordering_update rtt_module reordering packet with
         | .ok after => in_order_arrivals rtt_module d after rest
         | .error _ => true

/-- A queue without placeholders and without chains. -/
def sender_plain (record : sender_record_t) : Prop :=
  ∀ slot ∈ sender_items record, slot.packet.is_missing = false ∧ slot.missing_link = []

/-- A SYN from A with sequence number 0 that carries 100 bytes. -/
def syn_with_payload : libtrace_packet_t :=
  tcp_segment (eighths 8) 0 1 0 0 100 true false

/-- A SYN from A with sequence number `2^32 - 101`, then a segment of 200
bytes at the expected sequence number `2^32 - 100`. -/
def in_order_wrap : List libtrace_packet_t :=
  [ tcp_segment (eighths 8) 0 1 4294967195 0 0 true false,
    tcp_segment (eighths 9) 0 2 4294967196 0 200 false false ]

/-- The classifier state holds the queue `items` (from bottom to top) and the
expected sequence number `expected_seq` for direction `a`, and an empty queue
for the other direction. -/
def queues_are {σ : Type} (reordering : reordering_t σ) (a : Int) (items : List packet_slot_t)
    (expected_seq : Nat) : Prop :=
  reordering_wf reordering
    ∧ sender_items (reordering.record a) = items
    ∧ (reordering.record a).expected_seq = expected_seq
    ∧ sender_items (reordering.record (1 - a)) = []

/-- The array element of a segment that arrived in order. -/
def segment_slot (seq : Nat) (time : ℚ) (ip_id num_acks : Nat) (flag : Bool) : packet_slot_t :=
  { packet := { seq := seq, time := time, ip_id := ip_id, num_acks := num_acks,
                is_missing := false, is_misaligned := flag }
    missing_link := [] }

/-- Scenario 2 up to the duplicate acknowledgements. A (direction `a`) and B
shake hands (SYN `s - 1`, SYN+ACK `b - 1`, ACK); A sends four segments of 100
bytes at `s`, `s + 100`, `s + 200`, `s + 300`; B sends an ACK for `s` and four
ACKs for `s + 100`. Packet `i` has the ERF time stamp `time i` and the IP
identification `ip_id i`. -/
def fast_retransmit_acks (a : Int) (s b : Nat) (time ip_id : Nat → Nat) :
    List libtrace_packet_t :=
  [ tcp_segment (time 0) a (ip_id 0) (s - 1) 0 0 true false,
    tcp_segment (time 1) (1 - a) (ip_id 1) (b - 1) s 0 true true,
    tcp_segment (time 2) a (ip_id 2) s b 0 false true,
    tcp_segment (time 3) a (ip_id 3) s b 100 false true,
    tcp_segment (time 4) a (ip_id 4) (s + 100) b 100 false true,
    tcp_segment (time 5) a (ip_id 5) (s + 200) b 100 false true,
    tcp_segment (time 6) a (ip_id 6) (s + 300) b 100 false true,
    tcp_segment (time 7) (1 - a) (ip_id 7) b s 0 false true,
    tcp_segment (time 8) (1 - a) (ip_id 8) b (s + 100) 0 false true,
    tcp_segment (time 9) (1 - a) (ip_id 9) b (s + 100) 0 false true,
    tcp_segment (time 10) (1 - a) (ip_id 10) b (s + 100) 0 false true,
    tcp_segment (time 11) (1 - a) (ip_id 11) b (s + 100) 0 false true ]

/-- Scenario 2, the segment at `s + 100` once more, with the ERF time stamp
`time 12` and the IP identification `retransmit_id`. -/
def fast_retransmit_segment (a : Int) (s b : Nat) (time : Nat → Nat) (retransmit_id : Nat) :
    libtrace_packet_t :=
  tcp_segment (time 12) a retransmit_id (s + 100) b 100 false true

/-- Capture times for scenario 2: the handshake at 1, 2 and 3 s, the packets
after it an eighth of a second apart, from 3.375 s on. -/
def scenario2_time (i : Nat) : Nat :=
  if i < 3 then eighths (8 * (i + 1)) else eighths (24 + i)

/-- IP identifications for scenario 2: packet `i` carries `i + 1`. -/
def scenario2_ip_id (i : Nat) : Nat := i + 1

/-- The session data of `rtt_replay_module`: the sample it reports and the
samples to come. -/
structure rtt_replay_t where
  current : ℚ
  samples : List ℚ
  deriving DecidableEq, Repr

/-- An RTT module for tests, as `reordering_set_rtt_module` accepts any: at
every packet it takes the next sample of a list and reports it as the inside
and as the outside RTT (`-1` before the first packet, the last sample when the
list is used up). -/
def rtt_replay_module (samples : List ℚ) : rtt_module_t rtt_replay_t :=
  { create := { current := -1, samples := samples }
    update := fun record _ =>
      .ok (match record.samples with
           | [] => record
           | sample :: rest => { current := sample, samples := rest })
    inside_rtt := fun record => record.current
    outside_rtt := fun record => record.current }

/-- A SYN from A at 1 s, segments of 100 bytes at sequence numbers 1 and 101
at 1.125 and 1.25 s, and the segment at 101 once more, with the same IP
identification, at 1.5 s. -/
def duplicate_segment : List libtrace_packet_t :=
  [ tcp_segment (eighths 8) 0 1 0 0 0 true false,
    tcp_segment (eighths 9) 0 2 1 0 100 false false,
    tcp_segment (eighths 10) 0 3 101 0 100 false false,
    tcp_segment (eighths 12) 0 3 101 0 100 false false ]

/-! ## Type and message of the classifier -/

/-- The message table as the specification lists it: index and string. -/
def specified_messages : List (Nat × String) :=
  [ (0, "packet in order"),
    (1, "sequence number higher than expected"),
    (2, "unneeded retransmission (packet record not found)"),
    (3, "unneeded retransmission (already acked)"),
    (4, "retransmission (cannot find dup acks)"),
    (5, "retransmission (IP ID different)"),
    (6, "retransmission (time_lag > rto)"),
    (7, "retransmission (duplicate acks >= 3)"),
    (8, "retransmission (in recovery)"),
    (9, "network duplicate"),
    (10, "unknown"),
    (11, "network reordering") ]

/-- The type that goes with a message index: INORDER with 0, HIGH with 1,
RETRANSMISSION with 2 to 8, NETWORK_DUPLICATE with 9, UNKNOWN with 10,
NETWORK_REORDERING with 11, none with an index outside the table. -/
def message_type (message : Nat) : Option reordering_type_t :=
  if message = 0 then some reordering_type_t.INORDER
  else if message = 1 then some reordering_type_t.HIGH
  else if message ≤ 8 then some reordering_type_t.RETRANSMISSION
  else if message = 9 then some reordering_type_t.NETWORK_DUPLICATE
  else if message = 10 then some reordering_type_t.UNKNOWN
  else if message = 11 then some reordering_type_t.NETWORK_REORDERING
  else none

/-! ## Test inputs for the handshake estimator -/

/-- The handshake of scenario 1 of the specification, with the capture times
`t0`, `t1`, `t2` as ERF time stamps: SYN from A (direction 0, sequence number
1000), SYN+ACK from B, ACK from A. -/
def scenario1_handshake (t0 t1 t2 : Nat) : List libtrace_packet_t :=
  [ tcp_segment t0 0 1 1000 0 0 true false,
    tcp_segment t1 1 1 5000 1001 0 true true,
    tcp_segment t2 0 2 1001 5001 0 false true ]

/-- The handshake estimator after the packets of a flow, in order. -/
def rtt_handshake_after (trace : List libtrace_packet_t) : rtt_handshake_record_t :=
  trace.foldl rtt_handshake_update rtt_handshake_create

/-- The handshake of `two_segments`, then segments of 100 bytes from A at
sequence numbers 1 and 301 and, after them, a segment of 50 bytes at 151, in
the middle of the gap from 101 to 300. -/
def segment_in_gap : List libtrace_packet_t :=
  [ tcp_segment (eighths 8) 0 1 0 0 0 true false,
    tcp_segment (eighths 9) 1 1 5000 1 0 true true,
    tcp_segment (eighths 10) 0 2 1 5001 0 false true,
    tcp_segment (eighths 11) 0 3 1 5001 100 false true,
    tcp_segment (eighths 12) 0 5 301 5001 100 false true,
    tcp_segment (eighths 13) 0 4 151 5001 50 false true ]

/-! ## queue.c, the iterator -/

/-- Struct `queue_itr_t`: `count` is an `unsigned short`, `pos` an
`unsigned int`. -/
structure queue_itr_t where
  count : Nat
  pos : Nat
  deriving DecidableEq, Repr

/-- Function `queue_itr_begin`: the iterator and the pointer returned, as a
byte offset into the buffer (absent for `NULL`, which leaves the iterator as it
was). -/
def queue_itr_begin {α : Type} (array : queue_t α) (vars : queue_vars_t) (itr : queue_itr_t) :
    queue_itr_t × Option Int :=
  if array.length = 0 then (itr, none)
  else
    let pos := (array.lower_idx * (vars.item_size % 4294967296)) % 4294967296
    ({ count := 1, pos := pos }, some (pos : Int))

/-- Function `queue_itr_next`. -/
def queue_itr_next {α : Type} (array : queue_t α) (vars : queue_vars_t) (itr : queue_itr_t) :
    queue_itr_t × Option Int :=
  if itr.count = array.length then (itr, none)
  else
    let pos := (itr.pos + vars.item_size % 4294967296) % 4294967296
    let pos :=
      if pos = (array.buffer_size * (vars.item_size % 4294967296)) % 4294967296 then 0 else pos
    ({ count := (itr.count + 1) % 65536, pos := pos }, some (pos : Int))

/-- Function `queue_itr_remove`: the three fields are changed without a test,
each in its unsigned type. -/
def queue_itr_remove {α : Type} (array : queue_t α) (itr : queue_itr_t) :
    queue_t α × queue_itr_t :=
  let lower_idx := (array.lower_idx + 1) % 4294967296
  let lower_idx := if lower_idx = array.buffer_size then 0 else lower_idx
  ({ array with lower_idx := lower_idx, length := (array.length + 4294967295) % 4294967296 },
   { itr with count := (itr.count + 65535) % 65536 })

/-! ### The shape of a queue -/

/-- Slot `k` of a buffer of `allocated` bytes for items of `s` bytes: the byte
offset of the slot fits an `int` and the item lies within the buffer. -/
def queue_slot_ok (allocated s k : Nat) : Prop :=
  k * s < 2147483648 ∧ k * s + s ≤ allocated

/-- The queue holds the items `items` from the bottom to the top, in a buffer
of `buffer_size` slots of `s` bytes whose size `malloc` has been given as an
`unsigned int`: the fields are values of `uint32_t`, the window of the queue
lies in the buffer, and the slots from 0 up to a mark that covers the window
and the bottom are slots of the allocated memory. -/
structure queue_holds {α : Type} (q : queue_t α) (s : Nat) (items : List α) : Prop where
  size : q.buffer_size < 4294967296
  allocated : q.allocated = (q.buffer_size * s) % 4294967296
  lower : q.lower_idx < q.buffer_size ∨ (q.buffer_size = 0 ∧ q.lower_idx = 0)
  length : q.length = items.length
  fits : items.length ≤ q.buffer_size
  mark : ∃ hi, hi ≤ q.buffer_size ∧ (∀ k, k < hi → queue_slot_ok q.allocated s k) ∧
    q.lower_idx ≤ hi ∧ (q.lower_idx + items.length ≤ hi ∨ hi = q.buffer_size)
  slots : ∀ i, i < items.length →
    q.ptr (((q.lower_idx + i) % q.buffer_size) * s) = items.get? i

/-- The values of `queue_vars_t` of a queue as queue.h describes it: items of
at least one byte, and either a buffer that grows by a positive increment
(`buffer_size` is `-1`) or a positive fixed number of slots. -/
structure queue_vars_ok (vars : queue_vars_t) : Prop where
  item : 0 < vars.item_size ∧ vars.item_size < 4294967296
  policy : (vars.buffer_size = -1 ∧ 0 < vars.buffer_increment
      ∧ vars.buffer_increment < 2147483648)
    ∨ (0 < vars.buffer_size ∧ vars.buffer_size < 2147483648)

/-- The number of slots of the buffer in which `queue_add` puts the item, as
lines 100-116 set it: the initial number for a buffer not yet created, the
number grown by the increment for a full buffer that can grow, and the number
as it is otherwise. -/
def queue_add_size {α : Type} (array : queue_t α) (vars : queue_vars_t) : Nat :=
  if array.buffer_size = 0 then
    int_to_uint32 (if vars.buffer_size = -1 then vars.buffer_increment else vars.buffer_size)
  else if vars.buffer_size = -1 ∧ array.length = array.buffer_size then
    (array.buffer_size + int_to_uint32 vars.buffer_increment) % 4294967296
  else array.buffer_size

/-! ## rttnsequence.c -/

/-- Modelled from the spec: the macro `RTT_N_SEQUENCE_MAX_RTT`, which
rttnsequence.c uses at line 228 and no file of the library defines. The
specification gives the limit as 20 s, the header comment of rttnsequence.c
says "20 s rtt timeout", and rtttimestamp.c defines its own `MAX_RTT` as 20. -/
def RTT_N_SEQUENCE_MAX_RTT : ℚ := 20

/-- Macro `SMOOTH`, 0.875. -/
def SMOOTH : ℚ := 7 / 8

/-- Macro `VARSMOOTH`, 0.75. -/
def VARSMOOTH : ℚ := 3 / 4

/-- Struct `rtt_n_item_t`: the acknowledgement number expected for a data
packet, a `uint32_t`, and the time of the packet. -/
structure rtt_n_item_t where
  expected_ack : Nat
  time : ℚ
  deriving DecidableEq, Repr

/-- The global `rtt_n_queue_vars` after `rtt_n_sequence_create`, which sets the
increment to 10 and the item size to `sizeof (struct rtt_n_item_t)`, 16 bytes
where a `double` is aligned to 8 bytes; `buffer_size` is the value that the
last call of `rtt_n_sequence_set_buffer_size` has left, `-1` initially. -/
def rtt_n_queue_vars (buffer_size : Int) : queue_vars_t :=
  { buffer_size := buffer_size, buffer_increment := 10, item_size := 16 }

/-- Function `rtt_n_sequence_set_buffer_size`: the value of
`rtt_n_queue_vars.buffer_size` after the call. -/
def rtt_n_sequence_set_buffer_size (size : Int) : Int :=
  if size = -1 ∨ (size > 0 ∧ size < 65536) then size else -1

/-- One element of the array `dir` of struct `rtt_n_t`; `count` is an `int`. -/
structure rtt_n_dir_t where
  queue : queue_t rtt_n_item_t
  rtt : ℚ
  rtt_var : ℚ
  total : ℚ
  count : Int

/-- Struct `rtt_n_t`; `dir_0` and `dir_1` are the two elements of the array
`dir`. -/
structure rtt_n_t where
  dir_0 : rtt_n_dir_t
  dir_1 : rtt_n_dir_t
  last_rtt : ℚ

/-- The element `rtt_n->dir[direction]` for a direction 0 or 1. -/
def rtt_n_t.dir (rtt_n : rtt_n_t) (direction : Int) : rtt_n_dir_t :=
  if direction = 0 then rtt_n.dir_0 else rtt_n.dir_1

/-- The state after an assignment to `rtt_n->dir[direction]` for a direction 0
or 1. -/
def rtt_n_t.set_dir (rtt_n : rtt_n_t) (direction : Int) (dir : rtt_n_dir_t) : rtt_n_t :=
  if direction = 0 then { rtt_n with dir_0 := dir } else { rtt_n with dir_1 := dir }

/-- Function `rtt_n_sequence_create`. The function does not set `last_rtt`;
`indeterminate` is the value that `malloc` has left there. -/
def rtt_n_sequence_create (indeterminate : ℚ) : rtt_n_t :=
  { dir_0 := { queue := queue_create, rtt := -1, rtt_var := -1, total := 0, count := 0 }
    dir_1 := { queue := queue_create, rtt := -1, rtt_var := -1, total := 0, count := 0 }
    last_rtt := indeterminate }

/-- The test `(item == NULL) || (expected > item->expected_ack)` of line 191 on
the pointer that `queue_top` returns. -/
def rtt_n_sequence_is_new (vars : queue_vars_t) (queue : queue_t rtt_n_item_t) (expected : Nat) :
    Except fault Bool :=
  match queue_top queue vars with
  | .error e => .error e
  | .ok none => .ok true
  | .ok (some p) =>
    match queue_item queue (some p) with
    | none => .error fault.undefined_behaviour
    | some item => .ok (decide (expected > item.expected_ack))

/-- Lines 186-201 of `rtt_n_sequence_update`: a packet with data is added to
the queue of the other direction, or that queue is cleared. -/
def rtt_n_sequence_record (vars : queue_vars_t) (queue : queue_t rtt_n_item_t) (expected : Nat)
    (time : ℚ) : Except fault (queue_t rtt_n_item_t) :=
  match rtt_n_sequence_is_new vars queue expected with
  | .error e => .error e
  | .ok true =>
    match queue_add queue vars { expected_ack := expected, time := time } with
    | .error e => .error e
    | .ok (queue, _) => .ok queue
  | .ok false => .ok (queue_clear queue)

/-- Lines 215-224 of `rtt_n_sequence_update`, the loop over the queue of the
direction of the packet from the pointer `item` on: the queue left and the
value of `rtt`. The first argument bounds the number of rounds. -/
def rtt_n_sequence_acknowledge :
    Nat → queue_vars_t → queue_t rtt_n_item_t → queue_itr_t → Option Int → Nat → ℚ → ℚ →
      Except fault (queue_t rtt_n_item_t × ℚ)
  | _, _, queue, _, none, _, _, rtt => .ok (queue, rtt)
  | 0, _, _, _, some _, _, _, _ => .error fault.out_of_fuel
  | rounds + 1, vars, queue, itr, some p, ack, time, rtt =>
    match queue_item queue (some p) with
    | none => .error fault.undefined_behaviour
    | some item =>
      if ack ≥ item.expected_ack then
        let removed := queue_itr_remove queue itr
        let next := queue_itr_next removed.1 vars removed.2
        rtt_n_sequence_acknowledge rounds vars removed.1 next.1 next.2 ack time (time - item.time)
      else .ok (queue, rtt)

/-- The conversion of a `double` to `int`: the fraction is discarded, and a
value outside the range of `int` is undefined. -/
def double_to_int (x : ℚ) : Except fault Int :=
  if x.num.tdiv x.den < -2147483648 ∨ x.num.tdiv x.den > 2147483647 then
    .error fault.undefined_behaviour
  else .ok (x.num.tdiv x.den)

/-- The call `abs (x)` of line 241 with a `double` argument: `abs` of stdlib.h
takes and returns an `int`. -/
def abs_of_double (x : ℚ) : Except fault Int :=
  match double_to_int x with
  | .error e => .error e
  | .ok i => if i = -2147483648 then .error fault.undefined_behaviour else .ok (if i < 0 then -i else i)

/-- Lines 226-243 of `rtt_n_sequence_update`: the element of `dir` for the
direction of the packet and the value of `last_rtt`, which line 172 has set to
`-1`. The increment of the `int` at its greatest value is undefined. -/
def rtt_n_sequence_smooth (dir : rtt_n_dir_t) (rtt : ℚ) : Except fault (rtt_n_dir_t × ℚ) :=
  if rtt > 0 then
    if rtt > RTT_N_SEQUENCE_MAX_RTT then .ok (dir, -1)
    else if dir.count = 2147483647 then .error fault.undefined_behaviour
    else if dir.rtt < 0 then
      .ok ({ dir with total := dir.total + rtt, count := dir.count + 1, rtt := rtt,
                      rtt_var := rtt / 2 }, rtt)
    else
      match abs_of_double (SMOOTH * dir.rtt + (1 - SMOOTH) * rtt - rtt) with
      | .error e => .error e
      | .ok distance =>
        .ok ({ dir with
                total := dir.total + rtt
                count := dir.count + 1
                rtt := SMOOTH * dir.rtt + (1 - SMOOTH) * rtt
                rtt_var := VARSMOOTH * (SMOOTH * dir.rtt + (1 - SMOOTH) * rtt)
                  + (1 - VARSMOOTH) * (distance : ℚ) }, rtt)
  else .ok (dir, -1)

/-- Lines 178-203 of `rtt_n_sequence_update` for a packet of direction 0 or 1
with the headers `ip` and `tcp`: the state with a packet that has data recorded
in the queue of the other direction. -/
def rtt_n_sequence_data (vars : queue_vars_t) (rtt_n : rtt_n_t) (direction : Int)
    (ip : libtrace_ip) (tcp : libtrace_tcp) (time : ℚ) : Except fault rtt_n_t :=
  let payload := payload_length ip tcp
  if payload > 0 then
    match rtt_n_sequence_record vars (rtt_n.dir (1 - direction)).queue
        (uint32_add (ntohl tcp.seq) payload) time with
    | .error e => .error e
    | .ok queue =>
      .ok (rtt_n.set_dir (1 - direction) { rtt_n.dir (1 - direction) with queue := queue })
  else .ok rtt_n

/-- Lines 178-224 of `rtt_n_sequence_update` for a packet of direction 0 or 1
with the headers `ip` and `tcp`: the state with the two queues as the packet
leaves them, and the value of the variable `rtt` after the loop. -/
def rtt_n_sequence_queues (vars : queue_vars_t) (rtt_n : rtt_n_t) (direction : Int)
    (ip : libtrace_ip) (tcp : libtrace_tcp) (time : ℚ) : Except fault (rtt_n_t × ℚ) :=
  match rtt_n_sequence_data vars rtt_n direction ip tcp time with
  | .error e => .error e
  | .ok rtt_n =>
    let queue := (rtt_n.dir direction).queue
    let first := queue_itr_begin queue vars { count := 0, pos := 0 }
    match rtt_n_sequence_acknowledge queue.length vars queue first.1 first.2
        (ntohl tcp.ack_seq) time (-1) with
    | .error e => .error e
    | .ok (queue, rtt) =>
      .ok (rtt_n.set_dir direction { rtt_n.dir direction with queue := queue }, rtt)

/-- Function `rtt_n_sequence_update` with the global `rtt_n_queue_vars` as
`vars`. A packet of direction 0 or 1 without IP or TCP header makes the code
read through a null pointer. -/
def rtt_n_sequence_update (vars : queue_vars_t) (rtt_n : rtt_n_t) (packet : libtrace_packet_t) :
    Except fault rtt_n_t :=
  let direction := packet.direction
  let time := trace_get_seconds packet
  let rtt_n : rtt_n_t := { rtt_n with last_rtt := -1 }
  if ¬ (direction = 0 ∨ direction = 1) then .ok rtt_n
  else
    match packet.ip, packet.tcp with
    | some ip, some tcp =>
      match rtt_n_sequence_queues vars rtt_n direction ip tcp time with
      | .error e => .error e
      | .ok (rtt_n, rtt) =>
        match rtt_n_sequence_smooth (rtt_n.dir direction) rtt with
        | .error e => .error e
        | .ok (dir, last_rtt) => .ok { rtt_n.set_dir direction dir with last_rtt := last_rtt }
    | _, _ => .error fault.undefined_behaviour

/-- Function `rtt_n_sequence_last_sample_value`. -/
def rtt_n_sequence_last_sample_value (rtt_n : rtt_n_t) : ℚ := rtt_n.last_rtt

/-- Function `rtt_n_sequence_inside`. -/
def rtt_n_sequence_inside (rtt_n : rtt_n_t) : ℚ :=
  if (rtt_n.dir 0).rtt ≥ 0 then (rtt_n.dir 0).rtt else -1

/-- Function `rtt_n_sequence_outside`. -/
def rtt_n_sequence_outside (rtt_n : rtt_n_t) : ℚ :=
  if (rtt_n.dir 1).rtt ≥ 0 then (rtt_n.dir 1).rtt else -1

/-- Function `rtt_n_sequence_variation`. -/
def rtt_n_sequence_variation (rtt_n : rtt_n_t) : ℚ :=
  if (rtt_n.dir 0).rtt ≥ 0 ∧ (rtt_n.dir 1).rtt ≥ 0 then
    (rtt_n.dir 0).rtt_var + (rtt_n.dir 1).rtt_var
  else -1

/-- Runs `rtt_n_sequence_update` on the packets in order, each with the
argument of the last call of `rtt_n_sequence_set_buffer_size` before it: the
state left and, for every packet, its direction and the value that
`rtt_n_sequence_last_sample_value` returns after it. -/
def rtt_n_sequence_run :
    rtt_n_t → List (Int × libtrace_packet_t) → Except fault (rtt_n_t × List (Int × ℚ))
  | rtt_n, [] => .ok (rtt_n, [])
  | rtt_n, (size, packet) :: rest =>
    match rtt_n_sequence_update (rtt_n_queue_vars (rtt_n_sequence_set_buffer_size size)) rtt_n
        packet with
    | .error e => .error e
    | .ok after =>
      match rtt_n_sequence_run after rest with
      | .error e => .error e
      | .ok (final, samples) =>
        .ok (final, (packet.direction, rtt_n_sequence_last_sample_value after) :: samples)

/-- The items of a queue of the estimator from the bottom to the top, absent
where the buffer holds no whole item. -/
def rtt_n_items (queue : queue_t rtt_n_item_t) : List (Option rtt_n_item_t) :=
  queue_items queue (rtt_n_queue_vars (-1))

/-- Two data packets of 100 bytes from direction 1, at 1 s and 2 s, each
acknowledged from direction 0, after 0.5 s and after 0.25 s. -/
def two_samples : List (Int × libtrace_packet_t) :=
  [ (-1, tcp_segment (eighths 8) 1 1 1 0 100 false true),
    (-1, tcp_segment (eighths 12) 0 1 0 101 0 false true),
    (-1, tcp_segment (eighths 16) 1 2 101 0 100 false true),
    (-1, tcp_segment (eighths 18) 0 2 0 201 0 false true) ]

/-- A data packet of 100 bytes from direction 1 at 1 s and its acknowledgement
from direction 0 with the same time stamp. -/
def ack_in_same_instant : List (Int × libtrace_packet_t) :=
  [ (-1, tcp_segment (eighths 8) 1 1 1 0 100 false true),
    (-1, tcp_segment (eighths 8) 0 1 0 101 0 false true) ]

/-- The samples accepted in direction `d` among the values that
`rtt_n_sequence_last_sample_value` has returned after the packets of a run:
the values after packets of direction `d` other than the absent `-1`. -/
def rtt_n_accepted (d : Int) (samples : List (Int × ℚ)) : List ℚ :=
  (samples.filter (fun p => decide (p.1 = d) && decide (p.2 ≥ 0))).map (fun p => p.2)

/-- The items ascend strictly in `expected_ack` from the bottom to the top. -/
def rtt_n_ascending (items : List rtt_n_item_t) : Prop :=
  items.Pairwise (fun a b => a.expected_ack < b.expected_ack)

/-- One direction of the estimator as the calls keep it: the queue holds items
that ascend in `expected_ack`, and the smoothed RTT is not above the limit. -/
def rtt_n_dir_wf (dir : rtt_n_dir_t) : Prop :=
  (∃ items, queue_holds dir.queue 16 items ∧ rtt_n_ascending items)
    ∧ dir.rtt ≤ RTT_N_SEQUENCE_MAX_RTT

/-- A state of the estimator as the calls keep it. -/
def rtt_n_wf (rtt_n : rtt_n_t) : Prop :=
  rtt_n_dir_wf rtt_n.dir_0 ∧ rtt_n_dir_wf rtt_n.dir_1

/-- The statistics of one direction agree with the samples `accepted` in it so
far: `count` is their number, each of them is above 0 and not above the limit,
there is no smoothed RTT before the first of them, and afterwards the smoothed
RTT lies between two of them. -/
def rtt_n_dir_sampled (dir : rtt_n_dir_t) (accepted : List ℚ) : Prop :=
  dir.count = (accepted.length : Int)
    ∧ (∀ s, s ∈ accepted → 0 < s ∧ s ≤ RTT_N_SEQUENCE_MAX_RTT)
    ∧ (accepted = [] → dir.rtt = -1)
    ∧ (accepted ≠ [] → ∃ lo, lo ∈ accepted ∧ ∃ hi, hi ∈ accepted ∧ lo ≤ dir.rtt ∧ dir.rtt ≤ hi)

/-- The last packet of `two_samples`: the acknowledgement 201 from direction 0
at 2.25 s. -/
def second_ack : libtrace_packet_t := tcp_segment (eighths 18) 0 2 0 201 0 false true

/-- The IP header of `second_ack`. -/
def second_ack_ip : libtrace_ip :=
  { ip_hl := 5, ip_len := htons (40 + 0), ip_src := 0, ip_dst := 0, ip_id := htons 2 }

/-- The TCP header of `second_ack`. -/
def second_ack_tcp : libtrace_tcp :=
  { source := 0, dest := 0, seq := htonl 0, ack_seq := htonl 201, doff := 5, fin := false,
    syn := false, rst := false, ack := true }

/-- The value of `rtt` after the loop of lines 215-224 for a packet with both
headers that follows a run from `rtt_n_sequence_create`, with the buffer size
unset. -/
def rtt_n_sample_after (trace : List (Int × libtrace_packet_t)) (packet : libtrace_packet_t) :
    Except fault ℚ :=
  match rtt_n_sequence_run (rtt_n_sequence_create 0) trace, packet.ip, packet.tcp with
  | .ok r, some ip, some tcp =>
    (rtt_n_sequence_queues (rtt_n_queue_vars (rtt_n_sequence_set_buffer_size (-1)))
      { r.1 with last_rtt := -1 } packet.direction ip tcp (trace_get_seconds packet)).map
      (fun q => q.2)
  | .error e, _, _ => .error e
  | _, _, _ => .error fault.undefined_behaviour

/-! ### The states of a queue -/

/-- The states of a queue that calls with the variables `vars` reach from
`queue_create`: calls of `queue_add` that return, of `queue_remove`, of
`queue_clear`, and of `queue_itr_remove` on a queue that is not empty. -/
inductive queue_reachable {α : Type} (vars : queue_vars_t) : queue_t α → Prop
  | create : queue_reachable vars queue_create
  | add (q q2 : queue_t α) (item : α) (p : Option Int) :
      queue_reachable vars q → queue_add q vars item = .ok (q2, p) → queue_reachable vars q2
  | remove (q : queue_t α) : queue_reachable vars q → queue_reachable vars (queue_remove q vars).1
  | clear (q : queue_t α) : queue_reachable vars q → queue_reachable vars (queue_clear q)
  | itr_remove (q : queue_t α) (itr : queue_itr_t) :
      queue_reachable vars q → q.length ≠ 0 → queue_reachable vars (queue_itr_remove q itr).1

/-- The pointer lies inside the buffer: it is the byte offset of a slot below
`buffer_size`, and the item at it lies within the allocated memory. -/
def queue_pointer_inside {α : Type} (q : queue_t α) (s : Nat) (p : Int) : Prop :=
  ∃ slot, slot < q.buffer_size ∧ p = ((slot * s : Nat) : Int) ∧ slot * s + s ≤ q.allocated

/-- The iterator is one that `queue_itr_begin`, `queue_itr_next` and
`queue_itr_remove` have left on the queue: it has counted at most the items of
the queue, and `pos` is the offset of the slot of the last item counted (of the
slot before the bottom when `queue_itr_remove` has set the count back to 0). -/
def queue_itr_valid {α : Type} (q : queue_t α) (s : Nat) (itr : queue_itr_t) : Prop :=
  itr.count ≤ q.length ∧ itr.count < 65536
    ∧ itr.pos = ((q.lower_idx + q.buffer_size + itr.count - 1) % q.buffer_size) * s

/-- A queue of items of `2^30` bytes that grows by 4 slots. -/
def queue_of_large_items : queue_vars_t :=
  { buffer_size := -1, buffer_increment := 4, item_size := 1073741824 }

/-- A queue whose increment has been left at 0. -/
def queue_without_increment : queue_vars_t :=
  { buffer_size := -1, buffer_increment := 0, item_size := 16 }

/-- A queue of 4-byte items that grows by 2 slots. -/
def queue_of_small_items : queue_vars_t :=
  { buffer_size := -1, buffer_increment := 2, item_size := 4 }

/-! ## sessionmanager.c: the overflow of the TIME_WAIT queue -/

/-- The ID of flow `n` of `overflow_trace`: between port 1000 of the address
10.0.0.1 and port 80 of the address `10.0.0.2 + n`. -/
def closing_flow_id (n : Nat) : tcp_session_id_t :=
  { ip_a := 167772161, ip_b := 167772162 + n, port_a := 1000, port_b := 80 }

/-- The four packets that take flow `n` from its SYN to TIME_WAIT within the
second `T`: SYN (direction 0), SYN+ACK (direction 1), FIN (direction 0) and
FIN+ACK (direction 1). -/
def closing_flow (T n : Nat) : List libtrace_packet_t :=
  [tcp_packet (T * 4294967296) 0 167772161 (167772162 + n) 1000 80 1000 0 0 false true false false,
   tcp_packet (T * 4294967296) 1 (167772162 + n) 167772161 80 1000 5000 1001 0
     false true false true,
   tcp_packet (T * 4294967296) 0 167772161 (167772162 + n) 1000 80 1001 5001 0
     true false false true,
   tcp_packet (T * 4294967296) 1 (167772162 + n) 167772161 80 1000 5001 1002 0
     true false false true]

/-- The packets of the flows `0` to `n - 1`, one flow after the other. -/
def closing_flows (T : Nat) : Nat → List libtrace_packet_t
  | 0 => []
  | n + 1 => closing_flows T n ++ closing_flow T n

/-- One flow more than the TIME_WAIT queue has slots, all of them closed
within the second `T`. -/
def overflow_trace (T : Nat) : List libtrace_packet_t :=
  closing_flows T (SM_TIMER_QUEUE_LENGTH + 1)

/-- A bare SYN on flow 0 in the second `T`. -/
def overflow_syn (T : Nat) : libtrace_packet_t :=
  tcp_packet (T * 4294967296) 0 167772161 167772162 1000 80 9000 0 0 false true false false

/-- The manager in the second `T` after the first `k` flows of
`overflow_trace` have reached TIME_WAIT: the records at the addresses below
`k` are those flows, each one in TIME_WAIT; the queue starts at slot 0 and has
counted `k` sessions; slot `i` holds the session stored there last; no sweep
is due. -/
structure closing_inv (T : Nat) (m : session_manager_t) (k : Nat) : Prop where
  alive : ∀ b p, p ∈ m.hashtable.arr b → m.heap p ≠ none
  brk : m.brk = k
  records : ∀ p s, m.heap p = some s →
    p < k ∧ s.id = closing_flow_id p ∧ s.state = tcp_conn_state_t.TIME_WAIT
  present : ∀ p, p < k → m.heap p ≠ none
  last_access : m.last_access = T
  closed : m.closed_session = none
  clean : (T + 4294967296 - m.last_clean) % 4294967296 ≤ 60
  modules : m.module_count = 0
  lower : m.waiting_sessions.lower_idx = 0
  length : m.waiting_sessions.length = k
  slots : ∀ i, i < SM_TIMER_QUEUE_LENGTH → i < k →
    m.waiting_sessions.sessions i
      = some (if i + SM_TIMER_QUEUE_LENGTH < k then i + SM_TIMER_QUEUE_LENGTH else i)
  warnings : m.warnings = if SM_TIMER_QUEUE_LENGTH < k then 1 else 0

end TcpTools

/-! ## Theorems -/

namespace TcpTools

open tcp_conn_state_t

/-! ### Memory -/

@[simp] theorem store_heap_same (m : session_manager_t) (p : Nat) (s : tcp_session_t) :
    (store m p s).heap p = some s := by
  simp [store]

theorem store_heap_other (m : session_manager_t) (p q : Nat) (s : tcp_session_t) (h : q ≠ p) :
    (store m p s).heap q = m.heap q := by
  simp [store, h]

@[simp] theorem store_hashtable (m : session_manager_t) (p : Nat) (s : tcp_session_t) :
    (store m p s).hashtable = m.hashtable := rfl

@[simp] theorem store_modules (m : session_manager_t) (p : Nat) (s : tcp_session_t) :
    (store m p s).modules = m.modules := rfl

@[simp] theorem store_module_count (m : session_manager_t) (p : Nat) (s : tcp_session_t) :
    (store m p s).module_count = m.module_count := rfl

@[simp] theorem store_waiting_sessions (m : session_manager_t) (p : Nat) (s : tcp_session_t) :
    (store m p s).waiting_sessions = m.waiting_sessions := rfl

@[simp] theorem store_closed_session (m : session_manager_t) (p : Nat) (s : tcp_session_t) :
    (store m p s).closed_session = m.closed_session := rfl

@[simp] theorem store_calls (m : session_manager_t) (p : Nat) (s : tcp_session_t) :
    (store m p s).calls = m.calls := rfl

@[simp] theorem store_brk (m : session_manager_t) (p : Nat) (s : tcp_session_t) :
    (store m p s).brk = m.brk := rfl

@[simp] theorem store_last_access (m : session_manager_t) (p : Nat) (s : tcp_session_t) :
    (store m p s).last_access = m.last_access := rfl

@[simp] theorem store_last_clean (m : session_manager_t) (p : Nat) (s : tcp_session_t) :
    (store m p s).last_clean = m.last_clean := rfl

/-! ### The value `seq + payload_len` -/

theorem seq_plus_payload_lt (ip : libtrace_ip) (tcp : libtrace_tcp) :
    seq_plus_payload ip tcp < 4294967296 := by
  unfold seq_plus_payload
  have h := Int.emod_lt_of_pos ((ntohl tcp.seq : Int) + (ntohs ip.ip_len : Int)
    - (((ip.ip_hl + tcp.doff) * 4 : Nat) : Int)) (show (0 : Int) < 4294967296 by norm_num)
  have h0 := Int.emod_nonneg ((ntohl tcp.seq : Int) + (ntohs ip.ip_len : Int)
    - (((ip.ip_hl + tcp.doff) * 4 : Nat) : Int)) (show (4294967296 : Int) ≠ 0 by norm_num)
  omega

theorem seq_plus_payload_modEq (ip : libtrace_ip) (tcp : libtrace_tcp) :
    (seq_plus_payload ip tcp : Int) ≡
      (ntohl tcp.seq : Int) + ((ntohs ip.ip_len : Int) - ((ip.ip_hl : Int) + tcp.doff) * 4)
      [ZMOD 4294967296] := by
  unfold seq_plus_payload
  have h0 := Int.emod_nonneg ((ntohl tcp.seq : Int) + (ntohs ip.ip_len : Int)
    - (((ip.ip_hl + tcp.doff) * 4 : Nat) : Int)) (show (4294967296 : Int) ≠ 0 by norm_num)
  rw [Int.toNat_of_nonneg h0]
  have e : (ntohl tcp.seq : Int) + ((ntohs ip.ip_len : Int) - ((ip.ip_hl : Int) + tcp.doff) * 4)
      = (ntohl tcp.seq : Int) + (ntohs ip.ip_len : Int)
        - (((ip.ip_hl + tcp.doff) * 4 : Nat) : Int) := by
    push_cast
    ring
  rw [e]
  exact Int.mod_modEq _ _

/-! ### The path of a packet through `session_manager_update` -/

/-- A packet of a flow that the lookup finds, when the RST test and the switch
do not free the session, goes on to the delivery. -/
theorem update_of_state (fuel : Nat) (manager swept m2 : session_manager_t)
    (packet : libtrace_packet_t) (ip : libtrace_ip) (tcp : libtrace_tcp) (session : Nat)
    (hip : packet.ip = some ip) (htcp : packet.tcp = some tcp)
    (hsweep : session_manager_update_sweeps fuel manager (packet_seconds packet) = .ok swept)
    (hfound : hashtable_retrieve swept.heap swept.hashtable (session_id_of ip tcp)
      = .ok (some session))
    (hstate : session_manager_update_state swept (packet_seconds packet) packet.direction ip tcp
      session = .ok (m2, false)) :
    session_manager_update (fuel + 1) manager packet
      = session_manager_update_deliver m2 packet (packet_seconds packet) (some session) := by
  simp only [session_manager_update, hsweep, hip, htcp, hfound, hstate]

/-- The delivery to a live session whose data array the modules can read. -/
theorem deliver_of_modules (m : session_manager_t) (packet : libtrace_packet_t) (t : Nat)
    (session : Nat) (s : tcp_session_t) (calls : List module_call)
    (hs : m.heap session = some s)
    (hmod : modules_update m.modules s.data packet m.module_count = .ok calls) :
    session_manager_update_deliver m packet t (some session)
      = .ok ({ store m session { s with last_access := t % 256 } with
                calls := m.calls ++ calls }, some session) := by
  simp only [session_manager_update_deliver, hs, hmod]


/-- C1. Handshake rows of the transition table. For a flow that the lookup of
`session_manager_update` finds in state SYN_RCVD or SYN_SENT and a packet with
direction 0 or 1 and RST clear, the call returns the flow, and afterwards:
(a) SYN_RCVD, direction 0, SYN and ACK: state SYN_RCVD, `expected_ack` is
`seq + payload_len` modulo `2^32`; SYN_RCVD, direction 1, ACK with
`ack >= expected_ack`: ESTABLISHED; (b) SYN_SENT, direction 1, SYN and ACK:
ESTABLISHED when `ack >= expected_ack`, SYN_SENT when `ack < expected_ack`;
SYN_SENT, direction 1, SYN without ACK: SYN_RCVD; (c) any other packet leaves
state and `expected_ack` as they were. -/
theorem handshake_transitions (fuel : Nat) (manager swept : session_manager_t)
    (packet : libtrace_packet_t) (ip : libtrace_ip) (tcp : libtrace_tcp) (session : Nat)
    (s : tcp_session_t) (calls : List module_call)
    (hip : packet.ip = some ip) (htcp : packet.tcp = some tcp)
    (hsweep : session_manager_update_sweeps fuel manager (packet_seconds packet) = .ok swept)
    (hfound : hashtable_retrieve swept.heap swept.hashtable (session_id_of ip tcp)
      = .ok (some session))
    (hs : swept.heap session = some s)
    (hmod : modules_update swept.modules s.data packet swept.module_count = .ok calls)
    (hdir : packet.direction = 0 ∨ packet.direction = 1)
    (hrst : tcp.rst = false)
    (hstate : s.state = SYN_RCVD ∨ s.state = SYN_SENT) :
    ∃ m2 s2, session_manager_update (fuel + 1) manager packet = .ok (m2, some session) ∧
      m2.heap session = some s2 ∧
      (s.state = SYN_RCVD → packet.direction = 0 → tcp.syn = true → tcp.ack = true →
        s2.state = SYN_RCVD ∧ s2.expected_ack < 4294967296 ∧
        (s2.expected_ack : Int) ≡
          (ntohl tcp.seq : Int) + ((ntohs ip.ip_len : Int) - ((ip.ip_hl : Int) + tcp.doff) * 4)
          [ZMOD 4294967296]) ∧
      (s.state = SYN_RCVD → packet.direction = 1 → tcp.ack = true →
        s.expected_ack ≤ ntohl tcp.ack_seq →
        s2.state = ESTABLISHED ∧ s2.expected_ack = s.expected_ack) ∧
      (s.state = SYN_SENT → packet.direction = 1 → tcp.syn = true → tcp.ack = true →
        s.expected_ack ≤ ntohl tcp.ack_seq →
        s2.state = ESTABLISHED ∧ s2.expected_ack = s.expected_ack) ∧
      (s.state = SYN_SENT → packet.direction = 1 → tcp.syn = true → tcp.ack = true →
        ntohl tcp.ack_seq < s.expected_ack →
        s2.state = SYN_SENT ∧ s2.expected_ack = s.expected_ack) ∧
      (s.state = SYN_SENT → packet.direction = 1 → tcp.syn = true → tcp.ack = false →
        s2.state = SYN_RCVD ∧ s2.expected_ack = s.expected_ack) ∧
      (¬ (s.state = SYN_RCVD ∧ packet.direction = 0 ∧ tcp.syn = true ∧ tcp.ack = true) →
        ¬ (s.state = SYN_RCVD ∧ packet.direction = 1 ∧ tcp.ack = true ∧
            s.expected_ack ≤ ntohl tcp.ack_seq) →
        ¬ (s.state = SYN_SENT ∧ packet.direction = 1 ∧ tcp.syn = true) →
        s2.state = s.state ∧ s2.expected_ack = s.expected_ack) := by
  have key : ∃ s1, session_manager_update_state swept (packet_seconds packet) packet.direction
        ip tcp session = .ok (store swept session s1, false) ∧ s1.data = s.data ∧
      (s.state = SYN_RCVD → packet.direction = 0 → tcp.syn = true → tcp.ack = true →
        s1.state = SYN_RCVD ∧ s1.expected_ack = seq_plus_payload ip tcp) ∧
      (s.state = SYN_RCVD → packet.direction = 1 → tcp.ack = true →
        s.expected_ack ≤ ntohl tcp.ack_seq →
        s1.state = ESTABLISHED ∧ s1.expected_ack = s.expected_ack) ∧
      (s.state = SYN_SENT → packet.direction = 1 → tcp.syn = true → tcp.ack = true →
        s.expected_ack ≤ ntohl tcp.ack_seq →
        s1.state = ESTABLISHED ∧ s1.expected_ack = s.expected_ack) ∧
      (s.state = SYN_SENT → packet.direction = 1 → tcp.syn = true → tcp.ack = true →
        ntohl tcp.ack_seq < s.expected_ack →
        s1.state = SYN_SENT ∧ s1.expected_ack = s.expected_ack) ∧
      (s.state = SYN_SENT → packet.direction = 1 → tcp.syn = true → tcp.ack = false →
        s1.state = SYN_RCVD ∧ s1.expected_ack = s.expected_ack) ∧
      (¬ (s.state = SYN_RCVD ∧ packet.direction = 0 ∧ tcp.syn = true ∧ tcp.ack = true) →
        ¬ (s.state = SYN_RCVD ∧ packet.direction = 1 ∧ tcp.ack = true ∧
            s.expected_ack ≤ ntohl tcp.ack_seq) →
        ¬ (s.state = SYN_SENT ∧ packet.direction = 1 ∧ tcp.syn = true) →
        s1.state = s.state ∧ s1.expected_ack = s.expected_ack) := by
    have hsame : store swept session s = swept := by
      cases swept
      simp only [store, session_manager_t.mk.injEq, true_and, and_true]
      funext q
      by_cases hq : q = session
      · subst hq
        simpa using hs.symm
      · simp [hq]
    rcases hstate with hst | hst <;> rcases hdir with hd | hd
    · by_cases h1 : tcp.syn = true <;> by_cases h2 : tcp.ack = true
      · refine ⟨{ s with expected_ack := seq_plus_payload ip tcp }, ?_, rfl, ?_⟩
        · simp [session_manager_update_state, hs, hrst, hst, hd, SM_OUTBOUND, h1, h2]
        · simp [hst, hd, h1, h2]
      all_goals
        refine ⟨s, ?_, rfl, ?_⟩
        · simp [session_manager_update_state, hs, hrst, hst, hd, SM_OUTBOUND, h1, h2, hsame]
        · simp [hst, hd, h1, h2]
    · by_cases h2 : tcp.ack = true <;> by_cases h3 : s.expected_ack ≤ ntohl tcp.ack_seq
      · refine ⟨{ s with state := ESTABLISHED }, ?_, rfl, ?_⟩
        · simp [session_manager_update_state, hs, hrst, hst, hd, SM_OUTBOUND, h2, h3]
        · simp [hst, hd, h2, h3]
      all_goals
        refine ⟨s, ?_, rfl, ?_⟩
        · simp [session_manager_update_state, hs, hrst, hst, hd, SM_OUTBOUND, h2, h3, hsame]
        · simp [hst, hd, h2, h3]
    · refine ⟨s, ?_, rfl, ?_⟩
      · simp [session_manager_update_state, hs, hrst, hst, hd, SM_INBOUND, hsame]
      · simp [hst, hd]
    · by_cases h1 : tcp.syn = true
      · by_cases h2 : tcp.ack = true
        · by_cases h3 : s.expected_ack ≤ ntohl tcp.ack_seq
          · refine ⟨{ s with state := ESTABLISHED }, ?_, rfl, ?_⟩
            · simp [session_manager_update_state, hs, hrst, hst, hd, SM_INBOUND, h1, h2, h3]
            · simp [hst, hd, h1, h2, h3]
          · refine ⟨s, ?_, rfl, ?_⟩
            · simp [session_manager_update_state, hs, hrst, hst, hd, SM_INBOUND, h1, h2, h3,
                hsame]
            · simp [hst, hd, h1, h2, h3]
        · refine ⟨{ s with state := SYN_RCVD }, ?_, rfl, ?_⟩
          · simp [session_manager_update_state, hs, hrst, hst, hd, SM_INBOUND, h1, h2]
          · simp [hst, hd, h1, h2]
      · refine ⟨s, ?_, rfl, ?_⟩
        · simp [session_manager_update_state, hs, hrst, hst, hd, SM_INBOUND, h1, hsame]
        · simp [hst, hd, h1]
  obtain ⟨s1, hupd, hdata, ha1, ha2, hb1, hb2, hb3, hc⟩ := key
  have hrun := update_of_state fuel manager swept (store swept session s1) packet ip tcp session
    hip htcp hsweep hfound hupd
  have hdel := deliver_of_modules (store swept session s1) packet (packet_seconds packet) session
    s1 calls (store_heap_same _ _ _) (by simpa [hdata] using hmod)
  refine ⟨_, { s1 with last_access := packet_seconds packet % 256 }, hrun.trans hdel, ?_, ?_, ?_,
    ?_, ?_, ?_, ?_⟩
  · simp
  · intro h1 h2 h3 h4
    obtain ⟨e1, e2⟩ := ha1 h1 h2 h3 h4
    refine ⟨e1, ?_, ?_⟩
    · simpa [e2] using seq_plus_payload_lt ip tcp
    · simpa [e2] using seq_plus_payload_modEq ip tcp
  · exact ha2
  · exact hb1
  · exact hb2
  · exact hb3
  · exact hc


/-- Function `timer_queue_add` below twice the capacity: the slot written is
the one behind the last slot in use. -/
theorem timer_queue_add_ok (m : session_manager_t) (session time : Nat)
    (h : m.waiting_sessions.lower_idx + m.waiting_sessions.length < 2 * SM_TIMER_QUEUE_LENGTH) :
    timer_queue_add m session time = .ok { m with
      waiting_sessions :=
        { sessions := fun i =>
            if i = (m.waiting_sessions.lower_idx + m.waiting_sessions.length)
              % SM_TIMER_QUEUE_LENGTH then some session
            else m.waiting_sessions.sessions i
          times := fun i =>
            if i = (m.waiting_sessions.lower_idx + m.waiting_sessions.length)
              % SM_TIMER_QUEUE_LENGTH then time
            else m.waiting_sessions.times i
          lower_idx := m.waiting_sessions.lower_idx
          length := (m.waiting_sessions.length + 1) % 4294967296 }
      warnings := if (m.waiting_sessions.length + 1) % 4294967296 > SM_TIMER_QUEUE_LENGTH
        then m.warnings + 1 else m.warnings } := by
  simp only [SM_TIMER_QUEUE_LENGTH] at h
  have e0 : (m.waiting_sessions.lower_idx + m.waiting_sessions.length) % 4294967296
      = m.waiting_sessions.lower_idx + m.waiting_sessions.length := by
    omega
  have e3 : ¬ (2147483648 ≤ m.waiting_sessions.lower_idx + m.waiting_sessions.length) := by
    omega
  by_cases hge : m.waiting_sessions.lower_idx + m.waiting_sessions.length ≥ 100000
  · have e1 : (m.waiting_sessions.lower_idx + m.waiting_sessions.length) % 100000
        = m.waiting_sessions.lower_idx + m.waiting_sessions.length - 100000 := by
      omega
    have e2 : ¬ (100000 ≤ m.waiting_sessions.lower_idx + m.waiting_sessions.length - 100000) := by
      omega
    simp only [timer_queue_add, SM_TIMER_QUEUE_LENGTH, e0, e3, hge, if_true, e2, if_false,
      ge_iff_le, e1]
  · have e1 : (m.waiting_sessions.lower_idx + m.waiting_sessions.length) % 100000
        = m.waiting_sessions.lower_idx + m.waiting_sessions.length := by
      omega
    simp only [timer_queue_add, SM_TIMER_QUEUE_LENGTH, e0, e3, hge, if_false, ge_iff_le, e1]

/-- Writing back the record that a pointer holds changes nothing. -/
theorem store_same (m : session_manager_t) (p : Nat) (s : tcp_session_t)
    (h : m.heap p = some s) : store m p s = m := by
  cases m
  simp only [store, session_manager_t.mk.injEq, true_and, and_true]
  funext q
  by_cases hq : q = p
  · subst hq
    simpa using h.symm
  · simp [hq]

/-- C2. Teardown rows of the transition table. For a flow that the lookup of
`session_manager_update` finds in one of the states ESTABLISHED, FIN_WAIT_1,
FIN_WAIT_2, CLOSING, CLOSE_WAIT, LAST_ACK and a packet with direction 0 or 1
and RST clear, the call returns the flow, and afterwards the state and the
side effect are those of the table: FIN_WAIT_1 and `expected_ack` set on an
outbound FIN in ESTABLISHED, CLOSE_WAIT on an inbound FIN, from FIN_WAIT_1 on
an inbound acknowledging ACK TIME_WAIT (enqueued with the second of the
packet, `waiting` set) with FIN and FIN_WAIT_2 without, CLOSING on an inbound
FIN without such an ACK, TIME_WAIT (enqueued) from FIN_WAIT_2 on an inbound
FIN and from CLOSING on an inbound acknowledging ACK, LAST_ACK and
`expected_ack` set on an outbound FIN in CLOSE_WAIT, CLOSED and
`closed_session` on an inbound acknowledging ACK in LAST_ACK; any other packet
leaves the state unchanged. -/
theorem teardown_transitions (fuel : Nat) (manager swept : session_manager_t)
    (packet : libtrace_packet_t) (ip : libtrace_ip) (tcp : libtrace_tcp) (session : Nat)
    (s : tcp_session_t) (calls : List module_call)
    (hip : packet.ip = some ip) (htcp : packet.tcp = some tcp)
    (hsweep : session_manager_update_sweeps fuel manager (packet_seconds packet) = .ok swept)
    (hfound : hashtable_retrieve swept.heap swept.hashtable (session_id_of ip tcp)
      = .ok (some session))
    (hs : swept.heap session = some s)
    (hmod : modules_update swept.modules s.data packet swept.module_count = .ok calls)
    (hqueue : swept.waiting_sessions.lower_idx + swept.waiting_sessions.length
      < 2 * SM_TIMER_QUEUE_LENGTH)
    (hdir : packet.direction = 0 ∨ packet.direction = 1)
    (hrst : tcp.rst = false)
    (hstate : s.state = ESTABLISHED ∨ s.state = FIN_WAIT_1 ∨ s.state = FIN_WAIT_2 ∨
      s.state = CLOSING ∨ s.state = CLOSE_WAIT ∨ s.state = LAST_ACK) :
    ∃ m2 s2, session_manager_update (fuel + 1) manager packet = .ok (m2, some session) ∧
      m2.heap session = some s2 ∧
      (s.state = ESTABLISHED → packet.direction = 0 → tcp.fin = true →
        s2.state = FIN_WAIT_1 ∧ s2.expected_ack < 4294967296 ∧
        (s2.expected_ack : Int) ≡
          (ntohl tcp.seq : Int) + ((ntohs ip.ip_len : Int) - ((ip.ip_hl : Int) + tcp.doff) * 4)
          [ZMOD 4294967296]) ∧
      (s.state = ESTABLISHED → packet.direction = 1 → tcp.fin = true → s2.state = CLOSE_WAIT) ∧
      (s.state = FIN_WAIT_1 → packet.direction = 1 → tcp.ack = true →
        s.expected_ack ≤ ntohl tcp.ack_seq → tcp.fin = true →
        s2.state = TIME_WAIT ∧ s2.waiting = 1 ∧
        timer_queue_appended swept.waiting_sessions m2.waiting_sessions session
          (packet_seconds packet)) ∧
      (s.state = FIN_WAIT_1 → packet.direction = 1 → tcp.ack = true →
        s.expected_ack ≤ ntohl tcp.ack_seq → tcp.fin = false → s2.state = FIN_WAIT_2) ∧
      (s.state = FIN_WAIT_1 → packet.direction = 1 → tcp.fin = true →
        ¬ (tcp.ack = true ∧ s.expected_ack ≤ ntohl tcp.ack_seq) → s2.state = CLOSING) ∧
      (s.state = FIN_WAIT_2 → packet.direction = 1 → tcp.fin = true →
        s2.state = TIME_WAIT ∧ s2.waiting = 1 ∧
        timer_queue_appended swept.waiting_sessions m2.waiting_sessions session
          (packet_seconds packet)) ∧
      (s.state = CLOSING → packet.direction = 1 → tcp.ack = true →
        s.expected_ack ≤ ntohl tcp.ack_seq →
        s2.state = TIME_WAIT ∧ s2.waiting = 1 ∧
        timer_queue_appended swept.waiting_sessions m2.waiting_sessions session
          (packet_seconds packet)) ∧
      (s.state = CLOSE_WAIT → packet.direction = 0 → tcp.fin = true →
        s2.state = LAST_ACK ∧ s2.expected_ack < 4294967296 ∧
        (s2.expected_ack : Int) ≡
          (ntohl tcp.seq : Int) + ((ntohs ip.ip_len : Int) - ((ip.ip_hl : Int) + tcp.doff) * 4)
          [ZMOD 4294967296]) ∧
      (s.state = LAST_ACK → packet.direction = 1 → tcp.ack = true →
        s.expected_ack ≤ ntohl tcp.ack_seq →
        s2.state = CLOSED ∧ m2.closed_session = some session) ∧
      (¬ (s.state = ESTABLISHED ∧ tcp.fin = true) →
        ¬ (s.state = FIN_WAIT_1 ∧ packet.direction = 1 ∧
            (tcp.fin = true ∨ (tcp.ack = true ∧ s.expected_ack ≤ ntohl tcp.ack_seq))) →
        ¬ (s.state = FIN_WAIT_2 ∧ packet.direction = 1 ∧ tcp.fin = true) →
        ¬ (s.state = CLOSING ∧ packet.direction = 1 ∧ tcp.ack = true ∧
            s.expected_ack ≤ ntohl tcp.ack_seq) →
        ¬ (s.state = CLOSE_WAIT ∧ packet.direction = 0 ∧ tcp.fin = true) →
        ¬ (s.state = LAST_ACK ∧ packet.direction = 1 ∧ tcp.ack = true ∧
            s.expected_ack ≤ ntohl tcp.ack_seq) →
        s2.state = s.state) := by
  have key : ∃ m1 s1, session_manager_update_state swept (packet_seconds packet)
        packet.direction ip tcp session = .ok (m1, false) ∧ m1.heap session = some s1 ∧
      m1.modules = swept.modules ∧ m1.module_count = swept.module_count ∧ s1.data = s.data ∧
      (s.state = ESTABLISHED → packet.direction = 0 → tcp.fin = true →
        s1.state = FIN_WAIT_1 ∧ s1.expected_ack = seq_plus_payload ip tcp) ∧
      (s.state = ESTABLISHED → packet.direction = 1 → tcp.fin = true → s1.state = CLOSE_WAIT) ∧
      (s.state = FIN_WAIT_1 → packet.direction = 1 → tcp.ack = true →
        s.expected_ack ≤ ntohl tcp.ack_seq → tcp.fin = true →
        s1.state = TIME_WAIT ∧ s1.waiting = 1 ∧
        timer_queue_appended swept.waiting_sessions m1.waiting_sessions session
          (packet_seconds packet)) ∧
      (s.state = FIN_WAIT_1 → packet.direction = 1 → tcp.ack = true →
        s.expected_ack ≤ ntohl tcp.ack_seq → tcp.fin = false → s1.state = FIN_WAIT_2) ∧
      (s.state = FIN_WAIT_1 → packet.direction = 1 → tcp.fin = true →
        ¬ (tcp.ack = true ∧ s.expected_ack ≤ ntohl tcp.ack_seq) → s1.state = CLOSING) ∧
      (s.state = FIN_WAIT_2 → packet.direction = 1 → tcp.fin = true →
        s1.state = TIME_WAIT ∧ s1.waiting = 1 ∧
        timer_queue_appended swept.waiting_sessions m1.waiting_sessions session
          (packet_seconds packet)) ∧
      (s.state = CLOSING → packet.direction = 1 → tcp.ack = true →
        s.expected_ack ≤ ntohl tcp.ack_seq →
        s1.state = TIME_WAIT ∧ s1.waiting = 1 ∧
        timer_queue_appended swept.waiting_sessions m1.waiting_sessions session
          (packet_seconds packet)) ∧
      (s.state = CLOSE_WAIT → packet.direction = 0 → tcp.fin = true →
        s1.state = LAST_ACK ∧ s1.expected_ack = seq_plus_payload ip tcp) ∧
      (s.state = LAST_ACK → packet.direction = 1 → tcp.ack = true →
        s.expected_ack ≤ ntohl tcp.ack_seq →
        s1.state = CLOSED ∧ m1.closed_session = some session) ∧
      (¬ (s.state = ESTABLISHED ∧ tcp.fin = true) →
        ¬ (s.state = FIN_WAIT_1 ∧ packet.direction = 1 ∧
            (tcp.fin = true ∨ (tcp.ack = true ∧ s.expected_ack ≤ ntohl tcp.ack_seq))) →
        ¬ (s.state = FIN_WAIT_2 ∧ packet.direction = 1 ∧ tcp.fin = true) →
        ¬ (s.state = CLOSING ∧ packet.direction = 1 ∧ tcp.ack = true ∧
            s.expected_ack ≤ ntohl tcp.ack_seq) →
        ¬ (s.state = CLOSE_WAIT ∧ packet.direction = 0 ∧ tcp.fin = true) →
        ¬ (s.state = LAST_ACK ∧ packet.direction = 1 ∧ tcp.ack = true ∧
            s.expected_ack ≤ ntohl tcp.ack_seq) →
        s1.state = s.state) := by
    have hadd : ∀ s1 : tcp_session_t,
        timer_queue_add (store swept session s1) session (packet_seconds packet) = _ :=
      fun s1 => timer_queue_add_ok (store swept session s1) session (packet_seconds packet)
        (by simpa using hqueue)
    have e3 : (swept.waiting_sessions.length + 1) % 4294967296
        = swept.waiting_sessions.length + 1 := by
      simp only [SM_TIMER_QUEUE_LENGTH] at hqueue
      omega
    have hsame : store swept session s = swept := store_same swept session s hs
    unfold session_manager_update_state
    simp only [hs, hrst]
    rcases hstate with h | h | h | h | h | h <;> rcases hdir with hd | hd <;>
      simp [h, hd, SM_INBOUND, SM_OUTBOUND, hadd]
    all_goals
      first
      | (split_ifs <;> simp_all [timer_queue_appended])
      | simp_all [timer_queue_appended]
  obtain ⟨m1, s1, hupd, hs1, hmods, hcount, hdata, h1, h2, h3, h4, h5, h6, h7, h8, h9, h10⟩ := key
  have hrun := update_of_state fuel manager swept m1 packet ip tcp session
    hip htcp hsweep hfound hupd
  have hdel := deliver_of_modules m1 packet (packet_seconds packet) session
    s1 calls hs1 (by simpa [hmods, hcount, hdata] using hmod)
  refine ⟨_, { s1 with last_access := packet_seconds packet % 256 }, hrun.trans hdel, ?_, ?_, h2,
    h3, h4, h5, h6, h7, ?_, h9, h10⟩
  · simp
  · intro a b c
    obtain ⟨e1, e2⟩ := h1 a b c
    refine ⟨e1, ?_, ?_⟩
    · simpa [e2] using seq_plus_payload_lt ip tcp
    · simpa [e2] using seq_plus_payload_modEq ip tcp
  · intro a b c
    obtain ⟨e1, e2⟩ := h8 a b c
    refine ⟨e1, ?_, ?_⟩
    · simpa [e2] using seq_plus_payload_lt ip tcp
    · simpa [e2] using seq_plus_payload_modEq ip tcp



/-- C3. RST is handled first. For a flow that the lookup of
`session_manager_update` finds, in whatever state, a packet with RST set is
returned with the flow in state RESET and recorded as `closed_session`; no row
of the table is applied: the TIME_WAIT queue and the index are as they were
after the sweeps, no other record changes, and of the record itself only
`state` and `last_access` change (so `expected_ack` and `waiting` stay). -/
theorem reset_first (fuel : Nat) (manager swept : session_manager_t)
    (packet : libtrace_packet_t) (ip : libtrace_ip) (tcp : libtrace_tcp) (session : Nat)
    (s : tcp_session_t) (calls : List module_call)
    (hip : packet.ip = some ip) (htcp : packet.tcp = some tcp)
    (hsweep : session_manager_update_sweeps fuel manager (packet_seconds packet) = .ok swept)
    (hfound : hashtable_retrieve swept.heap swept.hashtable (session_id_of ip tcp)
      = .ok (some session))
    (hs : swept.heap session = some s)
    (hmod : modules_update swept.modules s.data packet swept.module_count = .ok calls)
    (hrst : tcp.rst = true) :
    ∃ m2, session_manager_update (fuel + 1) manager packet = .ok (m2, some session) ∧
      m2.heap session
        = some { s with state := RESET, last_access := packet_seconds packet % 256 } ∧
      m2.closed_session = some session ∧
      m2.waiting_sessions = swept.waiting_sessions ∧
      m2.hashtable = swept.hashtable ∧
      (∀ q, q ≠ session → m2.heap q = swept.heap q) := by
  have hupd : session_manager_update_state swept (packet_seconds packet) packet.direction
      ip tcp session
      = .ok ({ store swept session { s with state := RESET } with
                closed_session := some session }, false) := by
    simp [session_manager_update_state, hs, hrst]
  have hrun := update_of_state fuel manager swept _ packet ip tcp session
    hip htcp hsweep hfound hupd
  have hdel := deliver_of_modules
    { store swept session { s with state := RESET } with closed_session := some session }
    packet (packet_seconds packet) session { s with state := RESET } calls
    (by simp [store]) (by simpa using hmod)
  refine ⟨_, hrun.trans hdel, ?_, rfl, rfl, rfl, ?_⟩
  · simp [store]
  · intro q hq
    simp [store, hq]


/-! ### The loops over the modules -/

theorem modules_create_ok (modules : Nat → Option session_module_t) (session : Nat) (n : Nat)
    (h : ∀ i, i < n → modules i ≠ none) :
    modules_create modules session n
      = .ok ((List.range n).map (fun i => { module := i, session := session }),
          (List.range n).filterMap
            (fun i => (modules i).map (fun d => module_call.create i d session))) := by
  induction n with
  | zero => rfl
  | succ n ih =>
    have hn : modules n ≠ none := h n (Nat.lt_succ_self n)
    obtain ⟨d, hd⟩ := Option.ne_none_iff_exists'.mp hn
    rw [modules_create, ih (fun i hi => h i (Nat.lt_succ_of_lt hi))]
    simp [hd, List.range_succ, List.filterMap_append]

theorem modules_update_ok (modules : Nat → Option session_module_t) (data : List module_data)
    (packet : libtrace_packet_t) (n : Nat)
    (h : ∀ i, i < n → modules i ≠ none) (hdata : n ≤ data.length) :
    ∃ calls, modules_update modules data packet n = .ok calls ∧ calls.length = n ∧
      ∀ i, i < n → ∃ d x, modules i = some d ∧ data.get? i = some x ∧
        calls.get? i = some (module_call.update i d x packet) := by
  induction n with
  | zero => exact ⟨[], rfl, rfl, fun i hi => absurd hi (Nat.not_lt_zero i)⟩
  | succ n ih =>
    obtain ⟨calls, hc, hlen, hget⟩ := ih (fun i hi => h i (Nat.lt_succ_of_lt hi))
      (Nat.le_of_succ_le hdata)
    have hn : modules n ≠ none := h n (Nat.lt_succ_self n)
    obtain ⟨d, hd⟩ := Option.ne_none_iff_exists'.mp hn
    have hx : data.get? n = some (data.get ⟨n, hdata⟩) := List.get?_eq_get hdata
    refine ⟨calls ++ [module_call.update n d (data.get ⟨n, hdata⟩) packet], ?_, ?_, ?_⟩
    · rw [modules_update, hc]
      simp only [hd, hx]
    · simp [hlen]
    · intro i hi
      rcases Nat.lt_succ_iff_lt_or_eq.mp hi with hlt | heq
      · obtain ⟨d', x', h1, h2, h3⟩ := hget i hlt
        refine ⟨d', x', h1, h2, ?_⟩
        rw [List.get?_eq_getElem?, List.getElem?_append_left (by omega)]
        simpa [List.get?_eq_getElem?] using h3
      · subst heq
        refine ⟨d, _, hd, hx, ?_⟩
        rw [List.get?_eq_getElem?, List.getElem?_append_right (by omega)]
        simp [hlen]

theorem filterMap_modules_length {α : Type} (modules : Nat → Option session_module_t)
    (f : Nat → session_module_t → α) (n : Nat) (h : ∀ i, i < n → modules i ≠ none) :
    ((List.range n).filterMap (fun i => (modules i).map (f i))).length = n := by
  induction n with
  | zero => rfl
  | succ n ih =>
    obtain ⟨d, hd⟩ := Option.ne_none_iff_exists'.mp (h n (Nat.lt_succ_self n))
    simp [List.range_succ, List.filterMap_append, hd, ih (fun i hi => h i (Nat.lt_succ_of_lt hi))]

theorem tcp_session_id_equals_iff (a b : tcp_session_id_t) :
    tcp_session_id_equals a b = true ↔ a = b := by
  cases a
  cases b
  simp only [tcp_session_id_equals, tcp_session_id_t.mk.injEq]
  split_ifs <;> simp_all

/-- A bare SYN whose ID the lookup does not find, with every registered module
present: the call allocates a record at the fresh address, inserts and returns
it. -/
theorem update_bare_syn (fuel : Nat) (manager swept : session_manager_t)
    (packet : libtrace_packet_t) (ip : libtrace_ip) (tcp : libtrace_tcp)
    (hip : packet.ip = some ip) (htcp : packet.tcp = some tcp)
    (hsweep : session_manager_update_sweeps fuel manager (packet_seconds packet) = .ok swept)
    (habsent : hashtable_retrieve swept.heap swept.hashtable (session_id_of ip tcp) = .ok none)
    (hmodules : ∀ i, i < swept.module_count → swept.modules i ≠ none)
    (hsyn : tcp.syn = true) (hack : tcp.ack = false) :
    ∃ m2 updates,
      session_manager_update (fuel + 1) manager packet = .ok (m2, some swept.brk) ∧
      m2.heap swept.brk = some
        { id := session_id_of ip tcp
          state := if packet.direction = SM_OUTBOUND then SYN_SENT else SYN_RCVD
          expected_ack := if packet.direction = SM_OUTBOUND then seq_plus_payload ip tcp
            else 4294967295
          waiting := 0
          last_access := packet_seconds packet % 256
          data := (List.range swept.module_count).map
            (fun i => { module := i, session := swept.brk }) } ∧
      hashtable_retrieve m2.heap m2.hashtable (session_id_of ip tcp) = .ok (some swept.brk) ∧
      m2.hashtable.arr (hashtable_compute_hash (session_id_of ip tcp))
        = swept.brk :: swept.hashtable.arr (hashtable_compute_hash (session_id_of ip tcp)) ∧
      m2.calls = swept.calls
        ++ (List.range swept.module_count).filterMap
            (fun i => (swept.modules i).map (fun d => module_call.create i d swept.brk))
        ++ updates ∧
      updates.length = swept.module_count ∧
      (∀ i, i < swept.module_count → ∃ d, swept.modules i = some d ∧
        updates.get? i
          = some (module_call.update i d { module := i, session := swept.brk } packet)) ∧
      (∀ b, b ≠ hashtable_compute_hash (session_id_of ip tcp) →
        m2.hashtable.arr b = swept.hashtable.arr b) ∧
      (∀ q, q ≠ swept.brk → m2.heap q = swept.heap q) ∧
      m2.brk = swept.brk + 1 ∧ m2.waiting_sessions = swept.waiting_sessions ∧
      m2.last_access = swept.last_access ∧ m2.last_clean = swept.last_clean ∧
      m2.closed_session = swept.closed_session ∧ m2.modules = swept.modules ∧
      m2.module_count = swept.module_count := by
  have hcreate := modules_create_ok swept.modules swept.brk swept.module_count hmodules
  obtain ⟨updates, hupd, hlen, hget⟩ := modules_update_ok swept.modules
    ((List.range swept.module_count).map (fun i => { module := i, session := swept.brk }))
    packet swept.module_count hmodules (by simp)
  simp only [session_manager_update, hsweep, hip, htcp, habsent, session_manager_update_new,
    hsyn, hack, hcreate, hashtable_insert, store_heap_same, session_manager_update_deliver,
    Bool.not_false, Bool.and_self, if_true]
  simp only [store, if_true, hupd]
  refine ⟨_, updates, rfl, ?_, ?_, ?_, ?_, hlen, ?_, ?_, ?_, rfl, rfl, rfl, rfl, rfl, rfl, rfl⟩
  · simp
  · simp [hashtable_retrieve, hashtable_retrieve_chain,
      (tcp_session_id_equals_iff _ _).mpr rfl]
  · simp
  · simp [List.append_assoc]
  · intro i hi
    obtain ⟨d, x, h1, h2, h3⟩ := hget i hi
    refine ⟨d, h1, ?_⟩
    rw [h3]
    have hx : x = { module := i, session := swept.brk } := by
      rw [List.get?_eq_getElem?, List.getElem?_map, List.getElem?_range hi] at h2
      simpa using h2.symm
    rw [hx]
  · intro b hb
    simp [hb]
  · intro q hq
    simp [hq]

/-- A packet that is not a bare SYN and whose ID the lookup does not find
leaves the manager as the sweeps left it. -/
theorem update_not_bare_syn (fuel : Nat) (manager swept : session_manager_t)
    (packet : libtrace_packet_t) (ip : libtrace_ip) (tcp : libtrace_tcp)
    (hip : packet.ip = some ip) (htcp : packet.tcp = some tcp)
    (hsweep : session_manager_update_sweeps fuel manager (packet_seconds packet) = .ok swept)
    (habsent : hashtable_retrieve swept.heap swept.hashtable (session_id_of ip tcp) = .ok none)
    (hbare : ¬ (tcp.syn = true ∧ tcp.ack = false)) :
    session_manager_update (fuel + 1) manager packet = .ok (swept, none) := by
  have hb : (tcp.syn && !tcp.ack) = false := by
    cases h1 : tcp.syn <;> cases h2 : tcp.ack <;> simp_all
  simp [session_manager_update, hsweep, hip, htcp, habsent, session_manager_update_new, hb,
    session_manager_update_deliver]

/-- C4. Flow creation. For a packet with IP and TCP headers whose ID the
lookup of `session_manager_update` does not find, with every registered module
present: if the packet is a bare SYN the call allocates a record at the fresh
address, returns it and the lookup finds it afterwards; the record has the
canonical ID, `waiting = 0`, one data slot per registered module in
registration order, each produced by the `create` call of that module, which
are made in registration order; its state is SYN_SENT with
`expected_ack = seq + payload_len` modulo `2^32` for direction 0 and SYN_RCVD
with `expected_ack = 0xFFFFFFFF` for direction 1. If the packet is not a bare
SYN the manager is left as the sweeps left it and absent is returned. -/
theorem flow_creation (fuel : Nat) (manager swept : session_manager_t)
    (packet : libtrace_packet_t) (ip : libtrace_ip) (tcp : libtrace_tcp)
    (hip : packet.ip = some ip) (htcp : packet.tcp = some tcp)
    (hsweep : session_manager_update_sweeps fuel manager (packet_seconds packet) = .ok swept)
    (habsent : hashtable_retrieve swept.heap swept.hashtable (session_id_of ip tcp) = .ok none)
    (hmodules : ∀ i, i < swept.module_count → swept.modules i ≠ none) :
    ((tcp.syn = true ∧ tcp.ack = false) →
      ∃ m2 s2 updates,
        session_manager_update (fuel + 1) manager packet = .ok (m2, some swept.brk) ∧
        m2.heap swept.brk = some s2 ∧
        hashtable_retrieve m2.heap m2.hashtable (session_id_of ip tcp) = .ok (some swept.brk) ∧
        m2.hashtable.arr (hashtable_compute_hash (session_id_of ip tcp))
          = swept.brk :: swept.hashtable.arr (hashtable_compute_hash (session_id_of ip tcp)) ∧
        s2.id = session_id_of ip tcp ∧ s2.waiting = 0 ∧
        s2.data = (List.range swept.module_count).map
          (fun i => { module := i, session := swept.brk }) ∧
        m2.calls = swept.calls
          ++ (List.range swept.module_count).filterMap
              (fun i => (swept.modules i).map (fun d => module_call.create i d swept.brk))
          ++ updates ∧
        ((List.range swept.module_count).filterMap
          (fun i => (swept.modules i).map
            (fun d => module_call.create i d swept.brk))).length = swept.module_count ∧
        (packet.direction = 0 → s2.state = SYN_SENT ∧ s2.expected_ack < 4294967296 ∧
          (s2.expected_ack : Int) ≡
            (ntohl tcp.seq : Int) + ((ntohs ip.ip_len : Int) - ((ip.ip_hl : Int) + tcp.doff) * 4)
            [ZMOD 4294967296]) ∧
        (packet.direction = 1 → s2.state = SYN_RCVD ∧ s2.expected_ack = 4294967295)) ∧
    (¬ (tcp.syn = true ∧ tcp.ack = false) →
      ∃ m2, session_manager_update (fuel + 1) manager packet = .ok (m2, none) ∧
        m2.hashtable = swept.hashtable ∧ m2.heap = swept.heap) := by
  constructor
  · rintro ⟨hsyn, hack⟩
    obtain ⟨m2, updates, hrun, hheap, hfind, harr, hcalls, -⟩ :=
      update_bare_syn fuel manager swept packet ip tcp hip htcp hsweep habsent hmodules hsyn hack
    refine ⟨m2, _, updates, hrun, hheap, hfind, harr, rfl, rfl, rfl, hcalls,
      filterMap_modules_length swept.modules _ swept.module_count hmodules, ?_, ?_⟩
    · intro hd
      refine ⟨by simp [hd, SM_OUTBOUND], ?_, ?_⟩
      · simpa [hd, SM_OUTBOUND] using seq_plus_payload_lt ip tcp
      · simpa [hd, SM_OUTBOUND] using seq_plus_payload_modEq ip tcp
    · intro hd
      simp [hd, SM_OUTBOUND]
  · intro hbare
    exact ⟨swept, update_not_bare_syn fuel manager swept packet ip tcp hip htcp hsweep habsent
      hbare, rfl, rfl⟩

/-! ### Canonical IDs -/

/-- The ID of a packet between endpoints with different addresses does not
depend on the direction in which the packet travels. -/
theorem session_id_of_symmetric_of_ne (ip_a ip_b port_a port_b : Nat) (hl1 len1 hl2 len2 : Nat)
    (t1 t2 : libtrace_tcp) (h : ip_a ≠ ip_b)
    (h1 : t1.source = port_a ∧ t1.dest = port_b) (h2 : t2.source = port_b ∧ t2.dest = port_a) :
    session_id_of { ip_hl := hl1, ip_len := len1, ip_src := ip_a, ip_dst := ip_b } t1
      = session_id_of { ip_hl := hl2, ip_len := len2, ip_src := ip_b, ip_dst := ip_a } t2 := by
  rcases Nat.lt_or_gt_of_ne h with hlt | hgt
  · have hn : ¬ ip_b < ip_a := Nat.not_lt.mpr (Nat.le_of_lt hlt)
    simp [session_id_of, hlt, hn, h1.1, h1.2, h2.1, h2.2, htons]
  · have hn : ¬ ip_a < ip_b := Nat.not_lt.mpr (Nat.le_of_lt hgt)
    simp [session_id_of, hgt, hn, h1.1, h1.2, h2.1, h2.2, htons]

/-- C5, the failing input. Between the endpoints 10.0.0.1:1000 and
10.0.0.1:2000 (equal addresses, different ports) the packet from the first to
the second gets the ID with ports (2000, 1000) and the packet back gets the ID
with ports (1000, 2000): the two directions of the connection have different
IDs, and after the SYN of the first endpoint has created the flow the SYN+ACK
of the second is not matched to it: `session_manager_update` returns absent. -/
theorem session_id_of_same_address :
    session_id_of { ip_hl := 5, ip_len := htons 40, ip_src := 167772161, ip_dst := 167772161 }
        { source := htons 1000, dest := htons 2000, seq := 0, ack_seq := 0, doff := 5,
          fin := false, syn := true, rst := false, ack := false }
      = { ip_a := 167772161, ip_b := 167772161, port_a := 2000, port_b := 1000 } ∧
    session_id_of { ip_hl := 5, ip_len := htons 40, ip_src := 167772161, ip_dst := 167772161 }
        { source := htons 2000, dest := htons 1000, seq := 0, ack_seq := 0, doff := 5,
          fin := false, syn := true, rst := false, ack := true }
      = { ip_a := 167772161, ip_b := 167772161, port_a := 1000, port_b := 2000 } ∧
    tcp_session_id_equals
      (session_id_of { ip_hl := 5, ip_len := htons 40, ip_src := 167772161, ip_dst := 167772161 }
        { source := htons 1000, dest := htons 2000, seq := 0, ack_seq := 0, doff := 5,
          fin := false, syn := true, rst := false, ack := false })
      (session_id_of { ip_hl := 5, ip_len := htons 40, ip_src := 167772161, ip_dst := 167772161 }
        { source := htons 2000, dest := htons 1000, seq := 0, ack_seq := 0, doff := 5,
          fin := false, syn := true, rst := false, ack := true }) = false ∧
    session_manager_states 1 session_manager_create
      [tcp_packet 0 0 167772161 167772161 1000 2000 100 0 0 false true false false,
       tcp_packet 429496729 1 167772161 167772161 2000 1000 500 101 0 false true false true]
      = some [some SYN_SENT, none] := by
  decide

/-! ### The calls that the sweeps make -/

theorem destroys_only_refl (m : session_manager_t) : destroys_only m m :=
  ⟨[], by simp, fun c hc => absurd hc (List.not_mem_nil c)⟩

theorem destroys_only_trans (m1 m2 m3 : session_manager_t) (h12 : destroys_only m1 m2)
    (h23 : destroys_only m2 m3) : destroys_only m1 m3 := by
  obtain ⟨e1, h1, hd1⟩ := h12
  obtain ⟨e2, h2, hd2⟩ := h23
  refine ⟨e1 ++ e2, by rw [h2, h1, List.append_assoc], ?_⟩
  intro c hc
  rcases List.mem_append.mp hc with hc | hc
  · exact hd1 c hc
  · exact hd2 c hc

theorem destroys_only_of_calls_eq (m m2 : session_manager_t) (h : m2.calls = m.calls) :
    destroys_only m m2 :=
  ⟨[], by simp [h], fun c hc => absurd hc (List.not_mem_nil c)⟩

theorem modules_destroy_calls (modules : Nat → Option session_module_t)
    (data : List module_data) (n : Nat) (calls : List module_call)
    (h : modules_destroy modules data n = .ok calls) :
    ∀ c, c ∈ calls → ∃ i d x, c = module_call.destroy i d x := by
  induction n generalizing calls with
  | zero =>
    simp only [modules_destroy, Except.ok.injEq] at h
    subst h
    intro c hc
    exact absurd hc (List.not_mem_nil c)
  | succ n ih =>
    rw [modules_destroy] at h
    cases hr : modules_destroy modules data n with
    | error e => simp [hr] at h
    | ok calls0 =>
      simp only [hr] at h
      split at h
      · simp only [Except.ok.injEq] at h
        subst h
        intro c hc
        rcases List.mem_append.mp hc with hc | hc
        · exact ih calls0 hr c hc
        · simp only [List.mem_singleton] at hc
          exact ⟨_, _, _, hc⟩
      · cases h

theorem free_session_calls (m m2 : session_manager_t) (session : Nat)
    (hfree : session_manager_free_session m session = .ok m2) : destroys_only m m2 := by
  unfold session_manager_free_session at hfree
  cases hs : m.heap session with
  | none => simp [hs] at hfree
  | some s =>
    simp only [hs] at hfree
    cases hd : modules_destroy m.modules s.data m.module_count with
    | error e => simp [hd] at hfree
    | ok calls =>
      simp only [hd] at hfree
      cases hr : hashtable_remove m.heap m.hashtable s.id with
      | error e => simp [hr] at hfree
      | ok r =>
        simp only [hr, free, hs, Except.ok.injEq] at hfree
        subst hfree
        exact ⟨calls, rfl, modules_destroy_calls _ _ _ _ hd⟩

theorem free_module_data_calls (m m2 : session_manager_t) (session : Nat)
    (hfree : session_manager_free_module_data m session = .ok m2) : destroys_only m m2 := by
  unfold session_manager_free_module_data at hfree
  cases hs : m.heap session with
  | none => simp [hs] at hfree
  | some s =>
    simp only [hs] at hfree
    by_cases hw : s.waiting = 1
    · simp only [hw, if_true, Except.ok.injEq] at hfree
      subst hfree
      exact destroys_only_refl m
    · simp only [hw, if_false] at hfree
      cases hd : modules_destroy m.modules s.data m.module_count with
      | error e => simp [hd] at hfree
      | ok calls =>
        simp only [hd, Except.ok.injEq] at hfree
        subst hfree
        exact ⟨calls, rfl, modules_destroy_calls _ _ _ _ hd⟩

theorem free_calls (m m2 : session_manager_t) (p : Nat) (hfree : free m p = .ok m2) :
    m2.calls = m.calls := by
  unfold free at hfree
  split at hfree
  · cases hfree
  · cases hfree
    rfl

theorem cleanup_loop_calls (last_access fuel : Nat) (m m2 : session_manager_t)
    (itr : hashtable_iterator_t)
    (hrun : session_manager_cleanup_loop last_access fuel m itr = .ok m2) :
    destroys_only m m2 := by
  induction fuel generalizing m itr with
  | zero => simp [session_manager_cleanup_loop] at hrun
  | succ fuel ih =>
    rw [session_manager_cleanup_loop] at hrun
    cases hn : hashtable_iterator_next m.hashtable itr with
    | error e => simp [hn] at hrun
    | ok r =>
      obtain ⟨itr2, found⟩ := r
      cases found with
      | none =>
        simp only [hn, Except.ok.injEq] at hrun
        subst hrun
        exact destroys_only_refl m
      | some session =>
        simp only [hn] at hrun
        cases hs : m.heap session with
        | none => simp [hs] at hrun
        | some s =>
          simp only [hs] at hrun
          by_cases hc : (s.state = SYN_RCVD ∨ s.state = SYN_SENT) ∧
              (last_access + 256 - s.last_access % 256) % 256 > SM_TCP_SYN_TIMEOUT
          · simp only [hc.1, hc.2, if_true] at hrun
            cases hrem : hashtable_iterator_remove m.hashtable itr2 with
            | error e => simp [hrem] at hrun
            | ok r2 =>
              obtain ⟨ht, removed⟩ := r2
              simp only [hrem] at hrun
              cases hf : session_manager_free_module_data { m with hashtable := ht } session with
              | error e => simp [hf] at hrun
              | ok m3 =>
                simp only [hf] at hrun
                cases hfr : free m3 session with
                | error e => simp [hfr] at hrun
                | ok m4 =>
                  simp only [hfr] at hrun
                  have h1 : destroys_only m m3 :=
                    destroys_only_trans m { m with hashtable := ht } m3
                      (destroys_only_of_calls_eq _ _ rfl) (free_module_data_calls _ _ _ hf)
                  have h2 : destroys_only m3 m4 :=
                    destroys_only_of_calls_eq _ _ (free_calls m3 m4 session hfr)
                  exact destroys_only_trans m m4 m2 (destroys_only_trans m m3 m4 h1 h2)
                    (ih m4 itr2 hrun)
          · have hrun2 : session_manager_cleanup_loop last_access fuel m itr2 = .ok m2 := by
              by_cases h1 : s.state = SYN_RCVD ∨ s.state = SYN_SENT
              · have h2 : ¬ (last_access + 256 - s.last_access % 256) % 256
                    > SM_TCP_SYN_TIMEOUT := fun x => hc ⟨h1, x⟩
                simpa only [h1, h2, if_true, if_false] using hrun
              · simpa only [h1, if_false] using hrun
            exact ih m itr2 hrun2

theorem timer_queue_free_loop_calls (current_time rounds : Nat) (m m2 : session_manager_t)
    (hrun : timer_queue_free_loop current_time rounds m = .ok m2) : destroys_only m m2 := by
  induction rounds generalizing m with
  | zero =>
    simp only [timer_queue_free_loop] at hrun
    split_ifs at hrun
    cases hrun
    exact destroys_only_refl _
  | succ rounds ih =>
    rw [timer_queue_free_loop] at hrun
    by_cases hlo : m.waiting_sessions.lower_idx ≥ SM_TIMER_QUEUE_LENGTH
    · rw [if_pos hlo] at hrun
      cases hrun
    rw [if_neg hlo] at hrun
    by_cases hc : m.waiting_sessions.times m.waiting_sessions.lower_idx < current_time ∧
        m.waiting_sessions.length ≠ 0
    · rw [if_pos hc] at hrun
      cases hq : m.waiting_sessions.sessions m.waiting_sessions.lower_idx with
      | none =>
        simp only [hq] at hrun
        have h2 := ih _ hrun
        exact destroys_only_trans m _ m2 (destroys_only_of_calls_eq _ _ rfl) h2
      | some session =>
        simp only [hq] at hrun
        cases hf : session_manager_free_session m session with
        | error e => simp [hf] at hrun
        | ok m3 =>
          simp only [hf] at hrun
          have h2 := ih _ hrun
          exact destroys_only_trans m m3 m2 (free_session_calls m m3 session hf)
            (destroys_only_trans m3 _ m2 (destroys_only_of_calls_eq _ _ rfl) h2)
    · rw [if_neg hc] at hrun
      cases hrun
      exact destroys_only_refl _

theorem record_kept_refl (m : session_manager_t) (h : manager_wf m) (p : Nat) (s : tcp_session_t)
    (hs : m.heap p = some s) : record_kept s s :=
  ⟨rfl, h.time_wait p s hs, fun x => x⟩

/-- An operation that only frees records, unlinks nodes, clears slots and
rewrites records in the ways of `record_kept` keeps the state well formed. -/
theorem manager_wf_of_shrink (m m2 : session_manager_t) (h : manager_wf m)
    (hbrk : m2.brk = m.brk)
    (hheap : ∀ p s2, m2.heap p = some s2 → ∃ s, m.heap p = some s ∧ record_kept s s2)
    (htable : ∀ b, (m2.hashtable.arr b).Sublist (m.hashtable.arr b))
    (hlive : ∀ b p, p ∈ m2.hashtable.arr b → m2.heap p ≠ none)
    (hslots : ∀ i p, m2.waiting_sessions.sessions i = some p →
      m.waiting_sessions.sessions i = some p) : manager_wf m2 := by
  refine ⟨?_, ?_, ?_, ?_, ?_, ?_⟩
  · intro b p hp
    obtain ⟨s, hs, hb⟩ := h.alive b p ((htable b).subset hp)
    obtain ⟨s2, hs2⟩ := Option.ne_none_iff_exists'.mp (hlive b p hp)
    obtain ⟨s', hs', hk⟩ := hheap p s2 hs2
    rw [hs] at hs'
    cases hs'
    exact ⟨s2, hs2, by rw [hk.1]; exact hb⟩
  · intro b
    refine ((h.unique b).sublist (htable b)).imp ?_
    intro p q hpq s2 t2 hs2 ht2
    obtain ⟨s, hs, hks⟩ := hheap p s2 hs2
    obtain ⟨t, ht, hkt⟩ := hheap q t2 ht2
    rw [hks.1, hkt.1]
    exact hpq s t hs ht
  · intro p hp
    rw [hbrk] at hp
    cases hq : m2.heap p with
    | none => rfl
    | some s2 =>
      obtain ⟨s, hs, -⟩ := hheap p s2 hq
      rw [h.fresh p hp] at hs
      cases hs
  · intro i p s2 hi hs2
    obtain ⟨s, hs, hk⟩ := hheap p s2 hs2
    exact hk.2.2 (h.queued i p s (hslots i p hi) hs)
  · intro p s2 hs2
    obtain ⟨s, -, hk⟩ := hheap p s2 hs2
    exact hk.2.1
  · intro i p hi
    rw [hbrk]
    exact h.slots i p (hslots i p hi)

/-- The chain that `hashtable_remove` leaves is a sublist of the chain, and
when the records of the chain have different IDs none of the records left has
the ID removed. -/
theorem hashtable_remove_chain_spec (heap : Nat → Option tcp_session_t) (id : tcp_session_id_t)
    (chain rest : List Nat) (found : Option Nat)
    (h : hashtable_remove_chain heap id chain = .ok (rest, found)) :
    rest.Sublist chain ∧
    (chain.Pairwise (fun p q => ∀ s t, heap p = some s → heap q = some t → s.id ≠ t.id) →
      ∀ q, q ∈ rest → ∀ t, heap q = some t → t.id ≠ id) := by
  induction chain generalizing rest found with
  | nil =>
    simp only [hashtable_remove_chain, Except.ok.injEq, Prod.mk.injEq] at h
    obtain ⟨h1, -⟩ := h
    subst h1
    exact ⟨List.Sublist.refl _, fun _ q hq => absurd hq (List.not_mem_nil q)⟩
  | cons entry next ih =>
    rw [hashtable_remove_chain] at h
    cases he : heap entry with
    | none => simp [he] at h
    | some s =>
      simp only [he] at h
      by_cases heq : tcp_session_id_equals id s.id = true
      · simp only [heq, if_true, Except.ok.injEq, Prod.mk.injEq] at h
        obtain ⟨h1, -⟩ := h
        subst h1
        refine ⟨List.sublist_cons_self _ _, ?_⟩
        intro hpw q hq t ht
        have hid : id = s.id := (tcp_session_id_equals_iff _ _).mp heq
        rw [hid]
        exact fun e => (List.rel_of_pairwise_cons hpw hq) s t he ht e.symm
      · simp only [heq, if_false] at h
        cases hr : hashtable_remove_chain heap id next with
        | error e => simp [hr] at h
        | ok r =>
          obtain ⟨rest', found'⟩ := r
          simp only [hr, Bool.false_eq_true, if_false, Except.ok.injEq, Prod.mk.injEq] at h
          obtain ⟨h1, -⟩ := h
          subst h1
          obtain ⟨ih1, ih2⟩ := ih rest' found' hr
          refine ⟨ih1.cons₂ _, ?_⟩
          intro hpw q hq t ht
          rcases List.mem_cons.mp hq with hq | hq
          · subst hq
            rw [he] at ht
            cases ht
            intro e
            exact heq ((tcp_session_id_equals_iff _ _).mpr e.symm)
          · exact ih2 (List.Pairwise.of_cons hpw) q hq t ht

/-- Function `session_manager_free_session` keeps the state well formed. -/
theorem free_session_wf (m m2 : session_manager_t) (session : Nat) (h : manager_wf m)
    (hfree : session_manager_free_session m session = .ok m2) : manager_wf m2 := by
  unfold session_manager_free_session at hfree
  cases hs : m.heap session with
  | none => simp [hs] at hfree
  | some s =>
    simp only [hs] at hfree
    cases hd : modules_destroy m.modules s.data m.module_count with
    | error e => simp [hd] at hfree
    | ok calls =>
      simp only [hd] at hfree
      unfold hashtable_remove at hfree
      cases hr : hashtable_remove_chain m.heap s.id (m.hashtable.arr (hashtable_compute_hash s.id))
        with
      | error e => simp [hr] at hfree
      | ok r =>
        obtain ⟨rest, found⟩ := r
        simp only [hr, free, hs, Except.ok.injEq] at hfree
        subst hfree
        obtain ⟨hsub, hids⟩ := hashtable_remove_chain_spec _ _ _ _ _ hr
        refine manager_wf_of_shrink m _ h rfl ?_ ?_ ?_ ?_
        · intro p s2 hp
          by_cases hps : p = session
          · simp [hps] at hp
          · simp only [hps, if_false] at hp
            exact ⟨s2, hp, record_kept_refl m h p s2 hp⟩
        · intro b
          by_cases hb : b = hashtable_compute_hash s.id
          · subst hb
            simpa using hsub
          · simp [hb]
        · intro b p hp
          by_cases hb : b = hashtable_compute_hash s.id
          · subst hb
            simp only [if_true] at hp
            obtain ⟨t, ht, -⟩ := h.alive _ p (hsub.subset hp)
            have hne : p ≠ session := by
              intro e
              subst e
              exact hids (h.unique _) p hp s hs rfl
            simp [hne, ht]
          · simp only [hb, if_false] at hp
            obtain ⟨t, ht, htb⟩ := h.alive b p hp
            have hne : p ≠ session := by
              intro e
              subst e
              rw [hs] at ht
              have e2 : s = t := Option.some.inj ht
              rw [e2] at hb
              exact hb htb.symm
            simp [hne, ht]
        · intro i p hi
          exact hi

/-- Well-formedness looks only at the index, the records, the slots of the
queue and `brk`. -/
theorem manager_wf_congr (m m2 : session_manager_t) (h : manager_wf m)
    (h1 : m2.hashtable = m.hashtable) (h2 : m2.heap = m.heap) (h3 : m2.brk = m.brk)
    (h4 : m2.waiting_sessions.sessions = m.waiting_sessions.sessions) : manager_wf m2 := by
  refine manager_wf_of_shrink m m2 h h3 ?_ ?_ ?_ ?_
  · intro p s2 hp
    rw [h2] at hp
    exact ⟨s2, hp, record_kept_refl m h p s2 hp⟩
  · intro b
    rw [h1]
  · intro b p hp
    rw [h1] at hp
    rw [h2]
    obtain ⟨s, hs, -⟩ := h.alive b p hp
    simp [hs]
  · intro i p hi
    rw [h4] at hi
    exact hi

/-- Rewriting a record in the ways of `record_kept` keeps the state well
formed. -/
theorem store_wf (m : session_manager_t) (p : Nat) (s s2 : tcp_session_t) (h : manager_wf m)
    (hs : m.heap p = some s) (hk : record_kept s s2) : manager_wf (store m p s2) := by
  refine manager_wf_of_shrink m _ h rfl ?_ ?_ ?_ ?_
  · intro q t2 hq
    by_cases hqp : q = p
    · subst hqp
      simp only [store_heap_same, Option.some.injEq] at hq
      subst hq
      exact ⟨s, hs, hk⟩
    · rw [store_heap_other m p q s2 hqp] at hq
      exact ⟨t2, hq, record_kept_refl m h q t2 hq⟩
  · intro b
    exact List.Sublist.refl _
  · intro b q hq
    by_cases hqp : q = p
    · subst hqp
      simp
    · rw [store_heap_other m p q s2 hqp]
      obtain ⟨t, ht, -⟩ := h.alive b q hq
      simp [ht]
  · intro i q hi
    exact hi

/-- Libc `free` of a record that no node of the index points to keeps the
state well formed. -/
theorem free_wf (m m2 : session_manager_t) (p : Nat) (h : manager_wf m)
    (hp : ∀ b, p ∉ m.hashtable.arr b) (hfree : free m p = .ok m2) : manager_wf m2 := by
  unfold free at hfree
  cases hs : m.heap p with
  | none => simp [hs] at hfree
  | some s =>
    simp only [hs, Except.ok.injEq] at hfree
    subst hfree
    refine manager_wf_of_shrink m _ h rfl ?_ ?_ ?_ ?_
    · intro q t2 hq
      by_cases hqp : q = p
      · simp [hqp] at hq
      · simp only [hqp, if_false] at hq
        exact ⟨t2, hq, record_kept_refl m h q t2 hq⟩
    · intro b
      exact List.Sublist.refl _
    · intro b q hq
      have hqp : q ≠ p := fun e => hp b (e ▸ hq)
      obtain ⟨t, ht, -⟩ := h.alive b q hq
      simp [hqp, ht]
    · intro i q hi
      exact hi

/-- Function `session_manager_free_module_data` keeps the state well formed
and does not touch the index. -/
theorem free_module_data_wf (m m2 : session_manager_t) (session : Nat) (h : manager_wf m)
    (hfree : session_manager_free_module_data m session = .ok m2) :
    manager_wf m2 ∧ m2.hashtable = m.hashtable := by
  unfold session_manager_free_module_data at hfree
  cases hs : m.heap session with
  | none => simp [hs] at hfree
  | some s =>
    simp only [hs] at hfree
    by_cases hw : s.waiting = 1
    · simp only [hw, if_true, Except.ok.injEq] at hfree
      subst hfree
      exact ⟨h, rfl⟩
    · simp only [hw, if_false] at hfree
      cases hd : modules_destroy m.modules s.data m.module_count with
      | error e => simp [hd] at hfree
      | ok calls =>
        simp only [hd, Except.ok.injEq] at hfree
        subst hfree
        refine ⟨?_, rfl⟩
        exact store_wf _ session s _ (manager_wf_congr m _ h rfl rfl rfl rfl) hs
          ⟨rfl, h.time_wait session s hs, fun x => x⟩

/-- The pointers of a chain of a well-formed index are different. -/
theorem chain_nodup (m : session_manager_t) (h : manager_wf m) (b : Nat) :
    (m.hashtable.arr b).Nodup := by
  refine List.Pairwise.imp_of_mem ?_ (h.unique b)
  intro p q hp _ hpq e
  subst e
  obtain ⟨s, hs, -⟩ := h.alive b p hp
  exact hpq s s hs hs rfl

theorem not_mem_eraseIdx_of_nodup (l : List Nat) (k p : Nat) (rest : List Nat)
    (hn : l.Nodup) (hd : l.drop k = p :: rest) : p ∉ l.eraseIdx k := by
  induction l generalizing k with
  | nil => simp at hd
  | cons a l ih =>
    cases k with
    | zero =>
      simp only [List.drop_zero, List.cons.injEq] at hd
      obtain ⟨h1, h2⟩ := hd
      subst h1
      simpa using (List.nodup_cons.mp hn).1
    | succ k =>
      simp only [List.drop_succ_cons] at hd
      have hmem : p ∈ l := List.mem_of_mem_drop (hd ▸ List.mem_cons_self p rest)
      have hne : p ≠ a := fun e => (List.nodup_cons.mp hn).1 (e ▸ hmem)
      simp only [List.eraseIdx_cons_succ, List.mem_cons, not_or]
      exact ⟨hne, ih k (List.nodup_cons.mp hn).2 hd⟩

/-- The scan of `hashtable_iterator_next` stops at a bucket that is not
`NULL`. -/
theorem hashtable_iterator_scan_some (ht : hashtable_t) (left pos found : Nat)
    (h : hashtable_iterator_scan ht left pos = .ok (some found)) : ht.arr found ≠ [] := by
  induction left generalizing pos with
  | zero => simp [hashtable_iterator_scan] at h
  | succ left ih =>
    rw [hashtable_iterator_scan] at h
    by_cases h1 : pos + 1 = ARRAY_SIZE
    · simp [h1] at h
    · by_cases h2 : ht.arr (pos + 1) = []
      · simp only [h1, h2, if_true, if_false] at h
        exact ih (pos + 1) h
      · simp only [h1, h2, if_false, Except.ok.injEq, Option.some.injEq] at h
        subst h
        exact h2

/-- The session that `hashtable_iterator_next` returns is the one of the node
that `entry_ptr` addresses afterwards. -/
theorem hashtable_iterator_next_some (ht : hashtable_t) (itr itr2 : hashtable_iterator_t)
    (p : Nat) (h : hashtable_iterator_next ht itr = .ok (itr2, some p)) :
    ∃ rest, (ht.arr itr2.entry_bucket).drop itr2.entry_link = p :: rest := by
  have hscan : ∀ r : Except fault (hashtable_iterator_t × Option Nat),
      r = (match hashtable_iterator_scan ht (ARRAY_SIZE - itr.array_position)
          itr.array_position with
        | .error e => .error e
        | .ok none => .ok ({ itr with array_position := ARRAY_SIZE }, none)
        | .ok (some pos) =>
          .ok ({ array_position := pos, entry_bucket := pos, entry_link := 0 },
            (ht.arr pos).head?)) →
      r = .ok (itr2, some p) →
      ∃ rest, (ht.arr itr2.entry_bucket).drop itr2.entry_link = p :: rest := by
    intro r hr hrp
    cases hs : hashtable_iterator_scan ht (ARRAY_SIZE - itr.array_position) itr.array_position
      with
    | error e =>
      rw [hs] at hr
      rw [hr] at hrp
      cases hrp
    | ok found =>
      cases found with
      | none =>
        rw [hs] at hr
        rw [hr] at hrp
        simp at hrp
      | some pos =>
        rw [hs] at hr
        rw [hr] at hrp
        simp only [Except.ok.injEq, Prod.mk.injEq] at hrp
        obtain ⟨h1, h2⟩ := hrp
        subst h1
        cases hc : ht.arr pos with
        | nil => simp [hc] at h2
        | cons a l =>
          simp only [hc, List.head?_cons, Option.some.injEq] at h2
          subst h2
          exact ⟨l, by simp [hc]⟩
  unfold hashtable_iterator_next at h
  cases hdrop : (ht.arr itr.entry_bucket).drop itr.entry_link with
  | nil =>
    rw [hdrop] at h
    exact hscan _ rfl h
  | cons a l =>
    cases l with
    | nil =>
      rw [hdrop] at h
      exact hscan _ rfl h
    | cons b c =>
      rw [hdrop] at h
      simp only [Except.ok.injEq, Prod.mk.injEq, Option.some.injEq] at h
      obtain ⟨h1, h2⟩ := h
      subst h1 h2
      refine ⟨c, ?_⟩
      have : (ht.arr itr.entry_bucket).drop (itr.entry_link + 1)
          = ((ht.arr itr.entry_bucket).drop itr.entry_link).drop 1 := by
        rw [List.drop_drop, Nat.add_comm]
      simp only [this, hdrop, List.drop_succ_cons, List.drop_zero]

/-- Function `session_manager_free_session` does not touch the TIME_WAIT
queue. -/
theorem free_session_queue (m m2 : session_manager_t) (session : Nat)
    (hfree : session_manager_free_session m session = .ok m2) :
    m2.waiting_sessions = m.waiting_sessions := by
  unfold session_manager_free_session at hfree
  cases hs : m.heap session with
  | none => simp [hs] at hfree
  | some s =>
    simp only [hs] at hfree
    cases hd : modules_destroy m.modules s.data m.module_count with
    | error e => simp [hd] at hfree
    | ok calls =>
      simp only [hd] at hfree
      cases hr : hashtable_remove m.heap m.hashtable s.id with
      | error e => simp [hr] at hfree
      | ok r =>
        simp only [hr, free, hs, Except.ok.injEq] at hfree
        subst hfree
        rfl

/-- The removal of a session by `session_manager_cleanup` keeps the state well
formed. -/
theorem cleanup_remove_wf (m m3 m4 : session_manager_t) (itr : hashtable_iterator_t)
    (session : Nat) (rest : List Nat) (h : manager_wf m)
    (hdrop : (m.hashtable.arr itr.entry_bucket).drop itr.entry_link = session :: rest)
    (hf : session_manager_free_module_data { m with hashtable :=
      { arr := fun i =>
          if i = itr.entry_bucket then
            (m.hashtable.arr itr.entry_bucket).eraseIdx itr.entry_link
          else m.hashtable.arr i } } session = .ok m3)
    (hfr : free m3 session = .ok m4) : manager_wf m4 := by
  have hwf1 : manager_wf { m with hashtable :=
      { arr := fun i =>
          if i = itr.entry_bucket then
            (m.hashtable.arr itr.entry_bucket).eraseIdx itr.entry_link
          else m.hashtable.arr i } } := by
    refine manager_wf_of_shrink m _ h rfl ?_ ?_ ?_ ?_
    · intro p s2 hp
      exact ⟨s2, hp, record_kept_refl m h p s2 hp⟩
    · intro b
      by_cases hb : b = itr.entry_bucket
      · subst hb
        simpa using List.eraseIdx_sublist _ _
      · simp [hb]
    · intro b p hp
      have hmem : p ∈ m.hashtable.arr b := by
        by_cases hb : b = itr.entry_bucket
        · subst hb
          simp only [if_true] at hp
          exact (List.eraseIdx_sublist _ _).subset hp
        · simpa [hb] using hp
      obtain ⟨t, ht, -⟩ := h.alive b p hmem
      simp [ht]
    · intro i p hi
      exact hi
  have hgone : ∀ b, session ∉ (fun i =>
      if i = itr.entry_bucket then
        (m.hashtable.arr itr.entry_bucket).eraseIdx itr.entry_link
      else m.hashtable.arr i) b := by
    intro b
    have hin : session ∈ m.hashtable.arr itr.entry_bucket :=
      List.mem_of_mem_drop (hdrop ▸ List.mem_cons_self session rest)
    by_cases hb : b = itr.entry_bucket
    · subst hb
      simpa using not_mem_eraseIdx_of_nodup _ _ _ _ (chain_nodup m h _) hdrop
    · simp only [hb, if_false]
      intro hmem
      obtain ⟨t, ht, htb⟩ := h.alive b session hmem
      obtain ⟨t2, ht2, htb2⟩ := h.alive _ session hin
      rw [ht] at ht2
      cases ht2
      exact hb (htb.symm.trans htb2)
  obtain ⟨hwf3, htab3⟩ := free_module_data_wf _ _ _ hwf1 hf
  refine free_wf m3 m4 session hwf3 ?_ hfr
  intro b
  rw [htab3]
  exact hgone b

/-- The loop of `session_manager_cleanup` keeps the state well formed. -/
theorem cleanup_loop_wf (last_access fuel : Nat) (m m2 : session_manager_t)
    (itr : hashtable_iterator_t) (h : manager_wf m)
    (hrun : session_manager_cleanup_loop last_access fuel m itr = .ok m2) : manager_wf m2 := by
  induction fuel generalizing m itr with
  | zero => simp [session_manager_cleanup_loop] at hrun
  | succ fuel ih =>
    rw [session_manager_cleanup_loop] at hrun
    cases hn : hashtable_iterator_next m.hashtable itr with
    | error e => simp [hn] at hrun
    | ok r =>
      obtain ⟨itr2, found⟩ := r
      cases found with
      | none =>
        simp only [hn, Except.ok.injEq] at hrun
        subst hrun
        exact h
      | some session =>
        simp only [hn] at hrun
        cases hs : m.heap session with
        | none => simp [hs] at hrun
        | some s =>
          simp only [hs] at hrun
          by_cases hc : (s.state = SYN_RCVD ∨ s.state = SYN_SENT) ∧
              (last_access + 256 - s.last_access % 256) % 256 > SM_TCP_SYN_TIMEOUT
          · simp only [hc.1, hc.2, if_true] at hrun
            obtain ⟨rest, hdrop⟩ := hashtable_iterator_next_some _ _ _ _ hn
            simp only [hashtable_iterator_remove, hdrop] at hrun
            cases hf : session_manager_free_module_data { m with hashtable :=
                { arr := fun i =>
                    if i = itr2.entry_bucket then
                      (m.hashtable.arr itr2.entry_bucket).eraseIdx itr2.entry_link
                    else m.hashtable.arr i } } session with
            | error e => simp [hf] at hrun
            | ok m3 =>
              simp only [hf] at hrun
              cases hfr : free m3 session with
              | error e => simp [hfr] at hrun
              | ok m4 =>
                simp only [hfr] at hrun
                exact ih m4 itr2 (cleanup_remove_wf m m3 m4 itr2 session rest h hdrop hf hfr) hrun
          · have hrun2 : session_manager_cleanup_loop last_access fuel m itr2 = .ok m2 := by
              by_cases h1 : s.state = SYN_RCVD ∨ s.state = SYN_SENT
              · have h2 : ¬ (last_access + 256 - s.last_access % 256) % 256
                    > SM_TCP_SYN_TIMEOUT := fun x => hc ⟨h1, x⟩
                simpa only [h1, h2, if_true, if_false] using hrun
              · simpa only [h1, if_false] using hrun
            exact ih m itr2 h hrun2

/-- Function `timer_queue_add` of a record that has `waiting` set and is in
TIME_WAIT keeps the state well formed. -/
theorem timer_queue_add_wf (m m2 : session_manager_t) (session time : Nat) (s : tcp_session_t)
    (h : manager_wf m) (hs : m.heap session = some s) (hw : s.waiting = 1)
    (hst : s.state = TIME_WAIT) (hadd : timer_queue_add m session time = .ok m2) :
    manager_wf m2 := by
  unfold timer_queue_add at hadd
  simp only at hadd
  split_ifs at hadd with h1 h2 h3
  all_goals
    simp only [Except.ok.injEq] at hadd
    subst hadd
    refine ⟨h.alive, h.unique, h.fresh, ?_, h.time_wait, ?_⟩
    · intro i p t hi hp
      simp only at hi
      split_ifs at hi with hpos
      · simp only [Option.some.injEq] at hi
        subst hi
        have hp' : m.heap session = some t := hp
        rw [hs] at hp'
        cases hp'
        exact ⟨hw, Or.inl hst⟩
      · exact h.queued i p t hi hp
    · intro i p hi
      simp only at hi
      split_ifs at hi with hpos
      · simp only [Option.some.injEq] at hi
        subst hi
        by_contra hge
        have := h.fresh session (Nat.le_of_not_lt hge)
        rw [hs] at this
        cases this
      · exact h.slots i p hi

/-- The loop of `timer_queue_free` keeps the state well formed. -/
theorem timer_queue_free_loop_wf (current_time rounds : Nat) (m m2 : session_manager_t)
    (h : manager_wf m) (hrun : timer_queue_free_loop current_time rounds m = .ok m2) :
    manager_wf m2 := by
  induction rounds generalizing m with
  | zero =>
    simp only [timer_queue_free_loop] at hrun
    split_ifs at hrun
    simp only [Except.ok.injEq] at hrun
    subst hrun
    exact h
  | succ rounds ih =>
    rw [timer_queue_free_loop] at hrun
    by_cases hlo : m.waiting_sessions.lower_idx ≥ SM_TIMER_QUEUE_LENGTH
    · rw [if_pos hlo] at hrun
      cases hrun
    rw [if_neg hlo] at hrun
    by_cases hc : m.waiting_sessions.times m.waiting_sessions.lower_idx < current_time ∧
        m.waiting_sessions.length ≠ 0
    · rw [if_pos hc] at hrun
      cases hq : m.waiting_sessions.sessions m.waiting_sessions.lower_idx with
        | none =>
          simp only [hq] at hrun
          refine ih _ ?_ hrun
          refine manager_wf_of_shrink m _ h rfl ?_ (fun b => List.Sublist.refl _) ?_ ?_
          · intro p s2 hp
            exact ⟨s2, hp, record_kept_refl m h p s2 hp⟩
          · intro b p hp
            obtain ⟨t, ht, -⟩ := h.alive b p hp
            simp [ht]
          · intro i p hi
            simp only at hi
            split_ifs at hi
            exact hi
        | some session =>
          simp only [hq] at hrun
          cases hf : session_manager_free_session m session with
          | error e => simp [hf] at hrun
          | ok m3 =>
            simp only [hf] at hrun
            have hwf3 := free_session_wf m m3 session h hf
            have hq3 := free_session_queue m m3 session hf
            refine ih _ ?_ hrun
            refine manager_wf_of_shrink m3 _ hwf3 rfl ?_ (fun b => List.Sublist.refl _) ?_ ?_
            · intro p s2 hp
              exact ⟨s2, hp, record_kept_refl m3 hwf3 p s2 hp⟩
            · intro b p hp
              obtain ⟨t, ht, -⟩ := hwf3.alive b p hp
              simp [ht]
            · intro i p hi
              simp only at hi
              split_ifs at hi
              rw [hq3]
              exact hi
    · rw [if_neg hc] at hrun
      cases hrun
      exact h

/-- The loop of `timer_queue_free_early` keeps the state well formed. -/
theorem timer_queue_free_early_loop_wf (session rounds i : Nat) (m m2 : session_manager_t)
    (h : manager_wf m) (hrun : timer_queue_free_early_loop session rounds i m = .ok m2) :
    manager_wf m2 := by
  induction rounds generalizing i with
  | zero =>
    simp only [timer_queue_free_early_loop, Except.ok.injEq] at hrun
    subst hrun
    exact h
  | succ rounds ih =>
    rw [timer_queue_free_early_loop] at hrun
    split_ifs at hrun
    all_goals
      split at hrun
      · exact ih _ hrun
      · split at hrun
        · split_ifs at hrun with heq
          · refine free_session_wf _ m2 session ?_ hrun
            refine manager_wf_of_shrink m _ h rfl ?_ (fun b => List.Sublist.refl _) ?_ ?_
            · intro p s2 hp
              exact ⟨s2, hp, record_kept_refl m h p s2 hp⟩
            · intro b p hp
              obtain ⟨t, ht, -⟩ := h.alive b p hp
              simp [ht]
            · intro j p hj
              simp only at hj
              split_ifs at hj
              exact hj
          · exact ih _ hrun
        · cases hrun

/-- The sweeps at the start of `session_manager_update` keep the state well
formed. -/
theorem sweeps_wf (fuel : Nat) (m m2 : session_manager_t) (current_time : Nat)
    (h : manager_wf m) (hrun : session_manager_update_sweeps fuel m current_time = .ok m2) :
    manager_wf m2 := by
  unfold session_manager_update_sweeps at hrun
  simp only at hrun
  have step1 : ∀ r : Except fault session_manager_t,
      r = (if current_time ≠ m.last_access then
            timer_queue_free { m with last_access := current_time } current_time
          else .ok m) →
      ∀ m1, r = .ok m1 → manager_wf m1 := by
    intro r hr m1 hm1
    rw [hr] at hm1
    split_ifs at hm1
    · unfold timer_queue_free at hm1
      exact timer_queue_free_loop_wf _ _ _ m1
        (manager_wf_congr m { m with last_access := current_time } h rfl rfl rfl rfl) hm1
    · cases hm1
      exact h
  cases h1 : (if current_time ≠ m.last_access then
      timer_queue_free { m with last_access := current_time } current_time
    else Except.ok m) with
  | error e => simp [h1] at hrun
  | ok m1 =>
    have hwf1 := step1 _ rfl m1 h1
    simp only [h1] at hrun
    have step2 : ∀ r : Except fault session_manager_t,
        r = (match m1.closed_session with
          | none => .ok m1
          | some closed =>
            match m1.heap closed with
            | none => .error fault.undefined_behaviour
            | some c =>
              if c.waiting = 0 then
                match session_manager_free_session m1 closed with
                | .error e => .error e
                | .ok manager => .ok { manager with closed_session := none }
              else .ok { m1 with closed_session := none }) →
        ∀ m3, r = .ok m3 → manager_wf m3 := by
      intro r hr m3 hm3
      rw [hr] at hm3
      split at hm3
      · cases hm3
        exact hwf1
      · split at hm3
        · cases hm3
        · split_ifs at hm3
          · split at hm3
            · cases hm3
            · rename_i m4 hf
              cases hm3
              exact manager_wf_congr m4 _ (free_session_wf m1 m4 _ hwf1 hf) rfl rfl rfl rfl
          · cases hm3
            exact manager_wf_congr m1 _ hwf1 rfl rfl rfl rfl
    split at hrun
    · cases hrun
    · rename_i m3 h3
      have hwf3 := step2 _ rfl m3 h3
      split_ifs at hrun
      · unfold session_manager_cleanup at hrun
        exact cleanup_loop_wf _ _ _ m2 _
          (manager_wf_congr m3 { m3 with last_clean := current_time } hwf3 rfl rfl rfl rfl) hrun
      · cases hrun
        exact hwf3

/-- A chain in which `hashtable_retrieve` finds nothing has no record with the
ID. -/
theorem hashtable_retrieve_chain_none (heap : Nat → Option tcp_session_t)
    (id : tcp_session_id_t) (chain : List Nat)
    (h : hashtable_retrieve_chain heap id chain = .ok none) :
    ∀ q, q ∈ chain → ∀ t, heap q = some t → t.id ≠ id := by
  induction chain with
  | nil => intro q hq; exact absurd hq (List.not_mem_nil q)
  | cons entry next ih =>
    rw [hashtable_retrieve_chain] at h
    cases he : heap entry with
    | none => simp [he] at h
    | some s =>
      simp only [he] at h
      by_cases heq : tcp_session_id_equals id s.id = true
      · simp [heq] at h
      · rw [if_neg heq] at h
        intro q hq t ht
        rcases List.mem_cons.mp hq with hq | hq
        · subst hq
          rw [he] at ht
          cases ht
          exact fun e => heq ((tcp_session_id_equals_iff _ _).mpr e.symm)
        · exact ih h q hq t ht

/-- A session that `hashtable_retrieve` finds is live. -/
theorem hashtable_retrieve_chain_some (heap : Nat → Option tcp_session_t)
    (id : tcp_session_id_t) (chain : List Nat) (session : Nat)
    (h : hashtable_retrieve_chain heap id chain = .ok (some session)) :
    session ∈ chain ∧ ∃ s, heap session = some s ∧ s.id = id := by
  induction chain with
  | nil => simp [hashtable_retrieve_chain] at h
  | cons entry next ih =>
    rw [hashtable_retrieve_chain] at h
    cases he : heap entry with
    | none => simp [he] at h
    | some s =>
      simp only [he] at h
      by_cases heq : tcp_session_id_equals id s.id = true
      · rw [if_pos heq] at h
        simp only [Except.ok.injEq, Option.some.injEq] at h
        subst h
        exact ⟨List.mem_cons_self _ _, s, he, ((tcp_session_id_equals_iff _ _).mp heq).symm⟩
      · rw [if_neg heq] at h
        obtain ⟨h1, h2⟩ := ih h
        exact ⟨List.mem_cons_of_mem _ h1, h2⟩

/-- The allocation of a record that is not in TIME_WAIT and its insertion into
an index that has no record with its ID keep the state well formed. -/
theorem alloc_wf (m : session_manager_t) (s : tcp_session_t) (calls : List module_call)
    (h : manager_wf m)
    (habsent : hashtable_retrieve m.heap m.hashtable s.id = .ok none)
    (hst : s.state ≠ TIME_WAIT) :
    manager_wf { store { m with brk := m.brk + 1, calls := calls } m.brk s with
      hashtable := { arr := fun i =>
        if i = hashtable_compute_hash s.id then
          m.brk :: m.hashtable.arr (hashtable_compute_hash s.id)
        else m.hashtable.arr i } } := by
  have hnone := hashtable_retrieve_chain_none _ _ _ habsent
  have hfresh : m.heap m.brk = none := h.fresh m.brk (Nat.le_refl _)
  have hne : ∀ b p, p ∈ m.hashtable.arr b → p ≠ m.brk := by
    intro b p hp e
    obtain ⟨t, ht, -⟩ := h.alive b p hp
    rw [e, hfresh] at ht
    cases ht
  refine ⟨?_, ?_, ?_, ?_, ?_, ?_⟩
  · intro b p hp
    simp only at hp
    by_cases hpb : p = m.brk
    · subst hpb
      refine ⟨s, by simp [store], ?_⟩
      by_cases hbk : b = hashtable_compute_hash s.id
      · exact hbk.symm
      · simp only [hbk, if_false] at hp
        exact absurd rfl (hne b _ hp)
    · have hmem : p ∈ m.hashtable.arr b := by
        by_cases hbk : b = hashtable_compute_hash s.id
        · subst hbk
          simp only [if_true, List.mem_cons] at hp
          rcases hp with hp | hp
          · exact absurd hp hpb
          · exact hp
        · simpa [hbk] using hp
      obtain ⟨t, ht, htb⟩ := h.alive b p hmem
      exact ⟨t, by simp [store, hpb, ht], htb⟩
  · intro b
    have hold : (m.hashtable.arr b).Pairwise (fun p q => ∀ s1 t1,
        (store { m with brk := m.brk + 1, calls := calls } m.brk s).heap p = some s1 →
        (store { m with brk := m.brk + 1, calls := calls } m.brk s).heap q = some t1 →
        s1.id ≠ t1.id) := by
      refine List.Pairwise.imp_of_mem ?_ (h.unique b)
      intro p q hp hq hpq s1 t1 hs1 ht1
      simp only [store, hne b p hp, if_false] at hs1
      simp only [store, hne b q hq, if_false] at ht1
      exact hpq s1 t1 hs1 ht1
    by_cases hbk : b = hashtable_compute_hash s.id
    · subst hbk
      simp only [if_true]
      refine List.Pairwise.cons ?_ hold
      intro q hq s1 t1 hs1 ht1
      simp only [store, if_true, Option.some.injEq] at hs1
      simp only [store, hne _ q hq, if_false] at ht1
      subst hs1
      exact fun e => hnone q hq t1 ht1 e.symm
    · simp only [hbk, if_false]
      exact hold
  · intro p hp
    simp only [store] at hp
    have hpb : p ≠ m.brk := by omega
    simp only [store, hpb, if_false]
    exact h.fresh p (by omega)
  · intro i p t hi hp
    have hlt := h.slots i p hi
    have hpb : p ≠ m.brk := Nat.ne_of_lt hlt
    simp only [store, hpb, if_false] at hp
    exact h.queued i p t hi hp
  · intro p t hp
    by_cases hpb : p = m.brk
    · subst hpb
      simp only [store, if_true, Option.some.injEq] at hp
      subst hp
      intro hst2
      exact absurd hst2 hst
    · simp only [store, hpb, if_false] at hp
      exact h.time_wait p t hp
  · intro i p hi
    have := h.slots i p hi
    simp only [store]
    omega

/-- The creation of a flow keeps the state well formed. -/
theorem update_new_wf (m m2 : session_manager_t) (ip : libtrace_ip) (tcp : libtrace_tcp)
    (direction : Int) (r : Option Nat) (h : manager_wf m)
    (habsent : hashtable_retrieve m.heap m.hashtable (session_id_of ip tcp) = .ok none)
    (hrun : session_manager_update_new m ip tcp (session_id_of ip tcp) direction = .ok (m2, r)) :
    manager_wf m2 := by
  unfold session_manager_update_new at hrun
  by_cases hb : (tcp.syn && !tcp.ack) = true
  · rw [if_pos hb] at hrun
    simp only at hrun
    cases hc : modules_create m.modules m.brk m.module_count with
    | error e => simp [hc] at hrun
    | ok dc =>
      obtain ⟨data, calls⟩ := dc
      simp only [hc, hashtable_insert, store_heap_same, Except.ok.injEq, Prod.mk.injEq] at hrun
      obtain ⟨hm2, -⟩ := hrun
      subst hm2
      refine alloc_wf m
        { id := session_id_of ip tcp
          state := if direction = SM_OUTBOUND then SYN_SENT else SYN_RCVD
          expected_ack := if direction = SM_OUTBOUND then seq_plus_payload ip tcp
            else 4294967295
          waiting := 0, last_access := 0, data := data } (m.calls ++ calls) h habsent ?_
      simp only
      split_ifs <;> simp
  · rw [if_neg hb] at hrun
    simp only [Except.ok.injEq, Prod.mk.injEq] at hrun
    obtain ⟨hm2, -⟩ := hrun
    subst hm2
    exact h

/-- The delivery to the modules keeps the state well formed. -/
theorem deliver_wf (m m2 : session_manager_t) (packet : libtrace_packet_t) (t : Nat)
    (session r : Option Nat) (h : manager_wf m)
    (hrun : session_manager_update_deliver m packet t session = .ok (m2, r)) :
    manager_wf m2 := by
  unfold session_manager_update_deliver at hrun
  cases session with
  | none =>
    cases hrun
    exact h
  | some p =>
    simp only at hrun
    cases hs : m.heap p with
    | none => simp [hs] at hrun
    | some s =>
      simp only [hs] at hrun
      cases hu : modules_update m.modules s.data packet m.module_count with
      | error e => simp [hu] at hrun
      | ok calls =>
        simp only [hu, Except.ok.injEq, Prod.mk.injEq] at hrun
        obtain ⟨hm2, -⟩ := hrun
        subst hm2
        exact manager_wf_congr _ _
          (store_wf m p s { s with last_access := t % 256 } h hs
            ⟨rfl, h.time_wait p s hs, fun x => x⟩) rfl rfl rfl rfl

/-- The RST test and the switch over the state keep the state well formed. -/
theorem update_state_wf (m m2 : session_manager_t) (current_time : Nat) (direction : Int)
    (ip : libtrace_ip) (tcp : libtrace_tcp) (session : Nat) (again : Bool) (h : manager_wf m)
    (hrun : session_manager_update_state m current_time direction ip tcp session
      = .ok (m2, again)) : manager_wf m2 := by
  unfold session_manager_update_state at hrun
  cases hs : m.heap session with
  | none => simp [hs] at hrun
  | some s0 =>
    simp only [hs] at hrun
    by_cases hrst : tcp.rst = true
    · simp only [hrst, if_true, Except.ok.injEq, Prod.mk.injEq] at hrun
      obtain ⟨hm2, -⟩ := hrun
      subst hm2
      refine manager_wf_congr _ _ (store_wf m session s0 { s0 with state := RESET } h hs ?_)
        rfl rfl rfl rfl
      exact ⟨rfl, by simp, fun x => ⟨x.1, Or.inr rfl⟩⟩
    · have hrst2 : tcp.rst = false := by simpa using hrst
      simp only [hrst2, Bool.false_eq_true, if_false] at hrun
      cases hst : s0.state <;> simp only [hst] at hrun
      all_goals
        try split_ifs at hrun
      all_goals
        first
        | (simp only [Except.ok.injEq, Prod.mk.injEq] at hrun
           obtain ⟨hm2, -⟩ := hrun
           subst hm2
           first
           | exact h
           | exact store_wf m session s0 _ h hs (by simp [record_kept, hst])
           | exact manager_wf_congr _ _
               (store_wf m session s0 _ h hs (by simp [record_kept, hst])) rfl rfl rfl rfl)
        | (split at hrun
           · cases hrun
           · rename_i m3 hadd
             simp only [Except.ok.injEq, Prod.mk.injEq] at hrun
             obtain ⟨hm2, -⟩ := hrun
             subst hm2
             first
             | exact timer_queue_add_wf _ _ session current_time
                 { s0 with state := TIME_WAIT, waiting := 1 }
                 (store_wf m session s0 _ h hs (by simp [record_kept, hst]))
                 (store_heap_same _ _ _) rfl rfl hadd
             | exact timer_queue_free_early_loop_wf _ _ _ m _ h hadd)

/-- Function `session_manager_update` keeps the state well formed. -/
theorem update_wf (fuel : Nat) (m m2 : session_manager_t) (packet : libtrace_packet_t)
    (r : Option Nat) (h : manager_wf m)
    (hrun : session_manager_update fuel m packet = .ok (m2, r)) : manager_wf m2 := by
  induction fuel generalizing m with
  | zero => simp [session_manager_update] at hrun
  | succ fuel ih =>
    rw [session_manager_update] at hrun
    simp only at hrun
    cases hsw : session_manager_update_sweeps fuel m (packet_seconds packet) with
    | error e => simp [hsw] at hrun
    | ok m1 =>
      have hwf1 := sweeps_wf fuel m m1 _ h hsw
      simp only [hsw] at hrun
      cases hip : packet.ip with
      | none =>
        simp only [hip, Except.ok.injEq, Prod.mk.injEq] at hrun
        obtain ⟨hm2, -⟩ := hrun
        subst hm2
        exact hwf1
      | some ip =>
        cases htcp : packet.tcp with
        | none =>
          simp only [hip, htcp, Except.ok.injEq, Prod.mk.injEq] at hrun
          obtain ⟨hm2, -⟩ := hrun
          subst hm2
          exact hwf1
        | some tcp =>
          simp only [hip, htcp] at hrun
          cases hfind : hashtable_retrieve m1.heap m1.hashtable (session_id_of ip tcp) with
          | error e => simp [hfind] at hrun
          | ok found =>
            cases found with
            | none =>
              simp only [hfind] at hrun
              cases hnew : session_manager_update_new m1 ip tcp (session_id_of ip tcp)
                  packet.direction with
              | error e => simp [hnew] at hrun
              | ok mr =>
                obtain ⟨m3, session⟩ := mr
                simp only [hnew] at hrun
                exact deliver_wf m3 m2 packet _ session r
                  (update_new_wf m1 m3 ip tcp _ session hwf1 hfind hnew) hrun
            | some session =>
              simp only [hfind] at hrun
              cases hst : session_manager_update_state m1 (packet_seconds packet)
                  packet.direction ip tcp session with
              | error e => simp [hst] at hrun
              | ok mr =>
                obtain ⟨m3, again⟩ := mr
                have hwf3 := update_state_wf m1 m3 _ _ ip tcp session again hwf1 hst
                cases again with
                | true =>
                  simp only [hst] at hrun
                  exact ih m3 hwf3 hrun
                | false =>
                  simp only [hst] at hrun
                  exact deliver_wf m3 m2 packet _ (some session) r hwf3 hrun

/-- Function `session_manager_register_module` keeps the state well formed. -/
theorem register_wf (m m2 : session_manager_t) (module : session_module_t) (index : Int)
    (h : manager_wf m)
    (hrun : session_manager_register_module m module = .ok (m2, index)) : manager_wf m2 := by
  unfold session_manager_register_module at hrun
  simp only at hrun
  split_ifs at hrun
  all_goals
    simp only [Except.ok.injEq, Prod.mk.injEq] at hrun
    obtain ⟨hm2, -⟩ := hrun
    subst hm2
    exact manager_wf_congr m _ h rfl rfl rfl rfl

/-- The fresh manager is well formed. -/
theorem create_wf : manager_wf session_manager_create := by
  refine ⟨?_, ?_, ?_, ?_, ?_, ?_⟩
  · intro b p hp
    simp [session_manager_create, hashtable_create] at hp
  · intro b
    simp [session_manager_create, hashtable_create]
  · intro p _
    rfl
  · intro i p s hi
    simp [session_manager_create] at hi
  · intro p s hp
    simp [session_manager_create] at hp
  · intro i p hi
    simp [session_manager_create] at hi

/-- Every manager state that the API reaches is well formed. -/
theorem reachable_wf (m : session_manager_t) (h : Reachable m) : manager_wf m := by
  induction h with
  | create => exact create_wf
  | register m module m2 index _ hrun ih => exact register_wf m m2 module index ih hrun
  | update fuel m packet m2 session _ hrun ih => exact update_wf fuel m m2 packet session ih hrun


/-! ### The queue without overflow -/

/-- An operation that only frees records, unlinks the nodes of freed records,
clears the slots of freed records and rewrites records without setting
`waiting` keeps the queue exact. -/
theorem queue_exact_of_shrink (m m2 : session_manager_t) (h : queue_exact m)
    (hlow : m2.waiting_sessions.lower_idx = m.waiting_sessions.lower_idx)
    (hlen : m2.waiting_sessions.length = m.waiting_sessions.length)
    (hslots : ∀ i p, m2.waiting_sessions.sessions i = some p →
      m.waiting_sessions.sessions i = some p)
    (hgone : ∀ i p, m.waiting_sessions.sessions i = some p →
      m2.waiting_sessions.sessions i = some p ∨ m2.heap p = none)
    (hheap : ∀ p s2, m2.heap p = some s2 →
      ∃ s, m.heap p = some s ∧ s2.id = s.id ∧ (s2.waiting = 1 → s.waiting = 1))
    (htable : ∀ b p, p ∈ m.hashtable.arr b → m2.heap p ≠ none → p ∈ m2.hashtable.arr b) :
    queue_exact m2 := by
  refine ⟨?_, ?_, ?_, ?_⟩
  · rw [hlow, hlen]
    exact h.bounds
  · intro i p hi
    rw [hlow, hlen]
    exact h.window i p (hslots i p hi)
  · intro p s2 hp hw
    obtain ⟨s, hs, -, hws⟩ := hheap p s2 hp
    obtain ⟨i, hi⟩ := h.waiting p s hs (hws hw)
    rcases hgone i p hi with h1 | h1
    · exact ⟨i, h1⟩
    · rw [h1] at hp
      cases hp
  · intro p s2 hp
    obtain ⟨s, hs, hid, -⟩ := hheap p s2 hp
    rw [hid]
    exact htable _ p (h.indexed p s hs) (by rw [hp]; simp)

theorem queue_exact_congr (m m2 : session_manager_t) (h : queue_exact m)
    (h1 : m2.hashtable = m.hashtable) (h2 : m2.heap = m.heap)
    (h3 : m2.waiting_sessions = m.waiting_sessions) : queue_exact m2 := by
  refine ⟨?_, ?_, ?_, ?_⟩
  · rw [h3]
    exact h.bounds
  · rw [h3]
    exact h.window
  · rw [h2, h3]
    exact h.waiting
  · rw [h1, h2]
    exact h.indexed

/-- Rewriting a record without changing its ID and without setting `waiting`
keeps the queue exact. -/
theorem store_exact (m : session_manager_t) (p : Nat) (s s2 : tcp_session_t) (h : queue_exact m)
    (hs : m.heap p = some s) (hid : s2.id = s.id) (hw : s2.waiting = 1 → s.waiting = 1) :
    queue_exact (store m p s2) := by
  refine queue_exact_of_shrink m _ h rfl rfl (fun i q hi => hi) (fun i q hi => Or.inl hi) ?_ ?_
  · intro q t2 hq
    by_cases hqp : q = p
    · subst hqp
      simp only [store_heap_same, Option.some.injEq] at hq
      subst hq
      exact ⟨s, hs, hid, hw⟩
    · rw [store_heap_other m p q s2 hqp] at hq
      exact ⟨t2, hq, rfl, fun x => x⟩
  · intro b q hq _
    exact hq

/-- Two live records with the same ID are the same record. -/
theorem same_id_same_record (m : session_manager_t) (hwf : manager_wf m) (h : queue_exact m)
    (p q : Nat) (s t : tcp_session_t) (hp : m.heap p = some s) (hq : m.heap q = some t)
    (hid : s.id = t.id) : p = q := by
  by_contra hne
  have hpi := h.indexed p s hp
  have hqi := h.indexed q t hq
  rw [hid] at hpi
  have hsym : Symmetric (fun p q : Nat =>
      ∀ s t, m.heap p = some s → m.heap q = some t → s.id ≠ t.id) := by
    intro a b hab s1 t1 hs1 ht1 e
    exact hab t1 s1 ht1 hs1 e.symm
  exact (List.Pairwise.forall hsym (hwf.unique _)) hpi hqi hne s t hp hq hid

/-- The chain that `hashtable_remove` leaves has every node of the chain whose
record has another ID. -/
theorem hashtable_remove_chain_keeps (heap : Nat → Option tcp_session_t) (id : tcp_session_id_t)
    (chain rest : List Nat) (found : Option Nat)
    (h : hashtable_remove_chain heap id chain = .ok (rest, found)) :
    ∀ q, q ∈ chain → (∀ t, heap q = some t → t.id ≠ id) → q ∈ rest := by
  induction chain generalizing rest found with
  | nil => intro q hq; exact absurd hq (List.not_mem_nil q)
  | cons entry next ih =>
    rw [hashtable_remove_chain] at h
    cases he : heap entry with
    | none => simp [he] at h
    | some s =>
      simp only [he] at h
      by_cases heq : tcp_session_id_equals id s.id = true
      · simp only [heq, if_true, Except.ok.injEq, Prod.mk.injEq] at h
        obtain ⟨h1, -⟩ := h
        subst h1
        intro q hq hne
        rcases List.mem_cons.mp hq with hq | hq
        · subst hq
          exact absurd ((tcp_session_id_equals_iff _ _).mp heq).symm (hne s he)
        · exact hq
      · simp only [heq, if_false] at h
        cases hr : hashtable_remove_chain heap id next with
        | error e => simp [hr] at h
        | ok r =>
          obtain ⟨rest', found'⟩ := r
          simp only [hr, Bool.false_eq_true, if_false, Except.ok.injEq, Prod.mk.injEq] at h
          obtain ⟨h1, -⟩ := h
          subst h1
          intro q hq hne
          rcases List.mem_cons.mp hq with hq | hq
          · subst hq
            exact List.mem_cons_self _ _
          · exact List.mem_cons_of_mem _ (ih rest' found' hr q hq hne)

/-- What `session_manager_free_session` does to the records, the queue and the
index. -/
theorem free_session_effect (m m2 : session_manager_t) (session : Nat)
    (hfree : session_manager_free_session m session = .ok m2) :
    ∃ s, m.heap session = some s ∧
      m2.heap = (fun q => if q = session then none else m.heap q) ∧
      m2.waiting_sessions = m.waiting_sessions ∧
      (∀ b q, q ∈ m.hashtable.arr b → (∀ t, m.heap q = some t → t.id ≠ s.id) →
        q ∈ m2.hashtable.arr b) := by
  unfold session_manager_free_session at hfree
  cases hs : m.heap session with
  | none => simp [hs] at hfree
  | some s =>
    simp only [hs] at hfree
    cases hd : modules_destroy m.modules s.data m.module_count with
    | error e => simp [hd] at hfree
    | ok calls =>
      simp only [hd] at hfree
      unfold hashtable_remove at hfree
      cases hr : hashtable_remove_chain m.heap s.id (m.hashtable.arr (hashtable_compute_hash s.id))
        with
      | error e => simp [hr] at hfree
      | ok r =>
        obtain ⟨rest, found⟩ := r
        simp only [hr, free, hs, Except.ok.injEq] at hfree
        subst hfree
        refine ⟨s, rfl, rfl, rfl, ?_⟩
        intro b q hq hne
        by_cases hb : b = hashtable_compute_hash s.id
        · subst hb
          simp only [if_true]
          exact hashtable_remove_chain_keeps _ _ _ _ _ hr q hq hne
        · simp only [hb, if_false]
          exact hq

/-- Function `session_manager_free_session` keeps the queue exact. -/
theorem free_session_exact (m m2 : session_manager_t) (session : Nat) (hwf : manager_wf m)
    (h : queue_exact m) (hfree : session_manager_free_session m session = .ok m2) :
    queue_exact m2 := by
  obtain ⟨s, hs, hheap, hq, htab⟩ := free_session_effect m m2 session hfree
  refine queue_exact_of_shrink m m2 h (by rw [hq]) (by rw [hq]) ?_ ?_ ?_ ?_
  · intro i p hi
    rw [hq] at hi
    exact hi
  · intro i p hi
    left
    rw [hq]
    exact hi
  · intro p s2 hp
    rw [hheap] at hp
    by_cases hps : p = session
    · simp [hps] at hp
    · simp only [hps, if_false] at hp
      exact ⟨s2, hp, rfl, fun x => x⟩
  · intro b p hp hlive
    rw [hheap] at hlive
    by_cases hps : p = session
    · simp [hps] at hlive
    · refine htab b p hp ?_
      intro t ht e
      exact hps (same_id_same_record m hwf h p session t s ht hs e)

/-- Taking the head off the queue, once its session is freed, keeps the queue
exact. -/
theorem pop_exact (m m2 : session_manager_t) (h : queue_exact m)
    (hdead : ∀ p, m.waiting_sessions.sessions m.waiting_sessions.lower_idx = some p →
      m.heap p = none)
    (h1 : m2.hashtable = m.hashtable) (h2 : m2.heap = m.heap)
    (hsess : ∀ i, m2.waiting_sessions.sessions i =
      if i = m.waiting_sessions.lower_idx then none else m.waiting_sessions.sessions i)
    (hlow : m2.waiting_sessions.lower_idx =
      if m.waiting_sessions.lower_idx + 1 = SM_TIMER_QUEUE_LENGTH then 0
      else m.waiting_sessions.lower_idx + 1)
    (hlen : m2.waiting_sessions.length = m.waiting_sessions.length - 1) : queue_exact m2 := by
  have hb := h.bounds
  simp only [SM_TIMER_QUEUE_LENGTH] at hb hlow
  refine ⟨?_, ?_, ?_, ?_⟩
  · rw [hlow, hlen]
    simp only [SM_TIMER_QUEUE_LENGTH]
    split_ifs <;> omega
  · intro i p hi
    rw [hsess] at hi
    by_cases hil : i = m.waiting_sessions.lower_idx
    · simp [hil] at hi
    · rw [if_neg hil] at hi
      obtain ⟨k, hk, hik⟩ := h.window i p hi
      simp only [SM_TIMER_QUEUE_LENGTH] at hik
      have hk0 : k ≠ 0 := by
        intro e
        subst e
        apply hil
        rw [hik]
        omega
      refine ⟨k - 1, ?_, ?_⟩
      · rw [hlen]
        omega
      · rw [hlow, hik]
        simp only [SM_TIMER_QUEUE_LENGTH]
        split_ifs <;> omega
  · intro p s hp hw
    rw [h2] at hp
    obtain ⟨i, hi⟩ := h.waiting p s hp hw
    refine ⟨i, ?_⟩
    rw [hsess]
    by_cases hil : i = m.waiting_sessions.lower_idx
    · subst hil
      rw [hdead p hi] at hp
      cases hp
    · rw [if_neg hil]
      exact hi
  · rw [h1, h2]
    exact h.indexed


/-- Clearing slots of the queue keeps the state well formed. -/
theorem manager_wf_slots (m m2 : session_manager_t) (h : manager_wf m)
    (h1 : m2.hashtable = m.hashtable) (h2 : m2.heap = m.heap) (h3 : m2.brk = m.brk)
    (hs : ∀ i p, m2.waiting_sessions.sessions i = some p →
      m.waiting_sessions.sessions i = some p) : manager_wf m2 := by
  refine manager_wf_of_shrink m m2 h h3 ?_ ?_ ?_ hs
  · intro p s2 hp
    rw [h2] at hp
    exact ⟨s2, hp, record_kept_refl m h p s2 hp⟩
  · intro b
    rw [h1]
  · intro b p hp
    rw [h1] at hp
    rw [h2]
    obtain ⟨s, hs, -⟩ := h.alive b p hp
    simp [hs]

/-- The loop of `timer_queue_free` keeps the queue exact. -/
theorem timer_queue_free_loop_exact (current_time rounds : Nat) (m m2 : session_manager_t)
    (hwf : manager_wf m) (h : queue_exact m)
    (hrun : timer_queue_free_loop current_time rounds m = .ok m2) : queue_exact m2 := by
  induction rounds generalizing m with
  | zero =>
    simp only [timer_queue_free_loop] at hrun
    split_ifs at hrun
    simp only [Except.ok.injEq] at hrun
    subst hrun
    exact h
  | succ rounds ih =>
    rw [timer_queue_free_loop] at hrun
    by_cases hlo : m.waiting_sessions.lower_idx ≥ SM_TIMER_QUEUE_LENGTH
    · rw [if_pos hlo] at hrun
      cases hrun
    rw [if_neg hlo] at hrun
    by_cases hc : m.waiting_sessions.times m.waiting_sessions.lower_idx < current_time ∧
        m.waiting_sessions.length ≠ 0
    · rw [if_pos hc] at hrun
      cases hq : m.waiting_sessions.sessions m.waiting_sessions.lower_idx with
        | none =>
          simp only [hq] at hrun
          refine ih _ ?_ ?_ hrun
          · refine manager_wf_slots m _ hwf rfl rfl rfl ?_
            intro i p hi
            simp only at hi
            split_ifs at hi
            exact hi
          · refine pop_exact m _ h ?_ rfl rfl (fun i => rfl) rfl rfl
            intro p hp
            rw [hq] at hp
            cases hp
        | some session =>
          simp only [hq] at hrun
          cases hf : session_manager_free_session m session with
          | error e => simp [hf] at hrun
          | ok m3 =>
            simp only [hf] at hrun
            have hwf3 := free_session_wf m m3 session hwf hf
            have hex3 := free_session_exact m m3 session hwf h hf
            obtain ⟨s, hs, hheap, hq3, -⟩ := free_session_effect m m3 session hf
            refine ih _ ?_ ?_ hrun
            · refine manager_wf_slots m3 _ hwf3 rfl rfl rfl ?_
              intro i p hi
              simp only at hi
              split_ifs at hi
              rw [hq3]
              exact hi
            · refine pop_exact m3 _ hex3 ?_ rfl rfl ?_ ?_ ?_
              · intro p hp
                rw [hq3, hq] at hp
                cases hp
                rw [hheap]
                simp
              · intro i
                rw [hq3]
              · rw [hq3]
              · rw [hq3]
    · rw [if_neg hc] at hrun
      cases hrun
      exact h

/-- The loop of `timer_queue_free_early` keeps the queue exact. -/
theorem timer_queue_free_early_loop_exact (session rounds i : Nat) (m m2 : session_manager_t)
    (hwf : manager_wf m) (h : queue_exact m)
    (hrun : timer_queue_free_early_loop session rounds i m = .ok m2) : queue_exact m2 := by
  induction rounds generalizing i with
  | zero =>
    simp only [timer_queue_free_early_loop, Except.ok.injEq] at hrun
    subst hrun
    exact h
  | succ rounds ih =>
    rw [timer_queue_free_early_loop] at hrun
    generalize hpos : (if (m.waiting_sessions.lower_idx + i) % 4294967296
          ≥ SM_TIMER_QUEUE_LENGTH then
        (m.waiting_sessions.lower_idx + i) % 4294967296 - SM_TIMER_QUEUE_LENGTH
      else (m.waiting_sessions.lower_idx + i) % 4294967296) = pos at hrun
    by_cases hge : pos ≥ SM_TIMER_QUEUE_LENGTH
    · rw [if_pos hge] at hrun
      cases hrun
    · rw [if_neg hge] at hrun
      cases hq : m.waiting_sessions.sessions pos with
      | none =>
        simp only [hq] at hrun
        exact ih _ hrun
      | some queued =>
        simp only [hq] at hrun
        cases hqh : m.heap queued with
        | none => simp [hqh] at hrun
        | some q =>
          cases hsh : m.heap session with
          | none => simp [hqh, hsh] at hrun
          | some s =>
            simp only [hqh, hsh] at hrun
            by_cases heq : tcp_session_id_equals q.id s.id = true
            · rw [if_pos heq] at hrun
              have hsame : queued = session :=
                same_id_same_record m hwf h queued session q s hqh hsh
                  ((tcp_session_id_equals_iff _ _).mp heq)
              obtain ⟨s', hs', hheap, hq2, htab⟩ := free_session_effect _ m2 session hrun
              refine queue_exact_of_shrink m m2 h (by rw [hq2]) (by rw [hq2]) ?_ ?_ ?_ ?_
              · intro j p hj
                rw [hq2] at hj
                simp only at hj
                split_ifs at hj
                exact hj
              · intro j p hj
                by_cases hjp : j = pos
                · right
                  subst hjp
                  rw [hq] at hj
                  cases hj
                  rw [hheap, hsame]
                  simp
                · left
                  rw [hq2]
                  simp only [hjp, if_false]
                  exact hj
              · intro p s2 hp
                rw [hheap] at hp
                by_cases hps : p = session
                · simp [hps] at hp
                · simp only [hps, if_false] at hp
                  exact ⟨s2, hp, rfl, fun x => x⟩
              · intro b p hp hlive
                rw [hheap] at hlive
                by_cases hps : p = session
                · simp [hps] at hlive
                · refine htab b p hp ?_
                  intro t ht e
                  exact hps (same_id_same_record m hwf h p session t s' ht hs' e)
            · rw [if_neg heq] at hrun
              exact ih _ hrun

/-- Function `timer_queue_add`, called on a record that has just had `waiting`
set, keeps the queue exact when the queue is not longer than the array
afterwards. -/
theorem timer_queue_add_exact (m m2 : session_manager_t) (session time : Nat)
    (s s2 : tcp_session_t) (h : queue_exact m) (hs : m.heap session = some s)
    (hid : s2.id = s.id)
    (hadd : timer_queue_add (store m session s2) session time = .ok m2)
    (hlen : m2.waiting_sessions.length ≤ SM_TIMER_QUEUE_LENGTH) : queue_exact m2 := by
  have hb := h.bounds
  have hsum : (store m session s2).waiting_sessions.lower_idx +
      (store m session s2).waiting_sessions.length < 2 * SM_TIMER_QUEUE_LENGTH := by
    show m.waiting_sessions.lower_idx + m.waiting_sessions.length < 2 * SM_TIMER_QUEUE_LENGTH
    omega
  rw [timer_queue_add_ok _ _ _ hsum] at hadd
  simp only [Except.ok.injEq] at hadd
  subst hadd
  simp only [store, SM_TIMER_QUEUE_LENGTH] at hlen hb
  have hlt : m.waiting_sessions.length < 100000 := by omega
  refine ⟨?_, ?_, ?_, ?_⟩
  · simp only [store, SM_TIMER_QUEUE_LENGTH]
    omega
  · intro i p hi
    simp only [store, SM_TIMER_QUEUE_LENGTH] at hi ⊢
    by_cases hip : i = (m.waiting_sessions.lower_idx + m.waiting_sessions.length) % 100000
    · exact ⟨m.waiting_sessions.length, by omega, hip⟩
    · rw [if_neg hip] at hi
      obtain ⟨k, hk, hik⟩ := h.window i p hi
      exact ⟨k, by omega, hik⟩
  · intro p t hp hw
    simp only [store, SM_TIMER_QUEUE_LENGTH] at hp ⊢
    by_cases hps : p = session
    · exact ⟨(m.waiting_sessions.lower_idx + m.waiting_sessions.length) % 100000, by simp [hps]⟩
    · simp only [hps, if_false] at hp
      obtain ⟨i, hi⟩ := h.waiting p t hp hw
      obtain ⟨k, hk, hik⟩ := h.window i p hi
      simp only [SM_TIMER_QUEUE_LENGTH] at hik
      have hne : i ≠ (m.waiting_sessions.lower_idx + m.waiting_sessions.length) % 100000 := by
        omega
      exact ⟨i, by simp only [hne, if_false]; exact hi⟩
  · intro p t hp
    simp only [store] at hp ⊢
    by_cases hps : p = session
    · subst hps
      simp only [if_true, Option.some.injEq] at hp
      subst hp
      rw [hid]
      exact h.indexed p s hs
    · simp only [hps, if_false] at hp
      exact h.indexed p t hp

/-- The allocation of a record without `waiting` set and its insertion into the
index keep the queue exact. -/
theorem alloc_exact (m : session_manager_t) (s : tcp_session_t) (calls : List module_call)
    (h : queue_exact m) (hw : s.waiting = 0) :
    queue_exact { store { m with brk := m.brk + 1, calls := calls } m.brk s with
      hashtable := { arr := fun i =>
        if i = hashtable_compute_hash s.id then
          m.brk :: m.hashtable.arr (hashtable_compute_hash s.id)
        else m.hashtable.arr i } } := by
  refine ⟨h.bounds, h.window, ?_, ?_⟩
  · intro p t hp hwt
    simp only [store] at hp
    by_cases hpb : p = m.brk
    · subst hpb
      simp only [if_true, Option.some.injEq] at hp
      subst hp
      omega
    · simp only [hpb, if_false] at hp
      exact h.waiting p t hp hwt
  · intro p t hp
    simp only [store] at hp ⊢
    by_cases hpb : p = m.brk
    · subst hpb
      simp only [if_true, Option.some.injEq] at hp
      subst hp
      simp
    · simp only [hpb, if_false] at hp
      have hin := h.indexed p t hp
      by_cases hb : hashtable_compute_hash t.id = hashtable_compute_hash s.id
      · rw [hb] at hin ⊢
        simp only [if_true]
        exact List.mem_cons_of_mem _ hin
      · simp only [hb, if_false]
        exact hin

theorem mem_eraseIdx_of_ne (l : List Nat) (k p q : Nat) (rest : List Nat)
    (hd : l.drop k = p :: rest) (hq : q ∈ l) (hne : q ≠ p) : q ∈ l.eraseIdx k := by
  induction l generalizing k with
  | nil => simp at hd
  | cons a l ih =>
    cases k with
    | zero =>
      simp only [List.drop_zero, List.cons.injEq] at hd
      obtain ⟨h1, h2⟩ := hd
      subst h1
      simp only [List.eraseIdx_cons_zero]
      rcases List.mem_cons.mp hq with e | e
      · exact absurd e hne
      · exact e
    | succ k =>
      simp only [List.drop_succ_cons] at hd
      simp only [List.eraseIdx_cons_succ, List.mem_cons]
      rcases List.mem_cons.mp hq with e | e
      · exact Or.inl e
      · exact Or.inr (ih k hd e)

/-- What `session_manager_free_module_data` does to the index, the queue and
the records. -/
theorem free_module_data_effect (m m2 : session_manager_t) (session : Nat)
    (hfree : session_manager_free_module_data m session = .ok m2) :
    m2.hashtable = m.hashtable ∧ m2.waiting_sessions = m.waiting_sessions ∧
    (∀ p, p ≠ session → m2.heap p = m.heap p) := by
  unfold session_manager_free_module_data at hfree
  cases hs : m.heap session with
  | none => simp [hs] at hfree
  | some s =>
    simp only [hs] at hfree
    by_cases hw : s.waiting = 1
    · simp only [hw, if_true, Except.ok.injEq] at hfree
      subst hfree
      exact ⟨rfl, rfl, fun _ _ => rfl⟩
    · simp only [hw, if_false] at hfree
      cases hd : modules_destroy m.modules s.data m.module_count with
      | error e => simp [hd] at hfree
      | ok calls =>
        simp only [hd, Except.ok.injEq] at hfree
        subst hfree
        refine ⟨rfl, rfl, ?_⟩
        intro p hp
        simp [store, hp]

/-- What libc `free` does to the index, the queue and the records. -/
theorem free_effect (m m2 : session_manager_t) (p : Nat) (hfree : free m p = .ok m2) :
    m2.hashtable = m.hashtable ∧ m2.waiting_sessions = m.waiting_sessions ∧
    m2.heap = (fun q => if q = p then none else m.heap q) := by
  unfold free at hfree
  cases hs : m.heap p with
  | none => simp [hs] at hfree
  | some s =>
    simp only [hs, Except.ok.injEq] at hfree
    subst hfree
    exact ⟨rfl, rfl, rfl⟩


/-- The removal of a session by `session_manager_cleanup` keeps the queue
exact. -/
theorem cleanup_remove_exact (m m3 m4 : session_manager_t) (itr : hashtable_iterator_t)
    (session : Nat) (rest : List Nat) (h : queue_exact m)
    (hdrop : (m.hashtable.arr itr.entry_bucket).drop itr.entry_link = session :: rest)
    (hf : session_manager_free_module_data { m with hashtable :=
      { arr := fun i =>
          if i = itr.entry_bucket then
            (m.hashtable.arr itr.entry_bucket).eraseIdx itr.entry_link
          else m.hashtable.arr i } } session = .ok m3)
    (hfr : free m3 session = .ok m4) : queue_exact m4 := by
  obtain ⟨ht3, hq3, hh3⟩ := free_module_data_effect _ m3 session hf
  obtain ⟨ht4, hq4, hh4⟩ := free_effect m3 m4 session hfr
  have hheap : ∀ p s2, m4.heap p = some s2 → p ≠ session ∧ m.heap p = some s2 := by
    intro p s2 hp
    rw [hh4] at hp
    by_cases hps : p = session
    · simp [hps] at hp
    · simp only [hps, if_false] at hp
      rw [hh3 p hps] at hp
      exact ⟨hps, hp⟩
  refine queue_exact_of_shrink m m4 h (by rw [hq4, hq3]) (by rw [hq4, hq3]) ?_ ?_ ?_ ?_
  · intro i p hi
    rw [hq4, hq3] at hi
    exact hi
  · intro i p hi
    left
    rw [hq4, hq3]
    exact hi
  · intro p s2 hp
    exact ⟨s2, (hheap p s2 hp).2, rfl, fun x => x⟩
  · intro b p hp hlive
    obtain ⟨s2, hs2⟩ := Option.ne_none_iff_exists'.mp hlive
    have hps := (hheap p s2 hs2).1
    rw [ht4, ht3]
    by_cases hb : b = itr.entry_bucket
    · subst hb
      simp only [if_true]
      exact mem_eraseIdx_of_ne _ _ _ _ _ hdrop hp hps
    · simp only [hb, if_false]
      exact hp

/-- The loop of `session_manager_cleanup` keeps the queue exact. -/
theorem cleanup_loop_exact (last_access fuel : Nat) (m m2 : session_manager_t)
    (itr : hashtable_iterator_t) (hwf : manager_wf m) (h : queue_exact m)
    (hrun : session_manager_cleanup_loop last_access fuel m itr = .ok m2) : queue_exact m2 := by
  induction fuel generalizing m itr with
  | zero => simp [session_manager_cleanup_loop] at hrun
  | succ fuel ih =>
    rw [session_manager_cleanup_loop] at hrun
    cases hn : hashtable_iterator_next m.hashtable itr with
    | error e => simp [hn] at hrun
    | ok r =>
      obtain ⟨itr2, found⟩ := r
      cases found with
      | none =>
        simp only [hn, Except.ok.injEq] at hrun
        subst hrun
        exact h
      | some session =>
        simp only [hn] at hrun
        cases hs : m.heap session with
        | none => simp [hs] at hrun
        | some s =>
          simp only [hs] at hrun
          by_cases hc : (s.state = SYN_RCVD ∨ s.state = SYN_SENT) ∧
              (last_access + 256 - s.last_access % 256) % 256 > SM_TCP_SYN_TIMEOUT
          · simp only [hc.1, hc.2, if_true] at hrun
            obtain ⟨rest, hdrop⟩ := hashtable_iterator_next_some _ _ _ _ hn
            simp only [hashtable_iterator_remove, hdrop] at hrun
            cases hf : session_manager_free_module_data { m with hashtable :=
                { arr := fun i =>
                    if i = itr2.entry_bucket then
                      (m.hashtable.arr itr2.entry_bucket).eraseIdx itr2.entry_link
                    else m.hashtable.arr i } } session with
            | error e => simp [hf] at hrun
            | ok m3 =>
              simp only [hf] at hrun
              cases hfr : free m3 session with
              | error e => simp [hfr] at hrun
              | ok m4 =>
                simp only [hfr] at hrun
                exact ih m4 itr2 (cleanup_remove_wf m m3 m4 itr2 session rest hwf hdrop hf hfr)
                  (cleanup_remove_exact m m3 m4 itr2 session rest h hdrop hf hfr) hrun
          · have hrun2 : session_manager_cleanup_loop last_access fuel m itr2 = .ok m2 := by
              by_cases h1 : s.state = SYN_RCVD ∨ s.state = SYN_SENT
              · have h2 : ¬ (last_access + 256 - s.last_access % 256) % 256
                    > SM_TCP_SYN_TIMEOUT := fun x => hc ⟨h1, x⟩
                simpa only [h1, h2, if_true, if_false] using hrun
              · simpa only [h1, if_false] using hrun
            exact ih m itr2 hwf h hrun2

/-- The sweeps at the start of `session_manager_update` keep the queue exact. -/
theorem sweeps_exact (fuel : Nat) (m m2 : session_manager_t) (current_time : Nat)
    (hwf : manager_wf m) (h : queue_exact m)
    (hrun : session_manager_update_sweeps fuel m current_time = .ok m2) : queue_exact m2 := by
  unfold session_manager_update_sweeps at hrun
  simp only at hrun
  have step1 : ∀ r : Except fault session_manager_t,
      r = (if current_time ≠ m.last_access then
            timer_queue_free { m with last_access := current_time } current_time
          else .ok m) →
      ∀ m1, r = .ok m1 → manager_wf m1 ∧ queue_exact m1 := by
    intro r hr m1 hm1
    rw [hr] at hm1
    split_ifs at hm1
    · unfold timer_queue_free at hm1
      have hwf0 := manager_wf_congr m { m with last_access := current_time } hwf rfl rfl rfl rfl
      have hex0 := queue_exact_congr m { m with last_access := current_time } h rfl rfl rfl
      exact ⟨timer_queue_free_loop_wf _ _ _ m1 hwf0 hm1,
        timer_queue_free_loop_exact _ _ _ m1 hwf0 hex0 hm1⟩
    · cases hm1
      exact ⟨hwf, h⟩
  cases h1 : (if current_time ≠ m.last_access then
      timer_queue_free { m with last_access := current_time } current_time
    else Except.ok m) with
  | error e => simp [h1] at hrun
  | ok m1 =>
    obtain ⟨hwf1, hex1⟩ := step1 _ rfl m1 h1
    simp only [h1] at hrun
    have step2 : ∀ r : Except fault session_manager_t,
        r = (match m1.closed_session with
          | none => .ok m1
          | some closed =>
            match m1.heap closed with
            | none => .error fault.undefined_behaviour
            | some c =>
              if c.waiting = 0 then
                match session_manager_free_session m1 closed with
                | .error e => .error e
                | .ok manager => .ok { manager with closed_session := none }
              else .ok { m1 with closed_session := none }) →
        ∀ m3, r = .ok m3 → manager_wf m3 ∧ queue_exact m3 := by
      intro r hr m3 hm3
      rw [hr] at hm3
      split at hm3
      · cases hm3
        exact ⟨hwf1, hex1⟩
      · split at hm3
        · cases hm3
        · split_ifs at hm3
          · split at hm3
            · cases hm3
            · rename_i m4 hf
              cases hm3
              exact ⟨manager_wf_congr m4 _ (free_session_wf m1 m4 _ hwf1 hf) rfl rfl rfl rfl,
                queue_exact_congr m4 _ (free_session_exact m1 m4 _ hwf1 hex1 hf) rfl rfl rfl⟩
          · cases hm3
            exact ⟨manager_wf_congr m1 _ hwf1 rfl rfl rfl rfl,
              queue_exact_congr m1 _ hex1 rfl rfl rfl⟩
    split at hrun
    · cases hrun
    · rename_i m3 h3
      obtain ⟨hwf3, hex3⟩ := step2 _ rfl m3 h3
      split_ifs at hrun
      · unfold session_manager_cleanup at hrun
        exact cleanup_loop_exact _ _ _ m2 _
          (manager_wf_congr m3 { m3 with last_clean := current_time } hwf3 rfl rfl rfl rfl)
          (queue_exact_congr m3 { m3 with last_clean := current_time } hex3 rfl rfl rfl) hrun
      · cases hrun
        exact hex3

/-- The creation of a flow keeps the queue exact. -/
theorem update_new_exact (m m2 : session_manager_t) (ip : libtrace_ip) (tcp : libtrace_tcp)
    (id : tcp_session_id_t) (direction : Int) (r : Option Nat) (h : queue_exact m)
    (hrun : session_manager_update_new m ip tcp id direction = .ok (m2, r)) :
    queue_exact m2 := by
  unfold session_manager_update_new at hrun
  by_cases hb : (tcp.syn && !tcp.ack) = true
  · rw [if_pos hb] at hrun
    simp only at hrun
    cases hc : modules_create m.modules m.brk m.module_count with
    | error e => simp [hc] at hrun
    | ok dc =>
      obtain ⟨data, calls⟩ := dc
      simp only [hc, hashtable_insert, store_heap_same, Except.ok.injEq, Prod.mk.injEq] at hrun
      obtain ⟨hm2, -⟩ := hrun
      subst hm2
      exact alloc_exact m
        { id := id
          state := if direction = SM_OUTBOUND then SYN_SENT else SYN_RCVD
          expected_ack := if direction = SM_OUTBOUND then seq_plus_payload ip tcp
            else 4294967295
          waiting := 0, last_access := 0, data := data } (m.calls ++ calls) h rfl
  · rw [if_neg hb] at hrun
    simp only [Except.ok.injEq, Prod.mk.injEq] at hrun
    obtain ⟨hm2, -⟩ := hrun
    subst hm2
    exact h

/-- The delivery to the modules does not touch the TIME_WAIT queue. -/
theorem deliver_queue (m m2 : session_manager_t) (packet : libtrace_packet_t) (t : Nat)
    (session r : Option Nat)
    (hrun : session_manager_update_deliver m packet t session = .ok (m2, r)) :
    m2.waiting_sessions = m.waiting_sessions := by
  unfold session_manager_update_deliver at hrun
  cases session with
  | none =>
    cases hrun
    rfl
  | some p =>
    simp only at hrun
    cases hs : m.heap p with
    | none => simp [hs] at hrun
    | some s =>
      simp only [hs] at hrun
      cases hu : modules_update m.modules s.data packet m.module_count with
      | error e => simp [hu] at hrun
      | ok calls =>
        simp only [hu, Except.ok.injEq, Prod.mk.injEq] at hrun
        obtain ⟨hm2, -⟩ := hrun
        subst hm2
        rfl

/-- The delivery to the modules keeps the queue exact. -/
theorem deliver_exact (m m2 : session_manager_t) (packet : libtrace_packet_t) (t : Nat)
    (session r : Option Nat) (h : queue_exact m)
    (hrun : session_manager_update_deliver m packet t session = .ok (m2, r)) :
    queue_exact m2 := by
  unfold session_manager_update_deliver at hrun
  cases session with
  | none =>
    cases hrun
    exact h
  | some p =>
    simp only at hrun
    cases hs : m.heap p with
    | none => simp [hs] at hrun
    | some s =>
      simp only [hs] at hrun
      cases hu : modules_update m.modules s.data packet m.module_count with
      | error e => simp [hu] at hrun
      | ok calls =>
        simp only [hu, Except.ok.injEq, Prod.mk.injEq] at hrun
        obtain ⟨hm2, -⟩ := hrun
        subst hm2
        exact queue_exact_congr _ _
          (store_exact m p s { s with last_access := t % 256 } h hs rfl (fun x => x))
          rfl rfl rfl

/-- The RST test and the switch over the state keep the queue exact when the
queue is not longer than the array afterwards. -/
theorem update_state_exact (m m2 : session_manager_t) (current_time : Nat) (direction : Int)
    (ip : libtrace_ip) (tcp : libtrace_tcp) (session : Nat) (again : Bool) (hwf : manager_wf m)
    (h : queue_exact m)
    (hrun : session_manager_update_state m current_time direction ip tcp session
      = .ok (m2, again))
    (hlen : again = false → m2.waiting_sessions.length ≤ SM_TIMER_QUEUE_LENGTH) :
    queue_exact m2 := by
  unfold session_manager_update_state at hrun
  cases hs : m.heap session with
  | none => simp [hs] at hrun
  | some s0 =>
    simp only [hs] at hrun
    by_cases hrst : tcp.rst = true
    · simp only [hrst, if_true, Except.ok.injEq, Prod.mk.injEq] at hrun
      obtain ⟨hm2, -⟩ := hrun
      subst hm2
      exact queue_exact_congr _ _
        (store_exact m session s0 { s0 with state := RESET } h hs rfl (fun x => x)) rfl rfl rfl
    · have hrst2 : tcp.rst = false := by simpa using hrst
      simp only [hrst2, Bool.false_eq_true, if_false] at hrun
      cases hst : s0.state <;> simp only [hst] at hrun
      all_goals
        try split_ifs at hrun
      all_goals
        first
        | (simp only [Except.ok.injEq, Prod.mk.injEq] at hrun
           obtain ⟨hm2, -⟩ := hrun
           subst hm2
           first
           | exact h
           | exact store_exact m session s0 _ h hs (by rfl) (by exact fun x => x)
           | exact queue_exact_congr _ _
               (store_exact m session s0 _ h hs (by rfl) (by exact fun x => x)) rfl rfl rfl)
        | (split at hrun
           · cases hrun
           · rename_i m3 hadd
             simp only [Except.ok.injEq, Prod.mk.injEq] at hrun
             obtain ⟨hm2, hag⟩ := hrun
             subst hm2
             first
             | exact timer_queue_add_exact m _ session current_time s0 _ h hs (by rfl) hadd
                 (hlen hag.symm)
             | exact timer_queue_free_early_loop_exact _ _ _ m _ hwf h hadd)

/-- Function `session_manager_update` keeps the queue exact when the queue is
not longer than the array at its return. -/
theorem update_exact (fuel : Nat) (m m2 : session_manager_t) (packet : libtrace_packet_t)
    (r : Option Nat) (hwf : manager_wf m) (h : queue_exact m)
    (hrun : session_manager_update fuel m packet = .ok (m2, r))
    (hlen : m2.waiting_sessions.length ≤ SM_TIMER_QUEUE_LENGTH) : queue_exact m2 := by
  induction fuel generalizing m with
  | zero => simp [session_manager_update] at hrun
  | succ fuel ih =>
    rw [session_manager_update] at hrun
    simp only at hrun
    cases hsw : session_manager_update_sweeps fuel m (packet_seconds packet) with
    | error e => simp [hsw] at hrun
    | ok m1 =>
      have hwf1 := sweeps_wf fuel m m1 _ hwf hsw
      have hex1 := sweeps_exact fuel m m1 _ hwf h hsw
      simp only [hsw] at hrun
      cases hip : packet.ip with
      | none =>
        simp only [hip, Except.ok.injEq, Prod.mk.injEq] at hrun
        obtain ⟨hm2, -⟩ := hrun
        subst hm2
        exact hex1
      | some ip =>
        cases htcp : packet.tcp with
        | none =>
          simp only [hip, htcp, Except.ok.injEq, Prod.mk.injEq] at hrun
          obtain ⟨hm2, -⟩ := hrun
          subst hm2
          exact hex1
        | some tcp =>
          simp only [hip, htcp] at hrun
          cases hfind : hashtable_retrieve m1.heap m1.hashtable (session_id_of ip tcp) with
          | error e => simp [hfind] at hrun
          | ok found =>
            cases found with
            | none =>
              simp only [hfind] at hrun
              cases hnew : session_manager_update_new m1 ip tcp (session_id_of ip tcp)
                  packet.direction with
              | error e => simp [hnew] at hrun
              | ok mr =>
                obtain ⟨m3, session⟩ := mr
                simp only [hnew] at hrun
                exact deliver_exact m3 m2 packet _ session r
                  (update_new_exact m1 m3 ip tcp _ _ session hex1 hnew) hrun
            | some session =>
              simp only [hfind] at hrun
              cases hst : session_manager_update_state m1 (packet_seconds packet)
                  packet.direction ip tcp session with
              | error e => simp [hst] at hrun
              | ok mr =>
                obtain ⟨m3, again⟩ := mr
                have hwf3 := update_state_wf m1 m3 _ _ ip tcp session again hwf1 hst
                cases again with
                | true =>
                  simp only [hst] at hrun
                  have hex3 : queue_exact m3 :=
                    update_state_exact m1 m3 _ _ ip tcp session true hwf1 hex1 hst
                      (fun e => Bool.noConfusion e)
                  exact ih m3 hwf3 hex3 hrun
                | false =>
                  simp only [hst] at hrun
                  have hq := deliver_queue m3 m2 packet _ (some session) r hrun
                  have hex3 : queue_exact m3 :=
                    update_state_exact m1 m3 _ _ ip tcp session false hwf1 hex1 hst
                      (fun _ => hq ▸ hlen)
                  exact deliver_exact m3 m2 packet _ (some session) r hex3 hrun

/-- Function `session_manager_register_module` keeps the queue exact. -/
theorem register_exact (m m2 : session_manager_t) (module : session_module_t) (index : Int)
    (h : queue_exact m)
    (hrun : session_manager_register_module m module = .ok (m2, index)) : queue_exact m2 := by
  unfold session_manager_register_module at hrun
  simp only at hrun
  split_ifs at hrun
  all_goals
    simp only [Except.ok.injEq, Prod.mk.injEq] at hrun
    obtain ⟨hm2, -⟩ := hrun
    subst hm2
    exact queue_exact_congr m _ h rfl rfl rfl

/-- The queue of the fresh manager is exact. -/
theorem create_exact : queue_exact session_manager_create := by
  refine ⟨?_, ?_, ?_, ?_⟩
  · simp [session_manager_create, SM_TIMER_QUEUE_LENGTH]
  · intro i p hi
    simp [session_manager_create] at hi
  · intro p s hp
    simp [session_manager_create] at hp
  · intro p s hp
    simp [session_manager_create] at hp

theorem reachable_of_no_overflow (m : session_manager_t) (h : ReachableNoOverflow m) :
    Reachable m := by
  induction h with
  | create => exact Reachable.create
  | register m module m2 index _ hrun ih => exact Reachable.register m module m2 index ih hrun
  | update fuel m packet m2 session _ hrun _ ih =>
    exact Reachable.update fuel m packet m2 session ih hrun

/-- The queue is exact in every manager state that the API reaches without an
overflow of the queue. -/
theorem reachable_exact (m : session_manager_t) (h : ReachableNoOverflow m) :
    queue_exact m := by
  induction h with
  | create => exact create_exact
  | register m module m2 index _ hrun ih => exact register_exact m m2 module index ih hrun
  | update fuel m packet m2 session hm hrun hlen ih =>
    exact update_exact fuel m m2 packet session
      (reachable_wf m (reachable_of_no_overflow m hm)) ih hrun hlen

/-! ### Reachable states -/

theorem run_reachable (fuel : Nat) (m final : session_manager_t)
    (packets : List libtrace_packet_t) (states : List (Option tcp_conn_state_t))
    (h : Reachable m) (hrun : session_manager_run fuel m packets = .ok (final, states)) :
    Reachable final := by
  induction packets generalizing m states with
  | nil =>
    simp only [session_manager_run, Except.ok.injEq, Prod.mk.injEq] at hrun
    obtain ⟨h1, -⟩ := hrun
    subst h1
    exact h
  | cons packet rest ih =>
    rw [session_manager_run] at hrun
    cases hu : session_manager_update fuel m packet with
    | error e => simp [hu] at hrun
    | ok r =>
      obtain ⟨m1, session⟩ := r
      simp only [hu] at hrun
      cases hr : session_manager_run fuel m1 rest with
      | error e => simp [hr] at hrun
      | ok r2 =>
        obtain ⟨m2, l⟩ := r2
        simp only [hr, Except.ok.injEq, Prod.mk.injEq] at hrun
        obtain ⟨h1, -⟩ := hrun
        subst h1
        exact ih m1 l (Reachable.update fuel m packet m1 session h hu) hr

theorem manager_after_reachable (fuel : Nat) (m : session_manager_t)
    (packets : List libtrace_packet_t) (h : Reachable m) :
    Reachable (manager_after fuel m packets) := by
  unfold manager_after
  cases hr : session_manager_run fuel m packets with
  | error e => exact Reachable.create
  | ok r =>
    obtain ⟨final, states⟩ := r
    exact run_reachable fuel m final packets states h hr

theorem manager_after_cons (fuel : Nat) (m m1 : session_manager_t) (packet : libtrace_packet_t)
    (rest : List libtrace_packet_t) (session : Option Nat)
    (hu : session_manager_update fuel m packet = .ok (m1, session)) :
    manager_after fuel m (packet :: rest) = manager_after fuel m1 rest := by
  unfold manager_after
  rw [session_manager_run]
  simp only [hu]
  cases session_manager_run fuel m1 rest <;> rfl

/-- A run that stays within the capacity of the TIME_WAIT queue ends in a state
reached without overflow. -/
theorem run_no_overflow (fuel : Nat) (m : session_manager_t) (packets : List libtrace_packet_t)
    (h : ReachableNoOverflow m) (hw : run_within fuel m packets = true) :
    ReachableNoOverflow (manager_after fuel m packets) := by
  induction packets generalizing m with
  | nil => exact h
  | cons packet rest ih =>
    rw [run_within] at hw
    cases hu : session_manager_update fuel m packet with
    | error e => simp [hu] at hw
    | ok r =>
      obtain ⟨m1, session⟩ := r
      simp only [hu, Bool.and_eq_true, decide_eq_true_eq] at hw
      rw [manager_after_cons fuel m m1 packet rest session hu]
      exact ih m1 (ReachableNoOverflow.update fuel m packet m1 session h hu hw.1) hw.2

theorem manager_with_modules_reachable (modules : List session_module_t) :
    Reachable (manager_with_modules modules) := by
  unfold manager_with_modules
  have key : ∀ (l : List session_module_t) (m : session_manager_t), Reachable m →
      Reachable (l.foldl
        (fun manager module =>
          match session_manager_register_module manager module with
          | .ok (manager, _) => manager
          | .error _ => manager) m) := by
    intro l
    induction l with
    | nil => intro m hm; exact hm
    | cons d l ih =>
      intro m hm
      simp only [List.foldl_cons]
      apply ih
      cases hr : session_manager_register_module m d with
      | error e => exact hm
      | ok r =>
        obtain ⟨m2, index⟩ := r
        exact Reachable.register m d m2 index hm hr
  exact key modules _ Reachable.create

/-- C6. In every manager state reachable from `session_manager_create` through
calls of `session_manager_register_module` and `session_manager_update`, every
node of the index points to a live record, and two nodes whose records have
component-wise equal IDs are the same node: the same bucket and the same place
in its chain. -/
theorem flow_index_unique (m : session_manager_t) (h : Reachable m)
    (b1 i1 b2 i2 p1 p2 : Nat)
    (h1 : (m.hashtable.arr b1).get? i1 = some p1)
    (h2 : (m.hashtable.arr b2).get? i2 = some p2) :
    ∃ s1 s2, m.heap p1 = some s1 ∧ m.heap p2 = some s2 ∧
      (tcp_session_id_equals s1.id s2.id = true → b1 = b2 ∧ i1 = i2) := by
  have hwf := reachable_wf m h
  obtain ⟨s1, hs1, hb1⟩ := hwf.alive b1 p1 (List.get?_mem h1)
  obtain ⟨s2, hs2, hb2⟩ := hwf.alive b2 p2 (List.get?_mem h2)
  refine ⟨s1, s2, hs1, hs2, ?_⟩
  intro heq
  have hid : s1.id = s2.id := (tcp_session_id_equals_iff _ _).mp heq
  have hb : b1 = b2 := by rw [← hb1, ← hb2, hid]
  subst hb
  refine ⟨rfl, ?_⟩
  have hpw := List.pairwise_iff_getElem.mp (hwf.unique b1)
  rw [List.get?_eq_getElem?] at h1 h2
  obtain ⟨hl1, he1⟩ := List.getElem?_eq_some.mp h1
  obtain ⟨hl2, he2⟩ := List.getElem?_eq_some.mp h2
  rcases Nat.lt_trichotomy i1 i2 with hlt | heq2 | hgt
  · exact absurd hid (hpw i1 i2 hl1 hl2 hlt s1 s2 (he1 ▸ hs1) (he2 ▸ hs2))
  · exact heq2
  · exact absurd hid.symm (hpw i2 i1 hl2 hl1 hgt s2 s1 (he2 ▸ hs2) (he1 ▸ hs1))

/-- C6, witness: the manager after scenario 1 followed by the SYN of a second
connection is reachable, and there the two records of the index are those at
addresses 0 and 1. -/
theorem flow_index_unique_witness :
    Reachable (manager_after 1 session_manager_create
      (scenario1 ++ [tcp_packet 3435973836 0 3 4 30 40 7000 0 0 false true false false])) ∧
    ∃ s1 s2,
      (manager_after 1 session_manager_create
        (scenario1 ++ [tcp_packet 3435973836 0 3 4 30 40 7000 0 0 false true false false])).heap 0
        = some s1 ∧
      (manager_after 1 session_manager_create
        (scenario1 ++ [tcp_packet 3435973836 0 3 4 30 40 7000 0 0 false true false false])).heap 1
        = some s2 ∧
      (tcp_session_id_equals s1.id s2.id = true → (20 : Nat) = 16 ∧ (0 : Nat) = 0) :=
  ⟨manager_after_reachable 1 _ _ Reachable.create,
   flow_index_unique _ (manager_after_reachable 1 _ _ Reachable.create) 20 0 16 0 0 1
     (by decide) (by decide)⟩

/-- C10, as the code has it. In every manager state reachable from
`session_manager_create` through calls of `session_manager_register_module`
and `session_manager_update`, a record that occupies a slot of the TIME_WAIT
queue has its `waiting` flag set and is in state TIME_WAIT or RESET, and every
record in state TIME_WAIT has its `waiting` flag set; and when the queue has
held at most `SM_TIMER_QUEUE_LENGTH` sessions at the return of every call so
far, every record with its `waiting` flag set occupies a slot of the queue. -/
theorem queued_flows_wait (m : session_manager_t) (h : Reachable m) :
    (∀ i p s, m.waiting_sessions.sessions i = some p → m.heap p = some s →
      s.waiting = 1 ∧ (s.state = TIME_WAIT ∨ s.state = RESET)) ∧
    (∀ p s, m.heap p = some s → s.state = TIME_WAIT → s.waiting = 1) ∧
    (ReachableNoOverflow m → ∀ p s, m.heap p = some s → s.waiting = 1 →
      ∃ i, m.waiting_sessions.sessions i = some p) :=
  ⟨(reachable_wf m h).queued, (reachable_wf m h).time_wait,
    fun hn => (reachable_exact m hn).waiting⟩

/-- C10, witness: the manager after scenario 1 is reached without overflow of
the queue; there the record at address 0 is in slot 0 of the queue, in state
TIME_WAIT with `waiting` set. -/
theorem queued_flows_wait_witness :
    Reachable (manager_after 1 session_manager_create scenario1) ∧
    ReachableNoOverflow (manager_after 1 session_manager_create scenario1) ∧
    (manager_after 1 session_manager_create scenario1).waiting_sessions.sessions 0 = some 0 ∧
    ∃ s, (manager_after 1 session_manager_create scenario1).heap 0 = some s ∧
      (s.waiting = 1 ∧ (s.state = TIME_WAIT ∨ s.state = RESET)) ∧
      ∃ i, (manager_after 1 session_manager_create scenario1).waiting_sessions.sessions i
        = some 0 := by
  have hr : Reachable (manager_after 1 session_manager_create scenario1) :=
    manager_after_reachable 1 _ _ Reachable.create
  have hn : ReachableNoOverflow (manager_after 1 session_manager_create scenario1) :=
    run_no_overflow 1 _ _ ReachableNoOverflow.create (by decide)
  have hslot : (manager_after 1 session_manager_create scenario1).waiting_sessions.sessions 0
      = some 0 := by decide
  obtain ⟨s, hs⟩ : ∃ s, (manager_after 1 session_manager_create scenario1).heap 0 = some s :=
    Option.isSome_iff_exists.mp (by decide)
  have hq := queued_flows_wait _ hr
  have hw := hq.1 0 0 s hslot hs
  exact ⟨hr, hn, hslot, s, hs, hw, hq.2.2 hn 0 s hs hw.1⟩

/-- C10, counterexample: after scenario 1 an RST arrives on the flow, which is
in TIME_WAIT and in slot 0 of the queue. In the state reached the record is
still in slot 0, and it is in state RESET, not TIME_WAIT. -/
theorem queued_flow_reset :
    Reachable (manager_after 1 session_manager_create
      (scenario1 ++ [tcp_packet 3435973836 1 2 1 20 10 5002 0 0 false false true false])) ∧
    (manager_after 1 session_manager_create
      (scenario1 ++ [tcp_packet 3435973836 1 2 1 20 10 5002 0 0 false false true false])
      ).waiting_sessions.sessions 0 = some 0 ∧
    ((manager_after 1 session_manager_create
      (scenario1 ++ [tcp_packet 3435973836 1 2 1 20 10 5002 0 0 false false true false])
      ).heap 0).map (fun s => (s.state, s.waiting)) = some (RESET, 1) ∧
    ¬ (∀ i p s,
      (manager_after 1 session_manager_create
        (scenario1 ++ [tcp_packet 3435973836 1 2 1 20 10 5002 0 0 false false true false])
        ).waiting_sessions.sessions i = some p →
      (manager_after 1 session_manager_create
        (scenario1 ++ [tcp_packet 3435973836 1 2 1 20 10 5002 0 0 false false true false])
        ).heap p = some s →
      (s.state = TIME_WAIT ∧ s.waiting = 1)) := by
  have hslot : (manager_after 1 session_manager_create
      (scenario1 ++ [tcp_packet 3435973836 1 2 1 20 10 5002 0 0 false false true false])
      ).waiting_sessions.sessions 0 = some 0 := by decide
  have hst : ((manager_after 1 session_manager_create
      (scenario1 ++ [tcp_packet 3435973836 1 2 1 20 10 5002 0 0 false false true false])
      ).heap 0).map (fun s => (s.state, s.waiting)) = some (RESET, 1) := by decide
  refine ⟨manager_after_reachable 1 _ _ Reachable.create, hslot, hst, ?_⟩
  intro hall
  cases hs : (manager_after 1 session_manager_create
      (scenario1 ++ [tcp_packet 3435973836 1 2 1 20 10 5002 0 0 false false true false])
      ).heap 0 with
  | none => simp [hs] at hst
  | some s =>
    have h1 := (hall 0 0 s hslot hs).1
    simp only [hs, Option.map_some', Option.some.injEq, Prod.mk.injEq] at hst
    rw [hst.1] at h1
    cases h1


/-! ### Scenario 1 -/

theorem ntohs_htons (x : Nat) (h : x < 65536) : ntohs (htons x) = x := by
  unfold htons ntohs
  have h1 : (x % 256 * 256 + x / 256 % 256) / 256 = x % 256 := by omega
  have h2 : (x % 256 * 256 + x / 256 % 256) % 256 = x / 256 % 256 := by omega
  rw [h1, h2]
  omega

theorem ntohl_bytes (b0 b1 b2 b3 : Nat) (h0 : b0 < 256) (h1 : b1 < 256) (h2 : b2 < 256)
    (h3 : b3 < 256) :
    ntohl (b0 * 16777216 + b1 * 65536 + b2 * 256 + b3)
      = b3 * 16777216 + b2 * 65536 + b1 * 256 + b0 := by
  unfold ntohl
  have e1 : (b0 * 16777216 + b1 * 65536 + b2 * 256 + b3) % 256 = b3 := by omega
  have e2 : (b0 * 16777216 + b1 * 65536 + b2 * 256 + b3) / 256 % 256 = b2 := by omega
  have e3 : (b0 * 16777216 + b1 * 65536 + b2 * 256 + b3) / 65536 % 256 = b1 := by omega
  have e4 : (b0 * 16777216 + b1 * 65536 + b2 * 256 + b3) / 16777216 % 256 = b0 := by omega
  rw [e1, e2, e3, e4]

theorem ntohl_htonl (x : Nat) (h : x < 4294967296) : ntohl (htonl x) = x := by
  have e : htonl x = (x % 256) * 16777216 + (x / 256 % 256) * 65536 + (x / 65536 % 256) * 256
      + (x / 16777216) % 256 := rfl
  rw [e, ntohl_bytes _ _ _ _ (Nat.mod_lt _ (by norm_num)) (Nat.mod_lt _ (by norm_num))
    (Nat.mod_lt _ (by norm_num)) (Nat.mod_lt _ (by norm_num))]
  have d1 : x / 65536 = x / 256 / 256 := by rw [Nat.div_div_eq_div_mul]
  have d2 : x / 16777216 = x / 256 / 256 / 256 := by
    rw [Nat.div_div_eq_div_mul, Nat.div_div_eq_div_mul]
  rw [d1, d2]
  omega

theorem seq_plus_payload_tcp_packet (seq payload : Nat) (src dst sport dport ack : Nat)
    (fin syn rst ackf : Bool) (hseq : seq + payload < 4294967296) (hp : 40 + payload < 65536) :
    seq_plus_payload { ip_hl := 5, ip_len := htons (40 + payload), ip_src := src, ip_dst := dst }
      { source := sport, dest := dport, seq := htonl seq, ack_seq := ack, doff := 5,
        fin := fin, syn := syn, rst := rst, ack := ackf } = seq + payload := by
  unfold seq_plus_payload
  simp only
  rw [ntohl_htonl seq (by omega), ntohs_htons (40 + payload) hp]
  omega

theorem sweeps_noop (fuel : Nat) (m : session_manager_t) (T : Nat) (h1 : m.last_access = T)
    (h2 : m.closed_session = none)
    (h3 : (T + 4294967296 - m.last_clean) % 4294967296 ≤ 60) :
    session_manager_update_sweeps fuel m T = .ok m := by
  have h4 : ¬ ((T + 4294967296 - m.last_clean) % 4294967296 > SM_TCP_SYN_TIMEOUT) := by
    simp only [SM_TCP_SYN_TIMEOUT]
    omega
  simp [session_manager_update_sweeps, h1, h2, h4]

theorem hashtable_iterator_scan_empty (left pos : Nat) (h : left + pos = ARRAY_SIZE)
    (hl : 0 < left) : hashtable_iterator_scan hashtable_create left pos = .ok none := by
  induction left generalizing pos with
  | zero => exact absurd hl (Nat.lt_irrefl 0)
  | succ left ih =>
    rw [hashtable_iterator_scan]
    by_cases hp : pos + 1 = ARRAY_SIZE
    · simp [hp]
    · have hl2 : 0 < left := by
        rcases Nat.eq_zero_or_pos left with h0 | h0
        · subst h0
          omega
        · exact h0
      simp only [hp, if_false, hashtable_create, if_true]
      exact ih (pos + 1) (by omega) hl2

theorem hashtable_iterator_next_none (ht : hashtable_t) (itr : hashtable_iterator_t)
    (hdrop : (ht.arr itr.entry_bucket).drop itr.entry_link = [])
    (hscan : hashtable_iterator_scan ht (ARRAY_SIZE - itr.array_position) itr.array_position
      = .ok none) :
    hashtable_iterator_next ht itr = .ok ({ itr with array_position := ARRAY_SIZE }, none) := by
  unfold hashtable_iterator_next
  rw [hscan, hdrop]

theorem cleanup_empty (fuel : Nat) (m : session_manager_t)
    (h : m.hashtable = hashtable_create) : session_manager_cleanup (fuel + 1) m = .ok m := by
  have hscan : hashtable_iterator_scan hashtable_create
      (ARRAY_SIZE - hashtable_iterator_create.array_position)
      hashtable_iterator_create.array_position = .ok none :=
    hashtable_iterator_scan_empty _ 0 (by simp [hashtable_iterator_create])
      (by simp [ARRAY_SIZE, hashtable_iterator_create])
  have hnext := hashtable_iterator_next_none hashtable_create hashtable_iterator_create rfl hscan
  unfold session_manager_cleanup
  rw [session_manager_cleanup_loop, h, hnext]

theorem timer_queue_free_empty (m : session_manager_t) (t : Nat)
    (hlow : m.waiting_sessions.lower_idx < SM_TIMER_QUEUE_LENGTH)
    (h : m.waiting_sessions.length = 0) : timer_queue_free m t = .ok m := by
  unfold timer_queue_free
  rw [h, timer_queue_free_loop]
  simp [h, hlow]

theorem sweeps_idle (fuel : Nat) (m : session_manager_t) (T : Nat)
    (hlow : m.waiting_sessions.lower_idx < SM_TIMER_QUEUE_LENGTH)
    (hlen : m.waiting_sessions.length = 0) (hclosed : m.closed_session = none)
    (htab : m.hashtable = hashtable_create) :
    session_manager_update_sweeps (fuel + 1) m T
      = .ok { m with
          last_access := T
          last_clean := if (T + 4294967296 - m.last_clean) % 4294967296 > SM_TCP_SYN_TIMEOUT
            then T else m.last_clean } := by
  have hfree : timer_queue_free { m with last_access := T } T
      = .ok { m with last_access := T } := timer_queue_free_empty _ T hlow hlen
  have hswept : (if T ≠ m.last_access then
        timer_queue_free { m with last_access := T } T
      else Except.ok m) = .ok { m with last_access := T } := by
    by_cases h0 : T = m.last_access
    · rw [if_neg (not_not.mpr h0), h0]
    · rw [if_pos h0, hfree]
  unfold session_manager_update_sweeps
  simp only []
  rw [hswept]
  simp only [hclosed]
  by_cases h60 : (T + 4294967296 - m.last_clean) % 4294967296 > SM_TCP_SYN_TIMEOUT
  · rw [if_pos h60, if_pos h60]
    exact cleanup_empty fuel _ htab
  · rw [if_neg h60, if_neg h60]

theorem sweeps_create (fuel T : Nat) (hT : T < 4294967296) :
    session_manager_update_sweeps (fuel + 1) session_manager_create T
      = .ok { session_manager_create with
          last_access := T, last_clean := if T > 60 then T else 0 } := by
  have hmod : (T + 4294967296 - session_manager_create.last_clean) % 4294967296 = T := by
    have : session_manager_create.last_clean = 0 := rfl
    rw [this]
    omega
  have h := sweeps_idle fuel session_manager_create T
    (by simp [session_manager_create, SM_TIMER_QUEUE_LENGTH]) rfl rfl rfl
  rw [hmod] at h
  exact h

theorem states_cons (fuel : Nat) (m m2 : session_manager_t) (p : libtrace_packet_t)
    (rest : List libtrace_packet_t) (r : Option Nat)
    (h : session_manager_update fuel m p = .ok (m2, r)) :
    session_manager_states fuel m (p :: rest)
      = (session_manager_states fuel m2 rest).map
          (fun l => (r.bind (fun q => (m2.heap q).map (fun s => s.state))) :: l) := by
  simp only [session_manager_states, session_manager_run, h]
  cases session_manager_run fuel m2 rest with
  | error e => rfl
  | ok x => rfl

/-- One call of `session_manager_update` on the tracked flow, when the RST test
and the switch leave the index, the times and the queue bounds alone. -/
theorem single_flow_step (fuel : Nat) (m m1 : session_manager_t) (p : libtrace_packet_t)
    (ip : libtrace_ip) (tcp : libtrace_tcp) (T : Nat) (s s1 : tcp_session_t)
    (h : single_flow m T s) (hip : p.ip = some ip) (htcp : p.tcp = some tcp)
    (hT : packet_seconds p = T) (hid : session_id_of ip tcp = s.id)
    (hst : session_manager_update_state m T p.direction ip tcp 0 = .ok (m1, false))
    (h1 : m1.heap 0 = some s1) (hs1 : s1.id = s.id ∧ s1.data = [])
    (hf : m1.hashtable = m.hashtable ∧ m1.last_access = m.last_access ∧
      m1.closed_session = m.closed_session ∧ m1.last_clean = m.last_clean ∧
      m1.module_count = m.module_count ∧
      m1.waiting_sessions.lower_idx = 0 ∧ m1.waiting_sessions.length ≤ s1.waiting) :
    ∃ m2, session_manager_update (fuel + 1) m p = .ok (m2, some 0) ∧
      (m2.heap 0).map (fun x => x.state) = some s1.state ∧
      single_flow m2 T { s1 with last_access := T % 256 } := by
  have hsweep : session_manager_update_sweeps fuel m (packet_seconds p) = .ok m := by
    rw [hT]
    exact sweeps_noop fuel m T h.last_access h.closed h.clean
  have hfound : hashtable_retrieve m.heap m.hashtable (session_id_of ip tcp)
      = .ok (some 0) := by
    simp [hashtable_retrieve, hid, h.chain, hashtable_retrieve_chain, h.record,
      (tcp_session_id_equals_iff _ _).mpr rfl]
  have hrun := update_of_state fuel m m m1 p ip tcp 0 hip htcp hsweep hfound (by rw [hT]; exact hst)
  obtain ⟨e1, e2, e3, e4, e5, e6, e7⟩ := hf
  have hmod : modules_update m1.modules s1.data p m1.module_count = .ok [] := by
    rw [e5, h.modules]
    rfl
  have hdel := deliver_of_modules m1 p (packet_seconds p) 0 s1 [] h1 hmod
  rw [hT] at hdel
  refine ⟨_, hrun.trans (by rw [hT]; exact hdel), by simp, ?_⟩
  refine ⟨?_, ?_, ?_, ?_, ?_, ?_, ?_, ?_⟩
  · exact e2.trans h.last_access
  · exact e3.trans h.closed
  · show (T + 4294967296 - m1.last_clean) % 4294967296 ≤ 60
    rw [e4]
    exact h.clean
  · show m1.hashtable.arr (hashtable_compute_hash s1.id) = [0]
    rw [e1, hs1.1]
    exact h.chain
  · simp
  · exact hs1.2
  · exact e5.trans h.modules
  · exact ⟨e6, e7⟩

theorem packet_seconds_tcp_packet (T f : Nat) (direction : Int)
    (src dst sport dport seq ack payload : Nat) (fin syn rst ackf : Bool)
    (hT : T < 4294967296) (hf : f < 4294967296) :
    packet_seconds (tcp_packet (T * 4294967296 + f) direction src dst sport dport seq ack
      payload fin syn rst ackf) = T := by
  simp only [packet_seconds, tcp_packet]
  omega

theorem update_state_established (m : session_manager_t) (t : Nat) (ip : libtrace_ip)
    (tcp : libtrace_tcp) (session : Nat) (s : tcp_session_t) (hs : m.heap session = some s)
    (hst : s.state = SYN_SENT) (hrst : tcp.rst = false) (hsyn : tcp.syn = true)
    (hack : tcp.ack = true) (hge : s.expected_ack ≤ ntohl tcp.ack_seq) :
    session_manager_update_state m t 1 ip tcp session
      = .ok (store m session { s with state := ESTABLISHED }, false) := by
  simp [session_manager_update_state, hs, hst, hrst, hsyn, hack, hge, SM_INBOUND]

theorem update_state_same (m : session_manager_t) (t : Nat) (direction : Int)
    (ip : libtrace_ip) (tcp : libtrace_tcp) (session : Nat) (s : tcp_session_t)
    (hs : m.heap session = some s) (hrst : tcp.rst = false)
    (hst : (s.state = ESTABLISHED ∧ tcp.fin = false) ∨ (s.state = TIME_WAIT ∧ tcp.syn = false)) :
    session_manager_update_state m t direction ip tcp session = .ok (m, false) := by
  rcases hst with ⟨h1, h2⟩ | ⟨h1, h2⟩
  · simp [session_manager_update_state, hs, h1, hrst, h2]
  · simp [session_manager_update_state, hs, h1, hrst, h2]

theorem update_state_fin_wait_1 (m : session_manager_t) (t : Nat) (ip : libtrace_ip)
    (tcp : libtrace_tcp) (session : Nat) (s : tcp_session_t) (hs : m.heap session = some s)
    (hst : s.state = ESTABLISHED) (hrst : tcp.rst = false) (hfin : tcp.fin = true) :
    session_manager_update_state m t 0 ip tcp session
      = .ok (store m session
          { s with state := FIN_WAIT_1, expected_ack := seq_plus_payload ip tcp }, false) := by
  simp [session_manager_update_state, hs, hst, hrst, hfin, SM_OUTBOUND]

theorem update_state_time_wait (m : session_manager_t) (t : Nat) (ip : libtrace_ip)
    (tcp : libtrace_tcp) (session : Nat) (s : tcp_session_t) (hs : m.heap session = some s)
    (hst : s.state = FIN_WAIT_1) (hrst : tcp.rst = false) (hfin : tcp.fin = true)
    (hack : tcp.ack = true) (hge : s.expected_ack ≤ ntohl tcp.ack_seq)
    (hq : m.waiting_sessions.lower_idx + m.waiting_sessions.length
      < 2 * SM_TIMER_QUEUE_LENGTH) :
    ∃ m1, session_manager_update_state m t 1 ip tcp session = .ok (m1, false) ∧
      m1.heap session = some { s with state := TIME_WAIT, waiting := 1 } ∧
      m1.hashtable = m.hashtable ∧ m1.last_access = m.last_access ∧
      m1.closed_session = m.closed_session ∧ m1.last_clean = m.last_clean ∧
      m1.module_count = m.module_count ∧
      m1.waiting_sessions.lower_idx = m.waiting_sessions.lower_idx ∧
      m1.waiting_sessions.length = (m.waiting_sessions.length + 1) % 4294967296 := by
  have hadd := timer_queue_add_ok
    (store m session { s with state := TIME_WAIT, waiting := 1 }) session t (by simpa using hq)
  cases hx : timer_queue_add (store m session { s with state := TIME_WAIT, waiting := 1 })
      session t with
  | error e =>
    rw [hx] at hadd
    cases hadd
  | ok m1 =>
    rw [hx] at hadd
    injection hadd with e
    refine ⟨m1, ?_, ?_, ?_, ?_, ?_, ?_, ?_, ?_, ?_⟩
    · simp [session_manager_update_state, hs, hst, hrst, hfin, hack, hge, SM_INBOUND, hx]
    · rw [e]
      simp
    all_goals
      rw [e]
      rfl

/-- Every trace of the shape of scenario 1 between different addresses, within
one second and without wrap of the sequence numbers, when fed to the fresh
manager: the flow returned is in SYN_SENT after the SYN, in ESTABLISHED after
the SYN+ACK and up to the FIN, in FIN_WAIT_1 after the FIN, and in TIME_WAIT
after the FIN+ACK and the last ACK. -/
theorem scenario1_states (a b pa pb s r n T fuel : Nat) (hab : a ≠ b)
    (hs : s + n + 2 < 4294967296) (hn : 40 + n < 65536) (hT : T < 4294967296) :
    session_manager_states (fuel + 2) session_manager_create (scenario1_trace a b pa pb s r n T)
      = some [some SYN_SENT, some ESTABLISHED, some ESTABLISHED, some ESTABLISHED,
          some ESTABLISHED, some FIN_WAIT_1, some TIME_WAIT, some TIME_WAIT] := by
  -- the ID of the flow
  have hidf : ∀ (len seq ack : Nat) (fin syn rst ackf : Bool),
      session_id_of { ip_hl := 5, ip_len := len, ip_src := a, ip_dst := b }
        { source := htons pa, dest := htons pb, seq := seq, ack_seq := ack, doff := 5,
          fin := fin, syn := syn, rst := rst, ack := ackf }
      = session_id_of { ip_hl := 5, ip_len := htons (40 + 0), ip_src := a, ip_dst := b }
        { source := htons pa, dest := htons pb, seq := htonl s, ack_seq := htonl 0, doff := 5,
          fin := false, syn := true, rst := false, ack := false } := by
    intro len seq ack fin syn rst ackf
    simp [session_id_of]
  have hidb : ∀ (len seq ack : Nat) (fin syn rst ackf : Bool),
      session_id_of { ip_hl := 5, ip_len := len, ip_src := b, ip_dst := a }
        { source := htons pb, dest := htons pa, seq := seq, ack_seq := ack, doff := 5,
          fin := fin, syn := syn, rst := rst, ack := ackf }
      = session_id_of { ip_hl := 5, ip_len := htons (40 + 0), ip_src := a, ip_dst := b }
        { source := htons pa, dest := htons pb, seq := htonl s, ack_seq := htonl 0, doff := 5,
          fin := false, syn := true, rst := false, ack := false } := by
    intro len seq ack fin syn rst ackf
    exact session_id_of_symmetric_of_ne b a (htons pb) (htons pa) 5 len 5 _ _ _ (Ne.symm hab)
      ⟨rfl, rfl⟩ ⟨rfl, rfl⟩
  generalize hID : session_id_of
    { ip_hl := 5, ip_len := htons (40 + 0), ip_src := a, ip_dst := b }
    { source := htons pa, dest := htons pb, seq := htonl s, ack_seq := htonl 0, doff := 5,
      fin := false, syn := true, rst := false, ack := false } = ID at hidf hidb
  -- packet 1: the SYN creates the flow
  have hsec1 : packet_seconds (tcp_packet (T * 4294967296) 0 a b pa pb s 0 0
      false true false false) = T := by
    simpa using packet_seconds_tcp_packet T 0 0 a b pa pb s 0 0 false true false false hT
      (by norm_num)
  have hexp1 : seq_plus_payload
      { ip_hl := 5, ip_len := htons (40 + 0), ip_src := a, ip_dst := b }
      { source := htons pa, dest := htons pb, seq := htonl s, ack_seq := htonl 0, doff := 5,
        fin := false, syn := true, rst := false, ack := false } = s := by
    simpa using seq_plus_payload_tcp_packet s 0 a b (htons pa) (htons pb) (htonl 0)
      false true false false (by omega) (by norm_num)
  obtain ⟨m1, upd1, hrun1, hheap1, -, harr1, -, -, -, -, -, -, hq1, hla1, hlc1, hcl1, -, hmc1⟩ :=
    update_bare_syn (fuel + 1) session_manager_create
      { session_manager_create with last_access := T, last_clean := if T > 60 then T else 0 }
      (tcp_packet (T * 4294967296) 0 a b pa pb s 0 0 false true false false)
      { ip_hl := 5, ip_len := htons (40 + 0), ip_src := a, ip_dst := b }
      { source := htons pa, dest := htons pb, seq := htonl s, ack_seq := htonl 0, doff := 5,
        fin := false, syn := true, rst := false, ack := false }
      rfl rfl (by rw [hsec1]; exact sweeps_create fuel T hT) rfl
      (fun i hi => absurd hi (Nat.not_lt_zero i)) rfl rfl
  rw [hsec1, hexp1, hID] at hheap1
  rw [hID] at harr1
  have hrec1 : m1.heap 0 = some (flow_record ID SYN_SENT s 0 T) := hheap1
  have hsf1 : single_flow m1 T (flow_record ID SYN_SENT s 0 T) := by
    refine ⟨hla1, hcl1, ?_, harr1, hrec1, rfl, hmc1, ?_⟩
    · rw [hlc1]
      show (T + 4294967296 - (if T > 60 then T else 0)) % 4294967296 ≤ 60
      split_ifs <;> omega
    · rw [hq1]
      exact ⟨rfl, Nat.le_refl 0⟩
  have hstate1 : (m1.heap 0).map (fun x => x.state) = some SYN_SENT := by
    rw [hrec1]
    rfl
  clear hheap1 harr1 hq1 hla1 hlc1 hcl1 hmc1
  -- packet 2: the SYN+ACK
  obtain ⟨m2, hrun2, hstate2, hsf2⟩ := single_flow_step (fuel + 1) m1
    (store m1 0 (flow_record ID ESTABLISHED s 0 T))
    (tcp_packet (T * 4294967296 + 429496729) 1 b a pb pa r (s + 1) 0 false true false true)
    _ _ T (flow_record ID SYN_SENT s 0 T) (flow_record ID ESTABLISHED s 0 T) hsf1 rfl rfl
    (packet_seconds_tcp_packet T _ _ _ _ _ _ _ _ _ _ _ _ _ hT (by norm_num))
    (hidb _ _ _ _ _ _ _)
    (update_state_established m1 T _ _ 0 _ hrec1 rfl rfl rfl rfl
      (by show s ≤ ntohl (htonl (s + 1)); rw [ntohl_htonl _ (by omega)]; omega))
    (store_heap_same _ _ _) ⟨rfl, rfl⟩
    ⟨rfl, rfl, rfl, rfl, rfl, hsf1.queue.1, hsf1.queue.2⟩
  have hstate2 : (m2.heap 0).map (fun x => x.state) = some ESTABLISHED := hstate2
  have hsf2 : single_flow m2 T (flow_record ID ESTABLISHED s 0 T) := hsf2
  -- packets 3, 4 and 5: ESTABLISHED
  obtain ⟨m3, hrun3, hstate3, hsf3⟩ := single_flow_step (fuel + 1) m2 m2
    (tcp_packet (T * 4294967296 + 858993459) 0 a b pa pb (s + 1) (r + 1) 0
      false false false true)
    _ _ T (flow_record ID ESTABLISHED s 0 T) (flow_record ID ESTABLISHED s 0 T) hsf2 rfl rfl
    (packet_seconds_tcp_packet T _ _ _ _ _ _ _ _ _ _ _ _ _ hT (by norm_num))
    (hidf _ _ _ _ _ _ _)
    (update_state_same m2 T _ _ _ 0 _ hsf2.record rfl (Or.inl ⟨rfl, rfl⟩))
    hsf2.record ⟨rfl, rfl⟩
    ⟨rfl, rfl, rfl, rfl, rfl, hsf2.queue.1, hsf2.queue.2⟩
  have hstate3 : (m3.heap 0).map (fun x => x.state) = some ESTABLISHED := hstate3
  have hsf3 : single_flow m3 T (flow_record ID ESTABLISHED s 0 T) := hsf3
  obtain ⟨m4, hrun4, hstate4, hsf4⟩ := single_flow_step (fuel + 1) m3 m3
    (tcp_packet (T * 4294967296 + 1288490188) 0 a b pa pb (s + 1) (r + 1) n
      false false false true)
    _ _ T (flow_record ID ESTABLISHED s 0 T) (flow_record ID ESTABLISHED s 0 T) hsf3 rfl rfl
    (packet_seconds_tcp_packet T _ _ _ _ _ _ _ _ _ _ _ _ _ hT (by norm_num))
    (hidf _ _ _ _ _ _ _)
    (update_state_same m3 T _ _ _ 0 _ hsf3.record rfl (Or.inl ⟨rfl, rfl⟩))
    hsf3.record ⟨rfl, rfl⟩
    ⟨rfl, rfl, rfl, rfl, rfl, hsf3.queue.1, hsf3.queue.2⟩
  have hstate4 : (m4.heap 0).map (fun x => x.state) = some ESTABLISHED := hstate4
  have hsf4 : single_flow m4 T (flow_record ID ESTABLISHED s 0 T) := hsf4
  obtain ⟨m5, hrun5, hstate5, hsf5⟩ := single_flow_step (fuel + 1) m4 m4
    (tcp_packet (T * 4294967296 + 1717986918) 1 b a pb pa (r + 1) (s + 1 + n) 0
      false false false true)
    _ _ T (flow_record ID ESTABLISHED s 0 T) (flow_record ID ESTABLISHED s 0 T) hsf4 rfl rfl
    (packet_seconds_tcp_packet T _ _ _ _ _ _ _ _ _ _ _ _ _ hT (by norm_num))
    (hidb _ _ _ _ _ _ _)
    (update_state_same m4 T _ _ _ 0 _ hsf4.record rfl (Or.inl ⟨rfl, rfl⟩))
    hsf4.record ⟨rfl, rfl⟩
    ⟨rfl, rfl, rfl, rfl, rfl, hsf4.queue.1, hsf4.queue.2⟩
  have hstate5 : (m5.heap 0).map (fun x => x.state) = some ESTABLISHED := hstate5
  have hsf5 : single_flow m5 T (flow_record ID ESTABLISHED s 0 T) := hsf5
  -- packet 6: the FIN
  have hexp6 : seq_plus_payload
      { ip_hl := 5, ip_len := htons (40 + 0), ip_src := a, ip_dst := b }
      { source := htons pa, dest := htons pb, seq := htonl (s + 1 + n), ack_seq := htonl (r + 1),
        doff := 5, fin := true, syn := false, rst := false, ack := false } = s + 1 + n := by
    simpa using seq_plus_payload_tcp_packet (s + 1 + n) 0 a b (htons pa) (htons pb)
      (htonl (r + 1)) true false false false (by omega) (by norm_num)
  have hst6 := update_state_fin_wait_1 m5 T
    { ip_hl := 5, ip_len := htons (40 + 0), ip_src := a, ip_dst := b }
    { source := htons pa, dest := htons pb, seq := htonl (s + 1 + n), ack_seq := htonl (r + 1),
      doff := 5, fin := true, syn := false, rst := false, ack := false }
    0 (flow_record ID ESTABLISHED s 0 T) hsf5.record rfl rfl rfl
  rw [hexp6] at hst6
  obtain ⟨m6, hrun6, hstate6, hsf6⟩ := single_flow_step (fuel + 1) m5
    (store m5 0 (flow_record ID FIN_WAIT_1 (s + 1 + n) 0 T))
    (tcp_packet (T * 4294967296 + 2147483648) 0 a b pa pb (s + 1 + n) (r + 1) 0
      true false false false)
    _ _ T (flow_record ID ESTABLISHED s 0 T) (flow_record ID FIN_WAIT_1 (s + 1 + n) 0 T)
    hsf5 rfl rfl
    (packet_seconds_tcp_packet T _ _ _ _ _ _ _ _ _ _ _ _ _ hT (by norm_num))
    (hidf _ _ _ _ _ _ _) hst6
    (store_heap_same _ _ _) ⟨rfl, rfl⟩
    ⟨rfl, rfl, rfl, rfl, rfl, hsf5.queue.1, hsf5.queue.2⟩
  have hstate6 : (m6.heap 0).map (fun x => x.state) = some FIN_WAIT_1 := hstate6
  have hsf6 : single_flow m6 T (flow_record ID FIN_WAIT_1 (s + 1 + n) 0 T) := hsf6
  -- packet 7: the FIN+ACK
  have hlen6 : m6.waiting_sessions.length = 0 := Nat.le_zero.mp hsf6.queue.2
  obtain ⟨m6', hst7, hrec7, e1, e2, e3, e4, e5, e6, e7⟩ := update_state_time_wait m6 T
    { ip_hl := 5, ip_len := htons (40 + 0), ip_src := b, ip_dst := a }
    { source := htons pb, dest := htons pa, seq := htonl (r + 1),
      ack_seq := htonl (s + 1 + n + 1), doff := 5, fin := true, syn := false, rst := false,
      ack := true }
    0 (flow_record ID FIN_WAIT_1 (s + 1 + n) 0 T) hsf6.record rfl rfl rfl rfl
    (by
      show s + 1 + n ≤ ntohl (htonl (s + 1 + n + 1))
      rw [ntohl_htonl _ (by omega)]
      omega)
    (by
      rw [hsf6.queue.1, hlen6]
      simp [SM_TIMER_QUEUE_LENGTH])
  have hrec7 : m6'.heap 0 = some (flow_record ID TIME_WAIT (s + 1 + n) 1 T) := hrec7
  obtain ⟨m7, hrun7, hstate7, hsf7⟩ := single_flow_step (fuel + 1) m6 m6'
    (tcp_packet (T * 4294967296 + 2576980377) 1 b a pb pa (r + 1) (s + 1 + n + 1) 0
      true false false true)
    _ _ T (flow_record ID FIN_WAIT_1 (s + 1 + n) 0 T) (flow_record ID TIME_WAIT (s + 1 + n) 1 T)
    hsf6 rfl rfl
    (packet_seconds_tcp_packet T _ _ _ _ _ _ _ _ _ _ _ _ _ hT (by norm_num))
    (hidb _ _ _ _ _ _ _) hst7 hrec7 ⟨rfl, rfl⟩
    ⟨e1, e2, e3, e4, e5, e6.trans hsf6.queue.1, by
      rw [e7, hlen6]
      exact Nat.le_refl 1⟩
  have hstate7 : (m7.heap 0).map (fun x => x.state) = some TIME_WAIT := hstate7
  have hsf7 : single_flow m7 T (flow_record ID TIME_WAIT (s + 1 + n) 1 T) := hsf7
  -- packet 8: the last ACK
  obtain ⟨m8, hrun8, hstate8, -⟩ := single_flow_step (fuel + 1) m7 m7
    (tcp_packet (T * 4294967296 + 3006477107) 0 a b pa pb (s + 1 + n + 1) (r + 2) 0
      false false false true)
    _ _ T (flow_record ID TIME_WAIT (s + 1 + n) 1 T) (flow_record ID TIME_WAIT (s + 1 + n) 1 T)
    hsf7 rfl rfl
    (packet_seconds_tcp_packet T _ _ _ _ _ _ _ _ _ _ _ _ _ hT (by norm_num))
    (hidf _ _ _ _ _ _ _)
    (update_state_same m7 T _ _ _ 0 _ hsf7.record rfl (Or.inr ⟨rfl, rfl⟩))
    hsf7.record ⟨rfl, rfl⟩
    ⟨rfl, rfl, rfl, rfl, rfl, hsf7.queue.1, hsf7.queue.2⟩
  have hstate8 : (m8.heap 0).map (fun x => x.state) = some TIME_WAIT := hstate8
  have hnil : session_manager_states (fuel + 2) m8 [] = some [] := rfl
  simp only [scenario1_trace]
  rw [states_cons _ _ _ _ _ _ hrun1, states_cons _ _ _ _ _ _ hrun2,
    states_cons _ _ _ _ _ _ hrun3, states_cons _ _ _ _ _ _ hrun4,
    states_cons _ _ _ _ _ _ hrun5, states_cons _ _ _ _ _ _ hrun6,
    states_cons _ _ _ _ _ _ hrun7, states_cons _ _ _ _ _ _ hrun8, hnil]
  simp only [Option.map_some', Option.some_bind, hstate1, hstate2, hstate3, hstate4, hstate5,
    hstate6, hstate7, hstate8]
  have hbrk : session_manager_create.brk = 0 := rfl
  rw [hbrk, hstate1]


/-! ### Instances of the transition theorems -/

/-- C1, witness: the SYN+ACK of scenario 1 arrives on the flow that the SYN
created, which is in SYN_SENT with `expected_ack = 1000`; the flow is returned
in state ESTABLISHED. -/
theorem handshake_transitions_witness :
    ∃ m2 s2,
      session_manager_update 1 (manager_after 1 session_manager_create (scenario1.take 1))
        (tcp_packet 429496729 1 2 1 20 10 5000 1001 0 false true false true)
        = .ok (m2, some 0) ∧
      m2.heap 0 = some s2 ∧ s2.state = ESTABLISHED ∧ s2.expected_ack = 1000 := by
  obtain ⟨m2, s2, h1, h2, -, -, h5, -⟩ := handshake_transitions 0
    (manager_after 1 session_manager_create (scenario1.take 1))
    (manager_after 1 session_manager_create (scenario1.take 1))
    (tcp_packet 429496729 1 2 1 20 10 5000 1001 0 false true false true) _ _ 0
    { id := { ip_a := 1, ip_b := 2, port_a := 10, port_b := 20 }, state := SYN_SENT,
      expected_ack := 1000, waiting := 0, last_access := 0, data := [] } []
    rfl rfl rfl rfl rfl rfl (Or.inr rfl) rfl (Or.inr rfl)
  exact ⟨m2, s2, h1, h2, h5 rfl rfl rfl rfl (by decide)⟩

/-- C2, witness: the FIN+ACK of scenario 1 arrives on the flow in FIN_WAIT_1
with `expected_ack = 1101`; the flow is returned in TIME_WAIT with `waiting`
set, appended to the empty queue with second 0. -/
theorem teardown_transitions_witness :
    ∃ m2 s2,
      session_manager_update 1 (manager_after 1 session_manager_create (scenario1.take 6))
        (tcp_packet 2576980377 1 2 1 20 10 5001 1102 0 true false false true)
        = .ok (m2, some 0) ∧
      m2.heap 0 = some s2 ∧ s2.state = TIME_WAIT ∧ s2.waiting = 1 ∧
      timer_queue_appended
        (manager_after 1 session_manager_create (scenario1.take 6)).waiting_sessions
        m2.waiting_sessions 0 0 := by
  obtain ⟨m2, s2, h1, h2, -, -, h5, -⟩ := teardown_transitions 0
    (manager_after 1 session_manager_create (scenario1.take 6))
    (manager_after 1 session_manager_create (scenario1.take 6))
    (tcp_packet 2576980377 1 2 1 20 10 5001 1102 0 true false false true) _ _ 0
    { id := { ip_a := 1, ip_b := 2, port_a := 10, port_b := 20 }, state := FIN_WAIT_1,
      expected_ack := 1101, waiting := 0, last_access := 0, data := [] } []
    rfl rfl rfl rfl rfl rfl (by decide) (Or.inr rfl) rfl (Or.inr (Or.inl rfl))
  exact ⟨m2, s2, h1, h2, h5 rfl rfl rfl (by decide) rfl⟩

/-- C3, witness: an RST arrives on the flow of scenario 1, which is in
TIME_WAIT and in the queue; it is returned in state RESET as `closed_session`,
and the queue and the index are as before. -/
theorem reset_first_witness :
    ∃ m2,
      session_manager_update 1 (manager_after 1 session_manager_create scenario1)
        (tcp_packet 3435973836 1 2 1 20 10 5002 0 0 false false true false)
        = .ok (m2, some 0) ∧
      m2.heap 0 = some
        { id := { ip_a := 1, ip_b := 2, port_a := 10, port_b := 20 }, state := RESET,
          expected_ack := 1101, waiting := 1, last_access := 0, data := [] } ∧
      m2.closed_session = some 0 ∧
      m2.waiting_sessions = (manager_after 1 session_manager_create scenario1).waiting_sessions ∧
      m2.hashtable = (manager_after 1 session_manager_create scenario1).hashtable := by
  obtain ⟨m2, h1, h2, h3, h4, h5, -⟩ := reset_first 0
    (manager_after 1 session_manager_create scenario1)
    (manager_after 1 session_manager_create scenario1)
    (tcp_packet 3435973836 1 2 1 20 10 5002 0 0 false false true false) _ _ 0
    { id := { ip_a := 1, ip_b := 2, port_a := 10, port_b := 20 }, state := TIME_WAIT,
      expected_ack := 1101, waiting := 1, last_access := 0, data := [] } []
    rfl rfl rfl rfl rfl rfl rfl
  exact ⟨m2, h1, h2, h3, h4, h5⟩

/-- C4, witness: the SYN of scenario 1 arrives at a fresh manager with two
registered modules; the record created at address 0 is in SYN_SENT with
`expected_ack = 1000` and has one data slot per module. -/
theorem flow_creation_witness :
    ∃ m2 s2,
      session_manager_update 1
        (manager_with_modules [{ addr := 7 }, { addr := 9 }])
        (tcp_packet 0 0 1 2 10 20 1000 0 0 false true false false) = .ok (m2, some 0) ∧
      m2.heap 0 = some s2 ∧ s2.state = SYN_SENT ∧
      s2.id = { ip_a := 1, ip_b := 2, port_a := 10, port_b := 20 } ∧ s2.waiting = 0 ∧
      s2.data = [{ module := 0, session := 0 }, { module := 1, session := 0 }] := by
  obtain ⟨h, -⟩ := flow_creation 0
    (manager_with_modules [{ addr := 7 }, { addr := 9 }])
    (manager_with_modules [{ addr := 7 }, { addr := 9 }])
    (tcp_packet 0 0 1 2 10 20 1000 0 0 false true false false) _ _
    rfl rfl rfl rfl (by decide)
  obtain ⟨m2, s2, updates, h1, h2, -, -, h5, h6, h7, -, -, h10, -⟩ := h ⟨rfl, rfl⟩
  exact ⟨m2, s2, h1, h2, (h10 rfl).1, h5, h6, h7⟩

/-- C9, as the code has it. Every trace of the shape of scenario 1 (SYN with
sequence number `s` in direction 0, SYN+ACK acknowledging `s + 1`, ACK, one
segment of `n` bytes, its ACK, FIN, FIN+ACK acknowledging the FIN, ACK) between
different addresses, within one second and without wrap of the sequence
numbers, fed to the fresh manager: the flow is in SYN_SENT after the SYN, goes
to ESTABLISHED on the SYN+ACK without a visit to SYN_RCVD, stays there up to
the FIN, is in FIN_WAIT_1 after the FIN and in TIME_WAIT after the FIN+ACK, and
ends in TIME_WAIT. -/
theorem scenario1_trajectory (a b pa pb s r n T fuel : Nat) (hab : a ≠ b)
    (hs : s + n + 2 < 4294967296) (hn : 40 + n < 65536) (hT : T < 4294967296) :
    session_manager_states (fuel + 2) session_manager_create (scenario1_trace a b pa pb s r n T)
      = some [some SYN_SENT, some ESTABLISHED, some ESTABLISHED, some ESTABLISHED,
          some ESTABLISHED, some FIN_WAIT_1, some TIME_WAIT, some TIME_WAIT] :=
  scenario1_states a b pa pb s r n T fuel hab hs hn hT

/-- C9, witness: scenario 1 with sequence numbers 1000 and 5000. -/
theorem scenario1_trajectory_witness :
    session_manager_states 2 session_manager_create scenario1
      = some [some SYN_SENT, some ESTABLISHED, some ESTABLISHED, some ESTABLISHED,
          some ESTABLISHED, some FIN_WAIT_1, some TIME_WAIT, some TIME_WAIT] :=
  scenario1_trajectory 1 2 10 20 1000 5000 100 0 0 (by decide) (by decide) (by decide)
    (by decide)

/-- C9, counterexample: on the eight packets of scenario 1 the run succeeds and
the flow is never in state SYN_RCVD after a call. -/
theorem scenario1_skips_syn_rcvd :
    ∃ states, session_manager_states 2 session_manager_create scenario1 = some states ∧
      states.length = 8 ∧ some SYN_RCVD ∉ states :=
  ⟨[some SYN_SENT, some ESTABLISHED, some ESTABLISHED, some ESTABLISHED,
      some ESTABLISHED, some FIN_WAIT_1, some TIME_WAIT, some TIME_WAIT],
    by decide, by decide, by decide⟩

/-! ### The flow index as a map -/

/-- A chain of live records none of which has the ID: `hashtable_retrieve`
finds nothing. -/
theorem hashtable_retrieve_chain_absent (heap : Nat → Option tcp_session_t)
    (id : tcp_session_id_t) (chain : List Nat)
    (h : ∀ p, p ∈ chain → ∃ s, heap p = some s ∧ s.id ≠ id) :
    hashtable_retrieve_chain heap id chain = .ok none := by
  induction chain with
  | nil => rfl
  | cons entry next ih =>
    obtain ⟨s, hs, hne⟩ := h entry (List.mem_cons_self _ _)
    have heq : ¬ tcp_session_id_equals id s.id = true := fun e =>
      hne ((tcp_session_id_equals_iff _ _).mp e).symm
    rw [hashtable_retrieve_chain]
    simp only [hs, heq, if_false, Bool.false_eq_true]
    exact ih (fun p hp => h p (List.mem_cons_of_mem _ hp))

/-- Function `hashtable_remove` finds what `hashtable_retrieve` finds, and
leaves the chain as it is when that is nothing. -/
theorem hashtable_remove_chain_of_retrieve (heap : Nat → Option tcp_session_t)
    (id : tcp_session_id_t) (chain : List Nat) (r : Option Nat)
    (h : hashtable_retrieve_chain heap id chain = .ok r) :
    ∃ rest, hashtable_remove_chain heap id chain = .ok (rest, r) ∧ (r = none → rest = chain) := by
  induction chain with
  | nil =>
    simp only [hashtable_retrieve_chain, Except.ok.injEq] at h
    subst h
    exact ⟨[], rfl, fun _ => rfl⟩
  | cons entry next ih =>
    rw [hashtable_retrieve_chain] at h
    rw [hashtable_remove_chain]
    cases he : heap entry with
    | none => simp [he] at h
    | some s =>
      simp only [he] at h ⊢
      by_cases heq : tcp_session_id_equals id s.id = true
      · rw [if_pos heq] at h
        simp only [Except.ok.injEq] at h
        subst h
        rw [if_pos heq]
        exact ⟨next, rfl, fun e => by cases e⟩
      · rw [if_neg heq] at h
        rw [if_neg heq]
        obtain ⟨rest, hrest, hsame⟩ := ih h
        rw [hrest]
        exact ⟨entry :: rest, rfl, fun e => by rw [hsame e]⟩

/-- Function `hashtable_remove` of an ID does not change what
`hashtable_retrieve` finds for another ID. -/
theorem hashtable_retrieve_chain_remove_other (heap : Nat → Option tcp_session_t)
    (id id2 : tcp_session_id_t) (chain rest : List Nat) (found : Option Nat)
    (hne : id ≠ id2)
    (h : hashtable_remove_chain heap id chain = .ok (rest, found)) :
    hashtable_retrieve_chain heap id2 rest = hashtable_retrieve_chain heap id2 chain := by
  induction chain generalizing rest found with
  | nil =>
    simp only [hashtable_remove_chain, Except.ok.injEq, Prod.mk.injEq] at h
    rw [← h.1]
  | cons entry next ih =>
    rw [hashtable_remove_chain] at h
    cases he : heap entry with
    | none => simp [he] at h
    | some s =>
      simp only [he] at h
      by_cases heq : tcp_session_id_equals id s.id = true
      · rw [if_pos heq] at h
        simp only [Except.ok.injEq, Prod.mk.injEq] at h
        obtain ⟨h1, -⟩ := h
        subst h1
        have hid : id = s.id := (tcp_session_id_equals_iff _ _).mp heq
        have h2 : ¬ tcp_session_id_equals id2 s.id = true := fun e =>
          hne (hid.trans ((tcp_session_id_equals_iff _ _).mp e).symm)
        conv_rhs => rw [hashtable_retrieve_chain]
        simp only [he, h2, if_false, Bool.false_eq_true]
      · rw [if_neg heq] at h
        cases hr : hashtable_remove_chain heap id next with
        | error e => simp [hr] at h
        | ok r =>
          obtain ⟨rest2, found2⟩ := r
          simp only [hr, Except.ok.injEq, Prod.mk.injEq] at h
          obtain ⟨h1, -⟩ := h
          subst h1
          rw [hashtable_retrieve_chain]
          conv_rhs => rw [hashtable_retrieve_chain]
          simp only [he]
          rw [ih rest2 found2 hr]

/-- C17. Flow index map laws, for a table `t` over the records of a memory.
After `hashtable_insert` of a record, `hashtable_retrieve` of its ID returns
it; `hashtable_retrieve` returns absent for an ID that no record of the table
has; `hashtable_remove` returns what `hashtable_retrieve` returned before,
leaves the table unchanged when that is absent, and afterwards, when the table
held live records with at most one record per ID, `hashtable_retrieve` of the
ID returns absent; `hashtable_remove` and `hashtable_insert` of an ID leave
`hashtable_retrieve` of every ID that is not component-wise equal to it
unchanged. -/
theorem hashtable_map_laws (heap : Nat → Option tcp_session_t) (t : hashtable_t) :
    (∀ session s, heap session = some s →
      ∃ t2, hashtable_insert heap t session = .ok t2 ∧
        hashtable_retrieve heap t2 s.id = .ok (some session)) ∧
    (∀ id, (∀ b p, p ∈ t.arr b → ∃ s, heap p = some s ∧ tcp_session_id_equals id s.id = false) →
      hashtable_retrieve heap t id = .ok none) ∧
    (∀ id r, hashtable_retrieve heap t id = .ok r →
      ∃ t2, hashtable_remove heap t id = .ok (t2, r) ∧ (r = none → t2 = t) ∧
        ((∀ b p, p ∈ t.arr b → heap p ≠ none) →
          (∀ b, (t.arr b).Pairwise
            (fun p q => ∀ s u, heap p = some s → heap q = some u →
              tcp_session_id_equals s.id u.id = false)) →
          hashtable_retrieve heap t2 id = .ok none)) ∧
    (∀ id id2 t2 r, tcp_session_id_equals id id2 = false →
      hashtable_remove heap t id = .ok (t2, r) →
      hashtable_retrieve heap t2 id2 = hashtable_retrieve heap t id2) ∧
    (∀ session s id2 t2, heap session = some s → tcp_session_id_equals s.id id2 = false →
      hashtable_insert heap t session = .ok t2 →
      hashtable_retrieve heap t2 id2 = hashtable_retrieve heap t id2) := by
  have hneq : ∀ a b : tcp_session_id_t, tcp_session_id_equals a b = false → a ≠ b := by
    intro a b h e
    rw [(tcp_session_id_equals_iff a b).mpr e] at h
    cases h
  have hfalse : ∀ a b : tcp_session_id_t, a ≠ b → tcp_session_id_equals a b = false := by
    intro a b h
    cases hc : tcp_session_id_equals a b
    · rfl
    · exact absurd ((tcp_session_id_equals_iff a b).mp hc) h
  refine ⟨?_, ?_, ?_, ?_, ?_⟩
  · intro session s hs
    refine ⟨{ arr := fun i =>
        if i = hashtable_compute_hash s.id then
          session :: t.arr (hashtable_compute_hash s.id)
        else t.arr i }, by simp only [hashtable_insert, hs], ?_⟩
    have heq : tcp_session_id_equals s.id s.id = true := (tcp_session_id_equals_iff _ _).mpr rfl
    simp only [hashtable_retrieve, if_true, hashtable_retrieve_chain, hs, heq]
  · intro id h
    unfold hashtable_retrieve
    refine hashtable_retrieve_chain_absent heap id _ ?_
    intro p hp
    obtain ⟨s, hs, hne⟩ := h _ p hp
    exact ⟨s, hs, fun e => hneq _ _ hne e.symm⟩
  · intro id r hr
    unfold hashtable_retrieve at hr
    obtain ⟨rest, hrest, hsame⟩ := hashtable_remove_chain_of_retrieve heap id _ r hr
    refine ⟨{ arr := fun i =>
        if i = hashtable_compute_hash id then rest else t.arr i },
      by simp only [hashtable_remove, hrest], ?_, ?_⟩
    · intro e
      have hrc := hsame e
      cases t with
      | mk arr =>
        simp only [hashtable_t.mk.injEq]
        funext i
        by_cases hi : i = hashtable_compute_hash id
        · subst hi
          simpa using hrc
        · simp [hi]
    · intro hlive hunique
      simp only [hashtable_retrieve, if_true]
      obtain ⟨hsub, hids⟩ := hashtable_remove_chain_spec heap id _ rest r hrest
      refine hashtable_retrieve_chain_absent heap id rest ?_
      intro p hp
      obtain ⟨s, hs⟩ := Option.ne_none_iff_exists'.mp (hlive _ p (hsub.subset hp))
      refine ⟨s, hs, hids ?_ p hp s hs⟩
      exact (hunique _).imp (fun h s u hs hu => hneq _ _ (h s u hs hu))
  · intro id id2 t2 r hne hrem
    unfold hashtable_remove at hrem
    cases hr : hashtable_remove_chain heap id (t.arr (hashtable_compute_hash id)) with
    | error e => simp [hr] at hrem
    | ok x =>
      obtain ⟨rest, found⟩ := x
      simp only [hr, Except.ok.injEq, Prod.mk.injEq] at hrem
      obtain ⟨h1, -⟩ := hrem
      subst h1
      unfold hashtable_retrieve
      by_cases hb : hashtable_compute_hash id2 = hashtable_compute_hash id
      · simp only [hb, if_true]
        exact hashtable_retrieve_chain_remove_other heap id id2 _ rest found (hneq _ _ hne) hr
      · simp only [hb, if_false]
  · intro session s id2 t2 hs hne hins
    simp only [hashtable_insert, hs, Except.ok.injEq] at hins
    subst hins
    unfold hashtable_retrieve
    by_cases hb : hashtable_compute_hash id2 = hashtable_compute_hash s.id
    · have h2 : tcp_session_id_equals id2 s.id = false :=
        hfalse _ _ (fun e => hneq _ _ hne e.symm)
      simp only [hb, if_true, hashtable_retrieve_chain, hs, h2, Bool.false_eq_true, if_false]
    · simp only [hb, if_false]

theorem hash_flow_a : hashtable_compute_hash flow_a = 20 := by decide

theorem hash_flow_b : hashtable_compute_hash flow_b = 20 := by decide

theorem hash_flow_z : hashtable_compute_hash flow_z = 0 := by decide

theorem table_ab_bucket : table_ab.arr 20 = [1, 0] := by decide

theorem table_ab_other (i : Nat) (hi : i ≠ 20) : table_ab.arr i = [] := by
  show (if i = hashtable_compute_hash flow_b then _ else
    (if i = hashtable_compute_hash flow_a then _ else [])) = []
  rw [hash_flow_a, hash_flow_b, if_neg hi, if_neg hi]

theorem table_ab_mem (b p : Nat) (hp : p ∈ table_ab.arr b) : b = 20 ∧ (p = 0 ∨ p = 1) := by
  by_cases hb : b = 20
  · subst hb
    rw [table_ab_bucket] at hp
    simp only [List.mem_cons, List.mem_singleton, List.not_mem_nil, or_false] at hp
    exact ⟨rfl, hp.symm.imp id id⟩
  · rw [table_ab_other b hb] at hp
    exact absurd hp (List.not_mem_nil p)

/-- C17, witness: in the table with the two records of `heap_ab`, which share a
bucket, each ID retrieves its record, the removal of `flow_b` returns the
record at address 1, and afterwards `flow_b` is absent and `flow_a` still
retrieves the record at address 0. -/
theorem hashtable_map_laws_witness :
    hashtable_retrieve heap_ab table_ab flow_a = .ok (some 0) ∧
    hashtable_retrieve heap_ab table_ab flow_b = .ok (some 1) ∧
    ∃ t2, hashtable_remove heap_ab table_ab flow_b = .ok (t2, some 1) ∧
      hashtable_retrieve heap_ab t2 flow_b = .ok none ∧
      hashtable_retrieve heap_ab t2 flow_a = .ok (some 0) := by
  have ha : hashtable_retrieve heap_ab table_ab flow_a = .ok (some 0) := by rfl
  have hb : hashtable_retrieve heap_ab table_ab flow_b = .ok (some 1) := by rfl
  obtain ⟨-, -, h3, h4, -⟩ := hashtable_map_laws heap_ab table_ab
  obtain ⟨t2, hrem, -, habsent⟩ := h3 flow_b (some 1) hb
  refine ⟨ha, hb, t2, hrem, habsent ?_ ?_, ?_⟩
  · intro b p hp
    rcases (table_ab_mem b p hp).2 with e | e <;> subst e <;> simp [heap_ab]
  · intro b
    by_cases hb20 : b = 20
    · subst hb20
      rw [table_ab_bucket]
      refine List.Pairwise.cons ?_ (List.pairwise_singleton _ _)
      intro q hq s u hs hu
      simp only [List.mem_singleton] at hq
      subst hq
      simp only [heap_ab, if_true, Option.some.injEq] at hu
      have hs1 : heap_ab 1 = some (flow_record flow_b tcp_conn_state_t.ESTABLISHED 0 0 0) := rfl
      rw [hs1] at hs
      cases hs
      subst hu
      decide
    · rw [table_ab_other b hb20]
      exact List.Pairwise.nil
  · rw [h4 flow_b flow_a t2 (some 1) (by decide) hrem]
    exact ha

/-! ### The iterator of the flow index -/

/-- The scan of `hashtable_iterator_next` over buckets that are all `NULL` up
to the end of the array. -/
theorem hashtable_iterator_scan_none (ht : hashtable_t) (left pos : Nat)
    (h : left + pos = ARRAY_SIZE) (hl : 0 < left)
    (hempty : ∀ i, pos < i → i < ARRAY_SIZE → ht.arr i = []) :
    hashtable_iterator_scan ht left pos = .ok none := by
  induction left generalizing pos with
  | zero => exact absurd hl (Nat.lt_irrefl 0)
  | succ left ih =>
    rw [hashtable_iterator_scan]
    by_cases hp : pos + 1 = ARRAY_SIZE
    · rw [if_pos hp]
    · rw [if_neg hp, if_pos (hempty (pos + 1) (Nat.lt_succ_self pos) (by omega))]
      exact ih (pos + 1) (by omega) (by omega) (fun i h1 h2 => hempty i (by omega) h2)

/-- The scan of `hashtable_iterator_next` stops at the first bucket that is not
`NULL`. -/
theorem hashtable_iterator_scan_find (ht : hashtable_t) (left pos q : Nat)
    (h : left + pos = ARRAY_SIZE) (hpq : pos < q) (hq : q < ARRAY_SIZE) (hne : ht.arr q ≠ [])
    (hempty : ∀ i, pos < i → i < q → ht.arr i = []) :
    hashtable_iterator_scan ht left pos = .ok (some q) := by
  induction left generalizing pos with
  | zero => omega
  | succ left ih =>
    rw [hashtable_iterator_scan]
    have hp : ¬ pos + 1 = ARRAY_SIZE := by omega
    rw [if_neg hp]
    by_cases hq1 : pos + 1 = q
    · subst hq1
      rw [if_neg hne]
    · rw [if_pos (hempty (pos + 1) (Nat.lt_succ_self pos) (by omega))]
      exact ih (pos + 1) (by omega) (by omega) (fun i h1 h2 => hempty i (by omega) h2)

/-- Function `hashtable_iterator_next` at the last node of a chain, or at a
`NULL` link, when no later bucket has a node. -/
theorem hashtable_iterator_next_end (ht : hashtable_t) (itr : hashtable_iterator_t)
    (hdrop : ((ht.arr itr.entry_bucket).drop itr.entry_link).length ≤ 1)
    (hscan : hashtable_iterator_scan ht (ARRAY_SIZE - itr.array_position) itr.array_position
      = .ok none) :
    hashtable_iterator_next ht itr = .ok ({ itr with array_position := ARRAY_SIZE }, none) := by
  unfold hashtable_iterator_next
  rw [hscan]
  cases hd : (ht.arr itr.entry_bucket).drop itr.entry_link with
  | nil => rfl
  | cons a l =>
    cases l with
    | nil => rfl
    | cons b c =>
      rw [hd] at hdrop
      simp at hdrop

/-- Function `hashtable_iterator_next` at the last node of a chain, or at a
`NULL` link, when a later bucket has a node. -/
theorem hashtable_iterator_next_bucket (ht : hashtable_t) (itr : hashtable_iterator_t) (q : Nat)
    (hdrop : ((ht.arr itr.entry_bucket).drop itr.entry_link).length ≤ 1)
    (hscan : hashtable_iterator_scan ht (ARRAY_SIZE - itr.array_position) itr.array_position
      = .ok (some q)) :
    hashtable_iterator_next ht itr
      = .ok ({ array_position := q, entry_bucket := q, entry_link := 0 }, (ht.arr q).head?) := by
  unfold hashtable_iterator_next
  rw [hscan]
  cases hd : (ht.arr itr.entry_bucket).drop itr.entry_link with
  | nil => rfl
  | cons a l =>
    cases l with
    | nil => rfl
    | cons b c =>
      rw [hd] at hdrop
      simp at hdrop

/-- Function `hashtable_iterator_next` at a node that has a successor. -/
theorem hashtable_iterator_next_link (ht : hashtable_t) (itr : hashtable_iterator_t)
    (a b : Nat) (rest : List Nat)
    (hdrop : (ht.arr itr.entry_bucket).drop itr.entry_link = a :: b :: rest) :
    hashtable_iterator_next ht itr
      = .ok ({ itr with entry_link := itr.entry_link + 1 }, some b) := by
  unfold hashtable_iterator_next
  rw [hdrop]

/-- The iteration ends when `hashtable_iterator_next` returns `NULL`. -/
theorem hashtable_iterate_end (remove : Nat → Bool) (fuel : Nat) (ht : hashtable_t)
    (itr itr2 : hashtable_iterator_t) (h : hashtable_iterator_next ht itr = .ok (itr2, none)) :
    hashtable_iterate remove (fuel + 1) ht itr = .ok (ht, [], []) := by
  rw [hashtable_iterate, h]

/-- A round of the iteration that keeps the session returned. -/
theorem hashtable_iterate_keep (remove : Nat → Bool) (fuel : Nat) (ht final : hashtable_t)
    (itr itr2 : hashtable_iterator_t) (p : Nat) (returned unlinked : List Nat)
    (h : hashtable_iterator_next ht itr = .ok (itr2, some p)) (hr : remove p = false)
    (hrest : hashtable_iterate remove fuel ht itr2 = .ok (final, returned, unlinked)) :
    hashtable_iterate remove (fuel + 1) ht itr = .ok (final, p :: returned, unlinked) := by
  rw [hashtable_iterate, h]
  simp only [hr, Bool.false_eq_true, if_false, hrest]

/-- A round of the iteration that removes the session returned. -/
theorem hashtable_iterate_unlink (remove : Nat → Bool) (fuel : Nat) (ht ht2 final : hashtable_t)
    (itr itr2 : hashtable_iterator_t) (p q : Nat) (returned unlinked : List Nat)
    (h : hashtable_iterator_next ht itr = .ok (itr2, some p)) (hr : remove p = true)
    (hrem : hashtable_iterator_remove ht itr2 = .ok (ht2, q))
    (hrest : hashtable_iterate remove fuel ht2 itr2 = .ok (final, returned, unlinked)) :
    hashtable_iterate remove (fuel + 1) ht itr = .ok (final, p :: returned, q :: unlinked) := by
  rw [hashtable_iterate, h]
  simp only [hr, if_true, hrem, hrest]

theorem table_z_bucket : table_z.arr 0 = [0] := by decide

theorem table_z_other (i : Nat) (hi : i ≠ 0) : table_z.arr i = [] := by
  show (if i = hashtable_compute_hash flow_z then _ else []) = []
  rw [hash_flow_z, if_neg hi]

/-- C18, at the failing input. The table `table_z` holds one record, which
`hashtable_retrieve` finds and which is the first node of the chain of bucket
0; the iteration from `hashtable_iterator_create`, given any number of calls,
ends at once and returns no record. In the table `table_ab`, whose two records
lie in bucket 20, the same iteration returns both, in chain order. -/
theorem iteration_skips_bucket_zero (fuel : Nat) :
    hashtable_retrieve heap_z table_z flow_z = .ok (some 0) ∧
    table_z.arr 0 = [0] ∧
    hashtable_iterate (fun _ => false) (fuel + 1) table_z hashtable_iterator_create
      = .ok (table_z, [], []) ∧
    hashtable_iterate (fun _ => false) (fuel + 3) table_ab hashtable_iterator_create
      = .ok (table_ab, [1, 0], []) := by
  refine ⟨by rfl, table_z_bucket, ?_, ?_⟩
  · have hscan : hashtable_iterator_scan table_z
        (ARRAY_SIZE - hashtable_iterator_create.array_position)
        hashtable_iterator_create.array_position = .ok none :=
      hashtable_iterator_scan_none _ _ 0 (by simp [hashtable_iterator_create])
        (by simp [ARRAY_SIZE, hashtable_iterator_create])
        (fun i h1 _ => table_z_other i (by omega))
    have hnext := hashtable_iterator_next_end table_z hashtable_iterator_create
      (by
        show ((table_z.arr 0).drop 0).length ≤ 1
        rw [table_z_bucket]
        simp) hscan
    exact hashtable_iterate_end _ fuel table_z hashtable_iterator_create _ hnext
  · have hscan : hashtable_iterator_scan table_ab
        (ARRAY_SIZE - hashtable_iterator_create.array_position)
        hashtable_iterator_create.array_position = .ok (some 20) :=
      hashtable_iterator_scan_find _ _ 0 20 (by simp [hashtable_iterator_create])
        (by decide) (by decide) (by rw [table_ab_bucket]; simp)
        (fun i _ h2 => table_ab_other i (by omega))
    have hnext1 := hashtable_iterator_next_bucket table_ab hashtable_iterator_create 20
      (by
        show ((table_ab.arr 0).drop 0).length ≤ 1
        rw [table_ab_other 0 (by decide)]
        simp) hscan
    have hnext2 := hashtable_iterator_next_link table_ab
      { array_position := 20, entry_bucket := 20, entry_link := 0 } 1 0 []
      (by
        show (table_ab.arr 20).drop 0 = [1, 0]
        rw [table_ab_bucket]
        rfl)
    have hscan3 : hashtable_iterator_scan table_ab (ARRAY_SIZE - 20) 20 = .ok none :=
      hashtable_iterator_scan_none _ _ 20 (by decide) (by decide)
        (fun i h1 _ => table_ab_other i (by omega))
    have hnext3 := hashtable_iterator_next_end table_ab
      { array_position := 20, entry_bucket := 20, entry_link := 1 }
      (by
        show ((table_ab.arr 20).drop 1).length ≤ 1
        rw [table_ab_bucket]
        simp) hscan3
    rw [table_ab_bucket] at hnext1
    exact hashtable_iterate_keep _ (fuel + 2) table_ab table_ab _ _ 1 [0] [] hnext1 rfl
      (hashtable_iterate_keep _ (fuel + 1) table_ab table_ab _ _ 0 [] [] hnext2 rfl
        (hashtable_iterate_end _ fuel table_ab _ _ hnext3))

/-- C19, at the failing input. In the table `table_ab` the chain of bucket 20
holds the record at address 1 and behind it the record at address 0. An
iteration that removes the record at address 1 when `hashtable_iterator_next`
returns it: `hashtable_iterator_remove` unlinks and returns that record, the
next call of `hashtable_iterator_next` returns `NULL`, and the record at
address 0, which followed the removed one in the chain and is still in the
table, has never been returned. -/
theorem iterator_remove_skips_successor (fuel : Nat) :
    table_ab.arr 20 = [1, 0] ∧
    ∃ t2, hashtable_iterate (fun p => p == 1) (fuel + 2) table_ab hashtable_iterator_create
        = .ok (t2, [1], [1]) ∧
      t2.arr 20 = [0] ∧
      hashtable_retrieve heap_ab t2 flow_a = .ok (some 0) ∧
      hashtable_retrieve heap_ab t2 flow_b = .ok none := by
  refine ⟨table_ab_bucket, ?_⟩
  refine ⟨{ arr := fun i =>
      if i = 20 then (table_ab.arr 20).eraseIdx 0 else table_ab.arr i }, ?_, ?_, ?_, ?_⟩
  · have hscan : hashtable_iterator_scan table_ab
        (ARRAY_SIZE - hashtable_iterator_create.array_position)
        hashtable_iterator_create.array_position = .ok (some 20) :=
      hashtable_iterator_scan_find _ _ 0 20 (by simp [hashtable_iterator_create])
        (by decide) (by decide) (by rw [table_ab_bucket]; simp)
        (fun i _ h2 => table_ab_other i (by omega))
    have hnext1 := hashtable_iterator_next_bucket table_ab hashtable_iterator_create 20
      (by
        show ((table_ab.arr 0).drop 0).length ≤ 1
        rw [table_ab_other 0 (by decide)]
        simp) hscan
    rw [table_ab_bucket] at hnext1
    have hrem : hashtable_iterator_remove table_ab
        { array_position := 20, entry_bucket := 20, entry_link := 0 }
        = .ok ({ arr := fun i => if i = 20 then (table_ab.arr 20).eraseIdx 0
            else table_ab.arr i }, 1) := by
      unfold hashtable_iterator_remove
      simp only [table_ab_bucket, List.drop_zero]
    have hscan2 : hashtable_iterator_scan
        { arr := fun i => if i = 20 then (table_ab.arr 20).eraseIdx 0 else table_ab.arr i }
        (ARRAY_SIZE - 20) 20 = .ok none :=
      hashtable_iterator_scan_none _ _ 20 (by decide) (by decide)
        (fun i h1 _ => by
          have hi : i ≠ 20 := by omega
          simp only [hi, if_false]
          exact table_ab_other i hi)
    have hnext2 := hashtable_iterator_next_end
      { arr := fun i => if i = 20 then (table_ab.arr 20).eraseIdx 0 else table_ab.arr i }
      { array_position := 20, entry_bucket := 20, entry_link := 0 }
      (by simp [table_ab_bucket]) hscan2
    exact hashtable_iterate_unlink _ (fuel + 1) table_ab _ _ _ _ 1 1 [] [] hnext1 rfl hrem
      (hashtable_iterate_end _ fuel _ _ _ hnext2)
  · simp [table_ab_bucket]
  · simp only [hashtable_retrieve, hash_flow_a, if_true, table_ab_bucket]
    rfl
  · simp only [hashtable_retrieve, hash_flow_b, if_true, table_ab_bucket]
    rfl


/-! ### The expiry of TIME_WAIT -/

/-- A record that the loop of `timer_queue_free` frees was in a slot whose time
is below the time given. -/
theorem timer_queue_free_loop_frees (current_time rounds : Nat) (m m2 : session_manager_t)
    (hrun : timer_queue_free_loop current_time rounds m = .ok m2) :
    ∀ p, m.heap p ≠ none → m2.heap p = none →
      ∃ i, m.waiting_sessions.sessions i = some p ∧ m.waiting_sessions.times i < current_time := by
  induction rounds generalizing m with
  | zero =>
    simp only [timer_queue_free_loop] at hrun
    split_ifs at hrun
    simp only [Except.ok.injEq] at hrun
    subst hrun
    intro p h1 h2
    exact absurd h2 h1
  | succ rounds ih =>
    rw [timer_queue_free_loop] at hrun
    by_cases hlo : m.waiting_sessions.lower_idx ≥ SM_TIMER_QUEUE_LENGTH
    · rw [if_pos hlo] at hrun
      cases hrun
    rw [if_neg hlo] at hrun
    by_cases hc : m.waiting_sessions.times m.waiting_sessions.lower_idx < current_time ∧
        m.waiting_sessions.length ≠ 0
    · rw [if_pos hc] at hrun
      cases hq : m.waiting_sessions.sessions m.waiting_sessions.lower_idx with
        | none =>
          simp only [hq] at hrun
          intro p h1 h2
          obtain ⟨i, hi, ht⟩ := ih _ hrun p h1 h2
          simp only at hi ht
          split_ifs at hi
          exact ⟨i, hi, ht⟩
        | some session =>
          simp only [hq] at hrun
          cases hf : session_manager_free_session m session with
          | error e => simp [hf] at hrun
          | ok m3 =>
            simp only [hf] at hrun
            obtain ⟨s, hs, hheap, hq3, -⟩ := free_session_effect m m3 session hf
            intro p h1 h2
            by_cases hps : p = session
            · subst hps
              exact ⟨_, hq, hc.1⟩
            · have h3 : m3.heap p ≠ none := by
                rw [hheap]
                simpa [hps] using h1
              obtain ⟨i, hi, ht⟩ := ih _ hrun p h3 h2
              simp only at hi ht
              split_ifs at hi
              exact ⟨i, hi, ht⟩
    · rw [if_neg hc] at hrun
      cases hrun
      intro p h1 h2
      exact absurd h2 h1

/-! ### Steps that only free records -/

theorem only_frees_refl (m : session_manager_t) : only_frees m m :=
  ⟨fun _ _ h => h, rfl, rfl, rfl, rfl⟩

theorem only_frees_trans (m1 m2 m3 : session_manager_t) (h12 : only_frees m1 m2)
    (h23 : only_frees m2 m3) : only_frees m1 m3 :=
  ⟨fun p s h => h12.heap p s (h23.heap p s h), h23.modules.trans h12.modules,
    h23.module_count.trans h12.module_count, h23.modules_size.trans h12.modules_size,
    h23.brk.trans h12.brk⟩

/-- States with the same records, modules and `brk`. -/
theorem only_frees_congr (m m2 : session_manager_t) (h1 : m2.heap = m.heap)
    (h2 : m2.modules = m.modules) (h3 : m2.module_count = m.module_count)
    (h4 : m2.modules_size = m.modules_size) (h5 : m2.brk = m.brk) : only_frees m m2 :=
  ⟨fun p s h => by rw [← h1]; exact h, h2, h3, h4, h5⟩

/-- What `session_manager_free_session` leaves as it was. -/
theorem free_session_frame (m m2 : session_manager_t) (session : Nat)
    (hfree : session_manager_free_session m session = .ok m2) :
    m2.modules = m.modules ∧ m2.module_count = m.module_count ∧
    m2.modules_size = m.modules_size ∧ m2.brk = m.brk ∧
    m2.closed_session = m.closed_session ∧ m2.last_access = m.last_access ∧
    m2.last_clean = m.last_clean ∧ m2.warnings = m.warnings := by
  unfold session_manager_free_session at hfree
  cases hs : m.heap session with
  | none => simp [hs] at hfree
  | some s =>
    simp only [hs] at hfree
    cases hd : modules_destroy m.modules s.data m.module_count with
    | error e => simp [hd] at hfree
    | ok calls =>
      simp only [hd] at hfree
      cases hr : hashtable_remove m.heap m.hashtable s.id with
      | error e => simp [hr] at hfree
      | ok r =>
        simp only [hr, free, hs, Except.ok.injEq] at hfree
        subst hfree
        exact ⟨rfl, rfl, rfl, rfl, rfl, rfl, rfl, rfl⟩

theorem free_session_only_frees (m m2 : session_manager_t) (session : Nat)
    (hfree : session_manager_free_session m session = .ok m2) : only_frees m m2 := by
  obtain ⟨s, -, hheap, -, -⟩ := free_session_effect m m2 session hfree
  obtain ⟨h1, h2, h3, h4, -⟩ := free_session_frame m m2 session hfree
  refine ⟨?_, h1, h2, h3, h4⟩
  intro p s2 hp
  rw [hheap] at hp
  by_cases hps : p = session
  · simp [hps] at hp
  · simpa [hps] using hp

/-- The loop of `timer_queue_free` only frees records, and leaves
`closed_session`, `last_access` and `last_clean` as they were. -/
theorem timer_queue_free_loop_only_frees (current_time rounds : Nat) (m m2 : session_manager_t)
    (hrun : timer_queue_free_loop current_time rounds m = .ok m2) :
    only_frees m m2 ∧ m2.closed_session = m.closed_session ∧
    m2.last_access = m.last_access ∧ m2.last_clean = m.last_clean := by
  induction rounds generalizing m with
  | zero =>
    simp only [timer_queue_free_loop] at hrun
    split_ifs at hrun
    simp only [Except.ok.injEq] at hrun
    subst hrun
    exact ⟨only_frees_refl m, rfl, rfl, rfl⟩
  | succ rounds ih =>
    rw [timer_queue_free_loop] at hrun
    by_cases hlo : m.waiting_sessions.lower_idx ≥ SM_TIMER_QUEUE_LENGTH
    · rw [if_pos hlo] at hrun
      cases hrun
    rw [if_neg hlo] at hrun
    by_cases hc : m.waiting_sessions.times m.waiting_sessions.lower_idx < current_time ∧
        m.waiting_sessions.length ≠ 0
    · rw [if_pos hc] at hrun
      cases hq : m.waiting_sessions.sessions m.waiting_sessions.lower_idx with
        | none =>
          simp only [hq] at hrun
          obtain ⟨h1, h2, h3, h4⟩ := ih _ hrun
          refine ⟨only_frees_trans _ _ _ ?_ h1, h2, h3, h4⟩
          exact only_frees_congr _ _ rfl rfl rfl rfl rfl
        | some session =>
          simp only [hq] at hrun
          cases hf : session_manager_free_session m session with
          | error e => simp [hf] at hrun
          | ok m3 =>
            simp only [hf] at hrun
            obtain ⟨h1, h2, h3, h4⟩ := ih _ hrun
            obtain ⟨-, -, -, -, f5, f6, f7, -⟩ := free_session_frame m m3 session hf
            refine ⟨only_frees_trans _ _ _ (free_session_only_frees m m3 session hf)
                (only_frees_trans _ _ _ ?_ h1),
              h2.trans f5, h3.trans f6, h4.trans f7⟩
            exact only_frees_congr _ _ rfl rfl rfl rfl rfl
    · rw [if_neg hc] at hrun
      cases hrun
      exact ⟨only_frees_refl _, rfl, rfl, rfl⟩

/-- From second 60 on, `timer_queue_free` leaves a record as it is when all the
slots that hold it carry a time at most 60 seconds back. -/
theorem timer_queue_free_keeps (m m2 : session_manager_t) (now : Nat) (p : Nat)
    (hnow : 60 ≤ now) (h32 : now < 4294967296)
    (hrecent : ∀ i, m.waiting_sessions.sessions i = some p →
      now ≤ m.waiting_sessions.times i + 60)
    (hrun : timer_queue_free m now = .ok m2) : m2.heap p = m.heap p := by
  unfold timer_queue_free at hrun
  cases hp2 : m2.heap p with
  | some s2 =>
    exact ((timer_queue_free_loop_only_frees _ _ m m2 hrun).1.heap p s2 hp2).symm
  | none =>
    cases hp : m.heap p with
    | none => rfl
    | some s =>
      obtain ⟨i, hi, ht⟩ := timer_queue_free_loop_frees _ _ m m2 hrun p (by simp [hp]) hp2
      have := hrecent i hi
      simp only [SM_TIME_WAIT_TIMEOUT] at ht
      omega

/-- C11, at the failing input. A manager with one module runs scenario 1, all
of whose packets carry second 0: the flow is then in TIME_WAIT, in slot 0 of
the queue with enqueue second 0. The next packet, of another flow, carries
second 1: the call of `timer_queue_free` for second 1 frees the record and
calls the `destroy` of the module, one second after the flow was enqueued. -/
theorem time_wait_expires_before_second_60 :
    session_manager_states 1 (manager_with_modules [{ addr := 7 }]) (scenario1 ++ [stray_ack 1])
      = some [some SYN_SENT, some ESTABLISHED, some ESTABLISHED, some ESTABLISHED,
          some ESTABLISHED, some FIN_WAIT_1, some TIME_WAIT, some TIME_WAIT, none] ∧
    (manager_after 1 (manager_with_modules [{ addr := 7 }]) scenario1).waiting_sessions.sessions 0
      = some 0 ∧
    (manager_after 1 (manager_with_modules [{ addr := 7 }]) scenario1).waiting_sessions.times 0
      = 0 ∧
    ((manager_after 1 (manager_with_modules [{ addr := 7 }]) scenario1).heap 0).map
      (fun s => s.state) = some TIME_WAIT ∧
    packet_seconds (stray_ack 1) = 1 ∧
    ((manager_after 1 (manager_with_modules [{ addr := 7 }])
      (scenario1 ++ [stray_ack 1])).heap 0).isSome = false ∧
    (manager_after 1 (manager_with_modules [{ addr := 7 }])
      (scenario1 ++ [stray_ack 1])).calls.getLast?
      = some (module_call.destroy 0 { addr := 7 } { module := 0, session := 0 }) := by
  refine ⟨by decide, by decide, by decide, by decide, by decide, by decide, by decide⟩


/-! ### The sweeps at the start of `session_manager_update` -/

/-- What `session_manager_free_module_data` leaves as it was. -/
theorem free_module_data_frame (m m2 : session_manager_t) (session : Nat)
    (hfree : session_manager_free_module_data m session = .ok m2) :
    m2.modules = m.modules ∧ m2.module_count = m.module_count ∧
    m2.modules_size = m.modules_size ∧ m2.brk = m.brk ∧
    m2.closed_session = m.closed_session ∧ m2.last_access = m.last_access ∧
    m2.last_clean = m.last_clean ∧ m2.warnings = m.warnings := by
  unfold session_manager_free_module_data at hfree
  cases hs : m.heap session with
  | none => simp [hs] at hfree
  | some s =>
    simp only [hs] at hfree
    by_cases hw : s.waiting = 1
    · simp only [hw, if_true, Except.ok.injEq] at hfree
      subst hfree
      exact ⟨rfl, rfl, rfl, rfl, rfl, rfl, rfl, rfl⟩
    · simp only [hw, if_false] at hfree
      cases hd : modules_destroy m.modules s.data m.module_count with
      | error e => simp [hd] at hfree
      | ok calls =>
        simp only [hd, Except.ok.injEq] at hfree
        subst hfree
        exact ⟨rfl, rfl, rfl, rfl, rfl, rfl, rfl, rfl⟩

/-- What libc `free` leaves as it was. -/
theorem free_frame (m m2 : session_manager_t) (p : Nat) (hfree : free m p = .ok m2) :
    m2.modules = m.modules ∧ m2.module_count = m.module_count ∧
    m2.modules_size = m.modules_size ∧ m2.brk = m.brk ∧
    m2.closed_session = m.closed_session ∧ m2.last_access = m.last_access ∧
    m2.last_clean = m.last_clean ∧ m2.warnings = m.warnings ∧ m2.calls = m.calls := by
  unfold free at hfree
  cases hs : m.heap p with
  | none => simp [hs] at hfree
  | some s =>
    simp only [hs, Except.ok.injEq] at hfree
    subst hfree
    exact ⟨rfl, rfl, rfl, rfl, rfl, rfl, rfl, rfl, rfl⟩

/-- The removal of a session by `session_manager_cleanup` only frees that
session. -/
theorem cleanup_remove_only_frees (m m1 m3 m4 : session_manager_t) (session : Nat)
    (h1 : m1.heap = m.heap) (h2 : m1.modules = m.modules)
    (h3 : m1.module_count = m.module_count) (h4 : m1.modules_size = m.modules_size)
    (h5 : m1.brk = m.brk) (h6 : m1.closed_session = m.closed_session)
    (h7 : m1.last_access = m.last_access) (h8 : m1.last_clean = m.last_clean)
    (hf : session_manager_free_module_data m1 session = .ok m3)
    (hfr : free m3 session = .ok m4) :
    only_frees m m4 ∧ m4.closed_session = m.closed_session ∧
    m4.last_access = m.last_access ∧ m4.last_clean = m.last_clean ∧
    m4.heap session = none ∧ (∀ p, p ≠ session → m4.heap p = m.heap p) := by
  obtain ⟨-, -, hh3⟩ := free_module_data_effect m1 m3 session hf
  obtain ⟨-, -, hh4⟩ := free_effect m3 m4 session hfr
  obtain ⟨a1, a2, a3, a4, a5, a6, a7, -⟩ := free_module_data_frame m1 m3 session hf
  obtain ⟨b1, b2, b3, b4, b5, b6, b7, -, -⟩ := free_frame m3 m4 session hfr
  have hother : ∀ p, p ≠ session → m4.heap p = m.heap p := by
    intro p hp
    rw [hh4]
    simp only [hp, if_false]
    rw [hh3 p hp, h1]
  refine ⟨⟨?_, (b1.trans a1).trans h2, (b2.trans a2).trans h3, (b3.trans a3).trans h4,
    (b4.trans a4).trans h5⟩, (b5.trans a5).trans h6, (b6.trans a6).trans h7,
    (b7.trans a7).trans h8, by rw [hh4]; simp, hother⟩
  intro p s hp
  by_cases hps : p = session
  · rw [hh4] at hp
    simp [hps] at hp
  · rw [hother p hps] at hp
    exact hp

/-- The loop of `session_manager_cleanup` only frees records, and leaves
`closed_session`, `last_access`, `last_clean` and the queue as they were. -/
theorem cleanup_loop_only_frees (last_access fuel : Nat) (m m2 : session_manager_t)
    (itr : hashtable_iterator_t)
    (hrun : session_manager_cleanup_loop last_access fuel m itr = .ok m2) :
    only_frees m m2 ∧ m2.closed_session = m.closed_session ∧
    m2.last_access = m.last_access ∧ m2.last_clean = m.last_clean := by
  induction fuel generalizing m itr with
  | zero => simp [session_manager_cleanup_loop] at hrun
  | succ fuel ih =>
    rw [session_manager_cleanup_loop] at hrun
    cases hn : hashtable_iterator_next m.hashtable itr with
    | error e => simp [hn] at hrun
    | ok r =>
      obtain ⟨itr2, found⟩ := r
      cases found with
      | none =>
        simp only [hn, Except.ok.injEq] at hrun
        subst hrun
        exact ⟨only_frees_refl _, rfl, rfl, rfl⟩
      | some session =>
        simp only [hn] at hrun
        cases hs : m.heap session with
        | none => simp [hs] at hrun
        | some s =>
          simp only [hs] at hrun
          by_cases hc : (s.state = SYN_RCVD ∨ s.state = SYN_SENT) ∧
              (last_access + 256 - s.last_access % 256) % 256 > SM_TCP_SYN_TIMEOUT
          · simp only [hc.1, hc.2, if_true] at hrun
            obtain ⟨rest, hdrop⟩ := hashtable_iterator_next_some _ _ _ _ hn
            simp only [hashtable_iterator_remove, hdrop] at hrun
            cases hf : session_manager_free_module_data { m with hashtable :=
                { arr := fun i =>
                    if i = itr2.entry_bucket then
                      (m.hashtable.arr itr2.entry_bucket).eraseIdx itr2.entry_link
                    else m.hashtable.arr i } } session with
            | error e => simp [hf] at hrun
            | ok m3 =>
              simp only [hf] at hrun
              cases hfr : free m3 session with
              | error e => simp [hfr] at hrun
              | ok m4 =>
                simp only [hfr] at hrun
                obtain ⟨c1, c2, c3, c4, -, -⟩ := cleanup_remove_only_frees m
                  { m with hashtable :=
                    { arr := fun i =>
                        if i = itr2.entry_bucket then
                          (m.hashtable.arr itr2.entry_bucket).eraseIdx itr2.entry_link
                        else m.hashtable.arr i } } m3 m4 session
                  rfl rfl rfl rfl rfl rfl rfl rfl hf hfr
                obtain ⟨d1, d2, d3, d4⟩ := ih m4 itr2 hrun
                exact ⟨only_frees_trans _ _ _ c1 d1, d2.trans c2, d3.trans c3, d4.trans c4⟩
          · have hrun2 : session_manager_cleanup_loop last_access fuel m itr2 = .ok m2 := by
              by_cases h1 : s.state = SYN_RCVD ∨ s.state = SYN_SENT
              · have h2 : ¬ (last_access + 256 - s.last_access % 256) % 256
                    > SM_TCP_SYN_TIMEOUT := fun x => hc ⟨h1, x⟩
                simpa only [h1, h2, if_true, if_false] using hrun
              · simpa only [h1, if_false] using hrun
            exact ih m itr2 hrun2

/-- The three steps of the sweeps: the sweep of the queue, with state `m1`
after it, the release of the session closed by the previous call, with state
`m3` after it, and the cleanup. -/
theorem sweeps_phases (fuel : Nat) (m swept : session_manager_t) (current_time : Nat)
    (hrun : session_manager_update_sweeps fuel m current_time = .ok swept) :
    ∃ m1 m3,
      (if current_time ≠ m.last_access then
          timer_queue_free { m with last_access := current_time } current_time
        else .ok m) = .ok m1 ∧
      ((m1.closed_session = none ∧ m3 = m1) ∨
        ∃ c s, m1.closed_session = some c ∧ m1.heap c = some s ∧
          ((s.waiting = 0 ∧ ∃ m2, session_manager_free_session m1 c = .ok m2 ∧
              m3 = { m2 with closed_session := none }) ∨
           (s.waiting ≠ 0 ∧ m3 = { m1 with closed_session := none }))) ∧
      (if (current_time + 4294967296 - m3.last_clean) % 4294967296 > SM_TCP_SYN_TIMEOUT then
          session_manager_cleanup fuel { m3 with last_clean := current_time }
        else .ok m3) = .ok swept := by
  unfold session_manager_update_sweeps at hrun
  simp only at hrun
  cases h1 : (if current_time ≠ m.last_access then
      timer_queue_free { m with last_access := current_time } current_time
    else Except.ok m) with
  | error e => simp [h1] at hrun
  | ok m1 =>
    simp only [h1] at hrun
    refine ⟨m1, ?_⟩
    have step2 : ∀ r : Except fault session_manager_t,
        r = (match m1.closed_session with
          | none => .ok m1
          | some closed =>
            match m1.heap closed with
            | none => .error fault.undefined_behaviour
            | some c =>
              if c.waiting = 0 then
                match session_manager_free_session m1 closed with
                | .error e => .error e
                | .ok manager => .ok { manager with closed_session := none }
              else .ok { m1 with closed_session := none }) →
        ∀ m3, r = .ok m3 →
          ((m1.closed_session = none ∧ m3 = m1) ∨
            ∃ c s, m1.closed_session = some c ∧ m1.heap c = some s ∧
              ((s.waiting = 0 ∧ ∃ m2, session_manager_free_session m1 c = .ok m2 ∧
                  m3 = { m2 with closed_session := none }) ∨
               (s.waiting ≠ 0 ∧ m3 = { m1 with closed_session := none }))) := by
      intro r hr m3 hm3
      rw [hr] at hm3
      cases hc : m1.closed_session with
      | none =>
        simp only [hc, Except.ok.injEq] at hm3
        exact Or.inl ⟨rfl, hm3.symm⟩
      | some c =>
        simp only [hc] at hm3
        cases hs : m1.heap c with
        | none => simp [hs] at hm3
        | some s =>
          simp only [hs] at hm3
          by_cases hw : s.waiting = 0
          · simp only [hw, if_true] at hm3
            cases hf : session_manager_free_session m1 c with
            | error e => simp [hf] at hm3
            | ok m2 =>
              simp only [hf, Except.ok.injEq] at hm3
              exact Or.inr ⟨c, s, rfl, hs, Or.inl ⟨hw, m2, hf, hm3.symm⟩⟩
          · simp only [hw, if_false, Except.ok.injEq] at hm3
            exact Or.inr ⟨c, s, rfl, hs, Or.inr ⟨hw, hm3.symm⟩⟩
    split at hrun
    · cases hrun
    · rename_i m3 h3
      exact ⟨m3, rfl, step2 _ rfl m3 h3, hrun⟩

/-- The sweeps only free records; afterwards no closed session is pending,
`last_access` is the second of the call, no cleanup is due, and the session
that the previous call closed is freed unless its `waiting` is not 0. -/
theorem sweeps_only_frees (fuel : Nat) (m swept : session_manager_t) (current_time : Nat)
    (hrun : session_manager_update_sweeps fuel m current_time = .ok swept) :
    only_frees m swept ∧ swept.closed_session = none ∧ swept.last_access = current_time ∧
    (current_time + 4294967296 - swept.last_clean) % 4294967296 ≤ 60 ∧
    (∀ c s, m.closed_session = some c → m.heap c = some s → s.waiting = 0 →
      swept.heap c = none) := by
  obtain ⟨m1, m3, h1, h2, h3⟩ := sweeps_phases fuel m swept current_time hrun
  have p1 : only_frees m m1 ∧ m1.closed_session = m.closed_session ∧
      m1.last_access = current_time ∧ m1.last_clean = m.last_clean := by
    by_cases hct : current_time ≠ m.last_access
    · rw [if_pos hct] at h1
      unfold timer_queue_free at h1
      obtain ⟨a1, a2, a3, a4⟩ := timer_queue_free_loop_only_frees _ _ _ m1 h1
      refine ⟨only_frees_trans _ _ _ ?_ a1, a2, a3, a4⟩
      exact only_frees_congr _ _ rfl rfl rfl rfl rfl
    · rw [if_neg hct] at h1
      cases h1
      exact ⟨only_frees_refl _, rfl, (not_not.mp hct).symm, rfl⟩
  have p2 : only_frees m1 m3 ∧ m3.closed_session = none ∧ m3.last_access = m1.last_access ∧
      m3.last_clean = m1.last_clean ∧
      (∀ c s, m1.closed_session = some c → m1.heap c = some s → s.waiting = 0 →
        m3.heap c = none) := by
    rcases h2 with ⟨hc, e⟩ | ⟨c, s, hc, hs, ⟨hw, m2, hf, e⟩ | ⟨hw, e⟩⟩
    · subst e
      refine ⟨only_frees_refl _, hc, rfl, rfl, ?_⟩
      intro c s h
      rw [hc] at h
      cases h
    · subst e
      obtain ⟨-, -, -, -, f5, f6, f7, -⟩ := free_session_frame m1 m2 c hf
      obtain ⟨s', -, hheap, -, -⟩ := free_session_effect m1 m2 c hf
      refine ⟨only_frees_trans _ _ _ (free_session_only_frees m1 m2 c hf) ?_, rfl, f6, f7, ?_⟩
      · exact only_frees_congr _ _ rfl rfl rfl rfl rfl
      · intro c2 s2 hc2 _ _
        rw [hc] at hc2
        cases hc2
        show m2.heap c = none
        rw [hheap]
        simp
    · subst e
      refine ⟨only_frees_congr _ _ rfl rfl rfl rfl rfl, rfl, rfl, rfl, ?_⟩
      intro c2 s2 hc2 hs2 hw2
      rw [hc] at hc2
      cases hc2
      rw [hs] at hs2
      cases hs2
      exact absurd hw2 hw
  have p3 : only_frees m3 swept ∧ swept.closed_session = m3.closed_session ∧
      swept.last_access = m3.last_access ∧
      (current_time + 4294967296 - swept.last_clean) % 4294967296 ≤ 60 := by
    by_cases hcl : (current_time + 4294967296 - m3.last_clean) % 4294967296
        > SM_TCP_SYN_TIMEOUT
    · rw [if_pos hcl] at h3
      unfold session_manager_cleanup at h3
      obtain ⟨a1, a2, a3, a4⟩ := cleanup_loop_only_frees _ _ _ swept _ h3
      refine ⟨only_frees_trans _ _ _ ?_ a1, a2, a3, ?_⟩
      · exact only_frees_congr _ _ rfl rfl rfl rfl rfl
      · rw [a4]
        show (current_time + 4294967296 - current_time) % 4294967296 ≤ 60
        have : current_time + 4294967296 - current_time = 4294967296 := by omega
        rw [this]
        decide
    · rw [if_neg hcl] at h3
      cases h3
      refine ⟨only_frees_refl _, rfl, rfl, ?_⟩
      simp only [SM_TCP_SYN_TIMEOUT] at hcl
      omega
  obtain ⟨a1, a2, a3, a4⟩ := p1
  obtain ⟨b1, b2, b3, b4, b5⟩ := p2
  obtain ⟨c1, c2, c3, c4⟩ := p3
  refine ⟨only_frees_trans _ _ _ a1 (only_frees_trans _ _ _ b1 c1), c2.trans b2,
    (c3.trans b3).trans a3, c4, ?_⟩
  intro c s hc hs hw
  cases hsw : swept.heap c with
  | none => rfl
  | some s2 =>
    have h3' := c1.heap c s2 hsw
    have h1' := b1.heap c s2 h3'
    have h0 := a1.heap c s2 h1'
    rw [hs] at h0
    cases h0
    rw [b5 c s (a2.trans hc) h1' hw] at h3'
    cases h3'

/-! ### The grace of one call for closed sessions -/

theorem grace_after_mono (m : session_manager_t) (r : Option Nat) (h : grace_after m none) :
    grace_after m r := by
  intro p s hp
  refine ⟨(h p s hp).1, fun hc => ?_⟩
  rcases (h p s hp).2 hc with hw | ⟨-, e⟩
  · exact Or.inl hw
  · cases e

theorem closed_grace_of_after (m : session_manager_t) (r : Option Nat) (h : grace_after m r) :
    closed_grace m := by
  intro p s hp
  refine ⟨(h p s hp).1, fun hc => ?_⟩
  rcases (h p s hp).2 hc with hw | ⟨e, -⟩
  · exact Or.inl hw
  · exact Or.inr e

/-- A step that only frees records and leaves no closed session pending. -/
theorem grace_after_only_frees (m m2 : session_manager_t) (h : grace_after m none)
    (hf : only_frees m m2) : grace_after m2 none := by
  intro p s hp
  have hm := h p s (hf.heap p s hp)
  refine ⟨hm.1, fun hc => ?_⟩
  rcases hm.2 hc with hw | ⟨-, e⟩
  · exact Or.inl hw
  · cases e

/-- After the sweeps every record in state CLOSED or RESET has `waiting`
set. -/
theorem sweeps_grace (fuel : Nat) (m swept : session_manager_t) (current_time : Nat)
    (h : closed_grace m)
    (hrun : session_manager_update_sweeps fuel m current_time = .ok swept) :
    grace_after swept none := by
  obtain ⟨hf, -, -, -, hrel⟩ := sweeps_only_frees fuel m swept current_time hrun
  intro p s hp
  have hm := h p s (hf.heap p s hp)
  refine ⟨hm.1, fun hc => ?_⟩
  rcases hm.2 hc with hw | hcl
  · exact Or.inl hw
  · by_cases hw : s.waiting = 1
    · exact Or.inl hw
    · have h0 : s.waiting = 0 := by
        have := hm.1
        omega
      rw [hrel p s hcl (hf.heap p s hp) h0] at hp
      cases hp

/-- Rewriting a record into one that is not in state CLOSED or RESET unless
`waiting` is set. -/
theorem store_grace (m : session_manager_t) (q : Nat) (s2 : tcp_session_t) (r : Option Nat)
    (h : grace_after m none) (hw : s2.waiting ≤ 1)
    (hc : (s2.state = CLOSED ∨ s2.state = RESET) → s2.waiting = 1) :
    grace_after (store m q s2) r := by
  intro p s hp
  by_cases hpq : p = q
  · subst hpq
    simp only [store_heap_same, Option.some.injEq] at hp
    subst hp
    exact ⟨hw, fun x => Or.inl (hc x)⟩
  · rw [store_heap_other m q p s2 hpq] at hp
    exact grace_after_mono m r h p s hp

/-- Rewriting a record and recording it as `closed_session`. -/
theorem store_closed_grace (m m2 : session_manager_t) (q : Nat) (s2 : tcp_session_t)
    (h : grace_after m none) (hw : s2.waiting ≤ 1)
    (hheap : m2.heap = (store m q s2).heap) (hcl : m2.closed_session = some q) :
    grace_after m2 (some q) := by
  intro p s hp
  rw [hheap] at hp
  by_cases hpq : p = q
  · subst hpq
    simp only [store_heap_same, Option.some.injEq] at hp
    subst hp
    exact ⟨hw, fun _ => Or.inr ⟨hcl, rfl⟩⟩
  · rw [store_heap_other m q p s2 hpq] at hp
    refine ⟨(h p s hp).1, fun x => ?_⟩
    rcases (h p s hp).2 x with hw2 | ⟨-, e⟩
    · exact Or.inl hw2
    · cases e

/-- States with the same records and the same `closed_session`. -/
theorem grace_after_congr (m m2 : session_manager_t) (r : Option Nat) (h : grace_after m r)
    (h1 : m2.heap = m.heap) (h2 : m2.closed_session = m.closed_session) : grace_after m2 r := by
  intro p s hp
  rw [h1] at hp
  rw [h2]
  exact h p s hp

/-- What `timer_queue_add` leaves as it was. -/
theorem timer_queue_add_frame (m m2 : session_manager_t) (session time : Nat)
    (hadd : timer_queue_add m session time = .ok m2) :
    m2.heap = m.heap ∧ m2.hashtable = m.hashtable ∧ m2.closed_session = m.closed_session ∧
    m2.modules = m.modules ∧ m2.module_count = m.module_count ∧
    m2.modules_size = m.modules_size ∧ m2.brk = m.brk ∧ m2.last_access = m.last_access ∧
    m2.last_clean = m.last_clean ∧ m2.calls = m.calls := by
  unfold timer_queue_add at hadd
  simp only at hadd
  split_ifs at hadd
  all_goals
    simp only [Except.ok.injEq] at hadd
    subst hadd
    exact ⟨rfl, rfl, rfl, rfl, rfl, rfl, rfl, rfl, rfl, rfl⟩

/-- The loop of `timer_queue_free_early` only frees records, and leaves
`closed_session`, `last_access` and `last_clean` as they were. -/
theorem timer_queue_free_early_loop_only_frees (session rounds i : Nat)
    (m m2 : session_manager_t)
    (hrun : timer_queue_free_early_loop session rounds i m = .ok m2) :
    only_frees m m2 ∧ m2.closed_session = m.closed_session ∧
    m2.last_access = m.last_access ∧ m2.last_clean = m.last_clean := by
  induction rounds generalizing i with
  | zero =>
    simp only [timer_queue_free_early_loop, Except.ok.injEq] at hrun
    subst hrun
    exact ⟨only_frees_refl _, rfl, rfl, rfl⟩
  | succ rounds ih =>
    rw [timer_queue_free_early_loop] at hrun
    split_ifs at hrun
    all_goals
      split at hrun
      · exact ih _ hrun
      · split at hrun
        · split_ifs at hrun with heq
          · obtain ⟨-, -, -, -, f5, f6, f7, -⟩ := free_session_frame _ m2 session hrun
            refine ⟨only_frees_trans _ _ _ ?_ (free_session_only_frees _ m2 session hrun),
              f5, f6, f7⟩
            exact only_frees_congr _ _ rfl rfl rfl rfl rfl
          · exact ih _ hrun
        · cases hrun

/-- The RST test and the switch over the state, from a state in which no
closed session is pending. -/
theorem update_state_grace (m m2 : session_manager_t) (current_time : Nat) (direction : Int)
    (ip : libtrace_ip) (tcp : libtrace_tcp) (session : Nat) (again : Bool)
    (h : grace_after m none)
    (hrun : session_manager_update_state m current_time direction ip tcp session
      = .ok (m2, again)) :
    grace_after m2 (some session) ∧ (again = true → grace_after m2 none) := by
  unfold session_manager_update_state at hrun
  cases hs : m.heap session with
  | none => simp [hs] at hrun
  | some s0 =>
    have hs0 := h session s0 hs
    simp only [hs] at hrun
    by_cases hrst : tcp.rst = true
    · simp only [hrst, if_true, Except.ok.injEq, Prod.mk.injEq] at hrun
      obtain ⟨hm2, hag⟩ := hrun
      subst hm2
      subst hag
      exact ⟨store_closed_grace m _ session { s0 with state := RESET } h hs0.1 rfl rfl,
        fun e => Bool.noConfusion e⟩
    · have hrst2 : tcp.rst = false := by simpa using hrst
      simp only [hrst2, Bool.false_eq_true, if_false] at hrun
      cases hst : s0.state <;> simp only [hst] at hrun
      all_goals
        try split_ifs at hrun
      all_goals
        first
        | (simp only [Except.ok.injEq, Prod.mk.injEq] at hrun
           obtain ⟨hm2, hag⟩ := hrun
           subst hm2
           subst hag
           refine ⟨?_, fun e => Bool.noConfusion e⟩
           first
           | exact grace_after_mono _ _ h
           | exact store_grace m session _ _ h (by exact hs0.1) (by simp)
           | exact store_grace m session _ _ h (by exact hs0.1) (by simpa [hst] using hs0.2)
           | exact store_closed_grace m _ session { s0 with state := CLOSED } h hs0.1 rfl rfl)
        | (split at hrun
           · cases hrun
           · rename_i m3 hadd
             simp only [Except.ok.injEq, Prod.mk.injEq] at hrun
             obtain ⟨hm2, hag⟩ := hrun
             subst hm2
             first
             | (have hf := timer_queue_free_early_loop_only_frees _ _ _ m m3 hadd
                have hg : grace_after m3 none := grace_after_only_frees m m3 h hf.1
                exact ⟨grace_after_mono _ _ hg, fun _ => hg⟩)
             | (have hf := timer_queue_add_frame _ _ _ _ hadd
                have hg : grace_after m3 none :=
                  grace_after_congr _ _ _
                    (store_grace m session { s0 with state := TIME_WAIT, waiting := 1 } none h
                      (by simp) (by simp)) hf.1 hf.2.2.1
                exact ⟨grace_after_mono _ _ hg, fun _ => hg⟩))

/-- The creation of a flow, from a state in which no closed session is
pending. -/
theorem update_new_grace (m m2 : session_manager_t) (ip : libtrace_ip) (tcp : libtrace_tcp)
    (id : tcp_session_id_t) (direction : Int) (r : Option Nat) (h : grace_after m none)
    (hrun : session_manager_update_new m ip tcp id direction = .ok (m2, r)) :
    grace_after m2 none := by
  unfold session_manager_update_new at hrun
  by_cases hb : (tcp.syn && !tcp.ack) = true
  · rw [if_pos hb] at hrun
    simp only at hrun
    cases hc : modules_create m.modules m.brk m.module_count with
    | error e => simp [hc] at hrun
    | ok dc =>
      obtain ⟨data, calls⟩ := dc
      simp only [hc, hashtable_insert, store_heap_same, Except.ok.injEq, Prod.mk.injEq] at hrun
      obtain ⟨hm2, -⟩ := hrun
      subst hm2
      intro p s hp
      by_cases hpb : p = m.brk
      · subst hpb
        simp only [store, if_true, Option.some.injEq] at hp
        subst hp
        refine ⟨Nat.zero_le 1, fun hcl => ?_⟩
        simp only at hcl
        split_ifs at hcl <;> simp at hcl
      · simp only [store, hpb, if_false] at hp
        exact h p s hp
  · rw [if_neg hb] at hrun
    simp only [Except.ok.injEq, Prod.mk.injEq] at hrun
    obtain ⟨hm2, -⟩ := hrun
    subst hm2
    exact h

/-- The delivery to the modules returns the session given and changes only
its `last_access`. -/
theorem deliver_grace (m m2 : session_manager_t) (packet : libtrace_packet_t) (t : Nat)
    (session r r2 : Option Nat) (h : grace_after m r2)
    (hrun : session_manager_update_deliver m packet t session = .ok (m2, r)) :
    r = session ∧ grace_after m2 r2 := by
  unfold session_manager_update_deliver at hrun
  cases session with
  | none =>
    simp only [Except.ok.injEq, Prod.mk.injEq] at hrun
    obtain ⟨h1, h2⟩ := hrun
    subst h1
    exact ⟨h2.symm, h⟩
  | some p =>
    simp only at hrun
    cases hs : m.heap p with
    | none => simp [hs] at hrun
    | some s =>
      simp only [hs] at hrun
      cases hu : modules_update m.modules s.data packet m.module_count with
      | error e => simp [hu] at hrun
      | ok calls =>
        simp only [hu, Except.ok.injEq, Prod.mk.injEq] at hrun
        obtain ⟨hm2, hr⟩ := hrun
        subst hm2
        refine ⟨hr.symm, ?_⟩
        intro q t2 hq
        by_cases hqp : q = p
        · subst hqp
          simp only [store, if_true, Option.some.injEq] at hq
          subst hq
          exact h q s hs
        · simp only [store, hqp, if_false] at hq
          exact h q t2 hq

/-- After a call of `session_manager_update`, a record in state CLOSED or
RESET has `waiting` set or is the session that the call closed and
returned. -/
theorem update_grace (fuel : Nat) (m m2 : session_manager_t) (packet : libtrace_packet_t)
    (r : Option Nat) (h : closed_grace m)
    (hrun : session_manager_update fuel m packet = .ok (m2, r)) : grace_after m2 r := by
  induction fuel generalizing m with
  | zero => simp [session_manager_update] at hrun
  | succ fuel ih =>
    rw [session_manager_update] at hrun
    simp only at hrun
    cases hsw : session_manager_update_sweeps fuel m (packet_seconds packet) with
    | error e => simp [hsw] at hrun
    | ok m1 =>
      have hg1 := sweeps_grace fuel m m1 _ h hsw
      simp only [hsw] at hrun
      cases hip : packet.ip with
      | none =>
        simp only [hip, Except.ok.injEq, Prod.mk.injEq] at hrun
        obtain ⟨hm2, hr⟩ := hrun
        subst hm2
        exact grace_after_mono _ _ hg1
      | some ip =>
        cases htcp : packet.tcp with
        | none =>
          simp only [hip, htcp, Except.ok.injEq, Prod.mk.injEq] at hrun
          obtain ⟨hm2, hr⟩ := hrun
          subst hm2
          exact grace_after_mono _ _ hg1
        | some tcp =>
          simp only [hip, htcp] at hrun
          cases hfind : hashtable_retrieve m1.heap m1.hashtable (session_id_of ip tcp) with
          | error e => simp [hfind] at hrun
          | ok found =>
            cases found with
            | none =>
              simp only [hfind] at hrun
              cases hnew : session_manager_update_new m1 ip tcp (session_id_of ip tcp)
                  packet.direction with
              | error e => simp [hnew] at hrun
              | ok mr =>
                obtain ⟨m3, session⟩ := mr
                simp only [hnew] at hrun
                exact grace_after_mono _ _ (deliver_grace m3 m2 packet _ session r none
                  (update_new_grace m1 m3 ip tcp _ _ session hg1 hnew) hrun).2
            | some session =>
              simp only [hfind] at hrun
              cases hst : session_manager_update_state m1 (packet_seconds packet)
                  packet.direction ip tcp session with
              | error e => simp [hst] at hrun
              | ok mr =>
                obtain ⟨m3, again⟩ := mr
                obtain ⟨hg3, hg3'⟩ := update_state_grace m1 m3 _ _ ip tcp session again hg1 hst
                cases again with
                | true =>
                  simp only [hst] at hrun
                  exact ih m3 (closed_grace_of_after m3 none (hg3' rfl)) hrun
                | false =>
                  simp only [hst] at hrun
                  obtain ⟨hr, hg⟩ := deliver_grace m3 m2 packet _ (some session) r
                    (some session) hg3 hrun
                  rw [hr]
                  exact hg

/-- Between the calls of the API, a record in state CLOSED or RESET has
`waiting` set or is `closed_session`. -/
theorem reachable_grace (m : session_manager_t) (h : Reachable m) : closed_grace m := by
  induction h with
  | create =>
    intro p s hp
    simp [session_manager_create] at hp
  | register m module m2 index _ hrun ih =>
    unfold session_manager_register_module at hrun
    simp only at hrun
    split_ifs at hrun
    all_goals
      simp only [Except.ok.injEq, Prod.mk.injEq] at hrun
      obtain ⟨hm2, -⟩ := hrun
      subst hm2
      exact ih
  | update fuel m packet m2 session _ hrun ih =>
    exact closed_grace_of_after m2 session (update_grace fuel m m2 packet session ih hrun)

/-- The calls that `session_manager_free_session` makes. -/
theorem free_session_calls_eq (m m2 : session_manager_t) (session : Nat)
    (hfree : session_manager_free_session m session = .ok m2) :
    ∃ s dcalls, m.heap session = some s ∧
      modules_destroy m.modules s.data m.module_count = .ok dcalls ∧
      m2.calls = m.calls ++ dcalls := by
  unfold session_manager_free_session at hfree
  cases hs : m.heap session with
  | none => simp [hs] at hfree
  | some s =>
    simp only [hs] at hfree
    cases hd : modules_destroy m.modules s.data m.module_count with
    | error e => simp [hd] at hfree
    | ok calls =>
      simp only [hd] at hfree
      cases hr : hashtable_remove m.heap m.hashtable s.id with
      | error e => simp [hr] at hfree
      | ok r =>
        simp only [hr, free, hs, Except.ok.injEq] at hfree
        subst hfree
        exact ⟨s, calls, rfl, hd, rfl⟩

/-- The sweeps free the session that the previous call closed, when its
`waiting` is 0: its record is gone, no node of the index points to it, and the
`destroy` functions have been called on its data. -/
theorem sweeps_release (fuel : Nat) (m swept : session_manager_t) (current_time : Nat)
    (c : Nat) (s : tcp_session_t) (hwf : manager_wf m) (hc : m.closed_session = some c)
    (hs : m.heap c = some s) (hw : s.waiting = 0)
    (hrun : session_manager_update_sweeps fuel m current_time = .ok swept) :
    swept.heap c = none ∧ (∀ b, c ∉ swept.hashtable.arr b) ∧ swept.closed_session = none ∧
    ∃ pre dcalls post, modules_destroy m.modules s.data m.module_count = .ok dcalls ∧
      swept.calls = m.calls ++ pre ++ dcalls ++ post := by
  obtain ⟨-, hcl, -, -, hrel⟩ := sweeps_only_frees fuel m swept current_time hrun
  have hdead := hrel c s hc hs hw
  have hwf2 := sweeps_wf fuel m swept current_time hwf hrun
  refine ⟨hdead, ?_, hcl, ?_⟩
  · intro b hb
    obtain ⟨t, ht, -⟩ := hwf2.alive b c hb
    rw [hdead] at ht
    cases ht
  · obtain ⟨m1, m3, h1, h2, h3⟩ := sweeps_phases fuel m swept current_time hrun
    have p1 : only_frees m m1 ∧ m1.closed_session = m.closed_session ∧
        ∃ pre, m1.calls = m.calls ++ pre := by
      by_cases hct : current_time ≠ m.last_access
      · rw [if_pos hct] at h1
        unfold timer_queue_free at h1
        obtain ⟨a1, a2, -, -⟩ := timer_queue_free_loop_only_frees _ _ _ m1 h1
        obtain ⟨pre, hpre, -⟩ := timer_queue_free_loop_calls _ _ _ m1 h1
        refine ⟨only_frees_trans _ _ _ ?_ a1, a2, pre, hpre⟩
        exact only_frees_congr _ _ rfl rfl rfl rfl rfl
      · rw [if_neg hct] at h1
        cases h1
        exact ⟨only_frees_refl _, rfl, [], by simp⟩
    obtain ⟨a1, a2, pre, hpre⟩ := p1
    have p3 : ∃ post, swept.calls = m3.calls ++ post := by
      by_cases hcc : (current_time + 4294967296 - m3.last_clean) % 4294967296
          > SM_TCP_SYN_TIMEOUT
      · rw [if_pos hcc] at h3
        unfold session_manager_cleanup at h3
        obtain ⟨post, hpost, -⟩ := cleanup_loop_calls _ _ _ swept _ h3
        exact ⟨post, hpost⟩
      · rw [if_neg hcc] at h3
        cases h3
        exact ⟨[], by simp⟩
    obtain ⟨post, hpost⟩ := p3
    rcases h2 with ⟨hnone, -⟩ | ⟨c2, s2, hc2, hs2, ⟨-, m2, hf, e⟩ | ⟨hw2, e⟩⟩
    · rw [a2, hc] at hnone
      cases hnone
    · rw [a2, hc] at hc2
      cases hc2
      have hs' := a1.heap c s2 hs2
      rw [hs] at hs'
      cases hs'
      obtain ⟨s3, dcalls, hs3, hd, hcalls⟩ := free_session_calls_eq m1 m2 c hf
      rw [hs2] at hs3
      cases hs3
      refine ⟨pre, dcalls, post, ?_, ?_⟩
      · rw [← a1.modules, ← a1.module_count]
        exact hd
      · rw [hpost, e]
        show m2.calls ++ post = _
        rw [hcalls, hpre]
    · rw [a2, hc] at hc2
      cases hc2
      have hs' := a1.heap c s2 hs2
      rw [hs] at hs'
      cases hs'
      exact absurd hw hw2

/-- C13, as the code has it. After every call of `session_manager_update` on a
reachable manager, a live record whose state is CLOSED or RESET either has its
`waiting` flag set (it was reset while in the TIME_WAIT queue, and stays until
the queue frees it) or is the session that this call recorded as
`closed_session` and returned. The sweeps of the next call free such a closed
session whose `waiting` is not set before the lookup: its record is gone, no
node of the index points to it, `closed_session` is `NULL` again, and the
`destroy` functions have been called on its data. So after a call that closed
no session, every record in state CLOSED or RESET has `waiting` set. -/
theorem closed_flows_grace (m : session_manager_t) (h : Reachable m) (fuel : Nat)
    (packet : libtrace_packet_t) (m2 : session_manager_t) (r : Option Nat)
    (hrun : session_manager_update fuel m packet = .ok (m2, r)) :
    (∀ p s, m2.heap p = some s → (s.state = CLOSED ∨ s.state = RESET) →
      s.waiting = 1 ∨ (m2.closed_session = some p ∧ r = some p)) ∧
    (∀ c s fuel2 second swept, m2.closed_session = some c → m2.heap c = some s →
      s.waiting ≠ 1 →
      session_manager_update_sweeps fuel2 m2 second = .ok swept →
      swept.heap c = none ∧ (∀ b, c ∉ swept.hashtable.arr b) ∧
      swept.closed_session = none ∧
      ∃ pre dcalls post, modules_destroy m2.modules s.data m2.module_count = .ok dcalls ∧
        swept.calls = m2.calls ++ pre ++ dcalls ++ post) ∧
    (m2.closed_session = none →
      ∀ p s, m2.heap p = some s → (s.state = CLOSED ∨ s.state = RESET) → s.waiting = 1) := by
  have hg := update_grace fuel m m2 packet r (reachable_grace m h) hrun
  have hwf2 := update_wf fuel m m2 packet r (reachable_wf m h) hrun
  refine ⟨fun p s hp => (hg p s hp).2, ?_, ?_⟩
  · intro c s fuel2 second swept hc hs hw hsw
    have h0 : s.waiting = 0 := by
      have := (hg c s hs).1
      omega
    exact sweeps_release fuel2 m2 swept second c s hwf2 hc hs h0 hsw
  · intro hnone p s hp hcl
    rcases (hg p s hp).2 hcl with hw | ⟨e, -⟩
    · exact hw
    · rw [hnone] at e
      cases e

/-- C13, witness: an RST on the flow of scenario 1 right after its handshake.
The call returns the flow, which is now in state RESET with `waiting` clear and
is the `closed_session` of the manager. -/
theorem closed_flows_grace_witness :
    Reachable (manager_after 1 session_manager_create (scenario1.take 2)) ∧
    session_manager_update 1 (manager_after 1 session_manager_create (scenario1.take 2))
      handshake_reset
      = .ok (manager_after 1 session_manager_create (scenario1.take 2 ++ [handshake_reset]),
          some 0) ∧
    ∃ s, (manager_after 1 session_manager_create
        (scenario1.take 2 ++ [handshake_reset])).heap 0 = some s ∧
      s.state = RESET ∧ s.waiting = 0 ∧
      (manager_after 1 session_manager_create
        (scenario1.take 2 ++ [handshake_reset])).closed_session = some 0 := by
  have hr : Reachable (manager_after 1 session_manager_create (scenario1.take 2)) :=
    manager_after_reachable 1 _ _ Reachable.create
  have hrun : session_manager_update 1
      (manager_after 1 session_manager_create (scenario1.take 2)) handshake_reset
      = .ok (manager_after 1 session_manager_create (scenario1.take 2 ++ [handshake_reset]),
          some 0) := by rfl
  obtain ⟨s, hs⟩ : ∃ s, (manager_after 1 session_manager_create
      (scenario1.take 2 ++ [handshake_reset])).heap 0 = some s :=
    Option.isSome_iff_exists.mp (by decide)
  have hst : ((manager_after 1 session_manager_create
      (scenario1.take 2 ++ [handshake_reset])).heap 0).map (fun s => (s.state, s.waiting))
      = some (RESET, 0) := by decide
  simp only [hs, Option.map_some', Option.some.injEq, Prod.mk.injEq] at hst
  have h1 := (closed_flows_grace _ hr 1 handshake_reset _ (some 0) hrun).1 0 s hs
    (Or.inr hst.1)
  refine ⟨hr, hrun, s, hs, hst.1, hst.2, ?_⟩
  rcases h1 with hw | ⟨hc, -⟩
  · rw [hst.2] at hw
    cases hw
  · exact hc

/-- C13, counterexample: scenario 1, then an RST on the flow, which is in
TIME_WAIT, then a packet of another flow. The call for the RST returns the
flow in state RESET; the call for the last packet returns `NULL`, and after it
the record is still live and in the index, in state RESET with `waiting` set,
and no closed session is pending: the flow was neither closed nor returned by
that call, and the call after the one that closed it has not removed it. -/
theorem reset_flow_outlives_grace :
    session_manager_states 1 session_manager_create scenario1_reset
      = some [some SYN_SENT, some ESTABLISHED, some ESTABLISHED, some ESTABLISHED,
          some ESTABLISHED, some FIN_WAIT_1, some TIME_WAIT, some TIME_WAIT, some RESET,
          none] ∧
    ((manager_after 1 session_manager_create scenario1_reset).heap 0).map
      (fun s => (s.state, s.waiting)) = some (RESET, 1) ∧
    hashtable_retrieve (manager_after 1 session_manager_create scenario1_reset).heap
      (manager_after 1 session_manager_create scenario1_reset).hashtable flow_a
      = .ok (some 0) ∧
    (manager_after 1 session_manager_create scenario1_reset).closed_session = none ∧
    ¬ (∀ p s, (manager_after 1 session_manager_create scenario1_reset).heap p = some s →
        (s.state = CLOSED ∨ s.state = RESET) →
        (manager_after 1 session_manager_create scenario1_reset).closed_session = some p) := by
  have hst : ((manager_after 1 session_manager_create scenario1_reset).heap 0).map
      (fun s => (s.state, s.waiting)) = some (RESET, 1) := by decide
  have hcl : (manager_after 1 session_manager_create scenario1_reset).closed_session = none := by
    decide
  refine ⟨by decide, hst, by rfl, hcl, ?_⟩
  intro hall
  cases hs : (manager_after 1 session_manager_create scenario1_reset).heap 0 with
  | none => simp [hs] at hst
  | some s =>
    simp only [hs, Option.map_some', Option.some.injEq, Prod.mk.injEq] at hst
    have := hall 0 s hs (Or.inr hst.1)
    rw [hcl] at this
    cases this


/-! ### Registration -/

theorem data_kept_refl (m : session_manager_t) : data_kept m m :=
  ⟨rfl, rfl, fun _ s h => Or.inl ⟨s, h, rfl, rfl⟩⟩

theorem data_kept_trans (m1 m2 m3 : session_manager_t) (h12 : data_kept m1 m2)
    (h23 : data_kept m2 m3) : data_kept m1 m3 := by
  refine ⟨h23.modules.trans h12.modules, h23.module_count.trans h12.module_count, ?_⟩
  intro p s3 hp
  rcases h23.heap p s3 hp with ⟨s2, h2, hd, hid⟩ | ⟨calls, hc⟩
  · rcases h12.heap p s2 h2 with ⟨s1, h1, hd1, hid1⟩ | ⟨calls, hc⟩
    · exact Or.inl ⟨s1, h1, hd.trans hd1, hid.trans hid1⟩
    · refine Or.inr ⟨calls, ?_⟩
      rw [hd]
      exact hc
  · refine Or.inr ⟨calls, ?_⟩
    rw [← h12.modules, ← h12.module_count]
    exact hc

theorem data_kept_of_only_frees (m m2 : session_manager_t) (h : only_frees m m2) :
    data_kept m m2 :=
  ⟨h.modules, h.module_count, fun p s hp => Or.inl ⟨s, h.heap p s hp, rfl, rfl⟩⟩

/-- A write to a record that keeps its ID and its data array. -/
theorem data_kept_store (m : session_manager_t) (p : Nat) (s0 s2 : tcp_session_t)
    (hs : m.heap p = some s0) (hd : s2.data = s0.data) (hid : s2.id = s0.id) :
    data_kept m (store m p s2) := by
  refine ⟨rfl, rfl, ?_⟩
  intro q s hq
  by_cases hqp : q = p
  · subst hqp
    have : s = s2 := by simpa [store] using hq.symm
    subst this
    exact Or.inl ⟨s0, hs, hd, hid⟩
  · have : m.heap q = some s := by simpa [store, hqp] using hq
    exact Or.inl ⟨s, this, rfl, rfl⟩

theorem data_kept_congr (m m2 m3 : session_manager_t) (h : data_kept m m2)
    (h1 : m3.heap = m2.heap) (h2 : m3.modules = m2.modules)
    (h3 : m3.module_count = m2.module_count) : data_kept m m3 := by
  refine ⟨h2.trans h.modules, h3.trans h.module_count, ?_⟩
  intro p s hp
  rw [h1] at hp
  exact h.heap p s hp

/-- The loop of `timer_queue_free_early` calls no function of a module but
`destroy`. -/
theorem timer_queue_free_early_loop_calls (session rounds i : Nat) (m m2 : session_manager_t)
    (hrun : timer_queue_free_early_loop session rounds i m = .ok m2) :
    destroys_only m m2 := by
  induction rounds generalizing i with
  | zero =>
    simp only [timer_queue_free_early_loop, Except.ok.injEq] at hrun
    subst hrun
    exact destroys_only_refl _
  | succ rounds ih =>
    rw [timer_queue_free_early_loop] at hrun
    split_ifs at hrun
    all_goals
      split at hrun
      · exact ih _ hrun
      · split at hrun
        · split_ifs at hrun with heq
          · have := free_session_calls _ m2 session hrun
            exact this
          · exact ih _ hrun
        · cases hrun

/-- The RST test and the switch over the state keep the ID and the data array
of every record, and call no function of a module but `destroy`. -/
theorem update_state_kept (m m2 : session_manager_t) (current_time : Nat) (direction : Int)
    (ip : libtrace_ip) (tcp : libtrace_tcp) (session : Nat) (again : Bool)
    (hrun : session_manager_update_state m current_time direction ip tcp session
      = .ok (m2, again)) :
    data_kept m m2 ∧ destroys_only m m2 := by
  unfold session_manager_update_state at hrun
  cases hs : m.heap session with
  | none => simp [hs] at hrun
  | some s0 =>
    simp only [hs] at hrun
    by_cases hrst : tcp.rst = true
    · simp only [hrst, if_true, Except.ok.injEq, Prod.mk.injEq] at hrun
      obtain ⟨hm2, hag⟩ := hrun
      subst hm2
      exact ⟨data_kept_congr m (store m session { s0 with state := RESET }) _
        (data_kept_store m session s0 _ hs rfl rfl) rfl rfl rfl,
        destroys_only_of_calls_eq _ _ rfl⟩
    · have hrst2 : tcp.rst = false := by simpa using hrst
      simp only [hrst2, Bool.false_eq_true, if_false] at hrun
      cases hst : s0.state <;> simp only [hst] at hrun
      all_goals
        try split_ifs at hrun
      all_goals
        first
        | (simp only [Except.ok.injEq, Prod.mk.injEq] at hrun
           obtain ⟨hm2, hag⟩ := hrun
           subst hm2
           refine ⟨?_, destroys_only_of_calls_eq _ _ rfl⟩
           first
           | exact data_kept_refl _
           | exact data_kept_store m session s0 _ hs rfl rfl
           | exact data_kept_congr m (store m session { s0 with state := CLOSED }) _
               (data_kept_store m session s0 _ hs rfl rfl) rfl rfl rfl)
        | (split at hrun
           · cases hrun
           · rename_i m3 hadd
             simp only [Except.ok.injEq, Prod.mk.injEq] at hrun
             obtain ⟨hm2, hag⟩ := hrun
             subst hm2
             first
             | (have hf := timer_queue_free_early_loop_only_frees _ _ _ m m3 hadd
                exact ⟨data_kept_of_only_frees _ _ hf.1,
                  timer_queue_free_early_loop_calls _ _ _ m m3 hadd⟩)
             | (have hf := timer_queue_add_frame _ _ _ _ hadd
                exact ⟨data_kept_congr m
                    (store m session { s0 with state := TIME_WAIT, waiting := 1 }) m3
                    (data_kept_store m session s0 _ hs rfl rfl) hf.1 hf.2.2.2.1 hf.2.2.2.2.1,
                  destroys_only_of_calls_eq _ _ hf.2.2.2.2.2.2.2.2.2⟩))

/-- The packet of an unknown flow: nothing happens, or the `create` functions
fill the data array of a record at the fresh address. -/
theorem update_new_kept (m m2 : session_manager_t) (ip : libtrace_ip) (tcp : libtrace_tcp)
    (id : tcp_session_id_t) (direction : Int) (r : Option Nat)
    (hrun : session_manager_update_new m ip tcp id direction = .ok (m2, r)) :
    (r = none ∧ m2 = m) ∨
    (∃ s creates, r = some m.brk ∧ m2.heap m.brk = some s ∧
      modules_create m.modules m.brk m.module_count = .ok (s.data, creates) ∧
      m2.calls = m.calls ++ creates ∧ data_kept m m2) := by
  unfold session_manager_update_new at hrun
  by_cases hb : (tcp.syn && !tcp.ack) = true
  · rw [if_pos hb] at hrun
    simp only at hrun
    cases hc : modules_create m.modules m.brk m.module_count with
    | error e => simp [hc] at hrun
    | ok dc =>
      obtain ⟨data, creates⟩ := dc
      simp only [hc] at hrun
      split at hrun
      · cases hrun
      · simp only [Except.ok.injEq, Prod.mk.injEq] at hrun
        obtain ⟨hm2, hr⟩ := hrun
        subst hm2
        refine Or.inr ⟨{ id := id
                         state := if direction = SM_OUTBOUND then SYN_SENT else SYN_RCVD
                         expected_ack := if direction = SM_OUTBOUND then seq_plus_payload ip tcp
                           else 4294967295
                         waiting := 0
                         last_access := 0
                         data := data }, creates, hr.symm, ?_, ?_, rfl, ⟨rfl, rfl, ?_⟩⟩
        · show (if m.brk = m.brk then some _ else m.heap m.brk) = some _
          rw [if_pos rfl]
        · rfl
        · intro q s hq
          by_cases hqb : q = m.brk
          · subst hqb
            have hq2 : (if m.brk = m.brk then some _ else m.heap m.brk) = some s := hq
            rw [if_pos rfl] at hq2
            simp only [Option.some.injEq] at hq2
            subst hq2
            exact Or.inr ⟨creates, hc⟩
          · have hq2 : (if q = m.brk then some _ else m.heap q) = some s := hq
            rw [if_neg hqb] at hq2
            exact Or.inl ⟨s, hq2, rfl, rfl⟩
  · rw [if_neg hb] at hrun
    simp only [Except.ok.injEq, Prod.mk.injEq] at hrun
    exact Or.inl ⟨hrun.2.symm, hrun.1.symm⟩

/-- The delivery of a packet to the modules for the session `q`: the time stamp
is written to the record, then the `update` functions are called. -/
theorem deliver_some (m m2 : session_manager_t) (packet : libtrace_packet_t) (t q : Nat)
    (r : Option Nat)
    (hrun : session_manager_update_deliver m packet t (some q) = .ok (m2, r)) :
    r = some q ∧ ∃ s updates, m.heap q = some s ∧
      modules_update m.modules s.data packet m.module_count = .ok updates ∧
      m2 = { store m q { s with last_access := t % 256 } with calls := m.calls ++ updates } := by
  unfold session_manager_update_deliver at hrun
  simp only at hrun
  cases hs : m.heap q with
  | none => simp [hs] at hrun
  | some s =>
    simp only [hs] at hrun
    cases hu : modules_update m.modules s.data packet m.module_count with
    | error e => simp [hu] at hrun
    | ok updates =>
      simp only [hu, Except.ok.injEq, Prod.mk.injEq] at hrun
      exact ⟨hrun.2.symm, s, updates, rfl, hu, hrun.1.symm⟩

/-- The delivery keeps the ID and the data array of every record. -/
theorem deliver_kept (m m2 : session_manager_t) (packet : libtrace_packet_t) (t : Nat)
    (session r : Option Nat)
    (hrun : session_manager_update_deliver m packet t session = .ok (m2, r)) :
    data_kept m m2 := by
  cases session with
  | none =>
    simp only [session_manager_update_deliver, Except.ok.injEq, Prod.mk.injEq] at hrun
    rw [← hrun.1]
    exact data_kept_refl _
  | some q =>
    obtain ⟨-, s, updates, hs, -, hm2⟩ := deliver_some m m2 packet t q r hrun
    rw [hm2]
    exact data_kept_congr m (store m q { s with last_access := t % 256 }) _
      (data_kept_store m q s _ hs rfl rfl) rfl rfl rfl

/-- A call of `session_manager_update` keeps the registered modules and the ID
and the data array of every record it does not create. -/
theorem update_kept (fuel : Nat) :
    ∀ (m m2 : session_manager_t) (packet : libtrace_packet_t) (r : Option Nat),
      session_manager_update fuel m packet = .ok (m2, r) → data_kept m m2 := by
  induction fuel with
  | zero =>
    intro m m2 packet r hrun
    simp [session_manager_update] at hrun
  | succ fuel ih =>
    intro m m2 packet r hrun
    rw [session_manager_update] at hrun
    simp only at hrun
    cases hsw : session_manager_update_sweeps fuel m (packet_seconds packet) with
    | error e => simp [hsw] at hrun
    | ok swept =>
      simp only [hsw] at hrun
      have hk0 : data_kept m swept :=
        data_kept_of_only_frees _ _ (sweeps_only_frees fuel m swept _ hsw).1
      cases hip : packet.ip with
      | none =>
        simp only [hip, Except.ok.injEq, Prod.mk.injEq] at hrun
        rw [← hrun.1]
        exact hk0
      | some ip =>
        simp only [hip] at hrun
        cases htcp : packet.tcp with
        | none =>
          simp only [htcp, Except.ok.injEq, Prod.mk.injEq] at hrun
          rw [← hrun.1]
          exact hk0
        | some tcp =>
          simp only [htcp] at hrun
          cases hlook : hashtable_retrieve swept.heap swept.hashtable (session_id_of ip tcp) with
          | error e => simp [hlook] at hrun
          | ok found =>
            simp only [hlook] at hrun
            cases found with
            | none =>
              simp only at hrun
              cases hnew : session_manager_update_new swept ip tcp (session_id_of ip tcp)
                  packet.direction with
              | error e => simp [hnew] at hrun
              | ok mr =>
                obtain ⟨m3, r3⟩ := mr
                simp only [hnew] at hrun
                have hk1 : data_kept swept m3 := by
                  rcases update_new_kept swept m3 ip tcp _ _ r3 hnew with
                    ⟨-, hm3⟩ | ⟨s, creates, -, -, -, -, hk⟩
                  · rw [hm3]
                    exact data_kept_refl _
                  · exact hk
                exact data_kept_trans _ _ _ (data_kept_trans _ _ _ hk0 hk1)
                  (deliver_kept m3 m2 packet _ _ _ hrun)
            | some session =>
              simp only at hrun
              cases hst : session_manager_update_state swept (packet_seconds packet)
                  packet.direction ip tcp session with
              | error e => simp [hst] at hrun
              | ok ma =>
                obtain ⟨m3, again⟩ := ma
                simp only [hst] at hrun
                have hk1 := (update_state_kept swept m3 _ _ ip tcp session again hst).1
                cases again with
                | true =>
                  simp only at hrun
                  exact data_kept_trans _ _ _ (data_kept_trans _ _ _ hk0 hk1)
                    (ih m3 m2 packet r hrun)
                | false =>
                  simp only at hrun
                  exact data_kept_trans _ _ _ (data_kept_trans _ _ _ hk0 hk1)
                    (deliver_kept m3 m2 packet _ _ _ hrun)

theorem uint32_to_int_of_lt (x : Nat) (h : x < 2147483648) : uint32_to_int x = (x : Int) := by
  have h1 : x % 4294967296 = x := Nat.mod_eq_of_lt (by omega)
  simp only [uint32_to_int, h1, h, if_true]

theorem int_to_uint32_of_nat (x : Nat) (h : x < 4294967296) : int_to_uint32 (x : Int) = x := by
  unfold int_to_uint32
  omega

/-- The byte offsets of the slots of a buffer of `n` items. -/
theorem slot_offset_le (i n s : Nat) (h : i < n) : i * s + s ≤ n * s := by
  have := Nat.mul_le_mul_right s (Nat.succ_le_of_lt h)
  rwa [Nat.succ_mul] at this

theorem slot_offset_ne (i j s : Nat) (hs : 0 < s) (h : i ≠ j) :
    i * s ≠ j * s ∧ ¬ (i * s < j * s + s ∧ j * s < i * s + s) := by
  rcases Nat.lt_or_gt_of_ne h with hlt | hgt
  · have := slot_offset_le i j s hlt
    omega
  · have := slot_offset_le j i s hgt
    omega

theorem queue_inv_bounds {α : Type} (q : queue_t α) (s : Nat) (hs : 0 < s)
    (hinv : queue_inv q s) :
    q.buffer_size < 2147483648 ∧ q.lower_idx < 2147483648 ∧ q.length < 2147483648 ∧
    (q.buffer_size ≠ 0 → s < 2147483648) := by
  have h1 : q.buffer_size ≤ q.buffer_size * s := Nat.le_mul_of_pos_right _ hs
  have h2 := hinv.size
  have h3 := hinv.length
  refine ⟨by omega, ?_, by omega, ?_⟩
  · rcases hinv.lower with h | h
    · omega
    · omega
  · intro hne
    have : s ≤ q.buffer_size * s := Nat.le_mul_of_pos_left _ (Nat.pos_of_ne_zero hne)
    omega

/-- The write of an item into a slot of the buffer. -/
theorem queue_write_slot {α : Type} (q : queue_t α) (s slot : Nat) (item : α) (hs : 0 < s)
    (hslot : slot < q.buffer_size) (hinv : queue_inv q s) :
    ∃ q2, queue_write q s ((slot * s : Nat) : Int) item = .ok q2 ∧
      q2.ptr (slot * s) = some item ∧ (∀ j, j ≠ slot → q2.ptr (j * s) = q.ptr (j * s)) ∧
      q2.allocated = q.allocated ∧ q2.length = q.length ∧ q2.lower_idx = q.lower_idx ∧
      q2.buffer_size = q.buffer_size := by
  have hfit := slot_offset_le slot q.buffer_size s hslot
  have hguard : ¬ (((slot * s : Nat) : Int) < 0
      ∨ ((slot * s : Nat) : Int).toNat + s > q.allocated) := by
    rw [hinv.allocated, Int.toNat_ofNat]
    omega
  unfold queue_write
  rw [if_neg hguard]
  refine ⟨_, rfl, ?_, ?_, rfl, rfl, rfl, rfl⟩
  · simp only [Int.toNat_ofNat, if_true]
  · intro j hj
    obtain ⟨h1, h2⟩ := slot_offset_ne j slot s hs hj
    simp only [Int.toNat_ofNat]
    rw [if_neg h1, if_neg h2]

/-- The slots of a queue that holds the items `l`. -/
theorem queue_items_get {α : Type} (q : queue_t α) (vars : queue_vars_t) (l : List α)
    (hl : queue_items q vars = l.map some) :
    q.length = l.length ∧ ∀ i, i < l.length →
      q.ptr (((q.lower_idx + i) % q.buffer_size) * vars.item_size) = l.get? i := by
  have hlen : q.length = l.length := by
    have := congrArg List.length hl
    simpa [queue_items] using this
  refine ⟨hlen, ?_⟩
  intro i hi
  have h1 := congrArg (fun t => t.get? i) hl
  simp only [queue_items, List.get?_eq_getElem?, List.getElem?_map] at h1
  rw [List.getElem?_range (by omega), List.getElem?_eq_getElem hi] at h1
  simp only [Option.map_some', Option.some.injEq] at h1
  rw [h1, List.get?_eq_getElem?, List.getElem?_eq_getElem hi]

theorem queue_items_of_get {α : Type} (q : queue_t α) (vars : queue_vars_t) (l : List α)
    (hlen : q.length = l.length)
    (hget : ∀ i, i < l.length →
      q.ptr (((q.lower_idx + i) % q.buffer_size) * vars.item_size) = l.get? i) :
    queue_items q vars = l.map some := by
  apply List.ext_get?
  intro i
  simp only [queue_items, List.get?_eq_getElem?, List.getElem?_map]
  by_cases hi : i < l.length
  · rw [List.getElem?_range (by omega), List.getElem?_eq_getElem hi]
    simp only [Option.map_some', Option.some.injEq]
    rw [hget i hi, List.get?_eq_getElem?, List.getElem?_eq_getElem hi]
  · rw [List.getElem?_eq_none (by simp; omega), List.getElem?_eq_none (by omega)]
    rfl

/-- The queue `queue_remove` leaves and the pointer it returns. -/
theorem queue_remove_refines {α : Type} (q : queue_t α) (vars : queue_vars_t) (l : List α)
    (hs : 0 < vars.item_size) (hinv : queue_inv q vars.item_size)
    (hl : queue_items q vars = l.map some) :
    queue_inv (queue_remove q vars).1 vars.item_size ∧
    queue_items (queue_remove q vars).1 vars = (fifo_remove l).1.map some ∧
    queue_item (queue_remove q vars).1 (queue_remove q vars).2 = (fifo_remove l).2 ∧
    (queue_remove q vars).1.buffer_size = q.buffer_size := by
  obtain ⟨hlen, hget⟩ := queue_items_get q vars l hl
  obtain ⟨hb1, hb2, hb3, hb4⟩ := queue_inv_bounds q vars.item_size hs hinv
  cases l with
  | nil =>
    have h0 : q.length = 0 := hlen
    simp only [queue_remove, h0, if_true, fifo_remove, List.tail_nil, List.head?_nil,
      List.map_nil, queue_item]
    exact ⟨hinv, by simp [queue_items, h0], trivial, trivial⟩
  | cons x xs =>
    have hpos : q.length = xs.length + 1 := hlen
    have hne : q.length ≠ 0 := by omega
    have hsize : q.buffer_size ≠ 0 := by
      have := hinv.length
      omega
    have hs2 : vars.item_size % 4294967296 = vars.item_size := Nat.mod_eq_of_lt (by
      have := hb4 hsize
      omega)
    have hlow : q.lower_idx < q.buffer_size := by
      rcases hinv.lower with h | h
      · exact h
      · exact absurd h.1 hsize
    have hoff := slot_offset_le q.lower_idx q.buffer_size vars.item_size hlow
    have hsz := hinv.size
    simp only [queue_remove, hne, if_false, fifo_remove, List.tail_cons, List.head?_cons, hs2]
    refine ⟨⟨hinv.size, hinv.allocated, ?_, ?_⟩, ?_, ?_, trivial⟩
    · left
      show (if (q.lower_idx + 1) % 4294967296 = q.buffer_size then 0
        else (q.lower_idx + 1) % 4294967296) < q.buffer_size
      have : (q.lower_idx + 1) % 4294967296 = q.lower_idx + 1 := Nat.mod_eq_of_lt (by omega)
      rw [this]
      split_ifs <;> omega
    · show q.length - 1 ≤ q.buffer_size
      have := hinv.length
      omega
    · apply queue_items_of_get
      · show q.length - 1 = xs.length
        omega
      · intro i hi
        have h1 := hget (i + 1) (Nat.succ_lt_succ hi)
        rw [List.get?_cons_succ] at h1
        rw [← h1]
        show q.ptr (((if (q.lower_idx + 1) % 4294967296 = q.buffer_size then 0
          else (q.lower_idx + 1) % 4294967296) + i) % q.buffer_size * vars.item_size) = _
        congr 2
        have e1 : (q.lower_idx + 1) % 4294967296 = q.lower_idx + 1 := Nat.mod_eq_of_lt (by omega)
        rw [e1]
        by_cases hw : q.lower_idx + 1 = q.buffer_size
        · rw [if_pos hw, Nat.zero_add]
          have : q.lower_idx + (i + 1) = i + q.buffer_size := by omega
          rw [this, Nat.add_mod_right]
        · rw [if_neg hw]
          congr 1
          omega
    · have h1 := hget 0 (Nat.succ_pos _)
      simp only [Nat.add_zero, Nat.mod_eq_of_lt hlow, List.get?_cons_zero] at h1
      have e : uint32_to_int (q.lower_idx * vars.item_size)
          = ((q.lower_idx * vars.item_size : Nat) : Int) := uint32_to_int_of_lt _ (by omega)
      rw [e]
      simp only [queue_item, Int.toNat_ofNat]
      rw [if_neg (by omega)]
      exact h1

theorem queue_bottom_refines {α : Type} (q : queue_t α) (vars : queue_vars_t) (l : List α)
    (hs : 0 < vars.item_size) (hinv : queue_inv q vars.item_size)
    (hl : queue_items q vars = l.map some) :
    queue_item q (queue_bottom q vars) = fifo_bottom l := by
  obtain ⟨hlen, hget⟩ := queue_items_get q vars l hl
  obtain ⟨hb1, hb2, hb3, hb4⟩ := queue_inv_bounds q vars.item_size hs hinv
  cases l with
  | nil =>
    have h0 : q.length = 0 := hlen
    simp [queue_bottom, h0, queue_item, fifo_bottom]
  | cons x xs =>
    have hpos : q.length = xs.length + 1 := hlen
    have hne : q.length ≠ 0 := by omega
    have hsize : q.buffer_size ≠ 0 := by
      have := hinv.length
      omega
    have hs2 : vars.item_size % 4294967296 = vars.item_size := Nat.mod_eq_of_lt (by
      have := hb4 hsize
      omega)
    have hlow : q.lower_idx < q.buffer_size := by
      rcases hinv.lower with h | h
      · exact h
      · exact absurd h.1 hsize
    have hoff := slot_offset_le q.lower_idx q.buffer_size vars.item_size hlow
    have hsz := hinv.size
    have h1 := hget 0 (Nat.succ_pos _)
    simp only [Nat.add_zero, Nat.mod_eq_of_lt hlow, List.get?_cons_zero] at h1
    have e : uint32_to_int (q.lower_idx * vars.item_size)
        = ((q.lower_idx * vars.item_size : Nat) : Int) := uint32_to_int_of_lt _ (by omega)
    simp only [queue_bottom, hne, if_false, hs2, e, queue_item, Int.toNat_ofNat, fifo_bottom,
      List.head?_cons]
    rw [if_neg (by omega)]
    exact h1

theorem queue_top_refines {α : Type} (q : queue_t α) (vars : queue_vars_t) (l : List α)
    (hs : 0 < vars.item_size) (hinv : queue_inv q vars.item_size)
    (hl : queue_items q vars = l.map some) :
    ∃ p, queue_top q vars = .ok p ∧ queue_item q p = fifo_top l := by
  obtain ⟨hlen, hget⟩ := queue_items_get q vars l hl
  obtain ⟨hb1, hb2, hb3, hb4⟩ := queue_inv_bounds q vars.item_size hs hinv
  by_cases h0 : q.length = 0
  · have hnil : l = [] := List.length_eq_zero.mp (by omega)
    subst hnil
    exact ⟨none, by simp [queue_top, h0], rfl⟩
  · have hsize : q.buffer_size ≠ 0 := by
      have := hinv.length
      omega
    have hs2 : vars.item_size % 4294967296 = vars.item_size := Nat.mod_eq_of_lt (by
      have := hb4 hsize
      omega)
    have hsz := hinv.size
    have hslot : (q.lower_idx + (l.length - 1)) % q.buffer_size < q.buffer_size :=
      Nat.mod_lt _ (Nat.pos_of_ne_zero hsize)
    have hoff := slot_offset_le _ q.buffer_size vars.item_size hslot
    have e0 : (q.lower_idx + q.length + 4294967295) % 4294967296
        = q.lower_idx + (l.length - 1) := by omega
    have e1 : uint32_to_int ((q.lower_idx + (l.length - 1)) % q.buffer_size)
        = (((q.lower_idx + (l.length - 1)) % q.buffer_size : Nat) : Int) :=
      uint32_to_int_of_lt _ (by omega)
    have e2 : int_to_uint32 (((q.lower_idx + (l.length - 1)) % q.buffer_size : Nat) : Int)
        = (q.lower_idx + (l.length - 1)) % q.buffer_size := int_to_uint32_of_nat _ (by omega)
    have e3 : uint32_to_int ((q.lower_idx + (l.length - 1)) % q.buffer_size * vars.item_size)
        = (((q.lower_idx + (l.length - 1)) % q.buffer_size * vars.item_size : Nat) : Int) :=
      uint32_to_int_of_lt _ (by omega)
    refine ⟨some (((q.lower_idx + (l.length - 1)) % q.buffer_size * vars.item_size : Nat) : Int),
      by simp only [queue_top, h0, hsize, if_false, hs2, e0, e1, e2, e3], ?_⟩
    simp only [queue_item, Int.toNat_ofNat, fifo_top]
    rw [if_neg (by omega), hget (l.length - 1) (by omega), List.getLast?_eq_getElem?,
      List.get?_eq_getElem?]

theorem queue_clear_refines {α : Type} (q : queue_t α) (vars : queue_vars_t) (l : List α)
    (hinv : queue_inv q vars.item_size) :
    queue_inv (queue_clear q) vars.item_size ∧
    queue_items (queue_clear q) vars = (fifo_clear l).map some ∧
    (queue_clear q).buffer_size = q.buffer_size := by
  refine ⟨⟨hinv.size, hinv.allocated, ?_, Nat.zero_le _⟩, rfl, rfl⟩
  show 0 < q.buffer_size ∨ (q.buffer_size = 0 ∧ 0 = 0)
  omega

/-- Lines 100-137 of `queue_add` for an unbounded queue whose buffer, grown by
the increment `k`, has byte offsets that fit an `int`: the buffer that the item
is put in has a free slot, holds the items in the same order, and is the buffer
grown by `k` with `lower_idx` 0 when the buffer was full. -/
theorem queue_add_space_refines {α : Type} (q : queue_t α) (vars : queue_vars_t) (k : Nat)
    (hvars : vars.buffer_size = -1) (hk : vars.buffer_increment = (k : Int)) (hk0 : 0 < k)
    (hs : 0 < vars.item_size) (hinv : queue_inv q vars.item_size)
    (hbound : q.length = q.buffer_size → (q.buffer_size + k) * vars.item_size < 2147483648) :
    ∃ q1, queue_add_space q vars = .ok (some q1) ∧ queue_inv q1 vars.item_size ∧
      q1.length = q.length ∧ q1.length < q1.buffer_size ∧
      q1.buffer_size = (if q.length = q.buffer_size then q.buffer_size + k else q.buffer_size) ∧
      (q.buffer_size ≠ 0 → q.length = q.buffer_size → q1.lower_idx = 0) ∧
      ∀ i, i < q.length →
        q1.ptr (((q1.lower_idx + i) % q1.buffer_size) * vars.item_size)
          = q.ptr (((q.lower_idx + i) % q.buffer_size) * vars.item_size) := by
  have hs1 : vars.item_size ≤ (q.buffer_size + k) * vars.item_size :=
    Nat.le_mul_of_pos_left _ (by omega)
  have hk1 : q.buffer_size + k ≤ (q.buffer_size + k) * vars.item_size :=
    Nat.le_mul_of_pos_right _ hs
  have hlen := hinv.length
  have hs2 : vars.item_size % 4294967296 = vars.item_size := by
    by_cases hfull : q.length = q.buffer_size
    · have := hbound hfull
      exact Nat.mod_eq_of_lt (by omega)
    · have := (queue_inv_bounds q vars.item_size hs hinv).2.2.2 (by omega)
      exact Nat.mod_eq_of_lt (by omega)
  unfold queue_add_space
  simp only [hs2, hvars, hk, if_true]
  by_cases hsize : q.buffer_size = 0
  · rw [if_pos hsize]
    have hl0 : q.length = 0 := by omega
    have hbound := hbound (by omega)
    have hku : int_to_uint32 (k : Int) = k := int_to_uint32_of_nat k (by omega)
    rw [hku]
    have hlow0 : q.lower_idx = 0 := by
      rcases hinv.lower with h | h
      · omega
      · exact h.2
    have hks : k * vars.item_size < 2147483648 := by
      rw [hsize, Nat.zero_add] at hbound
      exact hbound
    refine ⟨_, rfl, ⟨hks, ?_, ?_, ?_⟩, rfl, ?_, ?_, ?_, ?_⟩
    · show k * vars.item_size % 4294967296 = k * vars.item_size
      exact Nat.mod_eq_of_lt (by omega)
    · left
      show q.lower_idx < k
      omega
    · show q.length ≤ k
      omega
    · show q.length < k
      omega
    · show k = if q.length = q.buffer_size then q.buffer_size + k else q.buffer_size
      rw [if_pos (by omega), hsize, Nat.zero_add]
    · intro h
      exact absurd hsize h
    · intro i hi
      omega
  · rw [if_neg hsize]
    have hlow : q.lower_idx < q.buffer_size := by
      rcases hinv.lower with h | h
      · exact h
      · exact absurd h.1 hsize
    by_cases hfull : q.length = q.buffer_size
    · rw [if_pos hfull]
      have hbound := hbound hfull
      have hku : int_to_uint32 (k : Int) = k := int_to_uint32_of_nat k (by omega)
      rw [hku]
      have hsz := hinv.size
      have enew : (q.buffer_size + k) % 4294967296 = q.buffer_size + k :=
        Nat.mod_eq_of_lt (by omega)
      have ealloc : (q.buffer_size + k) * vars.item_size % 4294967296
          = (q.buffer_size + k) * vars.item_size := Nat.mod_eq_of_lt (by omega)
      have hassert : ¬ ¬ (q.lower_idx ≤ q.length ∧ q.length ≤ q.buffer_size + k) := by
        omega
      have ed : (q.length + 4294967296 - q.lower_idx) % 4294967296 = q.length - q.lower_idx := by
        omega
      have hd1 : (q.length - q.lower_idx) * vars.item_size + q.lower_idx * vars.item_size
          = q.buffer_size * vars.item_size := by
        rw [← Nat.add_mul]
        congr 1
        omega
      have eb1 : uint32_to_int (vars.item_size * (q.length - q.lower_idx))
          = (((q.length - q.lower_idx) * vars.item_size : Nat) : Int) := by
        rw [Nat.mul_comm]
        exact uint32_to_int_of_lt _ (by omega)
      have eb2 : uint32_to_int (vars.item_size * q.lower_idx)
          = ((q.lower_idx * vars.item_size : Nat) : Int) := by
        rw [Nat.mul_comm]
        exact uint32_to_int_of_lt _ (by omega)
      have hgrow : q.buffer_size * vars.item_size ≤ (q.buffer_size + k) * vars.item_size :=
        Nat.mul_le_mul_right _ (by omega)
      have hneg : ¬ ((((q.length - q.lower_idx) * vars.item_size : Nat) : Int) < 0
          ∨ ((q.lower_idx * vars.item_size : Nat) : Int) < 0) := by omega
      have hfit : ¬ (q.lower_idx * vars.item_size + (q.length - q.lower_idx) * vars.item_size
            > q.allocated
          ∨ (q.length - q.lower_idx) * vars.item_size + q.lower_idx * vars.item_size
            > (q.buffer_size + k) * vars.item_size) := by
        rw [hinv.allocated]
        omega
      simp only [enew, ealloc, ed, eb1, eb2, Int.toNat_ofNat]
      rw [if_neg hassert, if_neg hneg, if_neg hfit]
      refine ⟨_, rfl, ⟨hbound, rfl, Or.inl ?_, ?_⟩, rfl, ?_, ?_, fun _ _ => rfl, ?_⟩
      · show 0 < q.buffer_size + k
        omega
      · show q.length ≤ q.buffer_size + k
        omega
      · show q.length < q.buffer_size + k
        omega
      · show q.buffer_size + k = _
        rw [if_pos hfull]
      · intro i hi
        have hmod : (0 + i) % (q.buffer_size + k) = i := by
          rw [Nat.zero_add]
          exact Nat.mod_eq_of_lt (by omega)
        show (if (0 + i) % (q.buffer_size + k) * vars.item_size + vars.item_size
              ≤ (q.length - q.lower_idx) * vars.item_size then
            q.ptr (q.lower_idx * vars.item_size
              + (0 + i) % (q.buffer_size + k) * vars.item_size)
          else if (q.length - q.lower_idx) * vars.item_size
                ≤ (0 + i) % (q.buffer_size + k) * vars.item_size
              ∧ (0 + i) % (q.buffer_size + k) * vars.item_size + vars.item_size
                ≤ (q.length - q.lower_idx) * vars.item_size + q.lower_idx * vars.item_size then
            q.ptr ((0 + i) % (q.buffer_size + k) * vars.item_size
              - (q.length - q.lower_idx) * vars.item_size)
          else none) = _
        rw [hmod]
        by_cases hi2 : i < q.length - q.lower_idx
        · have h1 := slot_offset_le i (q.length - q.lower_idx) vars.item_size hi2
          rw [if_pos h1, ← Nat.add_mul, Nat.mod_eq_of_lt (by omega)]
        · have h1 : (q.length - q.lower_idx) * vars.item_size ≤ i * vars.item_size :=
            Nat.mul_le_mul_right _ (by omega)
          have h2 := slot_offset_le i q.buffer_size vars.item_size (by omega)
          rw [if_neg (by omega), if_pos ⟨h1, by omega⟩, ← Nat.sub_mul]
          congr 2
          have : q.lower_idx + i = (i - (q.length - q.lower_idx)) + q.buffer_size := by omega
          rw [this, Nat.add_mod_right, Nat.mod_eq_of_lt (by omega)]
    · rw [if_neg hfull]
      refine ⟨q, rfl, hinv, rfl, by omega, ?_, ?_, fun _ _ => rfl⟩
      · rw [if_neg hfull]
      · intro _ h
        exact absurd h hfull

/-- A call of `queue_add` on an unbounded queue that holds the items `l`: the
call returns a pointer to the item, the queue holds `l` with the item appended,
and a full buffer has been grown by `k`, with `lower_idx` reset to 0. -/
theorem queue_add_refines {α : Type} (q : queue_t α) (vars : queue_vars_t) (k : Nat) (item : α)
    (l : List α) (hvars : vars.buffer_size = -1) (hk : vars.buffer_increment = (k : Int))
    (hk0 : 0 < k) (hs : 0 < vars.item_size) (hinv : queue_inv q vars.item_size)
    (hl : queue_items q vars = l.map some)
    (hbound : q.length = q.buffer_size → (q.buffer_size + k) * vars.item_size < 2147483648) :
    ∃ q2 idx, queue_add q vars item = .ok (q2, some idx) ∧ queue_inv q2 vars.item_size ∧
      queue_items q2 vars = (fifo_add l item).map some ∧
      queue_item q2 (some idx) = some item ∧
      q2.buffer_size = (if q.length = q.buffer_size then q.buffer_size + k else q.buffer_size) ∧
      (q.buffer_size ≠ 0 → q.length = q.buffer_size → q2.lower_idx = 0) := by
  obtain ⟨hlen, hget⟩ := queue_items_get q vars l hl
  obtain ⟨q1, hspace, hinv1, hlen1, hfree, hsize1, hlow1, hslots⟩ :=
    queue_add_space_refines q vars k hvars hk hk0 hs hinv hbound
  obtain ⟨hb1, hb2, hb3, hb4⟩ := queue_inv_bounds q1 vars.item_size hs hinv1
  have hne : q1.buffer_size ≠ 0 := by omega
  have hs2 : vars.item_size % 4294967296 = vars.item_size := Nat.mod_eq_of_lt (by
    have := hb4 hne
    omega)
  have hsz := hinv1.size
  have hslot : (q1.lower_idx + q1.length) % q1.buffer_size < q1.buffer_size :=
    Nat.mod_lt _ (Nat.pos_of_ne_zero hne)
  have hoff := slot_offset_le _ q1.buffer_size vars.item_size hslot
  have e0 : (q1.lower_idx + q1.length) % 4294967296 = q1.lower_idx + q1.length :=
    Nat.mod_eq_of_lt (by omega)
  have e1 : uint32_to_int ((q1.lower_idx + q1.length) % q1.buffer_size)
      = (((q1.lower_idx + q1.length) % q1.buffer_size : Nat) : Int) :=
    uint32_to_int_of_lt _ (by omega)
  have e2 : int_to_uint32 (((q1.lower_idx + q1.length) % q1.buffer_size : Nat) : Int)
      = (q1.lower_idx + q1.length) % q1.buffer_size := int_to_uint32_of_nat _ (by omega)
  have e3 : uint32_to_int ((q1.lower_idx + q1.length) % q1.buffer_size * vars.item_size)
      = (((q1.lower_idx + q1.length) % q1.buffer_size * vars.item_size : Nat) : Int) :=
    uint32_to_int_of_lt _ (by omega)
  obtain ⟨q2, hwrite, hitem, hother, ha, hl2, hlo2, hsz2⟩ :=
    queue_write_slot q1 vars.item_size ((q1.lower_idx + q1.length) % q1.buffer_size) item hs
      hslot hinv1
  have e4 : (q2.length + 1) % 4294967296 = q2.length + 1 := Nat.mod_eq_of_lt (by omega)
  refine ⟨{ q2 with length := q2.length + 1 },
    (((q1.lower_idx + q1.length) % q1.buffer_size * vars.item_size : Nat) : Int), ?_, ?_, ?_, ?_,
    ?_, ?_⟩
  · simp only [queue_add, hspace, hne, if_false, hs2, e0, e1, e2, e3, hwrite, e4]
  · refine ⟨?_, ?_, ?_, ?_⟩
    · show q2.buffer_size * vars.item_size < 2147483648
      rw [hsz2]
      exact hsz
    · show q2.allocated = q2.buffer_size * vars.item_size
      rw [ha, hsz2]
      exact hinv1.allocated
    · show q2.lower_idx < q2.buffer_size ∨ (q2.buffer_size = 0 ∧ q2.lower_idx = 0)
      rw [hlo2, hsz2]
      exact hinv1.lower
    · show q2.length + 1 ≤ q2.buffer_size
      omega
  · apply queue_items_of_get
    · show q2.length + 1 = (l ++ [item]).length
      rw [List.length_append, List.length_singleton]
      omega
    · intro i hi
      rw [fifo_add, List.length_append, List.length_singleton] at hi
      show q2.ptr ((q2.lower_idx + i) % q2.buffer_size * vars.item_size) = (l ++ [item]).get? i
      rw [hlo2, hsz2]
      by_cases hil : i < l.length
      · have hne2 : (q1.lower_idx + i) % q1.buffer_size
            ≠ (q1.lower_idx + q1.length) % q1.buffer_size := by
          have hlowb : q1.lower_idx < q1.buffer_size := by
            rcases hinv1.lower with h | h
            · exact h
            · exact absurd h.1 hne
          intro heq
          by_cases hw1 : q1.lower_idx + i < q1.buffer_size
          · rw [Nat.mod_eq_of_lt hw1] at heq
            by_cases hw2 : q1.lower_idx + q1.length < q1.buffer_size
            · rw [Nat.mod_eq_of_lt hw2] at heq
              omega
            · have e : q1.lower_idx + q1.length
                  = (q1.lower_idx + q1.length - q1.buffer_size) + q1.buffer_size := by omega
              rw [e, Nat.add_mod_right, Nat.mod_eq_of_lt (by omega)] at heq
              omega
          · have e : q1.lower_idx + i
                = (q1.lower_idx + i - q1.buffer_size) + q1.buffer_size := by omega
            have e5 : q1.lower_idx + q1.length
                = (q1.lower_idx + q1.length - q1.buffer_size) + q1.buffer_size := by omega
            rw [e, Nat.add_mod_right, Nat.mod_eq_of_lt (by omega), e5, Nat.add_mod_right,
              Nat.mod_eq_of_lt (by omega)] at heq
            omega
        rw [hother _ hne2, hslots i (by omega), hget i hil, List.get?_eq_getElem?,
          List.get?_eq_getElem?, List.getElem?_append_left hil]
      · have hi2 : i = l.length := by omega
        have hi3 : i = q1.length := by omega
        rw [hi3, hitem, List.get?_eq_getElem?, List.getElem?_append_right (by omega)]
        have : q1.length - l.length = 0 := by omega
        rw [this]
        rfl
  · simp only [queue_item, Int.toNat_ofNat]
    rw [if_neg (by omega)]
    exact hitem
  · show q2.buffer_size = _
    rw [hsz2]
    exact hsize1
  · intro h1 h2
    show q2.lower_idx = 0
    rw [hlo2]
    exact hlow1 h1 h2

/-- Runs of calls on an unbounded queue that keep the buffer below `2^31`
bytes: the run returns, every call yields what the FIFO list yields, and the
queue holds the items of the FIFO list. -/
theorem queue_run_refines {α : Type} (vars : queue_vars_t) (k : Nat)
    (hvars : vars.buffer_size = -1) (hk : vars.buffer_increment = (k : Int)) (hk0 : 0 < k)
    (hs : 0 < vars.item_size) (ops : List (queue_op α)) :
    ∀ (q : queue_t α) (l : List α), queue_inv q vars.item_size →
      queue_items q vars = l.map some → queue_within k vars q ops = true →
      ∃ q2, queue_run vars q ops = .ok (q2, (fifo_run l ops).2) ∧
        queue_inv q2 vars.item_size ∧ queue_items q2 vars = (fifo_run l ops).1.map some := by
  induction ops with
  | nil =>
    intro q l hinv hl _
    exact ⟨q, rfl, hinv, hl⟩
  | cons op rest ih =>
    intro q l hinv hl hw
    cases op with
    | add item =>
      simp only [queue_within, Bool.and_eq_true, decide_eq_true_eq] at hw
      obtain ⟨hbound, hw2⟩ := hw
      obtain ⟨q1, idx, hadd, hinv1, hl1, hitem, -, -⟩ :=
        queue_add_refines q vars k item l hvars hk hk0 hs hinv hl hbound
      rw [hadd] at hw2
      obtain ⟨q2, hrun, hinv2, hl2⟩ := ih q1 (fifo_add l item) hinv1 hl1 hw2
      refine ⟨q2, ?_, hinv2, hl2⟩
      simp only [queue_run, hadd, hrun, hitem, fifo_run]
    | remove =>
      simp only [queue_within] at hw
      obtain ⟨hinv1, hl1, hitem, -⟩ := queue_remove_refines q vars l hs hinv hl
      obtain ⟨q2, hrun, hinv2, hl2⟩ := ih _ (fifo_remove l).1 hinv1 hl1 hw
      refine ⟨q2, ?_, hinv2, hl2⟩
      simp only [queue_run, hrun, hitem, fifo_run]
    | clear =>
      simp only [queue_within] at hw
      obtain ⟨hinv1, hl1, -⟩ := queue_clear_refines q vars l hinv
      obtain ⟨q2, hrun, hinv2, hl2⟩ := ih _ (fifo_clear l) hinv1 hl1 hw
      refine ⟨q2, ?_, hinv2, hl2⟩
      simp only [queue_run, hrun, fifo_run]

theorem queue_create_inv {α : Type} (s : Nat) : queue_inv (queue_create : queue_t α) s :=
  ⟨by simp [queue_create], by simp [queue_create], Or.inr ⟨rfl, rfl⟩, Nat.le_refl _⟩

/-- Claim C20, within the range of the `int` byte offsets. For an unbounded
queue (`buffer_size` -1, increment `k > 0`, items of at least one byte) and every
list of calls of `queue_add`, `queue_remove` and `queue_clear` from
`queue_create` on that keeps the buffer below `2^31` bytes: the run returns and
every call yields what the FIFO list yields (`queue_remove` the oldest item not
yet removed, absent when there is none), the buffer holds the items of the FIFO
list from the bottom to the top, `queue_bottom` and `queue_top` point to the
oldest and the newest item, and a further `queue_add` returns a pointer to the
item added, keeps the items in their order behind it and, when it finds the
buffer full, grows it by `k` and resets `lower_idx` to 0. -/
theorem queue_refines_fifo {α : Type} (vars : queue_vars_t) (k : Nat) (ops : List (queue_op α))
    (hvars : vars.buffer_size = -1) (hk : vars.buffer_increment = (k : Int)) (hk0 : 0 < k)
    (hs : 0 < vars.item_size) (hw : queue_within k vars queue_create ops = true) :
    ∃ q, queue_run vars queue_create ops = .ok (q, (fifo_run [] ops).2) ∧
      queue_items q vars = (fifo_run [] ops).1.map some ∧
      queue_item q (queue_bottom q vars) = fifo_bottom (fifo_run [] ops).1 ∧
      (∃ p, queue_top q vars = .ok p ∧ queue_item q p = fifo_top (fifo_run [] ops).1) ∧
      ∀ item, (q.length = q.buffer_size → (q.buffer_size + k) * vars.item_size < 2147483648) →
        ∃ q2 p, queue_add q vars item = .ok (q2, some p) ∧ queue_item q2 (some p) = some item ∧
          queue_items q2 vars = (fifo_add (fifo_run [] ops).1 item).map some ∧
          (q.buffer_size ≠ 0 → q.length = q.buffer_size →
            q2.buffer_size = q.buffer_size + k ∧ q2.lower_idx = 0) := by
  obtain ⟨q, hrun, hinv, hl⟩ := queue_run_refines vars k hvars hk hk0 hs ops queue_create []
    (queue_create_inv _) rfl hw
  refine ⟨q, hrun, hl, queue_bottom_refines q vars _ hs hinv hl,
    queue_top_refines q vars _ hs hinv hl, ?_⟩
  intro item hbound
  obtain ⟨q2, p, hadd, -, hl2, hitem, hsize, hlow⟩ :=
    queue_add_refines q vars k item _ hvars hk hk0 hs hinv hl hbound
  refine ⟨q2, p, hadd, hitem, hl2, ?_⟩
  intro h1 h2
  refine ⟨?_, hlow h1 h2⟩
  rw [hsize, if_pos h2]

/-- Claim C20 for a queue of 4-byte items with increment 2 after the calls add
1, add 2, remove, add 3, which leave the items 2 and 3 wrapped around the end of
a full buffer. -/
theorem queue_refines_fifo_witness :
    queue_within 2 { buffer_size := -1, buffer_increment := 2, item_size := 4 }
      (queue_create : queue_t Nat)
      [queue_op.add 1, queue_op.add 2, queue_op.remove, queue_op.add 3] = true ∧
    ∃ q, queue_run { buffer_size := -1, buffer_increment := 2, item_size := 4 }
          (queue_create : queue_t Nat)
          [queue_op.add 1, queue_op.add 2, queue_op.remove, queue_op.add 3]
        = .ok (q, (fifo_run []
          [queue_op.add 1, queue_op.add 2, queue_op.remove, queue_op.add 3]).2) ∧
      queue_items q { buffer_size := -1, buffer_increment := 2, item_size := 4 }
        = (fifo_run [] [queue_op.add 1, queue_op.add 2, queue_op.remove, queue_op.add 3]).1.map
            some ∧
      queue_item q (queue_bottom q { buffer_size := -1, buffer_increment := 2, item_size := 4 })
        = fifo_bottom
            (fifo_run [] [queue_op.add 1, queue_op.add 2, queue_op.remove, queue_op.add 3]).1 ∧
      (∃ p, queue_top q { buffer_size := -1, buffer_increment := 2, item_size := 4 } = .ok p ∧
        queue_item q p = fifo_top
          (fifo_run [] [queue_op.add 1, queue_op.add 2, queue_op.remove, queue_op.add 3]).1) ∧
      ∀ item, (q.length = q.buffer_size → (q.buffer_size + 2) * 4 < 2147483648) →
        ∃ q2 p, queue_add q { buffer_size := -1, buffer_increment := 2, item_size := 4 } item
            = .ok (q2, some p) ∧ queue_item q2 (some p) = some item ∧
          queue_items q2 { buffer_size := -1, buffer_increment := 2, item_size := 4 }
            = (fifo_add (fifo_run []
                [queue_op.add 1, queue_op.add 2, queue_op.remove, queue_op.add 3]).1 item).map
              some ∧
          (q.buffer_size ≠ 0 → q.length = q.buffer_size →
            q2.buffer_size = q.buffer_size + 2 ∧ q2.lower_idx = 0) :=
  ⟨by rfl, queue_refines_fifo { buffer_size := -1, buffer_increment := 2, item_size := 4 } 2
    [queue_op.add 1, queue_op.add 2, queue_op.remove, queue_op.add 3] rfl rfl (by decide)
    (by decide) (by rfl)⟩

/-- Claim C20 fails beyond the range of `int`: with items of `2^30` bytes and
increment 1, the third `queue_add` finds two items in a full buffer and computes
`bytes1 = 2^31`, which is negative as an `int` and, as the length of the first
`memcpy`, far beyond both buffers. -/
theorem queue_add_large_items :
    queue_run { buffer_size := -1, buffer_increment := 1, item_size := 1073741824 }
      (queue_create : queue_t Nat) [queue_op.add 1, queue_op.add 2, queue_op.add 3]
      = .error fault.undefined_behaviour ∧
    (fifo_run ([] : List Nat) [queue_op.add 1, queue_op.add 2, queue_op.add 3]).2
      = [some 1, some 2, some 3] := by
  constructor
  · rfl
  · rfl

/-! ### The cleanup of half-open sessions -/

/-- The loop of `session_manager_cleanup` ends when `hashtable_iterator_next`
returns `NULL`. -/
theorem cleanup_loop_end (last_access fuel : Nat) (m : session_manager_t)
    (itr itr2 : hashtable_iterator_t)
    (hnext : hashtable_iterator_next m.hashtable itr = .ok (itr2, none)) :
    session_manager_cleanup_loop last_access (fuel + 1) m itr = .ok m := by
  rw [session_manager_cleanup_loop, hnext]

/-- A round of the loop of `session_manager_cleanup` on a session in SYN_SENT
or SYN_RCVD that was last accessed more than 60 seconds ago. -/
theorem cleanup_loop_remove (last_access fuel : Nat) (m m3 m4 : session_manager_t)
    (itr itr2 : hashtable_iterator_t) (p r : Nat) (s : tcp_session_t) (ht2 : hashtable_t)
    (hnext : hashtable_iterator_next m.hashtable itr = .ok (itr2, some p))
    (hs : m.heap p = some s)
    (hstate : s.state = tcp_conn_state_t.SYN_RCVD ∨ s.state = tcp_conn_state_t.SYN_SENT)
    (hdiff : (last_access + 256 - s.last_access % 256) % 256 > SM_TCP_SYN_TIMEOUT)
    (hrem : hashtable_iterator_remove m.hashtable itr2 = .ok (ht2, r))
    (hdata : session_manager_free_module_data { m with hashtable := ht2 } p = .ok m3)
    (hfree : free m3 p = .ok m4) :
    session_manager_cleanup_loop last_access (fuel + 1) m itr
      = session_manager_cleanup_loop last_access fuel m4 itr2 := by
  rw [session_manager_cleanup_loop, hnext]
  simp only [hs, hstate, if_true, hdiff, hrem, hdata, hfree]

/-- The cleanup of a table whose only chain holds the record `p` and behind it
the record `q`, with `p` a session without module data that is due for removal:
the cleanup removes `p`, and leaves `q` in the table as it is, whatever its state
and the time of its last access. -/
theorem cleanup_leaves_successor (fuel : Nat) (m : session_manager_t) (b p q : Nat)
    (s : tcp_session_t) (hb : 0 < b) (hb2 : b < ARRAY_SIZE)
    (harr : m.hashtable.arr b = [p, q]) (hother : ∀ i, i ≠ b → m.hashtable.arr i = [])
    (hs : m.heap p = some s)
    (hstate : s.state = tcp_conn_state_t.SYN_RCVD ∨ s.state = tcp_conn_state_t.SYN_SENT)
    (hdiff : (m.last_access % 256 + 256 - s.last_access % 256) % 256 > SM_TCP_SYN_TIMEOUT)
    (hwait : s.waiting ≠ 1) (hmod : m.module_count = 0) :
    ∃ m2, session_manager_cleanup (fuel + 2) m = .ok m2 ∧
      m2.hashtable.arr b = [q] ∧ (∀ i, i ≠ b → m2.hashtable.arr i = []) ∧
      m2.heap p = none ∧ (∀ x, x ≠ p → m2.heap x = m.heap x) ∧
      m2.last_access = m.last_access ∧ m2.last_clean = m.last_clean ∧
      m2.closed_session = m.closed_session ∧ m2.waiting_sessions = m.waiting_sessions := by
  have hscan : hashtable_iterator_scan m.hashtable
      (ARRAY_SIZE - hashtable_iterator_create.array_position)
      hashtable_iterator_create.array_position = .ok (some b) :=
    hashtable_iterator_scan_find _ _ 0 b (by simp [hashtable_iterator_create]) hb hb2
      (by rw [harr]; simp) (fun i _ h2 => hother i (by omega))
  have hnext1 := hashtable_iterator_next_bucket m.hashtable hashtable_iterator_create b
    (by
      show ((m.hashtable.arr 0).drop 0).length ≤ 1
      rw [hother 0 (by omega)]
      simp) hscan
  rw [harr] at hnext1
  have hrem : hashtable_iterator_remove m.hashtable
      { array_position := b, entry_bucket := b, entry_link := 0 }
      = .ok ({ arr := fun i => if i = b then (m.hashtable.arr b).eraseIdx 0
          else m.hashtable.arr i }, p) := by
    unfold hashtable_iterator_remove
    simp only [harr, List.drop_zero]
  have hdata : session_manager_free_module_data
      { m with hashtable := { arr := fun i => if i = b then (m.hashtable.arr b).eraseIdx 0
          else m.hashtable.arr i } } p
      = .ok (store { m with
          hashtable := { arr := fun i => if i = b then (m.hashtable.arr b).eraseIdx 0
            else m.hashtable.arr i }
          calls := m.calls ++ [] } p { s with data := [] }) := by
    unfold session_manager_free_module_data
    simp only [hs, hwait, if_false, hmod, modules_destroy]
  have hfree : free (store { m with
          hashtable := { arr := fun i => if i = b then (m.hashtable.arr b).eraseIdx 0
            else m.hashtable.arr i }
          calls := m.calls ++ [] } p { s with data := [] }) p
      = .ok { m with
          hashtable := { arr := fun i => if i = b then (m.hashtable.arr b).eraseIdx 0
            else m.hashtable.arr i }
          calls := m.calls ++ []
          heap := fun x => if x = p then none
            else (store { m with
              hashtable := { arr := fun i => if i = b then (m.hashtable.arr b).eraseIdx 0
                else m.hashtable.arr i }
              calls := m.calls ++ [] } p { s with data := [] }).heap x } := by
    unfold free
    simp [store]
  have hscan2 : hashtable_iterator_scan
      { arr := fun i => if i = b then (m.hashtable.arr b).eraseIdx 0 else m.hashtable.arr i }
      (ARRAY_SIZE - b) b = .ok none :=
    hashtable_iterator_scan_none _ _ b (by omega) (by omega)
      (fun i h1 _ => by
        have hi : i ≠ b := by omega
        simp only [hi, if_false]
        exact hother i hi)
  have hnext2 := hashtable_iterator_next_end
    { arr := fun i => if i = b then (m.hashtable.arr b).eraseIdx 0 else m.hashtable.arr i }
    { array_position := b, entry_bucket := b, entry_link := 0 }
    (by simp [harr]) hscan2
  have hrun := cleanup_loop_remove (m.last_access % 256) (fuel + 1) m _ _
    hashtable_iterator_create _ p p s _ hnext1 hs hstate hdiff hrem hdata hfree
  rw [cleanup_loop_end _ fuel _ _ _ hnext2] at hrun
  refine ⟨_, hrun, ?_, ?_, ?_, ?_, rfl, rfl, rfl, rfl⟩
  · simp [harr]
  · intro i hi
    simp only [hi, if_false]
    exact hother i hi
  · simp
  · intro x hx
    simp [store, hx]

/-- The sweeps at a new second when the queue is empty, no closed session is
pending and the cleanup is due. -/
theorem sweeps_cleanup (fuel : Nat) (m swept : session_manager_t) (T : Nat)
    (hT : T ≠ m.last_access)
    (hlow : m.waiting_sessions.lower_idx < SM_TIMER_QUEUE_LENGTH)
    (hlen : m.waiting_sessions.length = 0) (hclosed : m.closed_session = none)
    (hclean : (T + 4294967296 - m.last_clean) % 4294967296 > SM_TCP_SYN_TIMEOUT)
    (hrun : session_manager_cleanup fuel { m with last_access := T, last_clean := T }
      = .ok swept) :
    session_manager_update_sweeps fuel m T = .ok swept := by
  have hfree : timer_queue_free { m with last_access := T } T
      = .ok { m with last_access := T } := timer_queue_free_empty _ T hlow hlen
  unfold session_manager_update_sweeps
  simp only [hT, ne_eq, not_false_eq_true, if_true, hfree]
  simp only [hclosed, hclean, if_true] at hrun ⊢
  exact hrun

/-- A call of `session_manager_update` at a second at which the cleanup is due,
for a packet that belongs to no flow and opens none, on a manager without
modules whose only chain holds the record `p`, due for removal, and behind it
the record `q`: the call removes `p` and leaves `q` as it is. -/
theorem update_cleanup_leaves_successor (fuel : Nat) (m : session_manager_t) (b p q T : Nat)
    (s : tcp_session_t) (packet : libtrace_packet_t) (ip : libtrace_ip) (tcp : libtrace_tcp)
    (hb : 0 < b) (hb2 : b < ARRAY_SIZE)
    (harr : m.hashtable.arr b = [p, q]) (hother : ∀ i, i ≠ b → m.hashtable.arr i = [])
    (hs : m.heap p = some s)
    (hstate : s.state = tcp_conn_state_t.SYN_RCVD ∨ s.state = tcp_conn_state_t.SYN_SENT)
    (hdiff : (T % 256 + 256 - s.last_access % 256) % 256 > SM_TCP_SYN_TIMEOUT)
    (hwait : s.waiting ≠ 1) (hmod : m.module_count = 0)
    (hsec : packet_seconds packet = T) (hT : T ≠ m.last_access)
    (hlow : m.waiting_sessions.lower_idx < SM_TIMER_QUEUE_LENGTH)
    (hlen : m.waiting_sessions.length = 0) (hclosed : m.closed_session = none)
    (hclean : (T + 4294967296 - m.last_clean) % 4294967296 > SM_TCP_SYN_TIMEOUT)
    (hip : packet.ip = some ip) (htcp : packet.tcp = some tcp)
    (hhash : hashtable_compute_hash (session_id_of ip tcp) ≠ b)
    (hbare : ¬ (tcp.syn = true ∧ tcp.ack = false)) :
    ∃ m2, session_manager_update (fuel + 3) m packet = .ok (m2, none) ∧
      m2.hashtable.arr b = [q] ∧ (∀ i, i ≠ b → m2.hashtable.arr i = []) ∧
      m2.heap p = none ∧ (∀ x, x ≠ p → m2.heap x = m.heap x) ∧
      m2.last_access = T ∧ m2.last_clean = T := by
  obtain ⟨swept, hrun, h1, h2, h3, h4, h5, h6, -, -⟩ :=
    cleanup_leaves_successor fuel { m with last_access := T, last_clean := T } b p q s hb hb2
      harr hother hs hstate hdiff hwait hmod
  have hsweep := sweeps_cleanup (fuel + 2) m swept T hT hlow hlen hclosed hclean hrun
  rw [← hsec] at hsweep
  have habsent : hashtable_retrieve swept.heap swept.hashtable (session_id_of ip tcp)
      = .ok none := by
    unfold hashtable_retrieve
    rw [h2 _ hhash]
    rfl
  exact ⟨swept, update_not_bare_syn (fuel + 2) m swept packet ip tcp hip htcp hsweep habsent
    hbare, h1, h2, h3, h4, h5, h6⟩

/-- Claim C14 at the failing input. Two unanswered SYNs in second 0 open the
flows `flow_a` (record 0) and `flow_b` (record 1) in state SYN_SENT; their
records share the chain of bucket 20, record 1 in front. A packet of another
flow arrives in second 61, when both are 61 seconds old and the cleanup is due:
the call removes record 1, and record 0 is still live and in the index
afterwards, in state SYN_SENT with `last_access` 0, while the manager is at
second 61. -/
theorem stale_syn_survives_cleanup (fuel : Nat) :
    ((manager_after 1 session_manager_create unanswered_syns).heap 0).map
      (fun s => (s.id, s.state, s.last_access)) = some (flow_a, SYN_SENT, 0) ∧
    ((manager_after 1 session_manager_create unanswered_syns).heap 1).map
      (fun s => (s.id, s.state, s.last_access)) = some (flow_b, SYN_SENT, 0) ∧
    (manager_after 1 session_manager_create unanswered_syns).hashtable.arr 20 = [1, 0] ∧
    ∃ m2, session_manager_update (fuel + 3)
        (manager_after 1 session_manager_create unanswered_syns) (stray_ack 61)
        = .ok (m2, none) ∧
      m2.last_access = 61 ∧ m2.last_clean = 61 ∧ m2.heap 1 = none ∧
      (m2.heap 0).map (fun s => (s.id, s.state, s.last_access)) = some (flow_a, SYN_SENT, 0) ∧
      hashtable_retrieve m2.heap m2.hashtable flow_a = .ok (some 0) := by
  have h0 : ((manager_after 1 session_manager_create unanswered_syns).heap 0).map
      (fun s => (s.id, s.state, s.last_access)) = some (flow_a, SYN_SENT, 0) := by decide
  have h1 : ((manager_after 1 session_manager_create unanswered_syns).heap 1).map
      (fun s => (s.id, s.state, s.last_access, s.waiting)) = some (flow_b, SYN_SENT, 0, 0) := by
    decide
  have harr : (manager_after 1 session_manager_create unanswered_syns).hashtable.arr 20
      = [1, 0] := by decide
  have hbrk : (manager_after 1 session_manager_create unanswered_syns).brk = 2 := by decide
  have hwf := reachable_wf _
    (manager_after_reachable 1 session_manager_create unanswered_syns Reachable.create)
  have hother : ∀ i, i ≠ 20 →
      (manager_after 1 session_manager_create unanswered_syns).hashtable.arr i = [] := by
    intro i hi
    cases hc : (manager_after 1 session_manager_create unanswered_syns).hashtable.arr i with
    | nil => rfl
    | cons p rest =>
      exfalso
      obtain ⟨s, hs, hh⟩ := hwf.alive i p (by rw [hc]; exact List.mem_cons_self _ _)
      have hp : p < 2 := by
        by_contra hge
        have := hwf.fresh p (by rw [hbrk]; omega)
        rw [this] at hs
        cases hs
      have hp2 : p = 0 ∨ p = 1 := by omega
      rcases hp2 with e | e
      · subst e
        rw [hs] at h0
        simp only [Option.map_some', Option.some.injEq, Prod.mk.injEq] at h0
        rw [h0.1, hash_flow_a] at hh
        exact hi hh.symm
      · subst e
        rw [hs] at h1
        simp only [Option.map_some', Option.some.injEq, Prod.mk.injEq] at h1
        rw [h1.1, hash_flow_b] at hh
        exact hi hh.symm
  cases hs1 : (manager_after 1 session_manager_create unanswered_syns).heap 1 with
  | none =>
    rw [hs1] at h1
    cases h1
  | some s1 =>
    have h1c := h1
    rw [hs1] at h1c
    simp only [Option.map_some', Option.some.injEq, Prod.mk.injEq] at h1c
    obtain ⟨hid1, hst1, hla1, hw1⟩ := h1c
    obtain ⟨m2, hrun, g1, g2, g3, g4, g5, g6⟩ :=
      update_cleanup_leaves_successor fuel
        (manager_after 1 session_manager_create unanswered_syns) 20 1 0 61 s1 (stray_ack 61) _ _
        (by decide) (by decide) harr hother hs1 (Or.inr hst1)
        (by rw [hla1]; decide) (by rw [hw1]; decide) (by decide) (by decide) (by decide)
        (by decide) (by decide) (by decide) (by decide) rfl rfl (by decide) (by decide)
    have hm0 : m2.heap 0 = (manager_after 1 session_manager_create unanswered_syns).heap 0 :=
      g4 0 (by decide)
    refine ⟨h0, ?_, harr, m2, hrun, g5, g6, g3, ?_, ?_⟩
    · simp only [Option.map_some', hid1, hst1, hla1]
    · rw [hm0]
      exact h0
    · cases hs0 : (manager_after 1 session_manager_create unanswered_syns).heap 0 with
      | none =>
        rw [hs0] at h0
        cases h0
      | some s0 =>
        rw [hs0] at h0
        simp only [Option.map_some', Option.some.injEq, Prod.mk.injEq] at h0
        rw [hashtable_retrieve, hash_flow_a, g1, hashtable_retrieve_chain, hm0, hs0]
        simp only [h0.1, (tcp_session_id_equals_iff flow_a flow_a).mpr rfl, if_true]

/-! ### The teardown of the manager -/

/-- The calls of `destroy` on a data array with a slot for every module. -/
theorem modules_destroy_ok (modules : Nat → Option session_module_t) (data : List module_data)
    (n : Nat) (h : ∀ i, i < n → modules i ≠ none) (hdata : n ≤ data.length) :
    modules_destroy modules data n
      = .ok ((List.range n).filterMap
          (fun i =>
            match modules i, data.get? i with
            | some d, some x => some (module_call.destroy i d x)
            | _, _ => none)) := by
  induction n with
  | zero => rfl
  | succ n ih =>
    obtain ⟨d, hd⟩ := Option.ne_none_iff_exists'.mp (h n (Nat.lt_succ_self n))
    have hx : data.get? n = some (data.get ⟨n, hdata⟩) := List.get?_eq_get hdata
    rw [modules_destroy, ih (fun i hi => h i (Nat.lt_succ_of_lt hi)) (Nat.le_of_succ_le hdata)]
    simp only [hd, hx]
    rw [List.range_succ, List.filterMap_append]
    simp only [List.filterMap_cons, List.filterMap_nil, hd, hx]

/-- Every registered module is present in the states that the API reaches. -/
theorem reachable_modules_present (m : session_manager_t) (h : Reachable m) :
    ∀ i, i < m.module_count → m.modules i ≠ none := by
  induction h with
  | create =>
    intro i hi
    exact absurd hi (Nat.not_lt_zero i)
  | register m d m2 index _ hreg ih =>
    unfold session_manager_register_module at hreg
    simp only [SM_MODULE_ARRAY_LENGTH] at hreg
    split_ifs at hreg with h1 h2
    all_goals
      simp only [Except.ok.injEq, Prod.mk.injEq] at hreg
      obtain ⟨hm2, -⟩ := hreg
      subst hm2
      intro i hi
      have hi2 : i < (m.module_count + 1) % 256 := hi
      have hle : (m.module_count + 1) % 256 ≤ m.module_count + 1 := Nat.mod_le _ _
    · show (if i < m.module_count + 1 + 5 then
        (if i = m.module_count then some d else m.modules i) else none) ≠ none
      rw [if_pos (by omega)]
      by_cases hic : i = m.module_count
      · rw [if_pos hic]
        exact Option.some_ne_none _
      · rw [if_neg hic]
        exact ih i (by omega)
    · show (if i = m.module_count then some d else m.modules i) ≠ none
      by_cases hic : i = m.module_count
      · rw [if_pos hic]
        exact Option.some_ne_none _
      · rw [if_neg hic]
        exact ih i (by omega)
  | update fuel m packet m2 session _ hrun ih =>
    have hk := update_kept fuel m m2 packet session hrun
    intro i hi
    rw [hk.modules]
    exact ih i (by rw [← hk.module_count]; exact hi)

theorem hashtable_compute_hash_lt (id : tcp_session_id_t) :
    hashtable_compute_hash id < ARRAY_SIZE :=
  Nat.mod_lt _ (by decide)

/-- The scan of `hashtable_iterator_next` from a position within the array
ends at the end of the array or at a bucket that is not `NULL`. -/
theorem hashtable_iterator_scan_ok (ht : hashtable_t) (left pos : Nat)
    (h : left + pos = ARRAY_SIZE) (hl : 0 < left) :
    hashtable_iterator_scan ht left pos = .ok none ∨
    ∃ q, hashtable_iterator_scan ht left pos = .ok (some q) ∧ pos < q ∧ q < ARRAY_SIZE ∧
      ht.arr q ≠ [] := by
  induction left generalizing pos with
  | zero => exact absurd hl (Nat.lt_irrefl 0)
  | succ left ih =>
    rw [hashtable_iterator_scan]
    by_cases hp : pos + 1 = ARRAY_SIZE
    · rw [if_pos hp]
      exact Or.inl rfl
    · rw [if_neg hp]
      by_cases he : ht.arr (pos + 1) = []
      · rw [if_pos he]
        rcases ih (pos + 1) (by omega) (by omega) with h1 | ⟨q, h1, h2, h3, h4⟩
        · exact Or.inl h1
        · exact Or.inr ⟨q, h1, by omega, h3, h4⟩
      · rw [if_neg he]
        exact Or.inr ⟨pos + 1, rfl, by omega, by omega, he⟩

/-- A call of `hashtable_iterator_next` on an iterator that has not reached the
end of the array returns, and leaves such an iterator when it returns a
session. -/
theorem hashtable_iterator_next_ok (ht : hashtable_t) (itr : hashtable_iterator_t)
    (hpos : itr.array_position < ARRAY_SIZE) :
    (∃ itr2, hashtable_iterator_next ht itr = .ok (itr2, none)) ∨
    ∃ itr2 p, hashtable_iterator_next ht itr = .ok (itr2, some p) ∧
      itr2.array_position < ARRAY_SIZE := by
  have hscan : (∃ itr2, (match hashtable_iterator_scan ht (ARRAY_SIZE - itr.array_position)
          itr.array_position with
        | .error e => .error e
        | .ok none => .ok ({ itr with array_position := ARRAY_SIZE }, none)
        | .ok (some pos) =>
          .ok ({ array_position := pos, entry_bucket := pos, entry_link := 0 },
            (ht.arr pos).head?)) = (.ok (itr2, none) :
              Except fault (hashtable_iterator_t × Option Nat))) ∨
      ∃ itr2 p, (match hashtable_iterator_scan ht (ARRAY_SIZE - itr.array_position)
          itr.array_position with
        | .error e => .error e
        | .ok none => .ok ({ itr with array_position := ARRAY_SIZE }, none)
        | .ok (some pos) =>
          .ok ({ array_position := pos, entry_bucket := pos, entry_link := 0 },
            (ht.arr pos).head?)) = (.ok (itr2, some p) :
              Except fault (hashtable_iterator_t × Option Nat)) ∧
        itr2.array_position < ARRAY_SIZE := by
    rcases hashtable_iterator_scan_ok ht (ARRAY_SIZE - itr.array_position) itr.array_position
      (by omega) (by omega) with h1 | ⟨q, h1, h2, h3, h4⟩
    · rw [h1]
      exact Or.inl ⟨_, rfl⟩
    · rw [h1]
      cases hq : ht.arr q with
      | nil => exact absurd hq h4
      | cons a l =>
        refine Or.inr ⟨{ array_position := q, entry_bucket := q, entry_link := 0 }, a, ?_, h3⟩
        show (Except.ok ({ array_position := q, entry_bucket := q, entry_link := 0 },
          (ht.arr q).head?) : Except fault (hashtable_iterator_t × Option Nat)) = _
        rw [hq]
        rfl
  unfold hashtable_iterator_next
  cases hd : (ht.arr itr.entry_bucket).drop itr.entry_link with
  | nil => exact hscan
  | cons a l =>
    cases l with
    | nil => exact hscan
    | cons b c => exact Or.inr ⟨_, b, rfl, hpos⟩

/-- A sum over the buckets when one value is one less. -/
theorem sum_range_update (f g : Nat → Nat) (n b : Nat) (hb : b < n) (hg : g b + 1 = f b)
    (hother : ∀ i, i ≠ b → g i = f i) :
    ((List.range n).map g).sum + 1 = ((List.range n).map f).sum := by
  induction n with
  | zero => exact absurd hb (Nat.not_lt_zero b)
  | succ n ih =>
    rw [List.range_succ, List.map_append, List.map_append, List.sum_append, List.sum_append]
    simp only [List.map_cons, List.map_nil, List.sum_cons, List.sum_nil, Nat.add_zero]
    by_cases hbn : b = n
    · subst hbn
      have hsame : (List.range b).map g = (List.range b).map f := by
        apply List.map_congr_left
        intro i hi
        exact hother i (by have := List.mem_range.mp hi; omega)
      rw [hsame]
      omega
    · have := ih (by omega)
      rw [hother n (fun e => hbn e.symm)]
      omega

/-- The table has one node less after `hashtable_iterator_remove`. -/
theorem index_size_remove (ht : hashtable_t) (b k p : Nat) (rest : List Nat)
    (hb : b < ARRAY_SIZE) (hdrop : (ht.arr b).drop k = p :: rest) :
    index_size { arr := fun i => if i = b then (ht.arr b).eraseIdx k else ht.arr i } + 1
      = index_size ht := by
  have hk : k < (ht.arr b).length := by
    by_contra hge
    rw [List.drop_eq_nil_of_le (by omega)] at hdrop
    cases hdrop
  unfold index_size
  refine sum_range_update _ _ ARRAY_SIZE b hb ?_ ?_
  · simp only [if_true]
    have hlen : ((ht.arr b).eraseIdx k).length = (ht.arr b).length - 1 := by
      simp [List.length_eraseIdx, hk]
    omega
  · intro i hi
    simp only [hi, if_false]

/-- A call of `session_manager_free_module_data` on a live record with a slot
for every module returns, after the calls of `destroy` for the record. -/
theorem free_module_data_ok (m : session_manager_t) (p : Nat) (s : tcp_session_t)
    (hs : m.heap p = some s) (hmod : ∀ i, i < m.module_count → m.modules i ≠ none)
    (hdata : m.module_count ≤ s.data.length) :
    ∃ m3, session_manager_free_module_data m p = .ok m3 ∧
      m3.calls = m.calls ++ destroy_calls m p ∧ ∃ s3, m3.heap p = some s3 := by
  unfold session_manager_free_module_data
  simp only [hs, destroy_calls]
  by_cases hw : s.waiting = 1
  · simp only [hw, if_true]
    exact ⟨m, rfl, by simp, s, hs⟩
  · simp only [hw, if_false, modules_destroy_ok m.modules s.data m.module_count hmod hdata]
    exact ⟨_, rfl, rfl, { s with data := [] }, by simp [store]⟩

/-- The loop of `session_manager_destroy` from an iterator that has not reached
the end of the array, given more rounds than the table has nodes: the loop
returns; the sessions it visits are those that the iteration of the table
returns when every session returned is removed; each of them was live and in
the table, is visited once, is unlinked and freed, and has received the calls
of `destroy_calls`; nothing else changes. -/
theorem destroy_loop_spec (fuel : Nat) :
    ∀ (m : session_manager_t) (itr : hashtable_iterator_t), manager_wf m →
      (∀ i, i < m.module_count → m.modules i ≠ none) →
      (∀ p s, m.heap p = some s → m.module_count ≤ s.data.length) →
      itr.array_position < ARRAY_SIZE → index_size m.hashtable < fuel →
      ∃ m2 visited,
        session_manager_destroy_loop fuel m itr = .ok m2 ∧
        hashtable_iterate (fun _ => true) fuel m.hashtable itr
          = .ok (m2.hashtable, visited, visited) ∧
        visited.Nodup ∧
        (∀ p, p ∈ visited →
          (∃ s, m.heap p = some s ∧ p ∈ m.hashtable.arr (hashtable_compute_hash s.id)) ∧
          m2.heap p = none ∧ ∀ b, p ∉ m2.hashtable.arr b) ∧
        (∀ p, p ∉ visited → m2.heap p = m.heap p) ∧
        (∀ b p, p ∈ m.hashtable.arr b → p ∉ visited → p ∈ m2.hashtable.arr b) ∧
        (∀ b p, p ∈ m2.hashtable.arr b → p ∈ m.hashtable.arr b) ∧
        m2.calls = m.calls ++ (visited.map (destroy_calls m)).flatten ∧
        m2.modules = m.modules ∧ m2.module_count = m.module_count := by
  induction fuel with
  | zero =>
    intro m itr _ _ _ _ hsize
    exact absurd hsize (Nat.not_lt_zero _)
  | succ fuel ih =>
    intro m itr hwf hmod hdata hpos hsize
    rcases hashtable_iterator_next_ok m.hashtable itr hpos with
      ⟨itr2, hnext⟩ | ⟨itr2, p, hnext, hpos2⟩
    · refine ⟨m, [], ?_, hashtable_iterate_end _ fuel _ _ _ hnext, List.nodup_nil, ?_,
        fun _ _ => rfl, fun _ _ h _ => h, fun _ _ h => h, by simp, rfl, rfl⟩
      · rw [session_manager_destroy_loop, hnext]
      · intro p hp
        exact absurd hp (List.not_mem_nil p)
    · obtain ⟨rest, hdrop⟩ := hashtable_iterator_next_some m.hashtable itr itr2 p hnext
      have hmem : p ∈ m.hashtable.arr itr2.entry_bucket := by
        have : p ∈ (m.hashtable.arr itr2.entry_bucket).drop itr2.entry_link := by
          rw [hdrop]
          exact List.mem_cons_self _ _
        exact List.mem_of_mem_drop this
      obtain ⟨s, hs, hhash⟩ := hwf.alive _ p hmem
      have hbucket : itr2.entry_bucket < ARRAY_SIZE := by
        rw [← hhash]
        exact hashtable_compute_hash_lt s.id
      have hrem : hashtable_iterator_remove m.hashtable itr2
          = .ok ({ arr := fun i =>
              if i = itr2.entry_bucket then
                (m.hashtable.arr itr2.entry_bucket).eraseIdx itr2.entry_link
              else m.hashtable.arr i }, p) := by
        unfold hashtable_iterator_remove
        rw [hdrop]
      obtain ⟨m3, hfmd, hcalls3, s3, hs3⟩ := free_module_data_ok
        { m with hashtable := { arr := fun i =>
            if i = itr2.entry_bucket then
              (m.hashtable.arr itr2.entry_bucket).eraseIdx itr2.entry_link
            else m.hashtable.arr i } } p s hs hmod (hdata p s hs)
      have hfree : ∃ m4, free m3 p = .ok m4 := by
        unfold free
        rw [hs3]
        exact ⟨_, rfl⟩
      obtain ⟨m4, hfree⟩ := hfree
      have hwf4 := cleanup_remove_wf m m3 m4 itr2 p rest hwf hdrop hfmd hfree
      obtain ⟨hof, -, -, -, hgone, hkeep⟩ := cleanup_remove_only_frees m
        { m with hashtable := { arr := fun i =>
            if i = itr2.entry_bucket then
              (m.hashtable.arr itr2.entry_bucket).eraseIdx itr2.entry_link
            else m.hashtable.arr i } } m3 m4 p rfl rfl rfl rfl rfl rfl rfl rfl hfmd hfree
      obtain ⟨ht3, -, -⟩ := free_module_data_effect _ m3 p hfmd
      obtain ⟨ht4, -, -⟩ := free_effect m3 m4 p hfree
      have htab : m4.hashtable
          = { arr := fun i =>
                if i = itr2.entry_bucket then
                  (m.hashtable.arr itr2.entry_bucket).eraseIdx itr2.entry_link
                else m.hashtable.arr i } := by rw [ht4, ht3]
      have hcalls4 : m4.calls = m.calls ++ destroy_calls m p := by
        rw [(free_frame m3 m4 p hfree).2.2.2.2.2.2.2.2, hcalls3]
        rfl
      have hsize4 : index_size m4.hashtable < fuel := by
        have := index_size_remove m.hashtable itr2.entry_bucket itr2.entry_link p rest hbucket
          hdrop
        rw [htab]
        omega
      have hmod4 : ∀ i, i < m4.module_count → m4.modules i ≠ none := by
        intro i hi
        rw [hof.modules]
        exact hmod i (by rw [← hof.module_count]; exact hi)
      have hdata4 : ∀ q t, m4.heap q = some t → m4.module_count ≤ t.data.length := by
        intro q t hq
        rw [hof.module_count]
        exact hdata q t (hof.heap q t hq)
      obtain ⟨m2, visited, hloop, hiter, hnodup, hvis, hrest, hstay, hsub, hcalls, hm, hc⟩ :=
        ih m4 itr2 hwf4 hmod4 hdata4 hpos2 hsize4
      have hpv : p ∉ visited := by
        intro hin
        obtain ⟨⟨t, ht, -⟩, -, -⟩ := hvis p hin
        rw [hgone] at ht
        cases ht
      have hsub4 : ∀ b q, q ∈ m4.hashtable.arr b → q ∈ m.hashtable.arr b := by
        intro b q hq
        rw [htab] at hq
        by_cases hb : b = itr2.entry_bucket
        · subst hb
          simp only [if_true] at hq
          exact (List.eraseIdx_sublist _ _).subset hq
        · simpa only [hb, if_false] using hq
      refine ⟨m2, p :: visited, ?_, ?_, List.nodup_cons.mpr ⟨hpv, hnodup⟩, ?_, ?_, ?_, ?_, ?_,
        hm.trans hof.modules, hc.trans hof.module_count⟩
      · rw [session_manager_destroy_loop, hnext]
        simp only [hrem, hfmd, hfree]
        exact hloop
      · rw [htab] at hiter
        exact hashtable_iterate_unlink _ fuel m.hashtable _ _ itr itr2 p p visited visited hnext
          rfl hrem hiter
      · intro q hq
        rcases List.mem_cons.mp hq with e | e
        · subst e
          refine ⟨⟨s, hs, by rw [hhash]; exact hmem⟩, ?_, ?_⟩
          · rw [hrest q hpv]
            exact hgone
          · intro b hb
            obtain ⟨t, ht, -⟩ := hwf4.alive b q (hsub b q hb)
            rw [hgone] at ht
            cases ht
        · obtain ⟨⟨t, ht, hin⟩, h2, h3⟩ := hvis q e
          exact ⟨⟨t, hof.heap q t ht, hsub4 _ q hin⟩, h2, h3⟩
      · intro q hq
        have hqp : q ≠ p := fun e => hq (e ▸ List.mem_cons_self _ _)
        have hqv : q ∉ visited := fun e => hq (List.mem_cons_of_mem _ e)
        rw [hrest q hqv, hkeep q hqp]
      · intro b q hq hnv
        have hqp : q ≠ p := fun e => hnv (e ▸ List.mem_cons_self _ _)
        have hqv : q ∉ visited := fun e => hnv (List.mem_cons_of_mem _ e)
        refine hstay b q ?_ hqv
        rw [htab]
        by_cases hb : b = itr2.entry_bucket
        · subst hb
          simp only [if_true]
          exact mem_eraseIdx_of_ne _ _ p q rest hdrop hq hqp
        · simpa only [hb, if_false] using hq
      · intro b q hq
        exact hsub4 b q (hsub b q hq)
      · rw [hcalls, hcalls4, List.map_cons, List.flatten_cons, List.append_assoc]
        congr 3
        apply List.map_congr_left
        intro q hq
        have hqp : q ≠ p := fun e => hpv (e ▸ hq)
        unfold destroy_calls
        rw [hkeep q hqp, hof.modules, hof.module_count]

/-- The calls of `destroy_calls` for a record without `waiting` whose data
array has a slot for every module: one call for every module, in order, on the
slot of the module. -/
theorem destroy_calls_spec (m : session_manager_t) (p : Nat) (s : tcp_session_t)
    (hs : m.heap p = some s) (hw : s.waiting ≠ 1)
    (hmod : ∀ i, i < m.module_count → m.modules i ≠ none)
    (hdata : m.module_count ≤ s.data.length) :
    (destroy_calls m p).length = m.module_count ∧
    ∀ i, i < m.module_count → ∃ d x, m.modules i = some d ∧ s.data.get? i = some x ∧
      (destroy_calls m p).get? i = some (module_call.destroy i d x) := by
  have hgen : ∀ n, n ≤ m.module_count →
      ((List.range n).filterMap (fun i =>
          match m.modules i, s.data.get? i with
          | some d, some x => some (module_call.destroy i d x)
          | _, _ => none)).length = n ∧
      ∀ i, i < n → ∃ d x, m.modules i = some d ∧ s.data.get? i = some x ∧
        ((List.range n).filterMap (fun i =>
          match m.modules i, s.data.get? i with
          | some d, some x => some (module_call.destroy i d x)
          | _, _ => none)).get? i = some (module_call.destroy i d x) := by
    intro n
    induction n with
    | zero =>
      intro _
      exact ⟨rfl, fun i hi => absurd hi (Nat.not_lt_zero i)⟩
    | succ n ih =>
      intro hn
      obtain ⟨hlen, hget⟩ := ih (by omega)
      obtain ⟨d, hd⟩ := Option.ne_none_iff_exists'.mp (hmod n (by omega))
      have hx : s.data.get? n = some (s.data.get ⟨n, by omega⟩) := List.get?_eq_get (by omega)
      rw [List.range_succ, List.filterMap_append]
      simp only [List.filterMap_cons, List.filterMap_nil, hd, hx]
      refine ⟨by simp only [List.length_append, hlen, List.length_singleton], ?_⟩
      intro i hi
      rcases Nat.lt_succ_iff_lt_or_eq.mp hi with hlt | heq
      · obtain ⟨d', x', h1, h2, h3⟩ := hget i hlt
        refine ⟨d', x', h1, h2, ?_⟩
        rw [List.get?_eq_getElem?, List.getElem?_append_left (by omega)]
        simpa [List.get?_eq_getElem?] using h3
      · subst heq
        refine ⟨d, _, hd, hx, ?_⟩
        rw [List.get?_eq_getElem?, List.getElem?_append_right (by omega)]
        simp only [hlen, Nat.sub_self, List.getElem?_cons_zero]
  unfold destroy_calls
  simp only [hs, hw, if_false]
  exact hgen m.module_count (Nat.le_refl _)

/-- Function `session_manager_destroy` on the sessions that its iteration of
the index reaches. For every reachable
manager state in which the data array of every record has a slot for every
registered module, a call of `session_manager_destroy` with enough rounds
returns. The sessions it visits are those that the iteration of the index
returns when every session returned is removed. Each of them was live and in
the index, is visited once, is removed from the index and freed, and receives,
unless its `waiting` is set, one call of `destroy` for every registered module,
in the order of the modules, on its slot for the module; a session with
`waiting` set receives none. Records that are not visited stay live and in the
index, and no other call is made. -/
theorem manager_destroy_visited (m : session_manager_t) (hreach : Reachable m)
    (hdata : ∀ p s, m.heap p = some s → m.module_count ≤ s.data.length) :
    ∃ fuel0, ∀ fuel, fuel0 ≤ fuel →
      ∃ m2 visited,
        session_manager_destroy fuel m = .ok m2 ∧
        hashtable_iterate (fun _ => true) fuel m.hashtable hashtable_iterator_create
          = .ok (m2.hashtable, visited, visited) ∧
        visited.Nodup ∧
        (∀ p, p ∈ visited →
          (∃ s, m.heap p = some s ∧ p ∈ m.hashtable.arr (hashtable_compute_hash s.id) ∧
            (s.waiting = 1 → destroy_calls m p = []) ∧
            (s.waiting ≠ 1 → (destroy_calls m p).length = m.module_count ∧
              ∀ i, i < m.module_count → ∃ d x, m.modules i = some d ∧ s.data.get? i = some x ∧
                (destroy_calls m p).get? i = some (module_call.destroy i d x))) ∧
          m2.heap p = none ∧ ∀ b, p ∉ m2.hashtable.arr b) ∧
        (∀ p, p ∉ visited → m2.heap p = m.heap p) ∧
        (∀ b p, p ∈ m.hashtable.arr b → p ∉ visited → p ∈ m2.hashtable.arr b) ∧
        m2.calls = m.calls ++ (visited.map (destroy_calls m)).flatten := by
  have hwf := reachable_wf m hreach
  have hmod := reachable_modules_present m hreach
  refine ⟨index_size m.hashtable + 1, ?_⟩
  intro fuel hfuel
  obtain ⟨m2, visited, hloop, hiter, hnodup, hvis, hrest, hstay, -, hcalls, -, -⟩ :=
    destroy_loop_spec fuel m hashtable_iterator_create hwf hmod hdata (by decide) (by omega)
  refine ⟨m2, visited, hloop, hiter, hnodup, ?_, hrest, hstay, hcalls⟩
  intro p hp
  obtain ⟨⟨s, hs, hin⟩, h2, h3⟩ := hvis p hp
  refine ⟨⟨s, hs, hin, ?_, ?_⟩, h2, h3⟩
  · intro hw
    unfold destroy_calls
    simp only [hs, hw, if_true]
  · intro hw
    exact destroy_calls_spec m p s hs hw hmod (hdata p s hs)

/-- In a well-formed state all of whose records hash to the bucket `b`, every
other bucket is `NULL`. -/
theorem buckets_of_heap (m : session_manager_t) (b : Nat) (hwf : manager_wf m)
    (h : ∀ p s, m.heap p = some s → hashtable_compute_hash s.id = b) :
    ∀ i, i ≠ b → m.hashtable.arr i = [] := by
  intro i hi
  cases hc : m.hashtable.arr i with
  | nil => rfl
  | cons p rest =>
    exfalso
    obtain ⟨s, hs, hh⟩ := hwf.alive i p (by rw [hc]; exact List.mem_cons_self _ _)
    rw [h p s hs] at hh
    exact hi hh.symm

/-- The teardown of a manager whose index holds one record, with `waiting`
set: the record is removed from the index and freed, and no call is made. -/
theorem destroy_single_waiting (fuel : Nat) (m : session_manager_t) (b p : Nat)
    (s : tcp_session_t) (hb : 0 < b) (hb2 : b < ARRAY_SIZE)
    (harr : m.hashtable.arr b = [p]) (hother : ∀ i, i ≠ b → m.hashtable.arr i = [])
    (hs : m.heap p = some s) (hwait : s.waiting = 1) :
    ∃ m2, session_manager_destroy (fuel + 2) m = .ok m2 ∧
      m2.hashtable.arr b = [] ∧ m2.heap p = none ∧ m2.calls = m.calls := by
  have hscan : hashtable_iterator_scan m.hashtable
      (ARRAY_SIZE - hashtable_iterator_create.array_position)
      hashtable_iterator_create.array_position = .ok (some b) :=
    hashtable_iterator_scan_find _ _ 0 b (by simp [hashtable_iterator_create]) hb hb2
      (by rw [harr]; simp) (fun i _ h2 => hother i (by omega))
  have hnext1 := hashtable_iterator_next_bucket m.hashtable hashtable_iterator_create b
    (by
      show ((m.hashtable.arr 0).drop 0).length ≤ 1
      rw [hother 0 (by omega)]
      simp) hscan
  rw [harr] at hnext1
  obtain ⟨ht2, hht2⟩ : ∃ ht2 : hashtable_t,
      ht2 = { arr := fun i => if i = b then [] else m.hashtable.arr i } := ⟨_, rfl⟩
  have hrem : hashtable_iterator_remove m.hashtable
      { array_position := b, entry_bucket := b, entry_link := 0 } = .ok (ht2, p) := by
    unfold hashtable_iterator_remove
    simp only [harr, List.drop_zero]
    rw [hht2]
    rfl
  have hdata : session_manager_free_module_data { m with hashtable := ht2 } p
      = .ok { m with hashtable := ht2 } := by
    unfold session_manager_free_module_data
    simp only [hs, hwait, if_true]
  have hfree : free { m with hashtable := ht2 } p
      = .ok { m with hashtable := ht2, heap := fun x => if x = p then none else m.heap x } := by
    unfold free
    simp only [hs]
  have hscan2 : hashtable_iterator_scan ht2 (ARRAY_SIZE - b) b = .ok none :=
    hashtable_iterator_scan_none _ _ b (by omega) (by omega)
      (fun i h1 _ => by
        have hi : i ≠ b := by omega
        rw [hht2]
        simp only [hi, if_false]
        exact hother i hi)
  have hnext2 := hashtable_iterator_next_end ht2
    { array_position := b, entry_bucket := b, entry_link := 0 }
    (by rw [hht2]; simp) hscan2
  have hrun : session_manager_destroy (fuel + 2) m
      = .ok { m with hashtable := ht2, heap := fun x => if x = p then none else m.heap x } := by
    unfold session_manager_destroy
    rw [session_manager_destroy_loop, hnext1]
    simp only [List.head?_cons, hrem, hdata, hfree]
    rw [session_manager_destroy_loop, hnext2]
  refine ⟨_, hrun, ?_, ?_, rfl⟩
  · rw [hht2]
    simp
  · simp

/-- Claim C15, the failing input. After scenario 1 on a manager with one
module, the flow is in TIME_WAIT with `waiting` set and holds the state that
the module created for it; `session_manager_destroy` removes the record from
the index and frees it, and makes no call: the calls made to the module are the
`create` and the `update`s of the packets, and no `destroy`, so the state of the
module for this flow is never destroyed. -/
theorem time_wait_flow_not_destroyed :
    (manager_after 1 (manager_with_modules [{ addr := 7 }]) scenario1).module_count = 1 ∧
    ((manager_after 1 (manager_with_modules [{ addr := 7 }]) scenario1).heap 0).map
      (fun s => (s.state, s.waiting, s.data))
      = some (TIME_WAIT, 1, [{ module := 0, session := 0 }]) ∧
    (manager_after 1 (manager_with_modules [{ addr := 7 }]) scenario1).hashtable.arr 20 = [0] ∧
    ∀ fuel : Nat, ∃ m2,
      session_manager_destroy (fuel + 2)
        (manager_after 1 (manager_with_modules [{ addr := 7 }]) scenario1) = .ok m2 ∧
      m2.heap 0 = none ∧ m2.hashtable.arr 20 = [] ∧
      m2.calls = (manager_after 1 (manager_with_modules [{ addr := 7 }]) scenario1).calls ∧
      m2.calls.all (fun c =>
        match c with
        | module_call.destroy _ _ _ => false
        | _ => true) = true := by
  have h0 : ((manager_after 1 (manager_with_modules [{ addr := 7 }]) scenario1).heap 0).map
      (fun s => (s.state, s.waiting, s.data))
      = some (TIME_WAIT, 1, [{ module := 0, session := 0 }]) := by decide
  have hid : ((manager_after 1 (manager_with_modules [{ addr := 7 }]) scenario1).heap 0).map
      (fun s => s.id) = some flow_a := by decide
  have harr : (manager_after 1 (manager_with_modules [{ addr := 7 }]) scenario1).hashtable.arr 20
      = [0] := by decide
  have hbrk : (manager_after 1 (manager_with_modules [{ addr := 7 }]) scenario1).brk = 1 := by
    decide
  have hwf := reachable_wf _ (manager_after_reachable 1 _ scenario1
    (manager_with_modules_reachable [{ addr := 7 }]))
  have hother := buckets_of_heap _ 20 hwf (by
    intro p s hs
    have hp : p = 0 := by
      by_contra hne
      have := hwf.fresh p (by rw [hbrk]; omega)
      rw [this] at hs
      cases hs
    subst hp
    rw [hs] at hid
    simp only [Option.map_some', Option.some.injEq] at hid
    rw [hid, hash_flow_a])
  refine ⟨by decide, h0, harr, ?_⟩
  intro fuel
  cases hs : (manager_after 1 (manager_with_modules [{ addr := 7 }]) scenario1).heap 0 with
  | none =>
    rw [hs] at h0
    cases h0
  | some s =>
    have h0c := h0
    rw [hs] at h0c
    simp only [Option.map_some', Option.some.injEq, Prod.mk.injEq] at h0c
    obtain ⟨m2, hrun, g1, g2, g3⟩ := destroy_single_waiting fuel _ 20 0 s (by decide) (by decide)
      harr hother hs h0c.2.1
    refine ⟨m2, hrun, g2, g1, g3, ?_⟩
    rw [g3]
    decide

/-- The state after scenario 1 on a manager with one module is reachable and
the data array of its record has the slot of the module, so
`session_manager_destroy` returns and makes the calls of `destroy_calls` for
the sessions it visits. -/
theorem manager_destroy_visited_witness :
    Reachable (manager_after 1 (manager_with_modules [{ addr := 7 }]) scenario1) ∧
    (∀ p s, (manager_after 1 (manager_with_modules [{ addr := 7 }]) scenario1).heap p = some s →
      (manager_after 1 (manager_with_modules [{ addr := 7 }]) scenario1).module_count
        ≤ s.data.length) ∧
    ∃ fuel0, ∀ fuel, fuel0 ≤ fuel → ∃ (m2 : session_manager_t) (visited : List Nat),
      session_manager_destroy fuel
        (manager_after 1 (manager_with_modules [{ addr := 7 }]) scenario1) = .ok m2 ∧
      visited.Nodup ∧
      m2.calls = (manager_after 1 (manager_with_modules [{ addr := 7 }]) scenario1).calls
        ++ (visited.map (destroy_calls
            (manager_after 1 (manager_with_modules [{ addr := 7 }]) scenario1))).flatten := by
  have hreach : Reachable (manager_after 1 (manager_with_modules [{ addr := 7 }]) scenario1) :=
    manager_after_reachable 1 _ scenario1 (manager_with_modules_reachable [{ addr := 7 }])
  have hbrk : (manager_after 1 (manager_with_modules [{ addr := 7 }]) scenario1).brk = 1 := by
    decide
  have hlen : ((manager_after 1 (manager_with_modules [{ addr := 7 }]) scenario1).heap 0).map
      (fun s => s.data.length) = some 1 := by decide
  have hcount : (manager_after 1 (manager_with_modules [{ addr := 7 }]) scenario1).module_count
      = 1 := by decide
  have hdata : ∀ p s,
      (manager_after 1 (manager_with_modules [{ addr := 7 }]) scenario1).heap p = some s →
      (manager_after 1 (manager_with_modules [{ addr := 7 }]) scenario1).module_count
        ≤ s.data.length := by
    intro p s hs
    have hp : p = 0 := by
      by_contra hne
      have := (reachable_wf _ hreach).fresh p (by rw [hbrk]; omega)
      rw [this] at hs
      cases hs
    subst hp
    rw [hs] at hlen
    simp only [Option.map_some', Option.some.injEq] at hlen
    rw [hcount, hlen]
  obtain ⟨fuel0, h⟩ := manager_destroy_visited
    (manager_after 1 (manager_with_modules [{ addr := 7 }]) scenario1) hreach hdata
  refine ⟨hreach, hdata, fuel0, ?_⟩
  intro fuel hfuel
  obtain ⟨m2, visited, h1, -, h3, -, -, -, h7⟩ := h fuel hfuel
  exact ⟨m2, visited, h1, h3, h7⟩

/-! ### Live records and the slots of the queue -/

theorem manager_live_congr (m m2 : session_manager_t) (h : manager_live m)
    (h1 : m2.hashtable = m.hashtable) (h2 : m2.heap = m.heap)
    (h3 : m2.waiting_sessions = m.waiting_sessions) : manager_live m2 := by
  refine ⟨?_, ?_, ?_, ?_⟩
  · rw [h1, h2]
    exact h.indexed
  · rw [h2, h3]
    exact h.slots_live
  · rw [h3]
    exact h.slots_inj
  · rw [h3]
    exact h.lower

/-- Two live records with the same ID are the same record. -/
theorem live_same_id (m : session_manager_t) (hwf : manager_wf m) (h : manager_live m)
    (p q : Nat) (s t : tcp_session_t) (hp : m.heap p = some s) (hq : m.heap q = some t)
    (hid : s.id = t.id) : p = q := by
  by_contra hne
  have hpi := h.indexed p s hp
  have hqi := h.indexed q t hq
  rw [hid] at hpi
  have hsym : Symmetric (fun p q : Nat =>
      ∀ s t, m.heap p = some s → m.heap q = some t → s.id ≠ t.id) := by
    intro a b hab s1 t1 hs1 ht1 e
    exact hab t1 s1 ht1 hs1 e.symm
  exact (List.Pairwise.forall hsym (hwf.unique _)) hpi hqi hne s t hp hq hid

/-- Rewriting a record without changing its ID. -/
theorem store_live (m : session_manager_t) (p : Nat) (s s2 : tcp_session_t)
    (h : manager_live m) (hs : m.heap p = some s) (hid : s2.id = s.id) :
    manager_live (store m p s2) := by
  refine ⟨?_, ?_, h.slots_inj, h.lower⟩
  · intro q t hq
    by_cases hqp : q = p
    · subst hqp
      simp only [store_heap_same, Option.some.injEq] at hq
      subst hq
      rw [hid]
      exact h.indexed q s hs
    · rw [store_heap_other m p q s2 hqp] at hq
      exact h.indexed q t hq
  · intro i q hi
    by_cases hqp : q = p
    · subst hqp
      simp [store]
    · rw [store_heap_other m p q s2 hqp]
      exact h.slots_live i q hi

/-- The state after a session has been freed and unlinked, with no slot of the
queue left that holds it. -/
theorem live_after_free (m m2 : session_manager_t) (session : Nat) (s : tcp_session_t)
    (hwf : manager_wf m) (h : manager_live m) (hs : m.heap session = some s)
    (hheap : m2.heap = (fun q => if q = session then none else m.heap q))
    (hsess : ∀ i p, m2.waiting_sessions.sessions i = some p →
      m.waiting_sessions.sessions i = some p ∧ p ≠ session)
    (hlow : m2.waiting_sessions.lower_idx < SM_TIMER_QUEUE_LENGTH)
    (htab : ∀ b q, q ∈ m.hashtable.arr b → (∀ t, m.heap q = some t → t.id ≠ s.id) →
      q ∈ m2.hashtable.arr b) : manager_live m2 := by
  refine ⟨?_, ?_, ?_, hlow⟩
  · intro p t hp
    rw [hheap] at hp
    by_cases hps : p = session
    · simp [hps] at hp
    · simp only [hps, if_false] at hp
      refine htab _ p (h.indexed p t hp) ?_
      intro t2 ht2 e
      exact hps (live_same_id m hwf h p session t2 s ht2 hs e)
  · intro i p hi
    obtain ⟨h1, h2⟩ := hsess i p hi
    rw [hheap]
    simp only [h2, if_false]
    exact h.slots_live i p h1
  · intro i j p hi hj
    exact h.slots_inj i j p (hsess i p hi).1 (hsess j p hj).1

/-- Function `session_manager_free_session` on a session that is in no slot of
the queue. -/
theorem free_session_live (m m2 : session_manager_t) (session : Nat) (hwf : manager_wf m)
    (h : manager_live m) (hno : ∀ i, m.waiting_sessions.sessions i ≠ some session)
    (hfree : session_manager_free_session m session = .ok m2) : manager_live m2 := by
  obtain ⟨s, hs, hheap, hq, htab⟩ := free_session_effect m m2 session hfree
  refine live_after_free m m2 session s hwf h hs hheap ?_ (by rw [hq]; exact h.lower) htab
  intro i p hi
  rw [hq] at hi
  refine ⟨hi, ?_⟩
  intro e
  subst e
  exact hno i hi

/-- The loop of `timer_queue_free`. -/
theorem timer_queue_free_loop_live (current_time rounds : Nat) (m m2 : session_manager_t)
    (hwf : manager_wf m) (h : manager_live m)
    (hrun : timer_queue_free_loop current_time rounds m = .ok m2) : manager_live m2 := by
  induction rounds generalizing m with
  | zero =>
    simp only [timer_queue_free_loop] at hrun
    split_ifs at hrun
    simp only [Except.ok.injEq] at hrun
    subst hrun
    exact h
  | succ rounds ih =>
    rw [timer_queue_free_loop] at hrun
    by_cases hlo : m.waiting_sessions.lower_idx ≥ SM_TIMER_QUEUE_LENGTH
    · rw [if_pos hlo] at hrun
      cases hrun
    rw [if_neg hlo] at hrun
    have hlow2 : (if m.waiting_sessions.lower_idx + 1 = SM_TIMER_QUEUE_LENGTH then 0
        else m.waiting_sessions.lower_idx + 1) < SM_TIMER_QUEUE_LENGTH := by
      simp only [SM_TIMER_QUEUE_LENGTH] at hlo ⊢
      split_ifs <;> omega
    by_cases hc : m.waiting_sessions.times m.waiting_sessions.lower_idx < current_time ∧
        m.waiting_sessions.length ≠ 0
    · rw [if_pos hc] at hrun
      cases hq : m.waiting_sessions.sessions m.waiting_sessions.lower_idx with
        | none =>
          simp only [hq] at hrun
          refine ih _ ?_ ?_ hrun
          · refine manager_wf_slots m _ hwf rfl rfl rfl ?_
            intro i p hi
            simp only at hi
            split_ifs at hi
            exact hi
          · refine ⟨h.indexed, ?_, ?_, hlow2⟩
            · intro i p hi
              simp only at hi
              split_ifs at hi
              exact h.slots_live i p hi
            · intro i j p hi hj
              simp only at hi hj
              split_ifs at hi hj
              exact h.slots_inj i j p hi hj
        | some session =>
          simp only [hq] at hrun
          cases hf : session_manager_free_session m session with
          | error e => simp [hf] at hrun
          | ok m3 =>
            simp only [hf] at hrun
            have hwf3 := free_session_wf m m3 session hwf hf
            obtain ⟨s, hs, hheap, hq3, htab⟩ := free_session_effect m m3 session hf
            refine ih _ ?_ ?_ hrun
            · refine manager_wf_slots m3 _ hwf3 rfl rfl rfl ?_
              intro i p hi
              simp only at hi
              split_ifs at hi
              rw [hq3]
              exact hi
            · refine live_after_free m _ session s hwf h hs hheap ?_ hlow2 htab
              intro i p hi
              simp only at hi
              split_ifs at hi with hil
              refine ⟨hi, ?_⟩
              intro e
              subst e
              exact hil (h.slots_inj i _ p hi hq)
    · rw [if_neg hc] at hrun
      cases hrun
      exact h

/-- The loop of `timer_queue_free_early`. -/
theorem timer_queue_free_early_loop_live (session rounds i : Nat) (m m2 : session_manager_t)
    (hwf : manager_wf m) (h : manager_live m)
    (hrun : timer_queue_free_early_loop session rounds i m = .ok m2) : manager_live m2 := by
  induction rounds generalizing i with
  | zero =>
    simp only [timer_queue_free_early_loop, Except.ok.injEq] at hrun
    subst hrun
    exact h
  | succ rounds ih =>
    rw [timer_queue_free_early_loop] at hrun
    generalize hpos : (if (m.waiting_sessions.lower_idx + i) % 4294967296
          ≥ SM_TIMER_QUEUE_LENGTH then
        (m.waiting_sessions.lower_idx + i) % 4294967296 - SM_TIMER_QUEUE_LENGTH
      else (m.waiting_sessions.lower_idx + i) % 4294967296) = pos at hrun
    by_cases hge : pos ≥ SM_TIMER_QUEUE_LENGTH
    · rw [if_pos hge] at hrun
      cases hrun
    · rw [if_neg hge] at hrun
      cases hq : m.waiting_sessions.sessions pos with
      | none =>
        simp only [hq] at hrun
        exact ih _ hrun
      | some queued =>
        simp only [hq] at hrun
        cases hqh : m.heap queued with
        | none => simp [hqh] at hrun
        | some q =>
          cases hsh : m.heap session with
          | none => simp [hqh, hsh] at hrun
          | some s =>
            simp only [hqh, hsh] at hrun
            by_cases heq : tcp_session_id_equals q.id s.id = true
            · rw [if_pos heq] at hrun
              have hsame : queued = session :=
                live_same_id m hwf h queued session q s hqh hsh
                  ((tcp_session_id_equals_iff _ _).mp heq)
              obtain ⟨s', hs', hheap, hq2, htab⟩ := free_session_effect _ m2 session hrun
              have hs'' : m.heap session = some s' := hs'
              refine live_after_free m m2 session s' hwf h hs'' hheap ?_
                (by rw [hq2]; exact h.lower) htab
              intro j p hj
              rw [hq2] at hj
              simp only at hj
              split_ifs at hj with hjp
              refine ⟨hj, ?_⟩
              intro e
              subst e
              rw [← hsame] at hj
              exact hjp (h.slots_inj j pos queued hj hq)
            · rw [if_neg heq] at hrun
              exact ih _ hrun

/-- A state that has the session `session`, which was in no slot, in the slot
`pos` of the queue and a record with the same ID in its place. -/
theorem add_slot_live (m m2 : session_manager_t) (session pos : Nat) (s s2 : tcp_session_t)
    (h : manager_live m) (hs : m.heap session = some s) (hid : s2.id = s.id)
    (hno : ∀ j, m.waiting_sessions.sessions j ≠ some session)
    (h1 : m2.heap = (store m session s2).heap) (h2 : m2.hashtable = m.hashtable)
    (h3 : m2.waiting_sessions.sessions
      = fun i => if i = pos then some session else m.waiting_sessions.sessions i)
    (h4 : m2.waiting_sessions.lower_idx = m.waiting_sessions.lower_idx) : manager_live m2 := by
  have hst := store_live m session s s2 h hs hid
  refine ⟨?_, ?_, ?_, by rw [h4]; exact h.lower⟩
  · rw [h1, h2]
    exact hst.indexed
  · intro i p hi
    rw [h3] at hi
    rw [h1]
    by_cases hip : i = pos
    · simp only [hip, if_true, Option.some.injEq] at hi
      subst hi
      simp [store]
    · simp only [hip, if_false] at hi
      exact hst.slots_live i p hi
  · intro i j p hi hj
    rw [h3] at hi hj
    by_cases hip : i = pos
    · by_cases hjp : j = pos
      · rw [hip, hjp]
      · simp only [hip, if_true, Option.some.injEq] at hi
        simp only [hjp, if_false] at hj
        subst hi
        exact absurd hj (hno j)
    · by_cases hjp : j = pos
      · simp only [hjp, if_true, Option.some.injEq] at hj
        simp only [hip, if_false] at hi
        subst hj
        exact absurd hi (hno i)
      · simp only [hip, if_false] at hi
        simp only [hjp, if_false] at hj
        exact h.slots_inj i j p hi hj

/-- Function `timer_queue_add`, called on a session that was in no slot. -/
theorem timer_queue_add_live (m m2 : session_manager_t) (session time : Nat)
    (s s2 : tcp_session_t) (h : manager_live m) (hs : m.heap session = some s)
    (hid : s2.id = s.id) (hno : ∀ j, m.waiting_sessions.sessions j ≠ some session)
    (hadd : timer_queue_add (store m session s2) session time = .ok m2) : manager_live m2 := by
  unfold timer_queue_add at hadd
  simp only at hadd
  split_ifs at hadd
  all_goals
    simp only [Except.ok.injEq] at hadd
    subst hadd
    exact add_slot_live m _ session _ s s2 h hs hid hno rfl rfl rfl rfl

/-- The allocation of a record and its insertion into the index. -/
theorem alloc_live (m : session_manager_t) (s : tcp_session_t) (calls : List module_call)
    (hwf : manager_wf m) (h : manager_live m) :
    manager_live { store { m with brk := m.brk + 1, calls := calls } m.brk s with
      hashtable := { arr := fun i =>
        if i = hashtable_compute_hash s.id then
          m.brk :: m.hashtable.arr (hashtable_compute_hash s.id)
        else m.hashtable.arr i } } := by
  refine ⟨?_, ?_, h.slots_inj, h.lower⟩
  · intro p t hp
    simp only [store] at hp ⊢
    by_cases hpb : p = m.brk
    · subst hpb
      simp only [if_true, Option.some.injEq] at hp
      subst hp
      simp
    · simp only [hpb, if_false] at hp
      have hin := h.indexed p t hp
      by_cases hb : hashtable_compute_hash t.id = hashtable_compute_hash s.id
      · rw [hb] at hin ⊢
        simp only [if_true]
        exact List.mem_cons_of_mem _ hin
      · simp only [hb, if_false]
        exact hin
  · intro i p hi
    have hlt := hwf.slots i p hi
    have hne : p ≠ m.brk := by omega
    simp only [store, hne, if_false]
    exact h.slots_live i p hi

/-- The removal of a session in SYN_SENT or SYN_RCVD by
`session_manager_cleanup`. -/
theorem cleanup_remove_live (m m3 m4 : session_manager_t) (itr : hashtable_iterator_t)
    (session : Nat) (rest : List Nat) (s : tcp_session_t) (hwf : manager_wf m)
    (h : manager_live m) (hs : m.heap session = some s)
    (hstate : s.state = SYN_RCVD ∨ s.state = SYN_SENT)
    (hdrop : (m.hashtable.arr itr.entry_bucket).drop itr.entry_link = session :: rest)
    (hf : session_manager_free_module_data { m with hashtable :=
      { arr := fun i =>
          if i = itr.entry_bucket then
            (m.hashtable.arr itr.entry_bucket).eraseIdx itr.entry_link
          else m.hashtable.arr i } } session = .ok m3)
    (hfr : free m3 session = .ok m4) : manager_live m4 := by
  obtain ⟨ht3, hq3, hh3⟩ := free_module_data_effect _ m3 session hf
  obtain ⟨ht4, hq4, hh4⟩ := free_effect m3 m4 session hfr
  have hheap4 : ∀ p, p ≠ session → m4.heap p = m.heap p := by
    intro p hp
    rw [hh4]
    simp only [hp, if_false]
    exact hh3 p hp
  have hno : ∀ i, m.waiting_sessions.sessions i ≠ some session := by
    intro i hi
    have := (hwf.queued i session s hi hs).2
    rcases hstate with e | e <;> rw [e] at this <;> rcases this with x | x <;> cases x
  refine ⟨?_, ?_, ?_, by rw [hq4, hq3]; exact h.lower⟩
  · intro p t hp
    have hps : p ≠ session := by
      intro e
      rw [hh4, e] at hp
      simp at hp
    rw [hheap4 p hps] at hp
    have hin := h.indexed p t hp
    rw [ht4, ht3]
    by_cases hb : hashtable_compute_hash t.id = itr.entry_bucket
    · simp only [hb, if_true]
      rw [hb] at hin
      exact mem_eraseIdx_of_ne _ _ _ _ _ hdrop hin hps
    · simp only [hb, if_false]
      exact hin
  · intro i p hi
    rw [hq4, hq3] at hi
    have hps : p ≠ session := fun e => hno i (e ▸ hi)
    rw [hheap4 p hps]
    exact h.slots_live i p hi
  · intro i j p hi hj
    rw [hq4, hq3] at hi hj
    exact h.slots_inj i j p hi hj

/-- The loop of `session_manager_cleanup`. -/
theorem cleanup_loop_live (last_access fuel : Nat) (m m2 : session_manager_t)
    (itr : hashtable_iterator_t) (hwf : manager_wf m) (h : manager_live m)
    (hrun : session_manager_cleanup_loop last_access fuel m itr = .ok m2) : manager_live m2 := by
  induction fuel generalizing m itr with
  | zero => simp [session_manager_cleanup_loop] at hrun
  | succ fuel ih =>
    rw [session_manager_cleanup_loop] at hrun
    cases hn : hashtable_iterator_next m.hashtable itr with
    | error e => simp [hn] at hrun
    | ok r =>
      obtain ⟨itr2, found⟩ := r
      cases found with
      | none =>
        simp only [hn, Except.ok.injEq] at hrun
        subst hrun
        exact h
      | some session =>
        simp only [hn] at hrun
        cases hs : m.heap session with
        | none => simp [hs] at hrun
        | some s =>
          simp only [hs] at hrun
          by_cases hc : (s.state = SYN_RCVD ∨ s.state = SYN_SENT) ∧
              (last_access + 256 - s.last_access % 256) % 256 > SM_TCP_SYN_TIMEOUT
          · simp only [hc.1, hc.2, if_true] at hrun
            obtain ⟨rest, hdrop⟩ := hashtable_iterator_next_some _ _ _ _ hn
            simp only [hashtable_iterator_remove, hdrop] at hrun
            cases hf : session_manager_free_module_data { m with hashtable :=
                { arr := fun i =>
                    if i = itr2.entry_bucket then
                      (m.hashtable.arr itr2.entry_bucket).eraseIdx itr2.entry_link
                    else m.hashtable.arr i } } session with
            | error e => simp [hf] at hrun
            | ok m3 =>
              simp only [hf] at hrun
              cases hfr : free m3 session with
              | error e => simp [hfr] at hrun
              | ok m4 =>
                simp only [hfr] at hrun
                exact ih m4 itr2 (cleanup_remove_wf m m3 m4 itr2 session rest hwf hdrop hf hfr)
                  (cleanup_remove_live m m3 m4 itr2 session rest s hwf h hs hc.1 hdrop hf hfr)
                  hrun
          · have hrun2 : session_manager_cleanup_loop last_access fuel m itr2 = .ok m2 := by
              by_cases h1 : s.state = SYN_RCVD ∨ s.state = SYN_SENT
              · have h2 : ¬ (last_access + 256 - s.last_access % 256) % 256
                    > SM_TCP_SYN_TIMEOUT := fun x => hc ⟨h1, x⟩
                simpa only [h1, h2, if_true, if_false] using hrun
              · simpa only [h1, if_false] using hrun
            exact ih m itr2 hwf h hrun2

/-- The sweeps at the start of `session_manager_update`. -/
theorem sweeps_live (fuel : Nat) (m m2 : session_manager_t) (current_time : Nat)
    (hwf : manager_wf m) (h : manager_live m)
    (hrun : session_manager_update_sweeps fuel m current_time = .ok m2) : manager_live m2 := by
  obtain ⟨m1, m3, h1, h2, h3⟩ := sweeps_phases fuel m m2 current_time hrun
  have step1 : manager_wf m1 ∧ manager_live m1 := by
    split_ifs at h1
    · unfold timer_queue_free at h1
      have hwf0 := manager_wf_congr m { m with last_access := current_time } hwf rfl rfl rfl rfl
      have hl0 := manager_live_congr m { m with last_access := current_time } h rfl rfl rfl
      exact ⟨timer_queue_free_loop_wf _ _ _ m1 hwf0 h1,
        timer_queue_free_loop_live _ _ _ m1 hwf0 hl0 h1⟩
    · cases h1
      exact ⟨hwf, h⟩
  obtain ⟨hwf1, hl1⟩ := step1
  have step2 : manager_wf m3 ∧ manager_live m3 := by
    rcases h2 with ⟨-, e⟩ | ⟨c, s, hc, hs, ⟨hw, m4, hf, e⟩ | ⟨hw, e⟩⟩
    · rw [e]
      exact ⟨hwf1, hl1⟩
    · rw [e]
      have hno : ∀ i, m1.waiting_sessions.sessions i ≠ some c := by
        intro i hi
        have := (hwf1.queued i c s hi hs).1
        omega
      exact ⟨manager_wf_congr m4 _ (free_session_wf m1 m4 _ hwf1 hf) rfl rfl rfl rfl,
        manager_live_congr m4 _ (free_session_live m1 m4 c hwf1 hl1 hno hf) rfl rfl rfl⟩
    · rw [e]
      exact ⟨manager_wf_congr m1 _ hwf1 rfl rfl rfl rfl,
        manager_live_congr m1 _ hl1 rfl rfl rfl⟩
  obtain ⟨hwf3, hl3⟩ := step2
  split_ifs at h3
  · unfold session_manager_cleanup at h3
    exact cleanup_loop_live _ _ _ m2 _
      (manager_wf_congr m3 { m3 with last_clean := current_time } hwf3 rfl rfl rfl rfl)
      (manager_live_congr m3 { m3 with last_clean := current_time } hl3 rfl rfl rfl) h3
  · cases h3
    exact hl3

/-- The creation of a flow. -/
theorem update_new_live (m m2 : session_manager_t) (ip : libtrace_ip) (tcp : libtrace_tcp)
    (id : tcp_session_id_t) (direction : Int) (r : Option Nat) (hwf : manager_wf m)
    (h : manager_live m)
    (hrun : session_manager_update_new m ip tcp id direction = .ok (m2, r)) :
    manager_live m2 := by
  unfold session_manager_update_new at hrun
  by_cases hb : (tcp.syn && !tcp.ack) = true
  · rw [if_pos hb] at hrun
    simp only at hrun
    cases hc : modules_create m.modules m.brk m.module_count with
    | error e => simp [hc] at hrun
    | ok dc =>
      obtain ⟨data, calls⟩ := dc
      simp only [hc, hashtable_insert, store_heap_same, Except.ok.injEq, Prod.mk.injEq] at hrun
      obtain ⟨hm2, -⟩ := hrun
      subst hm2
      exact alloc_live m
        { id := id
          state := if direction = SM_OUTBOUND then SYN_SENT else SYN_RCVD
          expected_ack := if direction = SM_OUTBOUND then seq_plus_payload ip tcp
            else 4294967295
          waiting := 0, last_access := 0, data := data } (m.calls ++ calls) hwf h
  · rw [if_neg hb] at hrun
    simp only [Except.ok.injEq, Prod.mk.injEq] at hrun
    obtain ⟨hm2, -⟩ := hrun
    subst hm2
    exact h

/-- The delivery to the modules. -/
theorem deliver_live (m m2 : session_manager_t) (packet : libtrace_packet_t) (t : Nat)
    (session r : Option Nat) (h : manager_live m)
    (hrun : session_manager_update_deliver m packet t session = .ok (m2, r)) :
    manager_live m2 := by
  cases session with
  | none =>
    simp only [session_manager_update_deliver, Except.ok.injEq, Prod.mk.injEq] at hrun
    rw [← hrun.1]
    exact h
  | some q =>
    obtain ⟨-, s, updates, hs, -, hm2⟩ := deliver_some m m2 packet t q r hrun
    rw [hm2]
    exact manager_live_congr _ _
      (store_live m q s { s with last_access := t % 256 } h hs rfl) rfl rfl rfl

/-- The RST test and the switch over the state. -/
theorem update_state_live (m m2 : session_manager_t) (current_time : Nat) (direction : Int)
    (ip : libtrace_ip) (tcp : libtrace_tcp) (session : Nat) (again : Bool) (hwf : manager_wf m)
    (h : manager_live m)
    (hrun : session_manager_update_state m current_time direction ip tcp session
      = .ok (m2, again)) :
    manager_live m2 := by
  unfold session_manager_update_state at hrun
  cases hs : m.heap session with
  | none => simp [hs] at hrun
  | some s0 =>
    simp only [hs] at hrun
    by_cases hrst : tcp.rst = true
    · simp only [hrst, if_true, Except.ok.injEq, Prod.mk.injEq] at hrun
      obtain ⟨hm2, -⟩ := hrun
      subst hm2
      exact manager_live_congr _ _
        (store_live m session s0 { s0 with state := RESET } h hs rfl) rfl rfl rfl
    · have hrst2 : tcp.rst = false := by simpa using hrst
      simp only [hrst2, Bool.false_eq_true, if_false] at hrun
      cases hst : s0.state <;> simp only [hst] at hrun
      all_goals
        try split_ifs at hrun
      all_goals
        first
        | (simp only [Except.ok.injEq, Prod.mk.injEq] at hrun
           obtain ⟨hm2, -⟩ := hrun
           subst hm2
           first
           | exact h
           | exact store_live m session s0 _ h hs (by rfl)
           | exact manager_live_congr _ _
               (store_live m session s0 _ h hs (by rfl)) rfl rfl rfl)
        | (split at hrun
           · cases hrun
           · rename_i m3 hadd
             simp only [Except.ok.injEq, Prod.mk.injEq] at hrun
             obtain ⟨hm2, hag⟩ := hrun
             subst hm2
             first
             | exact timer_queue_free_early_loop_live _ _ _ m _ hwf h hadd
             | exact timer_queue_add_live m _ session current_time s0 _ h hs (by rfl)
                 (by
                   intro j hj
                   have hq := (hwf.queued j session s0 hj hs).2
                   rw [hst] at hq
                   rcases hq with x | x <;> cases x) hadd)

/-- Function `session_manager_update`. -/
theorem update_live (fuel : Nat) (m m2 : session_manager_t) (packet : libtrace_packet_t)
    (r : Option Nat) (hwf : manager_wf m) (h : manager_live m)
    (hrun : session_manager_update fuel m packet = .ok (m2, r)) : manager_live m2 := by
  induction fuel generalizing m with
  | zero => simp [session_manager_update] at hrun
  | succ fuel ih =>
    rw [session_manager_update] at hrun
    simp only at hrun
    cases hsw : session_manager_update_sweeps fuel m (packet_seconds packet) with
    | error e => simp [hsw] at hrun
    | ok m1 =>
      have hwf1 := sweeps_wf fuel m m1 _ hwf hsw
      have hl1 := sweeps_live fuel m m1 _ hwf h hsw
      simp only [hsw] at hrun
      cases hip : packet.ip with
      | none =>
        simp only [hip, Except.ok.injEq, Prod.mk.injEq] at hrun
        obtain ⟨hm2, -⟩ := hrun
        subst hm2
        exact hl1
      | some ip =>
        cases htcp : packet.tcp with
        | none =>
          simp only [hip, htcp, Except.ok.injEq, Prod.mk.injEq] at hrun
          obtain ⟨hm2, -⟩ := hrun
          subst hm2
          exact hl1
        | some tcp =>
          simp only [hip, htcp] at hrun
          cases hfind : hashtable_retrieve m1.heap m1.hashtable (session_id_of ip tcp) with
          | error e => simp [hfind] at hrun
          | ok found =>
            cases found with
            | none =>
              simp only [hfind] at hrun
              cases hnew : session_manager_update_new m1 ip tcp (session_id_of ip tcp)
                  packet.direction with
              | error e => simp [hnew] at hrun
              | ok mr =>
                obtain ⟨m3, session⟩ := mr
                simp only [hnew] at hrun
                exact deliver_live m3 m2 packet _ session r
                  (update_new_live m1 m3 ip tcp _ _ session hwf1 hl1 hnew) hrun
            | some session =>
              simp only [hfind] at hrun
              cases hst : session_manager_update_state m1 (packet_seconds packet)
                  packet.direction ip tcp session with
              | error e => simp [hst] at hrun
              | ok mr =>
                obtain ⟨m3, again⟩ := mr
                have hwf3 := update_state_wf m1 m3 _ _ ip tcp session again hwf1 hst
                have hl3 := update_state_live m1 m3 _ _ ip tcp session again hwf1 hl1 hst
                cases again with
                | true =>
                  simp only [hst] at hrun
                  exact ih m3 hwf3 hl3 hrun
                | false =>
                  simp only [hst] at hrun
                  exact deliver_live m3 m2 packet _ (some session) r hl3 hrun

/-- Function `session_manager_register_module`. -/
theorem register_live (m m2 : session_manager_t) (module : session_module_t) (index : Int)
    (h : manager_live m)
    (hrun : session_manager_register_module m module = .ok (m2, index)) : manager_live m2 := by
  unfold session_manager_register_module at hrun
  simp only at hrun
  split_ifs at hrun
  all_goals
    simp only [Except.ok.injEq, Prod.mk.injEq] at hrun
    obtain ⟨hm2, -⟩ := hrun
    subst hm2
    exact manager_live_congr m _ h rfl rfl rfl

theorem create_live : manager_live session_manager_create := by
  refine ⟨?_, ?_, ?_, ?_⟩
  · intro p s hp
    simp [session_manager_create] at hp
  · intro i p hi
    simp [session_manager_create] at hi
  · intro i j p hi
    simp [session_manager_create] at hi
  · simp [session_manager_create, SM_TIMER_QUEUE_LENGTH]

/-- In every state that the API reaches, every live record is in the index,
the sessions in the slots of the queue are live, and no session is in two
slots. -/
theorem reachable_live (m : session_manager_t) (h : Reachable m) : manager_live m := by
  induction h with
  | create => exact create_live
  | register m module m2 index _ hrun ih => exact register_live m m2 module index ih hrun
  | update fuel m packet m2 session hm hrun ih =>
    exact update_live fuel m m2 packet session (reachable_wf m hm) ih hrun

/-! ### The reuse of a flow in TIME_WAIT -/

/-- In a chain of live records with different IDs, `hashtable_retrieve` finds
every record under its ID. -/
theorem hashtable_retrieve_chain_mem (heap : Nat → Option tcp_session_t) (chain : List Nat)
    (p : Nat) (s : tcp_session_t) (halive : ∀ q, q ∈ chain → heap q ≠ none)
    (huniq : chain.Pairwise
      (fun p q => ∀ s t, heap p = some s → heap q = some t → s.id ≠ t.id))
    (hp : p ∈ chain) (hs : heap p = some s) :
    hashtable_retrieve_chain heap s.id chain = .ok (some p) := by
  induction chain with
  | nil => exact absurd hp (List.not_mem_nil p)
  | cons entry next ih =>
    obtain ⟨e, he⟩ := Option.ne_none_iff_exists'.mp (halive entry (List.mem_cons_self _ _))
    rw [hashtable_retrieve_chain]
    simp only [he]
    by_cases hpe : p = entry
    · subst hpe
      rw [hs] at he
      cases he
      rw [if_pos ((tcp_session_id_equals_iff _ _).mpr rfl)]
    · have hin : p ∈ next := by
        rcases List.mem_cons.mp hp with x | x
        · exact absurd x hpe
        · exact x
      have hne : e.id ≠ s.id := (List.pairwise_cons.mp huniq).1 p hin e s he hs
      have hneq : ¬ tcp_session_id_equals s.id e.id = true := fun x =>
        hne ((tcp_session_id_equals_iff _ _).mp x).symm
      rw [if_neg hneq]
      exact ih (fun q hq => halive q (List.mem_cons_of_mem _ hq))
        (List.pairwise_cons.mp huniq).2 hin

/-- The lookup finds every live record under its ID. -/
theorem retrieve_live (m : session_manager_t) (hwf : manager_wf m) (h : manager_live m)
    (p : Nat) (s : tcp_session_t) (hs : m.heap p = some s) :
    hashtable_retrieve m.heap m.hashtable s.id = .ok (some p) := by
  unfold hashtable_retrieve
  refine hashtable_retrieve_chain_mem m.heap _ p s ?_ (hwf.unique _) (h.indexed p s hs) hs
  intro q hq
  obtain ⟨t, ht, -⟩ := hwf.alive _ q hq
  rw [ht]
  exact Option.some_ne_none _

/-- The calls of `destroy` on a data array with a slot for every module: one
for every module, in order, on the slot of the module. -/
theorem modules_destroy_spec (modules : Nat → Option session_module_t)
    (data : List module_data) (n : Nat) (h : ∀ i, i < n → modules i ≠ none)
    (hdata : n ≤ data.length) :
    ∃ calls, modules_destroy modules data n = .ok calls ∧ calls.length = n ∧
      ∀ i, i < n → ∃ d x, modules i = some d ∧ data.get? i = some x ∧
        calls.get? i = some (module_call.destroy i d x) := by
  induction n with
  | zero => exact ⟨[], rfl, rfl, fun i hi => absurd hi (Nat.not_lt_zero i)⟩
  | succ n ih =>
    obtain ⟨calls, hc, hlen, hget⟩ := ih (fun i hi => h i (Nat.lt_succ_of_lt hi))
      (Nat.le_of_succ_le hdata)
    have hn : modules n ≠ none := h n (Nat.lt_succ_self n)
    obtain ⟨d, hd⟩ := Option.ne_none_iff_exists'.mp hn
    have hx : data.get? n = some (data.get ⟨n, hdata⟩) := List.get?_eq_get hdata
    refine ⟨calls ++ [module_call.destroy n d (data.get ⟨n, hdata⟩)], ?_, ?_, ?_⟩
    · rw [modules_destroy, hc]
      simp only [hd, hx]
    · simp [hlen]
    · intro i hi
      rcases Nat.lt_succ_iff_lt_or_eq.mp hi with hlt | heq
      · obtain ⟨d', x', h1, h2, h3⟩ := hget i hlt
        refine ⟨d', x', h1, h2, ?_⟩
        rw [List.get?_eq_getElem?, List.getElem?_append_left (by omega)]
        simpa [List.get?_eq_getElem?] using h3
      · subst heq
        refine ⟨d, _, hd, hx, ?_⟩
        rw [List.get?_eq_getElem?, List.getElem?_append_right (by omega)]
        simp [hlen]

/-- A call of `session_manager_free_session` on a live record that the lookup
finds, when `modules_destroy` returns: the call returns, and the calls made are
those of `modules_destroy`. -/
theorem free_session_ok (m : session_manager_t) (session : Nat) (s : tcp_session_t)
    (calls : List module_call) (r : Option Nat) (hs : m.heap session = some s)
    (hd : modules_destroy m.modules s.data m.module_count = .ok calls)
    (hret : hashtable_retrieve m.heap m.hashtable s.id = .ok r) :
    ∃ m2, session_manager_free_session m session = .ok m2 ∧ m2.calls = m.calls ++ calls := by
  unfold hashtable_retrieve at hret
  obtain ⟨rest, hrem, -⟩ := hashtable_remove_chain_of_retrieve _ _ _ _ hret
  unfold session_manager_free_session
  simp only [hs, hd, hashtable_remove, hrem, free]
  exact ⟨_, rfl, rfl⟩

/-- The loop of `timer_queue_free_early` for a session that sits in a slot
that the loop reaches: the loop clears that slot and frees the session. -/
theorem free_early_finds (session rounds : Nat) (m : session_manager_t) (s : tcp_session_t)
    (hwf : manager_wf m) (h : manager_live m) (hs : m.heap session = some s) :
    ∀ i, (∃ k, i ≤ k ∧ k < i + rounds ∧ k < SM_TIMER_QUEUE_LENGTH ∧
        m.waiting_sessions.sessions
          ((m.waiting_sessions.lower_idx + k) % SM_TIMER_QUEUE_LENGTH) = some session) →
      ∃ pos, m.waiting_sessions.sessions pos = some session ∧
        timer_queue_free_early_loop session rounds i m
          = session_manager_free_session
              { m with waiting_sessions := { m.waiting_sessions with
                  sessions := fun j => if j = pos then none
                    else m.waiting_sessions.sessions j } } session := by
  have hlow := h.lower
  simp only [SM_TIMER_QUEUE_LENGTH] at hlow
  induction rounds with
  | zero =>
    intro i hk
    obtain ⟨k, h1, h2, -, -⟩ := hk
    omega
  | succ rounds ih =>
    intro i hk
    obtain ⟨k, h1, h2, h3, h4⟩ := hk
    simp only [SM_TIMER_QUEUE_LENGTH] at h3 h4
    have hposv : (if (m.waiting_sessions.lower_idx + i) % 4294967296 ≥ SM_TIMER_QUEUE_LENGTH then
          (m.waiting_sessions.lower_idx + i) % 4294967296 - SM_TIMER_QUEUE_LENGTH
        else (m.waiting_sessions.lower_idx + i) % 4294967296)
        = (m.waiting_sessions.lower_idx + i) % 100000 := by
      simp only [SM_TIMER_QUEUE_LENGTH]
      split_ifs <;> omega
    have hlt : ¬ (m.waiting_sessions.lower_idx + i) % 100000 ≥ SM_TIMER_QUEUE_LENGTH := by
      simp only [SM_TIMER_QUEUE_LENGTH]
      omega
    rw [timer_queue_free_early_loop]
    simp only [hposv]
    rw [if_neg hlt]
    have hnext : i ≠ k → ∃ k2, i + 1 ≤ k2 ∧ k2 < i + 1 + rounds ∧ k2 < SM_TIMER_QUEUE_LENGTH ∧
        m.waiting_sessions.sessions
          ((m.waiting_sessions.lower_idx + k2) % SM_TIMER_QUEUE_LENGTH) = some session := by
      intro hik
      refine ⟨k, by omega, by omega, ?_, ?_⟩
      · simp only [SM_TIMER_QUEUE_LENGTH]
        exact h3
      · simp only [SM_TIMER_QUEUE_LENGTH]
        exact h4
    cases hq : m.waiting_sessions.sessions ((m.waiting_sessions.lower_idx + i) % 100000) with
    | none =>
      simp only []
      refine ih (i + 1) (hnext ?_)
      intro e
      rw [e, h4] at hq
      cases hq
    | some queued =>
      simp only []
      obtain ⟨q, hqh⟩ := Option.ne_none_iff_exists'.mp (h.slots_live _ queued hq)
      simp only [hqh, hs]
      by_cases heq : tcp_session_id_equals q.id s.id = true
      · rw [if_pos heq]
        have hsame : queued = session :=
          live_same_id m hwf h queued session q s hqh hs
            ((tcp_session_id_equals_iff _ _).mp heq)
        rw [hsame] at hq
        exact ⟨_, hq, rfl⟩
      · rw [if_neg heq]
        refine ih (i + 1) (hnext ?_)
        intro e
        rw [e, h4] at hq
        simp only [Option.some.injEq] at hq
        rw [← hq, hs] at hqh
        simp only [Option.some.injEq] at hqh
        rw [hqh] at heq
        exact heq ((tcp_session_id_equals_iff _ _).mpr rfl)

/-- A packet of a flow that the lookup finds, when the switch over the state
has freed the session: the call is made again on the same packet. -/
theorem update_again (fuel : Nat) (manager swept m3 : session_manager_t)
    (packet : libtrace_packet_t) (ip : libtrace_ip) (tcp : libtrace_tcp) (session : Nat)
    (hip : packet.ip = some ip) (htcp : packet.tcp = some tcp)
    (hsweep : session_manager_update_sweeps fuel manager (packet_seconds packet) = .ok swept)
    (hfound : hashtable_retrieve swept.heap swept.hashtable (session_id_of ip tcp)
      = .ok (some session))
    (hstate : session_manager_update_state swept (packet_seconds packet) packet.direction ip tcp
      session = .ok (m3, true)) :
    session_manager_update (fuel + 1) manager packet = session_manager_update fuel m3 packet := by
  rw [session_manager_update]
  simp only [hsweep, hip, htcp, hfound, hstate]

/-- Claim C12. A bare SYN (SYN set, ACK and RST clear) arrives for a flow that,
when the sweeps of the call are over, is in state TIME_WAIT and sits in a slot
within the window of the TIME_WAIT queue, with a slot in its data array for
every registered module. Then `session_manager_update` returns a record at a
fresh address. The old record is freed, is in no bucket of the index and in no
slot of the queue afterwards, and `destroy` has been called once for every
module, in order, on the slot of the module. The new record has the ID of the
flow, is what the lookup finds under it, is in state SYN_SENT for direction 0
and in SYN_RCVD otherwise, and holds the states that the `create` functions,
called after the `destroy` functions, have made for it; the packet is then
delivered to the modules. -/
theorem time_wait_reuse (fuel : Nat) (m swept : session_manager_t)
    (packet : libtrace_packet_t) (ip : libtrace_ip) (tcp : libtrace_tcp) (session : Nat)
    (s : tcp_session_t) (hreach : Reachable m)
    (hip : packet.ip = some ip) (htcp : packet.tcp = some tcp)
    (hsyn : tcp.syn = true) (hack : tcp.ack = false) (hrst : tcp.rst = false)
    (hsweep : session_manager_update_sweeps (fuel + 1) m (packet_seconds packet) = .ok swept)
    (hs : swept.heap session = some s) (hid : s.id = session_id_of ip tcp)
    (hstate : s.state = TIME_WAIT)
    (hslot : ∃ k, k < swept.waiting_sessions.length ∧ k < SM_TIMER_QUEUE_LENGTH ∧
      swept.waiting_sessions.sessions
        ((swept.waiting_sessions.lower_idx + k) % SM_TIMER_QUEUE_LENGTH) = some session)
    (hdata : swept.module_count ≤ s.data.length) :
    ∃ (m2 : session_manager_t) (destroys updates : List module_call),
      session_manager_update (fuel + 2) m packet = .ok (m2, some swept.brk) ∧
      swept.brk ≠ session ∧ m2.heap session = none ∧
      (∀ b, session ∉ m2.hashtable.arr b) ∧
      (∀ i, m2.waiting_sessions.sessions i ≠ some session) ∧
      destroys.length = swept.module_count ∧
      (∀ i, i < swept.module_count → ∃ d x, swept.modules i = some d ∧
        s.data.get? i = some x ∧ destroys.get? i = some (module_call.destroy i d x)) ∧
      m2.heap swept.brk = some
        { id := session_id_of ip tcp
          state := if packet.direction = SM_OUTBOUND then SYN_SENT else SYN_RCVD
          expected_ack := if packet.direction = SM_OUTBOUND then seq_plus_payload ip tcp
            else 4294967295
          waiting := 0
          last_access := packet_seconds packet % 256
          data := (List.range swept.module_count).map
            (fun i => { module := i, session := swept.brk }) } ∧
      hashtable_retrieve m2.heap m2.hashtable (session_id_of ip tcp) = .ok (some swept.brk) ∧
      m2.calls = swept.calls ++ destroys
        ++ (List.range swept.module_count).filterMap
            (fun i => (swept.modules i).map (fun d => module_call.create i d swept.brk))
        ++ updates ∧
      updates.length = swept.module_count ∧
      (∀ i, i < swept.module_count → ∃ d, swept.modules i = some d ∧
        updates.get? i
          = some (module_call.update i d { module := i, session := swept.brk } packet)) := by
  have hwf := reachable_wf m hreach
  have hwf1 := sweeps_wf (fuel + 1) m swept _ hwf hsweep
  have hl1 := sweeps_live (fuel + 1) m swept _ hwf (reachable_live m hreach) hsweep
  obtain ⟨hof, hclosed, hla, hclean, -⟩ := sweeps_only_frees (fuel + 1) m swept _ hsweep
  have hmod1 : ∀ i, i < swept.module_count → swept.modules i ≠ none := by
    intro i hi
    rw [hof.modules]
    exact reachable_modules_present m hreach i (by rw [← hof.module_count]; exact hi)
  have hlook : hashtable_retrieve swept.heap swept.hashtable (session_id_of ip tcp)
      = .ok (some session) := by
    rw [← hid]
    exact retrieve_live swept hwf1 hl1 session s hs
  obtain ⟨k, hk1, hk2, hk3⟩ := hslot
  obtain ⟨pos, hpos, hloop⟩ := free_early_finds session swept.waiting_sessions.length swept s
    hwf1 hl1 hs 0 ⟨k, Nat.zero_le _, by omega, hk2, hk3⟩
  obtain ⟨destroys, hd, hdlen, hdget⟩ :=
    modules_destroy_spec swept.modules s.data swept.module_count hmod1 hdata
  obtain ⟨m3, hfree, hcalls3⟩ := free_session_ok
    { swept with waiting_sessions := { swept.waiting_sessions with
        sessions := fun j => if j = pos then none else swept.waiting_sessions.sessions j } }
    session s destroys (some session) hs hd (by rw [hid]; exact hlook)
  have hearly : timer_queue_free_early swept session = .ok m3 := by
    unfold timer_queue_free_early
    rw [hloop]
    exact hfree
  have hstep : session_manager_update_state swept (packet_seconds packet) packet.direction ip
      tcp session = .ok (m3, true) := by
    unfold session_manager_update_state
    simp only [hs, hrst, Bool.false_eq_true, if_false, hstate, hsyn, if_true, hearly]
  have hwf3 := update_state_wf swept m3 _ _ ip tcp session true hwf1 hstep
  obtain ⟨s', hs', hheap3, hq3, -⟩ := free_session_effect _ m3 session hfree
  obtain ⟨f1, f2, -, f4, f5, f6, f7, -⟩ := free_session_frame _ m3 session hfree
  have hheap3' : m3.heap = fun q => if q = session then none else swept.heap q := hheap3
  have hmods3 : m3.modules = swept.modules := f1
  have hcount3 : m3.module_count = swept.module_count := f2
  have hbrk3 : m3.brk = swept.brk := f4
  have hgone3 : m3.heap session = none := by
    rw [hheap3']
    simp
  have hnoop : session_manager_update_sweeps fuel m3 (packet_seconds packet) = .ok m3 :=
    sweeps_noop fuel m3 _ (f6.trans hla) (f5.trans hclosed) (by rw [f7]; exact hclean)
  have habsent : hashtable_retrieve m3.heap m3.hashtable (session_id_of ip tcp) = .ok none := by
    unfold hashtable_retrieve
    refine hashtable_retrieve_chain_absent _ _ _ ?_
    intro p hp
    obtain ⟨t, ht, -⟩ := hwf3.alive _ p hp
    refine ⟨t, ht, ?_⟩
    intro e
    have hps : p ≠ session := by
      intro x
      rw [x, hgone3] at ht
      cases ht
    have ht1 : swept.heap p = some t := by
      rw [hheap3'] at ht
      simpa only [hps, if_false] using ht
    exact hps (live_same_id swept hwf1 hl1 p session t s ht1 hs (e.trans hid.symm))
  have hmod3 : ∀ i, i < m3.module_count → m3.modules i ≠ none := by
    intro i hi
    rw [hmods3]
    exact hmod1 i (by rw [← hcount3]; exact hi)
  obtain ⟨m2, updates, hrun, g1, g2, g3, g4, g5, g6, g7, g8, -, g10, -, -, -, -, -⟩ :=
    update_bare_syn fuel m3 m3 packet ip tcp hip htcp hnoop habsent hmod3 hsyn hack
  simp only [hbrk3, hcount3, hmods3] at hrun g1 g2 g3 g4 g5 g6 g8
  have hne : swept.brk ≠ session := by
    intro e
    have := hwf1.fresh session (by omega)
    rw [this] at hs
    cases hs
  have hgone2 : m2.heap session = none := by
    rw [g8 session (fun e => hne e.symm)]
    exact hgone3
  refine ⟨m2, destroys, updates, ?_, hne, hgone2, ?_, ?_, hdlen, hdget, g1, g2, ?_, g5, g6⟩
  · rw [update_again (fuel + 1) m swept m3 packet ip tcp session hip htcp hsweep hlook hstep]
    exact hrun
  · intro b hb
    have hin3 : session ∈ m3.hashtable.arr b := by
      by_cases hbb : b = hashtable_compute_hash (session_id_of ip tcp)
      · rw [hbb, g3] at hb
        rcases List.mem_cons.mp hb with x | x
        · exact absurd x.symm hne
        · rw [hbb]
          exact x
      · rw [g7 b hbb] at hb
        exact hb
    obtain ⟨t, ht, -⟩ := hwf3.alive b session hin3
    rw [hgone3] at ht
    cases ht
  · intro i hi
    rw [g10, hq3] at hi
    simp only at hi
    split_ifs at hi with hip2
    exact hip2 (hl1.slots_inj i pos session hi hpos)
  · rw [g4, hcalls3]

/-- Claim C12 for the flow of scenario 1 on a manager with one module: after
the scenario the flow is in TIME_WAIT in slot 0 of the queue; a bare SYN between
the same endpoints frees its record at address 0 and returns a new record at
address 1, in state SYN_SENT with the ID of the flow. -/
theorem time_wait_reuse_witness :
    Reachable (manager_after 1 (manager_with_modules [{ addr := 7 }]) scenario1) ∧
    session_manager_update_sweeps 1
      (manager_after 1 (manager_with_modules [{ addr := 7 }]) scenario1)
      (packet_seconds reuse_syn)
      = .ok (manager_after 1 (manager_with_modules [{ addr := 7 }]) scenario1) ∧
    (manager_after 1 (manager_with_modules [{ addr := 7 }]) scenario1).heap 0
      = some { id := flow_a, state := TIME_WAIT, expected_ack := 1101, waiting := 1,
               last_access := 0, data := [{ module := 0, session := 0 }] } ∧
    (manager_after 1 (manager_with_modules [{ addr := 7 }]) scenario1).waiting_sessions.sessions
      (((manager_after 1 (manager_with_modules [{ addr := 7 }])
        scenario1).waiting_sessions.lower_idx + 0) % SM_TIMER_QUEUE_LENGTH) = some 0 ∧
    ∃ m2 : session_manager_t,
      session_manager_update 2 (manager_after 1 (manager_with_modules [{ addr := 7 }]) scenario1)
        reuse_syn = .ok (m2, some 1) ∧
      m2.heap 0 = none ∧
      (m2.heap 1).map (fun s => (s.id, s.state, s.data))
        = some (flow_a, SYN_SENT, [{ module := 0, session := 1 }]) := by
  have hreach : Reachable (manager_after 1 (manager_with_modules [{ addr := 7 }]) scenario1) :=
    manager_after_reachable 1 _ scenario1 (manager_with_modules_reachable [{ addr := 7 }])
  have hsweep := sweeps_noop 1 (manager_after 1 (manager_with_modules [{ addr := 7 }]) scenario1)
    (packet_seconds reuse_syn) (by decide) (by decide) (by decide)
  have hs : (manager_after 1 (manager_with_modules [{ addr := 7 }]) scenario1).heap 0
      = some { id := flow_a, state := TIME_WAIT, expected_ack := 1101, waiting := 1,
               last_access := 0, data := [{ module := 0, session := 0 }] } := by decide
  have hslot : (manager_after 1 (manager_with_modules [{ addr := 7 }])
      scenario1).waiting_sessions.sessions
      (((manager_after 1 (manager_with_modules [{ addr := 7 }])
        scenario1).waiting_sessions.lower_idx + 0) % SM_TIMER_QUEUE_LENGTH) = some 0 := by
    decide
  have hbrk : (manager_after 1 (manager_with_modules [{ addr := 7 }]) scenario1).brk = 1 := by
    decide
  have hcount : (manager_after 1 (manager_with_modules [{ addr := 7 }]) scenario1).module_count
      = 1 := by decide
  obtain ⟨m2, destroys, updates, h1, -, h3, -, -, -, -, h8, -⟩ :=
    time_wait_reuse 0 (manager_after 1 (manager_with_modules [{ addr := 7 }]) scenario1)
      (manager_after 1 (manager_with_modules [{ addr := 7 }]) scenario1) reuse_syn _ _ 0 _
      hreach rfl rfl (by decide) (by decide) (by decide) hsweep hs (by decide) rfl
      ⟨0, by decide, by decide, hslot⟩ (by decide)
  rw [hbrk] at h1 h8
  refine ⟨hreach, hsweep, hs, hslot, m2, h1, h3, ?_⟩
  rw [h8, hcount]
  decide


/-! ## reordering.c: the queue of a sender record -/

theorem wrap_index (a b n : Nat) (ha : a < n) (hb : b ≤ n) :
    (a + b) % n = if a + b < n then a + b else a + b - n := by
  split
  · exact Nat.mod_eq_of_lt (by assumption)
  · rw [Nat.mod_eq_sub_mod (by omega)]
    exact Nat.mod_eq_of_lt (by omega)

theorem wrap_index_inj (a n i j : Nat) (ha : a < n) (hi : i < n) (hj : j < n)
    (h : (a + i) % n = (a + j) % n) : i = j := by
  rw [wrap_index a i n ha (by omega), wrap_index a j n ha (by omega)] at h
  split at h <;> split at h <;> omega

theorem wrap_succ (a n : Nat) (ha : a < n) :
    (if a + 1 = n then 0 else a + 1) = (a + 1) % n := by
  split
  · next h => rw [h, Nat.mod_self]
  · exact (Nat.mod_eq_of_lt (by omega)).symm

theorem wrap_step (a j n : Nat) : ((a + j) % n + 1) % n = (a + (j + 1)) % n := by
  rw [← Nat.add_assoc, Nat.add_mod (a + j) 1 n, Nat.add_mod ((a + j) % n) 1 n, Nat.mod_mod]

theorem sender_items_length (record : sender_record_t) :
    (sender_items record).length = record.length := by
  simp [sender_items]

theorem sender_items_getElem (record : sender_record_t) (i : Nat) :
    (sender_items record)[i]?
      = if i < record.length then
          some (record.array.getD ((record.lower_idx + i) % record.array_size)
            packet_slot_initial)
        else none := by
  unfold sender_items
  rw [List.getElem?_map]
  by_cases h : i < record.length
  · rw [List.getElem?_range h, if_pos h]
    rfl
  · rw [if_neg h, List.getElem?_eq_none (by simpa using h)]
    rfl

theorem sender_items_get (record : sender_record_t) (hwf : sender_wf record) (i : Nat)
    (hi : i < record.length) :
    ∃ slot, record.array[(record.lower_idx + i) % record.array_size]? = some slot
      ∧ (sender_items record)[i]? = some slot := by
  have hsize : 0 < record.array_size := by have := hwf.length; omega
  have hlt : (record.lower_idx + i) % record.array_size < record.array.length := by
    rw [hwf.block]
    exact Nat.mod_lt _ hsize
  refine ⟨record.array[(record.lower_idx + i) % record.array_size], ?_, ?_⟩
  · exact List.getElem?_eq_getElem hlt
  · rw [sender_items_getElem, if_pos hi, List.getD_eq_getElem?_getD,
      List.getElem?_eq_getElem hlt]
    rfl

theorem sender_items_array (record : sender_record_t) (hwf : sender_wf record) (i : Nat)
    (slot : packet_slot_t) (h : (sender_items record)[i]? = some slot) :
    i < record.length
      ∧ record.array[(record.lower_idx + i) % record.array_size]? = some slot := by
  have hi : i < record.length := by
    rw [sender_items_getElem] at h
    by_contra hn
    rw [if_neg hn] at h
    cases h
  obtain ⟨s, h1, h2⟩ := sender_items_get record hwf i hi
  rw [h] at h2
  cases h2
  exact ⟨hi, h1⟩

theorem sender_lower_lt (record : sender_record_t) (hwf : sender_wf record)
    (h : 0 < record.array_size) : record.lower_idx < record.array_size := by
  rcases hwf.lower with h1 | h1 <;> omega

/-- Two sender records with the same block, bounds and queue position have
the same queue. -/
theorem sender_items_congr (r1 r2 : sender_record_t) (h1 : r2.array = r1.array)
    (h2 : r2.lower_idx = r1.lower_idx) (h3 : r2.length = r1.length)
    (h4 : r2.array_size = r1.array_size) : sender_items r2 = sender_items r1 := by
  unfold sender_items
  rw [h1, h2, h3, h4]

theorem sender_wf_congr (r1 r2 : sender_record_t) (hwf : sender_wf r1)
    (h1 : r2.array.length = r1.array.length)
    (h2 : r2.lower_idx = r1.lower_idx) (h3 : r2.length = r1.length)
    (h4 : r2.array_size = r1.array_size) : sender_wf r2 :=
  { block := by rw [h1, h4]; exact hwf.block
    multiple := by rw [h4]; exact hwf.multiple
    bound := by rw [h4]; exact hwf.bound
    length := by rw [h3, h4]; exact hwf.length
    lower := by rw [h2, h4]; exact hwf.lower }

/-- Writing the array element of queue position `i` replaces that element of
the queue. -/
theorem sender_items_set (record : sender_record_t) (hwf : sender_wf record) (i : Nat)
    (hi : i < record.length) (slot : packet_slot_t) :
    sender_items
        { record with
          array := record.array.set ((record.lower_idx + i) % record.array_size) slot }
      = (sender_items record).set i slot := by
  have hsize : 0 < record.array_size := by have := hwf.length; omega
  have hlow := sender_lower_lt record hwf hsize
  have hlen := hwf.length
  apply List.ext_getElem?
  intro j
  rw [sender_items_getElem, List.getElem?_set, sender_items_getElem, sender_items_length]
  simp only
  by_cases hj : j < record.length
  · rw [if_pos hj]
    by_cases hij : i = j
    · subst hij
      rw [if_pos rfl, if_pos hi, List.getD_eq_getElem?_getD, List.getElem?_set_self]
      · rfl
      · rw [hwf.block]
        exact Nat.mod_lt _ hsize
    · rw [if_neg hij, if_pos hj, List.getD_eq_getElem?_getD, List.getD_eq_getElem?_getD,
        List.getElem?_set_ne]
      intro h
      exact hij (wrap_index_inj _ _ _ _ hlow (by omega) (by omega) h)
  · rw [if_neg hj]
    by_cases hij : i = j
    · omega
    · rw [if_neg hij, if_neg hj]

/-- Writing an array element outside the queue leaves the queue as it is. -/
theorem sender_items_set_outside (record : sender_record_t) (hwf : sender_wf record) (i : Nat)
    (hi : record.length ≤ i) (hi2 : i < record.array_size) (slot : packet_slot_t) :
    sender_items
        { record with
          array := record.array.set ((record.lower_idx + i) % record.array_size) slot }
      = sender_items record := by
  have hlow := sender_lower_lt record hwf (by omega)
  apply List.ext_getElem?
  intro j
  rw [sender_items_getElem, sender_items_getElem]
  simp only
  by_cases hj : j < record.length
  · rw [if_pos hj, if_pos hj, List.getD_eq_getElem?_getD, List.getD_eq_getElem?_getD,
      List.getElem?_set_ne]
    intro h
    have := wrap_index_inj _ _ _ _ hlow hi2 (by omega) h
    omega
  · rw [if_neg hj, if_neg hj]

/-! ### sender_record_add -/

theorem sender_record_add_copy_spec (record : sender_record_t) (hwf : sender_wf record)
    (hfull : record.length = record.array_size) :
    ∀ (n j : Nat), j + n = record.length →
      sender_record_add_copy record n ((record.lower_idx + j) % record.length)
        = .ok ((sender_items record).drop j) := by
  intro n
  induction n with
  | zero =>
    intro j hj
    rw [List.drop_eq_nil_of_le (by rw [sender_items_length]; omega)]
    rfl
  | succ n ih =>
    intro j hj
    obtain ⟨slot, h1, h2⟩ := sender_items_get record hwf j (by omega)
    rw [← hfull] at h1
    have hlt : j < (sender_items record).length := by rw [sender_items_length]; omega
    have h3 : (sender_items record)[j] = slot := by
      have := List.getElem?_eq_getElem hlt
      rw [h2] at this
      exact (Option.some.inj this).symm
    unfold sender_record_add_copy
    simp only [h1]
    rw [wrap_step, ih (j + 1) (by omega), List.drop_eq_getElem_cons hlt, h3]

/-- Function `sender_record_add` on a queue of fewer than 65520 records: the
new record becomes the top of the queue. -/
theorem sender_record_add_spec (record : sender_record_t) (hwf : sender_wf record)
    (hroom : record.length < 65520) (seq : Nat) (time : ℚ) (ip_id : Nat) :
    ∃ (after : sender_record_t) (idx : Nat) (flag : Bool),
      sender_record_add record seq time ip_id = .ok (after, idx)
        ∧ sender_wf after
        ∧ sender_items after
            = sender_items record
                ++ [{ packet := { seq := seq, time := time, ip_id := ip_id, num_acks := 0,
                                  is_missing := false, is_misaligned := flag }
                      missing_link := [] }]
        ∧ after.expected_seq = record.expected_seq
        ∧ after.in_recovery = record.in_recovery
        ∧ after.length = record.length + 1
        ∧ idx = (after.lower_idx + record.length) % after.array_size := by
  have hgrow : ∃ grown : sender_record_t,
      sender_record_add_grow record = .ok grown
      ∧ sender_wf grown ∧ sender_items grown = sender_items record
      ∧ grown.length = record.length ∧ grown.length < grown.array_size
      ∧ grown.expected_seq = record.expected_seq ∧ grown.in_recovery = record.in_recovery := by
    by_cases hfull : record.length = record.array_size
    · unfold sender_record_add_grow
      rw [if_pos hfull]
      have hcopy : sender_record_add_copy record record.length record.lower_idx
          = .ok (sender_items record) := by
        have h := sender_record_add_copy_spec record hwf hfull record.length 0 (by omega)
        rw [List.drop_zero, Nat.add_zero] at h
        by_cases h0 : record.length = 0
        · rw [h0]
          have : sender_items record = [] := by
            apply List.eq_nil_of_length_eq_zero
            rw [sender_items_length, h0]
          rw [this]
          rfl
        · have hlow := sender_lower_lt record hwf (by omega)
          rw [Nat.mod_eq_of_lt (by omega)] at h
          exact h
      have hsize : (record.array_size + REORDERING_ARRAY_INCREMENT) % 65536
          = record.array_size + 20 := by
        unfold REORDERING_ARRAY_INCREMENT
        have := hwf.multiple
        omega
      simp only [hcopy, hsize]
      rw [if_neg (by omega)]
      refine ⟨_, rfl, ?_, ?_, rfl, ?_, rfl, rfl⟩
      · refine ⟨?_, ?_, ?_, ?_, ?_⟩
        · simp only [List.length_append, List.length_replicate, sender_items_length]
          omega
        · have := hwf.multiple
          simp only
          omega
        · have := hwf.multiple
          have := hwf.bound
          simp only
          omega
        · simp only
          omega
        · right
          rfl
      · apply List.ext_getElem?
        intro j
        rw [sender_items_getElem, sender_items_getElem]
        simp only
        by_cases hj : j < record.length
        · rw [if_pos hj, if_pos hj, List.getD_eq_getElem?_getD, Nat.zero_add,
            Nat.mod_eq_of_lt (by omega), List.getElem?_append_left
              (by rw [sender_items_length]; exact hj),
            sender_items_getElem, if_pos hj]
          rfl
        · rw [if_neg hj, if_neg hj]
      · simp only
        omega
    · unfold sender_record_add_grow
      rw [if_neg hfull]
      have := hwf.length
      exact ⟨record, rfl, hwf, rfl, rfl, by omega, rfl, rfl⟩
  obtain ⟨grown, hg, hgwf, hgitems, hglen, hglt, hgexp, hgrec⟩ := hgrow
  have hlow := sender_lower_lt grown hgwf (by omega)
  have hidx : (if grown.lower_idx + grown.length ≥ grown.array_size then
        grown.lower_idx + grown.length - grown.array_size
      else grown.lower_idx + grown.length)
      = (grown.lower_idx + grown.length) % grown.array_size := by
    rw [wrap_index _ _ _ hlow (by omega)]
    by_cases h : grown.lower_idx + grown.length < grown.array_size
    · rw [if_neg (by omega), if_pos h]
    · rw [if_pos (by omega), if_neg h]
  have hin : (grown.lower_idx + grown.length) % grown.array_size < grown.array.length := by
    rw [hgwf.block]
    exact Nat.mod_lt _ (by omega)
  have hget := List.getElem?_eq_getElem hin
  have hrun : sender_record_add record seq time ip_id
      = .ok ({ grown with
               array := grown.array.set ((grown.lower_idx + grown.length) % grown.array_size)
                 { packet :=
                     { seq := seq, time := time, ip_id := ip_id, num_acks := 0,
                       is_missing := false
                       is_misaligned :=
                         (grown.array[(grown.lower_idx + grown.length)
                           % grown.array_size]).packet.is_misaligned }
                   missing_link := [] }
               length := (grown.length + 1) % 65536 },
             (grown.lower_idx + grown.length) % grown.array_size) := by
    unfold sender_record_add
    simp only [hg, hidx, hget]
  refine ⟨_, _,
    (grown.array[(grown.lower_idx + grown.length) % grown.array_size]).packet.is_misaligned,
    hrun, ?_, ?_, ?_, ?_, ?_, ?_⟩
  · refine ⟨?_, hgwf.multiple, hgwf.bound, ?_, hgwf.lower⟩
    · simp only [List.length_set]
      exact hgwf.block
    · simp only
      omega
  · apply List.ext_getElem?
    intro j
    rw [sender_items_getElem]
    simp only
    rw [Nat.mod_eq_of_lt (by omega), ← hgitems]
    by_cases hj : j < grown.length
    · rw [if_pos (by omega), List.getElem?_append_left (by rw [sender_items_length]; exact hj),
        sender_items_getElem, if_pos hj, List.getD_eq_getElem?_getD, List.getD_eq_getElem?_getD,
        List.getElem?_set_ne]
      intro h
      have := wrap_index_inj _ _ _ _ hlow hglt (by omega) h
      omega
    · by_cases hj2 : j = grown.length
      · subst hj2
        rw [if_pos (by omega), List.getElem?_append_right (by rw [sender_items_length]),
          sender_items_length, Nat.sub_self, List.getD_eq_getElem?_getD,
          List.getElem?_set_self hin]
        rfl
      · rw [if_neg (by omega), List.getElem?_append_right (by rw [sender_items_length]; omega),
          sender_items_length]
        have : j - grown.length = (j - grown.length - 1) + 1 := by omega
        rw [this]
        rfl
  · exact hgexp
  · exact hgrec
  · simp only
    omega
  · simp only
    rw [hglen]

/-- Function `sender_record_add` on a queue of 65520 records: the new size of
the block wraps to 4 and the copy loop writes beyond it. -/
theorem sender_record_add_full (record : sender_record_t) (hwf : sender_wf record)
    (hfull : record.length = 65520) (seq : Nat) (time : ℚ) (ip_id : Nat) :
    sender_record_add record seq time ip_id = .error fault.undefined_behaviour := by
  have h1 := hwf.length
  have h2 := hwf.bound
  have hsize : record.array_size = 65520 := by omega
  have hfull2 : record.length = record.array_size := by omega
  have hcopy : sender_record_add_copy record record.length record.lower_idx
      = .ok (sender_items record) := by
    have h := sender_record_add_copy_spec record hwf hfull2 record.length 0 (by omega)
    rw [List.drop_zero, Nat.add_zero] at h
    have hlow := sender_lower_lt record hwf (by omega)
    rw [Nat.mod_eq_of_lt (by omega)] at h
    exact h
  unfold sender_record_add sender_record_add_grow
  simp only [if_pos hfull2, hcopy]
  have : (record.array_size + REORDERING_ARRAY_INCREMENT) % 65536 < record.length := by
    unfold REORDERING_ARRAY_INCREMENT
    omega
  rw [if_pos this]

/-! ### Reading and writing through a pointer -/

theorem packet_deref_items (record : sender_record_t) (hwf : sender_wf record) (i k : Nat)
    (slot : packet_slot_t) (p : packet_record_t)
    (hslot : (sender_items record)[i]? = some slot) (hp : slot.get k = some p) :
    packet_deref record
        { idx := (record.lower_idx + i) % record.array_size, link := k } = .ok p := by
  obtain ⟨_, harr⟩ := sender_items_array record hwf i slot hslot
  unfold packet_deref
  simp only [harr, hp]

theorem packet_assign_items (record : sender_record_t) (hwf : sender_wf record) (i k : Nat)
    (slot after_slot : packet_slot_t) (f : packet_record_t → packet_record_t)
    (hslot : (sender_items record)[i]? = some slot) (hf : slot.modify f k = some after_slot) :
    ∃ after : sender_record_t,
      packet_assign record
          { idx := (record.lower_idx + i) % record.array_size, link := k } f = .ok after
        ∧ sender_wf after
        ∧ sender_items after = (sender_items record).set i after_slot
        ∧ after.expected_seq = record.expected_seq
        ∧ after.in_recovery = record.in_recovery
        ∧ after.length = record.length
        ∧ after.lower_idx = record.lower_idx
        ∧ after.array_size = record.array_size := by
  obtain ⟨hi, harr⟩ := sender_items_array record hwf i slot hslot
  have hrun : packet_assign record
      { idx := (record.lower_idx + i) % record.array_size, link := k } f
      = .ok { record with
              array := record.array.set ((record.lower_idx + i) % record.array_size)
                after_slot } := by
    unfold packet_assign
    simp only [harr, hf]
  refine ⟨_, hrun, ?_, sender_items_set record hwf i hi after_slot, rfl, rfl, rfl, rfl, rfl⟩
  exact sender_wf_congr record _ hwf (by simp) rfl rfl rfl

theorem packet_splice_items (record : sender_record_t) (hwf : sender_wf record) (i k : Nat)
    (slot : packet_slot_t) (link : packet_record_t)
    (hslot : (sender_items record)[i]? = some slot) (hk : k ≤ slot.missing_link.length) :
    ∃ after : sender_record_t,
      packet_splice record
          { idx := (record.lower_idx + i) % record.array_size, link := k } link = .ok after
        ∧ sender_wf after
        ∧ sender_items after
            = (sender_items record).set i
                { slot with
                  missing_link := slot.missing_link.take k ++ link :: slot.missing_link.drop k }
        ∧ after.expected_seq = record.expected_seq
        ∧ after.in_recovery = record.in_recovery
        ∧ after.length = record.length
        ∧ after.lower_idx = record.lower_idx
        ∧ after.array_size = record.array_size := by
  obtain ⟨hi, harr⟩ := sender_items_array record hwf i slot hslot
  have hrun : packet_splice record
      { idx := (record.lower_idx + i) % record.array_size, link := k } link
      = .ok { record with
              array := record.array.set ((record.lower_idx + i) % record.array_size)
                { slot with
                  missing_link :=
                    slot.missing_link.take k ++ link :: slot.missing_link.drop k } } := by
    unfold packet_splice
    simp only [harr, if_pos hk]
  refine ⟨_, hrun, ?_, sender_items_set record hwf i hi _, rfl, rfl, rfl, rfl, rfl⟩
  exact sender_wf_congr record _ hwf (by simp) rfl rfl rfl

/-! ### sender_record_find -/

theorem sender_record_find_link_eq (seq : Nat) (chain : List packet_record_t) :
    sender_record_find_link seq chain
      = (chain.takeWhile (fun l => decide (l.seq ≤ seq))).length := by
  induction chain with
  | nil => rfl
  | cons l rest ih =>
    unfold sender_record_find_link
    by_cases h : l.seq > seq
    · rw [if_pos h, List.takeWhile_cons_of_neg (by simpa using h)]
      rfl
    · rw [if_neg h, ih, List.takeWhile_cons_of_pos (by simpa using h)]
      rfl

theorem sender_record_find_array_spec (record : sender_record_t) (hwf : sender_wf record)
    (seq : Nat) :
    ∀ (n j : Nat) (packet : Option Nat), j + n = record.length →
      sender_record_find_array record seq n
          ((record.lower_idx + j) % record.array_size) packet
        = .ok (match (((sender_items record).drop j).takeWhile
                  (fun s => decide (s.packet.seq ≤ seq))).length with
               | 0 => packet
               | k + 1 => some ((record.lower_idx + j + k) % record.array_size)) := by
  intro n
  induction n with
  | zero =>
    intro j packet hj
    rw [List.drop_eq_nil_of_le (by rw [sender_items_length]; omega)]
    rfl
  | succ n ih =>
    intro j packet hj
    obtain ⟨slot, h1, h2⟩ := sender_items_get record hwf j (by omega)
    have hlt : j < (sender_items record).length := by rw [sender_items_length]; omega
    have h3 : (sender_items record)[j] = slot := by
      have := List.getElem?_eq_getElem hlt
      rw [h2] at this
      exact (Option.some.inj this).symm
    have hsize : 0 < record.array_size := by have := hwf.length; omega
    unfold sender_record_find_array
    simp only [h1]
    rw [List.drop_eq_getElem_cons hlt, h3]
    by_cases h : slot.packet.seq > seq
    · rw [if_pos h, List.takeWhile_cons_of_neg (by simpa using h)]
      rfl
    · rw [if_neg h, List.takeWhile_cons_of_pos (by simpa using h),
        wrap_succ _ _ (Nat.mod_lt _ hsize), wrap_step, ih (j + 1) _ (by omega)]
      simp only [List.length_cons]
      cases hk : (List.takeWhile (fun s => decide (s.packet.seq ≤ seq))
          (List.drop (j + 1) (sender_items record))).length with
      | zero => rfl
      | succ k =>
        simp only
        congr 3
        omega

/-- Function `sender_record_find` on a well-formed record: it returns `NULL`
when the queue is empty or starts above `seq`; otherwise it returns the last
record of the longest run of array elements with sequence numbers up to
`seq`, or the last record of the longest run of its chain with sequence
numbers up to `seq`. -/
theorem sender_record_find_spec (record : sender_record_t) (hwf : sender_wf record) (t : Nat) :
    (sender_record_find record t = .ok none
      ∧ ∀ slot, (sender_items record).head? = some slot → t < slot.packet.seq)
    ∨ ∃ (A : List packet_slot_t) (slot : packet_slot_t) (B : List packet_slot_t)
        (c1 c2 : List packet_record_t),
        sender_items record = A ++ slot :: B
          ∧ slot.missing_link = c1 ++ c2
          ∧ sender_record_find record t
              = .ok (some { idx := (record.lower_idx + A.length) % record.array_size
                            link := c1.length })
          ∧ (∀ s ∈ A, s.packet.seq ≤ t)
          ∧ slot.packet.seq ≤ t
          ∧ (∀ s, B.head? = some s → t < s.packet.seq)
          ∧ (slot.packet.seq = t → c1 = [])
          ∧ (∀ l ∈ c1, l.seq ≤ t)
          ∧ (slot.packet.seq ≠ t → ∀ l, c2.head? = some l → t < l.seq) := by
  have hsplit := List.takeWhile_append_dropWhile (fun s => decide (s.packet.seq ≤ t))
    (sender_items record)
  have hhead := List.head?_dropWhile_not (fun s => decide (s.packet.seq ≤ t))
    (sender_items record)
  have harr := sender_record_find_array_spec record hwf t record.length 0 none (by omega)
  rw [List.drop_zero, Nat.add_zero] at harr
  have hidx : record.lower_idx % record.array_size = record.lower_idx := by
    rcases hwf.lower with h | h
    · exact Nat.mod_eq_of_lt h
    · rw [h, Nat.zero_mod]
  rw [hidx] at harr
  rcases List.eq_nil_or_concat
      ((sender_items record).takeWhile (fun s => decide (s.packet.seq ≤ t))) with hT | hT
  · left
    rw [hT] at harr hsplit
    refine ⟨?_, ?_⟩
    · unfold sender_record_find
      rw [harr]
      rfl
    · intro slot hs
      rw [List.nil_append] at hsplit
      rw [hsplit, hs] at hhead
      simpa using hhead
  · right
    obtain ⟨A, slot, hT⟩ := hT
    rw [List.concat_eq_append] at hT
    have hall : ∀ s ∈ A ++ [slot], s.packet.seq ≤ t := by
      intro s hs
      rw [← hT] at hs
      simpa using List.mem_takeWhile_imp hs
    have hitems : sender_items record
        = A ++ slot :: (sender_items record).dropWhile (fun s => decide (s.packet.seq ≤ t)) := by
      rw [← List.singleton_append, ← List.append_assoc, ← hT, hsplit]
    have hget : (sender_items record)[A.length]? = some slot := by
      rw [hitems, List.getElem?_append_right (Nat.le_refl _), Nat.sub_self,
        List.getElem?_cons_zero]
    obtain ⟨_, hslot⟩ := sender_items_array record hwf A.length slot hget
    rw [hT] at harr
    simp only [List.length_append, List.length_singleton] at harr
    have hB : ∀ s, ((sender_items record).dropWhile
        (fun s => decide (s.packet.seq ≤ t))).head? = some s → t < s.packet.seq := by
      intro s hs
      rw [hs] at hhead
      simpa using hhead
    by_cases hseq : slot.packet.seq = t
    · refine ⟨A, slot, _, [], slot.missing_link, hitems, rfl, ?_, ?_, ?_, hB, ?_, ?_, ?_⟩
      · unfold sender_record_find
        rw [harr]
        simp only [hslot]
        rw [if_pos hseq]
        rfl
      · intro s hs
        exact hall s (List.mem_append_left _ hs)
      · exact hall slot (by simp)
      · intro _
        rfl
      · intro l hl
        cases hl
      · intro h
        exact absurd hseq h
    · refine ⟨A, slot, _,
        slot.missing_link.takeWhile (fun l => decide (l.seq ≤ t)),
        slot.missing_link.dropWhile (fun l => decide (l.seq ≤ t)),
        hitems, (List.takeWhile_append_dropWhile _ _).symm, ?_, ?_, ?_, hB, ?_, ?_, ?_⟩
      · unfold sender_record_find
        rw [harr]
        simp only [hslot]
        rw [if_neg hseq, sender_record_find_link_eq]
      · intro s hs
        exact hall s (List.mem_append_left _ hs)
      · exact hall slot (by simp)
      · intro h
        exact absurd h hseq
      · intro l hl
        simpa using List.mem_takeWhile_imp hl
      · intro _ l hl
        have := List.head?_dropWhile_not (fun l => decide (l.seq ≤ t)) slot.missing_link
        rw [hl] at this
        simpa using this

theorem packet_slot_get_split (slot : packet_slot_t) (c1 c2 : List packet_record_t)
    (h : slot.missing_link = c1 ++ c2) :
    slot.get c1.length = (slot.packet :: c1).getLast? := by
  rcases List.eq_nil_or_concat c1 with h1 | ⟨c, x, h1⟩
  · subst h1
    rfl
  · rw [List.concat_eq_append] at h1
    subst h1
    rw [List.length_append, List.length_singleton]
    unfold packet_slot_t.get
    simp only
    rw [h, List.getElem?_append_left (by simp), List.getElem?_append_right (Nat.le_refl _),
      Nat.sub_self, List.getElem?_cons_zero, ← List.cons_append, List.getLast?_append]
    rfl

theorem sender_record_find_ok (record : sender_record_t) (hwf : sender_wf record) (t : Nat) :
    ∃ r, sender_record_find record t = .ok r := by
  rcases sender_record_find_spec record hwf t with h | ⟨A, slot, B, c1, c2, _, _, h, _⟩
  · exact ⟨_, h.1⟩
  · exact ⟨_, h⟩

/-- The record that `sender_record_find` returns can be read, and its place in
the queue. -/
theorem sender_record_find_some (record : sender_record_t) (hwf : sender_wf record) (t : Nat)
    (ref : packet_ref_t) (hfind : sender_record_find record t = .ok (some ref)) :
    ∃ (A : List packet_slot_t) (slot : packet_slot_t) (B : List packet_slot_t)
        (c1 c2 : List packet_record_t) (p : packet_record_t),
        sender_items record = A ++ slot :: B
          ∧ slot.missing_link = c1 ++ c2
          ∧ ref = { idx := (record.lower_idx + A.length) % record.array_size
                    link := c1.length }
          ∧ (slot.packet :: c1).getLast? = some p
          ∧ packet_deref record ref = .ok p
          ∧ (∀ s ∈ A, s.packet.seq ≤ t)
          ∧ slot.packet.seq ≤ t
          ∧ (∀ s, B.head? = some s → t < s.packet.seq)
          ∧ (slot.packet.seq = t → c1 = [])
          ∧ (∀ l ∈ c1, l.seq ≤ t)
          ∧ (slot.packet.seq ≠ t → ∀ l, c2.head? = some l → t < l.seq) := by
  rcases sender_record_find_spec record hwf t with h | ⟨A, slot, B, c1, c2, h1, h2, h3, h4⟩
  · rw [h.1] at hfind
    cases hfind
  · rw [h3] at hfind
    have href := (Option.some.inj (Except.ok.inj hfind)).symm
    have hget : (sender_items record)[A.length]? = some slot := by
      rw [h1, List.getElem?_append_right (Nat.le_refl _), Nat.sub_self,
        List.getElem?_cons_zero]
    have hlast : ∃ p, (slot.packet :: c1).getLast? = some p := by
      cases hl : (slot.packet :: c1).getLast? with
      | none => simp at hl
      | some p => exact ⟨p, rfl⟩
    obtain ⟨p, hp⟩ := hlast
    refine ⟨A, slot, B, c1, c2, p, h1, h2, href, hp, ?_, h4⟩
    rw [href]
    exact packet_deref_items record hwf A.length c1.length slot p hget
      (by rw [packet_slot_get_split slot c1 c2 h2, hp])

/-! ### sender_record_ack -/

theorem sender_record_ack_link_eq (ack : Nat) (chain : List packet_record_t) :
    sender_record_ack_link ack chain
      = (chain.takeWhile (fun l => decide (l.seq < ack))).length := by
  induction chain with
  | nil => rfl
  | cons l rest ih =>
    unfold sender_record_ack_link
    by_cases h : ack ≤ l.seq
    · rw [if_pos h, List.takeWhile_cons_of_neg (by simpa using h)]
      rfl
    · rw [if_neg h, ih, List.takeWhile_cons_of_pos (by simpa using h)]
      rfl

/-- Moving `lower_idx` up by `k` places drops the `k` bottom records. -/
theorem sender_items_shift (record : sender_record_t) (k : Nat) (hk : k ≤ record.length) :
    sender_items
        { record with
          length := record.length - k
          lower_idx := (record.lower_idx + k) % record.array_size }
      = (sender_items record).drop k := by
  apply List.ext_getElem?
  intro j
  rw [sender_items_getElem, List.getElem?_drop, sender_items_getElem]
  simp only
  by_cases hj : j < record.length - k
  · rw [if_pos hj, if_pos (by omega), Nat.mod_add_mod, Nat.add_assoc]
  · rw [if_neg hj, if_neg (by omega)]

theorem sender_wf_shift (record : sender_record_t) (hwf : sender_wf record) (k : Nat)
    (hk : k ≤ record.length) :
    sender_wf
      { record with
        length := record.length - k
        lower_idx := (record.lower_idx + k) % record.array_size } := by
  refine ⟨hwf.block, hwf.multiple, hwf.bound, ?_, ?_⟩
  · have := hwf.length
    simp only
    omega
  · simp only
    by_cases h : 0 < record.array_size
    · left
      exact Nat.mod_lt _ h
    · have h0 : record.array_size = 0 := by omega
      rcases hwf.lower with h1 | h1
      · omega
      · have h2 := hwf.length
        right
        rw [h0, Nat.mod_zero]
        omega

theorem sender_record_ack_advance_spec (ack : Nat) :
    ∀ (fuel : Nat) (record : sender_record_t), sender_wf record → 1 ≤ record.length →
      record.length ≤ fuel →
      sender_record_ack_advance ack fuel record
        = .ok { record with
                length := record.length
                  - ((sender_items record).tail.takeWhile
                      (fun s => decide (s.packet.seq < ack))).length
                lower_idx := (record.lower_idx
                  + ((sender_items record).tail.takeWhile
                      (fun s => decide (s.packet.seq < ack))).length) % record.array_size } := by
  intro fuel
  induction fuel with
  | zero =>
    intro record _ h1 h2
    omega
  | succ fuel ih =>
    intro record hwf h1 h2
    have hlen := hwf.length
    have hlow := sender_lower_lt record hwf (by omega)
    have hbound := hwf.bound
    unfold sender_record_ack_advance
    by_cases hgt : record.length > 1
    · rw [if_pos ⟨hgt, by omega⟩]
      obtain ⟨next, hn1, hn2⟩ := sender_items_get record hwf 1 hgt
      simp only [hn1]
      have htail : (sender_items record).tail = next :: (sender_items record).drop 2 := by
        have hl : 1 < (sender_items record).length := by rw [sender_items_length]; exact hgt
        have h3 : (sender_items record)[1] = next := by
          have := List.getElem?_eq_getElem hl
          rw [hn2] at this
          exact (Option.some.inj this).symm
        rw [← List.drop_one, List.drop_eq_getElem_cons hl, h3]
      by_cases hack : ack ≤ next.packet.seq
      · rw [if_pos hack, htail, List.takeWhile_cons_of_neg (by simpa using hack)]
        simp only [List.length_nil, Nat.sub_zero, Nat.add_zero, Nat.mod_eq_of_lt hlow]
      · rw [if_neg hack, Nat.mod_eq_of_lt (by omega : record.lower_idx + 1 < 65536),
          wrap_succ _ _ hlow]
        have hshift := sender_items_shift record 1 (by omega)
        have hwf1 := sender_wf_shift record hwf 1 (by omega)
        rw [ih _ hwf1 (by simp only; omega) (by simp only; omega), hshift, htail,
          List.takeWhile_cons_of_pos (by simpa using hack)]
        simp only [List.drop_one, htail, List.tail_cons, List.length_cons]
        congr 2
        · rw [Nat.mod_add_mod]
          congr 1
          omega
        · omega
    · rw [if_neg (by omega)]
      have hnil : (sender_items record).tail = [] := by
        apply List.eq_nil_of_length_eq_zero
        rw [List.length_tail, sender_items_length]
        omega
      rw [hnil]
      simp only [List.takeWhile_nil, List.length_nil, Nat.sub_zero, Nat.add_zero,
        Nat.mod_eq_of_lt hlow]

theorem sender_record_ack_cleanup_spec (S : List packet_slot_t) (L k size : Nat) (hL : L < size)
    (hk : k < size) (hsize : size ≤ 65520) :
    ∀ (n j fuel : Nat) (record : sender_record_t) (freed : List packet_record_t),
      j + n = k → n ≤ fuel → record.array_size = size → record.array.length = size →
      record.lower_idx = (L + k) % size →
      (∀ i, j ≤ i → i < k → record.array[(L + i) % size]? = S[i]? ∧ i < S.length) →
      ∃ array : List packet_slot_t,
        sender_record_ack_cleanup fuel ((L + j) % size) record freed
            = .ok ({ record with array := array },
                freed ++ ((S.drop j).take n).flatMap
                  (fun s => packet_record_free_missing_links s.missing_link))
          ∧ array.length = size
          ∧ ∀ i, k ≤ i → i < size → array[(L + i) % size]? = record.array[(L + i) % size]? := by
  intro n
  induction n with
  | zero =>
    intro j fuel record freed hj _ _ hlen hlow _
    have hjk : j = k := by omega
    subst hjk
    refine ⟨record.array, ?_, hlen, fun _ _ _ => rfl⟩
    cases fuel with
    | zero =>
      unfold sender_record_ack_cleanup
      rw [if_neg (by rw [hlow]; simp)]
      simp
    | succ fuel =>
      unfold sender_record_ack_cleanup
      rw [if_neg (by rw [hlow]; simp)]
      simp
  | succ n ih =>
    intro j fuel record freed hj hfuel hsz hlen hlow hS
    obtain ⟨hSj, hjS⟩ := hS j (Nat.le_refl _) (by omega)
    have hne : (L + j) % size ≠ record.lower_idx := by
      rw [hlow]
      intro h
      have := wrap_index_inj _ _ _ _ hL (by omega) hk h
      omega
    cases fuel with
    | zero => omega
    | succ fuel =>
      rw [List.getElem?_eq_getElem hjS] at hSj
      have hold : (L + j) % size < 65536 := by
        have := Nat.mod_lt (L + j) (by omega : 0 < size)
        omega
      have hnext : (if ((L + j) % size + 1) % 65536 = record.array_size then 0
          else ((L + j) % size + 1) % 65536) = (L + (j + 1)) % size := by
        have := Nat.mod_lt (L + j) (by omega : 0 < size)
        rw [Nat.mod_eq_of_lt (by omega), hsz, wrap_succ _ _ this, wrap_step]
      obtain ⟨array, h1, h2, h3⟩ := ih (j + 1) fuel
        { record with
          array := record.array.set ((L + j) % size) { S[j] with missing_link := [] } }
        (freed ++ packet_record_free_missing_links S[j].missing_link)
        (by omega) (by omega) hsz (by simp only [List.length_set]; exact hlen) hlow
        (by
          intro i hi1 hi2
          refine ⟨?_, (hS i (by omega) hi2).2⟩
          simp only
          rw [List.getElem?_set_ne]
          · exact (hS i (by omega) hi2).1
          · intro h
            have := wrap_index_inj _ _ _ _ hL (by omega) (by omega) h
            omega)
      refine ⟨array, ?_, h2, ?_⟩
      · unfold sender_record_ack_cleanup
        rw [if_pos hne]
        simp only [hSj, hnext]
        rw [h1, List.drop_eq_getElem_cons hjS, List.take_succ_cons, List.flatMap_cons,
          List.append_assoc]
      · intro i hi1 hi2
        rw [h3 i hi1 hi2]
        simp only
        rw [List.getElem?_set_ne]
        intro h
        have := wrap_index_inj _ _ _ _ hL (by omega) (by omega) h
        omega

theorem packet_slot_modify_some (slot : packet_slot_t) (f : packet_record_t → packet_record_t)
    (k : Nat) (hk : k ≤ slot.missing_link.length) : ∃ after, slot.modify f k = some after := by
  cases k with
  | zero => exact ⟨_, rfl⟩
  | succ k =>
    unfold packet_slot_t.modify
    simp only
    rw [List.getElem?_eq_getElem (by omega)]
    exact ⟨_, rfl⟩

/-- Function `sender_record_ack` on a well-formed record. It returns at once
when the queue is empty or the number does not exceed the sequence number of
the bottom record. Otherwise it drops the bottom records that are followed by
an array record below the number, increments `num_acks` of the last record
below the number on the run of such records at the head of the new bottom
record and its chain, and frees the chains of the dropped records. -/
theorem sender_record_ack_spec (record : sender_record_t) (hwf : sender_wf record) (ack : Nat) :
    ((∀ bottom, (sender_items record).head? = some bottom → ack ≤ bottom.packet.seq) →
      sender_record_ack record ack = .ok (record, []))
    ∧ ∀ bottom, (sender_items record).head? = some bottom → bottom.packet.seq < ack →
        ∃ (after : sender_record_t) (slot after_slot : packet_slot_t),
          (sender_items record)[((sender_items record).tail.takeWhile
              (fun s => decide (s.packet.seq < ack))).length]? = some slot
            ∧ slot.modify (fun p => { p with num_acks := (p.num_acks + 1) % 256 })
                ((slot.missing_link.takeWhile (fun l => decide (l.seq < ack))).length)
                  = some after_slot
            ∧ sender_record_ack record ack
                = .ok (after,
                    ((sender_items record).take ((sender_items record).tail.takeWhile
                      (fun s => decide (s.packet.seq < ack))).length).flatMap
                        (fun s => packet_record_free_missing_links s.missing_link))
            ∧ sender_wf after
            ∧ sender_items after
                = after_slot :: (sender_items record).drop
                    (((sender_items record).tail.takeWhile
                      (fun s => decide (s.packet.seq < ack))).length + 1)
            ∧ after.expected_seq = record.expected_seq
            ∧ after.in_recovery = record.in_recovery := by
  have hlen := hwf.length
  have hbound := hwf.bound
  refine ⟨?_, ?_⟩
  · intro h
    unfold sender_record_ack
    by_cases h0 : record.length = 0
    · rw [if_pos h0]
    · rw [if_neg h0]
      obtain ⟨bottom, hb1, hb2⟩ := sender_items_get record hwf 0 (by omega)
      have hlow := sender_lower_lt record hwf (by omega)
      rw [Nat.add_zero, Nat.mod_eq_of_lt hlow] at hb1
      simp only [hb1]
      rw [if_pos (h bottom (by rw [List.head?_eq_getElem?, hb2]))]
  · intro bottom hhead hlt
    have h0 : record.length ≠ 0 := by
      intro h0
      have : sender_items record = [] := by
        apply List.eq_nil_of_length_eq_zero
        rw [sender_items_length, h0]
      rw [this] at hhead
      cases hhead
    have hlow := sender_lower_lt record hwf (by omega)
    obtain ⟨b, hb1, hb2⟩ := sender_items_get record hwf 0 (by omega)
    rw [Nat.add_zero, Nat.mod_eq_of_lt hlow] at hb1
    rw [List.head?_eq_getElem?, hb2] at hhead
    cases hhead
    -- the number of records dropped
    obtain ⟨k, hk⟩ : ∃ k, k = ((sender_items record).tail.takeWhile
        (fun s => decide (s.packet.seq < ack))).length := ⟨_, rfl⟩
    have hkl : k < record.length := by
      have h1 : ((sender_items record).tail.takeWhile
          (fun s => decide (s.packet.seq < ack))).length ≤ (sender_items record).tail.length :=
        (List.takeWhile_prefix _).length_le
      rw [List.length_tail, sender_items_length] at h1
      omega
    rw [← hk]
    obtain ⟨slot, hs1, hs2⟩ := sender_items_get record hwf k hkl
    obtain ⟨after_slot, hmod⟩ := packet_slot_modify_some slot
      (fun p => { p with num_acks := (p.num_acks + 1) % 256 })
      ((slot.missing_link.takeWhile (fun l => decide (l.seq < ack))).length)
      (List.takeWhile_prefix _).length_le
    have hadv := sender_record_ack_advance_spec ack record.length record hwf (by omega)
      (Nat.le_refl _)
    rw [← hk] at hadv
    have hsets : (record.array.set ((record.lower_idx + k) % record.array_size)
        after_slot).length = record.array_size := by
      rw [List.length_set]
      exact hwf.block
    obtain ⟨array, hc1, hc2, hc3⟩ := sender_record_ack_cleanup_spec (sender_items record)
      record.lower_idx k record.array_size hlow (by omega) hbound k 0 record.array_size
      { record with
        array := record.array.set ((record.lower_idx + k) % record.array_size) after_slot
        length := record.length - k
        lower_idx := (record.lower_idx + k) % record.array_size }
      [] (by omega) (by omega) rfl hsets rfl
      (by
        intro i _ hik
        obtain ⟨s, h1, h2⟩ := sender_items_get record hwf i (by omega)
        refine ⟨?_, by rw [sender_items_length]; omega⟩
        simp only
        rw [List.getElem?_set_ne, h1, h2]
        intro h
        have := wrap_index_inj _ _ _ _ hlow (by omega) (by omega) h
        omega)
    rw [Nat.add_zero, Nat.mod_eq_of_lt hlow, List.drop_zero, List.nil_append] at hc1
    have hrun : sender_record_ack record ack
        = .ok ({ record with
                 array := array
                 length := record.length - k
                 lower_idx := (record.lower_idx + k) % record.array_size },
               ((sender_items record).take k).flatMap
                 (fun s => packet_record_free_missing_links s.missing_link)) := by
      unfold sender_record_ack
      rw [if_neg h0]
      simp only [hb1]
      rw [if_neg (by omega)]
      simp only [hadv, hs1]
      unfold packet_assign
      simp only [hs1, sender_record_ack_link_eq, hmod]
      exact hc1
    refine ⟨_, slot, after_slot, hs2, hmod, hrun, ?_, ?_, rfl, rfl⟩
    · refine ⟨hc2, hwf.multiple, hwf.bound, ?_, ?_⟩
      · simp only
        omega
      · left
        exact Nat.mod_lt _ (by omega)
    · apply List.ext_getElem?
      intro j
      rw [sender_items_getElem]
      simp only
      by_cases hj : j < record.length - k
      · rw [if_pos hj, List.getD_eq_getElem?_getD, Nat.mod_add_mod, Nat.add_assoc,
          hc3 (k + j) (by omega) (by omega)]
        simp only
        cases j with
        | zero =>
          rw [Nat.add_zero,
            List.getElem?_set_self (by rw [hwf.block]; exact Nat.mod_lt _ (by omega)),
            List.getElem?_cons_zero]
          rfl
        | succ j =>
          rw [List.getElem?_set_ne, List.getElem?_cons_succ, List.getElem?_drop]
          · obtain ⟨s, h1, h2⟩ := sender_items_get record hwf (k + (j + 1)) (by omega)
            rw [h1, show k + 1 + j = k + (j + 1) by omega, h2]
            rfl
          · intro h
            have := wrap_index_inj _ _ _ _ hlow (by omega) (by omega) h
            omega
      · rw [if_neg hj]
        symm
        apply List.getElem?_eq_none
        rw [List.length_cons, List.length_drop, sender_items_length]
        omega

/-! ### reordering_update: the branches of a data packet -/

/-- A data packet above the expected sequence number: a placeholder at the
expected number and the record of the packet become the top of the queue. -/
theorem reordering_update_data_high (record : sender_record_t) (hwf : sender_wf record)
    (hroom : record.length + 2 ≤ 65520) (seq : Nat) (payload : Int) (time : ℚ) (ip_id : Nat)
    (rtt rto : ℚ) (hseq : seq > record.expected_seq) :
    ∃ (after : sender_record_t) (flag1 flag2 : Bool),
      reordering_update_data record seq payload time ip_id rtt rto
          = .ok (after, reordering_type_t.HIGH, 1, 0)
        ∧ sender_wf after
        ∧ sender_items after
            = sender_items record
                ++ [{ packet := { seq := record.expected_seq, time := time, ip_id := 0,
                                  num_acks := 0, is_missing := true, is_misaligned := flag1 }
                      missing_link := [] },
                    { packet := { seq := seq, time := time, ip_id := ip_id, num_acks := 0,
                                  is_missing := false, is_misaligned := flag2 }
                      missing_link := [] }]
        ∧ after.expected_seq = uint32_add seq payload
        ∧ after.in_recovery = 0
        ∧ after.length = record.length + 2 := by
  obtain ⟨a1, idx1, flag1, h1, hwf1, hitems1, hexp1, hrec1, hlen1, hidx1⟩ :=
    sender_record_add_spec record hwf (by omega) record.expected_seq time 0
  have hget1 : (sender_items a1)[record.length]? = some
      { packet := { seq := record.expected_seq, time := time, ip_id := 0, num_acks := 0,
                    is_missing := false, is_misaligned := flag1 }
        missing_link := [] } := by
    rw [hitems1, List.getElem?_append_right (by rw [sender_items_length]), sender_items_length,
      Nat.sub_self, List.getElem?_cons_zero]
  obtain ⟨a2, h2, hwf2, hitems2, hexp2, hrec2, hlen2, _, _⟩ :=
    packet_assign_items a1 hwf1 record.length 0 _ _ (fun p => { p with is_missing := true })
      hget1 rfl
  rw [← hidx1] at h2
  obtain ⟨a3, idx3, flag2, h3, hwf3, hitems3, hexp3, hrec3, hlen3, _⟩ :=
    sender_record_add_spec a2 hwf2 (by omega) seq time ip_id
  have hrun : reordering_update_data record seq payload time ip_id rtt rto
      = .ok ({ a3 with expected_seq := uint32_add seq payload, in_recovery := 0 },
          reordering_type_t.HIGH, 1, 0) := by
    unfold reordering_update_data
    rw [if_pos hseq]
    simp only [h1, h2, h3]
  refine ⟨_, flag1, flag2, hrun, ?_, ?_, rfl, rfl, ?_⟩
  · exact sender_wf_congr a3 _ hwf3 rfl rfl rfl rfl
  · refine Eq.trans (sender_items_congr a3 _ rfl rfl rfl rfl) ?_
    rw [hitems3, hitems2, hitems1]
    have : (sender_items record ++
        [({ packet := { seq := record.expected_seq, time := time, ip_id := 0, num_acks := 0,
                        is_missing := false, is_misaligned := flag1 }
            missing_link := [] } : packet_slot_t)]).set record.length
        { packet := { seq := record.expected_seq, time := time, ip_id := 0, num_acks := 0,
                      is_missing := true, is_misaligned := flag1 }
          missing_link := [] }
        = sender_items record ++
        [({ packet := { seq := record.expected_seq, time := time, ip_id := 0, num_acks := 0,
                        is_missing := true, is_misaligned := flag1 }
            missing_link := [] } : packet_slot_t)] := by
      rw [List.set_append_right _ _ (by rw [sender_items_length]), sender_items_length,
        Nat.sub_self]
      rfl
    rw [this, List.append_assoc]
    rfl
  · simp only
    omega

/-- A data packet at the expected sequence number: its record becomes the
top of the queue. -/
theorem reordering_update_data_inorder (record : sender_record_t) (hwf : sender_wf record)
    (hroom : record.length + 1 ≤ 65520) (seq : Nat) (payload : Int) (time : ℚ) (ip_id : Nat)
    (rtt rto : ℚ) (hseq : seq = record.expected_seq) :
    ∃ (after : sender_record_t) (flag : Bool),
      reordering_update_data record seq payload time ip_id rtt rto
          = .ok (after, reordering_type_t.INORDER, 0, 0)
        ∧ sender_wf after
        ∧ sender_items after
            = sender_items record
                ++ [{ packet := { seq := seq, time := time, ip_id := ip_id, num_acks := 0,
                                  is_missing := false, is_misaligned := flag }
                      missing_link := [] }]
        ∧ after.expected_seq = uint32_add record.expected_seq payload
        ∧ after.in_recovery = 0
        ∧ after.length = record.length + 1 := by
  have hwf0 : sender_wf { record with in_recovery := 0 } :=
    sender_wf_congr record _ hwf rfl rfl rfl rfl
  obtain ⟨a1, idx1, flag1, h1, hwf1, hitems1, hexp1, hrec1, hlen1, hidx1⟩ :=
    sender_record_add_spec { record with in_recovery := 0 } hwf0 (by simp only; omega)
      seq time ip_id
  have hrun : reordering_update_data record seq payload time ip_id rtt rto
      = .ok ({ a1 with expected_seq := uint32_add a1.expected_seq payload },
          reordering_type_t.INORDER, 0, 0) := by
    unfold reordering_update_data
    rw [if_neg (by omega), if_pos hseq]
    simp only [h1]
  refine ⟨_, flag1, hrun, ?_, ?_, ?_, ?_, ?_⟩
  · exact sender_wf_congr a1 _ hwf1 rfl rfl rfl rfl
  · refine Eq.trans (sender_items_congr a1 _ rfl rfl rfl rfl) ?_
    rw [hitems1]
    rfl
  · simp only
    rw [hexp1]
  · exact hrec1
  · exact hlen1

/-! ### Pointers into the queue -/

theorem sender_record_find_valid (record : sender_record_t) (hwf : sender_wf record) (t : Nat)
    (ref : packet_ref_t) (hfind : sender_record_find record t = .ok (some ref)) :
    ref_valid record ref := by
  obtain ⟨A, slot, B, c1, c2, p, h1, h2, h3, _⟩ :=
    sender_record_find_some record hwf t ref hfind
  refine ⟨A.length, slot, ?_, ?_, ?_⟩
  · rw [h1, List.getElem?_append_right (Nat.le_refl _), Nat.sub_self, List.getElem?_cons_zero]
  · rw [h3]
  · rw [h3, h2]
    simp

theorem packet_slot_get_some (slot : packet_slot_t) (k : Nat)
    (hk : k ≤ slot.missing_link.length) : ∃ p, slot.get k = some p := by
  cases k with
  | zero => exact ⟨_, rfl⟩
  | succ k =>
    unfold packet_slot_t.get
    simp only
    rw [List.getElem?_eq_getElem (by omega)]
    exact ⟨_, rfl⟩

theorem packet_deref_valid (record : sender_record_t) (hwf : sender_wf record)
    (ref : packet_ref_t) (hv : ref_valid record ref) : ∃ p, packet_deref record ref = .ok p := by
  obtain ⟨i, slot, h1, h2, h3⟩ := hv
  obtain ⟨p, hp⟩ := packet_slot_get_some slot ref.link h3
  refine ⟨p, ?_⟩
  have := packet_deref_items record hwf i ref.link slot p h1 hp
  rw [← h2] at this
  exact this

theorem packet_slot_modify_keys (slot after : packet_slot_t)
    (f : packet_record_t → packet_record_t) (hf : ∀ p, packet_key (f p) = packet_key p)
    (k : Nat) (h : slot.modify f k = some after) :
    slot_keys after = slot_keys slot
      ∧ after.missing_link.length = slot.missing_link.length := by
  cases k with
  | zero =>
    unfold packet_slot_t.modify at h
    cases h
    refine ⟨?_, rfl⟩
    unfold slot_keys
    simp only [List.map_cons, hf]
  | succ k =>
    unfold packet_slot_t.modify at h
    simp only at h
    cases hk : slot.missing_link[k]? with
    | none =>
      rw [hk] at h
      cases h
    | some p =>
      rw [hk] at h
      cases h
      refine ⟨?_, by simp⟩
      unfold slot_keys
      simp only [List.map_cons, List.cons.injEq, true_and]
      apply List.ext_getElem?
      intro j
      rw [List.getElem?_map, List.getElem?_map, List.getElem?_set]
      by_cases hj : k = j
      · subst hj
        rw [if_pos rfl, hk]
        have hlt : k < slot.missing_link.length := by
          by_contra hn
          rw [List.getElem?_eq_none (by omega)] at hk
          cases hk
        rw [if_pos hlt]
        simp only [Option.map_some', hf]
      · rw [if_neg hj]

theorem sender_keys_set (record after : sender_record_t) (i : Nat)
    (slot after_slot : packet_slot_t) (hslot : (sender_items record)[i]? = some slot)
    (hitems : sender_items after = (sender_items record).set i after_slot)
    (hkeys : slot_keys after_slot = slot_keys slot) : sender_keys after = sender_keys record := by
  unfold sender_keys
  rw [hitems]
  apply List.ext_getElem?
  intro j
  rw [List.getElem?_map, List.getElem?_map, List.getElem?_set]
  by_cases hj : i = j
  · subst hj
    rw [if_pos rfl, hslot]
    have hlt : i < (sender_items record).length := by
      by_contra hn
      rw [List.getElem?_eq_none (by omega)] at hslot
      cases hslot
    rw [if_pos hlt]
    simp only [Option.map_some', hkeys]
  · rw [if_neg hj]

/-- An assignment through a valid pointer that leaves the sequence number and
the placeholder flag as they are: it succeeds and keeps the shape of the
queue. -/
theorem packet_assign_valid (record : sender_record_t) (hwf : sender_wf record)
    (ref : packet_ref_t) (hv : ref_valid record ref) (f : packet_record_t → packet_record_t)
    (hf : ∀ p, packet_key (f p) = packet_key p) :
    ∃ after : sender_record_t,
      packet_assign record ref f = .ok after
        ∧ sender_wf after
        ∧ sender_keys after = sender_keys record
        ∧ after.expected_seq = record.expected_seq
        ∧ after.in_recovery = record.in_recovery
        ∧ after.length = record.length
        ∧ (∀ ref', ref_valid record ref' → ref_valid after ref') := by
  obtain ⟨i, slot, h1, h2, h3⟩ := hv
  obtain ⟨after_slot, hmod⟩ := packet_slot_modify_some slot f ref.link h3
  obtain ⟨after, ha1, ha2, ha3, ha4, ha5, ha6, ha7, ha8⟩ :=
    packet_assign_items record hwf i ref.link slot after_slot f h1 hmod
  rw [← h2] at ha1
  obtain ⟨hk1, hk2⟩ := packet_slot_modify_keys slot after_slot f hf ref.link hmod
  refine ⟨after, ha1, ha2, sender_keys_set record after i slot after_slot h1 ha3 hk1, ha4, ha5,
    ha6, ?_⟩
  intro ref' ⟨j, s, hj1, hj2, hj3⟩
  by_cases hij : i = j
  · subst hij
    rw [h1] at hj1
    cases hj1
    refine ⟨i, after_slot, ?_, by rw [ha7, ha8]; exact hj2, by rw [hk2]; exact hj3⟩
    rw [ha3, List.getElem?_set_self]
    by_contra hn
    rw [List.getElem?_eq_none (by omega)] at h1
    cases h1
  · refine ⟨j, s, ?_, by rw [ha7, ha8]; exact hj2, hj3⟩
    rw [ha3, List.getElem?_set_ne hij]
    exact hj1

theorem packet_deref_assign (record after : sender_record_t) (ref ref' : packet_ref_t)
    (f : packet_record_t → packet_record_t) (p : packet_record_t)
    (h : packet_assign record ref f = .ok after) (hp : packet_deref record ref' = .ok p) :
    packet_deref after ref' = .ok (if ref' = ref then f p else p) := by
  obtain ⟨idx, link⟩ := ref
  obtain ⟨idx', link'⟩ := ref'
  unfold packet_assign at h
  unfold packet_deref at hp ⊢
  simp only at h hp ⊢
  cases hs : record.array[idx]? with
  | none =>
    rw [hs] at h
    cases h
  | some slot =>
    rw [hs] at h
    simp only at h
    cases hm : slot.modify f link with
    | none =>
      rw [hm] at h
      cases h
    | some after_slot =>
      rw [hm] at h
      cases h
      have hlt : idx < record.array.length := by
        by_contra hn
        rw [List.getElem?_eq_none (by omega)] at hs
        cases hs
      simp only [packet_ref_t.mk.injEq]
      by_cases hidx : idx' = idx
      · subst hidx
        rw [hs] at hp
        simp only at hp
        rw [List.getElem?_set_self hlt]
        simp only [true_and]
        cases link with
        | zero =>
          unfold packet_slot_t.modify at hm
          cases hm
          cases link' with
          | zero =>
            unfold packet_slot_t.get at hp ⊢
            simp only at hp ⊢
            cases hp
            rfl
          | succ k' =>
            unfold packet_slot_t.get at hp ⊢
            simp only at hp ⊢
            rw [if_neg (by omega)]
            exact hp
        | succ k =>
          unfold packet_slot_t.modify at hm
          simp only at hm
          cases hq : slot.missing_link[k]? with
          | none =>
            rw [hq] at hm
            cases hm
          | some q =>
            rw [hq] at hm
            cases hm
            cases link' with
            | zero =>
              unfold packet_slot_t.get at hp ⊢
              simp only at hp ⊢
              rw [if_neg (by omega)]
              exact hp
            | succ k' =>
              unfold packet_slot_t.get at hp ⊢
              simp only at hp ⊢
              rw [List.getElem?_set]
              by_cases hk : k = k'
              · subst hk
                have hklt : k < slot.missing_link.length := by
                  by_contra hn
                  rw [List.getElem?_eq_none (by omega)] at hq
                  cases hq
                rw [if_pos rfl, if_pos hklt, if_pos rfl]
                rw [hq] at hp
                simp only at hp
                cases hp
                rfl
              · rw [if_neg hk, if_neg (by omega)]
                exact hp
      · rw [List.getElem?_set_ne (fun h => hidx h.symm)]
        simp only [hidx, false_and, if_false]
        exact hp

/-- Lines 535-543 of `reordering_update` succeed and keep the shape of the
queue; the record of the packet keeps its IP identification. -/
theorem reordering_update_mark_spec (record : sender_record_t) (hwf : sender_wf record)
    (seq : Nat) (payload : Int) (ref : packet_ref_t) (found : packet_record_t)
    (hv : ref_valid record ref) (hderef : packet_deref record ref = .ok found) :
    ∃ (after : sender_record_t) (refound : packet_record_t),
      reordering_update_mark record seq payload ref found = .ok after
        ∧ sender_wf after
        ∧ sender_keys after = sender_keys record
        ∧ after.expected_seq = record.expected_seq
        ∧ after.in_recovery = record.in_recovery
        ∧ after.length = record.length
        ∧ packet_deref after ref = .ok refound
        ∧ refound.ip_id = found.ip_id := by
  obtain ⟨r, hr⟩ := sender_record_find_ok record hwf (uint32_add seq payload)
  cases r with
  | none =>
    refine ⟨record, found, ?_, hwf, rfl, rfl, rfl, rfl, hderef, rfl⟩
    unfold reordering_update_mark
    simp only [hr]
  | some next_ref =>
    have hnv := sender_record_find_valid record hwf _ next_ref hr
    obtain ⟨next, hnext⟩ := packet_deref_valid record hwf next_ref hnv
    by_cases hc : found.seq ≠ seq ∨ next.seq ≠ uint32_add seq payload
    · obtain ⟨a1, h1, hwf1, hk1, he1, hr1, hl1, hv1⟩ := packet_assign_valid record hwf ref hv
        (fun p => { p with is_misaligned := true }) (fun _ => rfl)
      obtain ⟨a2, h2, hwf2, hk2, he2, hr2, hl2, _⟩ := packet_assign_valid a1 hwf1 next_ref
        (hv1 next_ref hnv) (fun p => { p with is_misaligned := true }) (fun _ => rfl)
      have hd1 := packet_deref_assign record a1 ref ref _ found h1 hderef
      have hd2 := packet_deref_assign a1 a2 next_ref ref _ _ h2 hd1
      refine ⟨a2, _, ?_, hwf2, by rw [hk2, hk1], by rw [he2, he1], by rw [hr2, hr1],
        by rw [hl2, hl1], hd2, ?_⟩
      · unfold reordering_update_mark
        simp only [hr, hnext]
        rw [if_pos hc]
        simp only [h1, h2]
      · split <;> simp
    · refine ⟨record, found, ?_, hwf, rfl, rfl, rfl, rfl, hderef, rfl⟩
      unfold reordering_update_mark
      simp only [hr, hnext]
      rw [if_neg hc]

/-- Lines 578-600 of `reordering_update` succeed: either nothing changes, or
`sender_record_find` found for `seq + payload` a record with the sequence
number `seq` and the new placeholder follows the record of the packet in its
chain. -/
theorem reordering_update_splice_spec (record : sender_record_t) (hwf : sender_wf record)
    (seq : Nat) (payload : Int) (found : packet_record_t) (i k : Nat) (slot : packet_slot_t)
    (hslot : (sender_items record)[i]? = some slot) (hk : k ≤ slot.missing_link.length) :
    ∃ after : sender_record_t,
      reordering_update_splice record seq payload
          { idx := (record.lower_idx + i) % record.array_size, link := k } found = .ok after
        ∧ sender_wf after
        ∧ after.expected_seq = record.expected_seq
        ∧ after.in_recovery = record.in_recovery
        ∧ after.length = record.length
        ∧ (after = record
            ∨ ∃ (next_ref : packet_ref_t) (next : packet_record_t),
                sender_record_find record (uint32_add seq payload) = .ok (some next_ref)
                  ∧ packet_deref record next_ref = .ok next
                  ∧ next.seq = seq
                  ∧ sender_items after
                      = (sender_items record).set i
                          { slot with
                            missing_link :=
                              slot.missing_link.take k
                                ++ { seq := uint32_add seq payload, time := found.time,
                                     ip_id := 0, num_acks := 0, is_missing := true,
                                     is_misaligned := false } :: slot.missing_link.drop k }) := by
  obtain ⟨r, hr⟩ := sender_record_find_ok record hwf (uint32_add seq payload)
  cases r with
  | none =>
    refine ⟨record, ?_, hwf, rfl, rfl, rfl, Or.inl rfl⟩
    unfold reordering_update_splice
    simp only [hr]
  | some next_ref =>
    have hnv := sender_record_find_valid record hwf _ next_ref hr
    obtain ⟨next, hnext⟩ := packet_deref_valid record hwf next_ref hnv
    by_cases hc : next.seq = seq
    · obtain ⟨after, h1, h2, h3, h4, h5, h6, _, _⟩ := packet_splice_items record hwf i k slot
        { seq := uint32_add seq payload, time := found.time, ip_id := 0, num_acks := 0,
          is_missing := true, is_misaligned := false } hslot hk
      refine ⟨after, ?_, h2, h4, h5, h6, Or.inr ⟨next_ref, next, hr, hnext, hc, h3⟩⟩
      unfold reordering_update_splice
      simp only [hr, hnext]
      rw [if_pos hc]
      exact h1
    · refine ⟨record, ?_, hwf, rfl, rfl, rfl, Or.inl rfl⟩
      unfold reordering_update_splice
      simp only [hr, hnext]
      rw [if_neg hc]

/-! ### reordering_update: the two directions -/

theorem reordering_wf_record {σ : Type} (r : reordering_t σ) (hwf : reordering_wf r) (d : Int) :
    sender_wf (r.record d) := by
  unfold reordering_t.record
  split
  · exact hwf.record_0
  · exact hwf.record_1

theorem sender_wf_create : sender_wf
    { array := [], lower_idx := 0, length := 0, array_size := 0, expected_seq := 0,
      in_recovery := 0 } :=
  ⟨rfl, rfl, by simp, Nat.le_refl _, Or.inr rfl⟩

theorem reordering_wf_create {σ : Type} (rtt_module : rtt_module_t σ) :
    reordering_wf (reordering_create rtt_module) :=
  ⟨sender_wf_create, sender_wf_create⟩

/-- A SYN sets the expected sequence number of its direction and nothing else
of the two sender records. -/
theorem reordering_update_syn {σ : Type} (rtt_module : rtt_module_t σ) (r : reordering_t σ)
    (packet : libtrace_packet_t) (ip : libtrace_ip) (tcp : libtrace_tcp) (rtt_data : σ)
    (hip : packet.ip = some ip) (htcp : packet.tcp = some tcp)
    (hd : packet.direction = 0 ∨ packet.direction = 1) (hsyn : tcp.syn = true)
    (hmod : rtt_module.update r.rtt_data packet = .ok rtt_data) :
    ∃ after : reordering_t σ,
      reordering_update rtt_module r packet = .ok after
        ∧ after.record packet.direction
            = { r.record packet.direction with
                expected_seq := (ntohl tcp.seq + 1) % 4294967296 }
        ∧ after.record (1 - packet.direction) = r.record (1 - packet.direction)
        ∧ after.rtt_data = rtt_data
        ∧ after.min_rtt
            = (reordering_update_rtt r.min_rtt (rtt_module.inside_rtt rtt_data)
                (rtt_module.outside_rtt rtt_data)).2.2
        ∧ after.last_packet = reordering_type_t.INORDER
        ∧ after.last_packet_message = 0
        ∧ after.time_lag = 0 := by
  have hrun : reordering_update rtt_module r packet
      = .ok { record_0 :=
                if packet.direction = 0 then
                  { r.record_0 with expected_seq := (ntohl tcp.seq + 1) % 4294967296 }
                else r.record_0
              record_1 :=
                if packet.direction = 0 then r.record_1
                else { r.record_1 with expected_seq := (ntohl tcp.seq + 1) % 4294967296 }
              rtt_data := rtt_data
              min_rtt := (reordering_update_rtt r.min_rtt (rtt_module.inside_rtt rtt_data)
                (rtt_module.outside_rtt rtt_data)).2.2
              last_packet := reordering_type_t.INORDER
              last_packet_message := 0
              time_lag := 0 } := by
    rcases hd with hd | hd
    · unfold reordering_update
      simp only [hip, htcp, hd, hmod, hsyn]
      rfl
    · unfold reordering_update
      simp only [hip, htcp, hd, hmod, hsyn]
      rfl
  refine ⟨_, hrun, ?_, ?_, rfl, rfl, rfl, rfl, rfl⟩
  · rcases hd with hd | hd <;> simp [reordering_t.record, hd]
  · rcases hd with hd | hd <;> simp [reordering_t.record, hd]

/-- A packet without SYN: the data branch works on the record of the
direction of the packet, then `sender_record_ack` on the record of the other
direction. -/
theorem reordering_update_nonsyn {σ : Type} (rtt_module : rtt_module_t σ) (r : reordering_t σ)
    (packet : libtrace_packet_t) (ip : libtrace_ip) (tcp : libtrace_tcp) (rtt_data : σ)
    (own other : sender_record_t) (type : reordering_type_t) (message : Nat) (lag : ℚ)
    (freed : List packet_record_t)
    (hip : packet.ip = some ip) (htcp : packet.tcp = some tcp)
    (hd : packet.direction = 0 ∨ packet.direction = 1) (hsyn : tcp.syn = false)
    (hmod : rtt_module.update r.rtt_data packet = .ok rtt_data)
    (hdata : (if payload_length ip tcp > 0 then
        reordering_update_data (r.record packet.direction) (ntohl tcp.seq)
          (payload_length ip tcp) (trace_get_seconds packet) (ntohs ip.ip_id)
          (reordering_update_rtt r.min_rtt (rtt_module.inside_rtt rtt_data)
            (rtt_module.outside_rtt rtt_data)).1
          (reordering_update_rtt r.min_rtt (rtt_module.inside_rtt rtt_data)
            (rtt_module.outside_rtt rtt_data)).2.1
      else .ok (r.record packet.direction, reordering_type_t.INORDER, 0, 0))
        = .ok (own, type, message, lag))
    (hack : sender_record_ack (r.record (1 - packet.direction)) (ntohl tcp.ack_seq)
        = .ok (other, freed)) :
    ∃ after : reordering_t σ,
      reordering_update rtt_module r packet = .ok after
        ∧ after.record packet.direction = own
        ∧ after.record (1 - packet.direction) = other
        ∧ after.rtt_data = rtt_data
        ∧ after.min_rtt
            = (reordering_update_rtt r.min_rtt (rtt_module.inside_rtt rtt_data)
                (rtt_module.outside_rtt rtt_data)).2.2
        ∧ after.last_packet = type
        ∧ after.last_packet_message = message
        ∧ after.time_lag = lag := by
  have hrun : reordering_update rtt_module r packet
      = .ok { record_0 := if packet.direction = 0 then own else other
              record_1 := if packet.direction = 0 then other else own
              rtt_data := rtt_data
              min_rtt := (reordering_update_rtt r.min_rtt (rtt_module.inside_rtt rtt_data)
                (rtt_module.outside_rtt rtt_data)).2.2
              last_packet := type
              last_packet_message := message
              time_lag := lag } := by
    by_cases hp : payload_length ip tcp > 0
    · rw [if_pos hp] at hdata
      rcases hd with hd | hd
      · rw [hd] at hdata hack
        simp only [reordering_t.record, if_true] at hdata
        simp only [reordering_t.record, show ((1 : Int) - 0 = 0) = False by simp, if_false]
          at hack
        unfold reordering_update
        simp [hip, htcp, hd, hmod, hsyn, hp, reordering_t.record, reordering_t.set_record,
          hdata, hack]
      · rw [hd] at hdata hack
        simp only [reordering_t.record, show ((1 : Int) = 0) = False by simp, if_false] at hdata
        simp only [reordering_t.record, show ((1 : Int) - 1 = 0) = True by simp, if_true] at hack
        unfold reordering_update
        simp [hip, htcp, hd, hmod, hsyn, hp, reordering_t.record, reordering_t.set_record,
          hdata, hack]
    · rw [if_neg hp] at hdata
      cases hdata
      rcases hd with hd | hd
      · rw [hd] at hack
        simp only [reordering_t.record, show ((1 : Int) - 0 = 0) = False by simp, if_false]
          at hack
        unfold reordering_update
        simp [hip, htcp, hd, hmod, hsyn, hp, reordering_t.record, reordering_t.set_record,
          hack]
      · rw [hd] at hack
        simp only [reordering_t.record, show ((1 : Int) - 1 = 0) = True by simp, if_true] at hack
        unfold reordering_update
        simp [hip, htcp, hd, hmod, hsyn, hp, reordering_t.record, reordering_t.set_record,
          hack]
  refine ⟨_, hrun, ?_, ?_, rfl, rfl, rfl, rfl, rfl⟩
  · rcases hd with hd | hd <;> simp [reordering_t.record, hd]
  · rcases hd with hd | hd <;> simp [reordering_t.record, hd]

/-- Function `sender_record_ack` returns on a well-formed record; it keeps the
expected sequence number and the recovery flag, and the queue afterwards is
the old one without some of its bottom records, with the same sequence
numbers and placeholder flags. -/
theorem sender_record_ack_ok (record : sender_record_t) (hwf : sender_wf record) (ack : Nat) :
    ∃ (after : sender_record_t) (freed : List packet_record_t) (k : Nat),
      sender_record_ack record ack = .ok (after, freed)
        ∧ sender_wf after
        ∧ after.expected_seq = record.expected_seq
        ∧ after.in_recovery = record.in_recovery
        ∧ (k = 0 ∨ k < record.length)
        ∧ after.length = record.length - k
        ∧ sender_keys after = (sender_keys record).drop k := by
  obtain ⟨h1, h2⟩ := sender_record_ack_spec record hwf ack
  cases hh : (sender_items record).head? with
  | none =>
    refine ⟨record, [], 0, h1 ?_, hwf, rfl, rfl, Or.inl rfl, rfl, rfl⟩
    intro bottom hb
    rw [hh] at hb
    cases hb
  | some bottom =>
    by_cases hlt : bottom.packet.seq < ack
    · obtain ⟨after, slot, after_slot, hs, hmod, hrun, hwfa, hitems, hexp, hrec⟩ :=
        h2 bottom hh hlt
      have hkl : ((sender_items record).tail.takeWhile
          (fun s => decide (s.packet.seq < ack))).length < record.length := by
        by_contra hn
        rw [List.getElem?_eq_none (by rw [sender_items_length]; omega)] at hs
        cases hs
      obtain ⟨hk1, _⟩ := packet_slot_modify_keys slot after_slot
        (fun p => { p with num_acks := (p.num_acks + 1) % 256 }) (fun _ => rfl) _ hmod
      refine ⟨after, _, _, hrun, hwfa, hexp, hrec, Or.inr hkl, ?_, ?_⟩
      · have := congrArg List.length hitems
        rw [sender_items_length, List.length_cons, List.length_drop, sender_items_length]
          at this
        omega
      · unfold sender_keys
        rw [hitems, List.map_cons, hk1, ← List.map_drop]
        have hlt2 : ((sender_items record).tail.takeWhile
            (fun s => decide (s.packet.seq < ack))).length < (sender_items record).length := by
          rw [sender_items_length]
          exact hkl
        rw [List.drop_eq_getElem_cons hlt2, List.map_cons]
        have := List.getElem?_eq_getElem hlt2
        rw [hs] at this
        rw [← Option.some.inj this]
    · refine ⟨record, [], 0, h1 ?_, hwf, rfl, rfl, Or.inl rfl, rfl, rfl⟩
      intro b hb
      rw [hh] at hb
      cases hb
      omega

/-! ### reordering_update: a data packet below the expected sequence number -/

theorem reordering_update_data_low (record : sender_record_t) (seq : Nat) (payload : Int)
    (time : ℚ) (ip_id : Nat) (rtt rto : ℚ) (hseq : seq < record.expected_seq) :
    reordering_update_data record seq payload time ip_id rtt rto
      = reordering_update_low record seq payload time ip_id rtt rto := by
  unfold reordering_update_data
  rw [if_neg (by omega), if_neg (by omega)]

theorem reordering_update_low_not_found (record : sender_record_t) (seq : Nat) (payload : Int)
    (time : ℚ) (ip_id : Nat) (rtt rto : ℚ) (h : sender_record_find record seq = .ok none) :
    reordering_update_low record seq payload time ip_id rtt rto
      = .ok (record, reordering_type_t.RETRANSMISSION, 2, 0) := by
  unfold reordering_update_low
  simp only [h]

theorem reordering_update_low_acked (record : sender_record_t) (seq : Nat) (payload : Int)
    (time : ℚ) (ip_id : Nat) (rtt rto : ℚ) (ref : packet_ref_t) (found : packet_record_t)
    (h : sender_record_find record seq = .ok (some ref))
    (hfound : packet_deref record ref = .ok found)
    (hacked : found.num_acks > 0 ∧ found.seq = seq) :
    reordering_update_low record seq payload time ip_id rtt rto
      = .ok (record, reordering_type_t.RETRANSMISSION, 3, time - found.time) := by
  unfold reordering_update_low
  simp only [h, hfound]
  rw [if_pos hacked]

theorem reordering_update_low_no_prev (record : sender_record_t) (seq : Nat) (payload : Int)
    (time : ℚ) (ip_id : Nat) (rtt rto : ℚ) (ref : packet_ref_t) (found : packet_record_t)
    (h : sender_record_find record seq = .ok (some ref))
    (hfound : packet_deref record ref = .ok found)
    (hacked : ¬ (found.num_acks > 0 ∧ found.seq = seq))
    (hprev : sender_record_find record ((seq + 4294967295) % 4294967296) = .ok none) :
    reordering_update_low record seq payload time ip_id rtt rto
      = .ok (record, reordering_type_t.RETRANSMISSION, 4, time - found.time) := by
  unfold reordering_update_low
  simp only [h, hfound, hprev]
  rw [if_neg hacked]

theorem reordering_update_seen_ip_id (ip_id : Nat) (p q : packet_record_t) (rtt rto lag : ℚ)
    (dup_acks in_recovery : Nat) (h : q.ip_id = p.ip_id) :
    reordering_update_seen ip_id q rtt rto lag dup_acks in_recovery
      = reordering_update_seen ip_id p rtt rto lag dup_acks in_recovery := by
  unfold reordering_update_seen
  rw [h]

/-- A segment seen before: the decision of lines 545-572, on a queue of the
same shape. -/
theorem reordering_update_low_seen (record : sender_record_t) (hwf : sender_wf record)
    (seq : Nat) (payload : Int) (time : ℚ) (ip_id : Nat) (rtt rto : ℚ)
    (ref prev_ref : packet_ref_t) (found prev : packet_record_t)
    (h : sender_record_find record seq = .ok (some ref))
    (hfound : packet_deref record ref = .ok found)
    (hacked : ¬ (found.num_acks > 0 ∧ found.seq = seq))
    (hprev : sender_record_find record ((seq + 4294967295) % 4294967296) = .ok (some prev_ref))
    (hprevd : packet_deref record prev_ref = .ok prev)
    (hreal : found.is_missing = false) :
    ∃ after : sender_record_t,
      reordering_update_low record seq payload time ip_id rtt rto
          = .ok (after,
              (reordering_update_seen ip_id found rtt rto (time - found.time) prev.num_acks
                record.in_recovery).1,
              (reordering_update_seen ip_id found rtt rto (time - found.time) prev.num_acks
                record.in_recovery).2.1,
              time - found.time)
        ∧ after.in_recovery
            = (reordering_update_seen ip_id found rtt rto (time - found.time) prev.num_acks
                record.in_recovery).2.2
        ∧ sender_wf after
        ∧ sender_keys after = sender_keys record
        ∧ after.expected_seq = record.expected_seq
        ∧ after.length = record.length := by
  obtain ⟨marked, refound, hm1, hm2, hm3, hm4, hm5, hm6, hm7, hm8⟩ :=
    reordering_update_mark_spec record hwf seq payload ref found
      (sender_record_find_valid record hwf seq ref h) hfound
  have hrun : reordering_update_low record seq payload time ip_id rtt rto
      = .ok ({ marked with
               in_recovery :=
                 (reordering_update_seen ip_id found rtt rto (time - found.time) prev.num_acks
                   record.in_recovery).2.2 },
              (reordering_update_seen ip_id found rtt rto (time - found.time) prev.num_acks
                record.in_recovery).1,
              (reordering_update_seen ip_id found rtt rto (time - found.time) prev.num_acks
                record.in_recovery).2.1,
              time - found.time) := by
    unfold reordering_update_low
    simp only [h, hfound, hprev, hprevd]
    rw [if_neg hacked, if_pos hreal]
    simp only [hm1, hm7, hm5, reordering_update_seen_ip_id ip_id found refound _ _ _ _ _ hm8]
  refine ⟨_, hrun, rfl, sender_wf_congr marked _ hm2 rfl rfl rfl rfl, ?_, hm4, hm6⟩
  rw [← hm3]
  unfold sender_keys
  exact congrArg _ (sender_items_congr marked _ rfl rfl rfl rfl)

/-- A segment that fills a gap: the decision of lines 602-623 after the step
of lines 578-600. -/
theorem reordering_update_low_missing (record spliced : sender_record_t)
    (seq : Nat) (payload : Int) (time : ℚ) (ip_id : Nat) (rtt rto : ℚ)
    (ref prev_ref : packet_ref_t) (found prev : packet_record_t)
    (h : sender_record_find record seq = .ok (some ref))
    (hfound : packet_deref record ref = .ok found)
    (hacked : ¬ (found.num_acks > 0 ∧ found.seq = seq))
    (hprev : sender_record_find record ((seq + 4294967295) % 4294967296) = .ok (some prev_ref))
    (hprevd : packet_deref record prev_ref = .ok prev)
    (hmissing : found.is_missing = true)
    (hsplice : reordering_update_splice record seq payload ref found = .ok spliced) :
    reordering_update_low record seq payload time ip_id rtt rto
      = .ok ({ spliced with
               in_recovery :=
                 (reordering_update_missing rtt rto (time - found.time) prev.num_acks
                   spliced.in_recovery).2.2 },
             (reordering_update_missing rtt rto (time - found.time) prev.num_acks
               spliced.in_recovery).1,
             (reordering_update_missing rtt rto (time - found.time) prev.num_acks
               spliced.in_recovery).2.1,
             time - found.time) := by
  unfold reordering_update_low
  simp only [h, hfound, hprev, hprevd]
  rw [if_neg hacked, if_neg (by rw [hmissing]; simp)]
  simp only [hsplice]

/-- The branch of a data packet below the expected sequence number returns on
a well-formed record and leaves the record well formed, with the same
expected sequence number and as many array elements in the queue. -/
theorem reordering_update_low_ok (record : sender_record_t) (hwf : sender_wf record)
    (seq : Nat) (payload : Int) (time : ℚ) (ip_id : Nat) (rtt rto : ℚ) :
    ∃ (after : sender_record_t) (type : reordering_type_t) (message : Nat) (lag : ℚ),
      reordering_update_low record seq payload time ip_id rtt rto
          = .ok (after, type, message, lag)
        ∧ sender_wf after
        ∧ after.expected_seq = record.expected_seq
        ∧ after.length = record.length := by
  obtain ⟨r, hr⟩ := sender_record_find_ok record hwf seq
  cases r with
  | none =>
    exact ⟨_, _, _, _, reordering_update_low_not_found record seq payload time ip_id rtt rto hr,
      hwf, rfl, rfl⟩
  | some ref =>
    have hv := sender_record_find_valid record hwf seq ref hr
    obtain ⟨found, hfound⟩ := packet_deref_valid record hwf ref hv
    by_cases hacked : found.num_acks > 0 ∧ found.seq = seq
    · exact ⟨_, _, _, _,
        reordering_update_low_acked record seq payload time ip_id rtt rto ref found hr hfound
          hacked, hwf, rfl, rfl⟩
    · obtain ⟨q, hq⟩ := sender_record_find_ok record hwf ((seq + 4294967295) % 4294967296)
      cases q with
      | none =>
        exact ⟨_, _, _, _,
          reordering_update_low_no_prev record seq payload time ip_id rtt rto ref found hr
            hfound hacked hq, hwf, rfl, rfl⟩
      | some prev_ref =>
        obtain ⟨prev, hprev⟩ := packet_deref_valid record hwf prev_ref
          (sender_record_find_valid record hwf _ prev_ref hq)
        cases hmiss : found.is_missing with
        | false =>
          obtain ⟨after, h1, _, h3, _, h5, h6⟩ := reordering_update_low_seen record hwf seq
            payload time ip_id rtt rto ref prev_ref found prev hr hfound hacked hq hprev hmiss
          exact ⟨_, _, _, _, h1, h3, h5, h6⟩
        | true =>
          obtain ⟨i, slot, hi1, hi2, hi3⟩ := hv
          obtain ⟨spliced, hs1, hs2, hs3, hs4, hs5, _⟩ := reordering_update_splice_spec record
            hwf seq payload found i ref.link slot hi1 hi3
          rw [← hi2] at hs1
          refine ⟨_, _, _, _,
            reordering_update_low_missing record spliced seq payload time ip_id rtt rto ref
              prev_ref found prev hr hfound hacked hq hprev hmiss hs1, ?_, hs3, hs5⟩
          exact sender_wf_congr spliced _ hs2 rfl rfl rfl rfl

/-! ### Claims on the decision for a data packet below the expected sequence number -/

/-- C23. Early exits of the past-segment case. For a data packet (payload
above 0, no SYN) with a sequence number below the expected one of its
direction, in a state whose sender records are well formed: (a) when
`sender_record_find` returns `NULL` the result is RETRANSMISSION with message
2 and time lag 0; (b) when the found record has `num_acks > 0` and the
sequence number of the packet the result is RETRANSMISSION with message 3;
(c) otherwise, when the lookup at `seq - 1` returns `NULL`, the result is
RETRANSMISSION with message 4. In all three cases `reordering_update` returns
and the sender record of the direction of the packet (recovery flag, expected
sequence number, queue) is the one before the call. -/
theorem early_exits_of_past_segment {σ : Type} (rtt_module : rtt_module_t σ)
    (r : reordering_t σ) (hwf : reordering_wf r) (packet : libtrace_packet_t)
    (ip : libtrace_ip) (tcp : libtrace_tcp) (rtt_data : σ)
    (hip : packet.ip = some ip) (htcp : packet.tcp = some tcp)
    (hd : packet.direction = 0 ∨ packet.direction = 1) (hsyn : tcp.syn = false)
    (hpayload : payload_length ip tcp > 0)
    (hmod : rtt_module.update r.rtt_data packet = .ok rtt_data)
    (hlow : ntohl tcp.seq < (r.record packet.direction).expected_seq) :
    (sender_record_find (r.record packet.direction) (ntohl tcp.seq) = .ok none →
      ∃ after : reordering_t σ,
        reordering_update rtt_module r packet = .ok after
          ∧ reordering_get_type after = reordering_type_t.RETRANSMISSION
          ∧ after.last_packet_message = 2
          ∧ reordering_get_time_lag after = 0
          ∧ after.record packet.direction = r.record packet.direction)
    ∧ (∀ (ref : packet_ref_t) (found : packet_record_t),
        sender_record_find (r.record packet.direction) (ntohl tcp.seq) = .ok (some ref) →
        packet_deref (r.record packet.direction) ref = .ok found →
        (found.num_acks > 0 ∧ found.seq = ntohl tcp.seq) →
        ∃ after : reordering_t σ,
          reordering_update rtt_module r packet = .ok after
            ∧ reordering_get_type after = reordering_type_t.RETRANSMISSION
            ∧ after.last_packet_message = 3
            ∧ after.record packet.direction = r.record packet.direction)
    ∧ (∀ (ref : packet_ref_t) (found : packet_record_t),
        sender_record_find (r.record packet.direction) (ntohl tcp.seq) = .ok (some ref) →
        packet_deref (r.record packet.direction) ref = .ok found →
        ¬ (found.num_acks > 0 ∧ found.seq = ntohl tcp.seq) →
        sender_record_find (r.record packet.direction)
          ((ntohl tcp.seq + 4294967295) % 4294967296) = .ok none →
        ∃ after : reordering_t σ,
          reordering_update rtt_module r packet = .ok after
            ∧ reordering_get_type after = reordering_type_t.RETRANSMISSION
            ∧ after.last_packet_message = 4
            ∧ after.record packet.direction = r.record packet.direction) := by
  obtain ⟨other, freed, _, hack, _⟩ := sender_record_ack_ok (r.record (1 - packet.direction))
    (reordering_wf_record r hwf _) (ntohl tcp.ack_seq)
  refine ⟨?_, ?_, ?_⟩
  · intro hfind
    obtain ⟨after, h1, h2, _, _, _, h6, h7, h8⟩ := reordering_update_nonsyn rtt_module r packet
      ip tcp rtt_data (r.record packet.direction) other reordering_type_t.RETRANSMISSION 2 0
      freed hip htcp hd hsyn hmod
      (by
        rw [if_pos hpayload, reordering_update_data_low _ _ _ _ _ _ _ hlow,
          reordering_update_low_not_found _ _ _ _ _ _ _ hfind])
      hack
    exact ⟨after, h1, h6, h7, h8, h2⟩
  · intro ref found hfind hfound hacked
    obtain ⟨after, h1, h2, _, _, _, h6, h7, _⟩ := reordering_update_nonsyn rtt_module r packet
      ip tcp rtt_data (r.record packet.direction) other reordering_type_t.RETRANSMISSION 3
      (trace_get_seconds packet - found.time) freed hip htcp hd hsyn hmod
      (by
        rw [if_pos hpayload, reordering_update_data_low _ _ _ _ _ _ _ hlow,
          reordering_update_low_acked _ _ _ _ _ _ _ ref found hfind hfound hacked])
      hack
    exact ⟨after, h1, h6, h7, h2⟩
  · intro ref found hfind hfound hacked hprev
    obtain ⟨after, h1, h2, _, _, _, h6, h7, _⟩ := reordering_update_nonsyn rtt_module r packet
      ip tcp rtt_data (r.record packet.direction) other reordering_type_t.RETRANSMISSION 4
      (trace_get_seconds packet - found.time) freed hip htcp hd hsyn hmod
      (by
        rw [if_pos hpayload, reordering_update_data_low _ _ _ _ _ _ _ hlow,
          reordering_update_low_no_prev _ _ _ _ _ _ _ ref found hfind hfound hacked hprev])
      hack
    exact ⟨after, h1, h6, h7, h2⟩

/-! ### reordering_update: what a successful call did -/

/-- A call of `reordering_update` that returns: the packet has both headers;
either its direction is out of range and nothing happened, or the RTT module
returned and the packet was a SYN or went through the data branch and
`sender_record_ack`. -/
theorem reordering_update_inv {σ : Type} (rtt_module : rtt_module_t σ) (r after : reordering_t σ)
    (packet : libtrace_packet_t) (h : reordering_update rtt_module r packet = .ok after) :
    ∃ (ip : libtrace_ip) (tcp : libtrace_tcp),
      packet.ip = some ip ∧ packet.tcp = some tcp
        ∧ (((packet.direction < 0 ∨ packet.direction > 1) ∧ after = r)
          ∨ ((packet.direction = 0 ∨ packet.direction = 1)
            ∧ ∃ rtt_data : σ, rtt_module.update r.rtt_data packet = .ok rtt_data
              ∧ (tcp.syn = true
                ∨ (tcp.syn = false
                  ∧ ∃ (own other : sender_record_t) (type : reordering_type_t) (message : Nat)
                      (lag : ℚ) (freed : List packet_record_t),
                      (if payload_length ip tcp > 0 then
                          reordering_update_data (r.record packet.direction) (ntohl tcp.seq)
                            (payload_length ip tcp) (trace_get_seconds packet) (ntohs ip.ip_id)
                            (reordering_update_rtt r.min_rtt (rtt_module.inside_rtt rtt_data)
                              (rtt_module.outside_rtt rtt_data)).1
                            (reordering_update_rtt r.min_rtt (rtt_module.inside_rtt rtt_data)
                              (rtt_module.outside_rtt rtt_data)).2.1
                        else .ok (r.record packet.direction, reordering_type_t.INORDER, 0, 0))
                          = .ok (own, type, message, lag)
                        ∧ sender_record_ack (r.record (1 - packet.direction))
                            (ntohl tcp.ack_seq) = .ok (other, freed))))) := by
  cases hip : packet.ip with
  | none =>
    unfold reordering_update at h
    simp only [hip] at h
    cases h
  | some ip =>
    cases htcp : packet.tcp with
    | none =>
      unfold reordering_update at h
      simp only [hip, htcp] at h
      cases h
    | some tcp =>
      refine ⟨ip, tcp, rfl, rfl, ?_⟩
      by_cases hdir : packet.direction < 0 ∨ packet.direction > 1
      · left
        unfold reordering_update at h
        simp only [hip, htcp, if_pos hdir] at h
        exact ⟨hdir, (Except.ok.inj h).symm⟩
      · right
        have hd : packet.direction = 0 ∨ packet.direction = 1 := by omega
        refine ⟨hd, ?_⟩
        cases hmod : rtt_module.update r.rtt_data packet with
        | error e =>
          unfold reordering_update at h
          simp only [hip, htcp, if_neg hdir, hmod] at h
          cases h
        | ok rtt_data =>
          refine ⟨rtt_data, rfl, ?_⟩
          cases hsyn : tcp.syn with
          | true => exact Or.inl rfl
          | false =>
            right
            refine ⟨rfl, ?_⟩
            cases hdata : (if payload_length ip tcp > 0 then
                reordering_update_data (r.record packet.direction) (ntohl tcp.seq)
                  (payload_length ip tcp) (trace_get_seconds packet) (ntohs ip.ip_id)
                  (reordering_update_rtt r.min_rtt (rtt_module.inside_rtt rtt_data)
                    (rtt_module.outside_rtt rtt_data)).1
                  (reordering_update_rtt r.min_rtt (rtt_module.inside_rtt rtt_data)
                    (rtt_module.outside_rtt rtt_data)).2.1
              else .ok (r.record packet.direction, reordering_type_t.INORDER, 0, 0)) with
            | error e =>
              exfalso
              unfold reordering_update at h
              simp only [hip, htcp, if_neg hdir, hmod, hsyn] at h
              by_cases hp : payload_length ip tcp > 0
              · rw [if_pos hp] at hdata
                rcases hd with hd | hd
                · rw [hd] at hdata
                  simp [hd, hp, reordering_t.record, reordering_t.set_record] at h hdata
                  rw [hdata] at h
                  simp at h
                · rw [hd] at hdata
                  simp [hd, hp, reordering_t.record, reordering_t.set_record] at h hdata
                  rw [hdata] at h
                  simp at h
              · rw [if_neg hp] at hdata
                cases hdata
            | ok res =>
              obtain ⟨own, type, message, lag⟩ := res
              cases hack : sender_record_ack (r.record (1 - packet.direction))
                  (ntohl tcp.ack_seq) with
              | error e =>
                exfalso
                unfold reordering_update at h
                simp only [hip, htcp, if_neg hdir, hmod, hsyn] at h
                by_cases hp : payload_length ip tcp > 0
                · rw [if_pos hp] at hdata
                  rcases hd with hd | hd
                  · rw [hd] at hdata hack
                    simp [hd, hp, reordering_t.record, reordering_t.set_record] at h hdata hack
                    rw [hdata] at h
                    simp [hack] at h
                  · rw [hd] at hdata hack
                    simp [hd, hp, reordering_t.record, reordering_t.set_record] at h hdata hack
                    rw [hdata] at h
                    simp [hack] at h
                · rcases hd with hd | hd
                  · rw [hd] at hack
                    simp [hd, hp, reordering_t.record, reordering_t.set_record] at h hack
                    simp [hack] at h
                  · rw [hd] at hack
                    simp [hd, hp, reordering_t.record, reordering_t.set_record] at h hack
                    simp [hack] at h
              | ok res2 =>
                obtain ⟨other, freed⟩ := res2
                exact ⟨own, other, type, message, lag, freed, rfl, rfl⟩

/-- A data packet at the expected sequence number when the queue holds 65520
records: `sender_record_add` writes beyond its new block. -/
theorem reordering_update_data_inorder_full (record : sender_record_t) (hwf : sender_wf record)
    (hfull : record.length = 65520) (seq : Nat) (payload : Int) (time : ℚ) (ip_id : Nat)
    (rtt rto : ℚ) (hseq : seq = record.expected_seq) :
    reordering_update_data record seq payload time ip_id rtt rto
      = .error fault.undefined_behaviour := by
  have hwf0 : sender_wf { record with in_recovery := 0 } :=
    sender_wf_congr record _ hwf rfl rfl rfl rfl
  unfold reordering_update_data
  rw [if_neg (by omega), if_pos hseq, sender_record_add_full _ hwf0 hfull]

/-- A data packet above the expected sequence number when the queue holds
65519 or 65520 records: one of the two calls of `sender_record_add` writes
beyond its new block. -/
theorem reordering_update_data_high_full (record : sender_record_t) (hwf : sender_wf record)
    (hfull : 65520 < record.length + 2) (seq : Nat) (payload : Int) (time : ℚ) (ip_id : Nat)
    (rtt rto : ℚ) (hseq : seq > record.expected_seq) :
    reordering_update_data record seq payload time ip_id rtt rto
      = .error fault.undefined_behaviour := by
  have h1 := hwf.length
  have h2 := hwf.bound
  by_cases h : record.length = 65520
  · unfold reordering_update_data
    rw [if_pos hseq, sender_record_add_full _ hwf h]
  · obtain ⟨a1, idx1, flag1, h1, hwf1, hitems1, hexp1, hrec1, hlen1, hidx1⟩ :=
      sender_record_add_spec record hwf (by omega) record.expected_seq time 0
    have hget1 : (sender_items a1)[record.length]? = some
        { packet := { seq := record.expected_seq, time := time, ip_id := 0, num_acks := 0,
                      is_missing := false, is_misaligned := flag1 }
          missing_link := [] } := by
      rw [hitems1, List.getElem?_append_right (by rw [sender_items_length]),
        sender_items_length, Nat.sub_self, List.getElem?_cons_zero]
    obtain ⟨a2, h2, hwf2, hitems2, hexp2, hrec2, hlen2, _, _⟩ :=
      packet_assign_items a1 hwf1 record.length 0 _ _ (fun p => { p with is_missing := true })
        hget1 rfl
    rw [← hidx1] at h2
    unfold reordering_update_data
    rw [if_pos hseq]
    simp only [h1, h2]
    rw [sender_record_add_full a2 hwf2 (by omega)]

/-- What a successful run of the data branch did, by the position of the
sequence number against the expected one. -/
theorem reordering_update_data_ok (record : sender_record_t) (hwf : sender_wf record)
    (seq : Nat) (payload : Int) (time : ℚ) (ip_id : Nat) (rtt rto : ℚ)
    (after : sender_record_t) (type : reordering_type_t) (message : Nat) (lag : ℚ)
    (h : reordering_update_data record seq payload time ip_id rtt rto
      = .ok (after, type, message, lag)) :
    sender_wf after
      ∧ ((seq > record.expected_seq ∧ record.length + 2 ≤ 65520
          ∧ type = reordering_type_t.HIGH ∧ message = 1 ∧ lag = 0
          ∧ after.expected_seq = uint32_add seq payload ∧ after.in_recovery = 0
          ∧ ∃ flag1 flag2 : Bool,
              sender_items after
                = sender_items record
                    ++ [{ packet := { seq := record.expected_seq, time := time, ip_id := 0,
                                      num_acks := 0, is_missing := true,
                                      is_misaligned := flag1 }
                          missing_link := [] },
                        { packet := { seq := seq, time := time, ip_id := ip_id, num_acks := 0,
                                      is_missing := false, is_misaligned := flag2 }
                          missing_link := [] }])
        ∨ (seq = record.expected_seq ∧ record.length + 1 ≤ 65520
          ∧ type = reordering_type_t.INORDER ∧ message = 0 ∧ lag = 0
          ∧ after.expected_seq = uint32_add record.expected_seq payload
          ∧ after.in_recovery = 0
          ∧ ∃ flag : Bool,
              sender_items after
                = sender_items record
                    ++ [{ packet := { seq := seq, time := time, ip_id := ip_id, num_acks := 0,
                                      is_missing := false, is_misaligned := flag }
                          missing_link := [] }])
        ∨ (seq < record.expected_seq
          ∧ reordering_update_low record seq payload time ip_id rtt rto
              = .ok (after, type, message, lag)
          ∧ after.expected_seq = record.expected_seq
          ∧ after.length = record.length)) := by
  rcases Nat.lt_trichotomy seq record.expected_seq with hlt | heq | hgt
  · rw [reordering_update_data_low _ _ _ _ _ _ _ hlt] at h
    obtain ⟨a, t, m, l, h1, h2, h3, h4⟩ :=
      reordering_update_low_ok record hwf seq payload time ip_id rtt rto
    rw [h] at h1
    cases h1
    exact ⟨h2, Or.inr (Or.inr ⟨hlt, h, h3, h4⟩)⟩
  · by_cases hroom : record.length + 1 ≤ 65520
    · obtain ⟨a, flag, h1, h2, h3, h4, h5, _⟩ := reordering_update_data_inorder record hwf
        hroom seq payload time ip_id rtt rto heq
      rw [h] at h1
      cases h1
      exact ⟨h2, Or.inr (Or.inl ⟨heq, hroom, rfl, rfl, rfl, h4, h5, flag, h3⟩)⟩
    · have h1 := hwf.length
      have h2 := hwf.bound
      rw [reordering_update_data_inorder_full record hwf (by omega) seq payload time ip_id rtt
        rto heq] at h
      cases h
  · by_cases hroom : record.length + 2 ≤ 65520
    · obtain ⟨a, flag1, flag2, h1, h2, h3, h4, h5, _⟩ := reordering_update_data_high record
        hwf hroom seq payload time ip_id rtt rto hgt
      rw [h] at h1
      cases h1
      exact ⟨h2, Or.inl ⟨hgt, hroom, rfl, rfl, rfl, h4, h5, flag1, flag2, h3⟩⟩
    · rw [reordering_update_data_high_full record hwf (by omega) seq payload time ip_id rtt
        rto hgt] at h
      cases h

/-- A successful call of `reordering_update` leaves both sender records well
formed. -/
theorem reordering_update_wf {σ : Type} (rtt_module : rtt_module_t σ) (r after : reordering_t σ)
    (hwf : reordering_wf r) (packet : libtrace_packet_t)
    (h : reordering_update rtt_module r packet = .ok after) : reordering_wf after := by
  obtain ⟨ip, tcp, hip, htcp, hcase⟩ := reordering_update_inv rtt_module r after packet h
  rcases hcase with ⟨_, hsame⟩ | ⟨hd, rtt_data, hmod, hsyn | ⟨hsyn, hrest⟩⟩
  · rw [hsame]
    exact hwf
  · obtain ⟨a, h1, h2, h3, _⟩ :=
      reordering_update_syn rtt_module r packet ip tcp rtt_data hip htcp hd hsyn hmod
    rw [h] at h1
    cases h1
    have hown : sender_wf (after.record packet.direction) := by
      rw [h2]
      exact sender_wf_congr _ _ (reordering_wf_record r hwf _) rfl rfl rfl rfl
    have hother : sender_wf (after.record (1 - packet.direction)) := by
      rw [h3]
      exact reordering_wf_record r hwf _
    rcases hd with hd | hd
    · rw [hd] at hown hother
      exact ⟨hown, hother⟩
    · rw [hd] at hown hother
      exact ⟨hother, hown⟩
  · obtain ⟨own, other, type, message, lag, freed, hdata, hack⟩ := hrest
    obtain ⟨a, h1, h2, h3, _⟩ := reordering_update_nonsyn rtt_module r packet ip tcp rtt_data
      own other type message lag freed hip htcp hd hsyn hmod hdata hack
    rw [h] at h1
    cases h1
    have hown : sender_wf (after.record packet.direction) := by
      rw [h2]
      by_cases hp : payload_length ip tcp > 0
      · rw [if_pos hp] at hdata
        exact (reordering_update_data_ok _ (reordering_wf_record r hwf _) _ _ _ _ _ _ _ _ _ _
          hdata).1
      · rw [if_neg hp] at hdata
        cases hdata
        exact reordering_wf_record r hwf _
    have hother : sender_wf (after.record (1 - packet.direction)) := by
      rw [h3]
      obtain ⟨a, f, k, h4, h5, _⟩ := sender_record_ack_ok (r.record (1 - packet.direction))
        (reordering_wf_record r hwf _) (ntohl tcp.ack_seq)
      rw [hack] at h4
      cases h4
      exact h5
    rcases hd with hd | hd
    · rw [hd] at hown hother
      exact ⟨hown, hother⟩
    · rw [hd] at hown hother
      exact ⟨hother, hown⟩

theorem reordering_run_wf {σ : Type} (rtt_module : rtt_module_t σ) :
    ∀ (trace : List libtrace_packet_t) (r after : reordering_t σ), reordering_wf r →
      reordering_run rtt_module r trace = .ok after → reordering_wf after := by
  intro trace
  induction trace with
  | nil =>
    intro r after hwf h
    cases h
    exact hwf
  | cons packet rest ih =>
    intro r after hwf h
    unfold reordering_run at h
    cases h1 : reordering_update rtt_module r packet with
    | error e =>
      rw [h1] at h
      cases h
    | ok r1 =>
      rw [h1] at h
      exact ih r1 after (reordering_update_wf rtt_module r r1 hwf packet h1) h

/-- C21. Classifier decision for a previously seen real segment. For a data
packet (payload above 0, no SYN) with a sequence number below the expected one
of its direction, in a state whose sender records are well formed, when the
record that `sender_record_find` returns is not a placeholder, is not already
acknowledged and the lookup at `seq - 1` returns a record `prev`:
`reordering_update` returns, the time lag that `reordering_get_time_lag`
reports is the capture time minus the time of the found record, and the
result is the first matching case of: IP identification different,
RETRANSMISSION 5 and recovery set; `rto` present and time lag above it,
RETRANSMISSION 6 and recovery set; `prev.num_acks >= 3`, RETRANSMISSION 7 and
recovery set; recovery already set, RETRANSMISSION 8; `rtt` present and time
lag below it, NETWORK_DUPLICATE 9; otherwise UNKNOWN 10 (in the last three
cases the recovery flag stays as it is). -/
theorem seen_segment_decision {σ : Type} (rtt_module : rtt_module_t σ)
    (r : reordering_t σ) (hwf : reordering_wf r) (packet : libtrace_packet_t)
    (ip : libtrace_ip) (tcp : libtrace_tcp) (rtt_data : σ)
    (ref prev_ref : packet_ref_t) (found prev : packet_record_t)
    (hip : packet.ip = some ip) (htcp : packet.tcp = some tcp)
    (hd : packet.direction = 0 ∨ packet.direction = 1) (hsyn : tcp.syn = false)
    (hpayload : payload_length ip tcp > 0)
    (hmod : rtt_module.update r.rtt_data packet = .ok rtt_data)
    (hlow : ntohl tcp.seq < (r.record packet.direction).expected_seq)
    (hfind : sender_record_find (r.record packet.direction) (ntohl tcp.seq) = .ok (some ref))
    (hfound : packet_deref (r.record packet.direction) ref = .ok found)
    (hreal : found.is_missing = false)
    (hacked : ¬ (found.num_acks > 0 ∧ found.seq = ntohl tcp.seq))
    (hprev : sender_record_find (r.record packet.direction)
      ((ntohl tcp.seq + 4294967295) % 4294967296) = .ok (some prev_ref))
    (hprevd : packet_deref (r.record packet.direction) prev_ref = .ok prev) :
    ∃ after : reordering_t σ,
      reordering_update rtt_module r packet = .ok after
        ∧ reordering_get_time_lag after = trace_get_seconds packet - found.time
        ∧ (if ntohs ip.ip_id ≠ found.ip_id then
            reordering_get_type after = reordering_type_t.RETRANSMISSION
              ∧ after.last_packet_message = 5
              ∧ (after.record packet.direction).in_recovery = 1
          else if reordering_rto rtt_module r.min_rtt rtt_data ≥ 0
              ∧ trace_get_seconds packet - found.time
                  > reordering_rto rtt_module r.min_rtt rtt_data then
            reordering_get_type after = reordering_type_t.RETRANSMISSION
              ∧ after.last_packet_message = 6
              ∧ (after.record packet.direction).in_recovery = 1
          else if prev.num_acks ≥ 3 then
            reordering_get_type after = reordering_type_t.RETRANSMISSION
              ∧ after.last_packet_message = 7
              ∧ (after.record packet.direction).in_recovery = 1
          else if (r.record packet.direction).in_recovery ≠ 0 then
            reordering_get_type after = reordering_type_t.RETRANSMISSION
              ∧ after.last_packet_message = 8
              ∧ (after.record packet.direction).in_recovery
                  = (r.record packet.direction).in_recovery
          else if reordering_rtt rtt_module r.min_rtt rtt_data ≥ 0
              ∧ trace_get_seconds packet - found.time
                  < reordering_rtt rtt_module r.min_rtt rtt_data then
            reordering_get_type after = reordering_type_t.NETWORK_DUPLICATE
              ∧ after.last_packet_message = 9
              ∧ (after.record packet.direction).in_recovery
                  = (r.record packet.direction).in_recovery
          else
            reordering_get_type after = reordering_type_t.UNKNOWN
              ∧ after.last_packet_message = 10
              ∧ (after.record packet.direction).in_recovery
                  = (r.record packet.direction).in_recovery) := by
  obtain ⟨other, freed, _, hack, _⟩ := sender_record_ack_ok (r.record (1 - packet.direction))
    (reordering_wf_record r hwf _) (ntohl tcp.ack_seq)
  obtain ⟨own, hl1, hl2, _⟩ := reordering_update_low_seen (r.record packet.direction)
    (reordering_wf_record r hwf _) (ntohl tcp.seq) (payload_length ip tcp)
    (trace_get_seconds packet) (ntohs ip.ip_id)
    (reordering_rtt rtt_module r.min_rtt rtt_data) (reordering_rto rtt_module r.min_rtt rtt_data)
    ref prev_ref found prev hfind hfound hacked hprev hprevd hreal
  obtain ⟨after, h1, h2, _, _, _, h6, h7, h8⟩ := reordering_update_nonsyn rtt_module r packet
    ip tcp rtt_data own other _ _ _ freed hip htcp hd hsyn hmod
    (by
      rw [if_pos hpayload, reordering_update_data_low _ _ _ _ _ _ _ hlow]
      exact hl1)
    hack
  refine ⟨after, h1, h8, ?_⟩
  rw [h2, hl2]
  unfold reordering_get_type
  rw [h6, h7]
  unfold reordering_update_seen
  split_ifs <;> exact ⟨rfl, rfl, rfl⟩

/-- C22. Classifier decision for a segment that fills a gap. For a data packet
(payload above 0, no SYN) with a sequence number below the expected one of its
direction, in a state whose sender records are well formed, when the record
that `sender_record_find` returns is a placeholder, is not already
acknowledged and the lookup at `seq - 1` returns a record `prev`:
`reordering_update` returns, the time lag is the capture time minus the time
of the placeholder, and the result is the first matching case of:
`prev.num_acks >= 3`, RETRANSMISSION 7 and recovery set; `rto` present and
time lag above it, RETRANSMISSION 6 and recovery set; recovery already set,
RETRANSMISSION 8; `rtt` present and time lag below it, NETWORK_REORDERING 11;
otherwise UNKNOWN 10 (in the last three cases the recovery flag stays as it
is). -/
theorem gap_segment_decision {σ : Type} (rtt_module : rtt_module_t σ)
    (r : reordering_t σ) (hwf : reordering_wf r) (packet : libtrace_packet_t)
    (ip : libtrace_ip) (tcp : libtrace_tcp) (rtt_data : σ)
    (ref prev_ref : packet_ref_t) (found prev : packet_record_t)
    (hip : packet.ip = some ip) (htcp : packet.tcp = some tcp)
    (hd : packet.direction = 0 ∨ packet.direction = 1) (hsyn : tcp.syn = false)
    (hpayload : payload_length ip tcp > 0)
    (hmod : rtt_module.update r.rtt_data packet = .ok rtt_data)
    (hlow : ntohl tcp.seq < (r.record packet.direction).expected_seq)
    (hfind : sender_record_find (r.record packet.direction) (ntohl tcp.seq) = .ok (some ref))
    (hfound : packet_deref (r.record packet.direction) ref = .ok found)
    (hmissing : found.is_missing = true)
    (hacked : ¬ (found.num_acks > 0 ∧ found.seq = ntohl tcp.seq))
    (hprev : sender_record_find (r.record packet.direction)
      ((ntohl tcp.seq + 4294967295) % 4294967296) = .ok (some prev_ref))
    (hprevd : packet_deref (r.record packet.direction) prev_ref = .ok prev) :
    ∃ after : reordering_t σ,
      reordering_update rtt_module r packet = .ok after
        ∧ reordering_get_time_lag after = trace_get_seconds packet - found.time
        ∧ (if prev.num_acks ≥ 3 then
            reordering_get_type after = reordering_type_t.RETRANSMISSION
              ∧ after.last_packet_message = 7
              ∧ (after.record packet.direction).in_recovery = 1
          else if reordering_rto rtt_module r.min_rtt rtt_data ≥ 0
              ∧ trace_get_seconds packet - found.time
                  > reordering_rto rtt_module r.min_rtt rtt_data then
            reordering_get_type after = reordering_type_t.RETRANSMISSION
              ∧ after.last_packet_message = 6
              ∧ (after.record packet.direction).in_recovery = 1
          else if (r.record packet.direction).in_recovery ≠ 0 then
            reordering_get_type after = reordering_type_t.RETRANSMISSION
              ∧ after.last_packet_message = 8
              ∧ (after.record packet.direction).in_recovery
                  = (r.record packet.direction).in_recovery
          else if reordering_rtt rtt_module r.min_rtt rtt_data ≥ 0
              ∧ trace_get_seconds packet - found.time
                  < reordering_rtt rtt_module r.min_rtt rtt_data then
            reordering_get_type after = reordering_type_t.NETWORK_REORDERING
              ∧ after.last_packet_message = 11
              ∧ (after.record packet.direction).in_recovery
                  = (r.record packet.direction).in_recovery
          else
            reordering_get_type after = reordering_type_t.UNKNOWN
              ∧ after.last_packet_message = 10
              ∧ (after.record packet.direction).in_recovery
                  = (r.record packet.direction).in_recovery) := by
  obtain ⟨other, freed, _, hack, _⟩ := sender_record_ack_ok (r.record (1 - packet.direction))
    (reordering_wf_record r hwf _) (ntohl tcp.ack_seq)
  obtain ⟨i, slot, hi1, hi2, hi3⟩ := sender_record_find_valid (r.record packet.direction)
    (reordering_wf_record r hwf _) (ntohl tcp.seq) ref hfind
  obtain ⟨spliced, hs1, _, _, hs4, _⟩ := reordering_update_splice_spec
    (r.record packet.direction) (reordering_wf_record r hwf _) (ntohl tcp.seq)
    (payload_length ip tcp) found i ref.link slot hi1 hi3
  rw [← hi2] at hs1
  have hl1 := reordering_update_low_missing (r.record packet.direction) spliced
    (ntohl tcp.seq) (payload_length ip tcp) (trace_get_seconds packet) (ntohs ip.ip_id)
    (reordering_rtt rtt_module r.min_rtt rtt_data) (reordering_rto rtt_module r.min_rtt rtt_data)
    ref prev_ref found prev hfind hfound hacked hprev hprevd hmissing hs1
  obtain ⟨after, h1, h2, _, _, _, h6, h7, h8⟩ := reordering_update_nonsyn rtt_module r packet
    ip tcp rtt_data _ other _ _ _ freed hip htcp hd hsyn hmod
    (by
      rw [if_pos hpayload, reordering_update_data_low _ _ _ _ _ _ _ hlow]
      exact hl1)
    hack
  refine ⟨after, h1, h8, ?_⟩
  rw [h2]
  unfold reordering_get_type
  rw [h6, h7, hs4]
  unfold reordering_update_missing
  split_ifs <;> exact ⟨rfl, rfl, rfl⟩

theorem classifier_after_wf {σ : Type} (rtt_module : rtt_module_t σ)
    (trace : List libtrace_packet_t) : reordering_wf (classifier_after rtt_module trace) := by
  unfold classifier_after
  cases h : reordering_run rtt_module (reordering_create rtt_module) trace with
  | error e => exact reordering_wf_create rtt_module
  | ok r => exact reordering_run_wf rtt_module trace _ r (reordering_wf_create rtt_module) h

/-- C21, witness: after the handshake and two segments the second segment
arrives again, with the same IP identification, an eighth of a second after
its first copy; the RTT of the handshake is a quarter of a second, so that
`rtt` is 0.225 s, and the copy is a network duplicate with message 9. -/
theorem seen_segment_decision_witness :
    sender_record_find ((classifier_after rtt_handshake_rtt_module two_segments).record 0) 101
        = .ok (some { idx := 1, link := 0 })
      ∧ packet_deref ((classifier_after rtt_handshake_rtt_module two_segments).record 0)
          { idx := 1, link := 0 }
        = .ok { seq := 101, time := 3 / 2, ip_id := 4, num_acks := 0, is_missing := false,
                is_misaligned := false }
      ∧ ∃ after : reordering_t rtt_handshake_record_t,
          reordering_update rtt_handshake_rtt_module
              (classifier_after rtt_handshake_rtt_module two_segments)
              (tcp_segment (eighths 13) 0 4 101 5001 100 false true) = .ok after
            ∧ reordering_get_type after = reordering_type_t.NETWORK_DUPLICATE
            ∧ after.last_packet_message = 9
            ∧ reordering_get_time_lag after = 1 / 8 := by
  have hfind : sender_record_find
      ((classifier_after rtt_handshake_rtt_module two_segments).record 0) 101
      = .ok (some { idx := 1, link := 0 }) := by decide!
  have hfound : packet_deref ((classifier_after rtt_handshake_rtt_module two_segments).record 0)
      { idx := 1, link := 0 }
      = .ok { seq := 101, time := 3 / 2, ip_id := 4, num_acks := 0, is_missing := false,
              is_misaligned := false } := by decide!
  obtain ⟨after, h1, h2, h3⟩ := seen_segment_decision rtt_handshake_rtt_module
    (classifier_after rtt_handshake_rtt_module two_segments)
    (classifier_after_wf _ _) (tcp_segment (eighths 13) 0 4 101 5001 100 false true) _ _ _
    { idx := 1, link := 0 } { idx := 0, link := 0 }
    { seq := 101, time := 3 / 2, ip_id := 4, num_acks := 0, is_missing := false,
      is_misaligned := false }
    { seq := 1, time := 11 / 8, ip_id := 3, num_acks := 0, is_missing := false,
      is_misaligned := false }
    rfl rfl (Or.inl rfl) rfl (by decide!) rfl (by decide!) hfind hfound rfl (by decide!)
    (by decide!) (by decide!)
  rw [if_neg (by decide!), if_neg (by decide!), if_neg (by decide!), if_neg (by decide!),
    if_pos (by decide!)] at h3
  refine ⟨hfind, hfound, after, h1, h3.1, h3.2.1, ?_⟩
  rw [h2]
  decide!

/-- C22, witness: after the handshake, a segment at sequence number 1 and one
at 201, the missing segment at 101 arrives an eighth of a second after the
gap was seen; `rtt` is 0.225 s, and the segment counts as reordered by the
network, message 11. -/
theorem gap_segment_decision_witness :
    sender_record_find ((classifier_after rtt_handshake_rtt_module segment_missing).record 0) 101
        = .ok (some { idx := 1, link := 0 })
      ∧ packet_deref ((classifier_after rtt_handshake_rtt_module segment_missing).record 0)
          { idx := 1, link := 0 }
        = .ok { seq := 101, time := 3 / 2, ip_id := 0, num_acks := 0, is_missing := true,
                is_misaligned := false }
      ∧ ∃ after : reordering_t rtt_handshake_record_t,
          reordering_update rtt_handshake_rtt_module
              (classifier_after rtt_handshake_rtt_module segment_missing)
              (tcp_segment (eighths 13) 0 4 101 5001 100 false true) = .ok after
            ∧ reordering_get_type after = reordering_type_t.NETWORK_REORDERING
            ∧ after.last_packet_message = 11
            ∧ reordering_get_time_lag after = 1 / 8 := by
  have hfind : sender_record_find
      ((classifier_after rtt_handshake_rtt_module segment_missing).record 0) 101
      = .ok (some { idx := 1, link := 0 }) := by decide!
  have hfound : packet_deref
      ((classifier_after rtt_handshake_rtt_module segment_missing).record 0)
      { idx := 1, link := 0 }
      = .ok { seq := 101, time := 3 / 2, ip_id := 0, num_acks := 0, is_missing := true,
              is_misaligned := false } := by decide!
  obtain ⟨after, h1, h2, h3⟩ := gap_segment_decision rtt_handshake_rtt_module
    (classifier_after rtt_handshake_rtt_module segment_missing)
    (classifier_after_wf _ _) (tcp_segment (eighths 13) 0 4 101 5001 100 false true) _ _ _
    { idx := 1, link := 0 } { idx := 0, link := 0 }
    { seq := 101, time := 3 / 2, ip_id := 0, num_acks := 0, is_missing := true,
      is_misaligned := false }
    { seq := 1, time := 11 / 8, ip_id := 3, num_acks := 0, is_missing := false,
      is_misaligned := false }
    rfl rfl (Or.inl rfl) rfl (by decide!) rfl (by decide!) hfind hfound rfl (by decide!)
    (by decide!) (by decide!)
  rw [if_neg (by decide!), if_neg (by decide!), if_neg (by decide!), if_pos (by decide!)] at h3
  refine ⟨hfind, hfound, after, h1, h3.1, h3.2.1, ?_⟩
  rw [h2]
  decide!

/-- C23, witness. After the handshake, two segments and an ACK for both, the
queue of A holds the record of the second segment: a copy of the first
segment finds no record (message 2) and a copy of the second one finds it
acknowledged (message 3). Before the ACK, a copy of the first segment finds
its record but none at `seq - 1` (message 4). The sender record of A is not
changed by any of the three. -/
theorem early_exits_of_past_segment_witness :
    (∃ after : reordering_t rtt_handshake_record_t,
      reordering_update rtt_handshake_rtt_module
          (classifier_after rtt_handshake_rtt_module two_segments_acked)
          (tcp_segment (eighths 14) 0 3 1 5001 100 false true) = .ok after
        ∧ reordering_get_type after = reordering_type_t.RETRANSMISSION
        ∧ after.last_packet_message = 2
        ∧ reordering_get_time_lag after = 0
        ∧ after.record 0
            = (classifier_after rtt_handshake_rtt_module two_segments_acked).record 0)
    ∧ (∃ after : reordering_t rtt_handshake_record_t,
      reordering_update rtt_handshake_rtt_module
          (classifier_after rtt_handshake_rtt_module two_segments_acked)
          (tcp_segment (eighths 14) 0 4 101 5001 100 false true) = .ok after
        ∧ reordering_get_type after = reordering_type_t.RETRANSMISSION
        ∧ after.last_packet_message = 3
        ∧ after.record 0
            = (classifier_after rtt_handshake_rtt_module two_segments_acked).record 0)
    ∧ ∃ after : reordering_t rtt_handshake_record_t,
      reordering_update rtt_handshake_rtt_module
          (classifier_after rtt_handshake_rtt_module two_segments)
          (tcp_segment (eighths 14) 0 3 1 5001 100 false true) = .ok after
        ∧ reordering_get_type after = reordering_type_t.RETRANSMISSION
        ∧ after.last_packet_message = 4
        ∧ after.record 0 = (classifier_after rtt_handshake_rtt_module two_segments).record 0 := by
  refine ⟨?_, ?_, ?_⟩
  · exact (early_exits_of_past_segment rtt_handshake_rtt_module
      (classifier_after rtt_handshake_rtt_module two_segments_acked) (classifier_after_wf _ _)
      (tcp_segment (eighths 14) 0 3 1 5001 100 false true) _ _ _ rfl rfl (Or.inl rfl) rfl
      (by decide!) rfl (by decide!)).1 (by decide!)
  · exact (early_exits_of_past_segment rtt_handshake_rtt_module
      (classifier_after rtt_handshake_rtt_module two_segments_acked) (classifier_after_wf _ _)
      (tcp_segment (eighths 14) 0 4 101 5001 100 false true) _ _ _ rfl rfl (Or.inl rfl) rfl
      (by decide!) rfl (by decide!)).2.1 { idx := 1, link := 0 }
      { seq := 101, time := 3 / 2, ip_id := 4, num_acks := 1, is_missing := false,
        is_misaligned := false } (by decide!) (by decide!) (by decide!)
  · exact (early_exits_of_past_segment rtt_handshake_rtt_module
      (classifier_after rtt_handshake_rtt_module two_segments) (classifier_after_wf _ _)
      (tcp_segment (eighths 14) 0 3 1 5001 100 false true) _ _ _ rfl rfl (Or.inl rfl) rfl
      (by decide!) rfl (by decide!)).2.2 { idx := 0, link := 0 }
      { seq := 1, time := 11 / 8, ip_id := 3, num_acks := 0, is_missing := false,
        is_misaligned := false } (by decide!) (by decide!) (by decide!) (by decide!)

/-! ### reordering_update returns -/

/-- The data branch returns on a well-formed record that holds at most 65518
records. -/
theorem reordering_update_data_returns (record : sender_record_t) (hwf : sender_wf record)
    (hroom : record.length + 2 ≤ 65520) (seq : Nat) (payload : Int) (time : ℚ) (ip_id : Nat)
    (rtt rto : ℚ) :
    ∃ (after : sender_record_t) (type : reordering_type_t) (message : Nat) (lag : ℚ),
      reordering_update_data record seq payload time ip_id rtt rto
        = .ok (after, type, message, lag) := by
  rcases Nat.lt_trichotomy seq record.expected_seq with hlt | heq | hgt
  · rw [reordering_update_data_low _ _ _ _ _ _ _ hlt]
    obtain ⟨a, t, m, l, h, _⟩ :=
      reordering_update_low_ok record hwf seq payload time ip_id rtt rto
    exact ⟨a, t, m, l, h⟩
  · obtain ⟨a, _, h, _⟩ := reordering_update_data_inorder record hwf (by omega) seq payload
      time ip_id rtt rto heq
    exact ⟨a, _, _, _, h⟩
  · obtain ⟨a, _, _, h, _⟩ := reordering_update_data_high record hwf hroom seq payload time
      ip_id rtt rto hgt
    exact ⟨a, _, _, _, h⟩

/-- Function `reordering_update` returns for a packet with both headers when
the RTT module returns, the sender records are well formed and the queue of
the direction of the packet holds at most 65518 records. -/
theorem reordering_update_returns {σ : Type} (rtt_module : rtt_module_t σ) (r : reordering_t σ)
    (hwf : reordering_wf r) (packet : libtrace_packet_t) (ip : libtrace_ip) (tcp : libtrace_tcp)
    (rtt_data : σ) (hip : packet.ip = some ip) (htcp : packet.tcp = some tcp)
    (hmod : rtt_module.update r.rtt_data packet = .ok rtt_data)
    (hroom : (r.record packet.direction).length + 2 ≤ 65520) :
    ∃ after : reordering_t σ, reordering_update rtt_module r packet = .ok after := by
  by_cases hdir : packet.direction < 0 ∨ packet.direction > 1
  · refine ⟨r, ?_⟩
    unfold reordering_update
    simp only [hip, htcp, if_pos hdir]
  · have hd : packet.direction = 0 ∨ packet.direction = 1 := by omega
    cases hsyn : tcp.syn with
    | true =>
      obtain ⟨a, h, _⟩ :=
        reordering_update_syn rtt_module r packet ip tcp rtt_data hip htcp hd hsyn hmod
      exact ⟨a, h⟩
    | false =>
      obtain ⟨other, freed, _, hack, _⟩ := sender_record_ack_ok
        (r.record (1 - packet.direction)) (reordering_wf_record r hwf _) (ntohl tcp.ack_seq)
      by_cases hp : payload_length ip tcp > 0
      · obtain ⟨own, type, message, lag, hdata⟩ := reordering_update_data_returns
          (r.record packet.direction) (reordering_wf_record r hwf _) hroom (ntohl tcp.seq)
          (payload_length ip tcp) (trace_get_seconds packet) (ntohs ip.ip_id)
          (reordering_update_rtt r.min_rtt (rtt_module.inside_rtt rtt_data)
            (rtt_module.outside_rtt rtt_data)).1
          (reordering_update_rtt r.min_rtt (rtt_module.inside_rtt rtt_data)
            (rtt_module.outside_rtt rtt_data)).2.1
        obtain ⟨a, h, _⟩ := reordering_update_nonsyn rtt_module r packet ip tcp rtt_data own
          other type message lag freed hip htcp hd hsyn hmod (by rw [if_pos hp]; exact hdata)
          hack
        exact ⟨a, h⟩
      · obtain ⟨a, h, _⟩ := reordering_update_nonsyn rtt_module r packet ip tcp rtt_data
          (r.record packet.direction) other reordering_type_t.INORDER 0 0 freed hip htcp hd
          hsyn hmod (by rw [if_neg hp]) hack
        exact ⟨a, h⟩

/-! ### Claims on the acknowledgement -/

/-- C26, as the code has it. For every packet without SYN and with a
direction 0 or 1, whatever its payload and its other flags, in a state whose
sender records are well formed: `reordering_update` returns when the queue of
the direction of the packet holds at most 65518 records, and whenever it
returns, the sender record of the other direction is the result of
`sender_record_ack` on that record with the acknowledgement number of the
packet. -/
theorem packet_without_syn_acknowledges {σ : Type} (rtt_module : rtt_module_t σ)
    (r : reordering_t σ) (hwf : reordering_wf r) (packet : libtrace_packet_t)
    (ip : libtrace_ip) (tcp : libtrace_tcp) (rtt_data : σ)
    (hip : packet.ip = some ip) (htcp : packet.tcp = some tcp)
    (hd : packet.direction = 0 ∨ packet.direction = 1) (hsyn : tcp.syn = false)
    (hmod : rtt_module.update r.rtt_data packet = .ok rtt_data) :
    ((r.record packet.direction).length + 2 ≤ 65520 →
      ∃ after : reordering_t σ, reordering_update rtt_module r packet = .ok after)
    ∧ ∀ after : reordering_t σ, reordering_update rtt_module r packet = .ok after →
        ∃ freed : List packet_record_t,
          sender_record_ack (r.record (1 - packet.direction)) (ntohl tcp.ack_seq)
            = .ok (after.record (1 - packet.direction), freed) := by
  refine ⟨reordering_update_returns rtt_module r hwf packet ip tcp rtt_data hip htcp hmod, ?_⟩
  intro after h
  obtain ⟨ip2, tcp2, hip2, htcp2, hcase⟩ := reordering_update_inv rtt_module r after packet h
  rw [hip] at hip2
  rw [htcp] at htcp2
  cases hip2
  cases htcp2
  rcases hcase with ⟨hbad, _⟩ | ⟨_, rtt_data2, hmod2, hsyn2 | ⟨_, hrest⟩⟩
  · omega
  · rw [hsyn] at hsyn2
    cases hsyn2
  · obtain ⟨own, other, type, message, lag, freed, hdata, hack⟩ := hrest
    obtain ⟨a, h1, _, h3, _⟩ := reordering_update_nonsyn rtt_module r packet ip tcp rtt_data2
      own other type message lag freed hip htcp hd hsyn hmod2 hdata hack
    rw [h] at h1
    cases h1
    exact ⟨freed, by rw [h3]; exact hack⟩

/-- C26, witness: after the handshake and two segments of A, the ACK of B for
both makes the record of the second segment the bottom of the queue of A,
with one acknowledgement counted. -/
theorem packet_without_syn_acknowledges_witness :
    ∃ after : reordering_t rtt_handshake_record_t,
      reordering_update rtt_handshake_rtt_module
          (classifier_after rtt_handshake_rtt_module two_segments)
          (tcp_segment (eighths 13) 1 2 5001 201 0 false true) = .ok after
        ∧ (sender_record_ack ((classifier_after rtt_handshake_rtt_module two_segments).record 0)
            201).map Prod.fst = .ok (after.record 0)
        ∧ (sender_items (after.record 0)).map (fun s => (s.packet.seq, s.packet.num_acks))
            = [(101, 1)] := by
  have h := packet_without_syn_acknowledges rtt_handshake_rtt_module
    (classifier_after rtt_handshake_rtt_module two_segments) (classifier_after_wf _ _)
    (tcp_segment (eighths 13) 1 2 5001 201 0 false true) _ _ _ rfl rfl (Or.inr rfl) rfl rfl
  obtain ⟨after, h1⟩ := h.1 (by decide!)
  obtain ⟨freed, h2⟩ := h.2 after h1
  have h3 : sender_record_ack
      ((classifier_after rtt_handshake_rtt_module two_segments).record 0) 201
      = .ok (after.record 0, freed) := h2
  refine ⟨after, h1, by rw [h3]; rfl, ?_⟩
  have h4 : (sender_record_ack
      ((classifier_after rtt_handshake_rtt_module two_segments).record 0) 201).map
        (fun p => (sender_items p.1).map (fun s => (s.packet.seq, s.packet.num_acks)))
      = .ok [(101, 1)] := by decide!
  rw [h3] at h4
  exact Except.ok.inj h4

/-- C26, counterexample: A sends a SYN and, before any packet of B, a segment
of 100 bytes at sequence number 1. The SYN+ACK of B acknowledges 101:
`sender_record_ack` would count one acknowledgement on the record of the
segment, but `reordering_update` returns at the SYN test and leaves the sender
record of A as it is. -/
theorem syn_ack_does_not_acknowledge :
    (reordering_update rtt_handshake_rtt_module
        (classifier_after rtt_handshake_rtt_module early_segment)
        (tcp_segment (eighths 10) 1 1 5000 101 0 true true)).map (fun after => after.record 0)
      = .ok ((classifier_after rtt_handshake_rtt_module early_segment).record 0)
    ∧ (sender_items ((classifier_after rtt_handshake_rtt_module early_segment).record 0)).map
        (fun s => (s.packet.seq, s.packet.num_acks)) = [(1, 0)]
    ∧ (sender_record_ack ((classifier_after rtt_handshake_rtt_module early_segment).record 0)
        101).map (fun p => (sender_items p.1).map (fun s => (s.packet.seq, s.packet.num_acks)))
      = .ok [(1, 1)] := by
  decide!

theorem takeWhile_getElem_lt {α : Type} (P : α → Bool) :
    ∀ (l : List α) (i : Nat) (x : α), i < (l.takeWhile P).length → l[i]? = some x →
      P x = true := by
  intro l
  induction l with
  | nil =>
    intro i x hi
    simp at hi
  | cons a rest ih =>
    intro i x hi hx
    by_cases ha : P a = true
    · rw [List.takeWhile_cons_of_pos ha] at hi
      cases i with
      | zero =>
        rw [List.getElem?_cons_zero] at hx
        cases hx
        exact ha
      | succ i =>
        rw [List.getElem?_cons_succ] at hx
        exact ih i x (by simpa using hi) hx
    · rw [List.takeWhile_cons_of_neg ha] at hi
      simp at hi

theorem takeWhile_getElem_eq {α : Type} (P : α → Bool) :
    ∀ (l : List α) (x : α), l[(l.takeWhile P).length]? = some x → P x = false := by
  intro l
  induction l with
  | nil =>
    intro x hx
    simp at hx
  | cons a rest ih =>
    intro x hx
    by_cases ha : P a = true
    · rw [List.takeWhile_cons_of_pos ha, List.length_cons, List.getElem?_cons_succ] at hx
      exact ih x hx
    · rw [List.takeWhile_cons_of_neg ha, List.length_nil, List.getElem?_cons_zero] at hx
      cases hx
      simpa using ha

theorem packet_slot_get_modify (slot after : packet_slot_t)
    (f : packet_record_t → packet_record_t) (k : Nat) (h : slot.modify f k = some after) :
    after.get k = (slot.get k).map f ∧ ∀ j, j ≠ k → after.get j = slot.get j := by
  cases k with
  | zero =>
    unfold packet_slot_t.modify at h
    cases h
    refine ⟨rfl, ?_⟩
    intro j hj
    cases j with
    | zero => exact absurd rfl hj
    | succ j => rfl
  | succ k =>
    unfold packet_slot_t.modify at h
    simp only at h
    cases hk : slot.missing_link[k]? with
    | none =>
      rw [hk] at h
      cases h
    | some p =>
      rw [hk] at h
      cases h
      have hlt : k < slot.missing_link.length := by
        by_contra hn
        rw [List.getElem?_eq_none (by omega)] at hk
        cases hk
      refine ⟨?_, ?_⟩
      · unfold packet_slot_t.get
        simp only
        rw [List.getElem?_set_self hlt, hk]
        rfl
      · intro j hj
        cases j with
        | zero => rfl
        | succ j =>
          unfold packet_slot_t.get
          simp only
          rw [List.getElem?_set_ne (by omega)]

/-- C25, as the code has it. For a well-formed sender record whose array
records ascend in `seq` and an acknowledgement number `a`:
`sender_record_ack` changes nothing when the queue is empty or `a` does not
exceed the `seq` of the bottom record. Otherwise it returns; the new bottom is
the array record `k` places up, the one with the greatest `seq` below `a`; the
records above it are as before; the chains of the `k` records below it are
handed to `free`; and of the new bottom record and its chain exactly the
record `link` steps along has `num_acks` incremented, by one modulo 256
(`num_acks` is a `uint8_t`). That record and all before it have a `seq` below
`a`, the next record of the chain has not, and when the chain ascends in
`seq` no later one has. -/
theorem ack_processing (record : sender_record_t) (hwf : sender_wf record) (ack : Nat)
    (hasc : ((sender_items record).map (fun s => s.packet.seq)).Pairwise (fun a b => a < b)) :
    ((sender_items record = []
        ∨ ∃ bottom, (sender_items record).head? = some bottom ∧ ack ≤ bottom.packet.seq) →
      sender_record_ack record ack = .ok (record, []))
    ∧ ∀ bottom, (sender_items record).head? = some bottom → bottom.packet.seq < ack →
        ∃ (after : sender_record_t) (k link : Nat) (slot after_slot : packet_slot_t)
            (p : packet_record_t),
          k = ((sender_items record).tail.takeWhile
                (fun s => decide (s.packet.seq < ack))).length
            ∧ link = (slot.missing_link.takeWhile (fun l => decide (l.seq < ack))).length
            ∧ sender_record_ack record ack
                = .ok (after, ((sender_items record).take k).flatMap
                    (fun s => packet_record_free_missing_links s.missing_link))
            ∧ (sender_items record)[k]? = some slot
            ∧ slot.packet.seq < ack
            ∧ (∀ s ∈ sender_items record, s.packet.seq < ack → s.packet.seq ≤ slot.packet.seq)
            ∧ sender_items after = after_slot :: (sender_items record).drop (k + 1)
            ∧ slot.get link = some p
            ∧ after_slot.get link = some { p with num_acks := (p.num_acks + 1) % 256 }
            ∧ (∀ j, j ≠ link → after_slot.get j = slot.get j)
            ∧ (∀ j q, j ≤ link → slot.get j = some q → q.seq < ack)
            ∧ (∀ q, slot.get (link + 1) = some q → ack ≤ q.seq)
            ∧ ((slot.missing_link.map (fun l => l.seq)).Pairwise (fun a b => a < b) →
                ∀ j q, link < j → slot.get j = some q → ack ≤ q.seq) := by
  obtain ⟨h1, h2⟩ := sender_record_ack_spec record hwf ack
  refine ⟨?_, ?_⟩
  · intro h
    apply h1
    intro bottom hb
    rcases h with h | ⟨b, hb2, hle⟩
    · rw [h] at hb
      cases hb
    · rw [hb] at hb2
      cases hb2
      exact hle
  · intro bottom hhead hlt
    obtain ⟨after, slot, after_slot, hs, hmod, hrun, _, hitems, _, _⟩ := h2 bottom hhead hlt
    obtain ⟨k, hk⟩ : ∃ k, k = ((sender_items record).tail.takeWhile
        (fun s => decide (s.packet.seq < ack))).length := ⟨_, rfl⟩
    obtain ⟨link, hlink⟩ : ∃ link, link = (slot.missing_link.takeWhile
        (fun l => decide (l.seq < ack))).length := ⟨_, rfl⟩
    rw [← hk] at hs hrun hitems
    rw [← hlink] at hmod
    obtain ⟨hg1, hg2⟩ := packet_slot_get_modify slot after_slot _ _ hmod
    obtain ⟨p, hp⟩ := packet_slot_get_some slot link
      (by rw [hlink]; exact (List.takeWhile_prefix _).length_le)
    -- the records of the old queue, by index
    have hitem0 : (sender_items record)[0]? = some bottom := by
      rw [← List.head?_eq_getElem?]
      exact hhead
    have htail : ∀ i : Nat,
        (sender_items record).tail[i]? = (sender_items record)[i + 1]? := by
      intro i
      rw [← List.drop_one, List.getElem?_drop, Nat.add_comm]
    have hsorted := List.pairwise_iff_getElem.mp hasc
    have hmono : ∀ (i j : Nat) (a b : packet_slot_t), i ≤ j → (sender_items record)[i]? = some a →
        (sender_items record)[j]? = some b → a.packet.seq ≤ b.packet.seq := by
      intro i j a b hij ha hb
      have hi : i < (sender_items record).length := by
        by_contra hn
        rw [List.getElem?_eq_none (by omega)] at ha
        cases ha
      have hj : j < (sender_items record).length := by
        by_contra hn
        rw [List.getElem?_eq_none (by omega)] at hb
        cases hb
      rw [List.getElem?_eq_getElem hi] at ha
      rw [List.getElem?_eq_getElem hj] at hb
      cases ha
      cases hb
      by_cases hij2 : i = j
      · subst hij2
        exact Nat.le_refl _
      · have := hsorted i j (by simpa using hi) (by simpa using hj) (by omega)
        simp only [List.getElem_map] at this
        omega
    have hslot : slot.packet.seq < ack := by
      cases k with
      | zero =>
        rw [hitem0] at hs
        cases hs
        exact hlt
      | succ k =>
        rw [← htail] at hs
        have := takeWhile_getElem_lt (fun s => decide (s.packet.seq < ack))
          (sender_items record).tail k slot (by omega) hs
        simpa using this
    refine ⟨after, k, link, slot, after_slot, p, hk, hlink, hrun, hs, hslot, ?_, hitems, hp, ?_,
      hg2, ?_, ?_, ?_⟩
    · intro s hs2 hsa
      obtain ⟨i, hi, hget⟩ := List.getElem_of_mem hs2
      have hget2 : (sender_items record)[i]? = some s := by
        rw [List.getElem?_eq_getElem hi, hget]
      by_cases hik : i ≤ k
      · exact hmono i k s slot hik hget2 hs
      · exfalso
        have hlen : k + 1 < (sender_items record).length := by omega
        have hnext := List.getElem?_eq_getElem hlen
        have hb := takeWhile_getElem_eq (fun s => decide (s.packet.seq < ack))
          (sender_items record).tail _ (by rw [← hk, htail]; exact hnext)
        have hle := hmono (k + 1) i _ s (by omega) hnext hget2
        simp only [decide_eq_false_iff_not] at hb
        omega
    · rw [hg1, hp]
      rfl
    · intro j q hj hq
      cases j with
      | zero =>
        unfold packet_slot_t.get at hq
        cases hq
        exact hslot
      | succ j =>
        unfold packet_slot_t.get at hq
        simp only at hq
        have := takeWhile_getElem_lt (fun l => decide (l.seq < ack)) slot.missing_link j q
          (by omega) hq
        simpa using this
    · intro q hq
      unfold packet_slot_t.get at hq
      simp only at hq
      rw [hlink] at hq
      have := takeWhile_getElem_eq (fun l => decide (l.seq < ack)) slot.missing_link q hq
      simpa using this
    · intro hchain j q hj hq
      cases j with
      | zero => omega
      | succ j =>
        unfold packet_slot_t.get at hq
        simp only at hq
        have hjl : j < slot.missing_link.length := by
          by_contra hn
          rw [List.getElem?_eq_none (by omega)] at hq
          cases hq
        have hll : link < slot.missing_link.length := by omega
        have hfirst := takeWhile_getElem_eq (fun l => decide (l.seq < ack)) slot.missing_link _
          (by rw [← hlink]; exact List.getElem?_eq_getElem hll)
        simp only [decide_eq_false_iff_not] at hfirst
        rw [List.getElem?_eq_getElem hjl] at hq
        cases hq
        by_cases hjeq : j = link
        · subst hjeq
          omega
        · have := (List.pairwise_iff_getElem.mp hchain) link j
            (by simpa using hll) (by simpa using hjl) (by omega)
          simp only [List.getElem_map] at this
          omega

/-- C25, witness: the queue of A after the handshake and two segments holds
the records of sequence numbers 1 and 101; for the acknowledgement number 201
`sender_record_ack` drops the first one and counts the acknowledgement on the
second. -/
theorem ack_processing_witness :
    ((sender_items ((classifier_after rtt_handshake_rtt_module two_segments).record 0)).map
        (fun s => s.packet.seq)).Pairwise (fun a b => a < b)
      ∧ (sender_items ((classifier_after rtt_handshake_rtt_module two_segments).record 0)).map
          (fun s => (s.packet.seq, s.packet.num_acks)) = [(1, 0), (101, 0)]
      ∧ ∃ after : sender_record_t,
          sender_record_ack ((classifier_after rtt_handshake_rtt_module two_segments).record 0)
              201 = .ok (after, [])
            ∧ (sender_items after).map (fun s => (s.packet.seq, s.packet.num_acks))
                = [(101, 1)] := by
  have hasc : ((sender_items
      ((classifier_after rtt_handshake_rtt_module two_segments).record 0)).map
        (fun s => s.packet.seq)).Pairwise (fun a b => a < b) := by decide!
  obtain ⟨after, k, link, slot, after_slot, p, hk, hlink, hrun, hs, -, -, hitems, hp, hq, -⟩ :=
    (ack_processing ((classifier_after rtt_handshake_rtt_module two_segments).record 0)
      (reordering_wf_record _ (classifier_after_wf _ _) 0) 201 hasc).2
      { packet := { seq := 1, time := 11 / 8, ip_id := 3, num_acks := 0, is_missing := false,
                    is_misaligned := false }
        missing_link := [] }
      (by decide!) (by decide!)
  have hk1 : k = 1 := by
    rw [hk]
    decide!
  subst hk1
  have hslot : (sender_items
      ((classifier_after rtt_handshake_rtt_module two_segments).record 0))[1]?
      = some { packet := { seq := 101, time := 3 / 2, ip_id := 4, num_acks := 0,
                           is_missing := false, is_misaligned := false }
               missing_link := [] } := by decide!
  rw [hslot] at hs
  cases hs
  have hl0 : link = 0 := by
    rw [hlink]
    rfl
  subst hl0
  cases hp
  have hfreed : (List.take 1 (sender_items
      ((classifier_after rtt_handshake_rtt_module two_segments).record 0))).flatMap
        (fun s => packet_record_free_missing_links s.missing_link) = [] := by decide!
  rw [hfreed] at hrun
  refine ⟨hasc, by decide!, after, hrun, ?_⟩
  have hdrop : List.drop 2 (sender_items
      ((classifier_after rtt_handshake_rtt_module two_segments).record 0)) = [] := by decide!
  rw [hitems, hdrop]
  have hq2 : after_slot.packet
      = { seq := 101, time := 3 / 2, ip_id := 4, num_acks := 1, is_missing := false,
          is_misaligned := false } := Option.some.inj hq
  simp only [List.map_cons, List.map_nil, hq2]

/-- C25, counterexample: A sends a SYN and a segment at sequence number 1; B
acknowledges its first byte 255 times, which brings `num_acks` of the record
of the segment to 255. The next such ACK makes `num_acks` wrap to 0: it is
not incremented by one. -/
theorem num_acks_wraps :
    (sender_items ((classifier_after rtt_handshake_rtt_module (first_byte_acked 255)).record 0)).map
        (fun s => (s.packet.seq, s.packet.num_acks)) = [(1, 255)]
      ∧ (sender_record_ack
          ((classifier_after rtt_handshake_rtt_module (first_byte_acked 255)).record 0) 2).map
            (fun r => (sender_items r.1).map (fun s => (s.packet.seq, s.packet.num_acks)))
          = .ok [(1, 0)] := by
  decide!

/-! ## reordering.c: the order of the queue -/

theorem pairwise_lt_append {l1 l2 : List Nat} :
    (l1 ++ l2).Pairwise (fun a b => a < b)
      ↔ l1.Pairwise (fun a b => a < b) ∧ l2.Pairwise (fun a b => a < b)
          ∧ ∀ a ∈ l1, ∀ b ∈ l2, a < b :=
  List.pairwise_append

theorem keys_ordered_nil (e : Nat) : keys_ordered [] e :=
  { nonempty := fun c hc => by cases hc
    sorted := by simp
    below := fun k hk => by simp at hk
    links := fun c hc => by cases hc
    owner := fun c hc => by cases hc
    top := fun c hc => by simp at hc }

/-- A record above all others becomes the top of the queue. -/
theorem keys_ordered_push (keys : List (List (Nat × Bool))) (e s after : Nat)
    (h : keys_ordered keys e) (hes : e ≤ s) (hafter : s < after) :
    keys_ordered (keys ++ [[(s, false)]]) after := by
  refine ⟨?_, ?_, ?_, ?_, ?_, ?_⟩
  · intro c hc
    rw [List.mem_append] at hc
    rcases hc with hc | hc
    · exact h.nonempty c hc
    · simp only [List.mem_singleton] at hc
      rw [hc]
      simp
  · rw [List.flatten_append, List.map_append]
    apply pairwise_lt_append.mpr
    refine ⟨h.sorted, by simp, ?_⟩
    intro a ha b hb
    simp only [List.flatten_cons, List.flatten_nil, List.append_nil, List.map_cons,
      List.map_nil, List.mem_singleton] at hb
    rw [List.mem_map] at ha
    obtain ⟨k, hk, rfl⟩ := ha
    have := h.below k hk
    omega
  · intro k hk
    rw [List.flatten_append, List.mem_append] at hk
    rcases hk with hk | hk
    · have := h.below k hk
      omega
    · simp only [List.flatten_cons, List.flatten_nil, List.append_nil,
        List.mem_singleton] at hk
      rw [hk]
      exact hafter
  · intro c hc k hk
    rw [List.mem_append] at hc
    rcases hc with hc | hc
    · exact h.links c hc k hk
    · simp only [List.mem_singleton] at hc
      rw [hc] at hk
      simp at hk
  · intro c hc k hk hf
    rw [List.mem_append] at hc
    rcases hc with hc | hc
    · exact h.owner c hc k hk hf
    · simp only [List.mem_singleton] at hc
      rw [hc]
      rfl
  · intro c hc k hk
    simp at hc
    subst hc
    simp only [List.head?_cons, Option.some.injEq] at hk
    rw [← hk]

/-- A placeholder at the expected sequence number and a record above it
become the top of the queue. -/
theorem keys_ordered_push_gap (keys : List (List (Nat × Bool))) (e s after : Nat)
    (h : keys_ordered keys e) (hes : e < s) (hafter : s < after) :
    keys_ordered (keys ++ [[(e, true)], [(s, false)]]) after := by
  refine ⟨?_, ?_, ?_, ?_, ?_, ?_⟩
  · intro c hc
    rw [List.mem_append] at hc
    rcases hc with hc | hc
    · exact h.nonempty c hc
    · simp only [List.mem_cons, List.mem_singleton, List.not_mem_nil, or_false] at hc
      rcases hc with hc | hc <;> rw [hc] <;> simp
  · rw [List.flatten_append, List.map_append]
    apply pairwise_lt_append.mpr
    refine ⟨h.sorted, by simp [hes], ?_⟩
    intro a ha b hb
    simp only [List.flatten_cons, List.flatten_nil, List.append_nil, List.map_cons,
      List.map_nil, List.singleton_append, List.mem_cons, List.mem_singleton,
      List.not_mem_nil, or_false] at hb
    rw [List.mem_map] at ha
    obtain ⟨k, hk, rfl⟩ := ha
    have := h.below k hk
    omega
  · intro k hk
    rw [List.flatten_append, List.mem_append] at hk
    rcases hk with hk | hk
    · have := h.below k hk
      omega
    · simp only [List.flatten_cons, List.flatten_nil, List.append_nil, List.singleton_append,
        List.mem_cons, List.mem_singleton, List.not_mem_nil, or_false] at hk
      rcases hk with hk | hk <;> rw [hk] <;> simp only <;> omega
  · intro c hc k hk
    rw [List.mem_append] at hc
    rcases hc with hc | hc
    · exact h.links c hc k hk
    · simp only [List.mem_cons, List.mem_singleton, List.not_mem_nil, or_false] at hc
      rcases hc with hc | hc <;> rw [hc] at hk <;> simp at hk
  · intro c hc k hk hf
    rw [List.mem_append] at hc
    rcases hc with hc | hc
    · exact h.owner c hc k hk hf
    · simp only [List.mem_cons, List.mem_singleton, List.not_mem_nil, or_false] at hc
      rcases hc with hc | hc <;> rw [hc] <;> rfl
  · intro c hc k hk
    simp at hc
    subst hc
    simp only [List.head?_cons, Option.some.injEq] at hk
    rw [← hk]

/-- The queue without some of its bottom records is in order. -/
theorem keys_ordered_drop (keys : List (List (Nat × Bool))) (e k : Nat)
    (h : keys_ordered keys e) : keys_ordered (keys.drop k) e := by
  have hsplit : (keys.take k).flatten ++ (keys.drop k).flatten = keys.flatten := by
    rw [← List.flatten_append, List.take_append_drop]
  refine ⟨?_, ?_, ?_, ?_, ?_, ?_⟩
  · intro c hc
    exact h.nonempty c (List.mem_of_mem_drop hc)
  · have := h.sorted
    rw [← hsplit, List.map_append] at this
    exact (pairwise_lt_append.mp this).2.1
  · intro x hx
    apply h.below
    rw [← hsplit]
    exact List.mem_append_right _ hx
  · intro c hc
    exact h.links c (List.mem_of_mem_drop hc)
  · intro c hc
    exact h.owner c (List.mem_of_mem_drop hc)
  · intro c hc
    rw [List.getLast?_drop] at hc
    split at hc
    · cases hc
    · exact h.top c hc

/-- A queue in order stays in order when the expected sequence number changes
to a number above all its records. -/
theorem keys_ordered_expected (keys : List (List (Nat × Bool))) (e after : Nat)
    (h : keys_ordered keys e) (hafter : ∀ k ∈ keys.flatten, k.1 < after) :
    keys_ordered keys after :=
  ⟨h.nonempty, h.sorted, hafter, h.links, h.owner, h.top⟩

/-- A new placeholder in a chain, between the records below its sequence
number and those above it. -/
theorem keys_ordered_splice (before after : List (List (Nat × Bool)))
    (c1 c2 : List (Nat × Bool)) (last : Nat × Bool) (e t : Nat)
    (h : keys_ordered (before ++ (c1 ++ last :: c2) :: after) e)
    (hlast : last.2 = true) (hlt : last.1 < t)
    (hgt : ∀ y ∈ c2 ++ after.flatten, t < y.1) :
    keys_ordered (before ++ (c1 ++ last :: (t, true) :: c2) :: after) e := by
  have hsorted := h.sorted
  simp only [List.flatten_append, List.flatten_cons, List.map_append, List.map_cons,
    List.append_assoc, List.cons_append] at hsorted
  -- the owner of the chain is a placeholder
  have howner : ∀ k, (c1 ++ last :: c2).head? = some k → k.2 = true := by
    intro k hk
    cases hk2 : k.2 with
    | true => rfl
    | false =>
      exfalso
      have ht := h.owner (c1 ++ last :: c2) (by simp) k hk hk2
      cases c1 with
      | nil =>
        simp only [List.nil_append, List.head?_cons, Option.some.injEq] at hk
        rw [← hk, hlast] at hk2
        cases hk2
      | cons a rest => simp at ht
  -- so there is an array record above it
  have hafter : after ≠ [] := by
    intro hnil
    cases hhead : (c1 ++ last :: c2).head? with
    | none => cases c1 <;> simp at hhead
    | some k =>
      have h1 := howner k hhead
      have h2 := h.top (c1 ++ last :: c2) (by rw [hnil]; simp) k hhead
      rw [h1] at h2
      cases h2
  refine ⟨?_, ?_, ?_, ?_, ?_, ?_⟩
  · intro c hc
    rw [List.mem_append, List.mem_cons] at hc
    rcases hc with hc | hc | hc
    · exact h.nonempty c (by simp [hc])
    · rw [hc]
      cases c1 <;> simp
    · exact h.nonempty c (by simp [hc])
  · simp only [List.flatten_append, List.flatten_cons, List.map_append, List.map_cons,
      List.append_assoc, List.cons_append]
    rw [← List.append_assoc] at hsorted ⊢
    obtain ⟨hp1, hp2, hp3⟩ := pairwise_lt_append.mp hsorted
    apply pairwise_lt_append.mpr
    refine ⟨hp1, ?_, ?_⟩
    · rw [List.pairwise_cons] at hp2 ⊢
      refine ⟨?_, ?_⟩
      · intro b hb
        rw [List.mem_cons] at hb
        rcases hb with hb | hb
        · rw [hb]
          exact hlt
        · exact hp2.1 b hb
      · rw [List.pairwise_cons]
        refine ⟨?_, hp2.2⟩
        intro b hb
        rw [← List.map_append, List.mem_map] at hb
        obtain ⟨y, hy, rfl⟩ := hb
        exact hgt y hy
    · intro a ha b hb
      rw [List.mem_cons, List.mem_cons] at hb
      rcases hb with hb | hb | hb
      · exact hp3 a ha b (by rw [hb]; simp)
      · have := hp3 a ha last.1 (by simp)
        omega
      · exact hp3 a ha b (List.mem_cons_of_mem _ hb)
  · intro k hk
    simp only [List.flatten_append, List.flatten_cons, List.mem_append, List.mem_cons] at hk
    rcases hk with hk | (hk | hk | hk | hk) | hk
    · exact h.below k (by simp [hk])
    · exact h.below k (by simp [hk])
    · exact h.below k (by simp [hk])
    · -- the new record lies below an array record further up
      cases hafter2 : after with
      | nil => exact absurd hafter2 hafter
      | cons c rest =>
        cases hc : c with
        | nil =>
          exfalso
          exact h.nonempty c (by simp [hafter2]) hc
        | cons y ys =>
          have h1 := hgt y (by simp [hafter2, hc])
          have h2 := h.below y (by simp [hafter2, hc])
          rw [hk]
          simp only
          omega
    · exact h.below k (by simp [hk])
    · exact h.below k (by simp [hk])
  · intro c hc k hk
    rw [List.mem_append, List.mem_cons] at hc
    rcases hc with hc | hc | hc
    · exact h.links c (by simp [hc]) k hk
    · rw [hc] at hk
      have hold := h.links (c1 ++ last :: c2) (by simp)
      cases c1 with
      | nil =>
        simp only [List.nil_append, List.tail_cons, List.mem_cons] at hk hold
        rcases hk with hk | hk
        · rw [hk]
        · exact hold k hk
      | cons a rest =>
        simp only [List.cons_append, List.tail_cons, List.mem_append, List.mem_cons] at hk hold
        rcases hk with hk | hk | hk | hk
        · exact hold k (Or.inl hk)
        · exact hold k (Or.inr (Or.inl hk))
        · rw [hk]
        · exact hold k (Or.inr (Or.inr hk))
    · exact h.links c (by simp [hc]) k hk
  · intro c hc k hk hf
    rw [List.mem_append, List.mem_cons] at hc
    rcases hc with hc | hc | hc
    · exact h.owner c (by simp [hc]) k hk hf
    · exfalso
      rw [hc] at hk
      have hk2 : (c1 ++ last :: c2).head? = some k := by
        cases c1 with
        | nil => simpa using hk
        | cons a rest => simpa using hk
      rw [howner k hk2] at hf
      cases hf
    · exact h.owner c (by simp [hc]) k hk hf
  · intro c hc k hk
    apply h.top c _ k hk
    obtain ⟨x, xs, hx⟩ := List.exists_cons_of_ne_nil hafter
    rw [hx] at hc ⊢
    rw [← List.singleton_append, ← List.append_assoc,
      List.getLast?_append_of_ne_nil _ (by simp)] at hc ⊢
    exact hc

theorem pairwise_lt_split (X Y : List (Nat × Bool)) (x : Nat × Bool)
    (h : ((X ++ x :: Y).map Prod.fst).Pairwise (fun a b => a < b)) :
    (∀ a ∈ X, a.1 < x.1) ∧ (∀ b ∈ Y, x.1 < b.1)
      ∧ (Y.map Prod.fst).Pairwise (fun a b => a < b) := by
  rw [List.map_append, List.map_cons] at h
  obtain ⟨_, h2, h3⟩ := pairwise_lt_append.mp h
  rw [List.pairwise_cons] at h2
  refine ⟨?_, ?_, h2.2⟩
  · intro a ha
    exact h3 a.1 (List.mem_map_of_mem _ ha) x.1 (by simp)
  · intro b hb
    exact h2.1 b.1 (List.mem_map_of_mem _ hb)

theorem slot_keys_split (slot : packet_slot_t) (c1 c2 : List packet_record_t)
    (p : packet_record_t) (hchain : slot.missing_link = c1 ++ c2)
    (hlast : (slot.packet :: c1).getLast? = some p) :
    ∃ I : List (Nat × Bool),
      I.length = c1.length
        ∧ slot_keys slot = I ++ packet_key p :: c2.map packet_key
        ∧ ∀ link : packet_record_t,
            slot_keys { slot with
                        missing_link :=
                          slot.missing_link.take c1.length
                            ++ link :: slot.missing_link.drop c1.length }
              = I ++ packet_key p :: packet_key link :: c2.map packet_key := by
  obtain ⟨init, hinit⟩ := List.getLast?_eq_some_iff.mp hlast
  refine ⟨init.map packet_key, ?_, ?_, ?_⟩
  · have := congrArg List.length hinit
    simp at this
    rw [List.length_map]
    omega
  · unfold slot_keys
    rw [hchain, ← List.cons_append, hinit]
    simp
  · intro link
    unfold slot_keys
    simp only
    rw [hchain, List.take_left' rfl, List.drop_left' rfl]
    show List.map packet_key ((slot.packet :: c1) ++ link :: c2) = _
    rw [hinit]
    simp

/-- The place of the record that `sender_record_find` returns in a queue whose
sequence numbers ascend in the order of the search: the record is the last
one with a sequence number up to `t`. -/
theorem sender_record_find_position (record : sender_record_t) (hwf : sender_wf record)
    (t : Nat) (ref : packet_ref_t) (p : packet_record_t)
    (hsorted : ((sender_keys record).flatten.map Prod.fst).Pairwise (fun a b => a < b))
    (hfind : sender_record_find record t = .ok (some ref))
    (hp : packet_deref record ref = .ok p) :
    ∃ (i : Nat) (slot : packet_slot_t) (KA KB : List (List (Nat × Bool)))
        (I C2 : List (Nat × Bool)),
      (sender_items record)[i]? = some slot
        ∧ ref = { idx := (record.lower_idx + i) % record.array_size, link := I.length }
        ∧ I.length ≤ slot.missing_link.length
        ∧ KA.length = i
        ∧ sender_keys record = KA ++ (I ++ packet_key p :: C2) :: KB
        ∧ (∀ link : packet_record_t,
            slot_keys { slot with
                        missing_link :=
                          slot.missing_link.take I.length
                            ++ link :: slot.missing_link.drop I.length }
              = I ++ packet_key p :: packet_key link :: C2)
        ∧ p.seq ≤ t
        ∧ (∀ y ∈ C2 ++ KB.flatten, t < y.1)
        ∧ ∀ z ∈ (sender_keys record).flatten, z.1 ≤ t → z.1 ≤ p.seq := by
  obtain ⟨A, slot, B, c1, c2, q, h1, h2, h3, h4, h5, h6, h7, h8, h9, h10, h11⟩ :=
    sender_record_find_some record hwf t ref hfind
  rw [hp] at h5
  cases h5
  obtain ⟨I, hI1, hI2, hI3⟩ := slot_keys_split slot c1 c2 p h2 h4
  have hkeys : sender_keys record
      = A.map slot_keys ++ (I ++ packet_key p :: c2.map packet_key) :: B.map slot_keys := by
    unfold sender_keys
    rw [h1, List.map_append, List.map_cons, hI2]
  have hflat : (sender_keys record).flatten
      = ((A.map slot_keys).flatten ++ I)
          ++ packet_key p :: (c2.map packet_key ++ (B.map slot_keys).flatten) := by
    rw [hkeys]
    simp
  rw [hflat] at hsorted
  obtain ⟨hs1, hs2, hs3⟩ := pairwise_lt_split _ _ _ hsorted
  have hpt : p.seq ≤ t := by
    have hmem : p ∈ slot.packet :: c1 := List.mem_of_getLast?_eq_some h4
    rw [List.mem_cons] at hmem
    rcases hmem with hmem | hmem
    · rw [hmem]
      exact h7
    · exact h10 p hmem
  have hgt : ∀ y ∈ c2.map packet_key ++ (B.map slot_keys).flatten, t < y.1 := by
    intro y hy
    by_cases hseq : slot.packet.seq = t
    · have hc1 := h9 hseq
      subst hc1
      simp only [List.getLast?_singleton, Option.some.injEq] at h4
      have := hs2 y hy
      rw [← h4] at this
      simp only [packet_key] at this
      omega
    · cases hc2 : c2 with
      | nil =>
        rw [hc2] at hy hs3
        simp only [List.map_nil, List.nil_append] at hy hs3
        cases hB : B with
        | nil =>
          rw [hB] at hy
          simp at hy
        | cons b rest =>
          rw [hB] at hy hs3
          have hb := h8 b (by rw [hB]; rfl)
          simp only [List.map_cons, List.flatten_cons, slot_keys, List.cons_append,
            List.mem_cons] at hy hs3
          rcases hy with hy | hy
          · rw [hy]
            simp only [packet_key]
            exact hb
          · rw [List.pairwise_cons] at hs3
            have := hs3.1 y.1 (List.mem_map_of_mem _ hy)
            simp only [packet_key] at this
            omega
      | cons l rest =>
        rw [hc2] at hy hs3
        have hl := h11 hseq l (by rw [hc2]; rfl)
        simp only [List.map_cons, List.cons_append, List.mem_cons] at hy hs3
        rcases hy with hy | hy
        · rw [hy]
          simp only [packet_key]
          exact hl
        · rw [List.pairwise_cons] at hs3
          have := hs3.1 y.1 (List.mem_map_of_mem _ hy)
          simp only [packet_key] at this
          omega
  refine ⟨A.length, slot, A.map slot_keys, B.map slot_keys, I, c2.map packet_key, ?_, ?_, ?_,
    by simp, hkeys, ?_, hpt, hgt, ?_⟩
  · rw [h1, List.getElem?_append_right (Nat.le_refl _), Nat.sub_self, List.getElem?_cons_zero]
  · rw [h3, hI1]
  · rw [hI1, h2]
    simp
  · rw [hI1]
    exact hI3
  · intro z hz hzt
    rw [hflat, List.mem_append, List.mem_cons] at hz
    rcases hz with hz | hz | hz
    · have := hs1 z hz
      simp only [packet_key] at this
      omega
    · rw [hz]
      simp only [packet_key]
      exact Nat.le_refl _
    · have := hgt z hz
      omega

theorem uint32_add_above (seq : Nat) (payload : Int) (hp : 0 < payload)
    (hp2 : payload < 4294967296) (h : seq ≤ uint32_add seq payload) :
    seq < uint32_add seq payload := by
  unfold uint32_add at *
  omega

theorem uint32_add_exact (seq : Nat) (payload : Int) (hp : 0 ≤ payload)
    (h : (seq : Int) + payload ≤ 4294967295) :
    (uint32_add seq payload : Int) = (seq : Int) + payload := by
  unfold uint32_add
  omega

theorem list_set_middle {α : Type} (A B : List α) (x y : α) (i : Nat) (hi : A.length = i) :
    (A ++ x :: B).set i y = A ++ y :: B := by
  subst hi
  induction A with
  | nil => rfl
  | cons a A ih =>
    simp only [List.cons_append, List.length_cons, List.set_cons_succ, ih]

/-- A data packet below the expected sequence number leaves the queue in
order. -/
theorem reordering_update_low_ordered (record : sender_record_t) (hwf : sender_wf record)
    (hord : sender_ordered record) (seq : Nat) (payload : Int) (time : ℚ) (ip_id : Nat)
    (rtt rto : ℚ) (hp : 0 < payload) (hp2 : payload < 4294967296)
    (after : sender_record_t) (type : reordering_type_t) (message : Nat) (lag : ℚ)
    (h : reordering_update_low record seq payload time ip_id rtt rto
      = .ok (after, type, message, lag)) : sender_ordered after := by
  obtain ⟨o, hfind⟩ := sender_record_find_ok record hwf seq
  cases o with
  | none =>
    rw [reordering_update_low_not_found _ _ _ _ _ _ _ hfind] at h
    cases h
    exact hord
  | some ref =>
    obtain ⟨found, hfound⟩ := packet_deref_valid record hwf ref
      (sender_record_find_valid record hwf seq ref hfind)
    by_cases hacked : found.num_acks > 0 ∧ found.seq = seq
    · rw [reordering_update_low_acked _ _ _ _ _ _ _ ref found hfind hfound hacked] at h
      cases h
      exact hord
    · obtain ⟨o2, hprev⟩ := sender_record_find_ok record hwf ((seq + 4294967295) % 4294967296)
      cases o2 with
      | none =>
        rw [reordering_update_low_no_prev _ _ _ _ _ _ _ ref found hfind hfound hacked hprev] at h
        cases h
        exact hord
      | some prev_ref =>
        obtain ⟨prev, hprevd⟩ := packet_deref_valid record hwf prev_ref
          (sender_record_find_valid record hwf _ prev_ref hprev)
        cases hmiss : found.is_missing with
        | false =>
          obtain ⟨own, hl1, _, _, hl4, hl5, _⟩ := reordering_update_low_seen record hwf seq
            payload time ip_id rtt rto ref prev_ref found prev hfind hfound hacked hprev hprevd
            hmiss
          rw [hl1] at h
          cases h
          unfold sender_ordered
          rw [hl4, hl5]
          exact hord
        | true =>
          obtain ⟨i, slot, KA, KB, I, C2, hslot, href, hIle, hKA, hkeys, hnew, hle, hgt, _⟩ :=
            sender_record_find_position record hwf seq ref found hord.sorted hfind hfound
          obtain ⟨spliced, hs1, _, hs3, _, _, hs6⟩ := reordering_update_splice_spec record hwf
            seq payload found i I.length slot hslot hIle
          rw [← href] at hs1
          rw [reordering_update_low_missing record spliced seq payload time ip_id rtt rto ref
            prev_ref found prev hfind hfound hacked hprev hprevd hmiss hs1] at h
          cases h
          have hspliced : sender_ordered spliced := by
            rcases hs6 with hs6 | ⟨next_ref, next, hn1, hn2, hn3, hitems⟩
            · rw [hs6]
              exact hord
            · obtain ⟨_, _, _, _, _, _, _, _, _, _, _, _, hnle, _, hgreat⟩ :=
                sender_record_find_position record hwf (uint32_add seq payload) next_ref next
                  hord.sorted hn1 hn2
              have hT : seq < uint32_add seq payload :=
                uint32_add_above seq payload hp hp2 (by omega)
              have hk2 : sender_keys spliced
                  = KA ++ (I ++ packet_key found
                      :: (uint32_add seq payload, true) :: C2) :: KB := by
                unfold sender_keys
                rw [hitems, List.map_set, hnew]
                have := hkeys
                unfold sender_keys at this
                rw [this]
                exact list_set_middle KA KB _ _ i hKA
              unfold sender_ordered at hord ⊢
              rw [hk2, hs3]
              rw [hkeys] at hord
              refine keys_ordered_splice KA KB I C2 (packet_key found) record.expected_seq
                (uint32_add seq payload) hord hmiss ?_ ?_
              · show found.seq < uint32_add seq payload
                omega
              · intro y hy
                have h1 := hgt y hy
                by_contra hcon
                have hmem : y ∈ (sender_keys record).flatten := by
                  rw [hkeys]
                  simp only [List.flatten_append, List.flatten_cons, List.mem_append,
                    List.mem_cons] at hy ⊢
                  rcases hy with hy | hy
                  · exact Or.inr (Or.inl (Or.inr (Or.inr hy)))
                  · exact Or.inr (Or.inr hy)
                have := hgreat y hmem (by omega)
                omega
          exact hspliced

theorem ntohs_lt (x : Nat) : ntohs x < 65536 := by
  unfold ntohs
  omega

theorem ntohl_lt (x : Nat) : ntohl x < 4294967296 := by
  unfold ntohl
  omega

theorem payload_length_lt (ip : libtrace_ip) (tcp : libtrace_tcp) :
    payload_length ip tcp < 65536 := by
  unfold payload_length
  have := ntohs_lt ip.ip_len
  omega

theorem sender_keys_append (record after : sender_record_t) (slots : List packet_slot_t)
    (h : sender_items after = sender_items record ++ slots) :
    sender_keys after = sender_keys record ++ slots.map slot_keys := by
  unfold sender_keys
  rw [h, List.map_append]

/-- A packet with payload leaves the queue of its direction in order, when
its `seq + payload` does not pass `2^32 - 1` at or above the expected sequence
number. -/
theorem reordering_update_data_ordered (record : sender_record_t) (hwf : sender_wf record)
    (hord : sender_ordered record) (seq : Nat) (payload : Int) (time : ℚ) (ip_id : Nat)
    (rtt rto : ℚ) (hp : 0 < payload) (hp2 : payload < 4294967296)
    (hwrap : seq ≥ record.expected_seq → (seq : Int) + payload ≤ 4294967295)
    (after : sender_record_t) (type : reordering_type_t) (message : Nat) (lag : ℚ)
    (h : reordering_update_data record seq payload time ip_id rtt rto
      = .ok (after, type, message, lag)) : sender_ordered after := by
  obtain ⟨_, hcase⟩ := reordering_update_data_ok record hwf seq payload time ip_id rtt rto after
    type message lag h
  rcases hcase with ⟨hseq, _, _, _, _, hexp, _, flag1, flag2, hitems⟩
    | ⟨hseq, _, _, _, _, hexp, _, flag, hitems⟩ | ⟨_, hlow, _, _⟩
  · have hx := uint32_add_exact seq payload (by omega) (hwrap (by omega))
    unfold sender_ordered
    rw [sender_keys_append record after _ hitems, hexp]
    exact keys_ordered_push_gap (sender_keys record) record.expected_seq seq _ hord hseq
      (by omega)
  · subst hseq
    have hx := uint32_add_exact record.expected_seq payload (by omega) (hwrap (by omega))
    unfold sender_ordered
    rw [sender_keys_append record after _ hitems, hexp]
    exact keys_ordered_push (sender_keys record) record.expected_seq record.expected_seq _ hord
      (Nat.le_refl _) (by omega)
  · exact reordering_update_low_ordered record hwf hord seq payload time ip_id rtt rto hp hp2
      after type message lag hlow

/-- A regular packet leaves both queues in order. -/
theorem reordering_update_ordered {σ : Type} (rtt_module : rtt_module_t σ)
    (r after : reordering_t σ) (hwf : reordering_wf r) (hord : reordering_ordered r)
    (packet : libtrace_packet_t) (hreg : packet_regular r packet)
    (h : reordering_update rtt_module r packet = .ok after) : reordering_ordered after := by
  have hrec : ∀ d : Int, sender_ordered (r.record d) := by
    intro d
    unfold reordering_t.record
    split
    · exact hord.record_0
    · exact hord.record_1
  obtain ⟨ip, tcp, hip, htcp, hcase⟩ := reordering_update_inv rtt_module r after packet h
  rcases hcase with ⟨_, hsame⟩ | ⟨hd, rtt_data, hmod, hsyn | ⟨hsyn, hrest⟩⟩
  · rw [hsame]
    exact hord
  · obtain ⟨a, h1, h2, h3, _⟩ :=
      reordering_update_syn rtt_module r packet ip tcp rtt_data hip htcp hd hsyn hmod
    rw [h] at h1
    cases h1
    have hown : sender_ordered (after.record packet.direction) := by
      rw [h2]
      exact keys_ordered_expected _ _ _ (hrec packet.direction)
        ((hreg ip tcp hip htcp hd).1 hsyn)
    have hother : sender_ordered (after.record (1 - packet.direction)) := by
      rw [h3]
      exact hrec _
    rcases hd with hd | hd
    · rw [hd] at hown hother
      exact ⟨hown, hother⟩
    · rw [hd] at hown hother
      exact ⟨hother, hown⟩
  · obtain ⟨own, other, type, message, lag, freed, hdata, hack⟩ := hrest
    obtain ⟨a, h1, h2, h3, _⟩ := reordering_update_nonsyn rtt_module r packet ip tcp rtt_data
      own other type message lag freed hip htcp hd hsyn hmod hdata hack
    rw [h] at h1
    cases h1
    have hown : sender_ordered (after.record packet.direction) := by
      rw [h2]
      by_cases hp : payload_length ip tcp > 0
      · rw [if_pos hp] at hdata
        have hlt := payload_length_lt ip tcp
        exact reordering_update_data_ordered _ (reordering_wf_record r hwf _) (hrec _) _ _ _ _
          _ _ hp (by omega) ((hreg ip tcp hip htcp hd).2 hsyn hp) _ _ _ _ hdata
      · rw [if_neg hp] at hdata
        cases hdata
        exact hrec _
    have hother : sender_ordered (after.record (1 - packet.direction)) := by
      rw [h3]
      obtain ⟨a, f, k, h4, _, h6, _, _, _, h10⟩ := sender_record_ack_ok
        (r.record (1 - packet.direction)) (reordering_wf_record r hwf _) (ntohl tcp.ack_seq)
      rw [hack] at h4
      cases h4
      unfold sender_ordered
      rw [h10, h6]
      exact keys_ordered_drop _ _ _ (hrec _)
    rcases hd with hd | hd
    · rw [hd] at hown hother
      exact ⟨hown, hother⟩
    · rw [hd] at hown hother
      exact ⟨hother, hown⟩

theorem reordering_ordered_create {σ : Type} (rtt_module : rtt_module_t σ) :
    reordering_ordered (reordering_create rtt_module) :=
  ⟨keys_ordered_nil _, keys_ordered_nil _⟩

/-- The states that regular packets reach have well-formed sender records with
queues in order. -/
theorem reordering_regular_ordered {σ : Type} (rtt_module : rtt_module_t σ)
    (r : reordering_t σ) (h : reordering_regular rtt_module r) :
    reordering_wf r ∧ reordering_ordered r := by
  induction h with
  | create => exact ⟨reordering_wf_create rtt_module, reordering_ordered_create rtt_module⟩
  | update r after packet _ hreg hupd ih =>
    exact ⟨reordering_update_wf rtt_module r after ih.1 packet hupd,
      reordering_update_ordered rtt_module r after ih.1 ih.2 packet hreg hupd⟩

theorem list_split_at {α : Type} (l : List α) (i : Nat) (x : α) (h : l[i]? = some x) :
    l = l.take i ++ x :: l.drop (i + 1) := by
  induction l generalizing i with
  | nil => simp at h
  | cons a l ih =>
    cases i with
    | zero =>
      simp only [List.getElem?_cons_zero, Option.some.injEq] at h
      subst h
      rfl
    | succ i =>
      simp only [List.getElem?_cons_succ] at h
      simp only [List.take_succ_cons, List.drop_succ_cons, List.cons_append]
      rw [← ih i h]

theorem array_seq_sublist (items : List packet_slot_t) :
    List.Sublist (items.map (fun slot => slot.packet.seq))
      ((items.map slot_keys).flatten.map Prod.fst) := by
  induction items with
  | nil => exact List.Sublist.slnil
  | cons s items ih =>
    simp only [List.map_cons, List.flatten_cons, slot_keys, List.cons_append, packet_key,
      List.map_append]
    exact List.Sublist.cons₂ _ (List.sublist_append_of_sublist_right ih)

/-- In a queue in order the array records ascend strictly from bottom to top
and lie below the expected sequence number. -/
theorem sender_ordered_array (record : sender_record_t) (h : sender_ordered record) :
    ((sender_items record).map (fun slot => slot.packet.seq)).Pairwise (fun a b => a < b)
      ∧ ∀ slot ∈ sender_items record, slot.packet.seq < record.expected_seq := by
  refine ⟨h.sorted.sublist (array_seq_sublist _), ?_⟩
  intro slot hslot
  refine h.below (packet_key slot.packet) ?_
  rw [List.mem_flatten]
  refine ⟨slot_keys slot, ?_, ?_⟩
  · unfold sender_keys
    exact List.mem_map_of_mem _ hslot
  · unfold slot_keys
    simp

/-- In a queue in order every chain ascends strictly, starts above the record
that owns it, holds placeholders only and ends below the next array record. -/
theorem sender_ordered_chain (record : sender_record_t) (h : sender_ordered record) (i : Nat)
    (slot : packet_slot_t) (hslot : (sender_items record)[i]? = some slot) :
    (slot.missing_link.map (fun l => l.seq)).Pairwise (fun a b => a < b)
      ∧ (∀ l ∈ slot.missing_link, slot.packet.seq < l.seq)
      ∧ (∀ l ∈ slot.missing_link, l.is_missing = true)
      ∧ ∀ next, (sender_items record)[i + 1]? = some next →
          ∀ l ∈ slot.missing_link, l.seq < next.packet.seq := by
  have hsplit := list_split_at _ i slot hslot
  have hkeys : sender_keys record
      = ((sender_items record).take i).map slot_keys
          ++ slot_keys slot :: ((sender_items record).drop (i + 1)).map slot_keys := by
    unfold sender_keys
    conv => lhs; rw [hsplit]
    rw [List.map_append, List.map_cons]
  have hsorted := h.sorted
  rw [hkeys] at hsorted
  simp only [List.flatten_append, List.flatten_cons, List.map_append] at hsorted
  obtain ⟨_, hs2, _⟩ := pairwise_lt_append.mp hsorted
  obtain ⟨hs3, hs4, hs5⟩ := pairwise_lt_append.mp hs2
  simp only [slot_keys, List.map_cons, List.map_map, List.pairwise_cons] at hs3
  refine ⟨?_, ?_, ?_, ?_⟩
  · have := hs3.2
    simpa [Function.comp_def, packet_key] using this
  · intro l hl
    exact hs3.1 l.seq (by
      rw [List.mem_map]
      exact ⟨l, hl, rfl⟩)
  · intro l hl
    have := h.links (slot_keys slot) (by rw [hkeys]; simp) (packet_key l) (by
      unfold slot_keys
      simp only [List.map_cons, List.tail_cons]
      exact List.mem_map_of_mem _ hl)
    exact this
  · intro next hnext l hl
    have hdrop : (sender_items record).drop (i + 1)
        = next :: (sender_items record).drop (i + 1 + 1) := by
      have := list_split_at _ (i + 1) next hnext
      conv => lhs; rw [this]
      rw [List.drop_left' (by
        rw [List.length_take]
        have : i + 1 < (sender_items record).length := by
          by_contra hcon
          rw [List.getElem?_eq_none (by omega)] at hnext
          cases hnext
        omega)]
    refine hs5 l.seq ?_ next.packet.seq ?_
    · unfold slot_keys
      simp only [List.map_cons, List.map_map, List.mem_cons, List.mem_map]
      exact Or.inr ⟨l, hl, rfl⟩
    · rw [hdrop]
      simp [slot_keys, packet_key]

theorem reordering_record_cases {σ : Type} (r : reordering_t σ) (d : Int)
    (P : sender_record_t → Prop) (h0 : P r.record_0) (h1 : P r.record_1) : P (r.record d) := by
  unfold reordering_t.record
  split
  · exact h0
  · exact h1

/-- A packet that is no data packet of direction `d` leaves an empty queue of
direction `d` empty. -/
theorem reordering_update_keeps_empty {σ : Type} (rtt_module : rtt_module_t σ)
    (r after : reordering_t σ) (hwf : reordering_wf r) (packet : libtrace_packet_t)
    (h : reordering_update rtt_module r packet = .ok after) (d : Int) (hd0 : d = 0 ∨ d = 1)
    (hempty : sender_keys (r.record d) = []) (hdata : is_data d packet = false) :
    sender_keys (after.record d) = [] := by
  obtain ⟨ip, tcp, hip, htcp, hcase⟩ := reordering_update_inv rtt_module r after packet h
  rcases hcase with ⟨_, hsame⟩ | ⟨hd, rtt_data, hmod, hsyn | ⟨hsyn, hrest⟩⟩
  · rw [hsame]
    exact hempty
  · obtain ⟨a, h1, h2, h3, _⟩ :=
      reordering_update_syn rtt_module r packet ip tcp rtt_data hip htcp hd hsyn hmod
    rw [h] at h1
    cases h1
    by_cases hdir : packet.direction = d
    · rw [← hdir, h2]
      rw [← hdir] at hempty
      exact hempty
    · have hother : 1 - packet.direction = d := by omega
      rw [← hother, h3]
      rw [← hother] at hempty
      exact hempty
  · obtain ⟨own, other, type, message, lag, freed, hupd, hack⟩ := hrest
    obtain ⟨a, h1, h2, h3, _⟩ := reordering_update_nonsyn rtt_module r packet ip tcp rtt_data
      own other type message lag freed hip htcp hd hsyn hmod hupd hack
    rw [h] at h1
    cases h1
    by_cases hdir : packet.direction = d
    · have hp : ¬ payload_length ip tcp > 0 := by
        intro hp
        unfold is_data at hdata
        rw [hip, htcp] at hdata
        simp [hdir, hsyn, hp] at hdata
      rw [if_neg hp] at hupd
      cases hupd
      rw [← hdir, h2]
      rw [← hdir] at hempty
      exact hempty
    · have hother : 1 - packet.direction = d := by omega
      obtain ⟨a, f, k, h4, _, _, _, _, _, h10⟩ := sender_record_ack_ok
        (r.record (1 - packet.direction)) (reordering_wf_record r hwf _) (ntohl tcp.ack_seq)
      rw [hack] at h4
      cases h4
      rw [← hother, h3, h10]
      rw [← hother] at hempty
      rw [hempty]
      exact List.drop_nil

/-- A trace without a SYN after the first data packet of its direction and
without a packet whose `seq + payload` passes `2^32 - 1` is a sequence of
regular packets, from a state in which a direction that still gets a SYN has
an empty queue. -/
theorem reordering_run_regular {σ : Type} (rtt_module : rtt_module_t σ) :
    ∀ (trace : List libtrace_packet_t) (r after : reordering_t σ),
      reordering_regular rtt_module r →
      (∀ d : Int, d = 0 ∨ d = 1 →
        sender_keys (r.record d) = [] ∨ ∀ q ∈ trace, is_syn d q = false) →
      (∀ d : Int, d = 0 ∨ d = 1 → no_syn_after_data d trace = true) →
      no_wrap trace = true →
      reordering_run rtt_module r trace = .ok after → reordering_regular rtt_module after := by
  intro trace
  induction trace with
  | nil =>
    intro r after hreg _ _ _ h
    cases h
    exact hreg
  | cons packet rest ih =>
    intro r after hreg hinv hsyn hwrap h
    unfold reordering_run at h
    cases h1 : reordering_update rtt_module r packet with
    | error e =>
      rw [h1] at h
      cases h
    | ok r1 =>
      rw [h1] at h
      have hwf := (reordering_regular_ordered rtt_module r hreg).1
      have hpacket : packet_regular r packet := by
        intro ip tcp hip htcp hd
        refine ⟨?_, ?_⟩
        · intro hs
          rcases hinv packet.direction hd with hempty | hno
          · rw [hempty]
            intro k hk
            cases hk
          · have := hno packet (List.mem_cons_self _ _)
            unfold is_syn at this
            rw [htcp] at this
            simp [hs] at this
        · intro _ _ _
          unfold no_wrap at hwrap
          rw [List.all_cons, Bool.and_eq_true] at hwrap
          have := hwrap.1
          rw [hip, htcp] at this
          simpa using this
      refine ih r1 after (reordering_regular.update r r1 packet hreg hpacket h1) ?_ ?_ ?_ h
      · intro d hd
        rcases hinv d hd with hempty | hno
        · cases hdata : is_data d packet with
          | false =>
            exact Or.inl (reordering_update_keeps_empty rtt_module r r1 hwf packet h1 d hd
              hempty hdata)
          | true =>
            have := hsyn d hd
            unfold no_syn_after_data at this
            rw [hdata] at this
            simp only [Bool.not_true, Bool.false_or, Bool.and_eq_true, List.all_eq_true,
              Bool.not_eq_true'] at this
            exact Or.inr this.1
        · exact Or.inr (fun q hq => hno q (List.mem_cons_of_mem _ hq))
      · intro d hd
        have := hsyn d hd
        unfold no_syn_after_data at this
        rw [Bool.and_eq_true] at this
        exact this.2
      · unfold no_wrap at hwrap ⊢
        rw [List.all_cons, Bool.and_eq_true] at hwrap
        exact hwrap.2

theorem no_syn_after_data_append (d : Int) (trace rest : List libtrace_packet_t)
    (h : no_syn_after_data d (trace ++ rest) = true) : no_syn_after_data d trace = true := by
  induction trace with
  | nil => rfl
  | cons packet trace ih =>
    rw [List.cons_append] at h
    unfold no_syn_after_data at h ⊢
    rw [Bool.and_eq_true, Bool.or_eq_true] at h ⊢
    refine ⟨?_, ih h.2⟩
    rcases h.1 with h1 | h1
    · exact Or.inl h1
    · rw [List.all_append, Bool.and_eq_true] at h1
      exact Or.inr h1.1

theorem no_wrap_append (trace rest : List libtrace_packet_t)
    (h : no_wrap (trace ++ rest) = true) : no_wrap trace = true := by
  unfold no_wrap at h ⊢
  rw [List.all_append, Bool.and_eq_true] at h
  exact h.1

/-- The states along a trace without a SYN after the first data packet of its
direction and without a packet whose `seq + payload` passes `2^32 - 1`. -/
theorem reordering_run_create_regular {σ : Type} (rtt_module : rtt_module_t σ)
    (trace rest : List libtrace_packet_t) (r : reordering_t σ)
    (hsyn : ∀ d : Int, d = 0 ∨ d = 1 → no_syn_after_data d (trace ++ rest) = true)
    (hwrap : no_wrap (trace ++ rest) = true)
    (hrun : reordering_run rtt_module (reordering_create rtt_module) trace = .ok r) :
    reordering_regular rtt_module r := by
  refine reordering_run_regular rtt_module trace _ r reordering_regular.create ?_
    (fun d hd => no_syn_after_data_append d trace rest (hsyn d hd))
    (no_wrap_append trace rest hwrap) hrun
  intro d _
  left
  exact reordering_record_cases _ d (fun record => sender_keys record = []) rfl rfl

/-! ### Claims on the order of the queues -/

/-- The state after `gap_partly_filled` is reached by regular packets. -/
theorem gap_partly_filled_regular :
    reordering_regular rtt_handshake_rtt_module
      (classifier_after rtt_handshake_rtt_module gap_partly_filled) :=
  reordering_run_create_regular rtt_handshake_rtt_module gap_partly_filled [] _
    (by
      intro d hd
      rcases hd with hd | hd
      · rw [hd]
        decide!
      · rw [hd]
        decide!)
    (by decide!) (by decide!)

/-- C27 (corrected). In every classifier state that `reordering_create` and
calls of `reordering_update` reach, when every SYN arrived while all records
queued in its direction had a sequence number below `seq + 1` (modulo `2^32`)
of the SYN and every packet with payload and without SYN at or above the
expected sequence number had `seq + payload` at most `2^32 - 1`: the array
records of the queue of each direction ascend strictly in `seq` from bottom to
top, and every one of them has a `seq` below the expected sequence number of
the direction. -/
theorem queue_ascending_below_expected {σ : Type} (rtt_module : rtt_module_t σ)
    (r : reordering_t σ) (h : reordering_regular rtt_module r) (d : Int) :
    ((sender_items (r.record d)).map (fun slot => slot.packet.seq)).Pairwise (fun a b => a < b)
      ∧ ∀ slot ∈ sender_items (r.record d), slot.packet.seq < (r.record d).expected_seq :=
  reordering_record_cases r d
    (fun record =>
      ((sender_items record).map (fun slot => slot.packet.seq)).Pairwise (fun a b => a < b)
        ∧ ∀ slot ∈ sender_items record, slot.packet.seq < record.expected_seq)
    (sender_ordered_array _ (reordering_regular_ordered rtt_module r h).2.record_0)
    (sender_ordered_array _ (reordering_regular_ordered rtt_module r h).2.record_1)

/-- The queue of A after `gap_partly_filled` (records 1, 101 and 301, expected
sequence number 401) ascends and lies below the expected sequence number. -/
theorem queue_ascending_below_expected_witness :
    reordering_regular rtt_handshake_rtt_module
        (classifier_after rtt_handshake_rtt_module gap_partly_filled)
      ∧ (sender_items
            ((classifier_after rtt_handshake_rtt_module gap_partly_filled).record 0)).map
          (fun slot => slot.packet.seq) = [1, 101, 301]
      ∧ ((sender_items
            ((classifier_after rtt_handshake_rtt_module gap_partly_filled).record 0)).map
          (fun slot => slot.packet.seq)).Pairwise (fun a b => a < b)
      ∧ ∀ slot ∈ sender_items
            ((classifier_after rtt_handshake_rtt_module gap_partly_filled).record 0),
          slot.packet.seq
            < ((classifier_after rtt_handshake_rtt_module gap_partly_filled).record
                0).expected_seq :=
  ⟨gap_partly_filled_regular, by decide!,
    queue_ascending_below_expected rtt_handshake_rtt_module _ gap_partly_filled_regular 0⟩

/-- C27, counterexample. A SYN after data: after `syn_after_data` (segment at
100, SYN with 49, segment at 50) `reordering_update` has returned three times,
the queue of A holds the records 0, 100, 50 in this order and the expected
sequence number is 60. Sequence numbers that pass `2^32`: after
`sequence_wraps` the queue of A holds 0, `2^32 - 100`, 100 and the expected
sequence number is 110. Neither queue ascends, and each holds a record at or
above the expected sequence number. -/
theorem queue_not_ascending :
    (reordering_run rtt_handshake_rtt_module (reordering_create rtt_handshake_rtt_module)
        syn_after_data).map
      (fun r => ((sender_items (r.record 0)).map (fun slot => slot.packet.seq),
        (r.record 0).expected_seq)) = .ok ([0, 100, 50], 60)
    ∧ (reordering_run rtt_handshake_rtt_module (reordering_create rtt_handshake_rtt_module)
        sequence_wraps).map
      (fun r => ((sender_items (r.record 0)).map (fun slot => slot.packet.seq),
        (r.record 0).expected_seq)) = .ok ([0, 4294967196, 100], 110) := by
  decide!

/-- C28. Missing-link chain order. For every trace in which no SYN of a
direction arrives after the first data packet of that direction (a packet with
payload that is no SYN) and no packet has `seq + payload` above `2^32 - 1`, in
every state that `reordering_update` reaches from `reordering_create` along
the trace, the chain of every array record of either queue ascends strictly in
`seq`, lies above the `seq` of the record that owns it, holds placeholders
only, and all its links (the last one, too) have a `seq` below the `seq` of
the next array record. -/
theorem missing_link_chain_order {σ : Type} (rtt_module : rtt_module_t σ)
    (trace rest : List libtrace_packet_t) (r : reordering_t σ)
    (hsyn0 : no_syn_after_data 0 (trace ++ rest) = true)
    (hsyn1 : no_syn_after_data 1 (trace ++ rest) = true)
    (hwrap : no_wrap (trace ++ rest) = true)
    (hrun : reordering_run rtt_module (reordering_create rtt_module) trace = .ok r)
    (d : Int) (i : Nat) (slot : packet_slot_t)
    (hslot : (sender_items (r.record d))[i]? = some slot) :
    (slot.missing_link.map (fun l => l.seq)).Pairwise (fun a b => a < b)
      ∧ (∀ l ∈ slot.missing_link, slot.packet.seq < l.seq)
      ∧ (∀ l ∈ slot.missing_link, l.is_missing = true)
      ∧ ∀ next, (sender_items (r.record d))[i + 1]? = some next →
          ∀ l ∈ slot.missing_link, l.seq < next.packet.seq := by
  have hreg := reordering_run_create_regular rtt_module trace rest r
    (by
      intro d hd
      rcases hd with hd | hd
      · rw [hd]
        exact hsyn0
      · rw [hd]
        exact hsyn1)
    hwrap hrun
  have hord := (reordering_regular_ordered rtt_module r hreg).2
  exact sender_ordered_chain (r.record d)
    (reordering_record_cases r d sender_ordered hord.record_0 hord.record_1) i slot hslot

/-- The chain of the placeholder 101 after `gap_partly_filled`: the one link
201, a placeholder, between 101 and the next array record 301. -/
theorem missing_link_chain_order_witness :
    no_syn_after_data 0 (gap_partly_filled ++ []) = true
      ∧ no_syn_after_data 1 (gap_partly_filled ++ []) = true
      ∧ no_wrap (gap_partly_filled ++ []) = true
      ∧ reordering_run rtt_handshake_rtt_module (reordering_create rtt_handshake_rtt_module)
          gap_partly_filled
            = .ok (classifier_after rtt_handshake_rtt_module gap_partly_filled)
      ∧ (sender_items
          ((classifier_after rtt_handshake_rtt_module gap_partly_filled).record 0))[1]?
            = some gap_placeholder
      ∧ (gap_placeholder.missing_link.map (fun l => l.seq)).Pairwise (fun a b => a < b)
      ∧ (∀ l ∈ gap_placeholder.missing_link, gap_placeholder.packet.seq < l.seq)
      ∧ (∀ l ∈ gap_placeholder.missing_link, l.is_missing = true)
      ∧ ∀ next,
          (sender_items
            ((classifier_after rtt_handshake_rtt_module gap_partly_filled).record 0))[1 + 1]?
              = some next →
          ∀ l ∈ gap_placeholder.missing_link, l.seq < next.packet.seq :=
  ⟨by decide!, by decide!, by decide!, by decide!, by decide!,
    missing_link_chain_order rtt_handshake_rtt_module gap_partly_filled []
      (classifier_after rtt_handshake_rtt_module gap_partly_filled) (by decide!) (by decide!)
      (by decide!) (by decide!) 0 1 gap_placeholder (by decide!)⟩

/-! ### Claim on flows whose segments all arrive in order -/

theorem sender_plain_keys (record : sender_record_t) :
    sender_plain record ↔ ∀ c ∈ sender_keys record, ∃ s : Nat, c = [(s, false)] := by
  unfold sender_plain sender_keys
  constructor
  · intro h c hc
    rw [List.mem_map] at hc
    obtain ⟨slot, hslot, rfl⟩ := hc
    obtain ⟨h1, h2⟩ := h slot hslot
    refine ⟨slot.packet.seq, ?_⟩
    unfold slot_keys packet_key
    rw [h2]
    simp only [List.map_cons, List.map_nil, h1]
  · intro h slot hslot
    obtain ⟨s, hs⟩ := h (slot_keys slot) (List.mem_map_of_mem _ hslot)
    unfold slot_keys packet_key at hs
    simp only [List.map_cons, List.cons.injEq, Prod.mk.injEq, List.map_eq_nil_iff] at hs
    exact ⟨hs.1.2, hs.2⟩

theorem in_order_arrivals_append {σ : Type} (rtt_module : rtt_module_t σ) (d : Int) :
    ∀ (pre post : List libtrace_packet_t) (r after : reordering_t σ),
      in_order_arrivals rtt_module d r (pre ++ post) = true →
      reordering_run rtt_module r pre = .ok after →
      in_order_arrivals rtt_module d after post = true := by
  intro pre
  induction pre with
  | nil =>
    intro post r after h hrun
    cases hrun
    exact h
  | cons packet pre ih =>
    intro post r after h hrun
    rw [List.cons_append] at h
    unfold in_order_arrivals at h
    unfold reordering_run at hrun
    cases h1 : reordering_update rtt_module r packet with
    | error e =>
      rw [h1] at hrun
      cases hrun
    | ok r1 =>
      rw [h1] at hrun h
      rw [Bool.and_eq_true] at h
      exact ih post r1 after h.2 hrun

/-- A packet leaves the queue of direction `d` without placeholders and
chains, when it is no data packet of `d` or arrives in order. -/
theorem reordering_update_plain {σ : Type} (rtt_module : rtt_module_t σ)
    (r after : reordering_t σ) (hwf : reordering_wf r) (packet : libtrace_packet_t)
    (h : reordering_update rtt_module r packet = .ok after) (d : Int) (hd0 : d = 0 ∨ d = 1)
    (hplain : sender_plain (r.record d)) (hin : arrives_in_order d r packet = true) :
    sender_plain (after.record d) := by
  obtain ⟨ip, tcp, hip, htcp, hcase⟩ := reordering_update_inv rtt_module r after packet h
  rcases hcase with ⟨_, hsame⟩ | ⟨hd, rtt_data, hmod, hsyn | ⟨hsyn, hrest⟩⟩
  · rw [hsame]
    exact hplain
  · obtain ⟨a, h1, h2, h3, _⟩ :=
      reordering_update_syn rtt_module r packet ip tcp rtt_data hip htcp hd hsyn hmod
    rw [h] at h1
    cases h1
    by_cases hdir : packet.direction = d
    · rw [← hdir, h2]
      rw [← hdir] at hplain
      exact hplain
    · have hother : 1 - packet.direction = d := by omega
      rw [← hother, h3]
      rw [← hother] at hplain
      exact hplain
  · obtain ⟨own, other, type, message, lag, freed, hupd, hack⟩ := hrest
    obtain ⟨a, h1, h2, h3, _⟩ := reordering_update_nonsyn rtt_module r packet ip tcp rtt_data
      own other type message lag freed hip htcp hd hsyn hmod hupd hack
    rw [h] at h1
    cases h1
    by_cases hdir : packet.direction = d
    · rw [← hdir, h2]
      rw [← hdir] at hplain hin
      by_cases hp : payload_length ip tcp > 0
      · rw [if_pos hp] at hupd
        have hseq : ntohl tcp.seq = (r.record packet.direction).expected_seq := by
          unfold arrives_in_order is_data at hin
          rw [hip, htcp] at hin
          simpa [hsyn, hp] using hin
        obtain ⟨_, hcase⟩ := reordering_update_data_ok _ (reordering_wf_record r hwf _) _ _ _ _
          _ _ _ _ _ _ hupd
        rcases hcase with ⟨hgt, _⟩ | ⟨_, _, _, _, _, _, _, flag, hitems⟩ | ⟨hlt, _⟩
        · omega
        · unfold sender_plain
          rw [hitems]
          intro slot hslot
          rw [List.mem_append, List.mem_singleton] at hslot
          rcases hslot with hslot | hslot
          · exact hplain slot hslot
          · rw [hslot]
            exact ⟨rfl, rfl⟩
        · omega
      · rw [if_neg hp] at hupd
        cases hupd
        exact hplain
    · have hother : 1 - packet.direction = d := by omega
      obtain ⟨a, f, k, h4, _, _, _, _, _, h10⟩ := sender_record_ack_ok
        (r.record (1 - packet.direction)) (reordering_wf_record r hwf _) (ntohl tcp.ack_seq)
      rw [hack] at h4
      cases h4
      rw [← hother, h3]
      rw [← hother] at hplain
      rw [sender_plain_keys] at hplain ⊢
      intro c hc
      rw [h10] at hc
      exact hplain c (List.mem_of_mem_drop hc)

/-- The queue of direction `d` stays without placeholders and chains along a
trace whose data packets of `d` arrive in order. -/
theorem reordering_run_plain {σ : Type} (rtt_module : rtt_module_t σ) (d : Int)
    (hd : d = 0 ∨ d = 1) :
    ∀ (pre post : List libtrace_packet_t) (r after : reordering_t σ), reordering_wf r →
      sender_plain (r.record d) →
      in_order_arrivals rtt_module d r (pre ++ post) = true →
      reordering_run rtt_module r pre = .ok after → sender_plain (after.record d) := by
  intro pre
  induction pre with
  | nil =>
    intro post r after _ hplain _ hrun
    cases hrun
    exact hplain
  | cons packet pre ih =>
    intro post r after hwf hplain h hrun
    rw [List.cons_append] at h
    unfold in_order_arrivals at h
    unfold reordering_run at hrun
    cases h1 : reordering_update rtt_module r packet with
    | error e =>
      rw [h1] at hrun
      cases hrun
    | ok r1 =>
      rw [h1] at hrun h
      rw [Bool.and_eq_true] at h
      exact ih post r1 after (reordering_update_wf rtt_module r r1 hwf packet h1)
        (reordering_update_plain rtt_module r r1 hwf packet h1 d hd hplain h.1) h.2 hrun

theorem uint32_add_mod (seq : Nat) (payload : Int) :
    (uint32_add seq payload : Int) = ((seq : Int) + payload) % 4294967296 := by
  unfold uint32_add
  omega

/-- C29 (corrected). All-in-order law. For every trace and direction `d` of 0
and 1 in which every data packet of `d` (payload above 0, no SYN) arrives with
the sequence number that is the expected one of `d` at that moment: in every
state `r` along the trace the queue of `d` holds no placeholder and no chain;
and for every such data packet, when the RTT module returns and the queue of
`d` holds fewer than 65520 records, `reordering_update` returns, the packet
is classified INORDER with message 0 and time lag 0, and the expected sequence
number of `d` afterwards is `seq + payload` modulo `2^32`. -/
theorem all_in_order_law {σ : Type} (rtt_module : rtt_module_t σ) (d : Int)
    (hd : d = 0 ∨ d = 1) (pre post : List libtrace_packet_t) (r : reordering_t σ)
    (hin : in_order_arrivals rtt_module d (reordering_create rtt_module) (pre ++ post) = true)
    (hrun : reordering_run rtt_module (reordering_create rtt_module) pre = .ok r) :
    (∀ slot ∈ sender_items (r.record d),
        slot.packet.is_missing = false ∧ slot.missing_link = [])
      ∧ ∀ (packet : libtrace_packet_t) (rest : List libtrace_packet_t) (ip : libtrace_ip)
          (tcp : libtrace_tcp) (rtt_data : σ),
          post = packet :: rest → is_data d packet = true →
          packet.ip = some ip → packet.tcp = some tcp →
          rtt_module.update r.rtt_data packet = .ok rtt_data →
          (r.record d).length < 65520 →
          ∃ after : reordering_t σ,
            reordering_update rtt_module r packet = .ok after
              ∧ reordering_get_type after = reordering_type_t.INORDER
              ∧ after.last_packet_message = 0
              ∧ reordering_get_time_lag after = 0
              ∧ ((after.record d).expected_seq : Int)
                  = ((ntohl tcp.seq : Int) + payload_length ip tcp) % 4294967296 := by
  have hwf := reordering_run_wf rtt_module pre _ r (reordering_wf_create rtt_module) hrun
  refine ⟨reordering_run_plain rtt_module d hd pre post _ r (reordering_wf_create rtt_module)
    (reordering_record_cases _ d sender_plain (fun _ h => by cases h) (fun _ h => by cases h))
    hin hrun, ?_⟩
  intro packet rest ip tcp rtt_data hpost hdata hip htcp hmod hroom
  have hpost_in := in_order_arrivals_append rtt_module d pre post _ r hin hrun
  rw [hpost] at hpost_in
  unfold in_order_arrivals at hpost_in
  rw [Bool.and_eq_true] at hpost_in
  have harr := hpost_in.1
  unfold arrives_in_order at harr
  rw [hdata, htcp] at harr
  simp only [Bool.not_true, Bool.false_or, decide_eq_true_eq] at harr
  unfold is_data at hdata
  rw [hip, htcp] at hdata
  simp only [Bool.and_eq_true, decide_eq_true_eq, Bool.not_eq_true'] at hdata
  obtain ⟨⟨hdir, hsyn⟩, hp⟩ := hdata
  rw [← hdir] at harr hroom
  obtain ⟨own, flag, hi1, _, _, hi4, _⟩ := reordering_update_data_inorder
    (r.record packet.direction) (reordering_wf_record r hwf _) (by omega) (ntohl tcp.seq)
    (payload_length ip tcp) (trace_get_seconds packet) (ntohs ip.ip_id)
    (reordering_update_rtt r.min_rtt (rtt_module.inside_rtt rtt_data)
      (rtt_module.outside_rtt rtt_data)).1
    (reordering_update_rtt r.min_rtt (rtt_module.inside_rtt rtt_data)
      (rtt_module.outside_rtt rtt_data)).2.1 harr
  obtain ⟨other, freed, _, hack, _⟩ := sender_record_ack_ok (r.record (1 - packet.direction))
    (reordering_wf_record r hwf _) (ntohl tcp.ack_seq)
  obtain ⟨after, h1, h2, _, _, _, h6, h7, h8⟩ := reordering_update_nonsyn rtt_module r packet
    ip tcp rtt_data own other reordering_type_t.INORDER 0 0 freed hip htcp (hdir ▸ hd) hsyn hmod
    (by
      rw [if_pos hp]
      exact hi1)
    hack
  refine ⟨after, h1, h6, h7, h8, ?_⟩
  rw [← hdir, h2, hi4, ← harr]
  exact uint32_add_mod _ _

/-- The second segment of `two_segments` arrives in order: the queue of A
before it holds no placeholder and no chain, the segment is classified INORDER
with message 0 and time lag 0, and the expected sequence number of A
afterwards is 201. -/
theorem all_in_order_law_witness :
    in_order_arrivals rtt_handshake_rtt_module 0 (reordering_create rtt_handshake_rtt_module)
        (two_segments.take 4 ++ two_segments.drop 4) = true
      ∧ reordering_run rtt_handshake_rtt_module (reordering_create rtt_handshake_rtt_module)
          (two_segments.take 4)
            = .ok (classifier_after rtt_handshake_rtt_module (two_segments.take 4))
      ∧ (∀ slot ∈ sender_items
            ((classifier_after rtt_handshake_rtt_module (two_segments.take 4)).record 0),
          slot.packet.is_missing = false ∧ slot.missing_link = [])
      ∧ ∃ after : reordering_t rtt_handshake_record_t,
          reordering_update rtt_handshake_rtt_module
              (classifier_after rtt_handshake_rtt_module (two_segments.take 4))
              (tcp_segment (eighths 12) 0 4 101 5001 100 false true) = .ok after
            ∧ reordering_get_type after = reordering_type_t.INORDER
            ∧ after.last_packet_message = 0
            ∧ reordering_get_time_lag after = 0
            ∧ (after.record 0).expected_seq = 201 := by
  have hin : in_order_arrivals rtt_handshake_rtt_module 0
      (reordering_create rtt_handshake_rtt_module)
      (two_segments.take 4 ++ two_segments.drop 4) = true := by decide!
  have hrun : reordering_run rtt_handshake_rtt_module
      (reordering_create rtt_handshake_rtt_module) (two_segments.take 4)
      = .ok (classifier_after rtt_handshake_rtt_module (two_segments.take 4)) := by decide!
  obtain ⟨hplain, hstep⟩ := all_in_order_law rtt_handshake_rtt_module 0 (Or.inl rfl)
    (two_segments.take 4) (two_segments.drop 4) _ hin hrun
  obtain ⟨after, h1, h2, h3, h4, h5⟩ := hstep
    (tcp_segment (eighths 12) 0 4 101 5001 100 false true) [] _ _ _ rfl (by decide!) rfl rfl rfl
    (by decide!)
  refine ⟨hin, hrun, hplain, after, h1, h2, h3, h4, ?_⟩
  have h6 : ((after.record 0).expected_seq : Int) = 201 := by
    rw [h5]
    decide!
  exact_mod_cast h6

/-- C29, counterexample. A SYN that carries payload: `syn_with_payload` has
sequence number 0, the expected sequence number of the fresh state, and 100
bytes of payload; `reordering_update` classifies it INORDER with message 0 and
sets the expected sequence number to 1, not to 100. Sequence numbers that pass
`2^32`: the segment of `in_order_wrap` arrives in order at `2^32 - 100` with
200 bytes, and the expected sequence number afterwards is 100, not
`2^32 + 100`. -/
theorem syn_payload_not_counted :
    (syn_with_payload.ip.bind fun ip => syn_with_payload.tcp.map fun tcp =>
        (ntohl tcp.seq, payload_length ip tcp, tcp.syn)) = some (0, 100, true)
      ∧ ((reordering_create rtt_handshake_rtt_module).record 0).expected_seq = 0
      ∧ (reordering_update rtt_handshake_rtt_module
            (reordering_create rtt_handshake_rtt_module) syn_with_payload).map
          (fun r => (reordering_get_type r, r.last_packet_message, (r.record 0).expected_seq))
            = .ok (reordering_type_t.INORDER, 0, 1)
      ∧ in_order_arrivals rtt_handshake_rtt_module 0
          (reordering_create rtt_handshake_rtt_module) in_order_wrap = true
      ∧ (reordering_run rtt_handshake_rtt_module (reordering_create rtt_handshake_rtt_module)
            in_order_wrap).map
          (fun r => (reordering_get_type r, r.last_packet_message, (r.record 0).expected_seq))
            = .ok (reordering_type_t.INORDER, 0, 100) := by
  decide!

/-! ### Claim on the retransmission after duplicate acknowledgements -/

/-- The sender records after a call of `reordering_update` that returns, for a
packet of direction 0 or 1. -/
theorem reordering_update_of_ok {σ : Type} (rtt_module : rtt_module_t σ)
    (r after : reordering_t σ) (packet : libtrace_packet_t) (ip : libtrace_ip)
    (tcp : libtrace_tcp) (hip : packet.ip = some ip) (htcp : packet.tcp = some tcp)
    (hd : packet.direction = 0 ∨ packet.direction = 1)
    (h : reordering_update rtt_module r packet = .ok after) :
    (tcp.syn = true
        ∧ after.record packet.direction
            = { r.record packet.direction with
                expected_seq := (ntohl tcp.seq + 1) % 4294967296 }
        ∧ after.record (1 - packet.direction) = r.record (1 - packet.direction))
      ∨ (tcp.syn = false
        ∧ ∃ (rtt_data : σ) (type : reordering_type_t) (message : Nat) (lag : ℚ)
            (freed : List packet_record_t),
            rtt_module.update r.rtt_data packet = .ok rtt_data
              ∧ (if payload_length ip tcp > 0 then
                  reordering_update_data (r.record packet.direction) (ntohl tcp.seq)
                    (payload_length ip tcp) (trace_get_seconds packet) (ntohs ip.ip_id)
                    (reordering_update_rtt r.min_rtt (rtt_module.inside_rtt rtt_data)
                      (rtt_module.outside_rtt rtt_data)).1
                    (reordering_update_rtt r.min_rtt (rtt_module.inside_rtt rtt_data)
                      (rtt_module.outside_rtt rtt_data)).2.1
                else .ok (r.record packet.direction, reordering_type_t.INORDER, 0, 0))
                  = .ok (after.record packet.direction, type, message, lag)
              ∧ sender_record_ack (r.record (1 - packet.direction)) (ntohl tcp.ack_seq)
                  = .ok (after.record (1 - packet.direction), freed)) := by
  obtain ⟨ip1, tcp1, hip1, htcp1, hcase⟩ := reordering_update_inv rtt_module r after packet h
  rw [hip] at hip1
  rw [htcp] at htcp1
  cases hip1
  cases htcp1
  rcases hcase with ⟨hout, _⟩ | ⟨_, rtt_data, hmod, hsyn | ⟨hsyn, hrest⟩⟩
  · omega
  · obtain ⟨a, h1, h2, h3, _⟩ :=
      reordering_update_syn rtt_module r packet ip tcp rtt_data hip htcp hd hsyn hmod
    rw [h] at h1
    cases h1
    exact Or.inl ⟨hsyn, h2, h3⟩
  · obtain ⟨own, other, type, message, lag, freed, hupd, hack⟩ := hrest
    obtain ⟨a, h1, h2, h3, _⟩ := reordering_update_nonsyn rtt_module r packet ip tcp rtt_data
      own other type message lag freed hip htcp hd hsyn hmod hupd hack
    rw [h] at h1
    cases h1
    rw [← h2] at hupd
    rw [← h3] at hack
    exact Or.inr ⟨hsyn, rtt_data, type, message, lag, freed, hmod, hupd, hack⟩

/-- An acknowledgement number at or below the sequence number of the bottom
record, or for an empty queue, leaves the sender record as it is. -/
theorem sender_record_ack_noop (record : sender_record_t) (hwf : sender_wf record) (ack : Nat)
    (h : ∀ bottom, (sender_items record).head? = some bottom → ack ≤ bottom.packet.seq) :
    sender_record_ack record ack = .ok (record, []) :=
  (sender_record_ack_spec record hwf ack).1 h

/-- An acknowledgement number above the sequence number of the bottom record
and at or below the one of the record after it: the bottom record, which has
no chain, counts one more acknowledgement. -/
theorem sender_record_ack_bottom (record : sender_record_t) (hwf : sender_wf record)
    (ack : Nat) (bottom : packet_slot_t) (rest : List packet_slot_t)
    (hitems : sender_items record = bottom :: rest) (hlt : bottom.packet.seq < ack)
    (hrest : ∀ s, rest.head? = some s → ack ≤ s.packet.seq)
    (hchain : bottom.missing_link = []) :
    ∃ (after : sender_record_t) (freed : List packet_record_t),
      sender_record_ack record ack = .ok (after, freed)
        ∧ sender_wf after
        ∧ sender_items after
            = { bottom with
                packet := { bottom.packet with
                            num_acks := (bottom.packet.num_acks + 1) % 256 } } :: rest
        ∧ after.expected_seq = record.expected_seq := by
  obtain ⟨after, slot, after_slot, h1, h2, h3, h4, h5, h6, _⟩ :=
    (sender_record_ack_spec record hwf ack).2 bottom (by rw [hitems]; rfl) hlt
  have hk : (sender_items record).tail.takeWhile (fun s => decide (s.packet.seq < ack)) = [] := by
    rw [hitems, List.tail_cons]
    cases rest with
    | nil => rfl
    | cons s rest =>
      have := hrest s rfl
      rw [List.takeWhile_cons_of_neg]
      simp only [decide_eq_true_eq]
      omega
  rw [hk] at h1 h3 h5
  rw [hitems] at h1 h5
  simp only [List.length_nil, List.getElem?_cons_zero, Option.some.injEq] at h1
  subst h1
  rw [hchain] at h2
  simp only [List.takeWhile_nil, List.length_nil, packet_slot_t.modify,
    Option.some.injEq] at h2
  subst h2
  exact ⟨after, _, h3, h4, h5, h6⟩

theorem list_takeWhile_split {α : Type} (p : α → Bool) (A B : List α) (x : α)
    (hA : ∀ a ∈ A, p a = true) (hx : p x = true) (hB : ∀ b, B.head? = some b → p b = false) :
    (A ++ x :: B).takeWhile p = A ++ [x] := by
  induction A with
  | nil =>
    simp only [List.nil_append]
    rw [List.takeWhile_cons_of_pos hx]
    cases B with
    | nil => rfl
    | cons b B =>
      rw [List.takeWhile_cons_of_neg]
      rw [hB b rfl]
      simp
  | cons a A ih =>
    rw [List.cons_append, List.takeWhile_cons_of_pos (hA a (List.mem_cons_self _ _)), ih]
    · rfl
    · intro a' ha'
      exact hA a' (List.mem_cons_of_mem _ ha')

/-- The record that `sender_record_find` returns for a queue given from bottom
to top, when the array element it stops at has no chain. -/
theorem sender_record_find_at (record : sender_record_t) (hwf : sender_wf record) (t : Nat)
    (A : List packet_slot_t) (slot : packet_slot_t) (B : List packet_slot_t)
    (hitems : sender_items record = A ++ slot :: B)
    (hA : ∀ s ∈ A, s.packet.seq ≤ t) (hs : slot.packet.seq ≤ t)
    (hB : ∀ s, B.head? = some s → t < s.packet.seq) (hchain : slot.missing_link = []) :
    sender_record_find record t
        = .ok (some { idx := (record.lower_idx + A.length) % record.array_size, link := 0 })
      ∧ packet_deref record
          { idx := (record.lower_idx + A.length) % record.array_size, link := 0 }
        = .ok slot.packet := by
  have harr := sender_record_find_array_spec record hwf t record.length 0 none (by omega)
  rw [List.drop_zero, Nat.add_zero] at harr
  have hidx : record.lower_idx % record.array_size = record.lower_idx := by
    rcases hwf.lower with h | h
    · exact Nat.mod_eq_of_lt h
    · rw [h, Nat.zero_mod]
  rw [hidx] at harr
  have hget : (sender_items record)[A.length]? = some slot := by
    rw [hitems, List.getElem?_append_right (Nat.le_refl _), Nat.sub_self,
      List.getElem?_cons_zero]
  obtain ⟨_, hslot⟩ := sender_items_array record hwf A.length slot hget
  rw [hitems, list_takeWhile_split _ A B slot
    (fun a ha => by simpa using hA a ha) (by simpa using hs)
    (fun b hb => by simpa using hB b hb)] at harr
  simp only [List.length_append, List.length_singleton] at harr
  refine ⟨?_, packet_deref_items record hwf A.length 0 slot slot.packet hget rfl⟩
  unfold sender_record_find
  rw [harr]
  simp only [hslot]
  split
  · rfl
  · rw [hchain]
    rfl

theorem reordering_run_cons_ok {σ : Type} (rtt_module : rtt_module_t σ) (r after : reordering_t σ)
    (packet : libtrace_packet_t) (rest : List libtrace_packet_t)
    (h : reordering_run rtt_module r (packet :: rest) = .ok after) :
    ∃ r1, reordering_update rtt_module r packet = .ok r1
      ∧ reordering_run rtt_module r1 rest = .ok after := by
  unfold reordering_run at h
  cases h1 : reordering_update rtt_module r packet with
  | error e =>
    rw [h1] at h
    cases h
  | ok r1 =>
    rw [h1] at h
    exact ⟨r1, rfl, h⟩

theorem payload_length_tcp_segment (erf_timestamp : Nat) (direction : Int)
    (ip_id seq ack_seq payload : Nat) (syn ack : Bool) (h : 40 + payload < 65536)
    (ip : libtrace_ip) (tcp : libtrace_tcp)
    (hip : (tcp_segment erf_timestamp direction ip_id seq ack_seq payload syn ack).ip = some ip)
    (htcp : (tcp_segment erf_timestamp direction ip_id seq ack_seq payload syn ack).tcp
      = some tcp) :
    payload_length ip tcp = payload := by
  cases hip
  cases htcp
  unfold payload_length
  simp only [ntohs_htons _ h]
  omega

/-- A SYN of direction `a` sets the expected sequence number of `a`. -/
theorem queues_are_syn_own {σ : Type} (rtt_module : rtt_module_t σ) (r after : reordering_t σ)
    (a : Int) (items : List packet_slot_t) (e : Nat) (hq : queues_are r a items e)
    (packet : libtrace_packet_t) (ip : libtrace_ip) (tcp : libtrace_tcp)
    (hip : packet.ip = some ip) (htcp : packet.tcp = some tcp) (ha : a = 0 ∨ a = 1)
    (hdir : packet.direction = a) (hsyn : tcp.syn = true)
    (h : reordering_update rtt_module r packet = .ok after) :
    queues_are after a items ((ntohl tcp.seq + 1) % 4294967296) := by
  obtain ⟨hwf, h1, _, h3⟩ := hq
  have hwfa := reordering_update_wf rtt_module r after hwf packet h
  rcases reordering_update_of_ok rtt_module r after packet ip tcp hip htcp (hdir ▸ ha) h with
    ⟨_, hown, hother⟩ | ⟨hno, _⟩
  · rw [hdir] at hown hother
    refine ⟨hwfa, ?_, ?_, ?_⟩
    · rw [hown]
      exact h1
    · rw [hown]
    · rw [hother]
      exact h3
  · rw [hsyn] at hno
    cases hno

/-- A SYN of the other direction leaves the queues and the expected sequence
number of `a`. -/
theorem queues_are_syn_other {σ : Type} (rtt_module : rtt_module_t σ) (r after : reordering_t σ)
    (a : Int) (items : List packet_slot_t) (e : Nat) (hq : queues_are r a items e)
    (packet : libtrace_packet_t) (ip : libtrace_ip) (tcp : libtrace_tcp)
    (hip : packet.ip = some ip) (htcp : packet.tcp = some tcp) (ha : a = 0 ∨ a = 1)
    (hdir : packet.direction = 1 - a) (hsyn : tcp.syn = true)
    (h : reordering_update rtt_module r packet = .ok after) :
    queues_are after a items e := by
  obtain ⟨hwf, h1, h2, h3⟩ := hq
  have hwfa := reordering_update_wf rtt_module r after hwf packet h
  have hback : 1 - (1 - a) = a := by omega
  rcases reordering_update_of_ok rtt_module r after packet ip tcp hip htcp
    (by rw [hdir]; omega) h with ⟨_, hown, hother⟩ | ⟨hno, _⟩
  · rw [hdir] at hown hother
    rw [hback] at hother
    refine ⟨hwfa, ?_, ?_, ?_⟩
    · rw [hother]
      exact h1
    · rw [hother]
      exact h2
    · rw [hown]
      exact h3
  · rw [hsyn] at hno
    cases hno

/-- A packet of direction `a` without payload and without SYN leaves the
queues and the expected sequence number of `a`. -/
theorem queues_are_ack_own {σ : Type} (rtt_module : rtt_module_t σ) (r after : reordering_t σ)
    (a : Int) (items : List packet_slot_t) (e : Nat) (hq : queues_are r a items e)
    (packet : libtrace_packet_t) (ip : libtrace_ip) (tcp : libtrace_tcp)
    (hip : packet.ip = some ip) (htcp : packet.tcp = some tcp) (ha : a = 0 ∨ a = 1)
    (hdir : packet.direction = a) (hsyn : tcp.syn = false)
    (hp : ¬ payload_length ip tcp > 0)
    (h : reordering_update rtt_module r packet = .ok after) :
    queues_are after a items e := by
  obtain ⟨hwf, h1, h2, h3⟩ := hq
  have hwfa := reordering_update_wf rtt_module r after hwf packet h
  rcases reordering_update_of_ok rtt_module r after packet ip tcp hip htcp (hdir ▸ ha) h with
    ⟨hyes, _⟩ | ⟨_, rtt_data, type, message, lag, freed, _, hupd, hack⟩
  · rw [hsyn] at hyes
    cases hyes
  · rw [if_neg hp] at hupd
    rw [hdir] at hupd hack
    simp only [Except.ok.injEq, Prod.mk.injEq] at hupd
    rw [sender_record_ack_noop _ (reordering_wf_record r hwf _) _ (by
      intro bottom hb
      rw [h3] at hb
      cases hb)] at hack
    simp only [Except.ok.injEq, Prod.mk.injEq] at hack
    refine ⟨hwfa, ?_, ?_, ?_⟩
    · rw [← hupd.1]
      exact h1
    · rw [← hupd.1]
      exact h2
    · rw [← hack.1]
      exact h3

/-- A segment of direction `a` at the expected sequence number goes to the top
of the queue of `a`. -/
theorem queues_are_data {σ : Type} (rtt_module : rtt_module_t σ) (r after : reordering_t σ)
    (a : Int) (items : List packet_slot_t) (e : Nat) (hq : queues_are r a items e)
    (packet : libtrace_packet_t) (ip : libtrace_ip) (tcp : libtrace_tcp)
    (hip : packet.ip = some ip) (htcp : packet.tcp = some tcp) (ha : a = 0 ∨ a = 1)
    (hdir : packet.direction = a) (hsyn : tcp.syn = false)
    (hp : payload_length ip tcp > 0) (hseq : ntohl tcp.seq = e)
    (h : reordering_update rtt_module r packet = .ok after) :
    ∃ flag : Bool,
      queues_are after a
        (items ++ [segment_slot e (trace_get_seconds packet) (ntohs ip.ip_id) 0 flag])
        (uint32_add e (payload_length ip tcp)) := by
  obtain ⟨hwf, h1, h2, h3⟩ := hq
  have hwfa := reordering_update_wf rtt_module r after hwf packet h
  rcases reordering_update_of_ok rtt_module r after packet ip tcp hip htcp (hdir ▸ ha) h with
    ⟨hyes, _⟩ | ⟨_, rtt_data, type, message, lag, freed, _, hupd, hack⟩
  · rw [hsyn] at hyes
    cases hyes
  · rw [if_pos hp] at hupd
    rw [hdir] at hupd hack
    obtain ⟨_, hcase⟩ := reordering_update_data_ok _ (reordering_wf_record r hwf _) _ _ _ _ _ _
      _ _ _ _ hupd
    rw [sender_record_ack_noop _ (reordering_wf_record r hwf _) _ (by
      intro bottom hb
      rw [h3] at hb
      cases hb)] at hack
    simp only [Except.ok.injEq, Prod.mk.injEq] at hack
    rcases hcase with ⟨hgt, _⟩ | ⟨_, _, _, _, _, hexp, _, flag, hitems⟩ | ⟨hlt, _⟩
    · omega
    · refine ⟨flag, hwfa, ?_, ?_, ?_⟩
      · rw [hitems, h1, hseq]
        rfl
      · rw [hexp, h2]
      · rw [← hack.1]
        exact h3
    · omega

/-- A packet of the other direction without payload and without SYN, with an
acknowledgement number at or below the sequence number of the bottom record of
`a`, leaves the queues. -/
theorem queues_are_ack_noop {σ : Type} (rtt_module : rtt_module_t σ) (r after : reordering_t σ)
    (a : Int) (items : List packet_slot_t) (e : Nat) (hq : queues_are r a items e)
    (packet : libtrace_packet_t) (ip : libtrace_ip) (tcp : libtrace_tcp)
    (hip : packet.ip = some ip) (htcp : packet.tcp = some tcp) (ha : a = 0 ∨ a = 1)
    (hdir : packet.direction = 1 - a) (hsyn : tcp.syn = false)
    (hp : ¬ payload_length ip tcp > 0)
    (hack0 : ∀ bottom, items.head? = some bottom → ntohl tcp.ack_seq ≤ bottom.packet.seq)
    (h : reordering_update rtt_module r packet = .ok after) :
    queues_are after a items e := by
  obtain ⟨hwf, h1, h2, h3⟩ := hq
  have hwfa := reordering_update_wf rtt_module r after hwf packet h
  have hback : 1 - (1 - a) = a := by omega
  rcases reordering_update_of_ok rtt_module r after packet ip tcp hip htcp
    (by rw [hdir]; omega) h with
    ⟨hyes, _⟩ | ⟨_, rtt_data, type, message, lag, freed, _, hupd, hack⟩
  · rw [hsyn] at hyes
    cases hyes
  · rw [if_neg hp] at hupd
    rw [hdir] at hupd hack
    rw [hback] at hack
    simp only [Except.ok.injEq, Prod.mk.injEq] at hupd
    rw [sender_record_ack_noop _ (reordering_wf_record r hwf _) _ (by
      rw [h1]
      exact hack0)] at hack
    simp only [Except.ok.injEq, Prod.mk.injEq] at hack
    refine ⟨hwfa, ?_, ?_, ?_⟩
    · rw [← hack.1]
      exact h1
    · rw [← hack.1]
      exact h2
    · rw [← hupd.1]
      exact h3

/-- A packet of the other direction without payload and without SYN, with an
acknowledgement number between the sequence numbers of the two bottom records
of `a`: the bottom record counts one more acknowledgement. -/
theorem queues_are_ack_bottom {σ : Type} (rtt_module : rtt_module_t σ)
    (r after : reordering_t σ) (a : Int) (bottom : packet_slot_t) (rest : List packet_slot_t)
    (e : Nat) (hq : queues_are r a (bottom :: rest) e)
    (packet : libtrace_packet_t) (ip : libtrace_ip) (tcp : libtrace_tcp)
    (hip : packet.ip = some ip) (htcp : packet.tcp = some tcp) (ha : a = 0 ∨ a = 1)
    (hdir : packet.direction = 1 - a) (hsyn : tcp.syn = false)
    (hp : ¬ payload_length ip tcp > 0)
    (hlt : bottom.packet.seq < ntohl tcp.ack_seq)
    (hrest : ∀ s, rest.head? = some s → ntohl tcp.ack_seq ≤ s.packet.seq)
    (hchain : bottom.missing_link = [])
    (h : reordering_update rtt_module r packet = .ok after) :
    queues_are after a
      ({ bottom with
         packet := { bottom.packet with
                     num_acks := (bottom.packet.num_acks + 1) % 256 } } :: rest) e := by
  obtain ⟨hwf, h1, h2, h3⟩ := hq
  have hwfa := reordering_update_wf rtt_module r after hwf packet h
  have hback : 1 - (1 - a) = a := by omega
  rcases reordering_update_of_ok rtt_module r after packet ip tcp hip htcp
    (by rw [hdir]; omega) h with
    ⟨hyes, _⟩ | ⟨_, rtt_data, type, message, lag, freed, _, hupd, hack⟩
  · rw [hsyn] at hyes
    cases hyes
  · rw [if_neg hp] at hupd
    rw [hdir] at hupd hack
    rw [hback] at hack
    simp only [Except.ok.injEq, Prod.mk.injEq] at hupd
    obtain ⟨acked, freed1, hb1, _, hb3, hb4⟩ := sender_record_ack_bottom (r.record a)
      (reordering_wf_record r hwf _) (ntohl tcp.ack_seq) bottom rest h1 hlt hrest hchain
    rw [hb1] at hack
    simp only [Except.ok.injEq, Prod.mk.injEq] at hack
    refine ⟨hwfa, ?_, ?_, ?_⟩
    · rw [← hack.1]
      exact hb3
    · rw [← hack.1, hb4]
      exact h2
    · rw [← hupd.1]
      exact h3

theorem queues_are_create {σ : Type} (rtt_module : rtt_module_t σ) (a : Int) :
    queues_are (reordering_create rtt_module) a [] 0 :=
  ⟨reordering_wf_create rtt_module,
    reordering_record_cases _ a (fun record => sender_items record = []) rfl rfl,
    reordering_record_cases _ a (fun record => record.expected_seq = 0) rfl rfl,
    reordering_record_cases _ (1 - a) (fun record => sender_items record = []) rfl rfl⟩

theorem segment_syn_own {σ : Type} (rtt_module : rtt_module_t σ) (r after : reordering_t σ)
    (a : Int) (items : List packet_slot_t) (e : Nat) (hq : queues_are r a items e)
    (ha : a = 0 ∨ a = 1) (t id seq ack_seq payload : Nat) (ack : Bool)
    (hseq : seq + 1 < 4294967296)
    (h : reordering_update rtt_module r (tcp_segment t a id seq ack_seq payload true ack)
      = .ok after) :
    queues_are after a items (seq + 1) := by
  have := queues_are_syn_own rtt_module r after a items e hq _ _ _ rfl rfl ha rfl rfl h
  have hn : ntohl (htonl seq) = seq := ntohl_htonl seq (by omega)
  have hm : (ntohl (htonl seq) + 1) % 4294967296 = seq + 1 := by
    rw [hn]
    omega
  rw [← hm]
  exact this

theorem segment_syn_other {σ : Type} (rtt_module : rtt_module_t σ) (r after : reordering_t σ)
    (a : Int) (items : List packet_slot_t) (e : Nat) (hq : queues_are r a items e)
    (ha : a = 0 ∨ a = 1) (t id seq ack_seq payload : Nat) (ack : Bool)
    (h : reordering_update rtt_module r (tcp_segment t (1 - a) id seq ack_seq payload true ack)
      = .ok after) :
    queues_are after a items e :=
  queues_are_syn_other rtt_module r after a items e hq _ _ _ rfl rfl ha rfl rfl h

theorem segment_ack_own {σ : Type} (rtt_module : rtt_module_t σ) (r after : reordering_t σ)
    (a : Int) (items : List packet_slot_t) (e : Nat) (hq : queues_are r a items e)
    (ha : a = 0 ∨ a = 1) (t id seq ack_seq : Nat) (ack : Bool)
    (h : reordering_update rtt_module r (tcp_segment t a id seq ack_seq 0 false ack)
      = .ok after) :
    queues_are after a items e :=
  queues_are_ack_own rtt_module r after a items e hq _ _ _ rfl rfl ha rfl rfl
    (by
      rw [payload_length_tcp_segment t a id seq ack_seq 0 false ack (by omega) _ _ rfl rfl]
      omega)
    h

theorem segment_data {σ : Type} (rtt_module : rtt_module_t σ) (r after : reordering_t σ)
    (a : Int) (items : List packet_slot_t) (e : Nat) (hq : queues_are r a items e)
    (ha : a = 0 ∨ a = 1) (t id ack_seq payload : Nat) (ack : Bool)
    (hp : 0 < payload) (hp2 : 40 + payload < 65536) (he : e + payload < 4294967296)
    (h : reordering_update rtt_module r (tcp_segment t a id e ack_seq payload false ack)
      = .ok after) :
    ∃ flag : Bool,
      queues_are after a
        (items ++ [segment_slot e ((t : ℚ) / 4294967296) (ntohs (htons id)) 0 flag])
        (e + payload) := by
  have hlen := payload_length_tcp_segment t a id e ack_seq payload false ack hp2 _ _ rfl rfl
  have hseq : ntohl (htonl e) = e := ntohl_htonl e (by omega)
  obtain ⟨flag, hq1⟩ := queues_are_data rtt_module r after a items e hq
    (tcp_segment t a id e ack_seq payload false ack) _ _ rfl rfl ha rfl rfl
    (by
      rw [hlen]
      omega)
    hseq h
  rw [hlen] at hq1
  have hadd : uint32_add e (payload : Int) = e + payload := by
    unfold uint32_add
    omega
  rw [hadd] at hq1
  exact ⟨flag, hq1⟩

theorem segment_ack_noop {σ : Type} (rtt_module : rtt_module_t σ) (r after : reordering_t σ)
    (a : Int) (items : List packet_slot_t) (e : Nat) (hq : queues_are r a items e)
    (ha : a = 0 ∨ a = 1) (t id seq ack_seq : Nat) (ack : Bool)
    (hack : ack_seq < 4294967296)
    (hbottom : ∀ bottom, items.head? = some bottom → ack_seq ≤ bottom.packet.seq)
    (h : reordering_update rtt_module r (tcp_segment t (1 - a) id seq ack_seq 0 false ack)
      = .ok after) :
    queues_are after a items e :=
  queues_are_ack_noop rtt_module r after a items e hq _ _ _ rfl rfl ha rfl rfl
    (by
      rw [payload_length_tcp_segment t (1 - a) id seq ack_seq 0 false ack (by omega) _ _ rfl
        rfl]
      omega)
    (by
      intro bottom hb
      have := hbottom bottom hb
      have hn : ntohl (htonl ack_seq) = ack_seq := ntohl_htonl ack_seq hack
      show ntohl (htonl ack_seq) ≤ bottom.packet.seq
      omega)
    h

theorem segment_ack_bottom {σ : Type} (rtt_module : rtt_module_t σ) (r after : reordering_t σ)
    (a : Int) (s0 : Nat) (time : ℚ) (ip_id num_acks : Nat) (flag : Bool)
    (rest : List packet_slot_t) (e : Nat)
    (hq : queues_are r a (segment_slot s0 time ip_id num_acks flag :: rest) e)
    (ha : a = 0 ∨ a = 1) (t id seq ack_seq : Nat) (ack : Bool)
    (hack : ack_seq < 4294967296) (hlt : s0 < ack_seq)
    (hrest : ∀ s, rest.head? = some s → ack_seq ≤ s.packet.seq)
    (h : reordering_update rtt_module r (tcp_segment t (1 - a) id seq ack_seq 0 false ack)
      = .ok after) :
    queues_are after a (segment_slot s0 time ip_id ((num_acks + 1) % 256) flag :: rest) e := by
  have hn : ntohl (htonl ack_seq) = ack_seq := ntohl_htonl ack_seq hack
  exact queues_are_ack_bottom rtt_module r after a (segment_slot s0 time ip_id num_acks flag)
    rest e hq _ _ _ rfl rfl ha rfl rfl
    (by
      rw [payload_length_tcp_segment t (1 - a) id seq ack_seq 0 false ack (by omega) _ _ rfl
        rfl]
      omega)
    (by
      show s0 < ntohl (htonl ack_seq)
      omega)
    (by
      intro s hs
      have := hrest s hs
      show ntohl (htonl ack_seq) ≤ s.packet.seq
      omega)
    rfl h

/-- The queues after the packets of `fast_retransmit_acks`: the four segments
of A, the first with four acknowledgements. -/
theorem fast_retransmit_acks_state {σ : Type} (rtt_module : rtt_module_t σ) (a : Int)
    (ha : a = 0 ∨ a = 1) (s b : Nat) (time ip_id : Nat → Nat) (hs : 1 ≤ s)
    (hs2 : s + 400 < 4294967296) (r : reordering_t σ)
    (hrun : reordering_run rtt_module (reordering_create rtt_module)
      (fast_retransmit_acks a s b time ip_id) = .ok r) :
    ∃ f1 f2 f3 f4 : Bool,
      queues_are r a
        [ segment_slot s ((time 3 : ℚ) / 4294967296) (ntohs (htons (ip_id 3))) 4 f1,
          segment_slot (s + 100) ((time 4 : ℚ) / 4294967296) (ntohs (htons (ip_id 4))) 0 f2,
          segment_slot (s + 200) ((time 5 : ℚ) / 4294967296) (ntohs (htons (ip_id 5))) 0 f3,
          segment_slot (s + 300) ((time 6 : ℚ) / 4294967296) (ntohs (htons (ip_id 6))) 0 f4 ]
        (s + 400) := by
  unfold fast_retransmit_acks at hrun
  obtain ⟨r1, u1, hrun⟩ := reordering_run_cons_ok rtt_module _ _ _ _ hrun
  obtain ⟨r2, u2, hrun⟩ := reordering_run_cons_ok rtt_module _ _ _ _ hrun
  obtain ⟨r3, u3, hrun⟩ := reordering_run_cons_ok rtt_module _ _ _ _ hrun
  obtain ⟨r4, u4, hrun⟩ := reordering_run_cons_ok rtt_module _ _ _ _ hrun
  obtain ⟨r5, u5, hrun⟩ := reordering_run_cons_ok rtt_module _ _ _ _ hrun
  obtain ⟨r6, u6, hrun⟩ := reordering_run_cons_ok rtt_module _ _ _ _ hrun
  obtain ⟨r7, u7, hrun⟩ := reordering_run_cons_ok rtt_module _ _ _ _ hrun
  obtain ⟨r8, u8, hrun⟩ := reordering_run_cons_ok rtt_module _ _ _ _ hrun
  obtain ⟨r9, u9, hrun⟩ := reordering_run_cons_ok rtt_module _ _ _ _ hrun
  obtain ⟨r10, u10, hrun⟩ := reordering_run_cons_ok rtt_module _ _ _ _ hrun
  obtain ⟨r11, u11, hrun⟩ := reordering_run_cons_ok rtt_module _ _ _ _ hrun
  obtain ⟨r12, u12, hrun⟩ := reordering_run_cons_ok rtt_module _ _ _ _ hrun
  have hr : r12 = r := by
    unfold reordering_run at hrun
    cases hrun
    rfl
  subst hr
  have q1 := segment_syn_own rtt_module _ r1 a [] 0 (queues_are_create rtt_module a) ha _ _ _ _
    _ _ (by omega) u1
  rw [Nat.sub_add_cancel hs] at q1
  have q2 := segment_syn_other rtt_module r1 r2 a [] s q1 ha _ _ _ _ _ _ u2
  have q3 := segment_ack_own rtt_module r2 r3 a [] s q2 ha _ _ _ _ _ u3
  obtain ⟨f1, q4⟩ := segment_data rtt_module r3 r4 a [] s q3 ha _ _ _ 100 _ (by omega)
    (by omega) (by omega) u4
  obtain ⟨f2, q5⟩ := segment_data rtt_module r4 r5 a _ (s + 100) q4 ha _ _ _ 100 _ (by omega)
    (by omega) (by omega) u5
  obtain ⟨f3, q6⟩ := segment_data rtt_module r5 r6 a _ (s + 100 + 100) q5 ha _ _ _ 100 _
    (by omega) (by omega) (by omega) u6
  obtain ⟨f4, q7⟩ := segment_data rtt_module r6 r7 a _ (s + 100 + 100 + 100) q6 ha _ _ _ 100 _
    (by omega) (by omega) (by omega) u7
  simp only [List.nil_append, List.cons_append] at q7
  have q8 := segment_ack_noop rtt_module r7 r8 a _ _ q7 ha _ _ _ s _ (by omega)
    (by
      intro bottom hb
      cases hb
      exact Nat.le_refl _)
    u8
  have q9 := segment_ack_bottom rtt_module r8 r9 a _ _ _ _ _ _ _ q8 ha _ _ _ (s + 100) _
    (by omega) (by omega)
    (by
      intro x hx
      cases hx
      exact Nat.le_refl _)
    u9
  have q10 := segment_ack_bottom rtt_module r9 r10 a _ _ _ _ _ _ _ q9 ha _ _ _ (s + 100) _
    (by omega) (by omega)
    (by
      intro x hx
      cases hx
      exact Nat.le_refl _)
    u10
  have q11 := segment_ack_bottom rtt_module r10 r11 a _ _ _ _ _ _ _ q10 ha _ _ _ (s + 100) _
    (by omega) (by omega)
    (by
      intro x hx
      cases hx
      exact Nat.le_refl _)
    u11
  have q12 := segment_ack_bottom rtt_module r11 r12 a _ _ _ _ _ _ _ q11 ha _ _ _ (s + 100) _
    (by omega) (by omega)
    (by
      intro x hx
      cases hx
      exact Nat.le_refl _)
    u12
  exact ⟨f1, f2, f3, f4, q12⟩

/-- The second record from the bottom of the queue of `a` arrives once more,
with the IP identification it had, after three or more acknowledgements of the
bottom record and not later than `rto`: RETRANSMISSION with message 7, and the
direction enters recovery. -/
theorem queues_are_retransmit {σ : Type} (rtt_module : rtt_module_t σ) (r : reordering_t σ)
    (a : Int) (slot1 slot2 : packet_slot_t) (rest : List packet_slot_t) (e : Nat)
    (hq : queues_are r a (slot1 :: slot2 :: rest) e)
    (packet : libtrace_packet_t) (ip : libtrace_ip) (tcp : libtrace_tcp) (rtt_data : σ)
    (hip : packet.ip = some ip) (htcp : packet.tcp = some tcp) (ha : a = 0 ∨ a = 1)
    (hdir : packet.direction = a) (hsyn : tcp.syn = false)
    (hp : payload_length ip tcp > 0) (hseq : ntohl tcp.seq = slot2.packet.seq)
    (hlt : slot1.packet.seq < slot2.packet.seq)
    (hrest : ∀ x, rest.head? = some x → slot2.packet.seq < x.packet.seq)
    (hlow : slot2.packet.seq < e)
    (hchain1 : slot1.missing_link = []) (hchain2 : slot2.missing_link = [])
    (hreal : slot2.packet.is_missing = false) (hfresh : slot2.packet.num_acks = 0)
    (hid : ntohs ip.ip_id = slot2.packet.ip_id) (hdup : slot1.packet.num_acks ≥ 3)
    (hmod : rtt_module.update r.rtt_data packet = .ok rtt_data)
    (hrto : ¬ (reordering_rto rtt_module r.min_rtt rtt_data ≥ 0
      ∧ trace_get_seconds packet - slot2.packet.time
          > reordering_rto rtt_module r.min_rtt rtt_data)) :
    ∃ after : reordering_t σ,
      reordering_update rtt_module r packet = .ok after
        ∧ reordering_get_type after = reordering_type_t.RETRANSMISSION
        ∧ after.last_packet_message = 7
        ∧ (after.record a).in_recovery = 1
        ∧ reordering_get_time_lag after = trace_get_seconds packet - slot2.packet.time := by
  obtain ⟨hwf, h1, h2, h3⟩ := hq
  have hwfa := reordering_wf_record r hwf a
  have hlt32 := ntohl_lt tcp.seq
  obtain ⟨hf1, hf2⟩ := sender_record_find_at (r.record a) hwfa slot2.packet.seq [slot1] slot2 rest
    h1 (by
      intro x hx
      rw [List.mem_singleton] at hx
      rw [hx]
      omega)
    (Nat.le_refl _) hrest hchain2
  have hprev_seq : (slot2.packet.seq + 4294967295) % 4294967296 = slot2.packet.seq - 1 := by
    omega
  obtain ⟨hg1, hg2⟩ := sender_record_find_at (r.record a) hwfa (slot2.packet.seq - 1) [] slot1
    (slot2 :: rest) h1 (fun _ hx => by cases hx) (by omega)
    (by
      intro x hx
      cases hx
      omega)
    hchain1
  rw [← hprev_seq] at hg1
  obtain ⟨own, hl1, hl2, _⟩ := reordering_update_low_seen (r.record a) hwfa slot2.packet.seq
    (payload_length ip tcp) (trace_get_seconds packet) (ntohs ip.ip_id)
    (reordering_rtt rtt_module r.min_rtt rtt_data) (reordering_rto rtt_module r.min_rtt rtt_data)
    _ _ slot2.packet slot1.packet hf1 hf2 (by omega) hg1 hg2 hreal
  have hseen : reordering_update_seen (ntohs ip.ip_id) slot2.packet
      (reordering_rtt rtt_module r.min_rtt rtt_data)
      (reordering_rto rtt_module r.min_rtt rtt_data)
      (trace_get_seconds packet - slot2.packet.time) slot1.packet.num_acks
      (r.record a).in_recovery = (reordering_type_t.RETRANSMISSION, 7, 1) := by
    unfold reordering_update_seen
    rw [if_neg (not_not.mpr hid), if_neg hrto, if_pos hdup]
  rw [hseen] at hl1 hl2
  obtain ⟨other, freed, _, hack, _⟩ := sender_record_ack_ok (r.record (1 - packet.direction))
    (reordering_wf_record r hwf _) (ntohl tcp.ack_seq)
  obtain ⟨after, u1, u2, _, _, _, u6, u7, u8⟩ := reordering_update_nonsyn rtt_module r packet
    ip tcp rtt_data own other reordering_type_t.RETRANSMISSION 7
    (trace_get_seconds packet - slot2.packet.time) freed hip htcp (hdir ▸ ha) hsyn hmod
    (by
      rw [if_pos hp, hdir, hseq, reordering_update_data_low _ _ _ _ _ _ _ (by rw [h2]; exact hlow)]
      exact hl1)
    hack
  refine ⟨after, u1, u6, u7, ?_, u8⟩
  rw [← hdir, u2]
  exact hl2

/-- C30 (corrected). Scenario 2, fast retransmit. For every trace of the
shape: handshake of A (direction `a`) and B, four segments of 100 bytes from A
at `s`, `s + 100`, `s + 200`, `s + 300` with `1 <= s` and `s + 400 < 2^32`, an
ACK of B for `s` and four ACKs of B for `s + 100`, whatever the capture times
and the IP identifications of these packets: when `reordering_update` has
returned for them, the segment at `s + 100` arrives once more with the IP
identification of the first copy, the RTT module returns and the time lag is
not above `rto` (or `rto` is absent), then `reordering_update` returns, the
classifier reports RETRANSMISSION with message 7, "retransmission (duplicate
acks >= 3)", the time lag is the time since the first copy, and `in_recovery`
of the direction of A is set. -/
theorem fast_retransmit_duplicate_acks {σ : Type} (rtt_module : rtt_module_t σ) (a : Int)
    (ha : a = 0 ∨ a = 1) (s b : Nat) (time ip_id : Nat → Nat) (hs : 1 ≤ s)
    (hs2 : s + 400 < 4294967296) (r : reordering_t σ) (rtt_data : σ)
    (hrun : reordering_run rtt_module (reordering_create rtt_module)
      (fast_retransmit_acks a s b time ip_id) = .ok r)
    (hmod : rtt_module.update r.rtt_data (fast_retransmit_segment a s b time (ip_id 4))
      = .ok rtt_data)
    (hrto : ¬ (reordering_rto rtt_module r.min_rtt rtt_data ≥ 0
      ∧ (time 12 : ℚ) / 4294967296 - (time 4 : ℚ) / 4294967296
          > reordering_rto rtt_module r.min_rtt rtt_data)) :
    ∃ after : reordering_t σ,
      reordering_update rtt_module r (fast_retransmit_segment a s b time (ip_id 4)) = .ok after
        ∧ reordering_get_type after = reordering_type_t.RETRANSMISSION
        ∧ after.last_packet_message = 7
        ∧ reordering_get_message after = some "retransmission (duplicate acks >= 3)"
        ∧ (after.record a).in_recovery = 1
        ∧ reordering_get_time_lag after
            = (time 12 : ℚ) / 4294967296 - (time 4 : ℚ) / 4294967296 := by
  obtain ⟨f1, f2, f3, f4, hq⟩ := fast_retransmit_acks_state rtt_module a ha s b time ip_id hs hs2
    r hrun
  have hseq : ntohl (htonl (s + 100)) = s + 100 := ntohl_htonl (s + 100) (by omega)
  obtain ⟨after, h1, h2, h3, h4, h5⟩ := queues_are_retransmit rtt_module r a _ _ _ _ hq
    (fast_retransmit_segment a s b time (ip_id 4)) _ _ rtt_data rfl rfl ha rfl rfl
    (by
      rw [payload_length_tcp_segment (time 12) a (ip_id 4) (s + 100) b 100 false true
        (by omega) _ _ rfl rfl]
      omega)
    hseq
    (by
      show s < s + 100
      omega)
    (by
      intro x hx
      cases hx
      show s + 100 < s + 200
      omega)
    (by
      show s + 100 < s + 400
      omega)
    rfl rfl rfl rfl rfl
    (by
      show 4 ≥ 3
      omega)
    hmod hrto
  refine ⟨after, h1, h2, h3, ?_, h4, h5⟩
  unfold reordering_get_message
  rw [h3]
  rfl

/-- Scenario 2 with `s = 1`: B starts at 5000, the handshake takes 2 s, the
second copy of the segment at 101 carries the IP identification 5 of the first
copy and arrives 1 s after it, below `rto` of 4 s. -/
theorem fast_retransmit_duplicate_acks_witness :
    reordering_run rtt_handshake_rtt_module (reordering_create rtt_handshake_rtt_module)
        (fast_retransmit_acks 0 1 5001 scenario2_time scenario2_ip_id)
      = .ok (classifier_after rtt_handshake_rtt_module
          (fast_retransmit_acks 0 1 5001 scenario2_time scenario2_ip_id))
    ∧ reordering_rto rtt_handshake_rtt_module
        (classifier_after rtt_handshake_rtt_module
          (fast_retransmit_acks 0 1 5001 scenario2_time scenario2_ip_id)).min_rtt
        (rtt_handshake_update
          (classifier_after rtt_handshake_rtt_module
            (fast_retransmit_acks 0 1 5001 scenario2_time scenario2_ip_id)).rtt_data
          (fast_retransmit_segment 0 1 5001 scenario2_time (scenario2_ip_id 4))) = 4
    ∧ ∃ after : reordering_t rtt_handshake_record_t,
        reordering_update rtt_handshake_rtt_module
            (classifier_after rtt_handshake_rtt_module
              (fast_retransmit_acks 0 1 5001 scenario2_time scenario2_ip_id))
            (fast_retransmit_segment 0 1 5001 scenario2_time (scenario2_ip_id 4)) = .ok after
          ∧ reordering_get_type after = reordering_type_t.RETRANSMISSION
          ∧ after.last_packet_message = 7
          ∧ reordering_get_message after = some "retransmission (duplicate acks >= 3)"
          ∧ (after.record 0).in_recovery = 1
          ∧ reordering_get_time_lag after = 1 := by
  have hrun : reordering_run rtt_handshake_rtt_module
      (reordering_create rtt_handshake_rtt_module)
      (fast_retransmit_acks 0 1 5001 scenario2_time scenario2_ip_id)
      = .ok (classifier_after rtt_handshake_rtt_module
          (fast_retransmit_acks 0 1 5001 scenario2_time scenario2_ip_id)) := by decide!
  obtain ⟨after, h1, h2, h3, h4, h5, h6⟩ := fast_retransmit_duplicate_acks
    rtt_handshake_rtt_module 0 (Or.inl rfl) 1 5001 scenario2_time scenario2_ip_id (by decide)
    (by decide) _ _ hrun rfl (by decide!)
  refine ⟨hrun, by decide!, after, h1, h2, h3, h4, h5, ?_⟩
  rw [h6]
  decide!

/-- C30, counterexample. Scenario 2 with `s = 1` and the capture times of the
witness, the second copy of the segment at 101 with the IP identification 13
instead of 5: `reordering_update` returns for all thirteen packets and the
classifier reports RETRANSMISSION with message 5, "retransmission (IP ID
different)". Scenario 2 with `s = 2^32 - 350` and the IP identification 5:
the four segments end at `2^32 + 50`, the expected sequence number is 50, and
the second copy of the segment at `2^32 - 250` is classified HIGH with
message 1. -/
theorem fast_retransmit_other_ip_id :
    (reordering_run rtt_handshake_rtt_module (reordering_create rtt_handshake_rtt_module)
        (fast_retransmit_acks 0 1 5001 scenario2_time scenario2_ip_id
          ++ [fast_retransmit_segment 0 1 5001 scenario2_time 13])).map
      (fun r => (reordering_get_type r, r.last_packet_message, reordering_get_message r))
        = .ok (reordering_type_t.RETRANSMISSION, 5, some "retransmission (IP ID different)")
    ∧ (reordering_run rtt_handshake_rtt_module (reordering_create rtt_handshake_rtt_module)
        (fast_retransmit_acks 0 4294966946 5001 scenario2_time scenario2_ip_id
          ++ [fast_retransmit_segment 0 4294966946 5001 scenario2_time 5])).map
      (fun r => (reordering_get_type r, r.last_packet_message, reordering_get_message r))
        = .ok (reordering_type_t.HIGH, 1, some "sequence number higher than expected") := by
  decide!

/-- A call of `reordering_update` adds at most two records to a queue. -/
theorem reordering_update_length {σ : Type} (rtt_module : rtt_module_t σ)
    (r after : reordering_t σ) (hwf : reordering_wf r) (packet : libtrace_packet_t)
    (h : reordering_update rtt_module r packet = .ok after) :
    after.record_0.length ≤ r.record_0.length + 2
      ∧ after.record_1.length ≤ r.record_1.length + 2 := by
  obtain ⟨ip, tcp, hip, htcp, hcase⟩ := reordering_update_inv rtt_module r after packet h
  rcases hcase with ⟨_, hsame⟩ | ⟨hd, _⟩
  · rw [hsame]
    omega
  · have hown : (after.record packet.direction).length
        ≤ (r.record packet.direction).length + 2 := by
      rcases reordering_update_of_ok rtt_module r after packet ip tcp hip htcp hd h with
        ⟨_, hown, _⟩ | ⟨_, rtt_data, type, message, lag, freed, _, hupd, _⟩
      · rw [hown]
        exact Nat.le_add_right _ 2
      · by_cases hp : payload_length ip tcp > 0
        · rw [if_pos hp] at hupd
          obtain ⟨_, hcase⟩ := reordering_update_data_ok _ (reordering_wf_record r hwf _) _ _ _
            _ _ _ _ _ _ _ hupd
          rcases hcase with ⟨_, _, _, _, _, _, _, _, _, hitems⟩
            | ⟨_, _, _, _, _, _, _, _, hitems⟩ | ⟨_, _, _, hlen⟩
          · have := congrArg List.length hitems
            rw [List.length_append, sender_items_length, sender_items_length] at this
            rw [this]
            exact Nat.le_refl _
          · have := congrArg List.length hitems
            rw [List.length_append, sender_items_length, sender_items_length] at this
            rw [this]
            exact Nat.le_succ _
          · omega
        · rw [if_neg hp] at hupd
          simp only [Except.ok.injEq, Prod.mk.injEq] at hupd
          rw [← hupd.1]
          omega
    have hother : (after.record (1 - packet.direction)).length
        ≤ (r.record (1 - packet.direction)).length + 2 := by
      rcases reordering_update_of_ok rtt_module r after packet ip tcp hip htcp hd h with
        ⟨_, _, hother⟩ | ⟨_, rtt_data, type, message, lag, freed, _, _, hack⟩
      · rw [hother]
        omega
      · obtain ⟨a, f, k, h4, _, _, _, _, h9, _⟩ := sender_record_ack_ok
          (r.record (1 - packet.direction)) (reordering_wf_record r hwf _) (ntohl tcp.ack_seq)
        rw [hack] at h4
        cases h4
        omega
    rcases hd with hd | hd
    · rw [hd] at hown hother
      exact ⟨hown, hother⟩
    · rw [hd] at hown hother
      exact ⟨hother, hown⟩

/-- A run of `reordering_update` returns when every packet has an IP and a TCP
header, the RTT module returns and the queues have room for two records per
packet. -/
theorem reordering_run_returns {σ : Type} (rtt_module : rtt_module_t σ)
    (htotal : ∀ (rtt_data : σ) (packet : libtrace_packet_t),
      ∃ updated, rtt_module.update rtt_data packet = .ok updated) :
    ∀ (trace : List libtrace_packet_t) (r : reordering_t σ), reordering_wf r →
      (∀ packet ∈ trace, (∃ ip, packet.ip = some ip) ∧ ∃ tcp, packet.tcp = some tcp) →
      r.record_0.length + 2 * trace.length ≤ 65520 →
      r.record_1.length + 2 * trace.length ≤ 65520 →
      ∃ after, reordering_run rtt_module r trace = .ok after := by
  intro trace
  induction trace with
  | nil =>
    intro r _ _ _ _
    exact ⟨r, rfl⟩
  | cons packet rest ih =>
    intro r hwf hheaders h0 h1
    obtain ⟨⟨ip, hip⟩, tcp, htcp⟩ := hheaders packet (List.mem_cons_self _ _)
    obtain ⟨rtt_data, hmod⟩ := htotal r.rtt_data packet
    rw [List.length_cons] at h0 h1
    obtain ⟨r1, hu⟩ := reordering_update_returns rtt_module r hwf packet ip tcp rtt_data hip htcp
      hmod (reordering_record_cases r packet.direction (fun record => record.length + 2 ≤ 65520)
        (by omega) (by omega))
    obtain ⟨hl0, hl1⟩ := reordering_update_length rtt_module r r1 hwf packet hu
    obtain ⟨after, hafter⟩ := ih r1 (reordering_update_wf rtt_module r r1 hwf packet hu)
      (fun p hp => hheaders p (List.mem_cons_of_mem _ hp)) (by omega) (by omega)
    refine ⟨after, ?_⟩
    unfold reordering_run
    rw [hu]
    exact hafter

/-- The classifier returns for the packets of `fast_retransmit_acks` whenever
the RTT module does. -/
theorem fast_retransmit_acks_returns {σ : Type} (rtt_module : rtt_module_t σ)
    (htotal : ∀ (rtt_data : σ) (packet : libtrace_packet_t),
      ∃ updated, rtt_module.update rtt_data packet = .ok updated)
    (a : Int) (s b : Nat) (time ip_id : Nat → Nat) :
    ∃ r, reordering_run rtt_module (reordering_create rtt_module)
      (fast_retransmit_acks a s b time ip_id) = .ok r := by
  refine reordering_run_returns rtt_module htotal _ _ (reordering_wf_create rtt_module) ?_
    (by
      show 0 + 2 * 12 ≤ 65520
      omega)
    (by
      show 0 + 2 * 12 ≤ 65520
      omega)
  intro packet hp
  unfold fast_retransmit_acks at hp
  simp only [List.mem_cons, List.mem_singleton, List.not_mem_nil, or_false] at hp
  rcases hp with h | h | h | h | h | h | h | h | h | h | h | h <;> rw [h] <;>
    exact ⟨⟨_, rfl⟩, _, rfl⟩

/-! ### Claim on the RTT threshold -/

/-- C24 (code bug). The field `min_rtt` keeps the greatest RTT, not the
smallest. The RTT module reports 0.2 s for each half at the SYN of
`duplicate_segment` and 0.1 s at the three packets after it, so the sums are
0.4, 0.2, 0.2, 0.2 s. One call of lines 435-447 with `min_rtt = 0.4` and the
sum 0.2 leaves `min_rtt = 0.4` and gives `rtt = 0.36` and `rto = 0.4`, where
0.9 times the minimum is 0.18. After the four packets `min_rtt` is 0.4, and
the second copy of the segment at 101, with a time lag of 0.25 s, is
classified NETWORK_DUPLICATE with message 9, as its lag is below 0.36; with
the threshold 0.18 it were UNKNOWN with message 10. -/
theorem min_rtt_keeps_maximum :
    reordering_update_rtt (2 / 5) (1 / 10) (1 / 10) = (9 / 25, 2 / 5, 2 / 5)
      ∧ (reordering_update_rtt (2 / 5) (1 / 10) (1 / 10)).1
          ≠ RTT_FACTOR * min (2 / 5) (1 / 10 + 1 / 10)
      ∧ (reordering_run (rtt_replay_module [1 / 5, 1 / 10, 1 / 10, 1 / 10])
            (reordering_create (rtt_replay_module [1 / 5, 1 / 10, 1 / 10, 1 / 10]))
            duplicate_segment).map
          (fun r => (r.min_rtt, reordering_get_type r, r.last_packet_message,
            reordering_get_time_lag r))
            = .ok (2 / 5, reordering_type_t.NETWORK_DUPLICATE, 9, 1 / 4)
      ∧ reordering_update_seen 3
          { seq := 101, time := 5 / 4, ip_id := 3, num_acks := 0, is_missing := false,
            is_misaligned := false }
          (RTT_FACTOR * min (2 / 5) (1 / 10 + 1 / 10)) (2 / 5) (1 / 4) 0 0
            = (reordering_type_t.UNKNOWN, 10, 0) := by
  decide!

/-- Lines 435-447 of `reordering_update` in closed form: with both RTTs
present `rto` is twice their sum, `min_rtt` becomes the sum when it was absent
or below the sum, and `rtt` is 0.9 times the new `min_rtt`; with one of them
absent `rtt` and `rto` are `-1` and `min_rtt` stays. -/
theorem reordering_update_rtt_greatest (min_rtt inside_rtt outside_rtt : ℚ) :
    (inside_rtt ≥ 0 ∧ outside_rtt ≥ 0 →
      reordering_update_rtt min_rtt inside_rtt outside_rtt
        = (RTT_FACTOR * (if min_rtt < 0 then inside_rtt + outside_rtt
                         else max min_rtt (inside_rtt + outside_rtt)),
           RTO_FACTOR * (inside_rtt + outside_rtt),
           if min_rtt < 0 then inside_rtt + outside_rtt
           else max min_rtt (inside_rtt + outside_rtt)))
      ∧ (¬ (inside_rtt ≥ 0 ∧ outside_rtt ≥ 0) →
        reordering_update_rtt min_rtt inside_rtt outside_rtt = (-1, -1, min_rtt)) := by
  refine ⟨?_, ?_⟩
  · intro h
    unfold reordering_update_rtt
    rw [if_pos h]
    by_cases hneg : min_rtt < 0
    · simp only [hneg, or_true, if_true]
    · by_cases hlt : min_rtt < inside_rtt + outside_rtt
      · simp only [hlt, hneg, true_or, if_true, if_false, max_eq_right (le_of_lt hlt)]
      · simp only [hlt, hneg, or_self, if_false, max_eq_left (not_lt.mp hlt)]
  · intro h
    unfold reordering_update_rtt
    rw [if_neg h]

/-! ### Claim on the type and the message of the classifier -/

theorem reordering_update_seen_agree (ip_id : Nat) (p : packet_record_t) (rtt rto lag : ℚ)
    (dup_acks in_recovery : Nat) :
    message_type (reordering_update_seen ip_id p rtt rto lag dup_acks in_recovery).2.1
      = some (reordering_update_seen ip_id p rtt rto lag dup_acks in_recovery).1 := by
  unfold reordering_update_seen
  split_ifs <;> rfl

theorem reordering_update_missing_agree (rtt rto lag : ℚ) (dup_acks in_recovery : Nat) :
    message_type (reordering_update_missing rtt rto lag dup_acks in_recovery).2.1
      = some (reordering_update_missing rtt rto lag dup_acks in_recovery).1 := by
  unfold reordering_update_missing
  split_ifs <;> rfl

theorem reordering_update_low_agree (record : sender_record_t) (seq : Nat) (payload : Int)
    (time : ℚ) (ip_id : Nat) (rtt rto : ℚ) (after : sender_record_t) (type : reordering_type_t)
    (message : Nat) (lag : ℚ)
    (h : reordering_update_low record seq payload time ip_id rtt rto
      = .ok (after, type, message, lag)) : message_type message = some type := by
  unfold reordering_update_low at h
  repeat' split at h
  all_goals
    cases h <;> first
      | rfl
      | exact reordering_update_seen_agree _ _ _ _ _ _ _
      | exact reordering_update_missing_agree _ _ _ _ _

theorem reordering_update_data_agree (record : sender_record_t) (seq : Nat) (payload : Int)
    (time : ℚ) (ip_id : Nat) (rtt rto : ℚ) (after : sender_record_t) (type : reordering_type_t)
    (message : Nat) (lag : ℚ)
    (h : reordering_update_data record seq payload time ip_id rtt rto
      = .ok (after, type, message, lag)) : message_type message = some type := by
  unfold reordering_update_data at h
  split at h
  · repeat' split at h
    all_goals
      cases h <;> rfl
  · split at h
    · repeat' split at h
      all_goals
        cases h <;> rfl
    · exact reordering_update_low_agree record seq payload time ip_id rtt rto after type message
        lag h

theorem message_type_lt (message : Nat) (type : reordering_type_t)
    (h : message_type message = some type) : message < 12 := by
  unfold message_type at h
  split_ifs at h <;> omega

/-- C31. Type and message always agree. For every call of `reordering_update`
with a packet of direction 0 or 1: the call returns when the sender records
are well formed, the packet has an IP and a TCP header, the RTT module returns
and the queue of the direction of the packet has room for two records; and
whenever it returns, the stored message index is below 12, so that
`reordering_get_message` reads inside the table, and goes with the stored
type: INORDER with 0, HIGH with 1, RETRANSMISSION with one of 2 to 8,
NETWORK_DUPLICATE with 9, UNKNOWN with 10, NETWORK_REORDERING with 11. The
table has twelve strings, the ones of the specification at their indices. -/
theorem type_and_message_agree {σ : Type} (rtt_module : rtt_module_t σ) (r : reordering_t σ)
    (packet : libtrace_packet_t)
    (hd : packet.direction = 0 ∨ packet.direction = 1) :
    (∀ (ip : libtrace_ip) (tcp : libtrace_tcp) (rtt_data : σ), reordering_wf r →
        packet.ip = some ip → packet.tcp = some tcp →
        rtt_module.update r.rtt_data packet = .ok rtt_data →
        (r.record packet.direction).length + 2 ≤ 65520 →
        ∃ after : reordering_t σ, reordering_update rtt_module r packet = .ok after)
      ∧ (∀ after : reordering_t σ, reordering_update rtt_module r packet = .ok after →
          after.last_packet_message < 12
            ∧ message_type after.last_packet_message = some (reordering_get_type after)
            ∧ reordering_get_message after
                = reordering_messages[after.last_packet_message]?
            ∧ ∃ text, reordering_get_message after = some text
                ∧ (after.last_packet_message, text) ∈ specified_messages)
      ∧ reordering_messages.length = 12
      ∧ specified_messages.length = 12
      ∧ ∀ entry ∈ specified_messages, reordering_messages[entry.1]? = some entry.2 := by
  refine ⟨?_, ?_, rfl, rfl, by decide⟩
  · intro ip tcp rtt_data hwf hip htcp hmod hroom
    exact reordering_update_returns rtt_module r hwf packet ip tcp rtt_data hip htcp hmod hroom
  · intro after h
    have hagree : message_type after.last_packet_message = some (reordering_get_type after) := by
      obtain ⟨ip, tcp, hip, htcp, hcase⟩ := reordering_update_inv rtt_module r after packet h
      rcases hcase with ⟨hout, _⟩ | ⟨_, rtt_data, hmod, hsyn | ⟨hsyn, hrest⟩⟩
      · omega
      · obtain ⟨a, h1, _, _, _, _, h6, h7, _⟩ :=
          reordering_update_syn rtt_module r packet ip tcp rtt_data hip htcp hd hsyn hmod
        rw [h] at h1
        cases h1
        unfold reordering_get_type
        rw [h6, h7]
        rfl
      · obtain ⟨own, other, type, message, lag, freed, hdata, hack⟩ := hrest
        obtain ⟨a, h1, _, _, _, _, h6, h7, _⟩ := reordering_update_nonsyn rtt_module r packet ip
          tcp rtt_data own other type message lag freed hip htcp hd hsyn hmod hdata hack
        rw [h] at h1
        cases h1
        unfold reordering_get_type
        rw [h6, h7]
        by_cases hp : payload_length ip tcp > 0
        · rw [if_pos hp] at hdata
          exact reordering_update_data_agree _ _ _ _ _ _ _ _ _ _ _ hdata
        · rw [if_neg hp] at hdata
          simp only [Except.ok.injEq, Prod.mk.injEq] at hdata
          obtain ⟨_, h8, h9, _⟩ := hdata
          rw [← h8, ← h9]
          rfl
    have hlt := message_type_lt _ _ hagree
    refine ⟨hlt, hagree, rfl, ?_⟩
    unfold reordering_get_message
    generalize after.last_packet_message = m at hlt
    interval_cases m <;> exact ⟨_, rfl, by decide⟩

/-- The second copy of the segment at 101 after `two_segments`: the call
returns with message index 9 and type NETWORK_DUPLICATE, and
`reordering_get_message` gives "network duplicate". -/
theorem type_and_message_agree_witness :
    reordering_update rtt_handshake_rtt_module
        (classifier_after rtt_handshake_rtt_module two_segments)
        (tcp_segment (eighths 13) 0 4 101 5001 100 false true)
      = .ok (classifier_after rtt_handshake_rtt_module
          (two_segments ++ [tcp_segment (eighths 13) 0 4 101 5001 100 false true]))
    ∧ (classifier_after rtt_handshake_rtt_module
        (two_segments ++ [tcp_segment (eighths 13) 0 4 101 5001 100 false true])).last_packet_message
        = 9
    ∧ message_type 9 = some (reordering_get_type (classifier_after rtt_handshake_rtt_module
        (two_segments ++ [tcp_segment (eighths 13) 0 4 101 5001 100 false true])))
    ∧ reordering_get_message (classifier_after rtt_handshake_rtt_module
        (two_segments ++ [tcp_segment (eighths 13) 0 4 101 5001 100 false true]))
        = some "network duplicate" := by
  have h : reordering_update rtt_handshake_rtt_module
      (classifier_after rtt_handshake_rtt_module two_segments)
      (tcp_segment (eighths 13) 0 4 101 5001 100 false true)
      = .ok (classifier_after rtt_handshake_rtt_module
          (two_segments ++ [tcp_segment (eighths 13) 0 4 101 5001 100 false true])) := by
    decide!
  have h9 : (classifier_after rtt_handshake_rtt_module
      (two_segments ++ [tcp_segment (eighths 13) 0 4 101 5001 100 false true])).last_packet_message
      = 9 := by decide!
  obtain ⟨_, hagree, _⟩ := type_and_message_agree rtt_handshake_rtt_module
    (classifier_after rtt_handshake_rtt_module two_segments)
    (tcp_segment (eighths 13) 0 4 101 5001 100 false true) (Or.inl rfl)
  obtain ⟨_, h2, h3, _⟩ := hagree _ h
  rw [h9] at h2 h3
  exact ⟨h, h9, h2, h3⟩

/-! ### Claims on the handshake estimator -/

/-- C32 (corrected). Handshake RTT values. For every handshake of a bare SYN
in direction `d` at time `t0`, a SYN+ACK in the other direction at `t1` and an
ACK without SYN in direction `d` at `t2`, with `0 < t0 < t1 < t2` and `d` 0 or
1, delivered to a fresh handshake estimator: for `d = 0`
`rtt_handshake_outside` returns `t1 - t0` and `rtt_handshake_inside` returns
`t2 - t1`; for `d = 1` `rtt_handshake_inside` returns `t1 - t0` and
`rtt_handshake_outside` returns `t2 - t1`. -/
theorem handshake_rtt_values (syn syn_ack ack : libtrace_packet_t)
    (tcp0 tcp1 tcp2 : libtrace_tcp) (d : Int) (hd : d = 0 ∨ d = 1)
    (h0 : syn.tcp = some tcp0) (h0s : tcp0.syn = true) (h0a : tcp0.ack = false)
    (h0d : syn.direction = d)
    (h1 : syn_ack.tcp = some tcp1) (h1s : tcp1.syn = true) (h1a : tcp1.ack = true)
    (h1d : syn_ack.direction = 1 - d)
    (h2 : ack.tcp = some tcp2) (h2s : tcp2.syn = false) (h2a : tcp2.ack = true)
    (h2d : ack.direction = d)
    (ht0 : 0 < trace_get_seconds syn)
    (ht1 : trace_get_seconds syn < trace_get_seconds syn_ack)
    (ht2 : trace_get_seconds syn_ack < trace_get_seconds ack) :
    (d = 0 →
      rtt_handshake_outside
          (rtt_handshake_update
            (rtt_handshake_update (rtt_handshake_update rtt_handshake_create syn) syn_ack) ack)
        = trace_get_seconds syn_ack - trace_get_seconds syn
      ∧ rtt_handshake_inside
          (rtt_handshake_update
            (rtt_handshake_update (rtt_handshake_update rtt_handshake_create syn) syn_ack) ack)
        = trace_get_seconds ack - trace_get_seconds syn_ack)
    ∧ (d = 1 →
      rtt_handshake_inside
          (rtt_handshake_update
            (rtt_handshake_update (rtt_handshake_update rtt_handshake_create syn) syn_ack) ack)
        = trace_get_seconds syn_ack - trace_get_seconds syn
      ∧ rtt_handshake_outside
          (rtt_handshake_update
            (rtt_handshake_update (rtt_handshake_update rtt_handshake_create syn) syn_ack) ack)
        = trace_get_seconds ack - trace_get_seconds syn_ack) := by
  refine ⟨?_, ?_⟩
  · intro hd0
    subst hd0
    have e1 : rtt_handshake_update rtt_handshake_create syn
        = { rtt_in := -1, rtt_out := -trace_get_seconds syn, established := 0 } := by
      simp [rtt_handshake_update, rtt_handshake_create, h0, h0s, h0a, h0d]
    have e2 : rtt_handshake_update
        { rtt_in := -1, rtt_out := -trace_get_seconds syn, established := 0 } syn_ack
        = { rtt_in := -trace_get_seconds syn_ack
            rtt_out := -trace_get_seconds syn + trace_get_seconds syn_ack
            established := 0 } := by
      simp [rtt_handshake_update, h1, h1s, h1a, h1d, ht0]
    have e3 : rtt_handshake_update
        { rtt_in := -trace_get_seconds syn_ack
          rtt_out := -trace_get_seconds syn + trace_get_seconds syn_ack
          established := 0 } ack
        = { rtt_in := -trace_get_seconds syn_ack + trace_get_seconds ack
            rtt_out := -trace_get_seconds syn + trace_get_seconds syn_ack
            established := 1 } := by
      simp [rtt_handshake_update, h2, h2s, h2a, h2d]
    rw [e1, e2, e3]
    unfold rtt_handshake_outside rtt_handshake_inside
    simp only
    rw [if_pos (by linarith), if_pos (by linarith)]
    constructor <;> ring
  · intro hd1
    subst hd1
    have e1 : rtt_handshake_update rtt_handshake_create syn
        = { rtt_in := -trace_get_seconds syn, rtt_out := -1, established := 0 } := by
      simp [rtt_handshake_update, rtt_handshake_create, h0, h0s, h0a, h0d]
    have e2 : rtt_handshake_update
        { rtt_in := -trace_get_seconds syn, rtt_out := -1, established := 0 } syn_ack
        = { rtt_in := -trace_get_seconds syn + trace_get_seconds syn_ack
            rtt_out := -trace_get_seconds syn_ack
            established := 0 } := by
      simp [rtt_handshake_update, h1, h1s, h1a, h1d, ht0]
    have e3 : rtt_handshake_update
        { rtt_in := -trace_get_seconds syn + trace_get_seconds syn_ack
          rtt_out := -trace_get_seconds syn_ack
          established := 0 } ack
        = { rtt_in := -trace_get_seconds syn + trace_get_seconds syn_ack
            rtt_out := -trace_get_seconds syn_ack + trace_get_seconds ack
            established := 1 } := by
      simp [rtt_handshake_update, h2, h2s, h2a, h2d]
    rw [e1, e2, e3]
    unfold rtt_handshake_outside rtt_handshake_inside
    simp only
    rw [if_pos (by linarith), if_pos (by linarith)]
    constructor <;> ring

/-- The handshake at 1 s, 1.125 s and 1.25 s: both halves are an eighth of a
second. -/
theorem handshake_rtt_values_witness :
    rtt_handshake_outside (rtt_handshake_after (scenario1_handshake (eighths 8) (eighths 9)
        (eighths 10))) = 1 / 8
      ∧ rtt_handshake_inside (rtt_handshake_after (scenario1_handshake (eighths 8) (eighths 9)
        (eighths 10))) = 1 / 8 := by
  have h := (handshake_rtt_values (tcp_segment (eighths 8) 0 1 1000 0 0 true false)
    (tcp_segment (eighths 9) 1 1 5000 1001 0 true true)
    (tcp_segment (eighths 10) 0 2 1001 5001 0 false true) _ _ _ 0 (Or.inl rfl)
    rfl rfl rfl rfl rfl rfl rfl rfl rfl rfl rfl rfl (by decide!) (by decide!) (by decide!)).1 rfl
  refine ⟨?_, ?_⟩
  · exact h.1.trans (by decide!)
  · exact h.2.trans (by decide!)

/-- C32, counterexample. The handshake of scenario 1 with `t0 = 0`, `t1` and
`t2` the ERF time stamps next to 0.10 s and 0.20 s: the SYN stores `-0` for the
outside half, which the SYN+ACK does not take for an open half, so
`rtt_handshake_outside` returns `-1` (absent), not `t1 - t0`;
`rtt_handshake_inside` returns `t2 - t1`. -/
theorem handshake_at_time_zero :
    trace_get_seconds (tcp_segment 0 0 1 1000 0 0 true false) = 0
      ∧ rtt_handshake_outside
          (rtt_handshake_after (scenario1_handshake 0 429496730 858993459)) = -1
      ∧ rtt_handshake_inside
          (rtt_handshake_after (scenario1_handshake 0 429496730 858993459))
        = (858993459 - 429496730) / 4294967296
      ∧ (rtt_handshake_after (scenario1_handshake 0 429496730 858993459)).rtt_out = 0 := by
  decide!

/-- C38 (code bug). A segment from the middle of a gap gets no missing link.
After the handshake and segments at 1 and 301 the queue of A holds the record
1, the placeholder 101 and the record 301. A segment of 50 bytes at 151 finds
the placeholder 101 (also at `seq - 1 = 150`), ends at 201, below 301, and so
does not cover the gap; `reordering_update` classifies it NETWORK_REORDERING
with message 11 and leaves the chain of the placeholder empty: the lookup at
201 returns the placeholder, whose sequence number 101 is not the 151 that
line 581 compares it with. The segment of 100 bytes at 101 of
`gap_partly_filled` does get the link 201. -/
theorem gap_segment_from_middle :
    (sender_items ((classifier_after rtt_handshake_rtt_module (segment_in_gap.take 5)).record
        0)).map (fun s => (s.packet.seq, s.packet.is_missing, s.missing_link.map (fun l => l.seq)))
      = [(1, false, []), (101, true, []), (301, false, [])]
    ∧ sender_record_find
        ((classifier_after rtt_handshake_rtt_module (segment_in_gap.take 5)).record 0) 151
      = .ok (some { idx := 1, link := 0 })
    ∧ sender_record_find
        ((classifier_after rtt_handshake_rtt_module (segment_in_gap.take 5)).record 0) 150
      = .ok (some { idx := 1, link := 0 })
    ∧ sender_record_find
        ((classifier_after rtt_handshake_rtt_module (segment_in_gap.take 5)).record 0) 201
      = .ok (some { idx := 1, link := 0 })
    ∧ (reordering_run rtt_handshake_rtt_module (reordering_create rtt_handshake_rtt_module)
        segment_in_gap).map (fun r => (reordering_get_type r, r.last_packet_message))
      = .ok (reordering_type_t.NETWORK_REORDERING, 11)
    ∧ (reordering_run rtt_handshake_rtt_module (reordering_create rtt_handshake_rtt_module)
        segment_in_gap).map
      (fun r => (sender_items (r.record 0)).map
        (fun s => (s.packet.seq, s.packet.is_missing, s.missing_link.map (fun l => l.seq))))
      = .ok [(1, false, []), (101, true, []), (301, false, [])]
    ∧ (reordering_run rtt_handshake_rtt_module (reordering_create rtt_handshake_rtt_module)
        gap_partly_filled).map
      (fun r => (sender_items (r.record 0)).map
        (fun s => (s.packet.seq, s.packet.is_missing, s.missing_link.map (fun l => l.seq))))
      = .ok [(1, false, []), (101, true, [201]), (301, false, [])] := by
  decide!

/-! ### The queue in all states that returning calls reach -/

/-! ### The queue in all states that returning calls reach -/

theorem queue_slot_ok_mono (allocated s j k : Nat) (hjk : j ≤ k)
    (h : queue_slot_ok allocated s k) : queue_slot_ok allocated s j := by
  have := Nat.mul_le_mul_right s hjk
  exact ⟨by have := h.1; omega, by have := h.2; omega⟩

theorem queue_slot_ok_lt (allocated s k : Nat) (hs : 0 < s) (h : queue_slot_ok allocated s k) :
    k < 2147483648 := by
  have h1 : k ≤ k * s := Nat.le_mul_of_pos_right _ hs
  have := h.1
  omega

/-- The slots of the window of a queue are slots of the allocated memory. -/
theorem queue_holds_window {α : Type} (q : queue_t α) (s : Nat) (l : List α)
    (h : queue_holds q s l) (i : Nat) (hi : i < l.length) :
    (q.lower_idx + i) % q.buffer_size < q.buffer_size
      ∧ queue_slot_ok q.allocated s ((q.lower_idx + i) % q.buffer_size) := by
  have hfit := h.fits
  have hpos : 0 < q.buffer_size := by omega
  have hlt : (q.lower_idx + i) % q.buffer_size < q.buffer_size := Nat.mod_lt _ hpos
  refine ⟨hlt, ?_⟩
  obtain ⟨hi0, hle, hok, hlow, hwin⟩ := h.mark
  rcases hwin with hw | hw
  · apply hok
    rw [Nat.mod_eq_of_lt (by omega)]
    omega
  · apply hok
    omega

/-- The fields of a queue are far from the end of their type. -/
theorem queue_holds_small {α : Type} (q : queue_t α) (s : Nat) (l : List α) (hs : 0 < s)
    (h : queue_holds q s l) :
    q.lower_idx ≤ 2147483648 ∧ l.length ≤ 2147483648 ∧ q.lower_idx + l.length < 4294967296 := by
  obtain ⟨hi0, hle, hok, hlow, hwin⟩ := h.mark
  have hfit := h.fits
  have hhi : hi0 ≤ 2147483648 := by
    by_cases h0 : hi0 = 0
    · omega
    · have := queue_slot_ok_lt _ s (hi0 - 1) hs (hok (hi0 - 1) (by omega))
      omega
  have hlo := h.lower
  refine ⟨by omega, ?_, ?_⟩
  · rcases hwin with hw | hw
    · omega
    · omega
  · rcases hwin with hw | hw
    · omega
    · rcases hlo with h1 | h1
      · omega
      · omega

theorem queue_create_holds {α : Type} (s : Nat) : queue_holds (queue_create : queue_t α) s [] :=
  { size := by show (0 : Nat) < 4294967296; omega
    allocated := by simp [queue_create]
    lower := Or.inr ⟨rfl, rfl⟩
    length := rfl
    fits := Nat.zero_le _
    mark := ⟨0, Nat.zero_le _, fun k hk => absurd hk (Nat.not_lt_zero _), Nat.zero_le _,
      Or.inl (Nat.le_refl _)⟩
    slots := fun i hi => absurd hi (Nat.not_lt_zero _) }

theorem queue_clear_holds {α : Type} (q : queue_t α) (s : Nat) (l : List α)
    (h : queue_holds q s l) : queue_holds (queue_clear q) s [] := by
  obtain ⟨hi0, hle, hok, hlow, hwin⟩ := h.mark
  exact
    { size := h.size
      allocated := h.allocated
      lower := by
        rcases h.lower with h1 | h1
        · exact Or.inl (by show 0 < q.buffer_size; omega)
        · exact Or.inr ⟨h1.1, rfl⟩
      length := rfl
      fits := Nat.zero_le _
      mark := ⟨hi0, hle, hok, Nat.zero_le _, Or.inl (by show 0 + 0 ≤ hi0; omega)⟩
      slots := fun i hi => absurd hi (Nat.not_lt_zero _) }

/-- The queue with the bottom item taken off, as `queue_remove` and
`queue_itr_remove` leave it. -/
theorem queue_advance_holds {α : Type} (q q2 : queue_t α) (s : Nat) (x : α) (rest : List α)
    (h : queue_holds q s (x :: rest))
    (hptr : q2.ptr = q.ptr) (halloc : q2.allocated = q.allocated)
    (hsize : q2.buffer_size = q.buffer_size) (hlen : q2.length = rest.length)
    (hlow : q2.lower_idx = if q.lower_idx + 1 = q.buffer_size then 0 else q.lower_idx + 1) :
    queue_holds q2 s rest := by
  obtain ⟨hi0, hle, hok, hlo, hwin⟩ := h.mark
  have hfit := h.fits
  have hlen1 : (x :: rest).length = rest.length + 1 := rfl
  rw [hlen1] at hfit hwin
  have hlower : q.lower_idx < q.buffer_size := by
    rcases h.lower with h1 | h1
    · exact h1
    · omega
  refine ⟨by rw [hsize]; exact h.size, by rw [halloc, hsize]; exact h.allocated, ?_, hlen,
    by rw [hsize]; omega, ⟨hi0, by rw [hsize]; exact hle, by rw [halloc]; exact hok, ?_, ?_⟩, ?_⟩
  · left
    rw [hlow, hsize]
    split_ifs <;> omega
  · rw [hlow]
    split_ifs <;> omega
  · rw [hlow, hsize]
    split_ifs <;> omega
  · intro i hi
    have := h.slots (i + 1) (by rw [hlen1]; omega)
    rw [hptr, hsize, hlow]
    rw [List.get?_cons_succ] at this
    rw [← this]
    congr 2
    split_ifs with h1
    · rw [show q.lower_idx + (i + 1) = i + q.buffer_size by omega, Nat.add_mod_right,
        Nat.zero_add]
    · congr 1
      omega

theorem queue_remove_holds {α : Type} (q : queue_t α) (vars : queue_vars_t) (x : α)
    (rest : List α) (hs2 : vars.item_size < 4294967296)
    (h : queue_holds q vars.item_size (x :: rest)) :
    queue_holds (queue_remove q vars).1 vars.item_size rest
      ∧ (queue_remove q vars).2 = some ((q.lower_idx * vars.item_size : Nat) : Int)
      ∧ q.lower_idx < q.buffer_size
      ∧ queue_slot_ok q.allocated vars.item_size q.lower_idx
      ∧ q.ptr (q.lower_idx * vars.item_size) = some x := by
  have hlen := h.length
  have hlen1 : (x :: rest).length = rest.length + 1 := rfl
  rw [hlen1] at hlen
  have hw := queue_holds_window q _ _ h 0 (by rw [hlen1]; omega)
  have hsl := h.slots 0 (by rw [hlen1]; omega)
  rw [Nat.add_zero] at hw hsl
  have hlower : q.lower_idx < q.buffer_size := by
    rcases h.lower with h1 | h1
    · exact h1
    · have := h.fits
      rw [hlen1] at this
      omega
  rw [Nat.mod_eq_of_lt hlower] at hw hsl
  have hsz := h.size
  have hne : q.length ≠ 0 := by omega
  have e1 : (q.lower_idx + 1) % 4294967296 = q.lower_idx + 1 := Nat.mod_eq_of_lt (by omega)
  have e2 : vars.item_size % 4294967296 = vars.item_size := Nat.mod_eq_of_lt hs2
  refine ⟨?_, ?_, hlower, hw.2, hsl⟩
  · apply queue_advance_holds q _ _ x rest h
    · simp only [queue_remove, if_neg hne]
    · simp only [queue_remove, if_neg hne]
    · simp only [queue_remove, if_neg hne]
    · simp only [queue_remove, if_neg hne]
      omega
    · simp only [queue_remove, if_neg hne, e1]
  · simp only [queue_remove, if_neg hne, e2]
    rw [uint32_to_int_of_lt _ hw.2.1]

theorem queue_itr_remove_fst {α : Type} (q : queue_t α) (itr : queue_itr_t) :
    (queue_itr_remove q itr).1
      = { q with
          lower_idx := if (q.lower_idx + 1) % 4294967296 = q.buffer_size then 0
            else (q.lower_idx + 1) % 4294967296
          length := (q.length + 4294967295) % 4294967296 } := by
  unfold queue_itr_remove
  rfl

theorem queue_itr_remove_snd {α : Type} (q : queue_t α) (itr : queue_itr_t) :
    (queue_itr_remove q itr).2 = { itr with count := (itr.count + 65535) % 65536 } := by
  unfold queue_itr_remove
  rfl

theorem queue_itr_remove_holds {α : Type} (q : queue_t α) (itr : queue_itr_t) (s : Nat) (x : α)
    (rest : List α) (h : queue_holds q s (x :: rest)) :
    queue_holds (queue_itr_remove q itr).1 s rest := by
  have hlen := h.length
  have hlen1 : (x :: rest).length = rest.length + 1 := rfl
  rw [hlen1] at hlen
  have hlower : q.lower_idx < q.buffer_size := by
    rcases h.lower with h1 | h1
    · exact h1
    · have := h.fits
      rw [hlen1] at this
      omega
  have hsz := h.size
  have hfit := h.fits
  rw [hlen1] at hfit
  have e1 : (q.lower_idx + 1) % 4294967296 = q.lower_idx + 1 := Nat.mod_eq_of_lt (by omega)
  have e2 : (q.length + 4294967295) % 4294967296 = rest.length := by omega
  rw [queue_itr_remove_fst, e1, e2]
  exact queue_advance_holds q _ s x rest h rfl rfl rfl rfl rfl
/-- The pointer that `queue_top` returns on a queue that holds items. -/
theorem queue_top_holds {α : Type} (q : queue_t α) (vars : queue_vars_t) (l : List α)
    (hs : 0 < vars.item_size) (hs2 : vars.item_size < 4294967296)
    (h : queue_holds q vars.item_size l) :
    (l = [] ∧ queue_top q vars = .ok none)
      ∨ (∃ slot x, l.getLast? = some x ∧ slot < q.buffer_size
          ∧ queue_slot_ok q.allocated vars.item_size slot
          ∧ queue_top q vars = .ok (some ((slot * vars.item_size : Nat) : Int))
          ∧ q.ptr (slot * vars.item_size) = some x) := by
  have hlen := h.length
  by_cases hl : l = []
  · left
    refine ⟨hl, ?_⟩
    rw [hl] at hlen
    simp only [queue_top, hlen, List.length_nil, if_true]
  · right
    have hpos : 0 < l.length := List.length_pos.mpr hl
    obtain ⟨hw1, hw2⟩ := queue_holds_window q _ _ h (l.length - 1) (by omega)
    have hsl := h.slots (l.length - 1) (by omega)
    obtain ⟨hb1, hb2, hb3⟩ := queue_holds_small q _ l hs h
    have hne : q.length ≠ 0 := by omega
    have hfit := h.fits
    have hne2 : q.buffer_size ≠ 0 := by omega
    have hslot := queue_slot_ok_lt _ _ _ hs hw2
    have e0 : (q.lower_idx + q.length + 4294967295) % 4294967296
        = q.lower_idx + (l.length - 1) := by omega
    have e1 : vars.item_size % 4294967296 = vars.item_size := Nat.mod_eq_of_lt hs2
    refine ⟨(q.lower_idx + (l.length - 1)) % q.buffer_size, l.getLast hl,
      List.getLast?_eq_getLast _ hl, hw1, hw2, ?_, ?_⟩
    · simp only [queue_top, if_neg hne, if_neg hne2, e0, e1]
      rw [uint32_to_int_of_lt _ hslot, int_to_uint32_of_nat _ (by omega),
        uint32_to_int_of_lt _ hw2.1]
    · rw [hsl, List.get?_eq_getElem?, List.getLast_eq_getElem,
        List.getElem?_eq_getElem (by omega)]

/-- The first pointer of an iteration over a queue that holds items. -/
theorem queue_itr_begin_holds {α : Type} (q : queue_t α) (vars : queue_vars_t) (x : α)
    (rest : List α) (itr : queue_itr_t) (hs2 : vars.item_size < 4294967296)
    (h : queue_holds q vars.item_size (x :: rest)) :
    queue_itr_begin q vars itr
      = ({ count := 1, pos := q.lower_idx * vars.item_size },
          some ((q.lower_idx * vars.item_size : Nat) : Int))
      ∧ q.lower_idx < q.buffer_size
      ∧ queue_slot_ok q.allocated vars.item_size q.lower_idx
      ∧ q.ptr (q.lower_idx * vars.item_size) = some x := by
  obtain ⟨-, -, h3, h4, h5⟩ := queue_remove_holds q vars x rest hs2 h
  have hlen := h.length
  have hlen1 : (x :: rest).length = rest.length + 1 := rfl
  rw [hlen1] at hlen
  have hne : q.length ≠ 0 := by omega
  have e1 : vars.item_size % 4294967296 = vars.item_size := Nat.mod_eq_of_lt hs2
  have e2 : q.lower_idx * vars.item_size % 4294967296 = q.lower_idx * vars.item_size :=
    Nat.mod_eq_of_lt (by have := h4.1; omega)
  refine ⟨?_, h3, h4, h5⟩
  simp only [queue_itr_begin, if_neg hne, e1, e2]

/-- The pointer that `queue_itr_next` returns after `queue_itr_remove` has
taken the item at the iterator off the queue: the bottom of the queue left. -/
theorem queue_itr_next_holds {α : Type} (q : queue_t α) (vars : queue_vars_t) (x y : α)
    (rest : List α) (hs : 0 < vars.item_size) (hs2 : vars.item_size < 4294967296)
    (h : queue_holds q vars.item_size (x :: y :: rest)) :
    queue_itr_next (queue_itr_remove q { count := 1, pos := q.lower_idx * vars.item_size }).1
        vars (queue_itr_remove q { count := 1, pos := q.lower_idx * vars.item_size }).2
      = ({ count := 1,
           pos := (queue_itr_remove q { count := 1, pos := q.lower_idx * vars.item_size }).1.lower_idx
              * vars.item_size },
         some (((queue_itr_remove q
            { count := 1, pos := q.lower_idx * vars.item_size }).1.lower_idx
              * vars.item_size : Nat) : Int)) := by
  have h2 := queue_itr_remove_holds q { count := 1, pos := q.lower_idx * vars.item_size } _ x
    (y :: rest) h
  have hlen := h2.length
  have hlen1 : (y :: rest).length = rest.length + 1 := rfl
  rw [hlen1] at hlen
  have hw := queue_holds_window q _ _ h 1 (by simp)
  have hw0 := queue_holds_window q _ _ h 0 (by simp)
  have hlower : q.lower_idx < q.buffer_size := by
    rcases h.lower with h1 | h1
    · exact h1
    · have := h.fits
      simp only [List.length_cons] at this
      omega
  have hsz := h.size
  have halloc := h.allocated
  have e1 : vars.item_size % 4294967296 = vars.item_size := Nat.mod_eq_of_lt hs2
  have e3 : (q.lower_idx + 1) % 4294967296 = q.lower_idx + 1 := Nat.mod_eq_of_lt (by omega)
  rw [queue_itr_remove_snd]
  have hne : ¬ ((1 + 65535) % 65536 = (queue_itr_remove q
      { count := 1, pos := q.lower_idx * vars.item_size }).1.length) := by
    rw [hlen]
    omega
  have hlow2 : (queue_itr_remove q { count := 1, pos := q.lower_idx * vars.item_size }).1.lower_idx
      = if q.lower_idx + 1 = q.buffer_size then 0 else q.lower_idx + 1 := by
    rw [queue_itr_remove_fst, e3]
  have hsize2 : (queue_itr_remove q
      { count := 1, pos := q.lower_idx * vars.item_size }).1.buffer_size = q.buffer_size := by
    rw [queue_itr_remove_fst]
  rw [Nat.add_zero, Nat.mod_eq_of_lt hlower] at hw0
  have hpos : (q.lower_idx * vars.item_size + vars.item_size) % 4294967296
      = (q.lower_idx + 1) * vars.item_size := by
    rw [Nat.add_mul, Nat.one_mul]
    have := hw0.2.2
    exact Nat.mod_eq_of_lt (by omega)
  simp only [queue_itr_next, if_neg hne, e1, hpos, hsize2, hlow2]
  have hcount : ((1 + 65535) % 65536 + 1) % 65536 = 1 := by decide
  rw [hcount]
  by_cases hwrap : q.lower_idx + 1 = q.buffer_size
  · have hfull : q.buffer_size * vars.item_size % 4294967296
        = q.buffer_size * vars.item_size := by
      have := hw0.2.2
      rw [← hwrap, Nat.add_mul, Nat.one_mul]
      exact Nat.mod_eq_of_lt (by omega)
    rw [if_pos hwrap, hwrap, hfull, if_pos rfl, Nat.zero_mul]
  · rw [if_neg hwrap]
    rw [Nat.mod_eq_of_lt (by omega)] at hw
    have hw2 := hw.2.2
    rw [halloc] at hw2
    have : ¬ ((q.lower_idx + 1) * vars.item_size
        = q.buffer_size * vars.item_size % 4294967296) := by omega
    rw [if_neg this]
/-! ### The loop of `rtt_n_sequence_update` over the queue -/

theorem queue_item_slot {α : Type} (q : queue_t α) (off : Nat) :
    queue_item q (some ((off : Nat) : Int)) = q.ptr off := by
  simp only [queue_item, Int.toNat_ofNat]
  rw [if_neg (by omega)]

/-- The loop of lines 215-224 on a queue that holds the items `l`: it takes the
leading items with `expected_ack <= ack` off the queue, and `rtt` is the time
since the last of them, or as it was when there is none. -/
theorem rtt_n_sequence_acknowledge_holds (vars : queue_vars_t) (hs : 0 < vars.item_size)
    (hs2 : vars.item_size < 4294967296) (ack : Nat) (time : ℚ) :
    ∀ (l : List rtt_n_item_t) (q : queue_t rtt_n_item_t) (rounds : Nat) (rtt : ℚ)
      (itr : queue_itr_t),
      queue_holds q vars.item_size l → l.length ≤ rounds →
      ∃ q2, rtt_n_sequence_acknowledge rounds vars q (queue_itr_begin q vars itr).1
            (queue_itr_begin q vars itr).2 ack time rtt
          = .ok (q2, (((l.takeWhile (fun i => decide (i.expected_ack ≤ ack))).getLast?).map
              (fun i => time - i.time)).getD rtt)
        ∧ queue_holds q2 vars.item_size (l.dropWhile (fun i => decide (i.expected_ack ≤ ack)))
        ∧ q2.buffer_size = q.buffer_size := by
  intro l
  induction l with
  | nil =>
    intro q rounds rtt itr h _
    have hlen := h.length
    have e : queue_itr_begin q vars itr = (itr, none) := by
      simp only [queue_itr_begin, hlen, List.length_nil, if_true]
    rw [e]
    refine ⟨q, ?_, h, rfl⟩
    simp only [rtt_n_sequence_acknowledge, List.takeWhile_nil, List.getLast?_nil, Option.map_none',
      Option.getD_none]
  | cons x rest ih =>
    intro q rounds rtt itr h hrounds
    obtain ⟨hbegin, hlow, hok, hptr⟩ := queue_itr_begin_holds q vars x rest itr hs2 h
    rw [hbegin]
    cases rounds with
    | zero => simp at hrounds
    | succ rounds =>
      simp only [List.length_cons, Nat.add_le_add_iff_right] at hrounds
      simp only [rtt_n_sequence_acknowledge, queue_item_slot, hptr]
      by_cases hack : ack ≥ x.expected_ack
      · rw [if_pos hack]
        have h1 := queue_itr_remove_holds q { count := 1, pos := q.lower_idx * vars.item_size }
          _ x rest h
        have hnext : queue_itr_next
            (queue_itr_remove q { count := 1, pos := q.lower_idx * vars.item_size }).1 vars
            (queue_itr_remove q { count := 1, pos := q.lower_idx * vars.item_size }).2
            = queue_itr_begin
                (queue_itr_remove q { count := 1, pos := q.lower_idx * vars.item_size }).1 vars
                (queue_itr_remove q { count := 1, pos := q.lower_idx * vars.item_size }).2 := by
          cases rest with
          | nil =>
            have hlen := h1.length
            rw [queue_itr_remove_snd]
            simp only [queue_itr_next, queue_itr_begin, hlen, List.length_nil, if_true]
          | cons y rest2 =>
            rw [queue_itr_next_holds q vars x y rest2 hs hs2 h,
              (queue_itr_begin_holds _ vars y rest2 _ hs2 h1).1]
        rw [hnext]
        obtain ⟨q2, hq2, hh2, hsz2⟩ := ih _ rounds (time - x.time) _ h1 hrounds
        refine ⟨q2, ?_, ?_, ?_⟩
        · rw [hq2]
          have et : List.takeWhile (fun i => decide (i.expected_ack ≤ ack)) (x :: rest)
              = x :: List.takeWhile (fun i => decide (i.expected_ack ≤ ack)) rest := by
            simp only [List.takeWhile_cons, decide_eq_true hack, if_true]
          rw [et]
          cases hrest : List.takeWhile (fun i => decide (i.expected_ack ≤ ack)) rest with
          | nil => rfl
          | cons y t =>
            rw [List.getLast?_cons_cons, List.getLast?_eq_getLast _ (List.cons_ne_nil y t)]
            rfl
        · have ed : List.dropWhile (fun i => decide (i.expected_ack ≤ ack)) (x :: rest)
              = List.dropWhile (fun i => decide (i.expected_ack ≤ ack)) rest := by
            simp only [List.dropWhile_cons, decide_eq_true hack, if_true]
          rw [ed]
          exact hh2
        · rw [hsz2, queue_itr_remove_fst]
      · rw [if_neg hack]
        have hx : decide (x.expected_ack ≤ ack) = false := decide_eq_false hack
        refine ⟨q, ?_, ?_, rfl⟩
        · simp only [List.takeWhile_cons, hx, Bool.false_eq_true, if_false, List.getLast?_nil,
            Option.map_none', Option.getD_none]
        · simp only [List.dropWhile_cons, hx, Bool.false_eq_true, if_false]
          exact h
/-! ### `queue_add` in all states -/

theorem queue_vars_ok_initial (vars : queue_vars_t) (hv : queue_vars_ok vars) :
    0 < int_to_uint32 (if vars.buffer_size = -1 then vars.buffer_increment else vars.buffer_size)
      ∧ int_to_uint32 (if vars.buffer_size = -1 then vars.buffer_increment else vars.buffer_size)
        < 2147483648 := by
  unfold int_to_uint32
  rcases hv.policy with h | h
  · rw [if_pos h.1]
    omega
  · rw [if_neg (by omega)]
    omega

/-- A full queue: every slot of the buffer is a slot of the allocated memory,
which has `buffer_size * s` bytes. -/
theorem queue_holds_full {α : Type} (q : queue_t α) (s : Nat) (l : List α) (hs : 0 < s)
    (h : queue_holds q s l) (hne : q.buffer_size ≠ 0) (hfull : q.length = q.buffer_size) :
    (∀ k, k < q.buffer_size → queue_slot_ok q.allocated s k)
      ∧ q.allocated = q.buffer_size * s ∧ q.buffer_size * s < 4294967296
      ∧ q.buffer_size ≤ 2147483648 ∧ q.lower_idx < q.buffer_size := by
  obtain ⟨hi0, hle, hok, hlow, hwin⟩ := h.mark
  have hlen := h.length
  have hhi : hi0 = q.buffer_size := by
    rcases hwin with hw | hw
    · omega
    · exact hw
  rw [hhi] at hok
  have hlast := hok (q.buffer_size - 1) (by omega)
  have e : (q.buffer_size - 1) * s + s = q.buffer_size * s := by
    have := slot_offset_le (q.buffer_size - 1) q.buffer_size s (by omega)
    have h2 : q.buffer_size * s = (q.buffer_size - 1 + 1) * s := by
      congr 1
      omega
    rw [h2, Nat.add_mul, Nat.one_mul]
  have hal := h.allocated
  have hmod : q.buffer_size * s % 4294967296 ≤ q.buffer_size * s := Nat.mod_le _ _
  have hlt : q.buffer_size * s % 4294967296 < 4294967296 := Nat.mod_lt _ (by omega)
  have h2 := hlast.2
  rw [e] at h2
  have hsz := queue_slot_ok_lt _ s _ hs hlast
  refine ⟨hok, by omega, by omega, by omega, ?_⟩
  rcases h.lower with h1 | h1
  · exact h1
  · exact absurd h1.1 hne

/-- Lines 100-137 of `queue_add` on a queue that holds the items `l`: the
function returns `NULL` for a full buffer that cannot grow, or the buffer of
`queue_add_size` slots holds the same items and has a free slot, or a length
or an offset of the growth is outside the memory, which takes a buffer
of `2^31` bytes or more. No assertion fails. -/
theorem queue_add_space_holds {α : Type} (q : queue_t α) (vars : queue_vars_t) (l : List α)
    (hv : queue_vars_ok vars) (h : queue_holds q vars.item_size l) :
    (queue_add_space q vars = .ok none ∧ vars.buffer_size ≠ -1 ∧ q.length = q.buffer_size
        ∧ q.buffer_size ≠ 0)
      ∨ (∃ q1, queue_add_space q vars = .ok (some q1) ∧ queue_holds q1 vars.item_size l
          ∧ l.length < q1.buffer_size ∧ q1.buffer_size = queue_add_size q vars)
      ∨ (queue_add_space q vars = .error fault.undefined_behaviour
          ∧ 2147483648 ≤ queue_add_size q vars * vars.item_size) := by
  obtain ⟨hs, hs2⟩ := hv.item
  have e1 : vars.item_size % 4294967296 = vars.item_size := Nat.mod_eq_of_lt hs2
  have hlen := h.length
  have hfit := h.fits
  by_cases hsize : q.buffer_size = 0
  · right
    left
    obtain ⟨hn1, hn2⟩ := queue_vars_ok_initial vars hv
    have hl0 : l.length = 0 := by omega
    have hlow0 : q.lower_idx = 0 := by
      rcases h.lower with h1 | h1
      · omega
      · exact h1.2
    refine ⟨_, by simp only [queue_add_space, if_pos hsize, e1]; rfl, ?_, ?_, ?_⟩
    · refine ⟨?_, rfl, ?_, hlen, ?_, ⟨0, Nat.zero_le _, fun k hk => absurd hk (Nat.not_lt_zero _),
        ?_, ?_⟩, ?_⟩
      · show int_to_uint32 _ < 4294967296
        omega
      · left
        show q.lower_idx < int_to_uint32 _
        omega
      · show l.length ≤ int_to_uint32 _
        omega
      · show q.lower_idx ≤ 0
        omega
      · left
        show q.lower_idx + l.length ≤ 0
        omega
      · intro i hi
        omega
    · show l.length < int_to_uint32 _
      omega
    · simp only [queue_add_size, if_pos hsize]
  · have hlower : q.lower_idx < q.buffer_size := by
      rcases h.lower with h1 | h1
      · exact h1
      · exact absurd h1.1 hsize
    by_cases hgrow : vars.buffer_size = -1
    · by_cases hfull : q.length = q.buffer_size
      · obtain ⟨hall, halloc, hbs, hb31, -⟩ := queue_holds_full q _ l hs h hsize hfull
        have hk : (0 : Int) < vars.buffer_increment ∧ vars.buffer_increment < 2147483648 := by
          rcases hv.policy with h1 | h1
          · exact h1.2
          · omega
        have hku : int_to_uint32 vars.buffer_increment = vars.buffer_increment.toNat := by
          unfold int_to_uint32
          omega
        have hk2 : 0 < vars.buffer_increment.toNat ∧ vars.buffer_increment.toNat < 2147483648 := by
          omega
        have esize : queue_add_size q vars = q.buffer_size + vars.buffer_increment.toNat := by
          simp only [queue_add_size, if_neg hsize, hgrow, hfull, and_self, if_true, hku]
          exact Nat.mod_eq_of_lt (by omega)
        have enew : (q.buffer_size + vars.buffer_increment.toNat) % 4294967296
            = q.buffer_size + vars.buffer_increment.toNat := Nat.mod_eq_of_lt (by omega)
        have hassert : ¬ ¬ (q.lower_idx ≤ q.length
            ∧ q.length ≤ q.buffer_size + vars.buffer_increment.toNat) := by omega
        have ed : (q.length + 4294967296 - q.lower_idx) % 4294967296
            = q.buffer_size - q.lower_idx := by omega
        have hd1 : (q.buffer_size - q.lower_idx) * vars.item_size
            + q.lower_idx * vars.item_size = q.buffer_size * vars.item_size := by
          rw [← Nat.add_mul]
          congr 1
          omega
        have eb2 : uint32_to_int (vars.item_size * q.lower_idx)
            = ((q.lower_idx * vars.item_size : Nat) : Int) := by
          rw [Nat.mul_comm]
          exact uint32_to_int_of_lt _ (hall _ hlower).1
        have hgrowth : q.buffer_size * vars.item_size
            ≤ (q.buffer_size + vars.buffer_increment.toNat) * vars.item_size :=
          Nat.mul_le_mul_right _ (by omega)
        have hunfold : queue_add_space q vars
            = if uint32_to_int (vars.item_size * (q.buffer_size - q.lower_idx)) < 0
                ∨ ((q.lower_idx * vars.item_size : Nat) : Int) < 0 then
                .error fault.undefined_behaviour
              else if (q.lower_idx * vars.item_size)
                    + (uint32_to_int (vars.item_size * (q.buffer_size - q.lower_idx))).toNat
                    > q.allocated
                  ∨ (uint32_to_int (vars.item_size * (q.buffer_size - q.lower_idx))).toNat
                    + (q.lower_idx * vars.item_size)
                    > (q.buffer_size + vars.buffer_increment.toNat) * vars.item_size % 4294967296
                then .error fault.undefined_behaviour
              else
                .ok (some
                  { ptr := fun j =>
                      if j + vars.item_size
                          ≤ (uint32_to_int
                              (vars.item_size * (q.buffer_size - q.lower_idx))).toNat then
                        q.ptr ((q.lower_idx * vars.item_size) + j)
                      else if (uint32_to_int
                            (vars.item_size * (q.buffer_size - q.lower_idx))).toNat ≤ j
                          ∧ j + vars.item_size
                            ≤ (uint32_to_int
                                (vars.item_size * (q.buffer_size - q.lower_idx))).toNat
                              + (q.lower_idx * vars.item_size) then
                        q.ptr (j - (uint32_to_int
                            (vars.item_size * (q.buffer_size - q.lower_idx))).toNat)
                      else none
                    allocated := (q.buffer_size + vars.buffer_increment.toNat) * vars.item_size
                      % 4294967296
                    length := q.length
                    lower_idx := 0
                    buffer_size := q.buffer_size + vars.buffer_increment.toNat }) := by
          simp only [queue_add_space, if_neg hsize, hgrow, if_true, if_pos hfull, hku, enew, e1,
            ed, eb2, Int.toNat_ofNat, if_neg hassert]
        rw [hunfold, esize]
        by_cases hb1 : (q.buffer_size - q.lower_idx) * vars.item_size < 2147483648
        · have eb1 : uint32_to_int (vars.item_size * (q.buffer_size - q.lower_idx))
              = (((q.buffer_size - q.lower_idx) * vars.item_size : Nat) : Int) := by
            rw [Nat.mul_comm]
            exact uint32_to_int_of_lt _ hb1
          rw [eb1]
          simp only [Int.toNat_ofNat]
          have hneg : ¬ ((((q.buffer_size - q.lower_idx) * vars.item_size : Nat) : Int) < 0
              ∨ ((q.lower_idx * vars.item_size : Nat) : Int) < 0) := by omega
          rw [if_neg hneg]
          by_cases hfit2 : q.buffer_size * vars.item_size
              ≤ (q.buffer_size + vars.buffer_increment.toNat) * vars.item_size % 4294967296
          · right
            left
            have hfit3 : ¬ (q.lower_idx * vars.item_size
                  + (q.buffer_size - q.lower_idx) * vars.item_size > q.allocated
                ∨ (q.buffer_size - q.lower_idx) * vars.item_size + q.lower_idx * vars.item_size
                  > (q.buffer_size + vars.buffer_increment.toNat) * vars.item_size
                    % 4294967296) := by
              rw [halloc]
              omega
            rw [if_neg hfit3]
            refine ⟨_, rfl, ?_, ?_, rfl⟩
            · refine ⟨?_, rfl, Or.inl ?_, hlen, ?_, ⟨q.buffer_size, ?_, ?_, Nat.zero_le _, ?_⟩, ?_⟩
              · show q.buffer_size + vars.buffer_increment.toNat < 4294967296
                omega
              · show 0 < q.buffer_size + vars.buffer_increment.toNat
                omega
              · show l.length ≤ q.buffer_size + vars.buffer_increment.toNat
                omega
              · show q.buffer_size ≤ q.buffer_size + vars.buffer_increment.toNat
                omega
              · intro k hk
                have h1 := hall k hk
                refine ⟨h1.1, ?_⟩
                show k * vars.item_size + vars.item_size
                  ≤ (q.buffer_size + vars.buffer_increment.toNat) * vars.item_size % 4294967296
                have := slot_offset_le k q.buffer_size vars.item_size hk
                omega
              · left
                show 0 + l.length ≤ q.buffer_size
                omega
              · intro i hi
                have hmod : (0 + i) % (q.buffer_size + vars.buffer_increment.toNat) = i := by
                  rw [Nat.zero_add]
                  exact Nat.mod_eq_of_lt (by omega)
                show (if (0 + i) % (q.buffer_size + vars.buffer_increment.toNat)
                      * vars.item_size + vars.item_size
                      ≤ (q.buffer_size - q.lower_idx) * vars.item_size then
                    q.ptr (q.lower_idx * vars.item_size
                      + (0 + i) % (q.buffer_size + vars.buffer_increment.toNat) * vars.item_size)
                  else if (q.buffer_size - q.lower_idx) * vars.item_size
                        ≤ (0 + i) % (q.buffer_size + vars.buffer_increment.toNat)
                          * vars.item_size
                      ∧ (0 + i) % (q.buffer_size + vars.buffer_increment.toNat) * vars.item_size
                          + vars.item_size
                        ≤ (q.buffer_size - q.lower_idx) * vars.item_size
                          + q.lower_idx * vars.item_size then
                    q.ptr ((0 + i) % (q.buffer_size + vars.buffer_increment.toNat)
                        * vars.item_size
                      - (q.buffer_size - q.lower_idx) * vars.item_size)
                  else none) = _
                rw [hmod, ← h.slots i hi]
                by_cases hi2 : i < q.buffer_size - q.lower_idx
                · have h1 := slot_offset_le i (q.buffer_size - q.lower_idx) vars.item_size hi2
                  rw [if_pos h1, ← Nat.add_mul, Nat.mod_eq_of_lt (by omega)]
                · have h1 : (q.buffer_size - q.lower_idx) * vars.item_size
                      ≤ i * vars.item_size := Nat.mul_le_mul_right _ (by omega)
                  have h2 := slot_offset_le i q.buffer_size vars.item_size (by omega)
                  have h3 : ¬ (i * vars.item_size + vars.item_size
                      ≤ (q.buffer_size - q.lower_idx) * vars.item_size) := by
                    have := slot_offset_le (q.buffer_size - q.lower_idx - 1 + 1) (i + 1)
                      vars.item_size (by omega)
                    have e5 : q.buffer_size - q.lower_idx - 1 + 1
                        = q.buffer_size - q.lower_idx := by omega
                    rw [e5] at this
                    rw [Nat.add_mul, Nat.one_mul] at this
                    omega
                  rw [if_neg h3, if_pos ⟨h1, by omega⟩, ← Nat.sub_mul]
                  congr 2
                  have : q.lower_idx + i
                      = (i - (q.buffer_size - q.lower_idx)) + q.buffer_size := by omega
                  rw [this, Nat.add_mod_right, Nat.mod_eq_of_lt (by omega)]
            · show l.length < q.buffer_size + vars.buffer_increment.toNat
              omega
          · right
            right
            have hfit3 : (q.lower_idx * vars.item_size
                  + (q.buffer_size - q.lower_idx) * vars.item_size > q.allocated
                ∨ (q.buffer_size - q.lower_idx) * vars.item_size + q.lower_idx * vars.item_size
                  > (q.buffer_size + vars.buffer_increment.toNat) * vars.item_size
                    % 4294967296) := by
              right
              omega
            rw [if_pos hfit3]
            refine ⟨rfl, ?_⟩
            by_contra hcon
            have : (q.buffer_size + vars.buffer_increment.toNat) * vars.item_size % 4294967296
                = (q.buffer_size + vars.buffer_increment.toNat) * vars.item_size :=
              Nat.mod_eq_of_lt (by omega)
            omega
        · right
          right
          have hle : (q.buffer_size - q.lower_idx) * vars.item_size
              ≤ q.buffer_size * vars.item_size := Nat.mul_le_mul_right _ (by omega)
          have eb1 : uint32_to_int (vars.item_size * (q.buffer_size - q.lower_idx)) < 0 := by
            rw [Nat.mul_comm]
            unfold uint32_to_int
            rw [Nat.mod_eq_of_lt (by omega), if_neg (by omega)]
            omega
          rw [if_pos (Or.inl eb1)]
          exact ⟨rfl, by omega⟩
      · right
        left
        refine ⟨q, ?_, h, by omega, ?_⟩
        · simp only [queue_add_space, if_neg hsize, hgrow, if_true, if_neg hfull]
        · simp only [queue_add_size, if_neg hsize, hfull, and_false, if_false]
    · by_cases hfull : q.length = q.buffer_size
      · left
        refine ⟨?_, hgrow, hfull, hsize⟩
        simp only [queue_add_space, if_neg hsize, if_neg hgrow, if_pos hfull]
      · right
        left
        refine ⟨q, ?_, h, by omega, ?_⟩
        · simp only [queue_add_space, if_neg hsize, if_neg hgrow, if_neg hfull]
        · simp only [queue_add_size, if_neg hsize, hgrow, false_and, if_false]
theorem int_to_uint32_to_int (x : Nat) (h : x < 4294967296) :
    int_to_uint32 (uint32_to_int x) = x := by
  unfold uint32_to_int int_to_uint32
  rw [Nat.mod_eq_of_lt h]
  split_ifs <;> omega

/-- The slot that `queue_add` writes lies at or below the mark of the queue. -/
theorem queue_holds_next_slot {α : Type} (q : queue_t α) (s : Nat) (l : List α) (hs : 0 < s)
    (h : queue_holds q s l) (hfree : l.length < q.buffer_size) :
    ∃ hi, hi ≤ q.buffer_size ∧ (∀ k, k < hi → queue_slot_ok q.allocated s k) ∧
      q.lower_idx ≤ hi ∧ (q.lower_idx + l.length ≤ hi ∨ hi = q.buffer_size) ∧
      (q.lower_idx + l.length) % q.buffer_size ≤ hi ∧
      (q.lower_idx + l.length) % q.buffer_size < q.buffer_size ∧
      (q.buffer_size ≤ q.lower_idx + l.length → hi = q.buffer_size) ∧
      ((q.lower_idx + l.length) % q.buffer_size * s < 4294967296) ∧
      (q.lower_idx + l.length < q.buffer_size →
        (q.lower_idx + l.length) % q.buffer_size = q.lower_idx + l.length) ∧
      (q.buffer_size ≤ q.lower_idx + l.length →
        (q.lower_idx + l.length) % q.buffer_size + q.buffer_size = q.lower_idx + l.length) := by
  obtain ⟨hi0, hle, hok, hlow, hwin⟩ := h.mark
  have hlower : q.lower_idx < q.buffer_size := by
    rcases h.lower with h1 | h1
    · exact h1
    · omega
  have hlt : (q.lower_idx + l.length) % q.buffer_size < q.buffer_size :=
    Nat.mod_lt _ (by omega)
  have hw1 : q.lower_idx + l.length < q.buffer_size →
      (q.lower_idx + l.length) % q.buffer_size = q.lower_idx + l.length :=
    fun hlt2 => Nat.mod_eq_of_lt hlt2
  have hw2 : q.buffer_size ≤ q.lower_idx + l.length →
      (q.lower_idx + l.length) % q.buffer_size + q.buffer_size = q.lower_idx + l.length := by
    intro hge
    have e : q.lower_idx + l.length
        = (q.lower_idx + l.length - q.buffer_size) + q.buffer_size := by omega
    rw [e, Nat.add_mod_right, Nat.mod_eq_of_lt (by omega)]
  have hwle : (q.lower_idx + l.length) % q.buffer_size ≤ hi0 := by
    by_cases hc : q.lower_idx + l.length < q.buffer_size
    · rw [hw1 hc]
      rcases hwin with hw | hw
      · exact hw
      · omega
    · have := hw2 (by omega)
      omega
  refine ⟨hi0, hle, hok, hlow, hwin, hwle, hlt, ?_, ?_, hw1, hw2⟩
  · intro hge
    rcases hwin with hw | hw
    · omega
    · exact hw
  · by_cases h0 : hi0 = 0
    · have : (q.lower_idx + l.length) % q.buffer_size = 0 := by omega
      rw [this, Nat.zero_mul]
      omega
    · have h1 := (hok (hi0 - 1) (by omega)).2
      have h2 := h.allocated
      have h3 : q.buffer_size * s % 4294967296 < 4294967296 := Nat.mod_lt _ (by omega)
      have h4 : (q.lower_idx + l.length) % q.buffer_size * s ≤ (hi0 - 1) * s + s := by
        have := Nat.mul_le_mul_right s hwle
        have e : hi0 * s = (hi0 - 1) * s + s := by
          have h5 : hi0 = hi0 - 1 + 1 := by omega
          rw [h5, Nat.add_mul, Nat.one_mul]
          congr 2
        omega
      omega

theorem queue_write_ok {α : Type} (q : queue_t α) (s slot : Nat) (item : α)
    (hok : queue_slot_ok q.allocated s slot) :
    queue_write q s ((slot * s : Nat) : Int) item
      = .ok { q with
          ptr := fun j =>
            if j = slot * s then some item
            else if j < slot * s + s ∧ slot * s < j + s then none
            else q.ptr j } := by
  have hguard : ¬ (((slot * s : Nat) : Int) < 0
      ∨ ((slot * s : Nat) : Int).toNat + s > q.allocated) := by
    rw [Int.toNat_ofNat]
    have := hok.2
    omega
  unfold queue_write
  rw [if_neg hguard]
  simp only [Int.toNat_ofNat]

theorem queue_write_outside {α : Type} (q : queue_t α) (s : Nat) (idx : Int) (item : α)
    (h : idx < 0 ∨ idx.toNat + s > q.allocated) :
    queue_write q s idx item = .error fault.undefined_behaviour := by
  unfold queue_write
  rw [if_pos h]

/-- Function `queue_add` on a queue that holds the items `l`: it returns `NULL`
for a full buffer that cannot grow and leaves the queue as it is, or it
returns the pointer to a slot of the allocated memory and the queue holds `l`
with the item at the top, or an offset or a length is outside the memory,
which takes a buffer of `2^31` bytes or more. No assertion fails. -/
theorem queue_add_holds {α : Type} (q : queue_t α) (vars : queue_vars_t) (item : α)
    (l : List α) (hv : queue_vars_ok vars) (h : queue_holds q vars.item_size l) :
    (queue_add q vars item = .ok (q, none) ∧ vars.buffer_size ≠ -1 ∧ q.length = q.buffer_size
        ∧ q.buffer_size ≠ 0)
      ∨ (∃ q2 slot, queue_add q vars item = .ok (q2, some ((slot * vars.item_size : Nat) : Int))
          ∧ queue_holds q2 vars.item_size (l ++ [item]) ∧ slot < q2.buffer_size
          ∧ queue_slot_ok q2.allocated vars.item_size slot
          ∧ q2.ptr (slot * vars.item_size) = some item
          ∧ q2.buffer_size = queue_add_size q vars)
      ∨ (queue_add q vars item = .error fault.undefined_behaviour
          ∧ 2147483648 ≤ queue_add_size q vars * vars.item_size) := by
  obtain ⟨hs, hs2⟩ := hv.item
  have e1 : vars.item_size % 4294967296 = vars.item_size := Nat.mod_eq_of_lt hs2
  rcases queue_add_space_holds q vars l hv h with hnull | ⟨q1, hspace, h1, hfree, hsz1⟩ | hub
  · left
    refine ⟨?_, hnull.2⟩
    simp only [queue_add, hnull.1]
  · right
    have hne : q1.buffer_size ≠ 0 := by omega
    obtain ⟨hb1, hb2, hb3⟩ := queue_holds_small q1 _ l hs h1
    obtain ⟨hi0, hle, hok, hlow, hwin, hwle, hwlt, hwrap, hw32, hw1, hw2⟩ :=
      queue_holds_next_slot q1 _ l hs h1 hfree
    have hlen1 := h1.length
    have hsize1 := h1.size
    have e0 : (q1.lower_idx + q1.length) % 4294967296 = q1.lower_idx + l.length := by
      rw [hlen1]
      exact Nat.mod_eq_of_lt hb3
    have e2 : int_to_uint32 (uint32_to_int ((q1.lower_idx + l.length) % q1.buffer_size))
        = (q1.lower_idx + l.length) % q1.buffer_size :=
      int_to_uint32_to_int _ (by omega)
    have hunfold : queue_add q vars item
        = match queue_write q1 vars.item_size
            (uint32_to_int ((q1.lower_idx + l.length) % q1.buffer_size * vars.item_size))
            item with
          | .error e => .error e
          | .ok array =>
            .ok ({ array with length := (array.length + 1) % 4294967296 },
              some (uint32_to_int
                ((q1.lower_idx + l.length) % q1.buffer_size * vars.item_size))) := by
      simp only [queue_add, hspace, if_neg hne, e0, e1, e2]
    rw [hunfold, ← hsz1]
    by_cases hslot : queue_slot_ok q1.allocated vars.item_size
        ((q1.lower_idx + l.length) % q1.buffer_size)
    · left
      have e3 : uint32_to_int ((q1.lower_idx + l.length) % q1.buffer_size * vars.item_size)
          = (((q1.lower_idx + l.length) % q1.buffer_size * vars.item_size : Nat) : Int) :=
        uint32_to_int_of_lt _ hslot.1
      have e4 : (q1.length + 1) % 4294967296 = l.length + 1 := by
        rw [hlen1]
        exact Nat.mod_eq_of_lt (by omega)
      rw [e3, queue_write_ok q1 _ _ item hslot]
      simp only [e4]
      refine ⟨_, (q1.lower_idx + l.length) % q1.buffer_size, rfl, ?_, hwlt, hslot, ?_, rfl⟩
      · refine ⟨hsize1, h1.allocated, h1.lower, ?_, ?_, ?_, ?_⟩
        · show l.length + 1 = (l ++ [item]).length
          rw [List.length_append, List.length_singleton]
        · show (l ++ [item]).length ≤ q1.buffer_size
          rw [List.length_append, List.length_singleton]
          omega
        · rw [List.length_append, List.length_singleton]
          by_cases hin : (q1.lower_idx + l.length) % q1.buffer_size < hi0
          · refine ⟨hi0, hle, hok, hlow, ?_⟩
            by_cases hc : q1.lower_idx + l.length < q1.buffer_size
            · left
              have := hw1 hc
              show q1.lower_idx + (l.length + 1) ≤ hi0
              omega
            · right
              exact hwrap (by omega)
          · refine ⟨(q1.lower_idx + l.length) % q1.buffer_size + 1,
              (by show _ + 1 ≤ q1.buffer_size; omega), ?_, ?_, ?_⟩
            · intro k hk
              by_cases hk2 : k < hi0
              · exact hok k hk2
              · have : k = (q1.lower_idx + l.length) % q1.buffer_size := by omega
                rw [this]
                exact hslot
            · show q1.lower_idx ≤ (q1.lower_idx + l.length) % q1.buffer_size + 1
              omega
            · by_cases hc : q1.lower_idx + l.length < q1.buffer_size
              · left
                have := hw1 hc
                show q1.lower_idx + (l.length + 1)
                  ≤ (q1.lower_idx + l.length) % q1.buffer_size + 1
                omega
              · have := hwrap (by omega)
                have := hw2 (by omega)
                omega
        · intro i hi
          rw [List.length_append, List.length_singleton] at hi
          show (if (q1.lower_idx + i) % q1.buffer_size * vars.item_size
                = (q1.lower_idx + l.length) % q1.buffer_size * vars.item_size then some item
              else if (q1.lower_idx + i) % q1.buffer_size * vars.item_size
                    < (q1.lower_idx + l.length) % q1.buffer_size * vars.item_size
                      + vars.item_size
                  ∧ (q1.lower_idx + l.length) % q1.buffer_size * vars.item_size
                    < (q1.lower_idx + i) % q1.buffer_size * vars.item_size + vars.item_size
                then none
              else q1.ptr ((q1.lower_idx + i) % q1.buffer_size * vars.item_size))
            = (l ++ [item]).get? i
          by_cases hil : i < l.length
          · have hne2 : (q1.lower_idx + i) % q1.buffer_size
                ≠ (q1.lower_idx + l.length) % q1.buffer_size := by
              have hlowb : q1.lower_idx < q1.buffer_size := by
                rcases h1.lower with h2 | h2
                · exact h2
                · exact absurd h2.1 hne
              intro heq
              by_cases hc1 : q1.lower_idx + i < q1.buffer_size
              · rw [Nat.mod_eq_of_lt hc1] at heq
                by_cases hc2 : q1.lower_idx + l.length < q1.buffer_size
                · rw [Nat.mod_eq_of_lt hc2] at heq
                  omega
                · have := hw2 (by omega)
                  omega
              · have e : q1.lower_idx + i
                    = (q1.lower_idx + i - q1.buffer_size) + q1.buffer_size := by omega
                have := hw2 (by omega)
                rw [e, Nat.add_mod_right, Nat.mod_eq_of_lt (by omega)] at heq
                omega
            obtain ⟨hn1, hn2⟩ := slot_offset_ne _ _ vars.item_size hs hne2
            rw [if_neg hn1, if_neg hn2, h1.slots i hil, List.get?_eq_getElem?,
              List.get?_eq_getElem?, List.getElem?_append_left hil]
          · have hi2 : i = l.length := by omega
            rw [hi2, if_pos rfl, List.get?_eq_getElem?,
              List.getElem?_append_right (Nat.le_refl _), Nat.sub_self]
            rfl
      · show (if (q1.lower_idx + l.length) % q1.buffer_size * vars.item_size
              = (q1.lower_idx + l.length) % q1.buffer_size * vars.item_size then some item
            else _) = some item
        rw [if_pos rfl]
    · right
      have hguard : uint32_to_int ((q1.lower_idx + l.length) % q1.buffer_size * vars.item_size)
            < 0
          ∨ (uint32_to_int ((q1.lower_idx + l.length) % q1.buffer_size
              * vars.item_size)).toNat + vars.item_size > q1.allocated := by
        by_cases h31 : (q1.lower_idx + l.length) % q1.buffer_size * vars.item_size < 2147483648
        · right
          rw [uint32_to_int_of_lt _ h31, Int.toNat_ofNat]
          by_contra hcon
          exact hslot ⟨h31, by omega⟩
        · left
          unfold uint32_to_int
          rw [Nat.mod_eq_of_lt hw32, if_neg h31]
          omega
      rw [queue_write_outside q1 _ _ item hguard]
      refine ⟨rfl, ?_⟩
      by_contra hcon
      apply hslot
      have hal := h1.allocated
      rw [Nat.mod_eq_of_lt (by omega)] at hal
      have := slot_offset_le _ q1.buffer_size vars.item_size hwlt
      exact ⟨by omega, by omega⟩
  · right
    right
    refine ⟨?_, hub.2⟩
    simp only [queue_add, hub.1]

/-! ### The sequence-based estimator in all states that returning calls reach -/

theorem rtt_n_queue_vars_ok (size : Int) :
    queue_vars_ok (rtt_n_queue_vars (rtt_n_sequence_set_buffer_size size)) := by
  refine ⟨⟨(by show 0 < 16; omega), (by show 16 < 4294967296; omega)⟩, ?_⟩
  show (rtt_n_sequence_set_buffer_size size = -1 ∧ (0 : Int) < 10 ∧ (10 : Int) < 2147483648)
    ∨ (0 < rtt_n_sequence_set_buffer_size size
        ∧ rtt_n_sequence_set_buffer_size size < 2147483648)
  unfold rtt_n_sequence_set_buffer_size
  split_ifs with h
  · rcases h with h | h
    · left
      exact ⟨h, by decide, by decide⟩
    · right
      omega
  · left
    exact ⟨rfl, by decide, by decide⟩

/-- The buffer of a queue of the estimator stays below `2^31` bytes in a call
of `queue_add` when it has fewer than 134217718 slots. -/
theorem rtt_n_queue_add_size (size : Int) (q : queue_t rtt_n_item_t)
    (hroom : q.buffer_size + 10 < 134217728) :
    queue_add_size q (rtt_n_queue_vars (rtt_n_sequence_set_buffer_size size)) * 16
      < 2147483648 := by
  have hsize : rtt_n_sequence_set_buffer_size size = -1
      ∨ (0 < rtt_n_sequence_set_buffer_size size
        ∧ rtt_n_sequence_set_buffer_size size < 65536) := by
    unfold rtt_n_sequence_set_buffer_size
    split_ifs with h
    · rcases h with h | h
      · exact Or.inl h
      · exact Or.inr h
    · exact Or.inl rfl
  have e10 : int_to_uint32 10 = 10 := by decide
  unfold queue_add_size
  simp only [rtt_n_queue_vars]
  rcases hsize with h | h
  · simp only [h, if_true, true_and, e10]
    split_ifs <;> omega
  · have hne : ¬ (rtt_n_sequence_set_buffer_size size = -1) := by omega
    have hu : int_to_uint32 (rtt_n_sequence_set_buffer_size size) < 65536 := by
      unfold int_to_uint32
      omega
    simp only [hne, if_false, false_and]
    split_ifs <;> omega

theorem rtt_n_ascending_append (l : List rtt_n_item_t) (item : rtt_n_item_t)
    (h : rtt_n_ascending l)
    (hlast : ∀ x, l.getLast? = some x → x.expected_ack < item.expected_ack) :
    rtt_n_ascending (l ++ [item]) := by
  unfold rtt_n_ascending at *
  rw [List.pairwise_append]
  refine ⟨h, List.pairwise_singleton _ _, ?_⟩
  intro a ha b hb
  rw [List.mem_singleton] at hb
  subst hb
  rcases List.eq_nil_or_concat l with hl | ⟨l2, y, hl⟩
  · subst hl
    simp at ha
  · subst hl
    have hy := hlast y (by simp)
    rw [List.concat_eq_append] at h ha
    rw [List.mem_append, List.mem_singleton] at ha
    rcases ha with ha | ha
    · rw [List.pairwise_append] at h
      have := h.2.2 a ha y (List.mem_singleton.mpr rfl)
      omega
    · subst ha
      exact hy

/-- On an ascending queue the loop removes every item with
`expected_ack <= ack`. -/
theorem rtt_n_ascending_dropWhile (ack : Nat) (l : List rtt_n_item_t) (h : rtt_n_ascending l) :
    l.dropWhile (fun i => decide (i.expected_ack ≤ ack))
      = l.filter (fun i => decide (ack < i.expected_ack)) := by
  induction l with
  | nil => rfl
  | cons x rest ih =>
    unfold rtt_n_ascending at h
    rw [List.pairwise_cons] at h
    by_cases hx : x.expected_ack ≤ ack
    · rw [List.dropWhile_cons, if_pos (decide_eq_true hx), ih h.2, List.filter_cons,
        if_neg (by rw [decide_eq_true_eq]; omega)]
    · rw [List.dropWhile_cons, if_neg (by rw [decide_eq_true_eq]; exact hx), List.filter_cons,
        if_pos (decide_eq_true (by omega))]
      congr 1
      symm
      rw [List.filter_eq_self]
      intro a ha
      have := h.1 a ha
      exact decide_eq_true (by omega)

theorem rtt_n_ascending_sublist (l l2 : List rtt_n_item_t) (h : rtt_n_ascending l)
    (hsub : l2.Sublist l) : rtt_n_ascending l2 :=
  List.Pairwise.sublist hsub h

/-- On an ascending queue the last item that the loop removes is the one with
the greatest `expected_ack` among the items with `expected_ack <= ack`. -/
theorem rtt_n_ascending_takeWhile (ack : Nat) (l : List rtt_n_item_t) (h : rtt_n_ascending l) :
    ((l.takeWhile (fun i => decide (i.expected_ack ≤ ack))).getLast? = none
        ∧ ∀ j, j ∈ l → ack < j.expected_ack)
      ∨ ∃ item, (l.takeWhile (fun i => decide (i.expected_ack ≤ ack))).getLast? = some item
          ∧ item ∈ l ∧ item.expected_ack ≤ ack
          ∧ ∀ j, j ∈ l → j.expected_ack ≤ ack → j.expected_ack ≤ item.expected_ack := by
  induction l with
  | nil =>
    left
    exact ⟨rfl, fun j hj => absurd hj (List.not_mem_nil j)⟩
  | cons x rest ih =>
    unfold rtt_n_ascending at h
    rw [List.pairwise_cons] at h
    by_cases hx : x.expected_ack ≤ ack
    · right
      rw [List.takeWhile_cons, if_pos (decide_eq_true hx)]
      rcases ih h.2 with ⟨hnone, hall⟩ | ⟨item, hsome, hmem, hle, hmax⟩
      · refine ⟨x, ?_, List.mem_cons_self _ _, hx, ?_⟩
        · cases ht : List.takeWhile (fun i => decide (i.expected_ack ≤ ack)) rest with
          | nil => rfl
          | cons y t =>
            rw [ht] at hnone
            simp at hnone
        · intro j hj hja
          rw [List.mem_cons] at hj
          rcases hj with hj | hj
          · rw [hj]
          · have := hall j hj
            omega
      · refine ⟨item, ?_, List.mem_cons_of_mem _ hmem, hle, ?_⟩
        · cases ht : List.takeWhile (fun i => decide (i.expected_ack ≤ ack)) rest with
          | nil =>
            rw [ht] at hsome
            simp at hsome
          | cons y t =>
            rw [ht] at hsome
            rw [List.getLast?_cons_cons]
            exact hsome
        · intro j hj hja
          rw [List.mem_cons] at hj
          rcases hj with hj | hj
          · rw [hj]
            have := h.1 item hmem
            omega
          · exact hmax j hj hja
    · left
      rw [List.takeWhile_cons, if_neg (by rw [decide_eq_true_eq]; exact hx)]
      refine ⟨rfl, ?_⟩
      intro j hj
      rw [List.mem_cons] at hj
      rcases hj with hj | hj
      · rw [hj]
        omega
      · have := h.1 j hj
        omega

/-- The test of line 191 on a queue that holds the items `l`. -/
theorem rtt_n_sequence_is_new_holds (vars : queue_vars_t) (hs : vars.item_size = 16)
    (q : queue_t rtt_n_item_t) (l : List rtt_n_item_t) (expected : Nat)
    (h : queue_holds q 16 l) :
    rtt_n_sequence_is_new vars q expected
      = .ok (match l.getLast? with
          | none => true
          | some item => decide (expected > item.expected_ack)) := by
  rw [← hs] at h
  rcases queue_top_holds q vars l (by omega) (by omega) h with ⟨hl, htop⟩
    | ⟨slot, x, hlast, -, -, htop, hptr⟩
  · subst hl
    simp only [rtt_n_sequence_is_new, htop, List.getLast?_nil]
  · simp only [rtt_n_sequence_is_new, htop, queue_item_slot, hptr, hlast]

/-- Lines 186-201 on a queue that holds ascending items: the queue holds
ascending items afterwards, the items as they were with the new item at the
top, the items as they were, or none; or `queue_add` has met a buffer of `2^31`
bytes or more. -/
theorem rtt_n_sequence_record_holds (vars : queue_vars_t) (hv : queue_vars_ok vars)
    (hs : vars.item_size = 16) (q : queue_t rtt_n_item_t) (l : List rtt_n_item_t)
    (expected : Nat) (time : ℚ) (h : queue_holds q 16 l) (hasc : rtt_n_ascending l) :
    (∃ q2 l2, rtt_n_sequence_record vars q expected time = .ok q2 ∧ queue_holds q2 16 l2
        ∧ rtt_n_ascending l2)
      ∨ (rtt_n_sequence_record vars q expected time = .error fault.undefined_behaviour
          ∧ 2147483648 ≤ queue_add_size q vars * 16) := by
  have hnew := rtt_n_sequence_is_new_holds vars hs q l expected h
  cases hc : (match l.getLast? with
      | none => true
      | some item => decide (expected > item.expected_ack)) with
  | true =>
    rw [hc] at hnew
    have h16 := h
    rw [← hs] at h16
    rcases queue_add_holds q vars { expected_ack := expected, time := time } l hv h16 with
      ⟨hnull, -⟩ | ⟨q2, slot, hadd, h2, -⟩ | ⟨hub, hbig⟩
    · left
      refine ⟨q, l, ?_, h, hasc⟩
      simp only [rtt_n_sequence_record, hnew, hnull]
    · left
      rw [hs] at h2
      refine ⟨q2, _, ?_, h2, ?_⟩
      · simp only [rtt_n_sequence_record, hnew, hadd]
      · apply rtt_n_ascending_append _ _ hasc
        intro x hx
        rw [hx] at hc
        simpa using hc
    · right
      rw [hs] at hbig
      refine ⟨?_, hbig⟩
      simp only [rtt_n_sequence_record, hnew, hub]
  | false =>
    rw [hc] at hnew
    left
    refine ⟨queue_clear q, [], ?_, queue_clear_holds q 16 l h, List.Pairwise.nil⟩
    simp only [rtt_n_sequence_record, hnew]

theorem rtt_n_dir_set_dir (rtt_n : rtt_n_t) (d : Int) (dir : rtt_n_dir_t) :
    (rtt_n.set_dir d dir).dir d = dir := by
  unfold rtt_n_t.set_dir rtt_n_t.dir
  split_ifs <;> rfl

theorem rtt_n_dir_set_other (rtt_n : rtt_n_t) (d : Int) (hd : d = 0 ∨ d = 1)
    (dir : rtt_n_dir_t) :
    (rtt_n.set_dir (1 - d) dir).dir d = rtt_n.dir d
      ∧ (rtt_n.set_dir d dir).dir (1 - d) = rtt_n.dir (1 - d) := by
  rcases hd with rfl | rfl <;> exact ⟨rfl, rfl⟩

theorem rtt_n_set_dir_last_rtt (rtt_n : rtt_n_t) (d : Int) (dir : rtt_n_dir_t) :
    (rtt_n.set_dir d dir).last_rtt = rtt_n.last_rtt := by
  unfold rtt_n_t.set_dir
  split_ifs <;> rfl

theorem rtt_n_wf_dir (rtt_n : rtt_n_t) (d : Int) (h : rtt_n_wf rtt_n) :
    rtt_n_dir_wf (rtt_n.dir d) := by
  unfold rtt_n_t.dir
  split_ifs
  · exact h.1
  · exact h.2

theorem rtt_n_wf_of_dirs (rtt_n : rtt_n_t) (d : Int) (hd : d = 0 ∨ d = 1)
    (h1 : rtt_n_dir_wf (rtt_n.dir d)) (h2 : rtt_n_dir_wf (rtt_n.dir (1 - d))) :
    rtt_n_wf rtt_n := by
  rcases hd with rfl | rfl
  · exact ⟨h1, h2⟩
  · exact ⟨h2, h1⟩

/-- Lines 178-224 in a state that the calls keep, for a packet of direction
`d` whose queue holds the items `l`: the loop leaves the items behind the
leading ones with `expected_ack <= ack` in the queue of direction `d`, `rtt` is
the time since the last item removed (`-1` when there is none), and the other
direction keeps a queue of ascending items; or `queue_add` has met a buffer of
`2^31` bytes or more. -/
theorem rtt_n_sequence_queues_holds (size : Int) (rtt_n : rtt_n_t) (d : Int)
    (hd : d = 0 ∨ d = 1) (ip : libtrace_ip) (tcp : libtrace_tcp) (time : ℚ)
    (l : List rtt_n_item_t) (hwf : rtt_n_wf rtt_n)
    (hl : queue_holds (rtt_n.dir d).queue 16 l) :
    (∃ queues q2 q3,
        rtt_n_sequence_queues (rtt_n_queue_vars (rtt_n_sequence_set_buffer_size size)) rtt_n d
            ip tcp time
          = .ok (queues,
              (((l.takeWhile (fun i => decide (i.expected_ack ≤ ntohl tcp.ack_seq))).getLast?).map
                (fun i => time - i.time)).getD (-1))
        ∧ queue_holds q2 16 (l.dropWhile (fun i => decide (i.expected_ack ≤ ntohl tcp.ack_seq)))
        ∧ queues.dir d = { rtt_n.dir d with queue := q2 }
        ∧ queues.dir (1 - d) = { rtt_n.dir (1 - d) with queue := q3 }
        ∧ (∃ l3, queue_holds q3 16 l3 ∧ rtt_n_ascending l3)
        ∧ queues.last_rtt = rtt_n.last_rtt)
      ∨ (rtt_n_sequence_queues (rtt_n_queue_vars (rtt_n_sequence_set_buffer_size size)) rtt_n d
            ip tcp time = .error fault.undefined_behaviour
          ∧ 2147483648 ≤ queue_add_size (rtt_n.dir (1 - d)).queue
              (rtt_n_queue_vars (rtt_n_sequence_set_buffer_size size)) * 16) := by
  have hv := rtt_n_queue_vars_ok size
  have hs : (rtt_n_queue_vars (rtt_n_sequence_set_buffer_size size)).item_size = 16 := rfl
  obtain ⟨⟨lo, hlo, hasc⟩, -⟩ := rtt_n_wf_dir rtt_n (1 - d) hwf
  have hdata : (∃ r1 q3 l3,
        rtt_n_sequence_data (rtt_n_queue_vars (rtt_n_sequence_set_buffer_size size)) rtt_n d ip
          tcp time = .ok r1
        ∧ r1.dir d = rtt_n.dir d ∧ r1.dir (1 - d) = { rtt_n.dir (1 - d) with queue := q3 }
        ∧ queue_holds q3 16 l3 ∧ rtt_n_ascending l3 ∧ r1.last_rtt = rtt_n.last_rtt)
      ∨ (rtt_n_sequence_data (rtt_n_queue_vars (rtt_n_sequence_set_buffer_size size)) rtt_n d ip
          tcp time = .error fault.undefined_behaviour
        ∧ 2147483648 ≤ queue_add_size (rtt_n.dir (1 - d)).queue
              (rtt_n_queue_vars (rtt_n_sequence_set_buffer_size size)) * 16) := by
    unfold rtt_n_sequence_data
    by_cases hp : payload_length ip tcp > 0
    · simp only [if_pos hp]
      rcases rtt_n_sequence_record_holds _ hv hs (rtt_n.dir (1 - d)).queue lo
          (uint32_add (ntohl tcp.seq) (payload_length ip tcp)) time hlo hasc with
        ⟨q3, l3, hrec, h3, hasc3⟩ | ⟨hub, hbig⟩
      · left
        refine ⟨_, q3, l3, by rw [hrec], (rtt_n_dir_set_other rtt_n d hd _).1,
          rtt_n_dir_set_dir _ _ _, h3, hasc3, rtt_n_set_dir_last_rtt _ _ _⟩
      · right
        exact ⟨by rw [hub], hbig⟩
    · simp only [if_neg hp]
      left
      exact ⟨rtt_n, (rtt_n.dir (1 - d)).queue, lo, rfl, rfl, rfl, hlo, hasc, rfl⟩
  rcases hdata with ⟨r1, q3, l3, hr1, hd1, ho1, h3, hasc3, hlast1⟩ | ⟨hub, hbig⟩
  · left
    have hl1 : queue_holds (r1.dir d).queue 16 l := by
      rw [hd1]
      exact hl
    obtain ⟨q2, hwalk, h2, -⟩ := rtt_n_sequence_acknowledge_holds
      (rtt_n_queue_vars (rtt_n_sequence_set_buffer_size size)) (by rw [hs]; decide)
      (by rw [hs]; decide) (ntohl tcp.ack_seq) time l (r1.dir d).queue (r1.dir d).queue.length
      (-1) { count := 0, pos := 0 } hl1 (by rw [hl1.length])
    refine ⟨r1.set_dir d { r1.dir d with queue := q2 }, q2, q3, ?_, h2, ?_, ?_, ⟨l3, h3, hasc3⟩,
      ?_⟩
    · unfold rtt_n_sequence_queues
      simp only [hr1, hwalk]
    · rw [rtt_n_dir_set_dir, hd1]
    · rw [(rtt_n_dir_set_other r1 d hd _).2, ho1]
    · rw [rtt_n_set_dir_last_rtt, hlast1]
  · right
    refine ⟨?_, hbig⟩
    unfold rtt_n_sequence_queues
    simp only [hub]

theorem double_to_int_trunc (x : ℚ) :
    (0 ≤ x → x.num.tdiv x.den = ⌊x⌋) ∧ (x < 0 → x.num.tdiv x.den = -⌊-x⌋) := by
  have hden : (0 : Int) ≤ (x.den : Int) := Int.ofNat_nonneg _
  constructor
  · intro h
    have hnum : 0 ≤ x.num := Rat.num_nonneg.mpr h
    rw [Int.tdiv_eq_ediv hnum hden, Rat.floor_def]
  · intro h
    have hnum : 0 ≤ (-x).num := Rat.num_nonneg.mpr (by linarith)
    have e : x.num = -((-x).num) := by simp
    rw [e, Int.neg_tdiv, Int.tdiv_eq_ediv hnum hden, Rat.floor_def]
    simp

/-- The call of `abs` on a `double` of magnitude below `2^31` returns the whole
part of the magnitude. -/
theorem abs_of_double_returns (x : ℚ) (h1 : -2147483648 < x) (h2 : x < 2147483648) :
    ∃ n : Int, abs_of_double x = .ok n ∧ 0 ≤ n ∧ (n : ℚ) ≤ |x| ∧ |x| < (n : ℚ) + 1 := by
  obtain ⟨hpos, hneg⟩ := double_to_int_trunc x
  by_cases hx : 0 ≤ x
  · have ht := hpos hx
    have hfl : 0 ≤ ⌊x⌋ := Int.floor_nonneg.mpr hx
    have hfl2 : ⌊x⌋ < 2147483648 := by
      rw [Int.floor_lt]
      exact_mod_cast h2
    have hle : ((⌊x⌋ : Int) : ℚ) ≤ x := Int.floor_le x
    have hlt : x < ((⌊x⌋ : Int) : ℚ) + 1 := Int.lt_floor_add_one x
    refine ⟨⌊x⌋, ?_, hfl, by rw [abs_of_nonneg hx]; exact hle, by rw [abs_of_nonneg hx]; exact hlt⟩
    unfold abs_of_double double_to_int
    rw [ht, if_neg (by omega)]
    simp only []
    rw [if_neg (by omega), if_neg (by omega)]
  · have hx2 : x < 0 := lt_of_not_ge hx
    have ht := hneg hx2
    have hfl : 0 ≤ ⌊-x⌋ := Int.floor_nonneg.mpr (by linarith)
    have hfl2 : ⌊-x⌋ < 2147483648 := by
      rw [Int.floor_lt]
      have : -x < 2147483648 := by linarith
      exact_mod_cast this
    have hle : ((⌊-x⌋ : Int) : ℚ) ≤ -x := Int.floor_le (-x)
    have hlt : -x < ((⌊-x⌋ : Int) : ℚ) + 1 := Int.lt_floor_add_one (-x)
    refine ⟨⌊-x⌋, ?_, hfl, by rw [abs_of_neg hx2]; exact hle, by rw [abs_of_neg hx2]; exact hlt⟩
    unfold abs_of_double double_to_int
    rw [ht, if_neg (by omega)]
    simp only []
    rw [if_neg (by omega)]
    split_ifs with h3
    · rw [neg_neg]
    · have : ⌊-x⌋ = 0 := by omega
      rw [this]
      rfl

/-- Lines 226-243 for a value of `rtt` that is not a sample above 0 within the
limit: nothing changes. -/
theorem rtt_n_sequence_smooth_rejects (dir : rtt_n_dir_t) (s : ℚ)
    (h : s ≤ 0 ∨ RTT_N_SEQUENCE_MAX_RTT < s) : rtt_n_sequence_smooth dir s = .ok (dir, -1) := by
  unfold rtt_n_sequence_smooth
  rcases h with h | h
  · rw [if_neg (by linarith)]
  · have : s > 0 := by
      unfold RTT_N_SEQUENCE_MAX_RTT at h
      linarith
    rw [if_pos this, if_pos h]

/-- Lines 226-243 for a sample above 0 within the limit. -/
theorem rtt_n_sequence_smooth_accepts (dir : rtt_n_dir_t) (s : ℚ) (h0 : 0 < s)
    (h1 : s ≤ RTT_N_SEQUENCE_MAX_RTT) (hcount : dir.count < 2147483647)
    (hrtt : dir.rtt < 2147483648) :
    ∃ after, rtt_n_sequence_smooth dir s = .ok (after, s) ∧ after.queue = dir.queue
      ∧ after.total = dir.total + s ∧ after.count = dir.count + 1
      ∧ (dir.rtt < 0 → after.rtt = s ∧ after.rtt_var = s / 2)
      ∧ (0 ≤ dir.rtt → after.rtt = 7 / 8 * dir.rtt + 1 / 8 * s
          ∧ ∃ n : Int, after.rtt_var = 3 / 4 * after.rtt + 1 / 4 * (n : ℚ) ∧ 0 ≤ n
            ∧ (n : ℚ) ≤ |after.rtt - s| ∧ |after.rtt - s| < (n : ℚ) + 1) := by
  have hne : ¬ (dir.count = 2147483647) := by omega
  unfold RTT_N_SEQUENCE_MAX_RTT at h1
  by_cases hfirst : dir.rtt < 0
  · refine ⟨{ dir with total := dir.total + s, count := dir.count + 1, rtt := s,
                         rtt_var := s / 2 }, ?_, rfl, rfl, rfl, fun _ => ⟨rfl, rfl⟩,
      fun h => absurd hfirst (by linarith)⟩
    unfold rtt_n_sequence_smooth
    rw [if_pos h0, if_neg (by unfold RTT_N_SEQUENCE_MAX_RTT; linarith), if_neg hne,
      if_pos hfirst]
  · have hr0 : 0 ≤ dir.rtt := le_of_not_lt hfirst
    obtain ⟨n, hn, hn0, hn1, hn2⟩ := abs_of_double_returns
      (SMOOTH * dir.rtt + (1 - SMOOTH) * s - s)
      (by unfold SMOOTH; linarith) (by unfold SMOOTH; linarith)
    have e1 : SMOOTH * dir.rtt + (1 - SMOOTH) * s = 7 / 8 * dir.rtt + 1 / 8 * s := by
      unfold SMOOTH
      ring
    refine ⟨{ dir with
        total := dir.total + s
        count := dir.count + 1
        rtt := SMOOTH * dir.rtt + (1 - SMOOTH) * s
        rtt_var := VARSMOOTH * (SMOOTH * dir.rtt + (1 - SMOOTH) * s)
          + (1 - VARSMOOTH) * (n : ℚ) }, ?_, rfl, rfl, rfl, fun h => absurd h hfirst,
      fun _ => ⟨e1, n, ?_, hn0, ?_, ?_⟩⟩
    · unfold rtt_n_sequence_smooth
      rw [if_pos h0, if_neg (by unfold RTT_N_SEQUENCE_MAX_RTT; linarith), if_neg hne,
        if_neg hfirst]
      simp only [hn]
    · show VARSMOOTH * (SMOOTH * dir.rtt + (1 - SMOOTH) * s) + (1 - VARSMOOTH) * (n : ℚ)
        = 3 / 4 * (SMOOTH * dir.rtt + (1 - SMOOTH) * s) + 1 / 4 * (n : ℚ)
      unfold VARSMOOTH
      ring
    · exact hn1
    · exact hn2

/-- What lines 226-243 have done when they return. -/
theorem rtt_n_sequence_smooth_ok (dir after : rtt_n_dir_t) (s last : ℚ)
    (h : rtt_n_sequence_smooth dir s = .ok (after, last)) :
    (last = -1 ∧ after = dir ∧ (s ≤ 0 ∨ RTT_N_SEQUENCE_MAX_RTT < s))
      ∨ (last = s ∧ 0 < s ∧ s ≤ RTT_N_SEQUENCE_MAX_RTT ∧ after.queue = dir.queue
          ∧ after.total = dir.total + s ∧ after.count = dir.count + 1
          ∧ ((dir.rtt < 0 ∧ after.rtt = s ∧ after.rtt_var = s / 2)
            ∨ (0 ≤ dir.rtt ∧ after.rtt = 7 / 8 * dir.rtt + 1 / 8 * s))) := by
  by_cases hs : s ≤ 0 ∨ RTT_N_SEQUENCE_MAX_RTT < s
  · rw [rtt_n_sequence_smooth_rejects dir s hs] at h
    simp only [Except.ok.injEq, Prod.mk.injEq] at h
    left
    exact ⟨h.2.symm, h.1.symm, hs⟩
  · right
    have h0 : 0 < s := by
      by_contra hc
      exact hs (Or.inl (le_of_not_lt hc))
    have h1 : s ≤ RTT_N_SEQUENCE_MAX_RTT := by
      by_contra hc
      exact hs (Or.inr (lt_of_not_le hc))
    unfold rtt_n_sequence_smooth at h
    rw [if_pos h0, if_neg (not_lt.mpr h1)] at h
    by_cases hc : dir.count = 2147483647
    · rw [if_pos hc] at h
      cases h
    · rw [if_neg hc] at h
      by_cases hfirst : dir.rtt < 0
      · rw [if_pos hfirst] at h
        simp only [Except.ok.injEq, Prod.mk.injEq] at h
        obtain ⟨h2, h3⟩ := h
        subst h2
        exact ⟨h3.symm, h0, h1, rfl, rfl, rfl, Or.inl ⟨hfirst, rfl, rfl⟩⟩
      · rw [if_neg hfirst] at h
        cases hd : abs_of_double (SMOOTH * dir.rtt + (1 - SMOOTH) * s - s) with
        | error e =>
          rw [hd] at h
          cases h
        | ok n =>
          rw [hd] at h
          simp only [Except.ok.injEq, Prod.mk.injEq] at h
          obtain ⟨h2, h3⟩ := h
          subst h2
          refine ⟨h3.symm, h0, h1, rfl, rfl, rfl, Or.inr ⟨le_of_not_lt hfirst, ?_⟩⟩
          show SMOOTH * dir.rtt + (1 - SMOOTH) * s = 7 / 8 * dir.rtt + 1 / 8 * s
          unfold SMOOTH
          ring

theorem rtt_n_sequence_update_headers (vars : queue_vars_t) (rtt_n : rtt_n_t)
    (packet : libtrace_packet_t) (ip : libtrace_ip) (tcp : libtrace_tcp)
    (hd : packet.direction = 0 ∨ packet.direction = 1) (hip : packet.ip = some ip)
    (htcp : packet.tcp = some tcp) :
    rtt_n_sequence_update vars rtt_n packet
      = match rtt_n_sequence_queues vars { rtt_n with last_rtt := -1 } packet.direction ip tcp
          (trace_get_seconds packet) with
        | .error e => .error e
        | .ok (queues, rtt) =>
          match rtt_n_sequence_smooth (queues.dir packet.direction) rtt with
          | .error e => .error e
          | .ok (dir, last_rtt) =>
            .ok { queues.set_dir packet.direction dir with last_rtt := last_rtt } := by
  unfold rtt_n_sequence_update
  simp only [hip, htcp]
  rw [if_neg (not_not.mpr hd)]

theorem rtt_n_sequence_update_direction (vars : queue_vars_t) (rtt_n : rtt_n_t)
    (packet : libtrace_packet_t) (hd : ¬ (packet.direction = 0 ∨ packet.direction = 1)) :
    rtt_n_sequence_update vars rtt_n packet = .ok { rtt_n with last_rtt := -1 } := by
  unfold rtt_n_sequence_update
  simp only []
  rw [if_pos hd]

theorem rtt_n_sequence_update_null (vars : queue_vars_t) (rtt_n : rtt_n_t)
    (packet : libtrace_packet_t) (hd : packet.direction = 0 ∨ packet.direction = 1)
    (h : packet.ip = none ∨ packet.tcp = none) :
    rtt_n_sequence_update vars rtt_n packet = .error fault.undefined_behaviour := by
  unfold rtt_n_sequence_update
  simp only []
  rw [if_neg (not_not.mpr hd)]
  rcases h with h | h
  · rw [h]
  · rw [h]
    cases packet.ip <;> rfl

/-- A new queue in one direction leaves the statistics of both directions as
they are. -/
theorem rtt_n_set_queue_stats (rtt_n : rtt_n_t) (e d : Int) (q : queue_t rtt_n_item_t) :
    ((rtt_n.set_dir e { rtt_n.dir e with queue := q }).dir d).rtt = (rtt_n.dir d).rtt
      ∧ ((rtt_n.set_dir e { rtt_n.dir e with queue := q }).dir d).rtt_var = (rtt_n.dir d).rtt_var
      ∧ ((rtt_n.set_dir e { rtt_n.dir e with queue := q }).dir d).total = (rtt_n.dir d).total
      ∧ ((rtt_n.set_dir e { rtt_n.dir e with queue := q }).dir d).count = (rtt_n.dir d).count := by
  unfold rtt_n_t.set_dir rtt_n_t.dir
  split_ifs <;> exact ⟨rfl, rfl, rfl, rfl⟩

/-- Lines 178-224 leave the statistics of both directions as they are. -/
theorem rtt_n_sequence_queues_stats (vars : queue_vars_t) (rtt_n queues : rtt_n_t) (pd : Int)
    (ip : libtrace_ip) (tcp : libtrace_tcp) (time s : ℚ)
    (h : rtt_n_sequence_queues vars rtt_n pd ip tcp time = .ok (queues, s)) (d : Int) :
    (queues.dir d).rtt = (rtt_n.dir d).rtt ∧ (queues.dir d).rtt_var = (rtt_n.dir d).rtt_var
      ∧ (queues.dir d).total = (rtt_n.dir d).total ∧ (queues.dir d).count = (rtt_n.dir d).count
      ∧ queues.last_rtt = rtt_n.last_rtt := by
  unfold rtt_n_sequence_queues at h
  cases hdata : rtt_n_sequence_data vars rtt_n pd ip tcp time with
  | error e =>
    rw [hdata] at h
    cases h
  | ok r1 =>
    rw [hdata] at h
    have h1 : (r1.dir d).rtt = (rtt_n.dir d).rtt ∧ (r1.dir d).rtt_var = (rtt_n.dir d).rtt_var
        ∧ (r1.dir d).total = (rtt_n.dir d).total ∧ (r1.dir d).count = (rtt_n.dir d).count
        ∧ r1.last_rtt = rtt_n.last_rtt := by
      unfold rtt_n_sequence_data at hdata
      simp only [] at hdata
      split_ifs at hdata with hp
      · cases hrec : rtt_n_sequence_record vars (rtt_n.dir (1 - pd)).queue
            (uint32_add (ntohl tcp.seq) (payload_length ip tcp)) time with
        | error e =>
          rw [hrec] at hdata
          cases hdata
        | ok q =>
          rw [hrec] at hdata
          simp only [Except.ok.injEq] at hdata
          rw [← hdata]
          obtain ⟨a, b, c, e⟩ := rtt_n_set_queue_stats rtt_n (1 - pd) d q
          exact ⟨a, b, c, e, rtt_n_set_dir_last_rtt _ _ _⟩
      · simp only [Except.ok.injEq] at hdata
        rw [← hdata]
        exact ⟨rfl, rfl, rfl, rfl, rfl⟩
    simp only [] at h
    cases hw : rtt_n_sequence_acknowledge (r1.dir pd).queue.length vars (r1.dir pd).queue
        (queue_itr_begin (r1.dir pd).queue vars { count := 0, pos := 0 }).1
        (queue_itr_begin (r1.dir pd).queue vars { count := 0, pos := 0 }).2
        (ntohl tcp.ack_seq) time (-1) with
    | error e =>
      rw [hw] at h
      cases h
    | ok r =>
      rw [hw] at h
      simp only [Except.ok.injEq, Prod.mk.injEq] at h
      rw [← h.1]
      obtain ⟨a, b, c, e⟩ := rtt_n_set_queue_stats r1 pd d r.1
      obtain ⟨a1, b1, c1, e1, f1⟩ := h1
      exact ⟨a.trans a1, b.trans b1, c.trans c1, e.trans e1,
        (rtt_n_set_dir_last_rtt _ _ _).trans f1⟩

/-- A call of `rtt_n_sequence_update` that returns keeps the shape of the
state. -/
theorem rtt_n_sequence_update_wf (size : Int) (rtt_n after : rtt_n_t)
    (packet : libtrace_packet_t) (hwf : rtt_n_wf rtt_n)
    (h : rtt_n_sequence_update (rtt_n_queue_vars (rtt_n_sequence_set_buffer_size size)) rtt_n
      packet = .ok after) : rtt_n_wf after := by
  by_cases hd : packet.direction = 0 ∨ packet.direction = 1
  · cases hip : packet.ip with
    | none =>
      rw [rtt_n_sequence_update_null _ _ _ hd (Or.inl hip)] at h
      cases h
    | some ip =>
      cases htcp : packet.tcp with
      | none =>
        rw [rtt_n_sequence_update_null _ _ _ hd (Or.inr htcp)] at h
        cases h
      | some tcp =>
        rw [rtt_n_sequence_update_headers _ _ _ ip tcp hd hip htcp] at h
        have hwf1 : rtt_n_wf { rtt_n with last_rtt := -1 } := hwf
        obtain ⟨⟨l, hl, hasc⟩, hrtt⟩ := rtt_n_wf_dir _ packet.direction hwf1
        obtain ⟨-, hrtt2⟩ := rtt_n_wf_dir _ (1 - packet.direction) hwf1
        rcases rtt_n_sequence_queues_holds size _ packet.direction hd ip tcp
            (trace_get_seconds packet) l hwf1 hl with
          ⟨queues, q2, q3, hq, h2, hd2, ho2, ⟨l3, h3, hasc3⟩, -⟩ | ⟨hub, -⟩
        · rw [hq] at h
          simp only [] at h
          cases hsm : rtt_n_sequence_smooth (queues.dir packet.direction)
              ((((l.takeWhile (fun i => decide (i.expected_ack ≤ ntohl tcp.ack_seq))).getLast?).map
                (fun i => trace_get_seconds packet - i.time)).getD (-1)) with
          | error e =>
            rw [hsm] at h
            cases h
          | ok r =>
            rw [hsm] at h
            simp only [Except.ok.injEq] at h
            rw [← h]
            obtain ⟨dir, last⟩ := r
            have hdir : rtt_n_dir_wf dir := by
              rcases rtt_n_sequence_smooth_ok _ _ _ _ hsm with ⟨-, h5, -⟩
                | ⟨-, h50, h51, h5, -, -, h6⟩
              · rw [h5, hd2]
                exact ⟨⟨_, h2, rtt_n_ascending_sublist l _ hasc (List.dropWhile_sublist _)⟩,
                  hrtt⟩
              · refine ⟨⟨_, by rw [h5, hd2]; exact h2,
                  rtt_n_ascending_sublist l _ hasc (List.dropWhile_sublist _)⟩, ?_⟩
                rcases h6 with ⟨-, h7, -⟩ | ⟨h7, h8⟩
                · rw [h7]
                  exact h51
                · rw [h8]
                  rw [hd2] at h7
                  have : (queues.dir packet.direction).rtt ≤ RTT_N_SEQUENCE_MAX_RTT := by
                    rw [hd2]
                    exact hrtt
                  linarith
            apply rtt_n_wf_of_dirs _ packet.direction hd
            · show rtt_n_dir_wf ((queues.set_dir packet.direction dir).dir packet.direction)
              rw [rtt_n_dir_set_dir]
              exact hdir
            · show rtt_n_dir_wf ((queues.set_dir packet.direction dir).dir (1 - packet.direction))
              rw [(rtt_n_dir_set_other queues packet.direction hd dir).2, ho2]
              exact ⟨⟨l3, h3, hasc3⟩, hrtt2⟩
        · rw [hub] at h
          cases h
  · rw [rtt_n_sequence_update_direction _ _ _ hd] at h
    simp only [Except.ok.injEq] at h
    rw [← h]
    exact hwf

theorem rtt_n_sequence_create_wf (x : ℚ) : rtt_n_wf (rtt_n_sequence_create x) := by
  have h : rtt_n_dir_wf
      { queue := queue_create, rtt := -1, rtt_var := -1, total := 0, count := 0 } :=
    ⟨⟨[], queue_create_holds 16, List.Pairwise.nil⟩, by unfold RTT_N_SEQUENCE_MAX_RTT; norm_num⟩
  exact ⟨h, h⟩

/-- Every state that a run of returning calls reaches has the shape. -/
theorem rtt_n_sequence_run_wf (trace : List (Int × libtrace_packet_t)) :
    ∀ (rtt_n final : rtt_n_t) (samples : List (Int × ℚ)), rtt_n_wf rtt_n →
      rtt_n_sequence_run rtt_n trace = .ok (final, samples) → rtt_n_wf final := by
  induction trace with
  | nil =>
    intro rtt_n final samples hwf h
    simp only [rtt_n_sequence_run, Except.ok.injEq, Prod.mk.injEq] at h
    rw [← h.1]
    exact hwf
  | cons p rest ih =>
    intro rtt_n final samples hwf h
    obtain ⟨size, packet⟩ := p
    simp only [rtt_n_sequence_run] at h
    cases hup : rtt_n_sequence_update (rtt_n_queue_vars (rtt_n_sequence_set_buffer_size size))
        rtt_n packet with
    | error e =>
      rw [hup] at h
      cases h
    | ok after =>
      rw [hup] at h
      simp only [] at h
      cases hrun : rtt_n_sequence_run after rest with
      | error e =>
        rw [hrun] at h
        cases h
      | ok r =>
        rw [hrun] at h
        simp only [Except.ok.injEq, Prod.mk.injEq] at h
        obtain ⟨f2, s2⟩ := r
        have := ih after f2 s2 (rtt_n_sequence_update_wf size rtt_n after packet hwf hup) hrun
        rw [← h.1]
        exact this

theorem rtt_n_accepted_cons (d : Int) (p : Int × ℚ) (rest : List (Int × ℚ)) :
    rtt_n_accepted d (p :: rest) = rtt_n_accepted d [p] ++ rtt_n_accepted d rest := by
  unfold rtt_n_accepted
  rw [← List.map_append, ← List.filter_append]
  rfl

theorem rtt_n_accepted_single (d pd : Int) (s : ℚ) :
    rtt_n_accepted d [(pd, s)] = if pd = d ∧ s ≥ 0 then [s] else [] := by
  unfold rtt_n_accepted
  by_cases h1 : pd = d
  · by_cases h2 : s ≥ 0
    · simp [h1, h2]
    · simp [h1, h2]
  · simp [h1]

theorem rtt_n_dir_sampled_congr (dir dir2 : rtt_n_dir_t) (acc : List ℚ)
    (hc : dir2.count = dir.count) (hr : dir2.rtt = dir.rtt) (h : rtt_n_dir_sampled dir acc) :
    rtt_n_dir_sampled dir2 acc := by
  unfold rtt_n_dir_sampled at *
  rw [hc, hr]
  exact h

/-- An accepted sample keeps the statistics in agreement with the samples. -/
theorem rtt_n_dir_sampled_accept (dir after : rtt_n_dir_t) (acc : List ℚ) (s : ℚ)
    (h : rtt_n_dir_sampled dir acc) (h0 : 0 < s) (h1 : s ≤ RTT_N_SEQUENCE_MAX_RTT)
    (hcount : after.count = dir.count + 1)
    (hrtt : (dir.rtt < 0 ∧ after.rtt = s) ∨ (0 ≤ dir.rtt ∧ after.rtt = 7 / 8 * dir.rtt + 1 / 8 * s)) :
    rtt_n_dir_sampled after (acc ++ [s]) := by
  obtain ⟨hc, hall, hnil, hcons⟩ := h
  refine ⟨?_, ?_, ?_, ?_⟩
  · rw [hcount, hc, List.length_append, List.length_singleton]
    push_cast
    ring
  · intro t ht
    rw [List.mem_append, List.mem_singleton] at ht
    rcases ht with ht | ht
    · exact hall t ht
    · rw [ht]
      exact ⟨h0, h1⟩
  · intro hcon
    simp at hcon
  · intro _
    by_cases hacc : acc = []
    · have hm := hnil hacc
      rcases hrtt with ⟨-, h3⟩ | ⟨h2, -⟩
      · refine ⟨s, by simp, s, by simp, ?_, ?_⟩ <;> rw [h3]
      · rw [hm] at h2
        norm_num at h2
    · obtain ⟨lo, hlo, hi, hhi, h4, h5⟩ := hcons hacc
      have hlo0 := (hall lo hlo).1
      rcases hrtt with ⟨h2, -⟩ | ⟨h2, h3⟩
      · linarith
      · rw [h3]
        by_cases hcmp : s ≤ dir.rtt
        · refine ⟨s, by simp, hi, by simp [hhi], ?_, ?_⟩ <;> linarith
        · have hcmp2 : dir.rtt < s := lt_of_not_le hcmp
          refine ⟨lo, by simp [hlo], s, by simp, ?_, ?_⟩ <;> linarith

/-- A call of `rtt_n_sequence_update` that returns keeps the statistics of
each direction in agreement with the samples accepted in it. -/
theorem rtt_n_sequence_update_sampled (vars : queue_vars_t) (rtt_n after : rtt_n_t)
    (packet : libtrace_packet_t) (d : Int) (hd : d = 0 ∨ d = 1) (acc : List ℚ)
    (h : rtt_n_sequence_update vars rtt_n packet = .ok after)
    (hs : rtt_n_dir_sampled (rtt_n.dir d) acc) :
    rtt_n_dir_sampled (after.dir d)
      (acc ++ rtt_n_accepted d [(packet.direction, rtt_n_sequence_last_sample_value after)]) := by
  rw [rtt_n_accepted_single]
  unfold rtt_n_sequence_last_sample_value
  by_cases hpd : packet.direction = 0 ∨ packet.direction = 1
  · cases hip : packet.ip with
    | none =>
      rw [rtt_n_sequence_update_null _ _ _ hpd (Or.inl hip)] at h
      cases h
    | some ip =>
      cases htcp : packet.tcp with
      | none =>
        rw [rtt_n_sequence_update_null _ _ _ hpd (Or.inr htcp)] at h
        cases h
      | some tcp =>
        rw [rtt_n_sequence_update_headers _ _ _ ip tcp hpd hip htcp] at h
        cases hq : rtt_n_sequence_queues vars { rtt_n with last_rtt := -1 } packet.direction ip
            tcp (trace_get_seconds packet) with
        | error e =>
          rw [hq] at h
          cases h
        | ok r =>
          obtain ⟨queues, s⟩ := r
          rw [hq] at h
          simp only [] at h
          obtain ⟨hst1, -, -, hst4, -⟩ := rtt_n_sequence_queues_stats _ _ _ _ _ _ _ _ hq d
          have hs1 : rtt_n_dir_sampled (queues.dir d) acc :=
            rtt_n_dir_sampled_congr (rtt_n.dir d) _ acc hst4 hst1 hs
          cases hsm : rtt_n_sequence_smooth (queues.dir packet.direction) s with
          | error e =>
            rw [hsm] at h
            cases h
          | ok r2 =>
            obtain ⟨dir, last⟩ := r2
            rw [hsm] at h
            simp only [Except.ok.injEq] at h
            rw [← h]
            show rtt_n_dir_sampled ((queues.set_dir packet.direction dir).dir d)
              (acc ++ if packet.direction = d ∧ last ≥ 0 then [last] else [])
            by_cases hsame : packet.direction = d
            · rw [hsame, rtt_n_dir_set_dir]
              rw [hsame] at hsm
              rcases rtt_n_sequence_smooth_ok _ _ _ _ hsm with ⟨h5, h6, -⟩
                | ⟨h5, h50, h51, -, -, h7, h8⟩
              · rw [h5, h6, if_neg (by norm_num), List.append_nil]
                exact hs1
              · rw [h5, if_pos ⟨rfl, le_of_lt h50⟩]
                apply rtt_n_dir_sampled_accept _ _ acc s hs1 h50 h51 h7
                rcases h8 with ⟨h9, h10, -⟩ | h9
                · exact Or.inl ⟨h9, h10⟩
                · exact Or.inr h9
            · rw [if_neg (by intro hc; exact hsame hc.1), List.append_nil]
              have hd2 : d = 1 - packet.direction := by omega
              rw [hd2, (rtt_n_dir_set_other queues packet.direction hpd dir).2, ← hd2]
              exact hs1
  · rw [rtt_n_sequence_update_direction _ _ _ hpd] at h
    simp only [Except.ok.injEq] at h
    rw [← h]
    show rtt_n_dir_sampled (rtt_n.dir d) (acc ++ if packet.direction = d ∧ (-1 : ℚ) ≥ 0 then [-1]
      else [])
    rw [if_neg (by norm_num), List.append_nil]
    exact hs

/-- In every state that a run of returning calls reaches the statistics of
each direction agree with the samples accepted in it. -/
theorem rtt_n_sequence_run_sampled (d : Int) (hd : d = 0 ∨ d = 1)
    (trace : List (Int × libtrace_packet_t)) :
    ∀ (rtt_n final : rtt_n_t) (samples : List (Int × ℚ)) (acc : List ℚ),
      rtt_n_dir_sampled (rtt_n.dir d) acc →
      rtt_n_sequence_run rtt_n trace = .ok (final, samples) →
      rtt_n_dir_sampled (final.dir d) (acc ++ rtt_n_accepted d samples) := by
  induction trace with
  | nil =>
    intro rtt_n final samples acc hs h
    simp only [rtt_n_sequence_run, Except.ok.injEq, Prod.mk.injEq] at h
    rw [← h.1, ← h.2]
    have : rtt_n_accepted d [] = [] := rfl
    rw [this, List.append_nil]
    exact hs
  | cons p rest ih =>
    intro rtt_n final samples acc hs h
    obtain ⟨size, packet⟩ := p
    simp only [rtt_n_sequence_run] at h
    cases hup : rtt_n_sequence_update (rtt_n_queue_vars (rtt_n_sequence_set_buffer_size size))
        rtt_n packet with
    | error e =>
      rw [hup] at h
      cases h
    | ok after =>
      rw [hup] at h
      simp only [] at h
      cases hrun : rtt_n_sequence_run after rest with
      | error e =>
        rw [hrun] at h
        cases h
      | ok r =>
        rw [hrun] at h
        simp only [Except.ok.injEq, Prod.mk.injEq] at h
        obtain ⟨f2, s2⟩ := r
        have h1 := rtt_n_sequence_update_sampled _ rtt_n after packet d hd acc hup hs
        have h2 := ih after f2 s2 _ h1 hrun
        rw [← h.1, ← h.2, rtt_n_accepted_cons, ← List.append_assoc]
        exact h2

theorem rtt_n_sequence_create_sampled (x : ℚ) (d : Int) :
    rtt_n_dir_sampled ((rtt_n_sequence_create x).dir d) [] := by
  have h : rtt_n_dir_sampled
      { queue := queue_create, rtt := -1, rtt_var := -1, total := 0, count := 0 } [] :=
    ⟨rfl, fun s hs => absurd hs (List.not_mem_nil s), fun _ => rfl, fun hc => absurd rfl hc⟩
  unfold rtt_n_t.dir rtt_n_sequence_create
  split_ifs <;> exact h

/-- What the agreement with the samples says about a smoothed RTT that is
present. -/
theorem rtt_n_dir_sampled_present (dir : rtt_n_dir_t) (acc : List ℚ)
    (h : rtt_n_dir_sampled dir acc) :
    (dir.rtt = -1 ∧ acc = [])
      ∨ (dir.count ≥ 1 ∧ (∃ lo, lo ∈ acc ∧ ∃ hi, hi ∈ acc ∧ lo ≤ dir.rtt ∧ dir.rtt ≤ hi)
          ∧ 0 < dir.rtt ∧ dir.rtt ≤ RTT_N_SEQUENCE_MAX_RTT) := by
  obtain ⟨hc, hall, hnil, hcons⟩ := h
  by_cases hacc : acc = []
  · exact Or.inl ⟨hnil hacc, hacc⟩
  · right
    obtain ⟨lo, hlo, hi, hhi, h4, h5⟩ := hcons hacc
    have h6 := (hall lo hlo).1
    have h7 := (hall hi hhi).2
    refine ⟨?_, ⟨lo, hlo, hi, hhi, h4, h5⟩, by linarith, by linarith⟩
    rw [hc]
    have : 0 < acc.length := List.length_pos.mpr hacc
    omega

/-- The loop of lines 215-224 in any state of the queue, entered with a
pointer that `queue_itr_begin` or `queue_itr_next` has returned: it leaves the
queue and `rtt` as they were, or the queue is shorter. -/
theorem rtt_n_sequence_acknowledge_shrinks (vars : queue_vars_t) (ack : Nat) (time : ℚ) :
    ∀ (rounds : Nat) (q : queue_t rtt_n_item_t) (itr : queue_itr_t) (p : Option Int) (rtt : ℚ)
      (q2 : queue_t rtt_n_item_t) (r : ℚ),
      (p ≠ none → itr.count = 1 ∧ 1 ≤ q.length) →
      rtt_n_sequence_acknowledge rounds vars q itr p ack time rtt = .ok (q2, r) →
      (q2 = q ∧ r = rtt) ∨ q2.length < q.length := by
  intro rounds
  induction rounds with
  | zero =>
    intro q itr p rtt q2 r _ h
    cases p with
    | none =>
      simp only [rtt_n_sequence_acknowledge, Except.ok.injEq, Prod.mk.injEq] at h
      exact Or.inl ⟨h.1.symm, h.2.symm⟩
    | some off =>
      simp only [rtt_n_sequence_acknowledge] at h
      cases h
  | succ rounds ih =>
    intro q itr p rtt q2 r hhead h
    cases p with
    | none =>
      simp only [rtt_n_sequence_acknowledge, Except.ok.injEq, Prod.mk.injEq] at h
      exact Or.inl ⟨h.1.symm, h.2.symm⟩
    | some off =>
      obtain ⟨hcount, hlen⟩ := hhead (by simp)
      simp only [rtt_n_sequence_acknowledge] at h
      cases hitem : queue_item q (some off) with
      | none =>
        rw [hitem] at h
        cases h
      | some item =>
        rw [hitem] at h
        simp only [] at h
        split_ifs at h with hack
        · right
          have hlen1 : (queue_itr_remove q itr).1.length < q.length := by
            rw [queue_itr_remove_fst]
            show (q.length + 4294967295) % 4294967296 < q.length
            omega
          have hhead2 : (queue_itr_next (queue_itr_remove q itr).1 vars
                (queue_itr_remove q itr).2).2 ≠ none →
              (queue_itr_next (queue_itr_remove q itr).1 vars (queue_itr_remove q itr).2).1.count
                  = 1
                ∧ 1 ≤ (queue_itr_remove q itr).1.length := by
            have e0 : (1 + 65535) % 65536 = 0 := by decide
            have e1 : (0 + 1) % 65536 = 1 := by decide
            rw [queue_itr_remove_snd, hcount]
            simp only [e0]
            unfold queue_itr_next
            simp only []
            split_ifs with h0 h1
            · intro hc
              exact absurd rfl hc
            · intro _
              exact ⟨e1, by omega⟩
            · intro _
              exact ⟨e1, by omega⟩
          rcases ih _ _ _ _ _ _ hhead2 h with ⟨h1, -⟩ | h1
          · rw [h1]
            exact hlen1
          · omega
        · simp only [Except.ok.injEq, Prod.mk.injEq] at h
          exact Or.inl ⟨h.1.symm, h.2.symm⟩

/-- Lines 178-224 in any state: when the loop leaves the queue of the direction
of the packet as it was, no item has been removed and `rtt` is `-1`. -/
theorem rtt_n_sequence_queues_unchanged (vars : queue_vars_t) (rtt_n queues : rtt_n_t)
    (d : Int) (hd : d = 0 ∨ d = 1) (ip : libtrace_ip) (tcp : libtrace_tcp) (time s : ℚ)
    (h : rtt_n_sequence_queues vars rtt_n d ip tcp time = .ok (queues, s))
    (hsame : (queues.dir d).queue.length = (rtt_n.dir d).queue.length) : s = -1 := by
  unfold rtt_n_sequence_queues at h
  cases hdata : rtt_n_sequence_data vars rtt_n d ip tcp time with
  | error e =>
    rw [hdata] at h
    cases h
  | ok r1 =>
    rw [hdata] at h
    have h1 : r1.dir d = rtt_n.dir d := by
      unfold rtt_n_sequence_data at hdata
      simp only [] at hdata
      split_ifs at hdata with hp
      · cases hrec : rtt_n_sequence_record vars (rtt_n.dir (1 - d)).queue
            (uint32_add (ntohl tcp.seq) (payload_length ip tcp)) time with
        | error e =>
          rw [hrec] at hdata
          cases hdata
        | ok q =>
          rw [hrec] at hdata
          simp only [Except.ok.injEq] at hdata
          rw [← hdata]
          exact (rtt_n_dir_set_other rtt_n d hd _).1
      · simp only [Except.ok.injEq] at hdata
        rw [← hdata]
    simp only [] at h
    cases hw : rtt_n_sequence_acknowledge (r1.dir d).queue.length vars (r1.dir d).queue
        (queue_itr_begin (r1.dir d).queue vars { count := 0, pos := 0 }).1
        (queue_itr_begin (r1.dir d).queue vars { count := 0, pos := 0 }).2
        (ntohl tcp.ack_seq) time (-1) with
    | error e =>
      rw [hw] at h
      cases h
    | ok r =>
      obtain ⟨q2, s2⟩ := r
      rw [hw] at h
      simp only [Except.ok.injEq, Prod.mk.injEq] at h
      have hq2 : (queues.dir d).queue = q2 := by
        rw [← h.1, rtt_n_dir_set_dir]
      have hhead : (queue_itr_begin (r1.dir d).queue vars { count := 0, pos := 0 }).2 ≠ none →
          (queue_itr_begin (r1.dir d).queue vars { count := 0, pos := 0 }).1.count = 1
            ∧ 1 ≤ (r1.dir d).queue.length := by
        unfold queue_itr_begin
        split_ifs with h0
        · intro hc
          exact absurd rfl hc
        · intro _
          exact ⟨rfl, by omega⟩
      rcases rtt_n_sequence_acknowledge_shrinks vars _ _ _ _ _ _ _ _ _ hhead hw with ⟨-, h3⟩ | h3
      · rw [← h.2, h3]
      · rw [hq2, ← h1] at hsame
        omega

/-! ### Claims on the sequence-based estimator -/

/-- C37 (code bug). The variance term of the sequence-based estimator is
truncated to whole seconds. After the samples 0.5 s and 0.25 s in direction 0
(`two_samples`) the smoothed RTT is `R = 15/32` and the variance is
`45/128 = 0.75 * R`: the difference `R - s = 7/32` has gone through `abs`,
which takes an `int`, and has become 0. With the absolute value of the real
difference the variance is `0.75 * R + 0.25 * 7/32 = 13/32`. -/
theorem variance_truncates_difference :
    (rtt_n_sequence_run (rtt_n_sequence_create 0) (two_samples.take 3)).map
        (fun r => ((r.1.dir 0).rtt, (r.1.dir 0).rtt_var, r.2))
      = .ok (1 / 2, 1 / 4, [(1, -1), (0, 1 / 2), (1, -1)])
    ∧ (rtt_n_sequence_run (rtt_n_sequence_create 0) two_samples).map
        (fun r => ((r.1.dir 0).rtt, (r.1.dir 0).rtt_var, r.2))
      = .ok (15 / 32, 45 / 128, [(1, -1), (0, 1 / 2), (1, -1), (0, 1 / 4)])
    ∧ abs_of_double (15 / 32 - 1 / 4) = .ok 0
    ∧ (3 / 4 : ℚ) * (15 / 32) + (1 / 4) * |15 / 32 - 1 / 4| = 13 / 32
    ∧ (45 / 128 : ℚ) ≠ 13 / 32 := by
  refine ⟨by decide!, by decide!, by decide!, by norm_num [abs_of_pos], by norm_num⟩

/-- C36. In every state of the sequence-based estimator that a run of
`rtt_n_sequence_update` calls from `rtt_n_sequence_create` reaches, with any
calls of `rtt_n_sequence_set_buffer_size` in between, and for each direction:
a smoothed RTT `>= 0` implies that the sample count of the direction is at
least 1; the count is the number of samples accepted in the direction, each of
them above 0 and at most 20 s; the smoothed RTT lies between two of them, so it
is above 0 and at most 20 s; and `rtt_n_sequence_inside` and
`rtt_n_sequence_outside` return `-1` (absent) or a value above 0 and at most
20 s. -/
theorem smoothed_rtt_within_samples (x : ℚ) (trace : List (Int × libtrace_packet_t))
    (final : rtt_n_t) (samples : List (Int × ℚ))
    (hrun : rtt_n_sequence_run (rtt_n_sequence_create x) trace = .ok (final, samples)) :
    (∀ d : Int, d = 0 ∨ d = 1 → (final.dir d).rtt ≥ 0 →
        (final.dir d).count ≥ 1
        ∧ (final.dir d).count = ((rtt_n_accepted d samples).length : Int)
        ∧ (∀ s, s ∈ rtt_n_accepted d samples → 0 < s ∧ s ≤ 20)
        ∧ (∃ lo, lo ∈ rtt_n_accepted d samples ∧ ∃ hi, hi ∈ rtt_n_accepted d samples
            ∧ lo ≤ (final.dir d).rtt ∧ (final.dir d).rtt ≤ hi)
        ∧ 0 < (final.dir d).rtt ∧ (final.dir d).rtt ≤ 20)
      ∧ (rtt_n_sequence_inside final = -1
          ∨ (0 < rtt_n_sequence_inside final ∧ rtt_n_sequence_inside final ≤ 20))
      ∧ (rtt_n_sequence_outside final = -1
          ∨ (0 < rtt_n_sequence_outside final ∧ rtt_n_sequence_outside final ≤ 20)) := by
  have hall : ∀ d : Int, d = 0 ∨ d = 1 →
      rtt_n_dir_sampled (final.dir d) (rtt_n_accepted d samples) := by
    intro d hd
    have := rtt_n_sequence_run_sampled d hd trace _ final samples []
      (rtt_n_sequence_create_sampled x d) hrun
    rwa [List.nil_append] at this
  refine ⟨?_, ?_, ?_⟩
  · intro d hd hrtt
    have hs := hall d hd
    rcases rtt_n_dir_sampled_present _ _ hs with ⟨h1, -⟩ | ⟨h1, h2, h3, h4⟩
    · rw [h1] at hrtt
      norm_num at hrtt
    · exact ⟨h1, hs.1, hs.2.1, h2, h3, h4⟩
  · unfold rtt_n_sequence_inside
    rcases rtt_n_dir_sampled_present _ _ (hall 0 (Or.inl rfl)) with ⟨h1, -⟩ | ⟨-, -, h3, h4⟩
    · left
      rw [h1, if_neg (by norm_num)]
    · right
      rw [if_pos (le_of_lt h3)]
      exact ⟨h3, h4⟩
  · unfold rtt_n_sequence_outside
    rcases rtt_n_dir_sampled_present _ _ (hall 1 (Or.inr rfl)) with ⟨h1, -⟩ | ⟨-, -, h3, h4⟩
    · left
      rw [h1, if_neg (by norm_num)]
    · right
      rw [if_pos (le_of_lt h3)]
      exact ⟨h3, h4⟩

/-- Claim C36 for the run `two_samples`, which accepts the samples 0.5 s and
0.25 s in direction 0 and none in direction 1. -/
theorem smoothed_rtt_within_samples_witness :
    ∃ final samples,
      rtt_n_sequence_run (rtt_n_sequence_create 0) two_samples = .ok (final, samples)
      ∧ samples = [(1, -1), (0, 1 / 2), (1, -1), (0, 1 / 4)]
      ∧ (final.dir 0).rtt = 15 / 32
      ∧ ((∀ d : Int, d = 0 ∨ d = 1 → (final.dir d).rtt ≥ 0 →
          (final.dir d).count ≥ 1
          ∧ (final.dir d).count = ((rtt_n_accepted d samples).length : Int)
          ∧ (∀ s, s ∈ rtt_n_accepted d samples → 0 < s ∧ s ≤ 20)
          ∧ (∃ lo, lo ∈ rtt_n_accepted d samples ∧ ∃ hi, hi ∈ rtt_n_accepted d samples
              ∧ lo ≤ (final.dir d).rtt ∧ (final.dir d).rtt ≤ hi)
          ∧ 0 < (final.dir d).rtt ∧ (final.dir d).rtt ≤ 20)
        ∧ (rtt_n_sequence_inside final = -1
            ∨ (0 < rtt_n_sequence_inside final ∧ rtt_n_sequence_inside final ≤ 20))
        ∧ (rtt_n_sequence_outside final = -1
            ∨ (0 < rtt_n_sequence_outside final ∧ rtt_n_sequence_outside final ≤ 20))) := by
  have hval : (rtt_n_sequence_run (rtt_n_sequence_create 0) two_samples).map
      (fun r => (r.2, (r.1.dir 0).rtt))
      = .ok ([(1, -1), (0, 1 / 2), (1, -1), (0, 1 / 4)], 15 / 32) := by decide!
  cases hrun : rtt_n_sequence_run (rtt_n_sequence_create 0) two_samples with
  | error e =>
    rw [hrun] at hval
    cases hval
  | ok r =>
    rw [hrun] at hval
    simp only [Except.map, Except.ok.injEq, Prod.mk.injEq] at hval
    exact ⟨r.1, r.2, rfl, hval.1, hval.2,
      smoothed_rtt_within_samples 0 two_samples r.1 r.2 hrun⟩

theorem rtt_n_items_of_holds (q : queue_t rtt_n_item_t) (l : List rtt_n_item_t)
    (h : queue_holds q 16 l) : rtt_n_items q = l.map some :=
  queue_items_of_get q (rtt_n_queue_vars (-1)) l h.length h.slots

/-- The walk of a call of `rtt_n_sequence_update` in a state that the calls
keep, for a packet of direction 0 or 1 with both headers whose queue holds the
items `l`. -/
theorem rtt_n_sequence_update_walk (size : Int) (rtt_n : rtt_n_t) (packet : libtrace_packet_t)
    (ip : libtrace_ip) (tcp : libtrace_tcp) (l : List rtt_n_item_t) (hwf : rtt_n_wf rtt_n)
    (hd : packet.direction = 0 ∨ packet.direction = 1) (hip : packet.ip = some ip)
    (htcp : packet.tcp = some tcp) (hl : queue_holds (rtt_n.dir packet.direction).queue 16 l) :
    (∀ after,
        rtt_n_sequence_update (rtt_n_queue_vars (rtt_n_sequence_set_buffer_size size)) rtt_n
          packet = .ok after →
        ∃ queues,
          rtt_n_sequence_queues (rtt_n_queue_vars (rtt_n_sequence_set_buffer_size size))
              { rtt_n with last_rtt := -1 } packet.direction ip tcp (trace_get_seconds packet)
            = .ok (queues,
                (((l.takeWhile (fun i => decide (i.expected_ack ≤ ntohl tcp.ack_seq))).getLast?).map
                  (fun i => trace_get_seconds packet - i.time)).getD (-1))
          ∧ queue_holds (after.dir packet.direction).queue 16
              (l.dropWhile (fun i => decide (i.expected_ack ≤ ntohl tcp.ack_seq)))
          ∧ (rtt_n_sequence_smooth (queues.dir packet.direction)
                ((((l.takeWhile
                    (fun i => decide (i.expected_ack ≤ ntohl tcp.ack_seq))).getLast?).map
                  (fun i => trace_get_seconds packet - i.time)).getD (-1))
              = .ok (after.dir packet.direction, after.last_rtt)))
      ∧ ((rtt_n.dir (1 - packet.direction)).queue.buffer_size + 10 < 134217728 →
          (rtt_n.dir packet.direction).count < 2147483647 →
          ∃ after,
            rtt_n_sequence_update (rtt_n_queue_vars (rtt_n_sequence_set_buffer_size size)) rtt_n
              packet = .ok after) := by
  have hwf1 : rtt_n_wf { rtt_n with last_rtt := -1 } := hwf
  have hcases := rtt_n_sequence_queues_holds size { rtt_n with last_rtt := -1 } packet.direction
    hd ip tcp (trace_get_seconds packet) l hwf1 hl
  rw [rtt_n_sequence_update_headers _ _ _ ip tcp hd hip htcp]
  refine ⟨?_, ?_⟩
  · intro after h
    rcases hcases with ⟨queues, q2, q3, hq, h2, hd2, -, -, -⟩ | ⟨hub, -⟩
    · rw [hq] at h
      simp only [] at h
      refine ⟨queues, hq, ?_⟩
      cases hsm : rtt_n_sequence_smooth (queues.dir packet.direction)
          ((((l.takeWhile (fun i => decide (i.expected_ack ≤ ntohl tcp.ack_seq))).getLast?).map
            (fun i => trace_get_seconds packet - i.time)).getD (-1)) with
      | error e =>
        rw [hsm] at h
        cases h
      | ok r =>
        rw [hsm] at h
        simp only [Except.ok.injEq] at h
        obtain ⟨dir, last⟩ := r
        have e1 : after.dir packet.direction = dir := by
          rw [← h]
          exact rtt_n_dir_set_dir _ _ _
        have e2 : after.last_rtt = last := by
          rw [← h]
        rw [e1, e2]
        refine ⟨?_, rfl⟩
        rcases rtt_n_sequence_smooth_ok _ _ _ _ hsm with ⟨-, h5, -⟩ | ⟨-, -, -, h5, -⟩
        · rw [h5, hd2]
          exact h2
        · rw [h5, hd2]
          exact h2
    · rw [hub] at h
      cases h
  · intro hroom hcount
    rcases hcases with ⟨queues, q2, q3, hq, h2, hd2, -, -, -⟩ | ⟨-, hbig⟩
    · rw [hq]
      simp only []
      have hrtt : (queues.dir packet.direction).rtt ≤ RTT_N_SEQUENCE_MAX_RTT := by
        rw [hd2]
        exact (rtt_n_wf_dir _ packet.direction hwf1).2
      have hcount2 : (queues.dir packet.direction).count < 2147483647 := by
        rw [hd2]
        exact hcount
      by_cases hs : 0 < (((l.takeWhile
            (fun i => decide (i.expected_ack ≤ ntohl tcp.ack_seq))).getLast?).map
            (fun i => trace_get_seconds packet - i.time)).getD (-1)
          ∧ (((l.takeWhile (fun i => decide (i.expected_ack ≤ ntohl tcp.ack_seq))).getLast?).map
            (fun i => trace_get_seconds packet - i.time)).getD (-1) ≤ RTT_N_SEQUENCE_MAX_RTT
      · obtain ⟨dir, hsm, -⟩ := rtt_n_sequence_smooth_accepts (queues.dir packet.direction) _
          hs.1 hs.2 hcount2 (by unfold RTT_N_SEQUENCE_MAX_RTT at hrtt; linarith)
        rw [hsm]
        exact ⟨_, rfl⟩
      · rw [rtt_n_sequence_smooth_rejects (queues.dir packet.direction) _ (by
          by_contra hc
          apply hs
          constructor
          · by_contra h1
            exact hc (Or.inl (le_of_not_lt h1))
          · by_contra h1
            exact hc (Or.inr (lt_of_not_le h1)))]
        exact ⟨_, rfl⟩
    · have := rtt_n_queue_add_size size (rtt_n.dir (1 - packet.direction)).queue hroom
      have e : ({ rtt_n with last_rtt := -1 } : rtt_n_t).dir (1 - packet.direction)
          = rtt_n.dir (1 - packet.direction) := rfl
      rw [e] at hbig
      omega

/-- C34. The ack walk of the sequence-based estimator. For every state that a
run of `rtt_n_sequence_update` calls from `rtt_n_sequence_create` reaches (with
any calls of `rtt_n_sequence_set_buffer_size` in between) and every packet of
direction `d` (0 or 1, with IP and TCP header) and acknowledgement number `a`:
the queue of direction `d` holds items that ascend strictly in `expected_ack`;
after `rtt_n_sequence_update` it holds exactly those of them whose
`expected_ack` is above `a`, in their order; when none of them has
`expected_ack <= a` no sample is taken (`last_rtt` is absent); when one has,
the value of `rtt` after the loop is the time of the packet minus the time of
the item with the greatest `expected_ack` among those with `expected_ack <= a`,
and `last_rtt` is that sample if it is above 0 and at most 20 s, and absent
otherwise. The call returns when the buffer of the other queue has fewer than
134217718 slots and the sample count of direction `d` is below `INT_MAX`. -/
theorem sequence_estimator_ack_walk (x : ℚ) (trace : List (Int × libtrace_packet_t))
    (rtt_n : rtt_n_t) (samples : List (Int × ℚ)) (size : Int) (packet : libtrace_packet_t)
    (ip : libtrace_ip) (tcp : libtrace_tcp)
    (hrun : rtt_n_sequence_run (rtt_n_sequence_create x) trace = .ok (rtt_n, samples))
    (hd : packet.direction = 0 ∨ packet.direction = 1) (hip : packet.ip = some ip)
    (htcp : packet.tcp = some tcp) :
    ∃ items : List rtt_n_item_t,
      rtt_n_items (rtt_n.dir packet.direction).queue = items.map some
      ∧ rtt_n_ascending items
      ∧ (∀ after,
          rtt_n_sequence_update (rtt_n_queue_vars (rtt_n_sequence_set_buffer_size size)) rtt_n
            packet = .ok after →
          rtt_n_items (after.dir packet.direction).queue
            = (items.filter (fun i => decide (ntohl tcp.ack_seq < i.expected_ack))).map some
          ∧ ((∀ i, i ∈ items → ntohl tcp.ack_seq < i.expected_ack) →
              rtt_n_sequence_last_sample_value after = -1
              ∧ ∃ queues,
                rtt_n_sequence_queues (rtt_n_queue_vars (rtt_n_sequence_set_buffer_size size))
                  { rtt_n with last_rtt := -1 } packet.direction ip tcp
                  (trace_get_seconds packet) = .ok (queues, -1))
          ∧ ((∃ i, i ∈ items ∧ i.expected_ack ≤ ntohl tcp.ack_seq) →
              ∃ item, item ∈ items ∧ item.expected_ack ≤ ntohl tcp.ack_seq
                ∧ (∀ j, j ∈ items → j.expected_ack ≤ ntohl tcp.ack_seq →
                    j.expected_ack ≤ item.expected_ack)
                ∧ (∃ queues,
                    rtt_n_sequence_queues
                      (rtt_n_queue_vars (rtt_n_sequence_set_buffer_size size))
                      { rtt_n with last_rtt := -1 } packet.direction ip tcp
                      (trace_get_seconds packet)
                      = .ok (queues, trace_get_seconds packet - item.time))
                ∧ rtt_n_sequence_last_sample_value after
                    = if 0 < trace_get_seconds packet - item.time
                        ∧ trace_get_seconds packet - item.time ≤ 20
                      then trace_get_seconds packet - item.time else -1))
      ∧ ((rtt_n.dir (1 - packet.direction)).queue.buffer_size + 10 < 134217728 →
          (rtt_n.dir packet.direction).count < 2147483647 →
          ∃ after,
            rtt_n_sequence_update (rtt_n_queue_vars (rtt_n_sequence_set_buffer_size size)) rtt_n
              packet = .ok after) := by
  have hwf := rtt_n_sequence_run_wf trace _ rtt_n samples (rtt_n_sequence_create_wf x) hrun
  obtain ⟨⟨l, hl, hasc⟩, -⟩ := rtt_n_wf_dir rtt_n packet.direction hwf
  obtain ⟨hwalk, hret⟩ := rtt_n_sequence_update_walk size rtt_n packet ip tcp l hwf hd hip htcp hl
  refine ⟨l, rtt_n_items_of_holds _ l hl, hasc, ?_, hret⟩
  intro after hup
  obtain ⟨queues, hq, h2, hsm⟩ := hwalk after hup
  rw [rtt_n_ascending_dropWhile _ l hasc] at h2
  refine ⟨rtt_n_items_of_holds _ _ h2, ?_, ?_⟩
  · intro hnone
    rcases rtt_n_ascending_takeWhile (ntohl tcp.ack_seq) l hasc with ⟨h3, -⟩
      | ⟨item, -, hmem, hle, -⟩
    · rw [h3] at hq hsm
      simp only [Option.map_none', Option.getD_none] at hq hsm
      rw [rtt_n_sequence_smooth_rejects _ _ (Or.inl (by norm_num))] at hsm
      simp only [Except.ok.injEq, Prod.mk.injEq] at hsm
      exact ⟨hsm.2.symm, queues, hq⟩
    · have := hnone item hmem
      omega
  · rintro ⟨i, hi, hia⟩
    rcases rtt_n_ascending_takeWhile (ntohl tcp.ack_seq) l hasc with ⟨-, h3⟩
      | ⟨item, hlast, hmem, hle, hmax⟩
    · have := h3 i hi
      omega
    · rw [hlast] at hq hsm
      simp only [Option.map_some', Option.getD_some] at hq hsm
      refine ⟨item, hmem, hle, hmax, ⟨queues, hq⟩, ?_⟩
      unfold rtt_n_sequence_last_sample_value
      rcases rtt_n_sequence_smooth_ok _ _ _ _ hsm with ⟨h5, -, h6⟩ | ⟨h5, h6, h7, -⟩
      · rw [h5, if_neg]
        intro hc
        rcases h6 with h6 | h6
        · linarith [hc.1]
        · unfold RTT_N_SEQUENCE_MAX_RTT at h6
          linarith [hc.2]
      · rw [h5, if_pos ⟨h6, h7⟩]

/-- Claim C34 for the last packet of `two_samples`: the acknowledgement 201
from direction 0 at 2.25 s, in the state after the first three packets, where
the queue of direction 0 holds the item (201, 2 s). -/
theorem sequence_estimator_ack_walk_witness :
    ∃ rtt_n samples,
      rtt_n_sequence_run (rtt_n_sequence_create 0) (two_samples.take 3) = .ok (rtt_n, samples)
      ∧ rtt_n_items (rtt_n.dir 0).queue = [some { expected_ack := 201, time := 2 }]
      ∧ ∃ items : List rtt_n_item_t,
        rtt_n_items (rtt_n.dir second_ack.direction).queue = items.map some
        ∧ rtt_n_ascending items
        ∧ (∀ after,
            rtt_n_sequence_update (rtt_n_queue_vars (rtt_n_sequence_set_buffer_size (-1))) rtt_n
              second_ack = .ok after →
            rtt_n_items (after.dir second_ack.direction).queue
              = (items.filter
                  (fun i => decide (ntohl second_ack_tcp.ack_seq < i.expected_ack))).map some
            ∧ ((∀ i, i ∈ items → ntohl second_ack_tcp.ack_seq < i.expected_ack) →
                rtt_n_sequence_last_sample_value after = -1
                ∧ ∃ queues,
                  rtt_n_sequence_queues
                    (rtt_n_queue_vars (rtt_n_sequence_set_buffer_size (-1)))
                    { rtt_n with last_rtt := -1 } second_ack.direction second_ack_ip
                    second_ack_tcp (trace_get_seconds second_ack) = .ok (queues, -1))
            ∧ ((∃ i, i ∈ items ∧ i.expected_ack ≤ ntohl second_ack_tcp.ack_seq) →
                ∃ item, item ∈ items ∧ item.expected_ack ≤ ntohl second_ack_tcp.ack_seq
                  ∧ (∀ j, j ∈ items → j.expected_ack ≤ ntohl second_ack_tcp.ack_seq →
                      j.expected_ack ≤ item.expected_ack)
                  ∧ (∃ queues,
                      rtt_n_sequence_queues
                        (rtt_n_queue_vars (rtt_n_sequence_set_buffer_size (-1)))
                        { rtt_n with last_rtt := -1 } second_ack.direction second_ack_ip
                        second_ack_tcp (trace_get_seconds second_ack)
                        = .ok (queues, trace_get_seconds second_ack - item.time))
                  ∧ rtt_n_sequence_last_sample_value after
                      = if 0 < trace_get_seconds second_ack - item.time
                          ∧ trace_get_seconds second_ack - item.time ≤ 20
                        then trace_get_seconds second_ack - item.time else -1))
        ∧ ((rtt_n.dir (1 - second_ack.direction)).queue.buffer_size + 10 < 134217728 →
            (rtt_n.dir second_ack.direction).count < 2147483647 →
            ∃ after,
              rtt_n_sequence_update (rtt_n_queue_vars (rtt_n_sequence_set_buffer_size (-1)))
                rtt_n second_ack = .ok after) := by
  have hval : (rtt_n_sequence_run (rtt_n_sequence_create 0) (two_samples.take 3)).map
      (fun r => rtt_n_items (r.1.dir 0).queue)
      = .ok [some { expected_ack := 201, time := 2 }] := by decide!
  cases hrun : rtt_n_sequence_run (rtt_n_sequence_create 0) (two_samples.take 3) with
  | error e =>
    rw [hrun] at hval
    cases hval
  | ok r =>
    rw [hrun] at hval
    simp only [Except.map, Except.ok.injEq] at hval
    exact ⟨r.1, r.2, rfl, hval,
      sequence_estimator_ack_walk 0 (two_samples.take 3) r.1 r.2 (-1) second_ack second_ack_ip
        second_ack_tcp hrun (Or.inl rfl) rfl rfl⟩

/-- C35 (corrected). Smoothing in the sequence-based estimator. A packet of a
direction other than 0 and 1 only resets `last_rtt` to `-1` (absent). For a
packet of direction `d` (0 or 1) with both headers after whose walk the
variable `rtt` is `s`, in a state whose smoothed RTT of direction `d` is below
`2^31` s: if `0 < s <= 20` and the `int` count of the direction is below
`INT_MAX`, the call returns, `last_rtt` is `s`, `s` is added to the total, the
count is incremented, and the RTT becomes `s` with variance `s / 2` if there
was none, and `0.875 * RTT + 0.125 * s` otherwise; if `s <= 0` or `s > 20`, the
call returns with RTT, variance, total and count of the direction as they were
and `last_rtt` absent; and when the walk has removed no item, `s` is `-1`. -/
theorem sequence_estimator_smoothing (vars : queue_vars_t) (rtt_n : rtt_n_t)
    (packet : libtrace_packet_t) :
    (¬ (packet.direction = 0 ∨ packet.direction = 1) →
        rtt_n_sequence_update vars rtt_n packet = .ok { rtt_n with last_rtt := -1 })
      ∧ ∀ (ip : libtrace_ip) (tcp : libtrace_tcp) (queues : rtt_n_t) (s : ℚ),
        (packet.direction = 0 ∨ packet.direction = 1) → packet.ip = some ip →
        packet.tcp = some tcp →
        rtt_n_sequence_queues vars { rtt_n with last_rtt := -1 } packet.direction ip tcp
          (trace_get_seconds packet) = .ok (queues, s) →
        (rtt_n.dir packet.direction).rtt < 2147483648 →
        (0 < s → s ≤ 20 → (rtt_n.dir packet.direction).count < 2147483647 →
          ∃ after, rtt_n_sequence_update vars rtt_n packet = .ok after
            ∧ rtt_n_sequence_last_sample_value after = s
            ∧ (after.dir packet.direction).total = (rtt_n.dir packet.direction).total + s
            ∧ (after.dir packet.direction).count = (rtt_n.dir packet.direction).count + 1
            ∧ ((rtt_n.dir packet.direction).rtt < 0 →
                (after.dir packet.direction).rtt = s
                ∧ (after.dir packet.direction).rtt_var = s / 2)
            ∧ (0 ≤ (rtt_n.dir packet.direction).rtt →
                (after.dir packet.direction).rtt
                  = 7 / 8 * (rtt_n.dir packet.direction).rtt + 1 / 8 * s))
        ∧ (s ≤ 0 ∨ 20 < s →
          ∃ after, rtt_n_sequence_update vars rtt_n packet = .ok after
            ∧ rtt_n_sequence_last_sample_value after = -1
            ∧ (after.dir packet.direction).rtt = (rtt_n.dir packet.direction).rtt
            ∧ (after.dir packet.direction).rtt_var = (rtt_n.dir packet.direction).rtt_var
            ∧ (after.dir packet.direction).total = (rtt_n.dir packet.direction).total
            ∧ (after.dir packet.direction).count = (rtt_n.dir packet.direction).count)
        ∧ ((queues.dir packet.direction).queue.length
              = (rtt_n.dir packet.direction).queue.length → s = -1) := by
  refine ⟨fun hd => rtt_n_sequence_update_direction _ _ _ hd, ?_⟩
  intro ip tcp queues s hd hip htcp hq hrtt
  obtain ⟨hs1, hs2, hs3, hs4, -⟩ := rtt_n_sequence_queues_stats _ _ _ _ _ _ _ _ hq packet.direction
  have e : ({ rtt_n with last_rtt := -1 } : rtt_n_t).dir packet.direction
      = rtt_n.dir packet.direction := rfl
  rw [e] at hs1 hs2 hs3 hs4
  rw [rtt_n_sequence_update_headers _ _ _ ip tcp hd hip htcp, hq]
  simp only []
  refine ⟨?_, ?_, ?_⟩
  · intro h0 h1 hcount
    obtain ⟨dir, hsm, -, h3, h4, h5, h6⟩ := rtt_n_sequence_smooth_accepts
      (queues.dir packet.direction) s h0 h1 (by rw [hs4]; exact hcount) (by rw [hs1]; exact hrtt)
    rw [hsm]
    refine ⟨_, rfl, rfl, ?_, ?_, ?_, ?_⟩
    · show ((queues.set_dir packet.direction dir).dir packet.direction).total = _
      rw [rtt_n_dir_set_dir, h3, hs3]
    · show ((queues.set_dir packet.direction dir).dir packet.direction).count = _
      rw [rtt_n_dir_set_dir, h4, hs4]
    · intro hneg
      show ((queues.set_dir packet.direction dir).dir packet.direction).rtt = s
        ∧ ((queues.set_dir packet.direction dir).dir packet.direction).rtt_var = s / 2
      rw [rtt_n_dir_set_dir]
      exact h5 (by rw [hs1]; exact hneg)
    · intro hpos
      show ((queues.set_dir packet.direction dir).dir packet.direction).rtt = _
      rw [rtt_n_dir_set_dir, (h6 (by rw [hs1]; exact hpos)).1, hs1]
  · intro hs
    rw [rtt_n_sequence_smooth_rejects (queues.dir packet.direction) s hs]
    refine ⟨_, rfl, rfl, ?_, ?_, ?_, ?_⟩
    · show ((queues.set_dir packet.direction (queues.dir packet.direction)).dir
        packet.direction).rtt = _
      rw [rtt_n_dir_set_dir, hs1]
    · show ((queues.set_dir packet.direction (queues.dir packet.direction)).dir
        packet.direction).rtt_var = _
      rw [rtt_n_dir_set_dir, hs2]
    · show ((queues.set_dir packet.direction (queues.dir packet.direction)).dir
        packet.direction).total = _
      rw [rtt_n_dir_set_dir, hs3]
    · show ((queues.set_dir packet.direction (queues.dir packet.direction)).dir
        packet.direction).count = _
      rw [rtt_n_dir_set_dir, hs4]
  · intro hsame
    exact rtt_n_sequence_queues_unchanged _ _ _ _ hd _ _ _ _ hq hsame

/-- C35, counterexample. A data packet from direction 1 at 1 s puts the item
(101, 1 s) into the queue of direction 0; the acknowledgement 101 from
direction 0 with the same time stamp removes it, and the sample is 0, which is
at most 20 s. The update leaves the RTT of direction 0 absent, the total and
the count at 0 and `last_rtt` absent: line 226 uses only a sample above 0. And
in a state with a count of `INT_MAX` the increment of line 233 is undefined. -/
theorem sample_of_zero_seconds :
    (rtt_n_sequence_run (rtt_n_sequence_create 0) (ack_in_same_instant.take 1)).map
        (fun r => rtt_n_items (r.1.dir 0).queue)
      = .ok [some { expected_ack := 101, time := 1 }]
    ∧ rtt_n_sample_after (ack_in_same_instant.take 1)
        (tcp_segment (eighths 8) 0 1 0 101 0 false true) = .ok 0
    ∧ (rtt_n_sequence_run (rtt_n_sequence_create 0) ack_in_same_instant).map
        (fun r => rtt_n_items (r.1.dir 0).queue) = .ok []
    ∧ (rtt_n_sequence_run (rtt_n_sequence_create 0) ack_in_same_instant).map
        (fun r => ((r.1.dir 0).rtt, (r.1.dir 0).rtt_var)) = .ok (-1, -1)
    ∧ (rtt_n_sequence_run (rtt_n_sequence_create 0) ack_in_same_instant).map
        (fun r => ((r.1.dir 0).total, (r.1.dir 0).count)) = .ok (0, 0)
    ∧ (rtt_n_sequence_run (rtt_n_sequence_create 0) ack_in_same_instant).map
        (fun r => rtt_n_sequence_last_sample_value r.1) = .ok (-1)
    ∧ (rtt_n_sequence_smooth
          { queue := queue_create, rtt := 1 / 2, rtt_var := 1 / 4, total := 1 / 2,
            count := 2147483647 } (1 / 2)).map (fun r => r.2)
        = .error fault.undefined_behaviour := by
  refine ⟨by decide!, by decide!, by decide!, by decide!, by decide!, by decide!, by decide!⟩

/-- Claim C35 for the last packet of `two_samples`: the acknowledgement 201
from direction 0 at 2.25 s, in the state after the first three packets, where
the RTT of direction 0 is 0.5 s and its queue holds the item (201, 2 s). The
sample is 0.25 s. -/
theorem sequence_estimator_smoothing_witness :
    ∃ rtt_n samples queues,
      rtt_n_sequence_run (rtt_n_sequence_create 0) (two_samples.take 3) = .ok (rtt_n, samples)
      ∧ rtt_n_sequence_queues (rtt_n_queue_vars (-1)) { rtt_n with last_rtt := -1 }
          second_ack.direction second_ack_ip second_ack_tcp (trace_get_seconds second_ack)
          = .ok (queues, 1 / 4)
      ∧ (rtt_n.dir second_ack.direction).rtt = 1 / 2
      ∧ (rtt_n.dir second_ack.direction).count = 1
      ∧ ((0 : ℚ) < 1 / 4 → (1 / 4 : ℚ) ≤ 20 →
          (rtt_n.dir second_ack.direction).count < 2147483647 →
          ∃ after, rtt_n_sequence_update (rtt_n_queue_vars (-1)) rtt_n second_ack = .ok after
            ∧ rtt_n_sequence_last_sample_value after = 1 / 4
            ∧ (after.dir second_ack.direction).total
                = (rtt_n.dir second_ack.direction).total + 1 / 4
            ∧ (after.dir second_ack.direction).count
                = (rtt_n.dir second_ack.direction).count + 1
            ∧ ((rtt_n.dir second_ack.direction).rtt < 0 →
                (after.dir second_ack.direction).rtt = 1 / 4
                ∧ (after.dir second_ack.direction).rtt_var = 1 / 4 / 2)
            ∧ (0 ≤ (rtt_n.dir second_ack.direction).rtt →
                (after.dir second_ack.direction).rtt
                  = 7 / 8 * (rtt_n.dir second_ack.direction).rtt + 1 / 8 * (1 / 4)))
      ∧ ((1 / 4 : ℚ) ≤ 0 ∨ (20 : ℚ) < 1 / 4 →
          ∃ after, rtt_n_sequence_update (rtt_n_queue_vars (-1)) rtt_n second_ack = .ok after
            ∧ rtt_n_sequence_last_sample_value after = -1
            ∧ (after.dir second_ack.direction).rtt = (rtt_n.dir second_ack.direction).rtt
            ∧ (after.dir second_ack.direction).rtt_var
                = (rtt_n.dir second_ack.direction).rtt_var
            ∧ (after.dir second_ack.direction).total
                = (rtt_n.dir second_ack.direction).total
            ∧ (after.dir second_ack.direction).count
                = (rtt_n.dir second_ack.direction).count)
      ∧ ((queues.dir second_ack.direction).queue.length
            = (rtt_n.dir second_ack.direction).queue.length → (1 / 4 : ℚ) = -1) := by
  have hval : rtt_n_sample_after (two_samples.take 3) second_ack = .ok (1 / 4) := by decide!
  have hstats : (rtt_n_sequence_run (rtt_n_sequence_create 0) (two_samples.take 3)).map
      (fun r => ((r.1.dir 0).rtt, (r.1.dir 0).count)) = .ok (1 / 2, 1) := by decide!
  cases hrun : rtt_n_sequence_run (rtt_n_sequence_create 0) (two_samples.take 3) with
  | error e =>
    rw [hrun] at hstats
    cases hstats
  | ok r =>
    rw [hrun] at hstats
    simp only [Except.map, Except.ok.injEq, Prod.mk.injEq] at hstats
    have hval2 : (rtt_n_sequence_queues (rtt_n_queue_vars (-1)) { r.1 with last_rtt := -1 }
        second_ack.direction second_ack_ip second_ack_tcp (trace_get_seconds second_ack)).map
        (fun q => q.2) = .ok (1 / 4) := by
      have h := hval
      unfold rtt_n_sample_after at h
      rw [hrun] at h
      exact h
    cases hq : rtt_n_sequence_queues (rtt_n_queue_vars (-1)) { r.1 with last_rtt := -1 }
        second_ack.direction second_ack_ip second_ack_tcp (trace_get_seconds second_ack) with
    | error e =>
      rw [hq] at hval2
      cases hval2
    | ok q =>
      rw [hq] at hval2
      simp only [Except.map, Except.ok.injEq] at hval2
      have hq2 : rtt_n_sequence_queues (rtt_n_queue_vars (-1)) { r.1 with last_rtt := -1 }
          second_ack.direction second_ack_ip second_ack_tcp (trace_get_seconds second_ack)
          = .ok (q.1, 1 / 4) := by
        rw [hq, ← hval2]
      exact ⟨r.1, r.2, q.1, rfl, hq2, hstats.1, hstats.2,
        (sequence_estimator_smoothing (rtt_n_queue_vars (-1)) r.1 second_ack).2 second_ack_ip
          second_ack_tcp q.1 (1 / 4) (Or.inl rfl) rfl rfl hq2
          (by
            have e : (r.1.dir second_ack.direction).rtt = 1 / 2 := hstats.1
            rw [e]
            norm_num)⟩

/-! ### Claim on the structure of the ring queue -/

/-- Every state that returning calls reach holds a list of items. -/
theorem queue_reachable_holds {α : Type} (vars : queue_vars_t) (hv : queue_vars_ok vars)
    (q : queue_t α) (h : queue_reachable vars q) :
    ∃ items, queue_holds q vars.item_size items := by
  induction h with
  | create => exact ⟨[], queue_create_holds _⟩
  | add q q2 item p _ hadd ih =>
    obtain ⟨l, hl⟩ := ih
    rcases queue_add_holds q vars item l hv hl with ⟨hnull, -⟩ | ⟨q3, slot, hok, h3, -⟩
      | ⟨hub, -⟩
    · rw [hnull] at hadd
      simp only [Except.ok.injEq, Prod.mk.injEq] at hadd
      rw [← hadd.1]
      exact ⟨l, hl⟩
    · rw [hok] at hadd
      simp only [Except.ok.injEq, Prod.mk.injEq] at hadd
      rw [← hadd.1]
      exact ⟨_, h3⟩
    · rw [hub] at hadd
      cases hadd
  | remove q _ ih =>
    obtain ⟨l, hl⟩ := ih
    cases l with
    | nil =>
      have hlen := hl.length
      have e : (queue_remove q vars).1 = q := by
        simp only [queue_remove, hlen, List.length_nil, if_true]
      rw [e]
      exact ⟨[], hl⟩
    | cons x rest => exact ⟨rest, (queue_remove_holds q vars x rest hv.item.2 hl).1⟩
  | clear q _ ih =>
    obtain ⟨l, hl⟩ := ih
    exact ⟨[], queue_clear_holds q _ l hl⟩
  | itr_remove q itr _ hne ih =>
    obtain ⟨l, hl⟩ := ih
    cases l with
    | nil =>
      have hlen := hl.length
      exact absurd hlen hne
    | cons x rest => exact ⟨rest, queue_itr_remove_holds q itr _ x rest hl⟩

/-- The pointer that `queue_itr_next` returns for an iterator that has not
counted all items: the slot of the next item of the queue. -/
theorem queue_itr_next_window {α : Type} (q : queue_t α) (vars : queue_vars_t) (l : List α)
    (itr : queue_itr_t) (hs : 0 < vars.item_size) (hs2 : vars.item_size < 4294967296)
    (h : queue_holds q vars.item_size l) (hcount : itr.count < q.length)
    (hpos : itr.pos
      = ((q.lower_idx + q.buffer_size + itr.count - 1) % q.buffer_size) * vars.item_size) :
    (queue_itr_next q vars itr).2
        = some ((((q.lower_idx + itr.count) % q.buffer_size) * vars.item_size : Nat) : Int)
      ∧ (queue_itr_next q vars itr).1.pos
        = ((q.lower_idx + itr.count) % q.buffer_size) * vars.item_size
      ∧ (queue_itr_next q vars itr).1.count = (itr.count + 1) % 65536
      ∧ (q.lower_idx + itr.count) % q.buffer_size < q.buffer_size
      ∧ queue_slot_ok q.allocated vars.item_size ((q.lower_idx + itr.count) % q.buffer_size)
      ∧ q.ptr (((q.lower_idx + itr.count) % q.buffer_size) * vars.item_size)
        = l.get? itr.count := by
  have hlen := h.length
  have hfit := h.fits
  obtain ⟨hw1, hw2⟩ := queue_holds_window q _ l h itr.count (by omega)
  have hsl := h.slots itr.count (by omega)
  have hlower : q.lower_idx < q.buffer_size := by
    rcases h.lower with h1 | h1
    · exact h1
    · omega
  have halloc := h.allocated
  have hal32 : q.allocated < 4294967296 := by
    rw [halloc]
    exact Nat.mod_lt _ (by omega)
  have e1 : vars.item_size % 4294967296 = vars.item_size := Nat.mod_eq_of_lt hs2
  have hne : ¬ (itr.count = q.length) := by omega
  -- the slot before the slot of the next item
  have hprev : (q.lower_idx + q.buffer_size + itr.count - 1) % q.buffer_size + 1
        = (q.lower_idx + itr.count) % q.buffer_size
      ∨ ((q.lower_idx + q.buffer_size + itr.count - 1) % q.buffer_size + 1 = q.buffer_size
        ∧ (q.lower_idx + itr.count) % q.buffer_size = 0) := by
    by_cases hc : q.lower_idx + itr.count < q.buffer_size
    · rw [Nat.mod_eq_of_lt hc]
      by_cases h0 : q.lower_idx + itr.count = 0
      · right
        have e : q.lower_idx + q.buffer_size + itr.count - 1 = q.buffer_size - 1 := by omega
        rw [e, Nat.mod_eq_of_lt (by omega)]
        omega
      · left
        have e : q.lower_idx + q.buffer_size + itr.count - 1
            = (q.lower_idx + itr.count - 1) + q.buffer_size := by omega
        rw [e, Nat.add_mod_right, Nat.mod_eq_of_lt (by omega)]
        omega
    · have e2 : q.lower_idx + itr.count
          = (q.lower_idx + itr.count - q.buffer_size) + q.buffer_size := by omega
      have e3 : (q.lower_idx + itr.count) % q.buffer_size
          = q.lower_idx + itr.count - q.buffer_size := by
        rw [e2, Nat.add_mod_right, Nat.mod_eq_of_lt (by omega)]
        omega
      rw [e3]
      by_cases h0 : q.lower_idx + itr.count = q.buffer_size
      · right
        have e : q.lower_idx + q.buffer_size + itr.count - 1
            = (q.buffer_size - 1) + q.buffer_size := by omega
        rw [e, Nat.add_mod_right, Nat.mod_eq_of_lt (by omega)]
        omega
      · left
        have e : q.lower_idx + q.buffer_size + itr.count - 1
            = (q.lower_idx + itr.count - q.buffer_size - 1) + q.buffer_size + q.buffer_size := by
          omega
        rw [e, Nat.add_mod_right, Nat.add_mod_right, Nat.mod_eq_of_lt (by omega)]
        omega
  have hnext : (if (itr.pos + vars.item_size) % 4294967296
        = (q.buffer_size * vars.item_size) % 4294967296 then 0
      else (itr.pos + vars.item_size) % 4294967296)
      = ((q.lower_idx + itr.count) % q.buffer_size) * vars.item_size := by
    rw [hpos]
    have hsum : (q.lower_idx + q.buffer_size + itr.count - 1) % q.buffer_size * vars.item_size
        + vars.item_size
        = ((q.lower_idx + q.buffer_size + itr.count - 1) % q.buffer_size + 1)
          * vars.item_size := by
      rw [Nat.add_mul, Nat.one_mul]
    rw [hsum]
    rcases hprev with hp | ⟨hp1, hp2⟩
    · rw [hp]
      have h3 := hw2.2
      rw [Nat.mod_eq_of_lt (by omega), if_neg]
      rw [← halloc]
      omega
    · rw [hp1, hp2, if_pos rfl, Nat.zero_mul]
  refine ⟨?_, ?_, ?_, hw1, hw2, hsl⟩
  · simp only [queue_itr_next, if_neg hne, e1, hnext]
  · simp only [queue_itr_next, if_neg hne, e1, hnext]
  · simp only [queue_itr_next, if_neg hne]

theorem queue_pointer_inside_slot {α : Type} (q : queue_t α) (s slot : Nat)
    (h1 : slot < q.buffer_size) (h2 : queue_slot_ok q.allocated s slot) :
    queue_pointer_inside q s ((slot * s : Nat) : Int) :=
  ⟨slot, h1, rfl, h2.2⟩

/-- C39 (corrected). The structure of the ring queue. For queue variables with
an item size of at least 1 and either a positive increment (`buffer_size` is
`-1`) or a positive fixed number of slots, in every state that `queue_create`,
returning calls of `queue_add`, `queue_remove`, `queue_clear` and
`queue_itr_remove` on a queue that is not empty reach: `length <= buffer_size`;
`lower_idx < buffer_size` once the buffer exists; no assertion of `queue_add`
fails; the pointers that `queue_remove`, `queue_bottom`, `queue_top`,
`queue_itr_begin` and `queue_itr_next` return and the pointer of every
`queue_add` that returns lie inside the buffer; the iterator stays one of the
queue; and `queue_add` returns when the buffer it writes to has less than
`2^31` bytes. -/
theorem ring_queue_structure {α : Type} (vars : queue_vars_t) (hv : queue_vars_ok vars)
    (q : queue_t α) (hq : queue_reachable vars q) :
    q.length ≤ q.buffer_size
      ∧ (q.buffer_size ≠ 0 → q.lower_idx < q.buffer_size)
      ∧ (∀ item, queue_add q vars item ≠ .error fault.assertion_failure)
      ∧ (∀ item q2 p, queue_add q vars item = .ok (q2, some p) →
          q2.length ≤ q2.buffer_size ∧ queue_pointer_inside q2 vars.item_size p)
      ∧ (∀ p, (queue_remove q vars).2 = some p → queue_pointer_inside q vars.item_size p)
      ∧ (∀ p, queue_bottom q vars = some p → queue_pointer_inside q vars.item_size p)
      ∧ (∃ r, queue_top q vars = .ok r ∧ ∀ p, r = some p → queue_pointer_inside q vars.item_size p)
      ∧ (∀ itr p, (queue_itr_begin q vars itr).2 = some p →
          queue_pointer_inside q vars.item_size p
          ∧ queue_itr_valid q vars.item_size (queue_itr_begin q vars itr).1)
      ∧ (∀ itr p, queue_itr_valid q vars.item_size itr →
          (queue_itr_next q vars itr).2 = some p →
          queue_pointer_inside q vars.item_size p
          ∧ (itr.count + 1 < 65536 →
              queue_itr_valid q vars.item_size (queue_itr_next q vars itr).1))
      ∧ (∀ itr, queue_itr_valid q vars.item_size itr → 1 ≤ itr.count →
          queue_itr_valid (queue_itr_remove q itr).1 vars.item_size (queue_itr_remove q itr).2)
      ∧ (queue_add_size q vars * vars.item_size < 2147483648 →
          ∀ item, ∃ q2 p, queue_add q vars item = .ok (q2, p)) := by
  obtain ⟨l, hl⟩ := queue_reachable_holds vars hv q hq
  obtain ⟨hs, hs2⟩ := hv.item
  have e1 : vars.item_size % 4294967296 = vars.item_size := Nat.mod_eq_of_lt hs2
  have hlen := hl.length
  have hlower : q.buffer_size ≠ 0 → q.lower_idx < q.buffer_size := by
    intro hne
    rcases hl.lower with h1 | h1
    · exact h1
    · exact absurd h1.1 hne
  have hbottom : q.length ≠ 0 → q.lower_idx < q.buffer_size
      ∧ queue_slot_ok q.allocated vars.item_size q.lower_idx := by
    intro hne
    cases l with
    | nil => exact absurd hlen hne
    | cons x rest =>
      obtain ⟨-, -, h3, h4, -⟩ := queue_remove_holds q vars x rest hs2 hl
      exact ⟨h3, h4⟩
  refine ⟨by rw [hlen]; exact hl.fits, hlower, ?_, ?_, ?_, ?_, ?_, ?_, ?_, ?_, ?_⟩
  · intro item
    rcases queue_add_holds q vars item l hv hl with ⟨h1, -⟩ | ⟨q2, slot, h1, -⟩ | ⟨h1, -⟩
    · rw [h1]
      intro hc
      cases hc
    · rw [h1]
      intro hc
      cases hc
    · rw [h1]
      intro hc
      cases hc
  · intro item q2 p hadd
    rcases queue_add_holds q vars item l hv hl with ⟨h1, -⟩ | ⟨q3, slot, h1, h3, h4, h5, -⟩
      | ⟨h1, -⟩
    · rw [h1] at hadd
      simp only [Except.ok.injEq, Prod.mk.injEq] at hadd
      cases hadd.2
    · rw [h1] at hadd
      simp only [Except.ok.injEq, Prod.mk.injEq, Option.some.injEq] at hadd
      rw [← hadd.1, ← hadd.2]
      refine ⟨?_, queue_pointer_inside_slot q3 _ slot h4 h5⟩
      rw [h3.length]
      exact h3.fits
    · rw [h1] at hadd
      cases hadd
  · intro p hp
    by_cases hne : q.length = 0
    · simp only [queue_remove, if_pos hne] at hp
      cases hp
    · obtain ⟨h3, h4⟩ := hbottom hne
      simp only [queue_remove, if_neg hne, e1, Option.some.injEq] at hp
      rw [uint32_to_int_of_lt _ h4.1] at hp
      rw [← hp]
      exact queue_pointer_inside_slot q _ _ h3 h4
  · intro p hp
    by_cases hne : q.length = 0
    · simp only [queue_bottom, if_pos hne] at hp
      cases hp
    · obtain ⟨h3, h4⟩ := hbottom hne
      simp only [queue_bottom, if_neg hne, e1, Option.some.injEq] at hp
      rw [uint32_to_int_of_lt _ h4.1] at hp
      rw [← hp]
      exact queue_pointer_inside_slot q _ _ h3 h4
  · rcases queue_top_holds q vars l hs hs2 hl with ⟨-, htop⟩ | ⟨slot, x, -, h3, h4, htop, -⟩
    · refine ⟨none, htop, ?_⟩
      intro p hp
      cases hp
    · refine ⟨_, htop, ?_⟩
      intro p hp
      simp only [Option.some.injEq] at hp
      rw [← hp]
      exact queue_pointer_inside_slot q _ _ h3 h4
  · intro itr p hp
    by_cases hne : q.length = 0
    · simp only [queue_itr_begin, if_pos hne] at hp
      cases hp
    · obtain ⟨h3, h4⟩ := hbottom hne
      have e2 : q.lower_idx * vars.item_size % 4294967296 = q.lower_idx * vars.item_size :=
        Nat.mod_eq_of_lt (by have := h4.1; omega)
      have hb : queue_itr_begin q vars itr
          = ({ count := 1, pos := q.lower_idx * vars.item_size },
              some ((q.lower_idx * vars.item_size : Nat) : Int)) := by
        simp only [queue_itr_begin, if_neg hne, e1, e2]
      rw [hb] at hp ⊢
      simp only [Option.some.injEq] at hp
      rw [← hp]
      refine ⟨queue_pointer_inside_slot q _ _ h3 h4, ?_, ?_, ?_⟩
      · show 1 ≤ q.length
        omega
      · show 1 < 65536
        omega
      · show q.lower_idx * vars.item_size
          = (q.lower_idx + q.buffer_size + 1 - 1) % q.buffer_size * vars.item_size
        rw [Nat.add_sub_cancel, Nat.add_mod_right, Nat.mod_eq_of_lt h3]
  · intro itr p hvalid hp
    obtain ⟨hc, -, hpos⟩ := hvalid
    by_cases hne : itr.count = q.length
    · simp only [queue_itr_next, if_pos hne] at hp
      cases hp
    · obtain ⟨h1, h2, h3, h4, h5, -⟩ := queue_itr_next_window q vars l itr hs hs2 hl
        (by omega) hpos
      rw [h1] at hp
      simp only [Option.some.injEq] at hp
      rw [← hp]
      refine ⟨queue_pointer_inside_slot q _ _ h4 h5, ?_⟩
      intro hsmall
      refine ⟨?_, ?_, ?_⟩
      · rw [h3, Nat.mod_eq_of_lt hsmall]
        omega
      · rw [h3, Nat.mod_eq_of_lt hsmall]
        exact hsmall
      · rw [h2, h3, Nat.mod_eq_of_lt hsmall]
        congr 1
        have e : q.lower_idx + q.buffer_size + (itr.count + 1) - 1
            = (q.lower_idx + itr.count) + q.buffer_size := by omega
        rw [e, Nat.add_mod_right]
  · intro itr hvalid hc1
    obtain ⟨hc, hc2, hpos⟩ := hvalid
    have hfit := hl.fits
    have hsz := hl.size
    have hne : q.buffer_size ≠ 0 := by omega
    have hlow := hlower hne
    have e3 : (q.lower_idx + 1) % 4294967296 = q.lower_idx + 1 := Nat.mod_eq_of_lt (by omega)
    have e4 : (q.length + 4294967295) % 4294967296 = q.length - 1 := by omega
    have e5 : (itr.count + 65535) % 65536 = itr.count - 1 := by omega
    rw [queue_itr_remove_fst, queue_itr_remove_snd, e3, e4, e5]
    unfold queue_itr_valid
    simp only []
    refine ⟨by omega, by omega, ?_⟩
    have key : (q.lower_idx + q.buffer_size + itr.count - 1) % q.buffer_size
        = ((if q.lower_idx + 1 = q.buffer_size then 0 else q.lower_idx + 1)
            + q.buffer_size + (itr.count - 1) - 1) % q.buffer_size := by
      split_ifs with hw
      · have e : q.lower_idx + q.buffer_size + itr.count - 1
            = (0 + q.buffer_size + (itr.count - 1) - 1) + q.buffer_size := by omega
        rw [e, Nat.add_mod_right]
      · have e : q.lower_idx + q.buffer_size + itr.count - 1
            = q.lower_idx + 1 + q.buffer_size + (itr.count - 1) - 1 := by omega
        rw [e]
    rw [hpos, key]
  · intro hroom item
    rcases queue_add_holds q vars item l hv hl with ⟨h1, -⟩ | ⟨q2, slot, h1, -⟩ | ⟨-, h1⟩
    · exact ⟨_, _, h1⟩
    · exact ⟨_, _, h1⟩
    · omega

theorem queue_vars_ok_small : queue_vars_ok queue_of_small_items :=
  ⟨⟨by show 0 < 4; omega, by show 4 < 4294967296; omega⟩,
    Or.inl ⟨rfl, by show (0 : Int) < 2; omega, by show (2 : Int) < 2147483648; omega⟩⟩

/-- Claim C39 for the queue of 4-byte items with increment 2 after the first
`queue_add`. -/
theorem ring_queue_structure_witness :
    queue_vars_ok queue_of_small_items
    ∧ ∃ q : queue_t Nat,
      queue_reachable queue_of_small_items q
      ∧ queue_items q queue_of_small_items = [some 7]
      ∧ q.length ≤ q.buffer_size
      ∧ (q.buffer_size ≠ 0 → q.lower_idx < q.buffer_size)
      ∧ (∀ item, queue_add q queue_of_small_items item
          ≠ .error fault.assertion_failure)
      ∧ (∀ item q2 p,
          queue_add q queue_of_small_items item
            = .ok (q2, some p) →
          q2.length ≤ q2.buffer_size ∧ queue_pointer_inside q2 4 p)
      ∧ (∀ p, (queue_remove q queue_of_small_items).2
          = some p → queue_pointer_inside q 4 p)
      ∧ (∀ p, queue_bottom q queue_of_small_items
          = some p → queue_pointer_inside q 4 p)
      ∧ (∃ r, queue_top q queue_of_small_items = .ok r
          ∧ ∀ p, r = some p → queue_pointer_inside q 4 p)
      ∧ (∀ itr p,
          (queue_itr_begin q queue_of_small_items itr).2
            = some p →
          queue_pointer_inside q 4 p
          ∧ queue_itr_valid q 4
              (queue_itr_begin q queue_of_small_items
                itr).1)
      ∧ (∀ itr p, queue_itr_valid q 4 itr →
          (queue_itr_next q queue_of_small_items itr).2
            = some p →
          queue_pointer_inside q 4 p
          ∧ (itr.count + 1 < 65536 →
              queue_itr_valid q 4
                (queue_itr_next q queue_of_small_items
                  itr).1))
      ∧ (∀ itr, queue_itr_valid q 4 itr → 1 ≤ itr.count →
          queue_itr_valid (queue_itr_remove q itr).1 4 (queue_itr_remove q itr).2)
      ∧ (queue_add_size q queue_of_small_items * 4
            < 2147483648 →
          ∀ item, ∃ q2 p,
            queue_add q queue_of_small_items item
              = .ok (q2, p)) := by
  refine ⟨queue_vars_ok_small, ?_⟩
  rcases queue_add_holds (queue_create : queue_t Nat)
      queue_of_small_items 7 [] queue_vars_ok_small
      (queue_create_holds 4) with ⟨-, h1, -⟩ | ⟨q2, slot, hadd, h2, -⟩ | ⟨-, h1⟩
  · exact absurd rfl h1
  · have hreach : queue_reachable queue_of_small_items
        q2 := queue_reachable.add _ _ 7 _ queue_reachable.create hadd
    exact ⟨q2, hreach, queue_items_of_get q2 _ [7] h2.length h2.slots,
      ring_queue_structure queue_of_small_items
        queue_vars_ok_small q2 hreach⟩
  · have e : queue_add_size (queue_create : queue_t Nat)
        queue_of_small_items = 2 := by decide
    rw [e] at h1
    change 2147483648 ≤ 2 * 4 at h1
    omega

/-- C39, counterexample. With the increment left at 0 the first `queue_add`
creates a buffer of 0 slots and computes the slot index `(0 + 0) % 0`. With
items of `2^30` bytes and an increment of 4 the first `queue_add` asks `malloc`
for `4 * 2^30` bytes as an `unsigned int`, which is 0, and copies the item to
slot 0 of the buffer of 0 bytes. -/
theorem queue_slot_outside_buffer :
    (queue_add_space (queue_create : queue_t Nat) queue_without_increment).map
        (fun r => r.map (fun a => (a.buffer_size, a.allocated))) = .ok (some (0, 0))
    ∧ (queue_add (queue_create : queue_t Nat) queue_without_increment 7).map (fun r => r.2)
        = .error fault.undefined_behaviour
    ∧ (queue_add_space (queue_create : queue_t Nat) queue_of_large_items).map
        (fun r => r.map (fun a => (a.buffer_size, a.allocated, a.lower_idx, a.length)))
        = .ok (some (4, 0, 0, 0))
    ∧ (queue_add (queue_create : queue_t Nat) queue_of_large_items 7).map (fun r => r.2)
        = .error fault.undefined_behaviour := by
  refine ⟨by decide, by decide, by decide, by decide⟩

/-! ### The overflow of the TIME_WAIT queue -/

/-- The loop of `timer_queue_free_early` when every slot holds nothing or a
live session with another ID than the session looked for: the loop ends and
has changed nothing. -/
theorem free_early_misses (session : Nat) (m : session_manager_t) (s : tcp_session_t)
    (hs : m.heap session = some s)
    (hlow : m.waiting_sessions.lower_idx < SM_TIMER_QUEUE_LENGTH)
    (hmiss : ∀ pos queued, pos < SM_TIMER_QUEUE_LENGTH →
      m.waiting_sessions.sessions pos = some queued →
      ∃ q, m.heap queued = some q ∧ q.id ≠ s.id) :
    ∀ rounds i, i + rounds ≤ SM_TIMER_QUEUE_LENGTH + 1 →
      timer_queue_free_early_loop session rounds i m = .ok m := by
  simp only [SM_TIMER_QUEUE_LENGTH] at hlow
  intro rounds
  induction rounds with
  | zero =>
    intro i _
    rfl
  | succ rounds ih =>
    intro i hi
    simp only [SM_TIMER_QUEUE_LENGTH] at hi
    have e1 : (m.waiting_sessions.lower_idx + i) % 4294967296 = m.waiting_sessions.lower_idx + i :=
      Nat.mod_eq_of_lt (by omega)
    have hpos : ¬ ((if m.waiting_sessions.lower_idx + i ≥ SM_TIMER_QUEUE_LENGTH
        then m.waiting_sessions.lower_idx + i - SM_TIMER_QUEUE_LENGTH
        else m.waiting_sessions.lower_idx + i) ≥ SM_TIMER_QUEUE_LENGTH) := by
      simp only [SM_TIMER_QUEUE_LENGTH]
      split_ifs <;> omega
    rw [timer_queue_free_early_loop]
    simp only [e1, if_neg hpos]
    cases hq : m.waiting_sessions.sessions
        (if m.waiting_sessions.lower_idx + i ≥ SM_TIMER_QUEUE_LENGTH
          then m.waiting_sessions.lower_idx + i - SM_TIMER_QUEUE_LENGTH
          else m.waiting_sessions.lower_idx + i) with
    | none => exact ih (i + 1) (by simp only [SM_TIMER_QUEUE_LENGTH]; omega)
    | some queued =>
      obtain ⟨q, hq1, hq2⟩ := hmiss _ queued (Nat.lt_of_not_ge hpos) hq
      have hneq : ¬ tcp_session_id_equals q.id s.id = true := fun x =>
        hq2 ((tcp_session_id_equals_iff _ _).mp x)
      simp only [hq1, hs, hneq, if_false, Bool.false_eq_true]
      exact ih (i + 1) (by simp only [SM_TIMER_QUEUE_LENGTH]; omega)

/-- A SYN without RST for a flow that the lookup finds in TIME_WAIT while no
slot of the TIME_WAIT queue holds a session with its ID, at a time when no
sweep is due: `timer_queue_free_early` frees nothing, and the call of
`session_manager_update` on the same packet that follows finds the flow as
before, at every depth. -/
theorem update_recurs (m : session_manager_t) (packet : libtrace_packet_t)
    (ip : libtrace_ip) (tcp : libtrace_tcp) (session : Nat) (s : tcp_session_t)
    (hip : packet.ip = some ip) (htcp : packet.tcp = some tcp)
    (hsyn : tcp.syn = true) (hrst : tcp.rst = false)
    (hla : m.last_access = packet_seconds packet) (hcl : m.closed_session = none)
    (hclean : (packet_seconds packet + 4294967296 - m.last_clean) % 4294967296 ≤ 60)
    (hfound : hashtable_retrieve m.heap m.hashtable (session_id_of ip tcp)
      = .ok (some session))
    (hs : m.heap session = some s) (hst : s.state = tcp_conn_state_t.TIME_WAIT)
    (hlow : m.waiting_sessions.lower_idx < SM_TIMER_QUEUE_LENGTH)
    (hlen : m.waiting_sessions.length ≤ SM_TIMER_QUEUE_LENGTH + 1)
    (hmiss : ∀ pos queued, pos < SM_TIMER_QUEUE_LENGTH →
      m.waiting_sessions.sessions pos = some queued →
      ∃ q, m.heap queued = some q ∧ q.id ≠ s.id) :
    timer_queue_free_early m session = .ok m
      ∧ ∀ fuel, session_manager_update fuel m packet = .error fault.out_of_fuel := by
  have hfree : timer_queue_free_early m session = .ok m :=
    free_early_misses session m s hs hlow hmiss _ 0 (by omega)
  refine ⟨hfree, ?_⟩
  have hstate : session_manager_update_state m (packet_seconds packet) packet.direction ip tcp
      session = .ok (m, true) := by
    simp [session_manager_update_state, hs, hrst, hst, hsyn, hfree]
  intro fuel
  induction fuel with
  | zero => rfl
  | succ fuel ih =>
    rw [update_again fuel m m m packet ip tcp session hip htcp
      (sweeps_noop fuel m _ hla hcl hclean) hfound hstate]
    exact ih
theorem closing_id_out (n len seq ack : Nat) (fin syn rst ackf : Bool) :
    session_id_of { ip_hl := 5, ip_len := len, ip_src := 167772161, ip_dst := 167772162 + n }
      { source := htons 1000, dest := htons 80, seq := seq, ack_seq := ack, doff := 5,
        fin := fin, syn := syn, rst := rst, ack := ackf } = closing_flow_id n := by
  have h : (167772161 : Nat) < 167772162 + n := by omega
  have e1 : ntohs (htons 1000) = 1000 := by decide
  have e2 : ntohs (htons 80) = 80 := by decide
  simp [session_id_of, h, e1, e2, closing_flow_id]

theorem closing_id_in (n len seq ack : Nat) (fin syn rst ackf : Bool) :
    session_id_of { ip_hl := 5, ip_len := len, ip_src := 167772162 + n, ip_dst := 167772161 }
      { source := htons 80, dest := htons 1000, seq := seq, ack_seq := ack, doff := 5,
        fin := fin, syn := syn, rst := rst, ack := ackf } = closing_flow_id n := by
  have h : ¬ (167772162 + n < 167772161) := by omega
  have e1 : htons (htons 1000) = 1000 := by decide
  have e2 : htons (htons 80) = 80 := by decide
  simp [session_id_of, h, e1, e2, closing_flow_id]

theorem closing_flow_id_inj (p k : Nat) (h : closing_flow_id p = closing_flow_id k) : p = k := by
  have e := congrArg tcp_session_id_t.ip_b h
  simp only [closing_flow_id] at e
  omega

/-- A packet of a live flow in a reachable manager without modules, at a time
when no sweep is due and when the switch over the state does not free the
session: the call returns the flow, and only the time stamp of the access is
written after the switch. -/
theorem update_known_flow (fuel : Nat) (m m1 : session_manager_t) (packet : libtrace_packet_t)
    (ip : libtrace_ip) (tcp : libtrace_tcp) (session : Nat) (s s1 : tcp_session_t)
    (hm : Reachable m) (hip : packet.ip = some ip) (htcp : packet.tcp = some tcp)
    (hla : m.last_access = packet_seconds packet) (hcl : m.closed_session = none)
    (hclean : (packet_seconds packet + 4294967296 - m.last_clean) % 4294967296 ≤ 60)
    (hs : m.heap session = some s) (hid : session_id_of ip tcp = s.id)
    (hstate : session_manager_update_state m (packet_seconds packet) packet.direction ip tcp
      session = .ok (m1, false))
    (hs1 : m1.heap session = some s1) (hmc : m1.module_count = 0) :
    ∃ m2, session_manager_update (fuel + 1) m packet = .ok (m2, some session) ∧
      m2.heap session = some { s1 with last_access := packet_seconds packet % 256 } ∧
      (∀ q, q ≠ session → m2.heap q = m1.heap q) ∧ m2.brk = m1.brk ∧
      m2.waiting_sessions = m1.waiting_sessions ∧ m2.last_access = m1.last_access ∧
      m2.last_clean = m1.last_clean ∧ m2.closed_session = m1.closed_session ∧
      m2.module_count = m1.module_count ∧ m2.warnings = m1.warnings := by
  have hfound := retrieve_live m (reachable_wf m hm) (reachable_live m hm) session s hs
  rw [← hid] at hfound
  have hrun := update_of_state fuel m m m1 packet ip tcp session hip htcp
    (sweeps_noop fuel m _ hla hcl hclean) hfound hstate
  have hmod : modules_update m1.modules s1.data packet m1.module_count = .ok [] := by
    rw [hmc]
    rfl
  have hdel := deliver_of_modules m1 packet (packet_seconds packet) session s1 [] hs1 hmod
  refine ⟨_, hrun.trans hdel, ?_, ?_, rfl, rfl, rfl, rfl, rfl, rfl, rfl⟩
  · simp [store]
  · intro q hq
    simp [store, hq]

/-- The FIN with an ACK of the FIN sent, in direction 1, on a flow in
FIN_WAIT_1: the flow goes to TIME_WAIT and into the slot behind the last one
in use of the TIME_WAIT queue. -/
theorem update_state_queues (m : session_manager_t) (t : Nat) (ip : libtrace_ip)
    (tcp : libtrace_tcp) (session : Nat) (s : tcp_session_t) (hs : m.heap session = some s)
    (hst : s.state = tcp_conn_state_t.FIN_WAIT_1) (hrst : tcp.rst = false)
    (hfin : tcp.fin = true) (hack : tcp.ack = true) (hge : s.expected_ack ≤ ntohl tcp.ack_seq)
    (hq : m.waiting_sessions.lower_idx + m.waiting_sessions.length
      < 2 * SM_TIMER_QUEUE_LENGTH) :
    ∃ m1, session_manager_update_state m t 1 ip tcp session = .ok (m1, false) ∧
      m1.heap = (store m session
        { s with state := tcp_conn_state_t.TIME_WAIT, waiting := 1 }).heap ∧
      m1.waiting_sessions =
        { sessions := fun i =>
            if i = (m.waiting_sessions.lower_idx + m.waiting_sessions.length)
              % SM_TIMER_QUEUE_LENGTH then some session
            else m.waiting_sessions.sessions i
          times := fun i =>
            if i = (m.waiting_sessions.lower_idx + m.waiting_sessions.length)
              % SM_TIMER_QUEUE_LENGTH then t
            else m.waiting_sessions.times i
          lower_idx := m.waiting_sessions.lower_idx
          length := (m.waiting_sessions.length + 1) % 4294967296 } ∧
      m1.warnings = (if (m.waiting_sessions.length + 1) % 4294967296 > SM_TIMER_QUEUE_LENGTH
        then m.warnings + 1 else m.warnings) ∧
      m1.brk = m.brk ∧ m1.last_access = m.last_access ∧ m1.last_clean = m.last_clean ∧
      m1.closed_session = m.closed_session ∧ m1.module_count = m.module_count := by
  have hadd := timer_queue_add_ok
    (store m session { s with state := tcp_conn_state_t.TIME_WAIT, waiting := 1 }) session t
    (by simpa using hq)
  refine ⟨{ store m session { s with state := tcp_conn_state_t.TIME_WAIT, waiting := 1 } with
      waiting_sessions :=
        { sessions := fun i =>
            if i = (m.waiting_sessions.lower_idx + m.waiting_sessions.length)
              % SM_TIMER_QUEUE_LENGTH then some session
            else m.waiting_sessions.sessions i
          times := fun i =>
            if i = (m.waiting_sessions.lower_idx + m.waiting_sessions.length)
              % SM_TIMER_QUEUE_LENGTH then t
            else m.waiting_sessions.times i
          lower_idx := m.waiting_sessions.lower_idx
          length := (m.waiting_sessions.length + 1) % 4294967296 }
      warnings := if (m.waiting_sessions.length + 1) % 4294967296 > SM_TIMER_QUEUE_LENGTH
        then m.warnings + 1 else m.warnings }, ?_, rfl, rfl, rfl, rfl, rfl, rfl, rfl, rfl⟩
  simp only [session_manager_update_state, hs, hst, hrst, hfin, hack, hge, SM_INBOUND, hadd,
    Bool.false_eq_true, if_false, if_true, Bool.true_and, decide_True]
  rfl

theorem run_append (fuel : Nat) (a b : List libtrace_packet_t) :
    ∀ (m m1 m2 : session_manager_t) (s1 s2 : List (Option tcp_conn_state_t)),
      session_manager_run fuel m a = .ok (m1, s1) →
      session_manager_run fuel m1 b = .ok (m2, s2) →
      session_manager_run fuel m (a ++ b) = .ok (m2, s1 ++ s2) := by
  induction a with
  | nil =>
    intro m m1 m2 s1 s2 h1 h2
    simp only [session_manager_run, Except.ok.injEq, Prod.mk.injEq] at h1
    obtain ⟨e1, e2⟩ := h1
    subst e1
    subst e2
    exact h2
  | cons packet rest ih =>
    intro m m1 m2 s1 s2 h1 h2
    rw [List.cons_append, session_manager_run]
    rw [session_manager_run] at h1
    cases hu : session_manager_update fuel m packet with
    | error e =>
      rw [hu] at h1
      cases h1
    | ok r =>
      obtain ⟨m3, session⟩ := r
      rw [hu] at h1
      simp only at h1 ⊢
      cases hr : session_manager_run fuel m3 rest with
      | error e =>
        rw [hr] at h1
        cases h1
      | ok r2 =>
        obtain ⟨m4, s3⟩ := r2
        rw [hr] at h1
        simp only [Except.ok.injEq, Prod.mk.injEq] at h1
        obtain ⟨e1, e2⟩ := h1
        subst e1
        subst e2
        rw [ih m3 m4 m2 s3 s2 hr h2]
        rfl
/-- A bare SYN whose ID the lookup does not find writes no overflow message. -/
theorem update_bare_syn_warnings (fuel : Nat) (manager swept m2 : session_manager_t)
    (packet : libtrace_packet_t) (ip : libtrace_ip) (tcp : libtrace_tcp) (r : Option Nat)
    (hip : packet.ip = some ip) (htcp : packet.tcp = some tcp)
    (hsweep : session_manager_update_sweeps fuel manager (packet_seconds packet) = .ok swept)
    (habsent : hashtable_retrieve swept.heap swept.hashtable (session_id_of ip tcp) = .ok none)
    (hmodules : ∀ i, i < swept.module_count → swept.modules i ≠ none)
    (hsyn : tcp.syn = true) (hack : tcp.ack = false)
    (hrun : session_manager_update (fuel + 1) manager packet = .ok (m2, r)) :
    m2.warnings = swept.warnings := by
  have hcreate := modules_create_ok swept.modules swept.brk swept.module_count hmodules
  obtain ⟨updates, hupd, -, -⟩ := modules_update_ok swept.modules
    ((List.range swept.module_count).map (fun i => { module := i, session := swept.brk }))
    packet swept.module_count hmodules (by simp)
  simp only [session_manager_update, hsweep, hip, htcp, habsent, session_manager_update_new,
    hsyn, hack, hcreate, hashtable_insert, store_heap_same, session_manager_update_deliver,
    Bool.not_false, Bool.and_self, if_true] at hrun
  simp only [store, if_true, hupd, Except.ok.injEq, Prod.mk.injEq] at hrun
  rw [← hrun.1]
/-- The four packets of flow `k` of `overflow_trace`, for `k` up to the number
of slots of the TIME_WAIT queue, after the first `k` flows: every call
returns the flow, in SYN_SENT, ESTABLISHED, FIN_WAIT_1 and TIME_WAIT, and
afterwards the first `k + 1` flows are in TIME_WAIT. -/
theorem closing_step (T fuel k : Nat) (m swept : session_manager_t) (hT : T < 4294967296)
    (hk : k ≤ SM_TIMER_QUEUE_LENGTH) (hm : Reachable m)
    (hsweep : session_manager_update_sweeps (fuel + 1) m T = .ok swept)
    (h : closing_inv T swept k) :
    ∃ m4, session_manager_run (fuel + 2) m (closing_flow T k)
        = .ok (m4, [some tcp_conn_state_t.SYN_SENT, some tcp_conn_state_t.ESTABLISHED,
            some tcp_conn_state_t.FIN_WAIT_1, some tcp_conn_state_t.TIME_WAIT])
      ∧ Reachable m4 ∧ closing_inv T m4 (k + 1) := by
  simp only [SM_TIMER_QUEUE_LENGTH] at hk
  have hsec : ∀ (direction : Int) (src dst sport dport seq ack payload : Nat)
      (fin syn rst ackf : Bool),
      packet_seconds (tcp_packet (T * 4294967296) direction src dst sport dport seq ack
        payload fin syn rst ackf) = T := by
    intro direction src dst sport dport seq ack payload fin syn rst ackf
    simpa using packet_seconds_tcp_packet T 0 direction src dst sport dport seq ack payload
      fin syn rst ackf hT (by norm_num)
  have hexp : ∀ (seq src dst sport dport ack : Nat) (fin syn rst ackf : Bool),
      seq < 4294967296 →
      seq_plus_payload { ip_hl := 5, ip_len := htons (40 + 0), ip_src := src, ip_dst := dst }
        { source := sport, dest := dport, seq := htonl seq, ack_seq := ack, doff := 5,
          fin := fin, syn := syn, rst := rst, ack := ackf } = seq := by
    intro seq src dst sport dport ack fin syn rst ackf hseq
    simpa using seq_plus_payload_tcp_packet seq 0 src dst sport dport ack
      fin syn rst ackf (by omega) (by norm_num)
  -- packet 1: the SYN creates the record at address `k`
  have habsent : hashtable_retrieve swept.heap swept.hashtable (closing_flow_id k)
      = .ok none := by
    unfold hashtable_retrieve
    apply hashtable_retrieve_chain_absent
    intro p hp
    cases hx : swept.heap p with
    | none => exact absurd hx (h.alive _ p hp)
    | some s =>
      obtain ⟨h1, h2, -⟩ := h.records p s hx
      refine ⟨s, rfl, ?_⟩
      rw [h2]
      intro e
      have := closing_flow_id_inj p k e
      omega
  obtain ⟨m1, upd1, hrun1, hheap1, -, -, -, -, -, -, hfr1, hbrk1, hq1, hla1, hlc1, hcl1, -,
      hmc1⟩ :=
    update_bare_syn (fuel + 1) m swept
      (tcp_packet (T * 4294967296) 0 167772161 (167772162 + k) 1000 80 1000 0 0
        false true false false)
      { ip_hl := 5, ip_len := htons (40 + 0), ip_src := 167772161, ip_dst := 167772162 + k }
      { source := htons 1000, dest := htons 80, seq := htonl 1000, ack_seq := htonl 0, doff := 5,
        fin := false, syn := true, rst := false, ack := false }
      rfl rfl (by rw [hsec]; exact hsweep) (by rw [closing_id_out]; exact habsent)
      (fun i hi => absurd hi (by rw [h.modules]; exact Nat.not_lt_zero i)) rfl rfl
  have hw1 : m1.warnings = swept.warnings :=
    update_bare_syn_warnings (fuel + 1) m swept m1
      (tcp_packet (T * 4294967296) 0 167772161 (167772162 + k) 1000 80 1000 0 0
        false true false false)
      { ip_hl := 5, ip_len := htons (40 + 0), ip_src := 167772161, ip_dst := 167772162 + k }
      { source := htons 1000, dest := htons 80, seq := htonl 1000, ack_seq := htonl 0, doff := 5,
        fin := false, syn := true, rst := false, ack := false } _
      rfl rfl (by rw [hsec]; exact hsweep) (by rw [closing_id_out]; exact habsent)
      (fun i hi => absurd hi (by rw [h.modules]; exact Nat.not_lt_zero i)) rfl rfl hrun1
  rw [h.brk] at hrun1 hheap1 hfr1 hbrk1
  rw [h.modules] at hmc1
  rw [h.last_access] at hla1
  rw [h.closed] at hcl1
  have hm1 : Reachable m1 := Reachable.update _ m _ m1 _ hm hrun1
  rw [closing_id_out, hexp 1000 _ _ _ _ _ _ _ _ _ (by norm_num)] at hheap1
  obtain ⟨s1, hs1, hid1, hst1, hexp1⟩ : ∃ s1, m1.heap k = some s1 ∧
      s1.id = closing_flow_id k ∧ s1.state = tcp_conn_state_t.SYN_SENT ∧
      s1.expected_ack = 1000 :=
    ⟨_, hheap1, rfl, rfl, rfl⟩
  have hstate1 : (m1.heap k).map (fun x => x.state) = some tcp_conn_state_t.SYN_SENT := by
    rw [hs1]
    exact congrArg some hst1
  clear hheap1
  -- packet 2: the SYN+ACK
  obtain ⟨m2, hrun2, hheap2, hfr2, hbrk2, hq2, hla2, hlc2, hcl2, hmc2, hw2⟩ :=
    update_known_flow (fuel + 1) m1
      (store m1 k { s1 with state := tcp_conn_state_t.ESTABLISHED })
      (tcp_packet (T * 4294967296) 1 (167772162 + k) 167772161 80 1000 5000 1001 0
        false true false true)
      { ip_hl := 5, ip_len := htons (40 + 0), ip_src := 167772162 + k, ip_dst := 167772161 }
      { source := htons 80, dest := htons 1000, seq := htonl 5000, ack_seq := htonl 1001,
        doff := 5, fin := false, syn := true, rst := false, ack := true }
      k s1 { s1 with state := tcp_conn_state_t.ESTABLISHED } hm1 rfl rfl
      (by rw [hsec]; exact hla1) hcl1 (by rw [hsec, hlc1]; exact h.clean) hs1
      (by rw [closing_id_in]; exact hid1.symm)
      (by
        rw [hsec]
        exact update_state_established m1 T _ _ k s1 hs1 hst1 rfl rfl rfl
          (by
            show s1.expected_ack ≤ ntohl (htonl 1001)
            rw [hexp1, ntohl_htonl _ (by norm_num)]
            norm_num))
      (store_heap_same _ _ _) hmc1
  have hm2 : Reachable m2 := Reachable.update _ m1 _ m2 _ hm1 hrun2
  obtain ⟨s2, hs2, hid2, hst2⟩ : ∃ s2, m2.heap k = some s2 ∧
      s2.id = closing_flow_id k ∧ s2.state = tcp_conn_state_t.ESTABLISHED :=
    ⟨_, hheap2, hid1, rfl⟩
  have hstate2 : (m2.heap k).map (fun x => x.state) = some tcp_conn_state_t.ESTABLISHED := by
    rw [hs2]
    exact congrArg some hst2
  have hfr2b : ∀ q, q ≠ k → m2.heap q = m1.heap q := fun q hq =>
    (hfr2 q hq).trans (store_heap_other m1 k q _ hq)
  have hbrk2b : m2.brk = k + 1 := hbrk2.trans hbrk1
  have hq2b : m2.waiting_sessions = swept.waiting_sessions := hq2.trans hq1
  have hla2b : m2.last_access = T := hla2.trans hla1
  have hlc2b : m2.last_clean = swept.last_clean := hlc2.trans hlc1
  have hcl2b : m2.closed_session = none := hcl2.trans hcl1
  have hmc2b : m2.module_count = 0 := hmc2.trans hmc1
  clear hheap2 hfr2 hbrk2 hq2 hla2 hlc2 hcl2 hmc2
  -- packet 3: the FIN
  obtain ⟨m3, hrun3, hheap3, hfr3, hbrk3, hq3, hla3, hlc3, hcl3, hmc3, hw3⟩ :=
    update_known_flow (fuel + 1) m2
      (store m2 k { s2 with state := tcp_conn_state_t.FIN_WAIT_1
                            expected_ack := seq_plus_payload
                              { ip_hl := 5, ip_len := htons (40 + 0), ip_src := 167772161,
                                ip_dst := 167772162 + k }
                              { source := htons 1000, dest := htons 80, seq := htonl 1001,
                                ack_seq := htonl 5001, doff := 5, fin := true, syn := false,
                                rst := false, ack := true } })
      (tcp_packet (T * 4294967296) 0 167772161 (167772162 + k) 1000 80 1001 5001 0
        true false false true)
      { ip_hl := 5, ip_len := htons (40 + 0), ip_src := 167772161, ip_dst := 167772162 + k }
      { source := htons 1000, dest := htons 80, seq := htonl 1001, ack_seq := htonl 5001,
        doff := 5, fin := true, syn := false, rst := false, ack := true }
      k s2 _ hm2 rfl rfl
      (by rw [hsec]; exact hla2b) hcl2b (by rw [hsec, hlc2b]; exact h.clean) hs2
      (by rw [closing_id_out]; exact hid2.symm)
      (by
        rw [hsec]
        exact update_state_fin_wait_1 m2 T _ _ k s2 hs2 hst2 rfl rfl)
      (store_heap_same _ _ _) hmc2b
  have hm3 : Reachable m3 := Reachable.update _ m2 _ m3 _ hm2 hrun3
  rw [hexp 1001 _ _ _ _ _ _ _ _ _ (by norm_num)] at hheap3
  obtain ⟨s3, hs3, hid3, hst3, hexp3⟩ : ∃ s3, m3.heap k = some s3 ∧
      s3.id = closing_flow_id k ∧ s3.state = tcp_conn_state_t.FIN_WAIT_1 ∧
      s3.expected_ack = 1001 :=
    ⟨_, hheap3, hid2, rfl, rfl⟩
  have hstate3 : (m3.heap k).map (fun x => x.state) = some tcp_conn_state_t.FIN_WAIT_1 := by
    rw [hs3]
    exact congrArg some hst3
  have hfr3b : ∀ q, q ≠ k → m3.heap q = m1.heap q := fun q hq =>
    ((hfr3 q hq).trans (store_heap_other m2 k q _ hq)).trans (hfr2b q hq)
  have hbrk3b : m3.brk = k + 1 := hbrk3.trans hbrk2b
  have hq3b : m3.waiting_sessions = swept.waiting_sessions := hq3.trans hq2b
  have hla3b : m3.last_access = T := hla3.trans hla2b
  have hlc3b : m3.last_clean = swept.last_clean := hlc3.trans hlc2b
  have hcl3b : m3.closed_session = none := hcl3.trans hcl2b
  have hmc3b : m3.module_count = 0 := hmc3.trans hmc2b
  have hw3b : m3.warnings = m1.warnings := hw3.trans hw2
  clear hheap3 hfr3 hbrk3 hq3 hla3 hlc3 hcl3 hmc3 hw3 hw2
  -- packet 4: the FIN+ACK puts the flow into the TIME_WAIT queue
  have hlow3 : m3.waiting_sessions.lower_idx = 0 := by rw [hq3b]; exact h.lower
  have hlen3 : m3.waiting_sessions.length = k := by rw [hq3b]; exact h.length
  obtain ⟨mq, hst4, hqheap, hqq, hqw, hqbrk, hqla, hqlc, hqcl, hqmc⟩ :=
    update_state_queues m3 T
      { ip_hl := 5, ip_len := htons (40 + 0), ip_src := 167772162 + k, ip_dst := 167772161 }
      { source := htons 80, dest := htons 1000, seq := htonl 5001, ack_seq := htonl 1002,
        doff := 5, fin := true, syn := false, rst := false, ack := true }
      k s3 hs3 hst3 rfl rfl rfl
      (by
        show s3.expected_ack ≤ ntohl (htonl 1002)
        rw [hexp3, ntohl_htonl _ (by norm_num)]
        norm_num)
      (by rw [hlow3, hlen3]; simp only [SM_TIMER_QUEUE_LENGTH]; omega)
  obtain ⟨m4, hrun4, hheap4, hfr4, hbrk4, hq4, hla4, hlc4, hcl4, hmc4, hw4⟩ :=
    update_known_flow (fuel + 1) m3 mq
      (tcp_packet (T * 4294967296) 1 (167772162 + k) 167772161 80 1000 5001 1002 0
        true false false true)
      { ip_hl := 5, ip_len := htons (40 + 0), ip_src := 167772162 + k, ip_dst := 167772161 }
      { source := htons 80, dest := htons 1000, seq := htonl 5001, ack_seq := htonl 1002,
        doff := 5, fin := true, syn := false, rst := false, ack := true }
      k s3 { s3 with state := tcp_conn_state_t.TIME_WAIT, waiting := 1 } hm3 rfl rfl
      (by rw [hsec]; exact hla3b) hcl3b (by rw [hsec, hlc3b]; exact h.clean) hs3
      (by rw [closing_id_in]; exact hid3.symm)
      (by rw [hsec]; exact hst4)
      (by rw [hqheap]; exact store_heap_same _ _ _) (hqmc.trans hmc3b)
  have hm4 : Reachable m4 := Reachable.update _ m3 _ m4 _ hm3 hrun4
  obtain ⟨s4, hs4, hid4, hst4b⟩ : ∃ s4, m4.heap k = some s4 ∧
      s4.id = closing_flow_id k ∧ s4.state = tcp_conn_state_t.TIME_WAIT :=
    ⟨_, hheap4, hid3, rfl⟩
  have hstate4 : (m4.heap k).map (fun x => x.state) = some tcp_conn_state_t.TIME_WAIT := by
    rw [hs4]
    exact congrArg some hst4b
  have hfr4b : ∀ q, q ≠ k → m4.heap q = swept.heap q := fun q hq =>
    (((hfr4 q hq).trans (by rw [hqheap]; exact store_heap_other m3 k q _ hq)).trans
      (hfr3b q hq)).trans (hfr1 q hq)
  have hslot : ∀ i, m4.waiting_sessions.sessions i
      = if i = k % SM_TIMER_QUEUE_LENGTH then some k else swept.waiting_sessions.sessions i := by
    intro i
    rw [hq4, hqq]
    show (if i = (m3.waiting_sessions.lower_idx + m3.waiting_sessions.length)
        % SM_TIMER_QUEUE_LENGTH then some k else m3.waiting_sessions.sessions i) = _
    rw [hlow3, hlen3, hq3b, Nat.zero_add]
  have hlen4 : m4.waiting_sessions.length = k + 1 := by
    rw [hq4, hqq]
    show (m3.waiting_sessions.length + 1) % 4294967296 = k + 1
    rw [hlen3]
    omega
  have hw4b : m4.warnings = if SM_TIMER_QUEUE_LENGTH < k + 1 then 1 else 0 := by
    rw [hw4, hqw]
    rw [hlen3, hw3b, hw1, h.warnings]
    simp only [SM_TIMER_QUEUE_LENGTH]
    have e : (k + 1) % 4294967296 = k + 1 := by omega
    rw [e]
    split_ifs <;> omega
  refine ⟨m4, ?_, hm4, ?_⟩
  · simp only [closing_flow, session_manager_run, hrun1, hrun2, hrun3, hrun4, hstate1,
      hstate2, hstate3, hstate4, Option.bind]
  · refine ⟨?_, (hbrk4.trans hqbrk).trans hbrk3b, ?_, ?_, (hla4.trans hqla).trans hla3b,
      (hcl4.trans hqcl).trans hcl3b, ?_, (hmc4.trans hqmc).trans hmc3b, ?_, hlen4, ?_, hw4b⟩
    · intro b p hp
      obtain ⟨s, hs, -⟩ := (reachable_wf m4 hm4).alive b p hp
      rw [hs]
      exact Option.some_ne_none _
    · intro p s hp
      by_cases hpk : p = k
      · subst hpk
        rw [hs4] at hp
        simp only [Option.some.injEq] at hp
        subst hp
        exact ⟨Nat.lt_succ_self _, hid4, hst4b⟩
      · rw [hfr4b p hpk] at hp
        obtain ⟨h1, h2, h3⟩ := h.records p s hp
        exact ⟨Nat.lt_succ_of_lt h1, h2, h3⟩
    · intro p hp
      by_cases hpk : p = k
      · subst hpk
        rw [hs4]
        exact Option.some_ne_none _
      · rw [hfr4b p hpk]
        exact h.present p (by omega)
    · rw [hlc4, hqlc, hlc3b]
      exact h.clean
    · rw [hq4, hqq]
      exact hlow3
    · intro i hi hik
      simp only [SM_TIMER_QUEUE_LENGTH] at hi
      rw [hslot]
      simp only [SM_TIMER_QUEUE_LENGTH]
      by_cases hik2 : i = k % 100000
      · rw [if_pos hik2]
        congr 1
        split_ifs <;> omega
      · rw [if_neg hik2, h.slots i (by simp only [SM_TIMER_QUEUE_LENGTH]; exact hi)
          (by omega)]
        simp only [SM_TIMER_QUEUE_LENGTH]
        congr 1
        split_ifs <;> omega
/-- The flows `0` to `n` of `overflow_trace`, for `n` up to the number of
slots of the TIME_WAIT queue, fed to the fresh manager: every call returns,
and afterwards the `n + 1` flows are in TIME_WAIT. -/
theorem closing_run (T fuel : Nat) (hT : T < 4294967296) :
    ∀ n, n ≤ SM_TIMER_QUEUE_LENGTH →
      ∃ m states, session_manager_run (fuel + 2) session_manager_create
          (closing_flows T (n + 1)) = .ok (m, states)
        ∧ Reachable m ∧ closing_inv T m (n + 1) := by
  intro n
  induction n with
  | zero =>
    intro hn
    have hinv : closing_inv T { session_manager_create with
        last_access := T, last_clean := if T > 60 then T else 0 } 0 := by
      refine ⟨?_, rfl, ?_, ?_, rfl, rfl, ?_, rfl, rfl, rfl, ?_, rfl⟩
      · intro b p hp
        cases hp
      · intro p s hp
        cases hp
      · intro p hp
        exact absurd hp (Nat.not_lt_zero p)
      · show (T + 4294967296 - (if T > 60 then T else 0)) % 4294967296 ≤ 60
        split_ifs <;> omega
      · intro i _ hi
        exact absurd hi (Nat.not_lt_zero i)
    obtain ⟨m4, hrun, hm4, h4⟩ := closing_step T fuel 0 session_manager_create _ hT hn
      Reachable.create (sweeps_create fuel T hT) hinv
    refine ⟨m4, [some tcp_conn_state_t.SYN_SENT, some tcp_conn_state_t.ESTABLISHED,
      some tcp_conn_state_t.FIN_WAIT_1, some tcp_conn_state_t.TIME_WAIT], ?_, hm4, h4⟩
    have e : closing_flows T (0 + 1) = closing_flow T 0 := List.nil_append _
    rw [e]
    exact hrun
  | succ n ih =>
    intro hn
    obtain ⟨m, states, hrun, hm, h⟩ := ih (Nat.le_of_succ_le hn)
    obtain ⟨m4, hrun4, hm4, h4⟩ := closing_step T fuel (n + 1) m m hT hn hm
      (sweeps_noop (fuel + 1) m T h.last_access h.closed h.clean) h
    refine ⟨m4, states ++ [some tcp_conn_state_t.SYN_SENT, some tcp_conn_state_t.ESTABLISHED,
      some tcp_conn_state_t.FIN_WAIT_1, some tcp_conn_state_t.TIME_WAIT], ?_, hm4, h4⟩
    have e : closing_flows T (n + 1 + 1) = closing_flows T (n + 1) ++ closing_flow T (n + 1) :=
      rfl
    rw [e]
    exact run_append (fuel + 2) _ _ _ m m4 _ _ hrun hrun4

/-- C40 (the failing input). In any second `T`, 100001 flows are opened and
closed one after the other, which is one more than the TIME_WAIT queue has
slots; every call of `session_manager_update` on these packets returns. The
last `timer_queue_add` has counted 100001 sessions, has written the overflow
message once and has stored the last flow in slot 0, over flow 0. Flow 0 is
still in the index, in state TIME_WAIT with `waiting` set, but in no slot of
the queue. For a SYN on flow 0 `timer_queue_free_early` then walks all slots,
frees nothing and leaves the manager as it is, and `session_manager_update`
calls itself on the same packet and the same state again: at no depth does the
call return. -/
theorem time_wait_overflow_recursion (T fuel : Nat) (hT : T < 4294967296) :
    ∃ m states, session_manager_run (fuel + 2) session_manager_create (overflow_trace T)
        = .ok (m, states)
      ∧ Reachable m
      ∧ m.waiting_sessions.length = SM_TIMER_QUEUE_LENGTH + 1
      ∧ m.warnings = 1
      ∧ m.waiting_sessions.sessions 0 = some SM_TIMER_QUEUE_LENGTH
      ∧ hashtable_retrieve m.heap m.hashtable (closing_flow_id 0) = .ok (some 0)
      ∧ (∃ s, m.heap 0 = some s ∧ s.id = closing_flow_id 0
          ∧ s.state = tcp_conn_state_t.TIME_WAIT ∧ s.waiting = 1)
      ∧ (∀ i, i < SM_TIMER_QUEUE_LENGTH → m.waiting_sessions.sessions i ≠ some 0)
      ∧ timer_queue_free_early m 0 = .ok m
      ∧ ∀ depth, session_manager_update depth m (overflow_syn T)
          = .error fault.out_of_fuel := by
  obtain ⟨m, states, hrun, hm, h⟩ := closing_run T fuel hT SM_TIMER_QUEUE_LENGTH
    (Nat.le_refl _)
  have hwf := reachable_wf m hm
  have hlive := reachable_live m hm
  obtain ⟨s, hs⟩ := Option.ne_none_iff_exists'.mp
    (h.present 0 (by simp only [SM_TIMER_QUEUE_LENGTH]; omega))
  obtain ⟨-, hid, hst⟩ := h.records 0 s hs
  have hslot : ∀ i, i < SM_TIMER_QUEUE_LENGTH → ∃ j, m.waiting_sessions.sessions i = some j
      ∧ j ≠ 0 ∧ j < SM_TIMER_QUEUE_LENGTH + 1 := by
    intro i hi
    refine ⟨_, h.slots i hi (by omega), ?_, ?_⟩
    · simp only [SM_TIMER_QUEUE_LENGTH] at hi ⊢
      split_ifs <;> omega
    · simp only [SM_TIMER_QUEUE_LENGTH] at hi ⊢
      split_ifs <;> omega
  have hfound : hashtable_retrieve m.heap m.hashtable (closing_flow_id 0) = .ok (some 0) := by
    rw [← hid]
    exact retrieve_live m hwf hlive 0 s hs
  have hsec : packet_seconds (overflow_syn T) = T := by
    simpa using packet_seconds_tcp_packet T 0 0 167772161 167772162 1000 80 9000 0 0 false true
      false false hT
      (by norm_num)
  have hrec := update_recurs m (overflow_syn T)
    { ip_hl := 5, ip_len := htons (40 + 0), ip_src := 167772161, ip_dst := 167772162 + 0 }
    { source := htons 1000, dest := htons 80, seq := htonl 9000, ack_seq := htonl 0, doff := 5,
      fin := false, syn := true, rst := false, ack := false }
    0 s rfl rfl rfl rfl (by rw [hsec]; exact h.last_access) h.closed
    (by rw [hsec]; exact h.clean)
    (by rw [closing_id_out]; exact hfound) hs hst
    (by rw [h.lower]; simp only [SM_TIMER_QUEUE_LENGTH]; omega)
    (by rw [h.length])
    (by
      intro pos queued hpos hq
      obtain ⟨j, hj, hj0, hjlt⟩ := hslot pos hpos
      rw [hj] at hq
      simp only [Option.some.injEq] at hq
      subst hq
      obtain ⟨q, hq⟩ := Option.ne_none_iff_exists'.mp (h.present j hjlt)
      obtain ⟨-, hqid, -⟩ := h.records j q hq
      refine ⟨q, hq, ?_⟩
      rw [hqid, hid]
      intro e
      exact hj0 (closing_flow_id_inj j 0 e))
  refine ⟨m, states, hrun, hm, h.length, ?_, ?_, hfound,
    ⟨s, hs, hid, hst, hwf.time_wait 0 s hs hst⟩, ?_, hrec.1, hrec.2⟩
  · rw [h.warnings]
    simp [SM_TIMER_QUEUE_LENGTH]
  · rw [h.slots 0 (by simp only [SM_TIMER_QUEUE_LENGTH]; omega)
      (by simp only [SM_TIMER_QUEUE_LENGTH]; omega)]
    simp [SM_TIMER_QUEUE_LENGTH]
  · intro i hi
    obtain ⟨j, hj, hj0, -⟩ := hslot i hi
    rw [hj]
    intro e
    simp only [Option.some.injEq] at e
    exact hj0 e

/-- C40, the failing input in the second 1500000000 (a capture of the year
2017). -/
theorem time_wait_overflow_recursion_witness :
    1500000000 < 4294967296 ∧
    ∃ m states, session_manager_run 2 session_manager_create (overflow_trace 1500000000)
        = .ok (m, states)
      ∧ Reachable m
      ∧ m.waiting_sessions.length = SM_TIMER_QUEUE_LENGTH + 1
      ∧ m.warnings = 1
      ∧ m.waiting_sessions.sessions 0 = some SM_TIMER_QUEUE_LENGTH
      ∧ hashtable_retrieve m.heap m.hashtable (closing_flow_id 0) = .ok (some 0)
      ∧ (∃ s, m.heap 0 = some s ∧ s.id = closing_flow_id 0
          ∧ s.state = tcp_conn_state_t.TIME_WAIT ∧ s.waiting = 1)
      ∧ (∀ i, i < SM_TIMER_QUEUE_LENGTH → m.waiting_sessions.sessions i ≠ some 0)
      ∧ timer_queue_free_early m 0 = .ok m
      ∧ ∀ depth, session_manager_update depth m (overflow_syn 1500000000)
          = .error fault.out_of_fuel :=
  ⟨by norm_num, time_wait_overflow_recursion 1500000000 0 (by norm_num)⟩

end TcpTools
